import Mathlib

/-!
# ESTree converter of tsgolint

A shallow embedding of `internal/eslint_compat/estree/converter.go`.

* Native nodes (`*ast.Node`) live in an arena owned by the source file; a pointer is an
  index into it, so that pointer identity is index equality.
* Converted nodes (the Go structs behind `NodeWithRange`) live in a heap owned by the
  converter; `&X{...}` appends a cell, `setRange`, `setLoc` and `setProperty` overwrite one.
* The queries of the TypeScript front end (`scanner.GetLineAndCharacterOfPosition`,
  `scanner.GetTokenPosOfNode`, `scanner.GetRangeOfTokenAtPosition`, the modifier flag mask)
  are data of the source file: the converter only reads them.
-/

namespace estree

/-! ## Positions -/

/-- Go `Range`, the array `[2]int` of byte offsets: `r.1` is `r[0]`, `r.2` is `r[1]`. -/
abbrev Range := Int × Int

/-- Go `Position`: 1-based line, 0-based column. -/
structure Position where
  Line : Int := 0
  Column : Int := 0
deriving DecidableEq, Repr, Inhabited

/-- Go `SourceLocation`. -/
structure SourceLocation where
  Start : Position := {}
  End : Position := {}
deriving DecidableEq, Repr, Inhabited

/-! ## Native tree -/

namespace ast

/-- The `ast.Kind` values the converter inspects. -/
inductive Kind where
  | Unknown
  | AbstractKeyword | AccessorKeyword | AnyKeyword | ArrayBindingPattern
  | ArrayLiteralExpression | ArrayType | ArrowFunction | AsExpression | AsyncKeyword
  | AwaitExpression | AwaitKeyword | BigIntKeyword | BigIntLiteral | BinaryExpression
  | BindingElement | Block | BooleanKeyword | BreakStatement | CallExpression | CallSignature
  | CaseClause | CatchClause | ClassDeclaration | ClassExpression
  | ClassStaticBlockDeclaration | CommaToken | ComputedPropertyName | ConditionalExpression
  | ConditionalType | ConstKeyword | ConstructSignature | Constructor | ConstructorType
  | ContinueStatement | DebuggerStatement | DeclareKeyword | Decorator | DefaultClause
  | DefaultKeyword | DeleteExpression | DoStatement | ElementAccessExpression | EmptyStatement
  | EndOfFile | EnumDeclaration | EnumMember | ExclamationToken | ExportAssignment
  | ExportDeclaration | ExportKeyword | ExportSpecifier | ExpressionStatement
  | ExpressionWithTypeArguments | ExtendsKeyword | ExternalModuleReference | FalseKeyword
  | ForInStatement | ForOfStatement | ForStatement | FunctionDeclaration | FunctionExpression
  | FunctionType | GetAccessor | GlobalKeyword | HeritageClause | Identifier | IfStatement
  | ImplementsKeyword | ImportAttribute | ImportClause | ImportDeclaration
  | ImportEqualsDeclaration | ImportKeyword | ImportSpecifier | ImportType | InKeyword
  | IndexSignature | IndexedAccessType | InferType | InterfaceDeclaration | IntersectionType
  | IntrinsicKeyword | JsxAttribute | JsxClosingElement | JsxClosingFragment | JsxElement
  | JsxExpression | JsxFragment | JsxNamespacedName | JsxOpeningElement | JsxOpeningFragment
  | JsxSelfClosingElement | JsxSpreadAttribute | JsxText | LabeledStatement
  | LessThanSlashToken | LessThanToken | LiteralType | MappedType | MetaProperty
  | MethodDeclaration | MethodSignature | MinusMinusToken | ModuleBlock | ModuleDeclaration
  | NamedExports | NamedImports | NamedTupleMember | NamespaceExport
  | NamespaceExportDeclaration | NamespaceImport | NamespaceKeyword | NeverKeyword
  | NewExpression | NoSubstitutionTemplateLiteral | NonNullExpression | NullKeyword
  | NumberKeyword | NumericLiteral | ObjectBindingPattern | ObjectKeyword
  | ObjectLiteralExpression | OmittedExpression | OptionalType | OutKeyword | OverrideKeyword
  | Parameter | ParenthesizedExpression | ParenthesizedType | PlusPlusToken
  | PostfixUnaryExpression | PrefixUnaryExpression | PrivateIdentifier | PrivateKeyword
  | PropertyAccessExpression | PropertyAssignment | PropertyDeclaration | PropertySignature
  | ProtectedKeyword | PublicKeyword | QualifiedName | QuestionToken | ReadonlyKeyword
  | RegularExpressionLiteral | RestType | ReturnStatement | SatisfiesExpression
  | SemicolonClassElement | SetAccessor | ShorthandPropertyAssignment | SlashToken
  | SourceFile | SpreadAssignment | SpreadElement | StaticKeyword | StringKeyword
  | StringLiteral | SuperKeyword | SwitchStatement | SymbolKeyword
  | TaggedTemplateExpression | TemplateExpression | TemplateHead | TemplateLiteralType
  | TemplateMiddle | TemplateTail | ThisKeyword | ThisType | ThrowStatement | TrueKeyword
  | TryStatement | TupleType | TypeAliasDeclaration | TypeAssertionExpression | TypeLiteral
  | TypeOfExpression | TypeOperator | TypeParameter | TypePredicate | TypeQuery
  | TypeReference | UndefinedKeyword | UnionType | UnknownKeyword | VariableDeclaration
  | VariableDeclarationList | VariableStatement | VoidExpression | VoidKeyword
  | WhileStatement | WithStatement | YieldExpression
  | AmpersandAmpersandToken | BarBarToken | EqualsToken | PlusEqualsToken | PlusToken
  | QuestionDotToken | QuestionQuestionToken | JsxAttributes
  | SingleLineCommentTrivia | MultiLineCommentTrivia | GreaterThanToken | ClassKeyword
deriving DecidableEq, Repr, Inhabited

/-- Pointer `*ast.Node`: an index into the arena of the source file. -/
abbrev NodePtr := Nat

/-- Go `*ast.NodeList`: its own text range and the nodes it holds. -/
structure NodeList where
  Pos : Int := 0
  End : Int := 0
  Nodes : List NodePtr := []
deriving DecidableEq, Repr, Inhabited

/-- One native node, as far as the converter reads it. `TokenPos` is the value of
`scanner.GetTokenPosOfNode(node, sourceFile, false)`; `ModifierFlags` the value of
`node.ModifierFlags()`; `Modifiers` the value of `node.ModifierNodes()` (`none` is the nil
slice); `SourceText` the value of `scanner.GetSourceTextOfNodeFromSourceFile(sourceFile,
node, false)`; `IsGlobalScopeAugmentation` the value of
`ast.IsGlobalScopeAugmentation(node)`; `Reparsed` whether `node.Flags` has
`ast.NodeFlagsReparsed`. The other fields are the kind-specific accessors, `none` being
nil. -/
structure Node where
  Kind : ast.Kind := ast.Kind.Unknown
  Pos : Int := 0
  End : Int := 0
  TokenPos : Int := 0
  Parent : Option NodePtr := none
  ModifierFlags : Nat := 0
  Modifiers : Option (List NodePtr) := none
  Name : Option NodePtr := none
  Type_ : Option NodePtr := none
  Initializer : Option NodePtr := none
  Expression : Option NodePtr := none
  Body : Option NodePtr := none
  DotDotDotToken : Option NodePtr := none
  QuestionToken : Option NodePtr := none
  AsteriskToken : Option NodePtr := none
  Parameters : Option NodeList := none
  TypeParameters : Option NodeList := none
  Statements : Option NodeList := none
  Members : Option NodeList := none
  Elements : Option NodeList := none
  HeritageClauses : Option NodeList := none
  Types : Option NodeList := none
  TypeArguments : Option NodeList := none
  PostfixToken : Option NodePtr := none
  Left : Option NodePtr := none
  Token : ast.Kind := ast.Kind.Unknown
  ExternalModuleIndicator : Option NodePtr := none
  Constraint : Option NodePtr := none
  DefaultType : Option NodePtr := none
  Text : String := ""
  SourceText : String := ""
  QuestionDotToken : Option NodePtr := none
  ArgumentExpression : Option NodePtr := none
  Arguments : Option NodeList := none
  OperatorToken : Option NodePtr := none
  Right : Option NodePtr := none
  Properties : Option NodeList := none
  ObjectAssignmentInitializer : Option NodePtr := none
  ParameterName : Option NodePtr := none
  AssertsModifier : Option NodePtr := none
  Keyword : ast.Kind := ast.Kind.Unknown
  IsGlobalScopeAugmentation : Bool := false
  OpeningElement : Option NodePtr := none
  ClosingElement : Option NodePtr := none
  Children : Option NodeList := none
  TagName : Option NodePtr := none
  Attributes : Option NodePtr := none
  Namespace : Option NodePtr := none
  Reparsed : Bool := false
deriving DecidableEq, Repr, Inhabited

/-- The kind constants of package `ast` as the token extractor compares them: `ord` is the
numeric value of a constant, the other fields are the numeric values of the bounds
`ast.KindFirstKeyword`, `ast.KindLastFutureReservedWord`, ..., `GetIdentifierToken` is
`scanner.GetIdentifierToken` (the numeric value of the kind it returns), and `IsTokenKind`
is `ast.IsTokenKind`. -/
structure KindTable where
  ord : Kind → Nat := fun _ => 0
  FirstKeyword : Nat := 0
  LastFutureReservedWord : Nat := 0
  FirstFutureReservedWord : Nat := 0
  LastKeyword : Nat := 0
  FirstPunctuation : Nat := 0
  LastPunctuation : Nat := 0
  FirstTemplateToken : Nat := 0
  LastTemplateToken : Nat := 0
  GetIdentifierToken : String → Nat := fun _ => 0
  IsTokenKind : Kind → Bool := fun _ => false

/-- What the scanner reports after `s.ResetPos(pos); s.Scan()`: `s.Token()`,
`s.TokenStart()` and `s.TokenEnd()`. -/
structure ScanResult where
  Token : Kind := Kind.EndOfFile
  TokenStart : Int := 0
  TokenEnd : Int := 0
deriving DecidableEq, Repr, Inhabited

/-- A comment as `utils.GetCommentsInRange` yields it: `cm.Kind`, `cm.Pos()`, `cm.End()`. -/
structure CommentRange where
  Kind : ast.Kind := Kind.SingleLineCommentTrivia
  Pos : Int := 0
  End : Int := 0
deriving DecidableEq, Repr, Inhabited

/-- Go `*ast.SourceFile` together with the front-end queries the converter calls on it.
`GetLineAndCharacterOfPosition` is `scanner.GetLineAndCharacterOfPosition` (0-based line and
character), `GetRangeOfTokenAtPosition` is `scanner.GetRangeOfTokenAtPosition` (the
`core.TextRange` as `(Pos, End)`), `ModifierFlagsModifier` is the constant
`ast.ModifierFlagsModifier`, and `Root` is `sourceFile.AsNode()`. The tables of the front
end that the converter consults are carried along: `IsAssignmentOperator` is
`ast.IsAssignmentOperator`, `IsLogicalOrCoalescingBinaryOperator` is
`ast.IsLogicalOrCoalescingBinaryOperator`, and `TokenToString` is `scanner.TokenToString`.
For the token extractor and the linter: `Text` is the source text, `LineMap` the value of
`file.LineMap()`, `Kinds` the kind constants, `Scan pos` what a scanner over `Text` reports
for the token it scans from `pos`, and `GetCommentsInRange` is `utils.GetCommentsInRange`
on the range `(Pos, End)`, and `ForEachChild node` lists the children `node.ForEachChild`
visits, in its order. -/
structure SourceFile where
  Nodes : List Node := []
  Root : NodePtr := 0
  GetLineAndCharacterOfPosition : Int → Int × Int := fun p => (0, p)
  GetRangeOfTokenAtPosition : Int → Int × Int := fun p => (p, p)
  ModifierFlagsModifier : Nat := 0
  IsAssignmentOperator : Kind → Bool := fun _ => false
  IsLogicalOrCoalescingBinaryOperator : Kind → Bool := fun _ => false
  TokenToString : Kind → String := fun _ => ""
  Text : String := ""
  LineMap : List Int := [0]
  Kinds : KindTable := {}
  Scan : Int → ScanResult := fun _ => {}
  GetCommentsInRange : Int × Int → List CommentRange := fun _ => []
  ForEachChild : NodePtr → List NodePtr := fun _ => []

/-- Dereference of a native pointer. -/
def SourceFile.node (sf : SourceFile) (p : NodePtr) : Node :=
  sf.Nodes.getD p default

end ast

/-! ## Converted tree -/

/-- The `ESTreeKind` tags. -/
inductive ESTreeKind where
  | AccessorProperty | ArrayExpression | ArrayPattern | ArrowFunctionExpression
  | AssignmentExpression | AssignmentPattern | AwaitExpression | BinaryExpression
  | BlockStatement | BreakStatement | CallExpression | CatchClause | ChainExpression
  | ClassBody | ClassDeclaration | ClassExpression | ConditionalExpression
  | ContinueStatement | DebuggerStatement | Decorator | DoWhileStatement | EmptyStatement
  | ExportAllDeclaration | ExportDefaultDeclaration | ExportNamedDeclaration
  | ExportSpecifier | ExpressionStatement | ForInStatement | ForOfStatement | ForStatement
  | FunctionDeclaration | FunctionExpression | Identifier | IfStatement | ImportAttribute
  | ImportDeclaration | ImportDefaultSpecifier | ImportExpression
  | ImportNamespaceSpecifier | ImportSpecifier | JSXAttribute | JSXClosingElement
  | JSXClosingFragment | JSXElement | JSXEmptyExpression | JSXExpressionContainer
  | JSXFragment | JSXIdentifier | JSXMemberExpression | JSXNamespacedName
  | JSXOpeningElement | JSXOpeningFragment | JSXSpreadAttribute | JSXSpreadChild | JSXText
  | LabeledStatement | Literal | LogicalExpression | MemberExpression | MetaProperty
  | MethodDefinition | NewExpression | ObjectExpression | ObjectPattern | PrivateIdentifier
  | Program | Property | PropertyDefinition | RestElement | ReturnStatement
  | SequenceExpression | SpreadElement | StaticBlock | Super | SwitchCase | SwitchStatement
  | TSAbstractAccessorProperty | TSAbstractKeyword | TSAbstractMethodDefinition
  | TSAbstractPropertyDefinition | TSAnyKeyword | TSArrayType | TSAsExpression
  | TSBigIntKeyword | TSBooleanKeyword | TSCallSignatureDeclaration | TSClassImplements
  | TSConditionalType | TSConstructSignatureDeclaration | TSConstructorType
  | TSDeclareFunction | TSEmptyBodyFunctionExpression | TSEnumBody | TSEnumDeclaration
  | TSEnumMember | TSExportAssignment | TSExternalModuleReference | TSFunctionType
  | TSImportEqualsDeclaration | TSImportType | TSIndexSignature | TSIndexedAccessType
  | TSInferType | TSInstantiationExpression | TSInterfaceBody | TSInterfaceDeclaration
  | TSInterfaceHeritage | TSIntersectionType | TSIntrinsicKeyword | TSLiteralType
  | TSMappedType | TSMethodSignature | TSModuleBlock | TSModuleDeclaration
  | TSNamedTupleMember | TSNamespaceExportDeclaration | TSNeverKeyword
  | TSNonNullExpression | TSNullKeyword | TSNumberKeyword | TSObjectKeyword
  | TSOptionalType | TSParameterProperty | TSPropertySignature | TSQualifiedName
  | TSRestType | TSSatisfiesExpression | TSStringKeyword | TSSymbolKeyword
  | TSTemplateLiteralType | TSThisType | TSTupleType | TSTypeAliasDeclaration
  | TSTypeAnnotation | TSTypeAssertion | TSTypeLiteral | TSTypeOperator
  | TSTypeParameter | TSTypeParameterDeclaration | TSTypeParameterInstantiation
  | TSTypePredicate | TSTypeQuery | TSTypeReference | TSUndefinedKeyword | TSUnionType
  | TSUnknownKeyword | TSVoidKeyword | TaggedTemplateExpression | TemplateElement
  | TemplateLiteral | ThisExpression | ThrowStatement | TryStatement | UnaryExpression
  | UpdateExpression | VariableDeclaration | VariableDeclarator | WhileStatement
  | WithStatement | YieldExpression
deriving DecidableEq, Repr, Inhabited

/-- Pointer to a converted node: an index into the heap of the converter. -/
abbrev Ptr := Nat

/-- A field value of a converted node: nil, a boolean, a string, a node, or a list of
nodes in which nil entries may occur. -/
inductive Value where
  | null
  | bool (b : Bool)
  | str (s : String)
  | node (p : Ptr)
  | list (ps : List (Option Ptr))
deriving DecidableEq, Repr, Inhabited

/-- A converted node (any Go struct behind `NodeWithRange`): its `Type` tag, `Range`, `Loc`,
and its other fields by name, as `reflect` sees them. A field that is not listed holds its
zero value. -/
structure ESTreeNode where
  Type_ : ESTreeKind := ESTreeKind.Identifier
  Range : Range := (0, 0)
  Loc : SourceLocation := {}
  Fields : List (String × Value) := []
deriving DecidableEq, Repr, Inhabited

/-- Read of the field `name`, nil when it is not listed. -/
def ESTreeNode.field (n : ESTreeNode) (name : String) : Value :=
  (n.Fields.lookup name).getD Value.null

/-- Write of the field `name`. -/
def ESTreeNode.setField (n : ESTreeNode) (name : String) (v : Value) : ESTreeNode :=
  { n with Fields := (name, v) :: n.Fields.filter (fun f => f.1 != name) }

/-- Go `converter`: the source file, the heap of converted nodes, the two registries and
the pattern flag. A registry is a Go map: `none` is a missing key; in `tsNodeToESTreeNodeMap`
the value `some none` would be a key bound to nil. -/
structure converter where
  sourceFile : ast.SourceFile := {}
  heap : List ESTreeNode := []
  esTreeNodeToTSNodeMap : Ptr → Option ast.NodePtr := fun _ => none
  tsNodeToESTreeNodeMap : ast.NodePtr → Option (Option Ptr) := fun _ => none
  allowPattern : Bool := false

namespace converter

/-- Dereference of a converted-node pointer. -/
def get (c : converter) (p : Ptr) : ESTreeNode :=
  c.heap.getD p default

/-- The allocation `&X{...}`: a fresh cell at the end of the heap. -/
def new (c : converter) (data : ESTreeNode) : Ptr × converter :=
  (c.heap.length, { c with heap := c.heap ++ [data] })

/-- Go `setRange` on the node behind `p`. -/
def setRange (c : converter) (p : Ptr) (r : Range) : converter :=
  { c with heap := c.heap.set p { c.get p with Range := r } }

/-- Go `setLoc` on the node behind `p`. -/
def setLoc (c : converter) (p : Ptr) (l : SourceLocation) : converter :=
  { c with heap := c.heap.set p { c.get p with Loc := l } }

/-- Go `setProperty(d, propertyName, propertyValue)`. -/
def setProperty (c : converter) (p : Ptr) (name : String) (v : Value) : converter :=
  { c with heap := c.heap.set p ((c.get p).setField name v) }

/-- Go `getNodeStart`: `scanner.GetTokenPosOfNode(node, c.sourceFile, false)`. -/
def getNodeStart (c : converter) (node : ast.NodePtr) : Int :=
  (c.sourceFile.node node).TokenPos

/-- Go `getRange`. -/
def getRange (c : converter) (node : ast.NodePtr) : Range :=
  (c.getNodeStart node, (c.sourceFile.node node).End)

end converter

/-- Go `getLineAndCharacterFor`. -/
def getLineAndCharacterFor (pos : Int) (sourceFile : ast.SourceFile) : Position :=
  let lc := sourceFile.GetLineAndCharacterOfPosition pos
  { Column := lc.2, Line := lc.1 + 1 }

namespace converter

/-- Go `getLocFor`. -/
def getLocFor (c : converter) (r : Range) : SourceLocation :=
  { Start := getLineAndCharacterFor r.1 c.sourceFile
    End := getLineAndCharacterFor r.2 c.sourceFile }

/-- Go `createNode`, applied to the pointer `data` of the freshly built struct. -/
def createNode (c : converter) (node : ast.NodePtr) (data : Ptr) : Ptr × converter :=
  let r := (c.get data).Range
  let rc : Range × converter :=
    if r.1 = 0 ∧ r.2 = 0 then (c.getRange node, c.setRange data (c.getRange node)) else (r, c)
  let r := rc.1
  let c := rc.2
  let l := (c.get data).Loc
  let c :=
    if l.Start.Line = 0 ∧ l.Start.Column = 0 ∧ l.End.Line = 0 ∧ l.End.Column = 0 then
      c.setLoc data (c.getLocFor r)
    else c
  (data, { c with esTreeNodeToTSNodeMap := Function.update c.esTreeNodeToTSNodeMap data (some node) })

/-- Go `registerTSNodeInNodeMap`; `result` is `none` for nil. -/
def registerTSNodeInNodeMap (c : converter) (node : ast.NodePtr) (result : Option Ptr) :
    converter :=
  match result with
  | none => c
  | some _ =>
    match c.tsNodeToESTreeNodeMap node with
    | some _ => c
    | none =>
      { c with tsNodeToESTreeNodeMap := Function.update c.tsNodeToESTreeNodeMap node (some result) }

/-- Go `fixParentLocation`. -/
def fixParentLocation (c : converter) (result child : Ptr) : converter :=
  let r := (c.get result).Range
  let l := (c.get result).Loc
  let childRange := (c.get child).Range
  let childLoc := (c.get child).Loc
  let s : Range × SourceLocation × converter :=
    if childRange.1 < r.1 then
      let r1 : Range := (childRange.1, r.2)
      let c1 := c.setRange result r1
      let l1 : SourceLocation := { Start := childLoc.Start, End := l.End }
      (r1, l1, c1.setLoc result l1)
    else (r, l, c)
  let r := s.1
  let l := s.2.1
  let c := s.2.2
  if childRange.2 > r.2 then
    let r2 : Range := (r.1, childRange.2)
    let c2 := c.setRange result r2
    let l2 : SourceLocation := { Start := l.Start, End := childLoc.End }
    c2.setLoc result l2
  else c

end converter

end estree


/-! ## Conversion helpers -/

namespace estree

/-- The ways the Go code stops without a result. `outOfFuel` and `notModelled` belong to
the embedding: a loop or recursion bound that was too small, and a node kind that the Go
switch handles but whose case is not embedded here. -/
inductive Panic where
  | unknownKind
  | typeAssertion
  | nilDereference
  | sliceBounds
  | outOfFuel
  | notModelled
deriving DecidableEq, Repr, Inhabited

/-- A method of the converter: it reads and writes the converter and may panic. -/
abbrev M (α : Type) := StateT converter (Except Panic) α

/-- Go `c.converter(node, parent, allowPattern)` as seen by its callers. -/
abbrev Conv := Option ast.NodePtr → Option ast.NodePtr → Bool → M (Option Ptr)

/-- The length of a Go string: the number of bytes of its UTF-8 encoding. -/
def byteLen (s : List Char) : Nat :=
  (s.map Char.utf8Size).sum

/-- The characters of `s` that start at a byte offset in `[lo, hi)`, `off` being the offset
of the first one. -/
def charsBetween : List Char → Nat → Nat → Nat → List Char
  | [], _, _, _ => []
  | ch :: rest, off, lo, hi =>
    if lo ≤ off ∧ off < hi then ch :: charsBetween rest (off + ch.utf8Size) lo hi
    else charsBetween rest (off + ch.utf8Size) lo hi

/-- The Go slice expression `s[lo:hi]` on a string, the offsets in bytes: `none` when it
panics, which it does unless `0 <= lo <= hi <= len(s)`. -/
def sliceOf (s : String) (lo hi : Int) : Option String :=
  if 0 ≤ lo ∧ lo ≤ hi ∧ hi ≤ (byteLen s.data : Int) then
    some (String.mk (charsBetween s.data 0 lo.toNat hi.toNat))
  else none

/-- Go `strings.LastIndex(value, "/")` on the characters from byte offset `off` on: the
byte offset of the last `/`, if there is one. -/
def lastSlash : List Char → Nat → Option Nat
  | [], _ => none
  | ch :: rest, off =>
    match lastSlash rest (off + ch.utf8Size) with
    | some i => some i
    | none => if ch = '/' then some off else none

/-- The split of the text of a regular expression literal (lines 2146-2148):
`terminatorIndex := strings.LastIndex(text, "/")`, then `text[1:terminatorIndex]` and
`text[terminatorIndex+1:]`; `none` when a slice panics. -/
def regexParts (text : String) : Option (String × String) :=
  let terminatorIndex : Int :=
    match lastSlash text.data 0 with
    | some i => i
    | none => -1
  match sliceOf text 1 terminatorIndex,
      sliceOf text (terminatorIndex + 1) (byteLen text.data) with
  | some pattern, some flags => some (pattern, flags)
  | _, _ => none

/-- Go `Filter`. -/
def Filter {α : Type} (slice : List α) (f : α → Bool) : List α :=
  slice.filter f

/-- Go `Map` with a callback that runs on the converter, applied left to right. -/
def Map {α β : Type} (slice : List α) (f : α → M β) : M (List β) :=
  match slice with
  | [] => pure []
  | value :: rest => do
    let b ← f value
    let bs ← Map rest f
    pure (b :: bs)

/-- The Go value of a `[]any` built by `Map`: nil for an empty input. -/
def Value.ofMapped (ps : List (Option Ptr)) : Value :=
  if ps.isEmpty then Value.null else Value.list ps

/-- The Go value of a converted child: nil or the node. -/
def Value.ofOption (p : Option Ptr) : Value :=
  match p with
  | none => Value.null
  | some q => Value.node q

/-- The Go value of a slice of non-nil nodes. -/
def Value.ofPtrs (ps : List Ptr) : Value :=
  Value.list (ps.map some)

/-- Go `hasModifier`. -/
def hasModifier (sf : ast.SourceFile) (modifier : ast.Kind) (node : ast.NodePtr) : Bool :=
  match (sf.node node).Modifiers with
  | none => false
  | some modifiers => modifiers.any (fun m => (sf.node m).Kind == modifier)

/-- Go `getModifiers`; `none` is the nil slice. -/
def getModifiers (sf : ast.SourceFile) (node : ast.NodePtr) : Option (List ast.NodePtr) :=
  if (sf.node node).ModifierFlags &&& sf.ModifierFlagsModifier = 0 then none
  else
    match (sf.node node).Modifiers with
    | none => none
    | some modifiers => some (Filter modifiers (fun n => (sf.node n).Kind != ast.Kind.Decorator))

/-- The loop of Go `getNamespaceModifiers`, with a bound on the number of iterations. -/
def getNamespaceModifiersLoop (sf : ast.SourceFile) :
    Nat → Option (List ast.NodePtr) → ast.NodePtr → Except Panic (Option (List ast.NodePtr))
  | 0, _, _ => Except.error Panic.outOfFuel
  | fuel + 1, modifiers, moduleDeclaration =>
    if (modifiers.getD []).isEmpty then
      match (sf.node moduleDeclaration).Parent with
      | none => Except.error Panic.nilDereference
      | some parent =>
        if (sf.node parent).Kind = ast.Kind.ModuleDeclaration then
          let parentModifiers := (sf.node parent).Modifiers
          let modifiers :=
            if (parentModifiers.getD []).isEmpty then modifiers else parentModifiers
          getNamespaceModifiersLoop sf fuel modifiers parent
        else Except.ok modifiers
    else Except.ok modifiers

/-- Go `getNamespaceModifiers`. Each iteration climbs to the parent, so the number of nodes
bounds the iterations on a tree. -/
def getNamespaceModifiers (sf : ast.SourceFile) (node : ast.NodePtr) :
    Except Panic (Option (List ast.NodePtr)) :=
  getNamespaceModifiersLoop sf (sf.Nodes.length + 1) (sf.node node).Modifiers node

/-- The modifiers `fixExports` works on (its first statements, up to the test of
`modifiers[0]`). -/
def fixExportsModifiers (sf : ast.SourceFile) (node : ast.NodePtr) :
    Except Panic (Option (List ast.NodePtr)) :=
  if (sf.node node).Kind = ast.Kind.ModuleDeclaration then
    match (sf.node node).Name with
    | none => Except.error Panic.nilDereference
    | some name =>
      if (sf.node name).Kind ≠ ast.Kind.StringLiteral then getNamespaceModifiers sf node
      else Except.ok (getModifiers sf node)
  else Except.ok (getModifiers sf node)

namespace converter

/-- Go `fixExports`. -/
def fixExports (c : converter) (node : ast.NodePtr) (result : Ptr) :
    Except Panic (Ptr × converter) :=
  match fixExportsModifiers c.sourceFile node with
  | Except.error e => Except.error e
  | Except.ok modifiers =>
    match modifiers.getD [] with
    | [] => Except.ok (result, c)
    | exportKeyword :: rest =>
      if (c.sourceFile.node exportKeyword).Kind ≠ ast.Kind.ExportKeyword then
        Except.ok (result, c)
      else
        let c := c.registerTSNodeInNodeMap node (some result)
        let declarationIsDefault : Bool :=
          match rest with
          | [] => false
          | m :: _ => (c.sourceFile.node m).Kind == ast.Kind.DefaultKeyword
        let varTokenRange : Int × Int :=
          match rest with
          | [] => c.sourceFile.GetRangeOfTokenAtPosition (c.sourceFile.node exportKeyword).End
          | m :: _ =>
            if declarationIsDefault then
              c.sourceFile.GetRangeOfTokenAtPosition (c.sourceFile.node m).End
            else c.sourceFile.GetRangeOfTokenAtPosition (c.sourceFile.node exportKeyword).End
        let r : Range := (varTokenRange.1, (c.get result).Range.2)
        let c := c.setRange result r
        let c := c.setLoc result (c.getLocFor r)
        if declarationIsDefault then
          let pc := c.new
            { Type_ := ESTreeKind.ExportDefaultDeclaration
              Range := (c.getNodeStart exportKeyword, r.2)
              Fields := [("Declaration", Value.node result), ("ExportKind", Value.str "value")] }
          Except.ok (pc.2.createNode node pc.1)
        else
          let isType : Bool :=
            (c.get result).Type_ == ESTreeKind.TSInterfaceDeclaration
              || (c.get result).Type_ == ESTreeKind.TSTypeAliasDeclaration
          let isDeclare : Bool := (c.get result).field "Declare" == Value.bool true
          let exportKind := if isType || isDeclare then "type" else "value"
          let pc := c.new
            { Type_ := ESTreeKind.ExportNamedDeclaration
              Range := (c.getNodeStart exportKeyword, r.2)
              Fields := [("Attributes", Value.list []), ("Declaration", Value.node result),
                         ("ExportKind", Value.str exportKind), ("Specifiers", Value.list [])] }
          Except.ok (pc.2.createNode node pc.1)

end converter

/-- The allocation `&X{...}` as a step of a method. -/
def newNode (data : ESTreeNode) : M Ptr :=
  fun c => Except.ok (c.new data)

/-- Go `c.createNode(node, &X{...})`: the struct is allocated, then `createNode` runs. -/
def createNode (node : ast.NodePtr) (data : ESTreeNode) : M Ptr :=
  fun c => Except.ok ((c.new data).2.createNode node (c.new data).1)

/-- Go `c.fixExports(node, result)` as a step of a method. -/
def fixExports (node : ast.NodePtr) (result : Ptr) : M Ptr :=
  fun c => c.fixExports node result

/-- The type assertion `x.(*T)` on a converted child, the Go type of a node being read off
its tag: it panics on nil and on any other type. -/
def assertType (T : ESTreeKind) (x : Option Ptr) : M Ptr :=
  match x with
  | none => throw Panic.typeAssertion
  | some p => do
    let c ← get
    if (c.get p).Type_ = T then pure p else throw Panic.typeAssertion

/-- The type assertion `x.(any)` and the use of a child as a node: it panics on nil. -/
def assertNonNil (x : Option Ptr) : M Ptr :=
  match x with
  | none => throw Panic.typeAssertion
  | some p => pure p

/-- Go `convertChildT[*T]`: nil passes when the child itself is nil. -/
def convertChildT (conv : Conv) (T : ESTreeKind) (child parent : Option ast.NodePtr) :
    M (Option Ptr) := do
  let res ← conv child parent false
  match res with
  | none => if child.isSome then throw Panic.typeAssertion else pure none
  | some p =>
    let c ← get
    if (c.get p).Type_ = T then pure (some p)
    else if child.isSome then throw Panic.typeAssertion else pure none

/-- Go `convertTypeAnnotation`. -/
def convertTypeAnnotation (conv : Conv) (child parent : Option ast.NodePtr) :
    M (Option Ptr) :=
  match child with
  | none => pure none
  | some child => do
    let sf := (← get).sourceFile
    let offset : Int :=
      match parent with
      | none => 1
      | some p =>
        if (sf.node p).Kind = ast.Kind.FunctionType ∨ (sf.node p).Kind = ast.Kind.ConstructorType
        then 2 else 1
    let annotationStartCol := (sf.node child).Pos - offset
    let inner ← conv (some child) none false
    let result ← newNode
      { Type_ := ESTreeKind.TSTypeAnnotation
        Fields := [("TypeAnnotation", Value.ofOption inner)] }
    let r : Range := (annotationStartCol, (sf.node child).End)
    modify (fun c => c.setRange result r)
    modify (fun c => c.setLoc result (c.getLocFor r))
    pure (some result)

/-- Go `convertNodeListToChildren[*T]`, for `T` given by its tag. -/
def convertNodeListToChildrenT (conv : Conv) (T : ESTreeKind) (list : Option ast.NodeList) :
    M (List Ptr) :=
  match list with
  | none => pure []
  | some l => Map l.Nodes (fun n => do assertType T (← conv (some n) none false))

/-- Go `convertNodeListToChildren[any]`. -/
def convertNodeListToChildren (conv : Conv) (list : Option ast.NodeList) : M (List Ptr) :=
  match list with
  | none => pure []
  | some l => Map l.Nodes (fun n => do assertNonNil (← conv (some n) none false))

/-- Go `convertTSTypeParametersToTypeParametersDeclaration`. -/
def convertTSTypeParametersToTypeParametersDeclaration (conv : Conv)
    (typeParameters : Option ast.NodeList) : M (Option Ptr) :=
  match typeParameters with
  | none => pure none
  | some tp => do
    let c ← get
    let greaterThanTokenRange := c.sourceFile.GetRangeOfTokenAtPosition tp.End
    let r : Range := (tp.Pos - 1, greaterThanTokenRange.2)
    let params ← convertNodeListToChildrenT conv ESTreeKind.TSTypeParameter (some tp)
    let loc := c.getLocFor r
    let result ← newNode
      { Type_ := ESTreeKind.TSTypeParameterDeclaration
        Loc := loc
        Range := r
        Fields := [("Params", Value.ofPtrs params)] }
    pure (some result)

/-- Go `convertDecorators`. -/
def convertDecorators (conv : Conv) (node : ast.NodePtr) : M (List Ptr) := do
  let sf := (← get).sourceFile
  match (sf.node node).Modifiers with
  | none => pure []
  | some modifiers =>
    Map (modifiers.filter (fun m => (sf.node m).Kind == ast.Kind.Decorator))
      (fun m => do assertType ESTreeKind.Decorator (← conv (some m) none false))

/-- Go `convertParameters`. -/
def convertParameters (conv : Conv) (parameters : Option ast.NodeList) : M Value :=
  match parameters with
  | none => pure (Value.list [])
  | some ps => do
    let converted ← Map ps.Nodes (fun param => do
      let convertedParam ← conv (some param) none false
      match convertedParam with
      | none => throw Panic.nilDereference
      | some p =>
        let decorators ← convertDecorators conv param
        modify (fun c => c.setProperty p "Decorators" (Value.ofPtrs decorators))
        pure convertedParam)
    pure (Value.ofMapped converted)

/-- Go `convertBindingNameWithTypeAnnotation`. -/
def convertBindingNameWithTypeAnnotation (conv : Conv) (name tsType parent : Option ast.NodePtr) :
    M (Option Ptr) := do
  let id ← conv name none true
  match tsType with
  | none => pure id
  | some _ =>
    let typeAnnotation ← convertTypeAnnotation conv tsType parent
    match id, typeAnnotation with
    | some i, some t =>
      modify (fun c => c.setProperty i "TypeAnnotation" (Value.node t))
      modify (fun c => c.fixParentLocation i t)
      pure id
    | _, _ => throw Panic.nilDereference

/-- Go `getTSNodeAccessibility`. -/
def getTSNodeAccessibility (sf : ast.SourceFile) (node : ast.NodePtr) : Value :=
  match (sf.node node).Modifiers with
  | none => Value.null
  | some modifiers =>
    match modifiers.find? (fun m =>
        (sf.node m).Kind == ast.Kind.PublicKeyword || (sf.node m).Kind == ast.Kind.ProtectedKeyword
          || (sf.node m).Kind == ast.Kind.PrivateKeyword) with
    | none => Value.null
    | some m =>
      if (sf.node m).Kind = ast.Kind.PublicKeyword then Value.str "public"
      else if (sf.node m).Kind = ast.Kind.ProtectedKeyword then Value.str "protected"
      else Value.str "private"

/-- Go `canContainDirective`. -/
def canContainDirective (sf : ast.SourceFile) (node : ast.NodePtr) : Except Panic Bool :=
  if (sf.node node).Kind ≠ ast.Kind.Block then Except.ok true
  else
    match (sf.node node).Parent with
    | none => Except.error Panic.nilDereference
    | some parent =>
      Except.ok ((sf.node parent).Kind ∈
        [ast.Kind.Constructor, ast.Kind.GetAccessor, ast.Kind.SetAccessor, ast.Kind.ArrowFunction,
         ast.Kind.FunctionExpression, ast.Kind.FunctionDeclaration, ast.Kind.MethodDeclaration])

/-- The callback of `Map` in Go `convertBodyExpressions`, the captured `allowDirectives`
made explicit: it returns the converted statement and the new value of the variable. -/
def convertBodyStatement (conv : Conv) (allowDirectives : Bool) (statement : ast.NodePtr) :
    M (Option Ptr × Bool) := do
  let child ← conv (some statement) none false
  if allowDirectives then
    let sf := (← get).sourceFile
    match child with
    | none => pure (child, false)
    | some p =>
      if (sf.node statement).Kind = ast.Kind.ExpressionStatement then
        match (sf.node statement).Expression with
        | none => throw Panic.nilDereference
        | some e =>
          if (sf.node e).Kind = ast.Kind.StringLiteral then do
            modify (fun c => c.setProperty p "Directive" (Value.str (sf.node e).Text))
            pure (child, false)
          else pure (child, false)
      else pure (child, false)
  else pure (child, allowDirectives)

/-- The `Map` of Go `convertBodyExpressions` over the statements. -/
def convertBodyStatements (conv : Conv) (allowDirectives : Bool) (statements : List ast.NodePtr) :
    M (List (Option Ptr)) :=
  match statements with
  | [] => pure []
  | statement :: rest => do
    let r ← convertBodyStatement conv allowDirectives statement
    let rs ← convertBodyStatements conv r.2 rest
    pure (r.1 :: rs)

/-- Go `convertBodyExpressions`. -/
def convertBodyExpressions (conv : Conv) (nodes : Option ast.NodeList) (parent : ast.NodePtr) :
    M Value := do
  let sf := (← get).sourceFile
  match canContainDirective sf parent with
  | Except.error e => throw e
  | Except.ok allowDirectives =>
    match nodes with
    | none => throw Panic.nilDereference
    | some l =>
      let mapped ← convertBodyStatements conv allowDirectives l.Nodes
      pure (Value.ofMapped (Filter mapped (fun c => c.isSome)))

/-- The parent `converter.converter` hands to `convertNode`: `node.Parent` when the caller
gave none. -/
def parentOrOwn (sf : ast.SourceFile) (node : ast.NodePtr) (parent : Option ast.NodePtr) :
    Option ast.NodePtr :=
  match parent with
  | none => (sf.node node).Parent
  | some p => some p

/-- Go `converter.converter`, the call of `convertNode` left open. -/
def converterF (convertNode : ast.NodePtr → Option ast.NodePtr → M (Option Ptr)) : Conv :=
  fun node parent allowPattern =>
    match node with
    | none => pure none
    | some node => do
      let c ← get
      let pattern := c.allowPattern
      modify (fun c => { c with allowPattern := allowPattern })
      let parent := parentOrOwn c.sourceFile node parent
      let result ← convertNode node parent
      modify (fun c => c.registerTSNodeInNodeMap node result)
      modify (fun c => { c with allowPattern := pattern })
      pure result

end estree

/-! ## The dispatch on the node kind -/

namespace estree

/-- A dereference `p.f` of a converted child: it panics on nil. -/
def deref (p : Option Ptr) : M Ptr :=
  match p with
  | none => throw Panic.nilDereference
  | some q => pure q

/-- The read `p.Kind` of a native pointer that may be nil: it panics on nil. -/
def kindOf (sf : ast.SourceFile) (p : Option ast.NodePtr) : M ast.Kind :=
  match p with
  | none => throw Panic.nilDereference
  | some q => pure (sf.node q).Kind

/-- The test `token != nil && token.Kind == kind`. -/
def isTokenOfKind (sf : ast.SourceFile) (token : Option ast.NodePtr) (kind : ast.Kind) : Bool :=
  match token with
  | none => false
  | some t => (sf.node t).Kind == kind

/-- The loop of Go `isThisInTypeQuery`, with a bound on the number of iterations. -/
def isThisInTypeQueryLoop (sf : ast.SourceFile) : Nat → ast.NodePtr → Except Panic Bool
  | 0, _ => Except.error Panic.outOfFuel
  | fuel + 1, node =>
    match (sf.node node).Parent with
    | none => Except.error Panic.nilDereference
    | some parent =>
      if (sf.node parent).Kind = ast.Kind.QualifiedName ∧ (sf.node parent).Left = some node then
        isThisInTypeQueryLoop sf fuel parent
      else Except.ok ((sf.node parent).Kind == ast.Kind.TypeQuery)

/-- Go `isThisInTypeQuery`; `ast.IsThisIdentifier` is an identifier whose text is `this`. -/
def isThisInTypeQuery (sf : ast.SourceFile) (node : ast.NodePtr) : Except Panic Bool :=
  if (sf.node node).Kind = ast.Kind.Identifier ∧ (sf.node node).Text = "this" then
    isThisInTypeQueryLoop sf (sf.Nodes.length + 1) node
  else Except.ok false

/-- Go `convertTypeArgumentsToTypeParameterInstantiation`. -/
def convertTypeArgumentsToTypeParameterInstantiation (conv : Conv)
    (typeArguments : Option ast.NodeList) (node : ast.NodePtr) : M (Option Ptr) :=
  match typeArguments with
  | none => pure none
  | some ta => do
    let c ← get
    let greaterThanTokenRange := c.sourceFile.GetRangeOfTokenAtPosition ta.End
    let params ← convertNodeListToChildren conv (some ta)
    let p ← createNode node
      { Type_ := ESTreeKind.TSTypeParameterInstantiation
        Range := (ta.Pos - 1, greaterThanTokenRange.2)
        Fields := [("Params", Value.ofPtrs params)] }
    pure (some p)

/-- Go `convertMethodSignature`. -/
def convertMethodSignature (conv : Conv) (node : ast.NodePtr) : M (Option Ptr) := do
  let sf := (← get).sourceFile
  let n := sf.node node
  let name := n.Name
  let kind : String :=
    if n.Kind = ast.Kind.GetAccessor then "get"
    else if n.Kind = ast.Kind.SetAccessor then "set"
    else if n.Kind = ast.Kind.MethodSignature then "method" else ""
  let optional : Bool :=
    (n.Kind = ast.Kind.GetAccessor ∨ n.Kind = ast.Kind.SetAccessor ∨ n.Kind = ast.Kind.MethodSignature)
      && isTokenOfKind sf n.PostfixToken ast.Kind.QuestionToken
  let accessibility := getTSNodeAccessibility sf node
  let nameKind ← kindOf sf name
  let key ← conv name none false
  let params ← convertParameters conv n.Parameters
  let returnType ← convertTypeAnnotation conv n.Type_ (some node)
  let typeParameters ← convertTSTypeParametersToTypeParametersDeclaration conv n.TypeParameters
  let p ← createNode node
    { Type_ := ESTreeKind.TSMethodSignature
      Fields := [("Accessibility", accessibility),
                 ("Computed", Value.bool (nameKind == ast.Kind.ComputedPropertyName)),
                 ("Key", Value.ofOption key), ("Kind", Value.str kind),
                 ("Optional", Value.bool optional), ("Params", params),
                 ("Readonly", Value.bool (hasModifier sf ast.Kind.ReadonlyKeyword node)),
                 ("ReturnType", Value.ofOption returnType),
                 ("Static", Value.bool (hasModifier sf ast.Kind.StaticKeyword node)),
                 ("TypeParameters", Value.ofOption typeParameters)] }
  pure (some p)

/-- The keyword type nodes that convert to a childless node of the given tag. -/
def keywordType (kind : ast.Kind) : Option ESTreeKind :=
  match kind with
  | ast.Kind.ThisType => some ESTreeKind.TSThisType
  | ast.Kind.AnyKeyword => some ESTreeKind.TSAnyKeyword
  | ast.Kind.BigIntKeyword => some ESTreeKind.TSBigIntKeyword
  | ast.Kind.BooleanKeyword => some ESTreeKind.TSBooleanKeyword
  | ast.Kind.NeverKeyword => some ESTreeKind.TSNeverKeyword
  | ast.Kind.NumberKeyword => some ESTreeKind.TSNumberKeyword
  | ast.Kind.ObjectKeyword => some ESTreeKind.TSObjectKeyword
  | ast.Kind.StringKeyword => some ESTreeKind.TSStringKeyword
  | ast.Kind.SymbolKeyword => some ESTreeKind.TSSymbolKeyword
  | ast.Kind.UnknownKeyword => some ESTreeKind.TSUnknownKeyword
  | ast.Kind.VoidKeyword => some ESTreeKind.TSVoidKeyword
  | ast.Kind.UndefinedKeyword => some ESTreeKind.TSUndefinedKeyword
  | ast.Kind.IntrinsicKeyword => some ESTreeKind.TSIntrinsicKeyword
  | _ => none

/-- Go `convertNode`, case `KindParameter`. -/
def convertParameter (conv : Conv) (node : ast.NodePtr) (parent : Option ast.NodePtr) :
    M (Option Ptr) := do
  let sf := (← get).sourceFile
  let n := sf.node node
  let name := n.Name
  let pr : Option Ptr × Option Ptr ←
    (if n.DotDotDotToken.isSome then do
      let argument ← conv name none false
      let parameter ← createNode node
        { Type_ := ESTreeKind.RestElement
          Fields := [("Argument", Value.ofOption argument), ("Decorators", Value.list []),
                     ("Optional", Value.bool false), ("TypeAnnotation", Value.null),
                     ("Value", Value.null)] }
      pure (some parameter, some parameter)
    else if n.Initializer.isSome then do
      let parameter ← conv name none false
      let right ← conv n.Initializer none false
      let result ← createNode node
        { Type_ := ESTreeKind.AssignmentPattern
          Fields := [("Decorators", Value.list []), ("Left", Value.ofOption parameter),
                     ("Optional", Value.bool false), ("Right", Value.ofOption right),
                     ("TypeAnnotation", Value.null)] }
      if n.Modifiers.isSome then do
        let p ← deref parameter
        modify (fun c =>
          let r : Range := ((c.get p).Range.1, (c.get result).Range.2)
          (c.setRange result r).setLoc result (c.getLocFor r))
      pure (parameter, some result)
    else do
      let parameter ← conv name parent false
      pure (parameter, parameter))
  let parameter := pr.1
  let result := pr.2
  let typeAnnotation ← convertTypeAnnotation conv n.Type_ (some node)
  match typeAnnotation with
  | none => pure ()
  | some t => do
    let p ← deref parameter
    modify (fun c => c.setProperty p "TypeAnnotation" (Value.node t))
    modify (fun c => c.fixParentLocation p t)
  match n.QuestionToken with
  | none => pure ()
  | some q => do
    let p ← deref parameter
    modify (fun c =>
      if (c.sourceFile.node q).End > (c.get p).Range.2 then
        let r : Range := ((c.get p).Range.1, (c.sourceFile.node q).End)
        (c.setRange p r).setLoc p
          { Start := (c.get p).Loc.Start, End := getLineAndCharacterFor r.2 c.sourceFile }
      else c)
    modify (fun c => c.setProperty p "Optional" (Value.bool true))
  if (getModifiers sf node).isSome then do
    let p ← createNode node
      { Type_ := ESTreeKind.TSParameterProperty
        Fields := [("Accessibility", getTSNodeAccessibility sf node), ("Decorators", Value.list []),
                   ("Override", Value.bool (hasModifier sf ast.Kind.OverrideKeyword node)),
                   ("Parameter", Value.ofOption result),
                   ("Readonly", Value.bool (hasModifier sf ast.Kind.ReadonlyKeyword node)),
                   ("Static", Value.bool (hasModifier sf ast.Kind.StaticKeyword node))] }
    pure (some p)
  else pure result

/-- Go `convertNode`, case `KindFunctionDeclaration`. -/
def convertFunctionDeclaration (conv : Conv) (node : ast.NodePtr) : M (Option Ptr) := do
  let sf := (← get).sourceFile
  let n := sf.node node
  let isDeclare := hasModifier sf ast.Kind.DeclareKeyword node
  let isAsync := hasModifier sf ast.Kind.AsyncKeyword node
  let isGenerator := n.AsteriskToken.isSome
  let body ←
    (match n.Body with
    | none => pure none
    | some b => conv (some b) none false)
  let returnType ← convertTypeAnnotation conv n.Type_ (some node)
  let typeParameters ← convertTSTypeParametersToTypeParametersDeclaration conv n.TypeParameters
  let result ←
    (if n.Body.isNone then do
      let id ← convertChildT conv ESTreeKind.Identifier n.Name none
      let params ← convertParameters conv n.Parameters
      createNode node
        { Type_ := ESTreeKind.TSDeclareFunction
          Fields := [("Async", Value.bool isAsync), ("Body", Value.ofOption body),
                     ("Declare", Value.bool isDeclare), ("Expression", Value.bool false),
                     ("Generator", Value.bool isGenerator), ("Id", Value.ofOption id),
                     ("Params", params), ("ReturnType", Value.ofOption returnType),
                     ("TypeParameters", Value.ofOption typeParameters)] }
    else do
      let block ← assertType ESTreeKind.BlockStatement body
      let id ← convertChildT conv ESTreeKind.Identifier n.Name none
      let params ← convertParameters conv n.Parameters
      createNode node
        { Type_ := ESTreeKind.FunctionDeclaration
          Fields := [("Async", Value.bool isAsync), ("Body", Value.node block),
                     ("Declare", Value.bool isDeclare), ("Expression", Value.bool false),
                     ("Generator", Value.bool isGenerator), ("Id", Value.ofOption id),
                     ("Params", params), ("ReturnType", Value.ofOption returnType),
                     ("TypeParameters", Value.ofOption typeParameters)] })
  let wrapped ← fixExports node result
  pure (some wrapped)

/-- Go `convertNode`, case `KindTypeAliasDeclaration`. -/
def convertTypeAliasDeclaration (conv : Conv) (node : ast.NodePtr) : M (Option Ptr) := do
  let sf := (← get).sourceFile
  let n := sf.node node
  let id ← assertType ESTreeKind.Identifier (← conv n.Name none false)
  let typeAnnotation ← conv n.Type_ none false
  let typeParameters ← convertTSTypeParametersToTypeParametersDeclaration conv n.TypeParameters
  let result ← createNode node
    { Type_ := ESTreeKind.TSTypeAliasDeclaration
      Fields := [("Declare", Value.bool (hasModifier sf ast.Kind.DeclareKeyword node)),
                 ("Id", Value.node id), ("TypeAnnotation", Value.ofOption typeAnnotation),
                 ("TypeParameters", Value.ofOption typeParameters)] }
  let wrapped ← fixExports node result
  pure (some wrapped)

/-- Go `convertNode`, case `KindInterfaceDeclaration`. -/
def convertInterfaceDeclaration (conv : Conv) (node : ast.NodePtr) : M (Option Ptr) := do
  let sf := (← get).sourceFile
  let n := sf.node node
  let heritageTypes : List ast.NodePtr ←
    (match n.HeritageClauses with
    | none => pure []
    | some hs =>
      Map hs.Nodes (fun h =>
        match (sf.node h).Types with
        | none => throw Panic.nilDereference
        | some ts => pure ts.Nodes) >>= fun tss => pure tss.flatten)
  let interfaceExtends ← Map heritageTypes (fun heritageType => do
    assertType ESTreeKind.TSInterfaceHeritage (← conv (some heritageType) (some node) false))
  match n.Members with
  | none => throw Panic.nilDereference
  | some members => do
    let bodyMembers ← convertNodeListToChildren conv (some members)
    let body ← createNode node
      { Type_ := ESTreeKind.TSInterfaceBody
        Range := (members.Pos - 1, n.End)
        Fields := [("Body", Value.ofPtrs bodyMembers)] }
    let id ← assertType ESTreeKind.Identifier (← conv n.Name none false)
    let typeParameters ← convertTSTypeParametersToTypeParametersDeclaration conv n.TypeParameters
    let result ← createNode node
      { Type_ := ESTreeKind.TSInterfaceDeclaration
        Fields := [("Body", Value.node body),
                   ("Declare", Value.bool (hasModifier sf ast.Kind.DeclareKeyword node)),
                   ("Extends", Value.ofPtrs interfaceExtends), ("Id", Value.node id),
                   ("TypeParameters", Value.ofOption typeParameters)] }
    let wrapped ← fixExports node result
    pure (some wrapped)

end estree

namespace estree

/-- Go `convertNode`, cases `KindClassDeclaration` and `KindClassExpression`. -/
def convertClass (conv : Conv) (node : ast.NodePtr) : M (Option Ptr) := do
  let sf := (← get).sourceFile
  let n := sf.node node
  let heritageClauses : List ast.NodePtr :=
    match n.HeritageClauses with
    | none => []
    | some hs => hs.Nodes
  let extendsClause := heritageClauses.find? (fun h => (sf.node h).Token == ast.Kind.ExtendsKeyword)
  let implementsClause :=
    heritageClauses.find? (fun h => (sf.node h).Token == ast.Kind.ImplementsKeyword)
  match n.Members with
  | none => throw Panic.nilDereference
  | some memberList => do
    let name := n.Name
    let abstract := hasModifier sf ast.Kind.AbstractKeyword node
    let members ← Map (Filter memberList.Nodes
        (fun m => (sf.node m).Kind != ast.Kind.SemicolonClassElement))
      (fun m => conv (some m) none false)
    let body ← createNode node
      { Type_ := ESTreeKind.ClassBody
        Range := (memberList.Pos - 1, n.End)
        Fields := [("Body", Value.ofMapped members)] }
    let declare := hasModifier sf ast.Kind.DeclareKeyword node
    let decorators ← convertDecorators conv node
    let converted ← conv name none false
    let c ← get
    let id : Option Ptr :=
      match converted with
      | none => none
      | some p => if (c.get p).Type_ = ESTreeKind.Identifier then some p else none
    let implements ←
      (match implementsClause with
      | none => pure []
      | some ic => convertNodeListToChildrenT conv ESTreeKind.TSClassImplements (sf.node ic).Types)
    let superParts : Option Ptr × Option Ptr ←
      (match extendsClause with
      | none => pure (none, none)
      | some ec =>
        match (sf.node ec).Types with
        | none => throw Panic.nilDereference
        | some ts =>
          match ts.Nodes with
          | [] => pure (none, none)
          | super :: _ => do
            let superClass ← conv (sf.node super).Expression none false
            let superTypeArguments ←
              convertTypeArgumentsToTypeParameterInstantiation conv (sf.node super).TypeArguments super
            pure (superClass, superTypeArguments))
    let typeParameters ← convertTSTypeParametersToTypeParametersDeclaration conv n.TypeParameters
    let result ← createNode node
      { Type_ := if n.Kind = ast.Kind.ClassDeclaration then ESTreeKind.ClassDeclaration
                 else ESTreeKind.ClassExpression
        Fields := [("Abstract", Value.bool abstract), ("Body", Value.node body),
                   ("Declare", Value.bool declare), ("Decorators", Value.ofPtrs decorators),
                   ("Id", Value.ofOption id), ("Implements", Value.ofPtrs implements),
                   ("SuperClass", Value.ofOption superParts.1),
                   ("SuperTypeArguments", Value.ofOption superParts.2),
                   ("TypeParameters", Value.ofOption typeParameters)] }
    let wrapped ← fixExports node result
    pure (some wrapped)

/-- Go `convertNode`, cases `KindGetAccessor`, `KindSetAccessor` (outside interfaces and
type literals) and `KindMethodDeclaration`. -/
def convertMethod (conv : Conv) (node : ast.NodePtr) (parent : Option ast.NodePtr) :
    M (Option Ptr) := do
  let sf := (← get).sourceFile
  let n := sf.node node
  let name := n.Name
  let postfixToken := n.PostfixToken
  let asteriskToken := n.AsteriskToken
  match n.Parameters with
  | none => throw Panic.nilDereference
  | some parameterList => do
    let r : Range := (parameterList.Pos - 1, n.End)
    let async := hasModifier sf ast.Kind.AsyncKeyword node
    let body ← conv n.Body none false
    let generator := asteriskToken.isSome
    let parentKind ← kindOf sf parent
    let params ←
      (if parentKind = ast.Kind.ObjectLiteralExpression then do
        let ps ← convertNodeListToChildren conv n.Parameters
        pure (Value.ofPtrs ps)
      else convertParameters conv n.Parameters)
    let returnType ← convertTypeAnnotation conv n.Type_ (some node)
    let typeParameters ← convertTSTypeParametersToTypeParametersDeclaration conv n.TypeParameters
    let method ←
      (match body with
      | none =>
        createNode node
          { Type_ := ESTreeKind.TSEmptyBodyFunctionExpression
            Range := r
            Fields := [("Async", Value.bool async), ("Body", Value.null),
                       ("Declare", Value.bool false), ("Expression", Value.bool false),
                       ("Generator", Value.bool generator), ("Id", Value.null),
                       ("Params", params), ("ReturnType", Value.ofOption returnType),
                       ("TypeParameters", Value.ofOption typeParameters)] }
      | some b => do
        let block ← assertType ESTreeKind.BlockStatement (some b)
        createNode node
          { Type_ := ESTreeKind.FunctionExpression
            Range := r
            Fields := [("Async", Value.bool async), ("Body", Value.node block),
                       ("Declare", Value.bool false), ("Expression", Value.bool false),
                       ("Generator", Value.bool generator), ("Id", Value.null),
                       ("Params", params), ("ReturnType", Value.ofOption returnType),
                       ("TypeParameters", Value.ofOption typeParameters)] })
    match typeParameters with
    | none => pure ()
    | some tp => modify (fun c => c.fixParentLocation method tp)
    let static := hasModifier sf ast.Kind.StaticKeyword node
    let nameKind ← kindOf sf name
    let nameText : String :=
      match name with
      | none => ""
      | some nm => (sf.node nm).Text
    let kind : String :=
      if n.Kind = ast.Kind.GetAccessor then "get"
      else if n.Kind = ast.Kind.SetAccessor then "set"
      else if !static && nameKind == ast.Kind.StringLiteral && nameText == "constructor" then
        "constructor"
      else if parentKind = ast.Kind.ObjectLiteralExpression then "init" else "method"
    let computed := nameKind == ast.Kind.ComputedPropertyName
    let key ← conv name none false
    let optional := isTokenOfKind sf postfixToken ast.Kind.QuestionToken
    if parentKind = ast.Kind.ObjectLiteralExpression then do
      let p ← createNode node
        { Type_ := ESTreeKind.Property
          Fields := [("Computed", Value.bool computed), ("Key", Value.ofOption key),
                     ("Kind", Value.str kind),
                     ("Method", Value.bool (n.Kind == ast.Kind.MethodDeclaration)),
                     ("Optional", Value.bool optional), ("Shorthand", Value.bool false),
                     ("Value", Value.node method)] }
      pure (some p)
    else do
      let accessibility := getTSNodeAccessibility sf node
      let decorators ← convertDecorators conv node
      let override := hasModifier sf ast.Kind.OverrideKeyword node
      let p ← createNode node
        { Type_ := if hasModifier sf ast.Kind.AbstractKeyword node
                   then ESTreeKind.TSAbstractMethodDefinition else ESTreeKind.MethodDefinition
          Fields := [("Accessibility", accessibility), ("Computed", Value.bool computed),
                     ("Decorators", Value.ofPtrs decorators), ("Key", Value.ofOption key),
                     ("Kind", Value.str kind), ("Optional", Value.bool optional),
                     ("Override", Value.bool override), ("Static", Value.bool static),
                     ("Value", Value.node method)] }
      pure (some p)

/-- The read `n.f` of a native pointer that may be nil: it panics on nil. -/
def nonNil (p : Option ast.NodePtr) : M ast.NodePtr :=
  match p with
  | none => throw Panic.nilDereference
  | some q => pure q

/-- The field of a member, call or non-null expression that holds the link of the chain:
`Object`, `Callee` or `Expression`. -/
def chainChildField (t : ESTreeKind) : String :=
  if t = ESTreeKind.MemberExpression then "Object"
  else if t = ESTreeKind.CallExpression then "Callee"
  else "Expression"

/-- Go `convertChainExpression`. The type assertion `node.(*TSNonNullExpression)` of the
last branch fails on every node that is not a `TSNonNullExpression`; the assertion
`.(NodeWithRange)` fails on a nil child. `tsNode.Expression()` is read only when the child
is a `ChainExpression`. -/
def convertChainExpression (node : Ptr) (tsNode : ast.NodePtr) : M Ptr := do
  let c ← get
  let t := (c.get node).Type_
  if t ≠ ESTreeKind.MemberExpression ∧ t ≠ ESTreeKind.CallExpression
      ∧ t ≠ ESTreeKind.TSNonNullExpression then
    throw Panic.typeAssertion
  else
    match (c.get node).field (chainChildField t) with
    | Value.node child => do
      let isOptional : Bool :=
        if t = ESTreeKind.MemberExpression ∨ t = ESTreeKind.CallExpression then
          (c.get node).field "Optional" == Value.bool true
        else false
      let isChildUnwrappable : Bool ←
        (if (c.get child).Type_ = ESTreeKind.ChainExpression then do
          let expression ← nonNil (c.sourceFile.node tsNode).Expression
          pure ((c.sourceFile.node expression).Kind != ast.Kind.ParenthesizedExpression)
        else pure false)
      if !isChildUnwrappable && !isOptional then pure node
      else do
        if isChildUnwrappable then
          let newChild := (c.get child).field "Expression"
          modify (fun c => c.setProperty node (chainChildField t) newChild)
        createNode tsNode
          { Type_ := ESTreeKind.ChainExpression, Fields := [("Expression", Value.node node)] }
    | _ => throw Panic.typeAssertion

/-- The tags of the links of an optional chain: member, call and non-null expressions,
the nodes `convertChainExpression` is called on. -/
def ESTreeKind.isChainLink (t : ESTreeKind) : Bool :=
  t == ESTreeKind.MemberExpression || t == ESTreeKind.CallExpression
    || t == ESTreeKind.TSNonNullExpression

/-- The native sub-expression `tsNode.Expression()` is a `ParenthesizedExpression`. -/
def ast.SourceFile.parenthesised (sf : ast.SourceFile) (tsNode : ast.NodePtr) : Bool :=
  match (sf.node tsNode).Expression with
  | some e => (sf.node e).Kind == ast.Kind.ParenthesizedExpression
  | none => false

/-- `isOptional` of Go `convertChainExpression` (lines 572-581): the node is a member or a
call expression that carries `?.`. -/
def converter.chainOptional (c : converter) (node : Ptr) : Bool :=
  ((c.get node).Type_ == ESTreeKind.MemberExpression
    || (c.get node).Type_ == ESTreeKind.CallExpression)
  && (c.get node).field "Optional" == Value.bool true

/-- `isChildUnwrappable` of Go `convertChainExpression` (line 584): the child is a
`ChainExpression` and the native sub-expression is not parenthesised. -/
def converter.chainUnwrappable (c : converter) (child : Ptr) (tsNode : ast.NodePtr) : Bool :=
  (c.get child).Type_ == ESTreeKind.ChainExpression && !c.sourceFile.parenthesised tsNode

/-- The converter in which `convertChainExpression` builds the `ChainExpression`: the one
it is called in, the child of `node` replaced where it is to be merged. -/
def converter.chainMerged (c : converter) (node child : Ptr) (tsNode : ast.NodePtr) :
    converter :=
  if c.chainUnwrappable child tsNode then
    c.setProperty node (chainChildField (c.get node).Type_) ((c.get child).field "Expression")
  else c

/-- Go `convertNode`, case `KindPropertyAccessExpression`. -/
def convertPropertyAccessExpression (conv : Conv) (node : ast.NodePtr) : M (Option Ptr) := do
  let sf := (← get).sourceFile
  let n := sf.node node
  let object ← conv n.Expression none false
  let property ← conv n.Name none false
  let result ← createNode node
    { Type_ := ESTreeKind.MemberExpression
      Fields := [("Computed", Value.bool false), ("Object", Value.ofOption object),
                 ("Optional", Value.bool n.QuestionDotToken.isSome),
                 ("Property", Value.ofOption property)] }
  let chain ← convertChainExpression result node
  pure (some chain)

/-- Go `convertNode`, case `KindElementAccessExpression`. -/
def convertElementAccessExpression (conv : Conv) (node : ast.NodePtr) : M (Option Ptr) := do
  let sf := (← get).sourceFile
  let n := sf.node node
  let object ← conv n.Expression none false
  let property ← conv n.ArgumentExpression none false
  let result ← createNode node
    { Type_ := ESTreeKind.MemberExpression
      Fields := [("Computed", Value.bool true), ("Object", Value.ofOption object),
                 ("Optional", Value.bool n.QuestionDotToken.isSome),
                 ("Property", Value.ofOption property)] }
  let chain ← convertChainExpression result node
  pure (some chain)

/-- Go `convertNode`, case `KindCallExpression`. -/
def convertCallExpression (conv : Conv) (node : ast.NodePtr) : M (Option Ptr) := do
  let sf := (← get).sourceFile
  let n := sf.node node
  let expression ← nonNil n.Expression
  if (sf.node expression).Kind = ast.Kind.ImportKeyword then do
    let arguments ←
      (match n.Arguments with
      | none => throw Panic.nilDereference
      | some l => pure l.Nodes)
    let os : Option Ptr × Option Ptr ←
      (match arguments with
      | a0 :: a1 :: _ => do
        let options ← conv (some a1) none false
        let source ← conv (some a0) none false
        pure (options, source)
      | [a0] => do
        let source ← conv (some a0) none false
        pure (none, source)
      | [] => pure (none, none))
    let p ← createNode node
      { Type_ := ESTreeKind.ImportExpression
        Fields := [("Options", Value.ofOption os.1), ("Source", Value.ofOption os.2)] }
    pure (some p)
  else do
    let arguments ← convertNodeListToChildren conv n.Arguments
    let callee ← conv n.Expression none false
    let typeArguments ←
      convertTypeArgumentsToTypeParameterInstantiation conv n.TypeArguments node
    let result ← createNode node
      { Type_ := ESTreeKind.CallExpression
        Fields := [("Arguments", Value.ofPtrs arguments), ("Callee", Value.ofOption callee),
                   ("Optional", Value.bool n.QuestionDotToken.isSome),
                   ("TypeArguments", Value.ofOption typeArguments)] }
    let chain ← convertChainExpression result node
    pure (some chain)

/-- Go `convertNode`, case `KindNonNullExpression`. -/
def convertNonNullExpression (conv : Conv) (node : ast.NodePtr) : M (Option Ptr) := do
  let sf := (← get).sourceFile
  let n := sf.node node
  let expression ← conv n.Expression none false
  let nnExpr ← createNode node
    { Type_ := ESTreeKind.TSNonNullExpression
      Fields := [("Expression", Value.ofOption expression)] }
  let chain ← convertChainExpression nnExpr node
  pure (some chain)

/-- Go `convertNodeListToChildrenAllowPattern[any]`. -/
def convertNodeListToChildrenAllowPattern (conv : Conv) (list : Option ast.NodeList) :
    M (List Ptr) :=
  match list with
  | none => pure []
  | some l => Map l.Nodes (fun n => do assertNonNil (← conv (some n) none true))

/-- Go `convertNode`, case `KindBinaryExpression`. -/
def convertBinaryExpression (conv : Conv) (node : ast.NodePtr) : M (Option Ptr) := do
  let c ← get
  let sf := c.sourceFile
  let n := sf.node node
  let operator ← kindOf sf n.OperatorToken
  if operator = ast.Kind.CommaToken then do
    let left ← deref (← conv n.Left none false)
    let c1 ← get
    let expressions : List (Option Ptr) ←
      (if (c1.get left).Type_ = ESTreeKind.SequenceExpression then do
        let leftKind ← kindOf sf n.Left
        if leftKind ≠ ast.Kind.ParenthesizedExpression then
          match (c1.get left).field "Expressions" with
          | Value.list es => pure es
          | _ => pure []
        else pure [some left]
      else pure [some left])
    let right ← conv n.Right none false
    let p ← createNode node
      { Type_ := ESTreeKind.SequenceExpression
        Fields := [("Expressions", Value.list (expressions ++ [right]))] }
    pure (some p)
  else if sf.IsAssignmentOperator operator then
    if c.allowPattern then do
      let left ← conv n.Left (some node) true
      let right ← conv n.Right none false
      let p ← createNode node
        { Type_ := ESTreeKind.AssignmentPattern
          Fields := [("Decorators", Value.list []), ("Left", Value.ofOption left),
                     ("Optional", Value.bool false), ("Right", Value.ofOption right),
                     ("TypeAnnotation", Value.null)] }
      pure (some p)
    else do
      let left ← conv n.Left (some node) true
      let right ← conv n.Right none false
      let p ← createNode node
        { Type_ := ESTreeKind.AssignmentExpression
          Fields := [("Left", Value.ofOption left),
                     ("Operator", Value.str (sf.TokenToString operator)),
                     ("Right", Value.ofOption right)] }
      pure (some p)
  else if sf.IsLogicalOrCoalescingBinaryOperator operator then do
    let left ← conv n.Left (some node) false
    let right ← conv n.Right none false
    let p ← createNode node
      { Type_ := ESTreeKind.LogicalExpression
        Fields := [("Left", Value.ofOption left),
                   ("Operator", Value.str (sf.TokenToString operator)),
                   ("Right", Value.ofOption right)] }
    pure (some p)
  else do
    let left ← conv n.Left (some node) false
    let right ← conv n.Right none false
    let p ← createNode node
      { Type_ := ESTreeKind.BinaryExpression
        Fields := [("Left", Value.ofOption left),
                   ("Operator", Value.str (sf.TokenToString operator)),
                   ("Right", Value.ofOption right)] }
    pure (some p)

/-- Go `convertNode`, case `KindObjectLiteralExpression`. -/
def convertObjectLiteralExpression (conv : Conv) (node : ast.NodePtr) : M (Option Ptr) := do
  let c ← get
  let n := c.sourceFile.node node
  if c.allowPattern then do
    let properties ← convertNodeListToChildrenAllowPattern conv n.Properties
    let p ← createNode node
      { Type_ := ESTreeKind.ObjectPattern
        Fields := [("Decorators", Value.list []), ("Optional", Value.bool false),
                   ("Properties", Value.ofPtrs properties), ("TypeAnnotation", Value.null)] }
    pure (some p)
  else do
    let properties ← convertNodeListToChildren conv n.Properties
    let p ← createNode node
      { Type_ := ESTreeKind.ObjectExpression
        Fields := [("Properties", Value.ofPtrs properties)] }
    pure (some p)

/-- Go `convertNode`, case `KindPropertyAssignment`; `c.allowPattern` is read when the
field `Value` is evaluated, after the key is converted. -/
def convertPropertyAssignment (conv : Conv) (node : ast.NodePtr) : M (Option Ptr) := do
  let sf := (← get).sourceFile
  let n := sf.node node
  let nameKind ← kindOf sf n.Name
  let key ← conv n.Name none false
  let value ← conv n.Initializer (some node) (← get).allowPattern
  let p ← createNode node
    { Type_ := ESTreeKind.Property
      Fields := [("Computed", Value.bool (nameKind == ast.Kind.ComputedPropertyName)),
                 ("Key", Value.ofOption key), ("Kind", Value.str "init"),
                 ("Method", Value.bool false), ("Optional", Value.bool false),
                 ("Shorthand", Value.bool false), ("Value", Value.ofOption value)] }
  pure (some p)

/-- Go `convertNode`, case `KindShorthandPropertyAssignment`. -/
def convertShorthandPropertyAssignment (conv : Conv) (node : ast.NodePtr) :
    M (Option Ptr) := do
  let sf := (← get).sourceFile
  let n := sf.node node
  if n.ObjectAssignmentInitializer.isSome then do
    let key ← conv n.Name none false
    let left ← conv n.Name none false
    let right ← conv n.ObjectAssignmentInitializer none false
    let value ← createNode node
      { Type_ := ESTreeKind.AssignmentPattern
        Fields := [("Decorators", Value.list []), ("Left", Value.ofOption left),
                   ("Optional", Value.bool false), ("Right", Value.ofOption right),
                   ("TypeAnnotation", Value.null)] }
    let p ← createNode node
      { Type_ := ESTreeKind.Property
        Fields := [("Computed", Value.bool false), ("Key", Value.ofOption key),
                   ("Kind", Value.str "init"), ("Method", Value.bool false),
                   ("Optional", Value.bool false), ("Shorthand", Value.bool true),
                   ("Value", Value.node value)] }
    pure (some p)
  else do
    let key ← conv n.Name none false
    let value ← conv n.Name none false
    let p ← createNode node
      { Type_ := ESTreeKind.Property
        Fields := [("Computed", Value.bool false), ("Key", Value.ofOption key),
                   ("Kind", Value.str "init"), ("Method", Value.bool false),
                   ("Optional", Value.bool false), ("Shorthand", Value.bool true),
                   ("Value", Value.ofOption value)] }
    pure (some p)

/-- Go `convertNode`, case `KindTypePredicate`. The two assignments of the fix for type
guards read the converted type that `convertTypeAnnotation` stored in the annotation; the
assertion `.(NodeWithRange)` fails when it is nil. -/
def convertTypePredicate (conv : Conv) (node : ast.NodePtr) : M (Option Ptr) := do
  let sf := (← get).sourceFile
  let n := sf.node node
  let typeAnnotation : Option Ptr ←
    (match n.Type_ with
    | none => pure none
    | some _ => do
      let annotation ← deref (← convertTypeAnnotation conv n.Type_ (some node))
      let c ← get
      match (c.get annotation).field "TypeAnnotation" with
      | Value.node inner => do
        modify (fun c => c.setLoc annotation (c.get inner).Loc)
        modify (fun c => c.setRange annotation (c.get inner).Range)
        pure (some annotation)
      | _ => throw Panic.typeAssertion)
  let parameterName ← conv n.ParameterName none false
  let p ← createNode node
    { Type_ := ESTreeKind.TSTypePredicate
      Fields := [("Asserts", Value.bool n.AssertsModifier.isSome),
                 ("ParameterName", Value.ofOption parameterName),
                 ("TypeAnnotation", Value.ofOption typeAnnotation)] }
  pure (some p)

/-- The loop of Go `convertNode`, case `KindModuleDeclaration`, with a bound on the number
of iterations: `n` is the module declaration reached so far, `nameRes` the name built so
far. It returns the innermost module declaration, `isDeclare` and the name. -/
def unravelModuleDeclarations :
    Nat → ast.NodePtr → Bool → Ptr → M (ast.NodePtr × Bool × Ptr)
  | 0, _, _, _ => throw Panic.outOfFuel
  | fuel + 1, n, isDeclare, nameRes => do
    let sf := (← get).sourceFile
    match (sf.node n).Body with
    | none => pure (n, isDeclare, nameRes)
    | some body =>
      if (sf.node body).Kind = ast.Kind.ModuleDeclaration then
        match (sf.node body).Name with
        | none => pure (n, isDeclare, nameRes)
        | some nextName => do
          let isDeclare := isDeclare || hasModifier sf ast.Kind.DeclareKeyword body
          let right ← createNode nextName
            { Type_ := ESTreeKind.Identifier
              Fields := [("Decorators", Value.list []), ("Name", Value.str (sf.node nextName).Text),
                         ("Optional", Value.bool false), ("TypeAnnotation", Value.null)] }
          let c ← get
          let nameRes ← createNode nextName
            { Type_ := ESTreeKind.TSQualifiedName
              Range := ((c.get nameRes).Range.1, (c.get right).Range.2)
              Fields := [("Left", Value.node nameRes), ("Right", Value.node right)] }
          unravelModuleDeclarations fuel body isDeclare nameRes
      else pure (n, isDeclare, nameRes)

/-- Go `convertNode`, case `KindModuleDeclaration`. Each iteration of the loop descends to
the body, so the number of nodes bounds the iterations on a tree. -/
def convertModuleDeclaration (conv : Conv) (node : ast.NodePtr) : M (Option Ptr) := do
  let sf := (← get).sourceFile
  let n := sf.node node
  let isDeclare := hasModifier sf ast.Kind.DeclareKeyword node
  let name := n.Name
  let r : Option Ptr × String × ast.NodePtr × Bool ←
    (if n.IsGlobalScopeAugmentation then do
      let id ← conv name none false
      pure (id, "global", node, isDeclare)
    else do
      let nameKind ← kindOf sf name
      if nameKind = ast.Kind.StringLiteral then do
        let id ← conv name none false
        pure (id, "module", node, isDeclare)
      else do
        let nameNode ← nonNil name
        let nameRes ← createNode nameNode
          { Type_ := ESTreeKind.Identifier
            Fields := [("Decorators", Value.list []), ("Name", Value.str (sf.node nameNode).Text),
                       ("Optional", Value.bool false), ("TypeAnnotation", Value.null)] }
        let u ← unravelModuleDeclarations (sf.Nodes.length + 1) node isDeclare nameRes
        let kind := if (sf.node u.1).Keyword = ast.Kind.NamespaceKeyword then "namespace"
                    else "module"
        pure (some u.2.2, kind, u.1, u.2.1))
  let id := r.1
  let kind := r.2.1
  let inner := sf.node r.2.2.1
  let isDeclare := r.2.2.2
  let body ← convertChildT conv ESTreeKind.TSModuleBlock inner.Body none
  let result ← createNode node
    { Type_ := ESTreeKind.TSModuleDeclaration
      Fields := [("Body", Value.ofOption body), ("Declare", Value.bool isDeclare),
                 ("Global", Value.bool (inner.Keyword == ast.Kind.GlobalKeyword)),
                 ("Id", Value.ofOption id), ("Kind", Value.str kind)] }
  let wrapped ← fixExports node result
  pure (some wrapped)

/-- Go `convertJSXIdentifier`. -/
def convertJSXIdentifier (node : Option ast.NodePtr) : M Ptr := do
  let sf := (← get).sourceFile
  let node ← nonNil node
  let result ← createNode node
    { Type_ := ESTreeKind.JSXIdentifier
      Fields := [("Name", Value.str (sf.node node).SourceText)] }
  modify (fun c => c.registerTSNodeInNodeMap node (some result))
  pure result

/-- Go `convertJSXNamespaceOrIdentifier`. -/
def convertJSXNamespaceOrIdentifier (node : Option ast.NodePtr) : M Ptr := do
  let sf := (← get).sourceFile
  let nd ← nonNil node
  if (sf.node nd).Kind = ast.Kind.JsxNamespacedName then do
    let name ← nonNil (sf.node nd).Name
    let nameRes ← createNode name
      { Type_ := ESTreeKind.JSXIdentifier, Fields := [("Name", Value.str (sf.node name).Text)] }
    let ns ← nonNil (sf.node nd).Namespace
    let namespaceRes ← createNode ns
      { Type_ := ESTreeKind.JSXIdentifier, Fields := [("Name", Value.str (sf.node ns).Text)] }
    let result ← createNode nd
      { Type_ := ESTreeKind.JSXNamespacedName
        Fields := [("Name", Value.node nameRes), ("Namespace", Value.node namespaceRes)] }
    modify (fun c => c.registerTSNodeInNodeMap nd (some result))
    pure result
  else convertJSXIdentifier node

/-- Go `convertJSXTagName`, the recursion on the accessed expression unfolded `fuel`
times. -/
def convertJSXTagName : Nat → Option ast.NodePtr → ast.NodePtr → M Ptr
  | 0, _, _ => throw Panic.outOfFuel
  | fuel + 1, node, parent => do
    let sf := (← get).sourceFile
    let nd ← nonNil node
    if (sf.node nd).Kind = ast.Kind.PropertyAccessExpression then do
      let object ← convertJSXTagName fuel (sf.node nd).Expression parent
      let property ← convertJSXIdentifier (sf.node nd).Name
      let result ← createNode nd
        { Type_ := ESTreeKind.JSXMemberExpression
          Fields := [("Object", Value.node object), ("Property", Value.node property)] }
      modify (fun c => c.registerTSNodeInNodeMap nd (some result))
      pure result
    else convertJSXNamespaceOrIdentifier node

/-- The fields of the `JSXOpeningElement` built for an opening or a self-closing element
(lines 2224-2230 and 2235-2241): the attributes, the tag name, and the type arguments are
converted in this order. -/
def convertJsxOpening (conv : Conv) (node : ast.NodePtr) (selfClosing : Bool) : M Ptr := do
  let sf := (← get).sourceFile
  let n := sf.node node
  let attributesNode ← nonNil n.Attributes
  let attributes ← convertNodeListToChildren conv (sf.node attributesNode).Properties
  let name ← convertJSXTagName (sf.Nodes.length + 1) n.TagName node
  let typeArguments ←
    convertTypeArgumentsToTypeParameterInstantiation conv n.TypeArguments node
  createNode node
    { Type_ := ESTreeKind.JSXOpeningElement
      Fields := [("Attributes", Value.ofPtrs attributes), ("Name", Value.node name),
                 ("SelfClosing", Value.bool selfClosing),
                 ("TypeArguments", Value.ofOption typeArguments)] }

/-- Go `convertNode`, case `KindJsxSelfClosingElement`. -/
def convertJsxSelfClosingElement (conv : Conv) (node : ast.NodePtr) : M (Option Ptr) := do
  let opening ← convertJsxOpening conv node true
  let p ← createNode node
    { Type_ := ESTreeKind.JSXElement
      Fields := [("Children", Value.list []), ("ClosingElement", Value.null),
                 ("OpeningElement", Value.node opening)] }
  pure (some p)

/-- Go `convertNode`, case `KindJsxOpeningElement`. -/
def convertJsxOpeningElement (conv : Conv) (node : ast.NodePtr) : M (Option Ptr) := do
  let p ← convertJsxOpening conv node false
  pure (some p)

/-- Go `convertNode`, case `KindJsxClosingElement`. -/
def convertJsxClosingElement (node : ast.NodePtr) : M (Option Ptr) := do
  let sf := (← get).sourceFile
  let name ← convertJSXTagName (sf.Nodes.length + 1) (sf.node node).TagName node
  let p ← createNode node
    { Type_ := ESTreeKind.JSXClosingElement, Fields := [("Name", Value.node name)] }
  pure (some p)

/-- Go `convertNode`, case `KindJsxElement`. -/
def convertJsxElement (conv : Conv) (node : ast.NodePtr) : M (Option Ptr) := do
  let sf := (← get).sourceFile
  let n := sf.node node
  let children ← convertNodeListToChildren conv n.Children
  let closingElement ← assertType ESTreeKind.JSXClosingElement (← conv n.ClosingElement none false)
  let openingElement ← assertType ESTreeKind.JSXOpeningElement (← conv n.OpeningElement none false)
  let p ← createNode node
    { Type_ := ESTreeKind.JSXElement
      Fields := [("Children", Value.ofPtrs children),
                 ("ClosingElement", Value.node closingElement),
                 ("OpeningElement", Value.node openingElement)] }
  pure (some p)

/-- The kinds that have a case in the switch of Go `convertNode` (lines 609-2962). -/
def handledKind (kind : ast.Kind) : Bool :=
  kind ∈
    [ast.Kind.SourceFile, ast.Kind.Block, ast.Kind.Identifier, ast.Kind.PrivateIdentifier,
     ast.Kind.WithStatement, ast.Kind.ReturnStatement, ast.Kind.LabeledStatement,
     ast.Kind.ContinueStatement, ast.Kind.BreakStatement, ast.Kind.IfStatement,
     ast.Kind.SwitchStatement, ast.Kind.CaseClause, ast.Kind.DefaultClause,
     ast.Kind.ThrowStatement, ast.Kind.TryStatement, ast.Kind.CatchClause,
     ast.Kind.WhileStatement, ast.Kind.DoStatement, ast.Kind.ForStatement,
     ast.Kind.ForInStatement, ast.Kind.ForOfStatement, ast.Kind.FunctionDeclaration,
     ast.Kind.VariableDeclaration, ast.Kind.VariableStatement,
     ast.Kind.VariableDeclarationList, ast.Kind.ExpressionStatement, ast.Kind.ThisKeyword,
     ast.Kind.ArrayLiteralExpression, ast.Kind.ObjectLiteralExpression,
     ast.Kind.PropertyAssignment, ast.Kind.ShorthandPropertyAssignment,
     ast.Kind.ComputedPropertyName, ast.Kind.PropertyDeclaration, ast.Kind.GetAccessor,
     ast.Kind.SetAccessor, ast.Kind.MethodDeclaration, ast.Kind.Constructor,
     ast.Kind.FunctionExpression, ast.Kind.SuperKeyword, ast.Kind.ArrayBindingPattern,
     ast.Kind.OmittedExpression, ast.Kind.ObjectBindingPattern, ast.Kind.BindingElement,
     ast.Kind.ArrowFunction, ast.Kind.YieldExpression, ast.Kind.AwaitExpression,
     ast.Kind.NoSubstitutionTemplateLiteral, ast.Kind.TemplateExpression,
     ast.Kind.TaggedTemplateExpression, ast.Kind.TemplateHead, ast.Kind.TemplateMiddle,
     ast.Kind.TemplateTail, ast.Kind.SpreadAssignment, ast.Kind.SpreadElement,
     ast.Kind.Parameter, ast.Kind.ClassDeclaration, ast.Kind.ClassExpression,
     ast.Kind.ModuleBlock, ast.Kind.ImportDeclaration, ast.Kind.NamespaceImport,
     ast.Kind.ImportSpecifier, ast.Kind.ImportClause, ast.Kind.ExportDeclaration,
     ast.Kind.ExportSpecifier, ast.Kind.ExportAssignment, ast.Kind.PrefixUnaryExpression,
     ast.Kind.PostfixUnaryExpression, ast.Kind.DeleteExpression, ast.Kind.VoidExpression,
     ast.Kind.TypeOfExpression, ast.Kind.TypeOperator, ast.Kind.BinaryExpression,
     ast.Kind.PropertyAccessExpression, ast.Kind.ElementAccessExpression,
     ast.Kind.CallExpression, ast.Kind.NewExpression, ast.Kind.ConditionalExpression,
     ast.Kind.MetaProperty, ast.Kind.Decorator, ast.Kind.StringLiteral,
     ast.Kind.NumericLiteral, ast.Kind.BigIntLiteral, ast.Kind.RegularExpressionLiteral,
     ast.Kind.TrueKeyword, ast.Kind.FalseKeyword, ast.Kind.NullKeyword,
     ast.Kind.EmptyStatement, ast.Kind.DebuggerStatement, ast.Kind.JsxElement,
     ast.Kind.JsxFragment, ast.Kind.JsxSelfClosingElement, ast.Kind.JsxOpeningElement,
     ast.Kind.JsxClosingElement, ast.Kind.JsxOpeningFragment, ast.Kind.JsxClosingFragment,
     ast.Kind.JsxExpression, ast.Kind.JsxAttribute, ast.Kind.JsxText,
     ast.Kind.JsxSpreadAttribute, ast.Kind.QualifiedName, ast.Kind.TypeReference,
     ast.Kind.TypeParameter, ast.Kind.ThisType, ast.Kind.AnyKeyword, ast.Kind.BigIntKeyword,
     ast.Kind.BooleanKeyword, ast.Kind.NeverKeyword, ast.Kind.NumberKeyword,
     ast.Kind.ObjectKeyword, ast.Kind.StringKeyword, ast.Kind.SymbolKeyword,
     ast.Kind.UnknownKeyword, ast.Kind.VoidKeyword, ast.Kind.UndefinedKeyword,
     ast.Kind.IntrinsicKeyword, ast.Kind.NonNullExpression, ast.Kind.TypeLiteral,
     ast.Kind.ArrayType, ast.Kind.IndexedAccessType, ast.Kind.ConditionalType,
     ast.Kind.TypeQuery, ast.Kind.MappedType, ast.Kind.ParenthesizedExpression,
     ast.Kind.TypeAliasDeclaration, ast.Kind.MethodSignature, ast.Kind.PropertySignature,
     ast.Kind.IndexSignature, ast.Kind.ConstructorType, ast.Kind.FunctionType,
     ast.Kind.ConstructSignature, ast.Kind.CallSignature,
     ast.Kind.ExpressionWithTypeArguments, ast.Kind.InterfaceDeclaration,
     ast.Kind.TypePredicate, ast.Kind.ImportType, ast.Kind.EnumDeclaration,
     ast.Kind.EnumMember, ast.Kind.ModuleDeclaration, ast.Kind.ParenthesizedType,
     ast.Kind.UnionType, ast.Kind.IntersectionType, ast.Kind.AsExpression, ast.Kind.InferType,
     ast.Kind.LiteralType, ast.Kind.TypeAssertionExpression, ast.Kind.ImportEqualsDeclaration,
     ast.Kind.ExternalModuleReference, ast.Kind.NamespaceExportDeclaration,
     ast.Kind.AbstractKeyword, ast.Kind.TupleType, ast.Kind.NamedTupleMember,
     ast.Kind.OptionalType, ast.Kind.RestType, ast.Kind.TemplateLiteralType,
     ast.Kind.ClassStaticBlockDeclaration, ast.Kind.ImportAttribute,
     ast.Kind.SatisfiesExpression]

/-- Go `convertNode`, with `c.converter` left open. The cases embedded are those of the
kinds matched below; every other kind that has a case in the Go switch stops with
`Panic.notModelled`, and a kind that has none reaches the `panic` after the switch,
`Panic.unknownKind`. `Program.Tokens` and `Program.Comments` (the result of `parseTokens`,
which neither creates converted nodes nor touches a registry) are kept out of the node. -/
def convertNodeF (conv : Conv) (node : ast.NodePtr) (parent : Option ast.NodePtr) :
    M (Option Ptr) := do
  let c ← get
  let sf := c.sourceFile
  let n := sf.node node
  match n.Kind with
  | ast.Kind.SourceFile => do
    let sourceType := if n.ExternalModuleIndicator.isSome then "module" else "script"
    let body ← convertBodyExpressions conv n.Statements node
    let p ← createNode node
      { Type_ := ESTreeKind.Program
        Range := (c.getNodeStart node, n.End)
        Fields := [("Body", body), ("SourceType", Value.str sourceType)] }
    pure (some p)
  | ast.Kind.Block => do
    let body ← convertBodyExpressions conv n.Statements node
    let p ← createNode node { Type_ := ESTreeKind.BlockStatement, Fields := [("Body", body)] }
    pure (some p)
  | ast.Kind.Identifier =>
    match isThisInTypeQuery sf node with
    | Except.error e => throw e
    | Except.ok true => do
      let p ← createNode node { Type_ := ESTreeKind.ThisExpression }
      pure (some p)
    | Except.ok false => do
      let p ← createNode node
        { Type_ := ESTreeKind.Identifier
          Fields := [("Decorators", Value.list []), ("Name", Value.str n.Text)] }
      pure (some p)
  | ast.Kind.FunctionDeclaration => convertFunctionDeclaration conv node
  | ast.Kind.ExpressionStatement => do
    let expression ← conv n.Expression none false
    let p ← createNode node
      { Type_ := ESTreeKind.ExpressionStatement
        Fields := [("Directive", Value.null), ("Expression", Value.ofOption expression)] }
    pure (some p)
  | ast.Kind.ArrayLiteralExpression =>
    match n.Elements with
    | none => throw Panic.nilDereference
    | some elements =>
      if c.allowPattern then do
        let es ← Map elements.Nodes (fun e => conv (some e) none true)
        let p ← createNode node
          { Type_ := ESTreeKind.ArrayPattern
            Fields := [("Decorators", Value.list []), ("Elements", Value.ofMapped es),
                       ("Optional", Value.bool false), ("TypeAnnotation", Value.null)] }
        pure (some p)
      else do
        let es ← Map elements.Nodes (fun e => conv (some e) none false)
        let p ← createNode node
          { Type_ := ESTreeKind.ArrayExpression, Fields := [("Elements", Value.ofMapped es)] }
        pure (some p)
  | ast.Kind.GetAccessor | ast.Kind.SetAccessor => do
    let parentKind ← kindOf sf n.Parent
    if parentKind = ast.Kind.InterfaceDeclaration ∨ parentKind = ast.Kind.TypeLiteral then
      convertMethodSignature conv node
    else convertMethod conv node parent
  | ast.Kind.MethodDeclaration => convertMethod conv node parent
  | ast.Kind.FunctionExpression => do
    let body ← assertType ESTreeKind.BlockStatement (← conv n.Body none false)
    let id ← convertChildT conv ESTreeKind.Identifier n.Name none
    let params ← convertParameters conv n.Parameters
    let returnType ← convertTypeAnnotation conv n.Type_ (some node)
    let typeParameters ← convertTSTypeParametersToTypeParametersDeclaration conv n.TypeParameters
    let p ← createNode node
      { Type_ := ESTreeKind.FunctionExpression
        Fields := [("Async", Value.bool (hasModifier sf ast.Kind.AsyncKeyword node)),
                   ("Body", Value.node body), ("Declare", Value.bool false),
                   ("Expression", Value.bool false),
                   ("Generator", Value.bool n.AsteriskToken.isSome), ("Id", Value.ofOption id),
                   ("Params", params), ("ReturnType", Value.ofOption returnType),
                   ("TypeParameters", Value.ofOption typeParameters)] }
    pure (some p)
  | ast.Kind.OmittedExpression => pure none
  | ast.Kind.ArrowFunction => do
    let body ← conv n.Body none false
    let bodyKind ← kindOf sf n.Body
    let params ← convertParameters conv n.Parameters
    let returnType ← convertTypeAnnotation conv n.Type_ (some node)
    let typeParameters ← convertTSTypeParametersToTypeParametersDeclaration conv n.TypeParameters
    let p ← createNode node
      { Type_ := ESTreeKind.ArrowFunctionExpression
        Fields := [("Async", Value.bool (hasModifier sf ast.Kind.AsyncKeyword node)),
                   ("Body", Value.ofOption body),
                   ("Expression", Value.bool (bodyKind != ast.Kind.Block)),
                   ("Generator", Value.bool false), ("Id", Value.null), ("Params", params),
                   ("ReturnType", Value.ofOption returnType),
                   ("TypeParameters", Value.ofOption typeParameters)] }
    pure (some p)
  | ast.Kind.Parameter => convertParameter conv node parent
  | ast.Kind.ClassDeclaration | ast.Kind.ClassExpression => convertClass conv node
  | ast.Kind.Decorator => do
    let expression ← conv n.Expression none false
    let p ← createNode node
      { Type_ := ESTreeKind.Decorator, Fields := [("Expression", Value.ofOption expression)] }
    pure (some p)
  | ast.Kind.StringLiteral => do
    let p ← createNode node
      { Type_ := ESTreeKind.Literal
        Fields := [("Raw", Value.str n.SourceText), ("Value", Value.str n.Text)] }
    pure (some p)
  | ast.Kind.RegularExpressionLiteral =>
    match regexParts n.Text with
    | none => throw Panic.sliceBounds
    | some (pattern, flags) => do
      let p ← createNode node
        { Type_ := ESTreeKind.Literal
          Fields := [("Raw", Value.str n.Text), ("Regex.Flags", Value.str flags),
                     ("Regex.Pattern", Value.str pattern), ("Value", Value.null)] }
      pure (some p)
  | ast.Kind.TypeParameter => do
    let constraint ← conv n.Constraint none false
    let default ← conv n.DefaultType none false
    let name ← assertType ESTreeKind.Identifier (← conv n.Name none false)
    let p ← createNode node
      { Type_ := ESTreeKind.TSTypeParameter
        Fields := [("Const", Value.bool (hasModifier sf ast.Kind.ConstKeyword node)),
                   ("Constraint", Value.ofOption constraint), ("Default", Value.ofOption default),
                   ("In", Value.bool (hasModifier sf ast.Kind.InKeyword node)),
                   ("Name", Value.node name),
                   ("Out", Value.bool (hasModifier sf ast.Kind.OutKeyword node))] }
    pure (some p)
  | ast.Kind.TypeAliasDeclaration => convertTypeAliasDeclaration conv node
  | ast.Kind.InterfaceDeclaration => convertInterfaceDeclaration conv node
  | ast.Kind.PropertyAccessExpression => convertPropertyAccessExpression conv node
  | ast.Kind.ElementAccessExpression => convertElementAccessExpression conv node
  | ast.Kind.CallExpression => convertCallExpression conv node
  | ast.Kind.NonNullExpression => convertNonNullExpression conv node
  | ast.Kind.ParenthesizedExpression => conv n.Expression parent false
  | ast.Kind.BinaryExpression => convertBinaryExpression conv node
  | ast.Kind.ObjectLiteralExpression => convertObjectLiteralExpression conv node
  | ast.Kind.PropertyAssignment => convertPropertyAssignment conv node
  | ast.Kind.ShorthandPropertyAssignment => convertShorthandPropertyAssignment conv node
  | ast.Kind.TypePredicate => convertTypePredicate conv node
  | ast.Kind.ModuleDeclaration => convertModuleDeclaration conv node
  | ast.Kind.ModuleBlock => do
    let body ← convertBodyExpressions conv n.Statements node
    let p ← createNode node { Type_ := ESTreeKind.TSModuleBlock, Fields := [("Body", body)] }
    pure (some p)
  | ast.Kind.JsxElement => convertJsxElement conv node
  | ast.Kind.JsxSelfClosingElement => convertJsxSelfClosingElement conv node
  | ast.Kind.JsxOpeningElement => convertJsxOpeningElement conv node
  | ast.Kind.JsxClosingElement => convertJsxClosingElement node
  | kind =>
    match keywordType kind with
    | some tag => do
      let p ← createNode node { Type_ := tag }
      pure (some p)
    | none => if handledKind kind then throw Panic.notModelled else throw Panic.unknownKind

/-- Go `convertNode`: the recursion through `c.converter` is unfolded `fuel` times. -/
def convertNode : Nat → ast.NodePtr → Option ast.NodePtr → M (Option Ptr)
  | 0 => fun _ _ => throw Panic.outOfFuel
  | fuel + 1 => convertNodeF (converterF (convertNode fuel))

/-- Go `converter.converter` (and with it `convertChild`, `convertPattern`), the recursion
unfolded `fuel` times. -/
def converterRec (fuel : Nat) : Conv :=
  converterF (convertNode fuel)

/-- Go `ConvertSourceFileToESTree`: the Program, after the type assertion `.(*Program)`, and
the converter it was built with. -/
def ConvertSourceFileToESTree (fuel : Nat) (sourceFile : ast.SourceFile) :
    Except Panic (Option Ptr × converter) :=
  (do
    let program ← convertNode fuel sourceFile.Root none
    let p ← assertType ESTreeKind.Program program
    pure (some p) : M (Option Ptr)).run { sourceFile := sourceFile }

end estree

/-! ## The writes of the converter as a transition system

Every write of `converter.go` to a converted node's `Range` or `Loc`, to a node field, or
to a registry is one of the steps below; each constructor names the places of the source it
stands for. A run of `ConvertSourceFileToESTree` is a sequence of such steps from the
converter that `ConvertSourceFileToESTree` starts with. Pointers handed to a step are
pointers to allocated structs, as every Go pointer is. -/

namespace estree

/-- The two tags whose nodes are built without `createNode`: `convertTypeAnnotation`
(line 160) and `convertTSTypeParametersToTypeParametersDeclaration` (line 259) are the only
places where these tags occur. -/
def ESTreeKind.builtWithoutCreateNode (t : ESTreeKind) : Bool :=
  t == ESTreeKind.TSTypeAnnotation || t == ESTreeKind.TSTypeParameterDeclaration

/-- C12 as a property of a converter: every `ChainExpression` holds a link of a chain as
`Expression`; the object, callee or expression of that link is an allocated struct, and it
is a `ChainExpression` only where the native sub-expression of the node the chain was
built for is parenthesised. -/
def converter.ChainOk (c : converter) : Prop :=
  ∀ x, x < c.heap.length → (c.get x).Type_ = ESTreeKind.ChainExpression →
    ∃ e, (c.get x).field "Expression" = Value.node e ∧ e < c.heap.length
      ∧ (c.get e).Type_.isChainLink = true
      ∧ ∀ y, (c.get e).field (chainChildField (c.get e).Type_) = Value.node y →
          y < c.heap.length
          ∧ ((c.get y).Type_ = ESTreeKind.ChainExpression →
              ∃ ts, c.esTreeNodeToTSNodeMap x = some ts ∧ c.sourceFile.parenthesised ts = true)

/-- What `convertChainExpression` has checked when it builds the `ChainExpression` `data`
for the native node `node` (lines 584-604): `data` wraps an allocated link of a chain; the
object, callee or expression of that link is the converted child, or the `Expression` of
the chain that line 591 has read; and it is a `ChainExpression` only if the native
sub-expression is parenthesised. -/
def ChainWrap (c : converter) (node : ast.NodePtr) (data : ESTreeNode) : Prop :=
  ∃ e, data.Fields = [("Expression", Value.node e)] ∧ e < c.heap.length
    ∧ (c.get e).Type_.isChainLink = true
    ∧ (c.ChainOk → ∀ y, (c.get e).field (chainChildField (c.get e).Type_) = Value.node y →
        y < c.heap.length
        ∧ ((c.get y).Type_ = ESTreeKind.ChainExpression →
            c.sourceFile.parenthesised node = true))

/-- The fields the converter assigns after a struct is built: the four names handed to
`setProperty` (lines 321, 332, 507, 1629, 1642), and the object, callee or expression of a
link of a chain, which `convertChainExpression` replaces by the `Expression` of the
`ChainExpression` it held (lines 590-598). -/
def PropertyWrite (c : converter) (p : Ptr) (name : String) (v : Value) : Prop :=
  name ∈ ["Decorators", "TypeAnnotation", "Directive", "Optional"]
  ∨ ((c.get p).Type_.isChainLink = true ∧ name = chainChildField (c.get p).Type_
      ∧ ∃ child, (c.get child).Type_ = ESTreeKind.ChainExpression
          ∧ v = (c.get child).field "Expression")

/-- One write of the converter. -/
inductive Step : converter → converter → Prop where
  /-- The call `c.createNode(node, &X{...})` on a struct literal that sets no `Loc` (every call
  of `createNode` but the one at line 2094); the literal may set `Range`. A
  `ChainExpression` is built at line 601 only. -/
  | create (c : converter) (node : ast.NodePtr) (data : ESTreeNode)
      (hLoc : data.Loc = {}) (hTag : data.Type_.builtWithoutCreateNode = false)
      (hChain : data.Type_ = ESTreeKind.ChainExpression → ChainWrap c node data) :
      Step c ((c.new data).2.createNode node (c.new data).1).2
  /-- The call `c.createNode(node, &Identifier{...})` of case `KindMetaProperty` (line 2094):
  `Range` is the token at `node.Pos()`, the keyword `import` or `new`, which is not empty
  and so not `[0, 0]`, and `Loc` is `getLocFor` of it. -/
  | createMeta (c : converter) (node : ast.NodePtr) (data : ESTreeNode)
      (hRange : data.Range = c.sourceFile.GetRangeOfTokenAtPosition (c.sourceFile.node node).Pos)
      (hToken : data.Range ≠ (0, 0)) (hLoc : data.Loc = c.getLocFor data.Range)
      (hTag : data.Type_ = ESTreeKind.Identifier) :
      Step c ((c.new data).2.createNode node (c.new data).1).2
  /-- The struct built by `convertTypeAnnotation` (lines 160-166). -/
  | typeAnnotationNode (c : converter) (inner : Value) (r : Range) :
      Step c
        (((c.new { Type_ := ESTreeKind.TSTypeAnnotation
                   Fields := [("TypeAnnotation", inner)] }).2.setRange c.heap.length r).setLoc
          c.heap.length (c.getLocFor r))
  /-- The struct built by `convertTSTypeParametersToTypeParametersDeclaration` (line 259). -/
  | typeParametersNode (c : converter) (params : Value) (r : Range) :
      Step c
        (c.new { Type_ := ESTreeKind.TSTypeParameterDeclaration
                 Loc := c.getLocFor r
                 Range := r
                 Fields := [("Params", params)] }).2
  /-- A call of `fixParentLocation` (lines 333, 1178, 1302, 1630). -/
  | fixParentLocation (c : converter) (result child : Ptr) (hChild : child < c.heap.length) :
      Step c (c.fixParentLocation result child)
  /-- The pair `setRange(r); setLoc(c.getLocFor(r))` of `fixExports` (lines 221-222) and of
  case `KindParameter` (lines 1619-1620). -/
  | setRangeLoc (c : converter) (p : Ptr) (r : Range) :
      Step c ((c.setRange p r).setLoc p (c.getLocFor r))
  /-- The widening over the question token in case `KindParameter` (lines 1634-1641). -/
  | questionToken (c : converter) (p : Ptr) (questionTokenEnd : Int) :
      Step c
        (if questionTokenEnd > (c.get p).Range.2 then
          (c.setRange p ((c.get p).Range.1, questionTokenEnd)).setLoc p
            { Start := (c.get p).Loc.Start
              End := getLineAndCharacterFor questionTokenEnd c.sourceFile }
        else c)
  /-- The fix for type guards in case `KindTypePredicate` (lines 2615-2616): `Loc` and
  `Range` are copied from the annotated type. -/
  | typePredicate (c : converter) (annotated inner : Ptr) (hInner : inner < c.heap.length) :
      Step c ((c.setLoc annotated (c.get inner).Loc).setRange annotated (c.get inner).Range)
  /-- The adjustment of a rest tuple member in case `KindNamedTupleMember`
  (lines 2896-2900). -/
  | tupleMember (c : converter) (member label : Ptr) (hLabel : label < c.heap.length) :
      Step c
        ((c.setRange member ((c.get label).Range.1, (c.get member).Range.2)).setLoc member
          { Start := (c.get label).Loc.Start, End := (c.get member).Loc.End })
  /-- A call of `setProperty` (lines 321, 332, 507, 1629, 1642) or an assignment to a child
  field in `convertChainExpression` (lines 593-597). -/
  | setProperty (c : converter) (p : Ptr) (name : String) (v : Value)
      (hWrite : PropertyWrite c p name v) :
      Step c (c.setProperty p name v)
  /-- A call of `registerTSNodeInNodeMap` (lines 142, 207, 523, 542, 563). At line 142 the
  result is that of `convertNode`, nil for an `OmittedExpression` (line 1385); the other
  calls are made for declarations and JSX names. -/
  | register (c : converter) (node : ast.NodePtr) (result : Option Ptr)
      (hOmitted : (c.sourceFile.node node).Kind = ast.Kind.OmittedExpression → result = none) :
      Step c (c.registerTSNodeInNodeMap node result)
  /-- An assignment to `c.allowPattern` (lines 135, 144). -/
  | setAllowPattern (c : converter) (allowPattern : Bool) :
      Step c { c with allowPattern := allowPattern }

/-- The converter `ConvertSourceFileToESTree` starts with. -/
def converter.init (sourceFile : ast.SourceFile) : converter :=
  { sourceFile := sourceFile }

/-- The converters a conversion of `sourceFile` passes through. -/
def Reachable (sourceFile : ast.SourceFile) (c : converter) : Prop :=
  Relation.ReflTransGen Step (converter.init sourceFile) c

/-- A method run on the source file `sf`, in a converter where the pointers `live` are
allocated, is a sequence of steps, and the pointers `fresh` of its result are allocated in
the converter it ends with. -/
@[irreducible] def Runs {α : Type} (sf : ast.SourceFile) (live : List Ptr) (m : M α)
    (fresh : α → List Ptr) : Prop :=
  ∀ c a c', c.sourceFile = sf → (∀ p ∈ live, p < c.heap.length) → m c = Except.ok (a, c') →
    Relation.ReflTransGen Step c c' ∧ ∀ p ∈ fresh a, p < c'.heap.length

/-- The nodes that the conversions of JSX names register (a tag name; the accessed
expression and the name of a property access) are no omitted expressions. -/
def ast.SourceFile.jsxNamesOk (sf : ast.SourceFile) : Bool :=
  sf.Nodes.all (fun n =>
    (n.TagName.toList ++
      (if n.Kind = ast.Kind.PropertyAccessExpression then n.Expression.toList ++ n.Name.toList
       else [])).all
      (fun x => (sf.node x).Kind != ast.Kind.OmittedExpression))

/-- The calls of `c.converter` on the source file `sf` run by steps and return allocated
pointers. -/
@[reducible] def GoodConv (sf : ast.SourceFile) (conv : Conv) : Prop :=
  ∀ live n parent allowPattern, Runs sf live (conv n parent allowPattern) (fun r => r.toList)

/-! ## Structural children -/

/-- The nodes a field value holds. -/
def Value.children (v : Value) : List Ptr :=
  match v with
  | Value.node p => [p]
  | Value.list ps => ps.filterMap id
  | _ => []

/-- The structural children of a node: the nodes its fields hold. -/
def ESTreeNode.children (n : ESTreeNode) : List Ptr :=
  (n.Fields.map (fun f => f.2.children)).flatten

/-- The nodes reached from `roots` in at most `fuel` levels of children. -/
def converter.descendants (c : converter) : Nat → List Ptr → List Ptr
  | 0, roots => roots
  | fuel + 1, roots =>
    roots ++ c.descendants fuel ((roots.map (fun p => (c.get p).children)).flatten)

/-- Range containment at one node: it encloses each of its structural children. -/
def converter.encloses (c : converter) (p : Ptr) : Prop :=
  ∀ q ∈ (c.get p).children,
    (c.get p).Range.1 ≤ (c.get q).Range.1 ∧ (c.get q).Range.2 ≤ (c.get p).Range.2

instance (c : converter) (p : Ptr) : Decidable (c.encloses p) := by
  unfold converter.encloses
  infer_instance

/-- Location consistency at one node: its `Loc` is the line and column of its `Range`. -/
def converter.LocOk (c : converter) (p : Ptr) : Prop :=
  (c.get p).Loc = c.getLocFor (c.get p).Range

/-- The registry of converted nodes holds exactly the structs built through `createNode`:
a struct has an entry if and only if its tag is neither `TSTypeAnnotation` nor
`TSTypeParameterDeclaration`, and only allocated structs have one. -/
def converter.EsOk (c : converter) : Prop :=
  (∀ p, p < c.heap.length → (c.get p).Type_.builtWithoutCreateNode = false →
      ∃ n, c.esTreeNodeToTSNodeMap p = some n)
  ∧ (∀ p n, c.esTreeNodeToTSNodeMap p = some n →
      p < c.heap.length ∧ (c.get p).Type_.builtWithoutCreateNode = false)

end estree

/-! ## Concrete inputs -/

namespace estree

/-- A heap with a parent at `[5, 10]` (pointer 0) and a child at `[3, 12]` (pointer 1), on
one line of text. -/
def widenInput : converter :=
  { heap :=
      [ { Type_ := ESTreeKind.Identifier, Range := (5, 10)
          Loc := { Start := { Line := 1, Column := 5 }, End := { Line := 1, Column := 10 } } },
        { Type_ := ESTreeKind.TSTypeAnnotation, Range := (3, 12)
          Loc := { Start := { Line := 1, Column := 3 }, End := { Line := 1, Column := 12 } } } ] }

/-- A native node spanning `[0, 2]` and a struct whose constructor set the empty range at
offset 0. -/
def emptyRangeInput : converter :=
  { sourceFile := { Nodes := [{ Kind := ast.Kind.JsxExpression, Pos := 0, End := 2, TokenPos := 0 }] }
    heap := [{ Type_ := ESTreeKind.JSXEmptyExpression, Range := (0, 0) }] }

/-- A native node spanning `[4, 9]` (its first token at 5) and two structs: one whose
constructor set `[6, 8]`, one with no `Range`. -/
def createInput : converter :=
  { sourceFile := { Nodes := [{ Kind := ast.Kind.Identifier, Pos := 4, End := 9, TokenPos := 5 }] }
    heap := [{ Type_ := ESTreeKind.Identifier, Range := (6, 8) }, { Type_ := ESTreeKind.Identifier }] }

end estree

namespace estree

/-- The last of the leading `export` and `default` modifiers of a declaration whose
modifiers are `exportKeyword :: rest`. -/
def lastExportModifier (sf : ast.SourceFile) (exportKeyword : ast.NodePtr)
    (rest : List ast.NodePtr) : ast.NodePtr :=
  match rest with
  | [] => exportKeyword
  | m :: _ => if (sf.node m).Kind = ast.Kind.DefaultKeyword then m else exportKeyword

/-- The Go variable `declarationIsDefault` of `fixExports`, for a declaration whose
modifiers are `exportKeyword :: rest`. -/
def declarationIsDefault (sf : ast.SourceFile) (rest : List ast.NodePtr) : Bool :=
  match rest with
  | [] => false
  | m :: _ => (sf.node m).Kind == ast.Kind.DefaultKeyword

/-- A reading of the outcome of a conversion: `none` when it panicked. -/
def observe {α : Type} (r : Except Panic (Option Ptr × converter))
    (f : Option Ptr → converter → α) : Option α :=
  match r with
  | Except.ok (p, c) => some (f p c)
  | Except.error _ => none

/-- The file `export default function f(){}`: node 1 is the function declaration, 2 and 3
its modifiers `export` at `[0, 6]` and `default` at `[7, 14]`, 4 its name, 5 its body;
`function` is the token at `[15, 23]`. -/
def exportDefaultFunction : ast.SourceFile :=
  { Nodes :=
      [ { Kind := ast.Kind.SourceFile, Pos := 0, End := 29, TokenPos := 0
          Statements := some { Pos := 0, End := 29, Nodes := [1] } },
        { Kind := ast.Kind.FunctionDeclaration, Pos := 0, End := 29, TokenPos := 0
          Parent := some 0, ModifierFlags := 1, Modifiers := some [2, 3], Name := some 4
          Parameters := some { Pos := 26, End := 26, Nodes := [] }, Body := some 5 },
        { Kind := ast.Kind.ExportKeyword, Pos := 0, End := 6, TokenPos := 0, Parent := some 1 },
        { Kind := ast.Kind.DefaultKeyword, Pos := 6, End := 14, TokenPos := 7, Parent := some 1 },
        { Kind := ast.Kind.Identifier, Pos := 23, End := 25, TokenPos := 24, Parent := some 1
          Text := "f" },
        { Kind := ast.Kind.Block, Pos := 27, End := 29, TokenPos := 27, Parent := some 1
          Statements := some { Pos := 28, End := 28, Nodes := [] } } ]
    Root := 0
    GetRangeOfTokenAtPosition := fun p =>
      if p = 6 then (7, 14) else if p = 14 then (15, 23) else (p, p)
    ModifierFlagsModifier := 1 }

/-- The converter of `exportDefaultFunction` when `fixExports` is called: the body (0), the
name (1) and the function declaration (2) are built. -/
def functionBuilt : converter :=
  { sourceFile := exportDefaultFunction
    heap :=
      [ { Type_ := ESTreeKind.BlockStatement, Range := (27, 29)
          Loc := { Start := { Line := 1, Column := 27 }, End := { Line := 1, Column := 29 } }
          Fields := [("Body", Value.null)] },
        { Type_ := ESTreeKind.Identifier, Range := (24, 25)
          Loc := { Start := { Line := 1, Column := 24 }, End := { Line := 1, Column := 25 } }
          Fields := [("Decorators", Value.list []), ("Name", Value.str "f")] },
        { Type_ := ESTreeKind.FunctionDeclaration, Range := (0, 29)
          Loc := { Start := { Line := 1, Column := 0 }, End := { Line := 1, Column := 29 } }
          Fields := [("Async", Value.bool false), ("Body", Value.node 0),
                     ("Declare", Value.bool false), ("Expression", Value.bool false),
                     ("Generator", Value.bool false), ("Id", Value.node 1),
                     ("Params", Value.null), ("ReturnType", Value.null),
                     ("TypeParameters", Value.null)] } ]
    esTreeNodeToTSNodeMap :=
      Function.update (Function.update (Function.update (fun _ => none) 0 (some 5)) 1 (some 4))
        2 (some 1)
    tsNodeToESTreeNodeMap :=
      Function.update (Function.update (fun _ => none) 5 (some (some 0))) 4 (some (some 1)) }

/-- The file `export default interface I {}`: node 1 is the interface declaration, 2 and 3
its modifiers `export` and `default`, 4 its name; `interface` is the token at `[15, 24]`. -/
def exportDefaultInterface : ast.SourceFile :=
  { Nodes :=
      [ { Kind := ast.Kind.SourceFile, Pos := 0, End := 29, TokenPos := 0
          Statements := some { Pos := 0, End := 29, Nodes := [1] } },
        { Kind := ast.Kind.InterfaceDeclaration, Pos := 0, End := 29, TokenPos := 0
          Parent := some 0, ModifierFlags := 1, Modifiers := some [2, 3], Name := some 4
          Members := some { Pos := 28, End := 28, Nodes := [] } },
        { Kind := ast.Kind.ExportKeyword, Pos := 0, End := 6, TokenPos := 0, Parent := some 1 },
        { Kind := ast.Kind.DefaultKeyword, Pos := 6, End := 14, TokenPos := 7, Parent := some 1 },
        { Kind := ast.Kind.Identifier, Pos := 24, End := 26, TokenPos := 25, Parent := some 1
          Text := "I" } ]
    Root := 0
    GetRangeOfTokenAtPosition := fun p =>
      if p = 6 then (7, 14) else if p = 14 then (15, 24) else (p, p)
    ModifierFlagsModifier := 1 }

/-- The file `export type T = any`: node 1 is the type alias, 2 its modifier `export`, 3 its
name, 4 the type; `type` is the token at `[7, 11]`. -/
def exportTypeAlias : ast.SourceFile :=
  { Nodes :=
      [ { Kind := ast.Kind.SourceFile, Pos := 0, End := 19, TokenPos := 0
          Statements := some { Pos := 0, End := 19, Nodes := [1] } },
        { Kind := ast.Kind.TypeAliasDeclaration, Pos := 0, End := 19, TokenPos := 0
          Parent := some 0, ModifierFlags := 1, Modifiers := some [2], Name := some 3
          Type_ := some 4 },
        { Kind := ast.Kind.ExportKeyword, Pos := 0, End := 6, TokenPos := 0, Parent := some 1 },
        { Kind := ast.Kind.Identifier, Pos := 11, End := 13, TokenPos := 12, Parent := some 1
          Text := "T" },
        { Kind := ast.Kind.AnyKeyword, Pos := 15, End := 19, TokenPos := 16, Parent := some 1 } ]
    Root := 0
    GetRangeOfTokenAtPosition := fun p => if p = 6 then (7, 11) else (p, p)
    ModifierFlagsModifier := 1 }

/-- The converter of `exportTypeAlias` when `fixExports` is called: the name (0), the type
(1) and the type alias declaration (2) are built. -/
def typeAliasBuilt : converter :=
  { sourceFile := exportTypeAlias
    heap :=
      [ { Type_ := ESTreeKind.Identifier, Range := (12, 13)
          Loc := { Start := { Line := 1, Column := 12 }, End := { Line := 1, Column := 13 } }
          Fields := [("Decorators", Value.list []), ("Name", Value.str "T")] },
        { Type_ := ESTreeKind.TSAnyKeyword, Range := (16, 19)
          Loc := { Start := { Line := 1, Column := 16 }, End := { Line := 1, Column := 19 } } },
        { Type_ := ESTreeKind.TSTypeAliasDeclaration, Range := (0, 19)
          Loc := { Start := { Line := 1, Column := 0 }, End := { Line := 1, Column := 19 } }
          Fields := [("Declare", Value.bool false), ("Id", Value.node 0),
                     ("TypeAnnotation", Value.node 1), ("TypeParameters", Value.null)] } ]
    esTreeNodeToTSNodeMap :=
      Function.update (Function.update (Function.update (fun _ => none) 0 (some 3)) 1 (some 4))
        2 (some 1)
    tsNodeToESTreeNodeMap :=
      Function.update (Function.update (fun _ => none) 3 (some (some 0))) 4 (some (some 1)) }

end estree

namespace estree

/-- The file `function f(): any {}`: node 1 is the function declaration, 2 its name, 3 its
return type `any` at `[14, 17]` (the colon is at 12), 4 its body. -/
def functionWithReturnType : ast.SourceFile :=
  { Nodes :=
      [ { Kind := ast.Kind.SourceFile, Pos := 0, End := 20, TokenPos := 0
          Statements := some { Pos := 0, End := 20, Nodes := [1] } },
        { Kind := ast.Kind.FunctionDeclaration, Pos := 0, End := 20, TokenPos := 0
          Parent := some 0, Name := some 2, Type_ := some 3
          Parameters := some { Pos := 11, End := 11, Nodes := [] }, Body := some 4 },
        { Kind := ast.Kind.Identifier, Pos := 8, End := 10, TokenPos := 9, Parent := some 1
          Text := "f" },
        { Kind := ast.Kind.AnyKeyword, Pos := 13, End := 17, TokenPos := 14, Parent := some 1 },
        { Kind := ast.Kind.Block, Pos := 17, End := 20, TokenPos := 18, Parent := some 1
          Statements := some { Pos := 19, End := 19, Nodes := [] } } ]
    Root := 0
    ModifierFlagsModifier := 1 }

/-- The file `class C { m(@d x) {} }`: node 1 is the class, 2 its name, 3 the method `m`,
4 its name, 5 the parameter `@d x` at `[12, 16]`, 6 its decorator `@d` at `[12, 14]`, 7 the
decorator's expression `d`, 8 the parameter's name `x` at `[15, 16]`, 9 the method body.
The parameter has no modifier but the decorator, so `ModifierFlags() &
ModifierFlagsModifier` is 0. -/
def classWithDecoratedParameter : ast.SourceFile :=
  { Nodes :=
      [ { Kind := ast.Kind.SourceFile, Pos := 0, End := 22, TokenPos := 0
          Statements := some { Pos := 0, End := 22, Nodes := [1] } },
        { Kind := ast.Kind.ClassDeclaration, Pos := 0, End := 22, TokenPos := 0
          Parent := some 0, Name := some 2, Members := some { Pos := 9, End := 20, Nodes := [3] } },
        { Kind := ast.Kind.Identifier, Pos := 5, End := 7, TokenPos := 6, Parent := some 1
          Text := "C" },
        { Kind := ast.Kind.MethodDeclaration, Pos := 9, End := 20, TokenPos := 10
          Parent := some 1, Name := some 4
          Parameters := some { Pos := 12, End := 16, Nodes := [5] }, Body := some 9 },
        { Kind := ast.Kind.Identifier, Pos := 9, End := 11, TokenPos := 10, Parent := some 3
          Text := "m" },
        { Kind := ast.Kind.Parameter, Pos := 12, End := 16, TokenPos := 12, Parent := some 3
          ModifierFlags := 2, Modifiers := some [6], Name := some 8 },
        { Kind := ast.Kind.Decorator, Pos := 12, End := 14, TokenPos := 12, Parent := some 5
          Expression := some 7 },
        { Kind := ast.Kind.Identifier, Pos := 13, End := 14, TokenPos := 13, Parent := some 6
          Text := "d" },
        { Kind := ast.Kind.Identifier, Pos := 14, End := 16, TokenPos := 15, Parent := some 5
          Text := "x" },
        { Kind := ast.Kind.Block, Pos := 17, End := 20, TokenPos := 18, Parent := some 3
          Statements := some { Pos := 19, End := 19, Nodes := [] } } ]
    Root := 0
    ModifierFlagsModifier := 1 }

end estree

namespace estree

/-- The file `function f(x: any) {}`: node 1 is the function declaration, 2 its name, 3 the
parameter `x: any` at `[11, 17]`, 4 the parameter's name `x` at `[11, 12]`, 5 its type `any`
at `[14, 17]` (the colon is at 12), 6 the body. -/
def functionWithTypedParameter : ast.SourceFile :=
  { Nodes :=
      [ { Kind := ast.Kind.SourceFile, Pos := 0, End := 21, TokenPos := 0
          Statements := some { Pos := 0, End := 21, Nodes := [1] } },
        { Kind := ast.Kind.FunctionDeclaration, Pos := 0, End := 21, TokenPos := 0
          Parent := some 0, Name := some 2
          Parameters := some { Pos := 11, End := 17, Nodes := [3] }, Body := some 6 },
        { Kind := ast.Kind.Identifier, Pos := 8, End := 10, TokenPos := 9, Parent := some 1
          Text := "f" },
        { Kind := ast.Kind.Parameter, Pos := 11, End := 17, TokenPos := 11, Parent := some 1
          Name := some 4, Type_ := some 5 },
        { Kind := ast.Kind.Identifier, Pos := 11, End := 12, TokenPos := 11, Parent := some 3
          Text := "x" },
        { Kind := ast.Kind.AnyKeyword, Pos := 13, End := 17, TokenPos := 14, Parent := some 3 },
        { Kind := ast.Kind.Block, Pos := 18, End := 21, TokenPos := 19, Parent := some 1
          Statements := some { Pos := 20, End := 20, Nodes := [] } } ]
    Root := 0
    ModifierFlagsModifier := 1 }

/-- The file `[,x]`: node 1 is the expression statement, 2 the array literal, 3 the omitted
first element, 4 the identifier `x` at `[2, 3]`. -/
def arrayWithHole : ast.SourceFile :=
  { Nodes :=
      [ { Kind := ast.Kind.SourceFile, Pos := 0, End := 4, TokenPos := 0
          Statements := some { Pos := 0, End := 4, Nodes := [1] } },
        { Kind := ast.Kind.ExpressionStatement, Pos := 0, End := 4, TokenPos := 0
          Parent := some 0, Expression := some 2 },
        { Kind := ast.Kind.ArrayLiteralExpression, Pos := 0, End := 4, TokenPos := 0
          Parent := some 1, Elements := some { Pos := 1, End := 3, Nodes := [3, 4] } },
        { Kind := ast.Kind.OmittedExpression, Pos := 1, End := 1, TokenPos := 1, Parent := some 2 },
        { Kind := ast.Kind.Identifier, Pos := 2, End := 3, TokenPos := 2, Parent := some 2
          Text := "x" } ]
    Root := 0
    ModifierFlagsModifier := 1 }

/-- The file `(a?.b).c`: node 1 is the expression statement, 2 the outer access `.c`, 3 the
parenthesised expression, 4 the inner access `a?.b`, 5, 6 and 7 the identifiers `a`, `b`
and `c`, 8 the token `?.`. -/
def parenthesizedChain : ast.SourceFile :=
  { Nodes :=
      [ { Kind := ast.Kind.SourceFile, Pos := 0, End := 8, TokenPos := 0
          Statements := some { Pos := 0, End := 8, Nodes := [1] } },
        { Kind := ast.Kind.ExpressionStatement, Pos := 0, End := 8, TokenPos := 0
          Parent := some 0, Expression := some 2 },
        { Kind := ast.Kind.PropertyAccessExpression, Pos := 0, End := 8, TokenPos := 0
          Parent := some 1, Expression := some 3, Name := some 7 },
        { Kind := ast.Kind.ParenthesizedExpression, Pos := 0, End := 6, TokenPos := 0
          Parent := some 2, Expression := some 4 },
        { Kind := ast.Kind.PropertyAccessExpression, Pos := 1, End := 5, TokenPos := 1
          Parent := some 3, Expression := some 5, Name := some 6, QuestionDotToken := some 8 },
        { Kind := ast.Kind.Identifier, Pos := 1, End := 2, TokenPos := 1, Parent := some 4
          Text := "a" },
        { Kind := ast.Kind.Identifier, Pos := 4, End := 5, TokenPos := 4, Parent := some 4
          Text := "b" },
        { Kind := ast.Kind.Identifier, Pos := 7, End := 8, TokenPos := 7, Parent := some 2
          Text := "c" },
        { Kind := ast.Kind.QuestionDotToken, Pos := 2, End := 4, TokenPos := 2
          Parent := some 4 } ]
    Root := 0
    ModifierFlagsModifier := 1 }

/-- The file `a?.b.c`: node 1 is the expression statement, 2 the outer access `.c`, 3 the
inner access `a?.b`, 4, 5 and 6 the identifiers `a`, `b` and `c`, 7 the token `?.`. -/
def mergedChain : ast.SourceFile :=
  { Nodes :=
      [ { Kind := ast.Kind.SourceFile, Pos := 0, End := 6, TokenPos := 0
          Statements := some { Pos := 0, End := 6, Nodes := [1] } },
        { Kind := ast.Kind.ExpressionStatement, Pos := 0, End := 6, TokenPos := 0
          Parent := some 0, Expression := some 2 },
        { Kind := ast.Kind.PropertyAccessExpression, Pos := 0, End := 6, TokenPos := 0
          Parent := some 1, Expression := some 3, Name := some 6 },
        { Kind := ast.Kind.PropertyAccessExpression, Pos := 0, End := 4, TokenPos := 0
          Parent := some 2, Expression := some 4, Name := some 5, QuestionDotToken := some 7 },
        { Kind := ast.Kind.Identifier, Pos := 0, End := 1, TokenPos := 0, Parent := some 3
          Text := "a" },
        { Kind := ast.Kind.Identifier, Pos := 3, End := 4, TokenPos := 3, Parent := some 3
          Text := "b" },
        { Kind := ast.Kind.Identifier, Pos := 5, End := 6, TokenPos := 5, Parent := some 2
          Text := "c" },
        { Kind := ast.Kind.QuestionDotToken, Pos := 1, End := 3, TokenPos := 1
          Parent := some 3 } ]
    Root := 0
    ModifierFlagsModifier := 1 }

/-- The file `[a, b] = c`: node 1 is the expression statement, 2 the assignment, 3 the
array literal, 4 and 5 its elements `a` and `b`, 6 the token `=`, 7 the identifier `c`. -/
def arrayAssignment : ast.SourceFile :=
  { Nodes :=
      [ { Kind := ast.Kind.SourceFile, Pos := 0, End := 10, TokenPos := 0
          Statements := some { Pos := 0, End := 10, Nodes := [1] } },
        { Kind := ast.Kind.ExpressionStatement, Pos := 0, End := 10, TokenPos := 0
          Parent := some 0, Expression := some 2 },
        { Kind := ast.Kind.BinaryExpression, Pos := 0, End := 10, TokenPos := 0
          Parent := some 1, Left := some 3, OperatorToken := some 6, Right := some 7 },
        { Kind := ast.Kind.ArrayLiteralExpression, Pos := 0, End := 6, TokenPos := 0
          Parent := some 2, Elements := some { Pos := 1, End := 5, Nodes := [4, 5] } },
        { Kind := ast.Kind.Identifier, Pos := 1, End := 2, TokenPos := 1, Parent := some 3
          Text := "a" },
        { Kind := ast.Kind.Identifier, Pos := 3, End := 5, TokenPos := 4, Parent := some 3
          Text := "b" },
        { Kind := ast.Kind.EqualsToken, Pos := 6, End := 8, TokenPos := 7, Parent := some 2 },
        { Kind := ast.Kind.Identifier, Pos := 8, End := 10, TokenPos := 9, Parent := some 2
          Text := "c" } ]
    Root := 0
    ModifierFlagsModifier := 1
    IsAssignmentOperator := fun k => k == ast.Kind.EqualsToken || k == ast.Kind.PlusEqualsToken
    IsLogicalOrCoalescingBinaryOperator := fun k =>
      k == ast.Kind.BarBarToken || k == ast.Kind.AmpersandAmpersandToken
        || k == ast.Kind.QuestionQuestionToken
    TokenToString := fun k =>
      if k = ast.Kind.EqualsToken then "=" else if k = ast.Kind.PlusToken then "+" else "" }

/-- The file `[a, b]`: node 1 is the expression statement, 2 the array literal, 3 and 4 its
elements. -/
def arrayAlone : ast.SourceFile :=
  { Nodes :=
      [ { Kind := ast.Kind.SourceFile, Pos := 0, End := 6, TokenPos := 0
          Statements := some { Pos := 0, End := 6, Nodes := [1] } },
        { Kind := ast.Kind.ExpressionStatement, Pos := 0, End := 6, TokenPos := 0
          Parent := some 0, Expression := some 2 },
        { Kind := ast.Kind.ArrayLiteralExpression, Pos := 0, End := 6, TokenPos := 0
          Parent := some 1, Elements := some { Pos := 1, End := 5, Nodes := [3, 4] } },
        { Kind := ast.Kind.Identifier, Pos := 1, End := 2, TokenPos := 1, Parent := some 2
          Text := "a" },
        { Kind := ast.Kind.Identifier, Pos := 3, End := 5, TokenPos := 4, Parent := some 2
          Text := "b" } ]
    Root := 0
    ModifierFlagsModifier := 1 }

/-- The file `function f(x): x is any {}`: node 1 is the function declaration, 2 its name,
3 the parameter `x`, 4 the parameter's name, 5 the type predicate `x is any` at `[15, 23]`
(the colon is at 13), 6 its parameter name `x`, 7 its type `any` at `[20, 23]` (the keyword
`is` is at `[17, 19]`), 8 the body. -/
def typePredicateFunction : ast.SourceFile :=
  { Nodes :=
      [ { Kind := ast.Kind.SourceFile, Pos := 0, End := 26, TokenPos := 0
          Statements := some { Pos := 0, End := 26, Nodes := [1] } },
        { Kind := ast.Kind.FunctionDeclaration, Pos := 0, End := 26, TokenPos := 0
          Parent := some 0, Name := some 2, Type_ := some 5
          Parameters := some { Pos := 11, End := 12, Nodes := [3] }, Body := some 8 },
        { Kind := ast.Kind.Identifier, Pos := 8, End := 10, TokenPos := 9, Parent := some 1
          Text := "f" },
        { Kind := ast.Kind.Parameter, Pos := 11, End := 12, TokenPos := 11, Parent := some 1
          Name := some 4 },
        { Kind := ast.Kind.Identifier, Pos := 11, End := 12, TokenPos := 11, Parent := some 3
          Text := "x" },
        { Kind := ast.Kind.TypePredicate, Pos := 14, End := 23, TokenPos := 15, Parent := some 1
          ParameterName := some 6, Type_ := some 7 },
        { Kind := ast.Kind.Identifier, Pos := 14, End := 16, TokenPos := 15, Parent := some 5
          Text := "x" },
        { Kind := ast.Kind.AnyKeyword, Pos := 19, End := 23, TokenPos := 20, Parent := some 5 },
        { Kind := ast.Kind.Block, Pos := 23, End := 26, TokenPos := 24, Parent := some 1
          Statements := some { Pos := 25, End := 25, Nodes := [] } } ]
    Root := 0
    ModifierFlagsModifier := 1 }

/-- The file `declare namespace A.B.C {}`: node 1 is the module declaration of `A`, 2 its
modifier `declare`, 3 the name `A` at `[18, 19]`, 4 the module declaration of `B`, 5 the
name `B` at `[20, 21]`, 6 the module declaration of `C`, 7 the name `C` at `[22, 23]`, 8 the
module block at `[24, 26]`. -/
def nestedNamespace : ast.SourceFile :=
  { Nodes :=
      [ { Kind := ast.Kind.SourceFile, Pos := 0, End := 26, TokenPos := 0
          Statements := some { Pos := 0, End := 26, Nodes := [1] } },
        { Kind := ast.Kind.ModuleDeclaration, Pos := 0, End := 26, TokenPos := 0
          Parent := some 0, ModifierFlags := 1, Modifiers := some [2], Name := some 3
          Body := some 4, Keyword := ast.Kind.NamespaceKeyword },
        { Kind := ast.Kind.DeclareKeyword, Pos := 0, End := 7, TokenPos := 0, Parent := some 1 },
        { Kind := ast.Kind.Identifier, Pos := 17, End := 19, TokenPos := 18, Parent := some 1
          Text := "A" },
        { Kind := ast.Kind.ModuleDeclaration, Pos := 20, End := 26, TokenPos := 20
          Parent := some 1, Name := some 5, Body := some 6
          Keyword := ast.Kind.NamespaceKeyword },
        { Kind := ast.Kind.Identifier, Pos := 20, End := 21, TokenPos := 20, Parent := some 4
          Text := "B" },
        { Kind := ast.Kind.ModuleDeclaration, Pos := 22, End := 26, TokenPos := 22
          Parent := some 4, Name := some 7, Body := some 8
          Keyword := ast.Kind.NamespaceKeyword },
        { Kind := ast.Kind.Identifier, Pos := 22, End := 23, TokenPos := 22, Parent := some 6
          Text := "C" },
        { Kind := ast.Kind.ModuleBlock, Pos := 23, End := 26, TokenPos := 24, Parent := some 6
          Statements := some { Pos := 25, End := 25, Nodes := [] } } ]
    Root := 0
    ModifierFlagsModifier := 1 }

/-- The file `<a.b.c/>`: node 1 is the expression statement, 2 the self-closing element,
3 the tag name `a.b.c`, 4 the access `a.b`, 5, 6 and 7 the identifiers `a`, `b` and `c`,
8 the empty list of attributes. -/
def jsxMemberTag : ast.SourceFile :=
  { Nodes :=
      [ { Kind := ast.Kind.SourceFile, Pos := 0, End := 8, TokenPos := 0
          Statements := some { Pos := 0, End := 8, Nodes := [1] } },
        { Kind := ast.Kind.ExpressionStatement, Pos := 0, End := 8, TokenPos := 0
          Parent := some 0, Expression := some 2 },
        { Kind := ast.Kind.JsxSelfClosingElement, Pos := 0, End := 8, TokenPos := 0
          Parent := some 1, TagName := some 3, Attributes := some 8 },
        { Kind := ast.Kind.PropertyAccessExpression, Pos := 1, End := 6, TokenPos := 1
          Parent := some 2, Expression := some 4, Name := some 7, SourceText := "a.b.c" },
        { Kind := ast.Kind.PropertyAccessExpression, Pos := 1, End := 4, TokenPos := 1
          Parent := some 3, Expression := some 5, Name := some 6, SourceText := "a.b" },
        { Kind := ast.Kind.Identifier, Pos := 1, End := 2, TokenPos := 1, Parent := some 4
          Text := "a", SourceText := "a" },
        { Kind := ast.Kind.Identifier, Pos := 3, End := 4, TokenPos := 3, Parent := some 4
          Text := "b", SourceText := "b" },
        { Kind := ast.Kind.Identifier, Pos := 5, End := 6, TokenPos := 5, Parent := some 3
          Text := "c", SourceText := "c" },
        { Kind := ast.Kind.JsxAttributes, Pos := 6, End := 6, TokenPos := 6, Parent := some 2
          Properties := some { Pos := 6, End := 6, Nodes := [] } } ]
    Root := 0
    ModifierFlagsModifier := 1 }

/-- The file `<d></d>`: node 1 is the expression statement, 2 the element, 3 its opening
element `<d>`, 4 its closing element `</d>`, 5 and 6 their tag names, 7 the empty list of
attributes. -/
def jsxElementPair : ast.SourceFile :=
  { Nodes :=
      [ { Kind := ast.Kind.SourceFile, Pos := 0, End := 7, TokenPos := 0
          Statements := some { Pos := 0, End := 7, Nodes := [1] } },
        { Kind := ast.Kind.ExpressionStatement, Pos := 0, End := 7, TokenPos := 0
          Parent := some 0, Expression := some 2 },
        { Kind := ast.Kind.JsxElement, Pos := 0, End := 7, TokenPos := 0, Parent := some 1
          OpeningElement := some 3, ClosingElement := some 4
          Children := some { Pos := 3, End := 3, Nodes := [] } },
        { Kind := ast.Kind.JsxOpeningElement, Pos := 0, End := 3, TokenPos := 0
          Parent := some 2, TagName := some 5, Attributes := some 7 },
        { Kind := ast.Kind.JsxClosingElement, Pos := 3, End := 7, TokenPos := 3
          Parent := some 2, TagName := some 6 },
        { Kind := ast.Kind.Identifier, Pos := 1, End := 2, TokenPos := 1, Parent := some 3
          Text := "d", SourceText := "d" },
        { Kind := ast.Kind.Identifier, Pos := 5, End := 6, TokenPos := 5, Parent := some 4
          Text := "d", SourceText := "d" },
        { Kind := ast.Kind.JsxAttributes, Pos := 2, End := 2, TokenPos := 2, Parent := some 3
          Properties := some { Pos := 2, End := 2, Nodes := [] } } ]
    Root := 0
    ModifierFlagsModifier := 1 }

/-- A source file whose only statement is a node of the kind `EndOfFile`, which has no
case in the switch of `convertNode`. -/
def strayToken : ast.SourceFile :=
  { Nodes :=
      [ { Kind := ast.Kind.SourceFile, Pos := 0, End := 1, TokenPos := 0
          Statements := some { Pos := 0, End := 1, Nodes := [1] } },
        { Kind := ast.Kind.EndOfFile, Pos := 0, End := 1, TokenPos := 0, Parent := some 0 } ]
    Root := 0
    ModifierFlagsModifier := 1 }

/-- The converter a method leaves behind, and the one it started with when it panicked. -/
def stateAfter {α : Type} (m : M α) (c : converter) : converter :=
  match m c with
  | Except.ok (_, c') => c'
  | Except.error _ => c

end estree

/-! ## Range containment

The writes of the converter under the conditions that keep every node around its
structural children, and the writes `convertBindingNameWithTypeAnnotation` makes for the
parameter of `function f(x: any) {}`. -/

namespace estree

/-- The node `q` is allocated and its `Range` lies within `s`. -/
def converter.holds (c : converter) (s : Range) (q : Ptr) : Prop :=
  q < c.heap.length ∧ s.1 ≤ (c.get q).Range.1 ∧ (c.get q).Range.2 ≤ s.2

instance (c : converter) (s : Range) (q : Ptr) : Decidable (c.holds s q) := by
  unfold converter.holds
  infer_instance

/-- Range containment over the converted nodes: every structural child of every allocated
node is allocated, and its `Range` lies within the `Range` of the node. -/
def converter.Contained (c : converter) : Prop :=
  ∀ p, p < c.heap.length → ∀ q ∈ (c.get p).children, c.holds (c.get p).Range q

instance (c : converter) : Decidable c.Contained := by
  unfold converter.Contained
  infer_instance

/-- The pairs of an allocated node and a structural child of it that is not allocated or
whose `Range` does not lie within the `Range` of the node. -/
def converter.escaping (c : converter) : List (Ptr × Ptr) :=
  (List.range c.heap.length).flatMap (fun p =>
    ((c.get p).children.filter (fun q => !decide (c.holds (c.get p).Range q))).map
      (fun q => (p, q)))

/-- The `Range` that `createNode` leaves on the struct literal `data` built for `node`
(lines 63-67): the one the literal sets, and `getRange(node)` when that is `[0, 0]`. -/
def converter.rangeFor (c : converter) (node : ast.NodePtr) (data : ESTreeNode) : Range :=
  if data.Range.1 = 0 ∧ data.Range.2 = 0 then c.getRange node else data.Range

/-- One write of the converter, or a write with the call of `fixParentLocation` that
follows it, under the condition that keeps range containment: a struct is built around
children that lie within the `Range` it gets; a `Range` that is rewritten still encloses
the children of its node and stays within the nodes that hold it; a child that is attached
later lies within its parent, or the parent is widened over it. Each constructor names the
lines of `converter.go` it stands for. -/
inductive Nests : converter → converter → Prop where
  /-- A call `c.createNode(node, &X{...})` whose struct literal holds children within the
  `Range` the struct gets. -/
  | create (c : converter) (node : ast.NodePtr) (data : ESTreeNode)
      (hLoc : data.Loc = {}) (hTag : data.Type_.builtWithoutCreateNode = false)
      (hChain : data.Type_ = ESTreeKind.ChainExpression → ChainWrap c node data)
      (hin : ∀ q ∈ data.children, c.holds (c.rangeFor node data) q) :
      Nests c ((c.new data).2.createNode node (c.new data).1).2
  /-- The call `c.createNode(node, &Identifier{...})` of case `KindMetaProperty`
  (line 2094), which has no children. -/
  | createMeta (c : converter) (node : ast.NodePtr) (data : ESTreeNode)
      (hRange : data.Range = c.sourceFile.GetRangeOfTokenAtPosition (c.sourceFile.node node).Pos)
      (hToken : data.Range ≠ (0, 0)) (hLoc : data.Loc = c.getLocFor data.Range)
      (hTag : data.Type_ = ESTreeKind.Identifier)
      (hin : ∀ q ∈ data.children, c.holds data.Range q) :
      Nests c ((c.new data).2.createNode node (c.new data).1).2
  /-- A method or constructor built with the `Range` that starts at its parameters and
  widened over its type parameters `w` at once (lines 1150-1178 and 1282-1302): the other
  children lie within the `Range` the struct gets. -/
  | createWiden (c : converter) (node : ast.NodePtr) (data : ESTreeNode) (w : Ptr)
      (hLoc : data.Loc = {}) (hTag : data.Type_.builtWithoutCreateNode = false)
      (hChain : data.Type_ = ESTreeKind.ChainExpression → ChainWrap c node data)
      (hw : w < c.heap.length)
      (hin : ∀ q ∈ data.children, q ≠ w → c.holds (c.rangeFor node data) q) :
      Nests c
        (((c.new data).2.createNode node (c.new data).1).2.fixParentLocation c.heap.length w)
  /-- The struct built by `convertTypeAnnotation` (lines 160-166) around the converted
  type. -/
  | typeAnnotationNode (c : converter) (inner : Value) (r : Range)
      (hin : ∀ q ∈ inner.children, c.holds r q) :
      Nests c
        (((c.new { Type_ := ESTreeKind.TSTypeAnnotation
                   Fields := [("TypeAnnotation", inner)] }).2.setRange c.heap.length r).setLoc
          c.heap.length (c.getLocFor r))
  /-- The struct built by `convertTSTypeParametersToTypeParametersDeclaration` (line 259)
  around the converted type parameters. -/
  | typeParametersNode (c : converter) (params : Value) (r : Range)
      (hin : ∀ q ∈ params.children, c.holds r q) :
      Nests c
        (c.new { Type_ := ESTreeKind.TSTypeParameterDeclaration
                 Loc := c.getLocFor r
                 Range := r
                 Fields := [("Params", params)] }).2
  /-- A call of `setProperty` with a node, followed by `fixParentLocation` over that node
  (lines 332-333 and 1629-1630): whatever holds the widened node encloses the child too;
  nothing holds it yet at line 333, and at line 1630 at most the `AssignmentPattern` built
  for the same parameter. -/
  | attachWiden (c : converter) (id w : Ptr) (name : String)
      (hWrite : PropertyWrite c id name (Value.node w))
      (hid : id < c.heap.length) (hw : w < c.heap.length) (hne : id ≠ w)
      (hout : ∀ x, x < c.heap.length → id ∈ (c.get x).children →
        (c.get x).Range.1 ≤ (c.get w).Range.1 ∧ (c.get w).Range.2 ≤ (c.get x).Range.2) :
      Nests c ((c.setProperty id name (Value.node w)).fixParentLocation id w)
  /-- The pair `setRange(r); setLoc(c.getLocFor(r))` of `fixExports` (lines 221-222) and of
  case `KindParameter` (lines 1619-1620): `r` encloses the children of the node and lies
  within the nodes that hold it. -/
  | setRangeLoc (c : converter) (p : Ptr) (r : Range)
      (hin : ∀ q ∈ (c.get p).children, q ≠ p → c.holds r q)
      (hout : ∀ x, x < c.heap.length → x ≠ p → p ∈ (c.get x).children →
        (c.get x).Range.1 ≤ r.1 ∧ r.2 ≤ (c.get x).Range.2) :
      Nests c ((c.setRange p r).setLoc p (c.getLocFor r))
  /-- The widening over the question token in case `KindParameter` (lines 1634-1641): the
  token ends within the nodes that hold the parameter. -/
  | questionToken (c : converter) (p : Ptr) (questionTokenEnd : Int)
      (hout : ∀ x, x < c.heap.length → x ≠ p → p ∈ (c.get x).children →
        questionTokenEnd ≤ (c.get x).Range.2) :
      Nests c
        (if questionTokenEnd > (c.get p).Range.2 then
          (c.setRange p ((c.get p).Range.1, questionTokenEnd)).setLoc p
            { Start := (c.get p).Loc.Start
              End := getLineAndCharacterFor questionTokenEnd c.sourceFile }
        else c)
  /-- The fix for type guards in case `KindTypePredicate` (lines 2615-2616): the
  `TSTypeAnnotation` just built holds the annotated type alone, and nothing holds it yet. -/
  | typePredicate (c : converter) (annotated inner : Ptr) (hInner : inner < c.heap.length)
      (hin : ∀ q ∈ (c.get annotated).children, q ≠ annotated → c.holds (c.get inner).Range q)
      (hout : ∀ x, x < c.heap.length → x ≠ annotated → annotated ∈ (c.get x).children →
        (c.get x).Range.1 ≤ (c.get inner).Range.1 ∧ (c.get inner).Range.2 ≤ (c.get x).Range.2) :
      Nests c ((c.setLoc annotated (c.get inner).Loc).setRange annotated (c.get inner).Range)
  /-- The adjustment of a rest tuple member in case `KindNamedTupleMember`
  (lines 2896-2900): the label starts the member, and nothing holds the member yet. -/
  | tupleMember (c : converter) (member label : Ptr) (hLabel : label < c.heap.length)
      (hin : ∀ q ∈ (c.get member).children, q ≠ member →
        (c.get label).Range.1 ≤ (c.get q).Range.1)
      (hout : ∀ x, x < c.heap.length → x ≠ member → member ∈ (c.get x).children →
        (c.get x).Range.1 ≤ (c.get label).Range.1) :
      Nests c
        ((c.setRange member ((c.get label).Range.1, (c.get member).Range.2)).setLoc member
          { Start := (c.get label).Loc.Start, End := (c.get member).Loc.End })
  /-- A call of `setProperty` (lines 321, 332, 507, 1629, 1642) with a value whose nodes
  lie within the node that gets them; a string or a boolean (lines 507 and 1642) holds
  none. -/
  | setProperty (c : converter) (p : Ptr) (name : String) (v : Value)
      (hWrite : PropertyWrite c p name v)
      (hin : ∀ q ∈ v.children, c.holds (c.get p).Range q) :
      Nests c (c.setProperty p name v)
  /-- The assignment of `convertChainExpression` (lines 593-597): the object, callee or
  expression `child` of a link, a `ChainExpression`, is replaced by its `Expression`. -/
  | unwrap (c : converter) (p child : Ptr)
      (hLink : (c.get p).Type_.isChainLink = true)
      (hChain : (c.get child).Type_ = ESTreeKind.ChainExpression)
      (hChild : child ∈ (c.get p).children) :
      Nests c (c.setProperty p (chainChildField (c.get p).Type_)
        ((c.get child).field "Expression"))
  /-- A call of `registerTSNodeInNodeMap` (lines 142, 207, 523, 542, 563). -/
  | register (c : converter) (node : ast.NodePtr) (result : Option Ptr)
      (hOmitted : (c.sourceFile.node node).Kind = ast.Kind.OmittedExpression → result = none) :
      Nests c (c.registerTSNodeInNodeMap node result)
  /-- An assignment to `c.allowPattern` (lines 135, 144). -/
  | setAllowPattern (c : converter) (allowPattern : Bool) :
      Nests c { c with allowPattern := allowPattern }

end estree

namespace estree

/-- The converter after `createNode` built the `Identifier` for the name `x` of the
parameter of `function f(x: any) {}`. -/
def typedParameterName : converter :=
  (((converter.init functionWithTypedParameter).new
      { Type_ := ESTreeKind.Identifier
        Fields := [("Decorators", Value.list []), ("Name", Value.str "x")] }).2.createNode 4
    (converter.init functionWithTypedParameter).heap.length).2

/-- The converter after `createNode` built the `TSAnyKeyword` for the type `any`. -/
def typedParameterType : converter :=
  ((typedParameterName.new { Type_ := ESTreeKind.TSAnyKeyword }).2.createNode 5
    typedParameterName.heap.length).2

/-- The converter after `convertTypeAnnotation` built its struct around the type. -/
def typedParameterAnnotated : converter :=
  ((typedParameterType.new
      { Type_ := ESTreeKind.TSTypeAnnotation
        Fields := [("TypeAnnotation", Value.node 1)] }).2.setRange
    typedParameterType.heap.length (12, 17)).setLoc typedParameterType.heap.length
      (typedParameterType.getLocFor (12, 17))

/-- The converter after the name took the annotation and was widened over it. -/
def typedParameterWidened : converter :=
  (typedParameterAnnotated.setProperty 0 "TypeAnnotation" (Value.node 2)).fixParentLocation 0 2

end estree

/-! ## Reading a run -/

namespace estree

/-- The value a method returns, none when it panics. -/
def valueOf {α : Type} (m : M α) (c : converter) : Option α :=
  match m c with
  | Except.ok (a, _) => some a
  | Except.error _ => none

/-- The `offset` of Go `convertTypeAnnotation` (lines 154-157): 2 under a function type or
a constructor type, whose separator is `=>`, and 1 elsewhere. -/
def typeAnnotationOffset (sf : ast.SourceFile) (parent : Option ast.NodePtr) : Int :=
  match parent with
  | none => 1
  | some p =>
    if (sf.node p).Kind = ast.Kind.FunctionType ∨ (sf.node p).Kind = ast.Kind.ConstructorType
    then 2 else 1

/-- The fix for type guards of Go `convertNode`, case `KindTypePredicate` (lines 2613-2617),
as `convertTypePredicate` runs it when `n.Type` is not nil: the annotation
`convertTypeAnnotation` built takes the `Loc` and the `Range` of the type it holds. -/
def typeGuardAnnotation (conv : Conv) (type_ : Option ast.NodePtr) (node : ast.NodePtr) :
    M (Option Ptr) := do
  let annotation ← deref (← convertTypeAnnotation conv type_ (some node))
  let c ← get
  match (c.get annotation).field "TypeAnnotation" with
  | Value.node inner => do
    modify (fun c => c.setLoc annotation (c.get inner).Loc)
    modify (fun c => c.setRange annotation (c.get inner).Range)
    pure (some annotation)
  | _ => throw Panic.typeAssertion

/-- The module declarations nested below `n`, as the loop of Go `convertNode`, case
`KindModuleDeclaration`, walks them: `rest` lists each nested declaration with its name,
and the loop stops at the last one, whose body is nil, no module declaration, or a module
declaration without a name. -/
def ast.SourceFile.isModuleChain (sf : ast.SourceFile) :
    ast.NodePtr → List (ast.NodePtr × ast.NodePtr) → Bool
  | n, [] =>
    match (sf.node n).Body with
    | none => true
    | some body =>
      !((sf.node body).Kind == ast.Kind.ModuleDeclaration && (sf.node body).Name.isSome)
  | n, (m, name) :: rest =>
    (sf.node n).Body == some m && (sf.node m).Kind == ast.Kind.ModuleDeclaration
      && (sf.node m).Name == some name && sf.isModuleChain m rest

/-- The innermost module declaration of a chain. -/
def innermostModule (n : ast.NodePtr) : List (ast.NodePtr × ast.NodePtr) → ast.NodePtr
  | [] => n
  | (m, _) :: rest => innermostModule m rest

/-- The left-nested name `((N1.N2).N3)...Nk` of the specification, read off the converted
tree: `names` lists the texts from `Nk` down to `N1`, and `p` is an `Identifier` named
`N1` for one text, and else a `TSQualifiedName` whose `Right` is an `Identifier` named `Nk`,
whose `Left` is the name for the other texts, and whose `Range` runs from `start` to the
end of its `Right`. Both children were built before `p`. -/
def converter.isQualifiedName (c : converter) (start : Int) : List String → Ptr → Bool
  | [], _ => false
  | [name], p =>
    (c.get p).Type_ == ESTreeKind.Identifier && (c.get p).field "Name" == Value.str name
      && (c.get p).Range.1 == start
  | name :: next :: rest, p =>
    (c.get p).Type_ == ESTreeKind.TSQualifiedName && (c.get p).Range.1 == start
      && match (c.get p).field "Left", (c.get p).field "Right" with
         | Value.node l, Value.node r =>
           decide (l < p) && decide (r < p) && (c.get r).Type_ == ESTreeKind.Identifier
             && (c.get r).field "Name" == Value.str name
             && (c.get p).Range.2 == (c.get r).Range.2
             && c.isQualifiedName start (next :: rest) l
         | _, _ => false

/-- The part of Go `convertNode`, case `KindModuleDeclaration`, that builds `id` and `kind`
(lines 2734-2779), as `convertModuleDeclaration` runs it: it returns them with the
innermost declaration and `isDeclare`. -/
def moduleDeclarationName (conv : Conv) (node : ast.NodePtr) :
    M (Option Ptr × String × ast.NodePtr × Bool) := do
  let sf := (← get).sourceFile
  let n := sf.node node
  let isDeclare := hasModifier sf ast.Kind.DeclareKeyword node
  let name := n.Name
  if n.IsGlobalScopeAugmentation then do
    let id ← conv name none false
    pure (id, "global", node, isDeclare)
  else do
    let nameKind ← kindOf sf name
    if nameKind = ast.Kind.StringLiteral then do
      let id ← conv name none false
      pure (id, "module", node, isDeclare)
    else do
      let nameNode ← nonNil name
      let nameRes ← createNode nameNode
        { Type_ := ESTreeKind.Identifier
          Fields := [("Decorators", Value.list []), ("Name", Value.str (sf.node nameNode).Text),
                     ("Optional", Value.bool false), ("TypeAnnotation", Value.null)] }
      let u ← unravelModuleDeclarations (sf.Nodes.length + 1) node isDeclare nameRes
      let kind := if (sf.node u.1).Keyword = ast.Kind.NamespaceKeyword then "namespace"
                  else "module"
      pure (some u.2.2, kind, u.1, u.2.1)

/-- A tag name of depth `d`: `d` property accesses, each with an expression and a name,
around a node that is no property access and that, when it is a namespaced name, has a
name and a namespace. -/
def ast.SourceFile.isJsxTagName (sf : ast.SourceFile) : Nat → ast.NodePtr → Bool
  | 0, nd =>
    (sf.node nd).Kind != ast.Kind.PropertyAccessExpression
      && ((sf.node nd).Kind != ast.Kind.JsxNamespacedName
          || ((sf.node nd).Name.isSome && (sf.node nd).Namespace.isSome))
  | d + 1, nd =>
    (sf.node nd).Kind == ast.Kind.PropertyAccessExpression
      && match (sf.node nd).Expression, (sf.node nd).Name with
         | some e, some _ => sf.isJsxTagName d e
         | _, _ => false

/-- The tag the specification gives the conversion of a tag name of kind `k`. -/
def jsxTagNameType (k : ast.Kind) : ESTreeKind :=
  if k = ast.Kind.PropertyAccessExpression then ESTreeKind.JSXMemberExpression
  else if k = ast.Kind.JsxNamespacedName then ESTreeKind.JSXNamespacedName
  else ESTreeKind.JSXIdentifier

/-- The converted tag name of the specification, read off the converted tree: for a
property access, `p` is a `JSXMemberExpression` whose `Object` is the converted tag name of
the accessed expression and whose `Property` is a `JSXIdentifier` named by the source text
of the accessed name; for any other node `p` has the tag `jsxTagNameType` gives. -/
def converter.isJsxTagName (c : converter) : Nat → ast.NodePtr → Ptr → Bool
  | 0, nd, p => (c.get p).Type_ == jsxTagNameType (c.sourceFile.node nd).Kind
  | d + 1, nd, p =>
    (c.get p).Type_ == ESTreeKind.JSXMemberExpression
      && match (c.sourceFile.node nd).Expression, (c.sourceFile.node nd).Name with
         | some e, some name =>
           match (c.get p).field "Object", (c.get p).field "Property" with
           | Value.node o, Value.node q =>
             decide (o < p) && decide (q < p) && (c.get q).Type_ == ESTreeKind.JSXIdentifier
               && (c.get q).field "Name" == Value.str (c.sourceFile.node name).SourceText
               && c.isJsxTagName d e o
           | _, _ => false
         | _, _ => false

end estree

/-! ## Tokens and comments -/

namespace estree

/-- The constants `ESTreeTokenType...`: the `Type` of a token or of a comment. -/
inductive ESTreeTokenType where
  | Boolean | Identifier | JSXIdentifier | JSXText | Keyword | Null | Numeric
  | PrivateIdentifier | Punctuator | RegularExpression | String | Template
  | Shebang | Line | Block
deriving DecidableEq, Repr, Inhabited

/-- The ways the token extractor stops without a result: a slice expression out of bounds,
the `panic("unhandled token type")` of `parseTokens` and, for the embedding, a loop bound
that was too small. -/
inductive TokenPanic where
  | sliceBounds
  | unhandledTokenType
  | outOfFuel
deriving DecidableEq, Repr, Inhabited

/-- Go `tsToken`; `loc` is the `core.TextRange` as `(Pos, End)`. -/
structure tsToken where
  kind : ast.Kind
  loc : Int × Int
  parent : Option ast.NodePtr := none
deriving DecidableEq, Repr, Inhabited

/-- Go `isJSXToken`. -/
def isJSXToken (sf : ast.SourceFile) (node : ast.NodePtr) : Bool :=
  decide (sf.Kinds.ord ast.Kind.JsxElement ≤ sf.Kinds.ord (sf.node node).Kind)
    && decide (sf.Kinds.ord (sf.node node).Kind ≤ sf.Kinds.ord ast.Kind.JsxAttribute)

/-- Go `hasJSXAncestor`, the loop over the parents bounded by `fuel`. -/
def hasJSXAncestor (sf : ast.SourceFile) :
    Nat → Option ast.NodePtr → Except TokenPanic Bool
  | _, none => pure false
  | 0, some _ => throw TokenPanic.outOfFuel
  | fuel + 1, some node =>
    if isJSXToken sf node then pure true else hasJSXAncestor sf fuel (sf.node node).Parent

/-- The chain of parents from `node` ends within `n` steps, as it does in a tree. -/
def ast.SourceFile.rootedWithin (sf : ast.SourceFile) : Nat → Option ast.NodePtr → Bool
  | _, none => true
  | 0, some _ => false
  | n + 1, some node => sf.rootedWithin n (sf.node node).Parent

/-- Go `getTokenType`. The loop of `hasJSXAncestor` runs at most once for every node of the
file. -/
def getTokenType (sf : ast.SourceFile) (token : tsToken) (tokenText : String) :
    Except TokenPanic ESTreeTokenType :=
  let K := sf.Kinds
  let keywordKind := K.GetIdentifierToken tokenText
  if token.kind = ast.Kind.Identifier ∧ keywordKind ≠ K.ord ast.Kind.Identifier then
    if keywordKind = K.ord ast.Kind.NullKeyword then pure ESTreeTokenType.Null
    else if K.FirstFutureReservedWord ≤ keywordKind ∧ keywordKind ≤ K.LastKeyword then
      pure ESTreeTokenType.Identifier
    else pure ESTreeTokenType.Keyword
  else if K.FirstKeyword ≤ K.ord token.kind ∧ K.ord token.kind ≤ K.LastFutureReservedWord then
    if token.kind = ast.Kind.FalseKeyword ∨ token.kind = ast.Kind.TrueKeyword then
      pure ESTreeTokenType.Boolean
    else pure ESTreeTokenType.Keyword
  else if K.FirstPunctuation ≤ K.ord token.kind ∧ K.ord token.kind ≤ K.LastPunctuation then
    pure ESTreeTokenType.Punctuator
  else if K.FirstTemplateToken ≤ K.ord token.kind
      ∧ K.ord token.kind ≤ K.LastTemplateToken then
    pure ESTreeTokenType.Template
  else
    match token.kind with
    | ast.Kind.NumericLiteral | ast.Kind.BigIntLiteral => pure ESTreeTokenType.Numeric
    | ast.Kind.PrivateIdentifier => pure ESTreeTokenType.PrivateIdentifier
    | ast.Kind.JsxText => pure ESTreeTokenType.JSXText
    | ast.Kind.StringLiteral =>
      match token.parent with
      | some p =>
        if (sf.node p).Kind = ast.Kind.JsxAttribute ∨ (sf.node p).Kind = ast.Kind.JsxElement
        then pure ESTreeTokenType.JSXText
        else pure ESTreeTokenType.String
      | none => pure ESTreeTokenType.String
    | ast.Kind.RegularExpressionLiteral => pure ESTreeTokenType.RegularExpression
    | _ =>
      if token.kind = ast.Kind.Identifier then
        match token.parent with
        | some p =>
          if isJSXToken sf p then pure ESTreeTokenType.JSXIdentifier
          else if (sf.node p).Kind = ast.Kind.PropertyAccessExpression then do
            let jsx ← hasJSXAncestor sf (sf.Nodes.length + 1) (some p)
            if jsx then pure ESTreeTokenType.JSXIdentifier
            else pure ESTreeTokenType.Identifier
          else pure ESTreeTokenType.Identifier
        | none => pure ESTreeTokenType.Identifier
      else pure ESTreeTokenType.Identifier

/-- The Go slice expression `s[lo:hi]` on a string, the offsets in bytes: it panics unless
`0 <= lo <= hi <= len(s)`. The offsets the extractor passes are character boundaries. -/
def sliceText (s : String) (lo hi : Int) : Except TokenPanic String :=
  if 0 ≤ lo ∧ lo ≤ hi ∧ hi ≤ (byteLen s.data : Int) then
    pure (String.mk (charsBetween s.data 0 lo.toNat hi.toNat))
  else throw TokenPanic.sliceBounds

/-- A comment of `Program.Comments`: a `LineComment` or a `BlockComment`. -/
structure Comment where
  Type_ : ESTreeTokenType
  Value : String
  Range : Range
  Loc : SourceLocation
deriving DecidableEq, Repr, Inhabited

/-- Go `stringutil.IsLineBreak`. -/
def IsLineBreak (ch : Char) : Bool :=
  ch == '\n' || ch == '\r' || ch.toNat == 0x2028 || ch.toNat == 0x2029

/-- The loop of `collectTokens` over the runes of the text (lines 3061-3088), `i` being
the byte offset of the rune: it returns `hasShebang` and, when the loop met a line break
after `#!`, its offset. -/
def shebangScan : List Char → Nat → Bool → Bool × Option Nat
  | [], _, hasShebang => (hasShebang, none)
  | ch :: rest, i, hasShebang =>
    if i = 0 then
      if ch = '#' then shebangScan rest (i + ch.utf8Size) hasShebang else (hasShebang, none)
    else if i = 1 then
      if ch = '!' then shebangScan rest (i + ch.utf8Size) true else (hasShebang, none)
    else if IsLineBreak ch then (hasShebang, some i)
    else shebangScan rest (i + ch.utf8Size) hasShebang

/-- The shebang entry `collectTokens` builds for the text up to `pos`. -/
def shebangComment (c : converter) (pos : Int) : Except TokenPanic Comment := do
  let r : Range := (2, pos)
  let value ← sliceText c.sourceFile.Text 2 pos
  pure { Type_ := ESTreeTokenType.Shebang, Value := value, Range := r, Loc := c.getLocFor r }

/-- The start of `collectTokens` (lines 3058-3103): the comments and `pos` after the
shebang scan. -/
def collectShebang (c : converter) : Except TokenPanic (List Comment × Int) :=
  match shebangScan c.sourceFile.Text.data 0 false with
  | (_, some pos) => do
    let comment ← shebangComment c pos
    pure ([comment], pos)
  | (true, none) => do
    let pos : Int := byteLen c.sourceFile.Text.data
    let comment ← shebangComment c pos
    pure ([comment], pos)
  | (false, none) => pure ([], 0)

/-- The comment `scanCommentsInRange` appends for one comment of the scanner. -/
def commentOf (c : converter) (cm : ast.CommentRange) : Except TokenPanic Comment := do
  let r : Range := (cm.Pos, cm.End)
  let loc := c.getLocFor r
  let textStart := r.1 + 2
  if cm.Kind = ast.Kind.SingleLineCommentTrivia then do
    let value ← sliceText c.sourceFile.Text textStart r.2
    pure { Type_ := ESTreeTokenType.Line, Value := value, Range := r, Loc := loc }
  else do
    let value ← sliceText c.sourceFile.Text textStart (r.2 - 2)
    pure { Type_ := ESTreeTokenType.Block, Value := value, Range := r, Loc := loc }

/-- The loop of `scanCommentsInRange` over the comments the scanner yields. -/
def appendComments (c : converter) :
    List ast.CommentRange → List Comment → Except TokenPanic (List Comment)
  | [], comments => pure comments
  | cm :: rest, comments => do
    let comment ← commentOf c cm
    appendComments c rest (comments ++ [comment])

/-- The closure `scanCommentsInRange` of `collectTokens`. -/
def scanCommentsInRange (c : converter) (r : Int × Int) (comments : List Comment) :
    Except TokenPanic (List Comment) :=
  appendComments c (c.sourceFile.GetCommentsInRange r) comments

/-- The comments `after` are the comments `before` and, behind them, comments that are no
shebang entries. -/
def addsNoShebang (before after : List Comment) : Prop :=
  ∃ more, after = before ++ more ∧ ∀ x ∈ more, x.Type_ ≠ ESTreeTokenType.Shebang

/-- The variables the closures of `collectTokens` share: `tokens`, `comments`, `pos`, and of
the scanner `s` the value of `s.TokenStart()`, which `s.ResetPos` and `s.Scan` set. -/
structure TokenCollector where
  tokens : List tsToken := []
  comments : List Comment := []
  pos : Int := 0
  tokenStart : Int := 0
deriving DecidableEq, Repr, Inhabited

/-- The variable `prevTokenEnd` of the closure `pushToken`: the end of the last token, and
0 when there is none. -/
def prevTokenEnd (tokens : List tsToken) : Int :=
  match tokens.getLast? with
  | some last => last.loc.2
  | none => 0

/-- The closure `pushToken` of `collectTokens`. -/
def pushToken (c : converter) (t : tsToken) (st : TokenCollector) :
    Except TokenPanic TokenCollector := do
  let comments ← scanCommentsInRange c (prevTokenEnd st.tokens, t.loc.1) st.comments
  pure { st with tokens := st.tokens ++ [t], comments := comments }

/-- One turn of the loop of `addSyntheticNodes` (lines 3147-3169), after `s.Scan()`
reported `r`: the tokens it pushes. -/
def pushScanned (c : converter) (r : ast.ScanResult) (end_ : Int) (st : TokenCollector) :
    Except TokenPanic TokenCollector :=
  if r.TokenEnd ≤ end_ ∧ c.sourceFile.Kinds.IsTokenKind r.Token = true then
    if r.Token = ast.Kind.LessThanSlashToken then do
      let st ← pushToken c
        { kind := ast.Kind.LessThanToken, loc := (r.TokenStart, r.TokenEnd - 1) } st
      pushToken c { kind := ast.Kind.SlashToken, loc := (r.TokenEnd - 1, r.TokenEnd) } st
    else pushToken c { kind := r.Token, loc := (r.TokenStart, r.TokenEnd) } st
  else pure st

/-- The loop of `addSyntheticNodes`, bounded by `fuel`. -/
def addSyntheticLoop (c : converter) (end_ : Int) :
    Nat → TokenCollector → Except TokenPanic TokenCollector
  | 0, st => if st.pos < end_ then throw TokenPanic.outOfFuel else pure st
  | fuel + 1, st =>
    if st.pos < end_ then do
      let r := c.sourceFile.Scan st.pos
      let st ← pushScanned c r end_ { st with tokenStart := r.TokenStart }
      let st := { st with pos := r.TokenEnd }
      if r.Token = ast.Kind.EndOfFile then pure st else addSyntheticLoop c end_ fuel st
    else pure st

/-- The closure `addSyntheticNodes` of `collectTokens`: `s.ResetPos(pos)`, then the loop.
A turn that does not stop the loop moves `pos` forward, so `end - pos` bounds the turns of
a scanner that always advances. -/
def addSyntheticNodes (c : converter) (end_ : Int) (st : TokenCollector) :
    Except TokenPanic TokenCollector :=
  addSyntheticLoop c end_ (end_ - st.pos).toNat { st with tokenStart := st.pos }

/-- The body of the closure `visit` of `collectTokens` after the children were visited
(lines 3178-3196). -/
def visitSelf (c : converter) (node : ast.NodePtr) (st : TokenCollector) :
    Except TokenPanic TokenCollector := do
  let sf := c.sourceFile
  let n := sf.node node
  let st ← addSyntheticNodes c n.Pos st
  let st ←
    (if sf.Kinds.IsTokenKind n.Kind = true ∧ n.Reparsed = false then do
      let st : TokenCollector :=
        if n.Kind ≠ ast.Kind.JsxText then { st with tokenStart := (sf.Scan n.Pos).TokenStart }
        else st
      let st ← pushToken c { kind := n.Kind, loc := (st.tokenStart, n.End), parent := n.Parent } st
      pure { st with pos := n.End }
    else pure st)
  let st ← addSyntheticNodes c n.End st
  pure { st with pos := n.End }

/-- The closure `visit` of `collectTokens` over a list of siblings: the children of a node
are visited before the node itself. Every visit of a node uses one unit of `fuel`. -/
def visitNodes (c : converter) :
    Nat → List ast.NodePtr → TokenCollector → Except TokenPanic TokenCollector
  | _, [], st => pure st
  | 0, _ :: _, _ => throw TokenPanic.outOfFuel
  | fuel + 1, node :: rest, st => do
    let st ← visitNodes c fuel (c.sourceFile.ForEachChild node) st
    let st ← visitSelf c node st
    visitNodes c fuel rest st

/-- Go `collectTokens`. -/
def collectTokens (c : converter) (fuel : Nat) :
    Except TokenPanic (List tsToken × List Comment) := do
  let sf := c.sourceFile
  let (comments, pos) ← collectShebang c
  let st ← visitNodes c fuel (sf.ForEachChild sf.Root)
    { tokens := [], comments := comments, pos := pos }
  let comments ← scanCommentsInRange c (st.pos, (sf.node sf.Root).End) st.comments
  pure (st.tokens, comments)

/-- A token of `Program.Tokens`; `Regex` holds `Pattern` and `Flags` of a
`RegularExpressionToken`. -/
structure Token where
  Type_ : ESTreeTokenType
  Value : String
  Range : Range
  Loc : SourceLocation
  Regex : Option (String × String) := none
deriving DecidableEq, Repr, Inhabited

/-- The body of the loop of `parseTokens`: the token built for one `tsToken`. -/
def tokenOf (c : converter) (token : tsToken) : Except TokenPanic Token := do
  let start := token.loc.1
  let end_ := token.loc.2
  let value ← sliceText c.sourceFile.Text start end_
  let tokenType ← getTokenType c.sourceFile token value
  let r : Range := (start, end_)
  let loc := c.getLocFor r
  match tokenType with
  | ESTreeTokenType.RegularExpression => do
    let terminatorIndex : Int :=
      match lastSlash value.data 0 with
      | some i => i
      | none => -1
    let pattern ← sliceText value 1 terminatorIndex
    let flags ← sliceText value (terminatorIndex + 1) (byteLen value.data)
    pure { Type_ := tokenType, Value := value, Range := r, Loc := loc,
           Regex := some (pattern, flags) }
  | ESTreeTokenType.PrivateIdentifier => do
    let stripped ← sliceText value 1 (byteLen value.data)
    pure { Type_ := tokenType, Value := stripped, Range := r, Loc := loc }
  | ESTreeTokenType.Boolean | ESTreeTokenType.Identifier | ESTreeTokenType.JSXIdentifier
  | ESTreeTokenType.JSXText | ESTreeTokenType.Keyword | ESTreeTokenType.Null
  | ESTreeTokenType.Numeric | ESTreeTokenType.Punctuator | ESTreeTokenType.String
  | ESTreeTokenType.Template =>
    pure { Type_ := tokenType, Value := value, Range := r, Loc := loc }
  | _ => throw TokenPanic.unhandledTokenType

/-- The loop of `parseTokens` over the collected tokens. -/
def tokensOf (c : converter) : List tsToken → Except TokenPanic (List Token)
  | [] => pure []
  | token :: rest => do
    let t ← tokenOf c token
    let ts ← tokensOf c rest
    pure (t :: ts)

/-- Go `parseTokens`: `Program.Tokens` and `Program.Comments`. -/
def parseTokens (c : converter) (fuel : Nat) : Except TokenPanic (List Token × List Comment) := do
  let (tsTokens, comments) ← collectTokens c fuel
  let tokens ← tokensOf c tsTokens
  pure (tokens, comments)

/-! ### The answers of the front end during the token walk -/

/-- The comments the scanner yields lie between `lo` and `hi`, one after the other, and
none of them is empty. -/
def commentsWithin (lo hi : Int) : List ast.CommentRange → Bool
  | [] => true
  | cm :: rest =>
    decide (lo ≤ cm.Pos) && decide (cm.Pos < cm.End) && decide (cm.End ≤ hi)
      && commentsWithin cm.End hi rest

/-- The answer of `utils.GetCommentsInRange` for the range `r` is sound: its comments lie in
the range and behind the shebang line, which ends at `start`, one after the other. -/
def commentsSound (c : converter) (start : Int) (r : Int × Int) : Bool :=
  commentsWithin (max r.1 start) r.2 (c.sourceFile.GetCommentsInRange r)

/-- The answer `r` of the scanner, asked at `pos`, is sound: the token starts at `pos` or
behind it and behind the shebang line, ends in the text and not before it starts, is not
empty unless it is the end of the file, which ends the text, and `</` has two bytes. -/
def scanSound (c : converter) (start pos : Int) (r : ast.ScanResult) : Bool :=
  decide (max pos start ≤ r.TokenStart) && decide (r.TokenStart ≤ r.TokenEnd)
    && decide (r.TokenEnd ≤ (byteLen c.sourceFile.Text.data : Int))
    && (r.Token == ast.Kind.EndOfFile || decide (r.TokenStart < r.TokenEnd))
    && (r.Token != ast.Kind.EndOfFile
        || decide (r.TokenEnd = (byteLen c.sourceFile.Text.data : Int)))
    && (r.Token != ast.Kind.LessThanSlashToken || decide (r.TokenStart + 1 < r.TokenEnd))

/-- The comments asked for in one turn of the loop of `addSyntheticNodes` are sound: those
before the token pushed and, for `</`, those between its two halves. -/
def pushScannedSound (c : converter) (start : Int) (r : ast.ScanResult) (end_ : Int)
    (st : TokenCollector) : Bool :=
  if r.TokenEnd ≤ end_ ∧ c.sourceFile.Kinds.IsTokenKind r.Token = true then
    if r.Token = ast.Kind.LessThanSlashToken then
      commentsSound c start (prevTokenEnd st.tokens, r.TokenStart)
        && commentsSound c start (r.TokenEnd - 1, r.TokenEnd - 1)
    else commentsSound c start (prevTokenEnd st.tokens, r.TokenStart)
  else true

/-- The answers of the front end during the loop of `addSyntheticNodes` are sound. -/
def addSyntheticSound (c : converter) (start end_ : Int) : Nat → TokenCollector → Bool
  | 0, _ => true
  | fuel + 1, st =>
    if st.pos < end_ then
      scanSound c start st.pos (c.sourceFile.Scan st.pos)
        && pushScannedSound c start (c.sourceFile.Scan st.pos) end_ st
        && (match pushScanned c (c.sourceFile.Scan st.pos) end_
              { st with tokenStart := (c.sourceFile.Scan st.pos).TokenStart } with
            | Except.error _ => true
            | Except.ok st1 =>
              if (c.sourceFile.Scan st.pos).Token = ast.Kind.EndOfFile then true
              else addSyntheticSound c start end_ fuel
                { st1 with pos := (c.sourceFile.Scan st.pos).TokenEnd })
    else true

/-- The middle of the closure `visit` (lines 3180-3192): the token of a node that is one. -/
def visitToken (c : converter) (node : ast.NodePtr) (st : TokenCollector) :
    Except TokenPanic TokenCollector :=
  let sf := c.sourceFile
  let n := sf.node node
  if sf.Kinds.IsTokenKind n.Kind = true ∧ n.Reparsed = false then do
    let st : TokenCollector :=
      if n.Kind ≠ ast.Kind.JsxText then { st with tokenStart := (sf.Scan n.Pos).TokenStart }
      else st
    let st ← pushToken c { kind := n.Kind, loc := (st.tokenStart, n.End), parent := n.Parent } st
    pure { st with pos := n.End }
  else pure st

/-- The node and the answers of the front end are sound for the visit of `node`, the walk
standing at `st.pos` after the children of the node: the node ends in the text, behind its
start, behind the shebang line and not before the place where the walk stands; the token of
a node that is one starts at that place or behind it, ends with the node and is not empty
unless it is the end of the file, and for a `JsxText`, which is not scanned, the node
starts where the walk stands; and the answers during the two calls of `addSyntheticNodes`
and for the comments before the token are sound. -/
def visitSelfSound (c : converter) (start : Int) (node : ast.NodePtr) (st : TokenCollector) :
    Bool :=
  let sf := c.sourceFile
  let n := sf.node node
  decide (n.Pos ≤ n.End) && decide (n.End ≤ (byteLen sf.Text.data : Int))
    && decide (st.pos ≤ n.End) && decide (start ≤ n.End)
    && addSyntheticSound c start n.Pos (n.Pos - st.pos).toNat { st with tokenStart := st.pos }
    && (match addSyntheticNodes c n.Pos st with
        | Except.error _ => true
        | Except.ok st1 =>
          (if sf.Kinds.IsTokenKind n.Kind = true ∧ n.Reparsed = false then
            if n.Kind ≠ ast.Kind.JsxText then
              decide (max n.Pos start ≤ (sf.Scan n.Pos).TokenStart)
                && decide (st.pos ≤ (sf.Scan n.Pos).TokenStart)
                && decide ((sf.Scan n.Pos).TokenStart ≤ n.End)
                && (n.Kind == ast.Kind.EndOfFile
                    || decide ((sf.Scan n.Pos).TokenStart < n.End))
                && commentsSound c start (prevTokenEnd st1.tokens, (sf.Scan n.Pos).TokenStart)
            else
              decide (n.Pos ≤ st.pos) && decide (st.pos < n.End)
                && commentsSound c start (prevTokenEnd st1.tokens, st1.tokenStart)
          else true)
          && (match visitToken c node st1 with
              | Except.error _ => true
              | Except.ok st2 =>
                addSyntheticSound c start n.End (n.End - st2.pos).toNat
                  { st2 with tokenStart := st2.pos }))

/-- The nodes and the answers of the front end are sound during the walk over `nodes` and
what is below them. -/
def visitNodesSound (c : converter) (start : Int) :
    Nat → List ast.NodePtr → TokenCollector → Bool
  | _, [], _ => true
  | 0, _ :: _, _ => true
  | fuel + 1, node :: rest, st =>
    visitNodesSound c start fuel (c.sourceFile.ForEachChild node) st
      && (match visitNodes c fuel (c.sourceFile.ForEachChild node) st with
          | Except.error _ => true
          | Except.ok st1 =>
            visitSelfSound c start node st1
              && (match visitSelf c node st1 with
                  | Except.error _ => true
                  | Except.ok st2 => visitNodesSound c start fuel rest st2))

/-- The front end is sound for `collectTokens`: the nodes of the tree come in the order of
the text, and every answer of the scanner during the walk, a token or the comments of a
range, lies where it was asked for. -/
def collectSound (c : converter) (fuel : Nat) : Bool :=
  match collectShebang c with
  | Except.error _ => true
  | Except.ok (comments, pos) =>
    visitNodesSound c pos fuel (c.sourceFile.ForEachChild c.sourceFile.Root)
        { tokens := [], comments := comments, pos := pos }
      && (match visitNodes c fuel (c.sourceFile.ForEachChild c.sourceFile.Root)
            { tokens := [], comments := comments, pos := pos } with
          | Except.error _ => true
          | Except.ok st =>
            decide ((c.sourceFile.node c.sourceFile.Root).End
                ≤ (byteLen c.sourceFile.Text.data : Int))
              && commentsSound c pos (st.pos, (c.sourceFile.node c.sourceFile.Root).End))

/-- The start of the last token collected, and `start` when there is none. -/
def lastTokenStart (start : Int) (tokens : List tsToken) : Int :=
  match tokens.getLast? with
  | some last => last.loc.1
  | none => start

/-- What holds of the tokens and comments collected so far, the text having `len` bytes, the
shebang line ending at `start` and no token ending behind `hi`: every token lies in the
text behind the shebang line and is not empty unless it is the end of the file; the tokens
come one after the other, the last one ending last; every comment lies in the text and is
not empty unless it is the shebang; the comments come one after the other, each before the
start of the last token; and no comment overlaps a token. -/
def Collected (len start hi : Int) (st : TokenCollector) : Prop :=
  (∀ t ∈ st.tokens, start ≤ t.loc.1 ∧ t.loc.1 ≤ t.loc.2 ∧ t.loc.2 ≤ hi
      ∧ (t.kind ≠ ast.Kind.EndOfFile → t.loc.1 < t.loc.2))
  ∧ st.tokens.Pairwise (fun a b => a.loc.2 ≤ b.loc.1)
  ∧ (∀ t ∈ st.tokens, t.loc.2 ≤ prevTokenEnd st.tokens)
  ∧ (∀ cm ∈ st.comments, 0 ≤ cm.Range.1 ∧ cm.Range.1 ≤ cm.Range.2 ∧ cm.Range.2 ≤ len
      ∧ (cm.Type_ ≠ ESTreeTokenType.Shebang → cm.Range.1 < cm.Range.2))
  ∧ st.comments.Pairwise (fun a b => a.Range.2 ≤ b.Range.1)
  ∧ (∀ cm ∈ st.comments, cm.Range.2 ≤ lastTokenStart start st.tokens)
  ∧ (∀ cm ∈ st.comments, ∀ t ∈ st.tokens, cm.Range.2 ≤ t.loc.1 ∨ t.loc.2 ≤ cm.Range.1)

/-- The list of ranges `l` with the range `a`, put before the first range that starts at its
end or behind it. -/
def insertRange (a : Range) : List Range → List Range
  | [] => [a]
  | b :: rest => if a.2 ≤ b.1 then a :: b :: rest else b :: insertRange a rest

/-- The ranges of the tokens and of the comments in the order of their positions. -/
def arrange (tokens comments : List Range) : List Range :=
  comments.foldr insertRange tokens

/-- The text put together again from `pos` on: for each range in turn the untouched text
before it and its slice, and after the last range the rest of the text. -/
def rebuild (text : List Char) : List Range → Nat → List Char
  | [], pos => charsBetween text 0 pos (byteLen text)
  | r :: rest, pos =>
    charsBetween text 0 pos r.1.toNat ++ charsBetween text 0 r.1.toNat r.2.toNat
      ++ rebuild text rest r.2.toNat

end estree

/-! ## The linter -/

namespace eslint_compat

open estree

/-- Go `rule.RuleFix`; `Range` is the `core.TextRange` as `(Pos, End)`. -/
structure RuleFix where
  Text : String
  Range : Int × Int
deriving DecidableEq, Repr, Inhabited

/-- Go `rule.RuleMessage`. -/
structure RuleMessage where
  Id : String
  Description : String
deriving DecidableEq, Repr, Inhabited

/-- Go `rule.RuleSuggestion`. -/
structure RuleSuggestion where
  Message : RuleMessage
  FixesArr : List RuleFix
deriving DecidableEq, Repr, Inhabited

/-- Pointer `*ast.SourceFile`, as the linter hands files around. -/
abbrev FilePtr := Nat

/-- Go `rule.RuleDiagnostic`: `FixesPtr` and `Suggestions` are nil (`none`) unless the
report callback sets them. -/
structure RuleDiagnostic where
  RuleName : String
  Range : Int × Int
  Message : RuleMessage
  SourceFile : FilePtr
  FixesPtr : Option (List RuleFix) := none
  Suggestions : Option (List RuleSuggestion) := none
deriving DecidableEq, Repr, Inhabited

/-- The arguments of one call of the report callback of `LintFile` (lines 76-84). -/
structure Report where
  ruleId : String
  line : Int
  column : Int
  endLine : Int
  endColumn : Int
  messageId : String
  messageDescription : String
  fixText : String
  fixRangeStart : Int
  fixRangeEnd : Int
  suggestions : List RuleSuggestion := []
deriving DecidableEq, Repr, Inhabited

/-- The ways `LintFile` and `RunLinter` stop without returning: the panics of the Go code,
and those of the conversion and of the token extractor. -/
inductive LintPanic where
  | noRunFunction
  | indexOutOfRange
  | conversion (p : estree.Panic)
  | tokens (p : estree.TokenPanic)
  | vmError (message : String)
  | lintError (message : String)
deriving DecidableEq, Repr, Inhabited

/-- The function `_tsgolint_suggestion` that `CreateJsVm` installs (lines 24-37). -/
def _tsgolint_suggestion (messageId messageDescription fixText : String)
    (fixRangeStart fixRangeEnd : Int) : RuleSuggestion :=
  { Message := { Id := messageId, Description := messageDescription }
    FixesArr := [{ Text := fixText, Range := (fixRangeStart, fixRangeEnd) }] }

/-- The index expression `lineMap[i]`: it panics when `i` is out of range. -/
def lineStart (lineMap : List Int) (i : Int) : Except LintPanic Int :=
  if 0 ≤ i then
    match lineMap.get? i.toNat with
    | some p => pure p
    | none => throw LintPanic.indexOutOfRange
  else throw LintPanic.indexOutOfRange

/-- Go `int` arithmetic: the result of an operation is reduced into the range of 64 bits. -/
def wrapInt (x : Int) : Int :=
  (x + 2 ^ 63) % 2 ^ 64 - 2 ^ 63

/-- The offset the report callback computes from a line and a column (lines 86-87). -/
def positionOf (file : ast.SourceFile) (line column : Int) : Except LintPanic Int := do
  let lineMap := file.LineMap
  let start ← lineStart lineMap (min (max (wrapInt (line - 1)) 0) ((lineMap.length : Int) - 1))
  pure (min (max (wrapInt (wrapInt (start + column) - 1)) 0) (estree.byteLen file.Text.data))

/-- The report callback of `LintFile` (lines 76-110) up to the call of `onDiagnostic`: the
diagnostic it hands to the sink. -/
def reportDiagnostic (filePtr : FilePtr) (file : ast.SourceFile) (r : Report) :
    Except LintPanic RuleDiagnostic := do
  let rangeStart ← positionOf file r.line r.column
  let rangeEnd ← positionOf file r.endLine r.endColumn
  let d : RuleDiagnostic :=
    { RuleName := r.ruleId
      Range := (rangeStart, rangeEnd)
      Message := { Id := r.messageId, Description := r.messageDescription }
      SourceFile := filePtr }
  let d : RuleDiagnostic :=
    if r.fixRangeStart ≠ -1 then
      { d with FixesPtr := some [{ Text := r.fixText
                                   Range := (r.fixRangeStart, r.fixRangeEnd) }] }
    else d
  let d : RuleDiagnostic :=
    if r.suggestions.length ≠ 0 then { d with Suggestions := some r.suggestions } else d
  pure d

/-- What happens during a run, in order: a scripting host is created, a worker starts, a
file is linted, the script calls the report callback, the sink `onDiagnostic` is called. -/
inductive Event where
  | createVm
  | startWorker (i : Nat)
  | lintFile (file : FilePtr)
  | report (file : FilePtr) (r : Report)
  | diagnostic (d : RuleDiagnostic)
deriving DecidableEq, Repr, Inhabited

/-- A scripting host with the bundled script loaded, as `LintFile` uses it: whether the
global `_tsgolint_run` is a function, and what a call of it does, the calls of the report
callback it makes, in order, and the error it returns, for the text and the converted tree
it is given. -/
structure Runtime where
  hasRun : Bool := true
  run : String → Option estree.Ptr → estree.converter → List Report × Option String :=
    fun _ _ _ => ([], none)

/-- The calls of the report callback, one after the other: each call is followed by the
call of `onDiagnostic` it makes, and a panic of the callback ends the run of the
script. -/
def runReports (filePtr : FilePtr) (file : ast.SourceFile) :
    List Report → List Event → List Event × Option LintPanic
  | [], trace => (trace, none)
  | r :: rest, trace =>
    match reportDiagnostic filePtr file r with
    | Except.error p => (trace ++ [Event.report filePtr r], some p)
    | Except.ok d =>
      runReports filePtr file rest (trace ++ [Event.report filePtr r, Event.diagnostic d])

/-- The text `LintFile` hands to the script (lines 65-68): a leading shebang is made a line
comment. -/
def lintText (file : ast.SourceFile) (comments : List Comment) :
    Except estree.TokenPanic String :=
  match comments with
  | first :: _ =>
    if first.Type_ = estree.ESTreeTokenType.Shebang then
      (fun rest => "//" ++ rest) <$>
        estree.sliceText file.Text first.Range.1 (estree.byteLen file.Text.data)
    else pure file.Text
  | [] => pure file.Text

/-- Go `LintFile`: what happens, and the error returned or the panic. The conversion
recurses at most `fuel` times. -/
def LintFile (vm : Runtime) (filePtr : FilePtr) (file : ast.SourceFile) (fuel : Nat) :
    List Event × Except LintPanic (Option String) :=
  if vm.hasRun = false then ([], Except.error LintPanic.noRunFunction)
  else
    match estree.ConvertSourceFileToESTree fuel file with
    | Except.error p => ([], Except.error (LintPanic.conversion p))
    | Except.ok (program, c) =>
      match estree.parseTokens c fuel with
      | Except.error p => ([], Except.error (LintPanic.tokens p))
      | Except.ok (_, comments) =>
        match lintText file comments with
        | Except.error p => ([], Except.error (LintPanic.tokens p))
        | Except.ok text =>
          let called := vm.run text program c
          match runReports filePtr file called.1 [] with
          | (trace, some p) => (trace, Except.error p)
          | (trace, none) => (trace, Except.ok called.2)

/-- The result of the bundler `esbuild` as `LoadESLintConfig` reads it: the formatted
error messages and the contents of the output files. -/
structure BuildResult where
  Errors : List String := []
  OutputFiles : List String := []
deriving DecidableEq, Repr, Inhabited

/-- Go `LoadESLintConfig`, from the result of the build on (lines 191-206). -/
def LoadESLintConfig (build : String → BuildResult) (entryCode : String) :
    Except String String :=
  let result := build entryCode
  if result.Errors.length > 0 then
    Except.error (result.Errors.foldl (fun msg e => msg ++ e) "")
  else
    match result.OutputFiles with
    | [] => Except.error "bundled ESLint config is not present in outputs"
    | bundle :: _ => Except.ok bundle

/-- What `RunLinter` is given beside its arguments: the build of the bundler, and the
scripting host `CreateJsVm` returns for a script, or its error. -/
structure Host where
  build : String → BuildResult
  CreateJsVm : String → Except String Runtime

/-- The loop `for file := range queue` of one worker: the files left in the queue are
linted in order, and an error of `LintFile` is a panic. -/
def lintQueue (vm : Runtime) (fuel : Nat) :
    List (FilePtr × ast.SourceFile) → List Event → List Event × Option LintPanic
  | [], trace => (trace, none)
  | (filePtr, file) :: rest, trace =>
    match LintFile vm filePtr file fuel with
    | (events, Except.error p) => (trace ++ [Event.lintFile filePtr] ++ events, some p)
    | (events, Except.ok (some err)) =>
      (trace ++ [Event.lintFile filePtr] ++ events, some (LintPanic.lintError err))
    | (events, Except.ok none) =>
      lintQueue vm fuel rest (trace ++ [Event.lintFile filePtr] ++ events)

/-- The workers of `RunLinter`, one for each type checker, run one after the other (the
work group of a single-threaded run): worker 0 uses the first scripting host, every other
worker creates its own; a worker lints the files left in the queue. -/
def runWorkers (host : Host) (bundle : String) (firstVm : Runtime) (fuel : Nat) :
    List Nat → List (FilePtr × ast.SourceFile) → List Event → List Event × Option LintPanic
  | [], _, trace => (trace, none)
  | i :: rest, queue, trace =>
    let trace := trace ++ [Event.startWorker i]
    let vm : List Event × Except LintPanic Runtime :=
      if i = 0 then (trace, Except.ok firstVm)
      else
        match host.CreateJsVm bundle with
        | Except.ok vm => (trace ++ [Event.createVm], Except.ok vm)
        | Except.error e => (trace ++ [Event.createVm], Except.error (LintPanic.vmError e))
    match vm with
    | (trace, Except.error p) => (trace, some p)
    | (trace, Except.ok vm) =>
      match lintQueue vm fuel queue trace with
      | (trace, some p) => (trace, some p)
      | (trace, none) => runWorkers host bundle firstVm fuel rest [] trace

/-- Go `RunLinter` for a single-threaded run without a profile: what happens, and the
error returned (`none` is nil) or the panic. `checkers` is the number of type checkers of
the program. -/
def RunLinter (host : Host) (entryCode : String) (checkers : Nat)
    (files : List (FilePtr × ast.SourceFile)) (fuel : Nat) :
    List Event × Except LintPanic (Option String) :=
  match LoadESLintConfig host.build entryCode with
  | Except.error err => ([], Except.ok (some err))
  | Except.ok bundle =>
    match host.CreateJsVm bundle with
    | Except.error err => ([Event.createVm], Except.ok (some err))
    | Except.ok firstVm =>
      match runWorkers host bundle firstVm fuel (List.range checkers) files [Event.createVm] with
      | (trace, some p) => (trace, Except.error p)
      | (trace, none) => (trace, Except.ok none)

end eslint_compat

/-! ## Concrete inputs of the token extractor and of the linter -/

namespace estree

/-- Kind constants in the order of the enumeration of package `ast`: the literals, the
template tokens, the punctuation, `Identifier`, the keywords, and after them the nodes,
the JSX nodes from `JsxElement` to `JsxAttribute` in a row. `GetIdentifierToken` knows the
reserved words `null` and `class` and the contextual keyword `type`. -/
def exampleKinds : ast.KindTable :=
  { ord := fun k =>
      match k with
      | ast.Kind.NumericLiteral => 8
      | ast.Kind.BigIntLiteral => 9
      | ast.Kind.StringLiteral => 10
      | ast.Kind.JsxText => 11
      | ast.Kind.RegularExpressionLiteral => 13
      | ast.Kind.NoSubstitutionTemplateLiteral => 14
      | ast.Kind.TemplateHead => 15
      | ast.Kind.TemplateMiddle => 16
      | ast.Kind.TemplateTail => 17
      | ast.Kind.CommaToken => 27
      | ast.Kind.LessThanToken => 29
      | ast.Kind.LessThanSlashToken => 30
      | ast.Kind.GreaterThanToken => 31
      | ast.Kind.SlashToken => 43
      | ast.Kind.EqualsToken => 63
      | ast.Kind.Identifier => 79
      | ast.Kind.PrivateIdentifier => 80
      | ast.Kind.ClassKeyword => 85
      | ast.Kind.FalseKeyword => 96
      | ast.Kind.NullKeyword => 105
      | ast.Kind.TrueKeyword => 111
      | ast.Kind.PropertyAccessExpression => 211
      | ast.Kind.JsxElement => 283
      | ast.Kind.JsxSelfClosingElement => 284
      | ast.Kind.JsxOpeningElement => 285
      | ast.Kind.JsxClosingElement => 286
      | ast.Kind.JsxFragment => 287
      | ast.Kind.JsxOpeningFragment => 288
      | ast.Kind.JsxClosingFragment => 289
      | ast.Kind.JsxAttribute => 290
      | _ => 300
    FirstKeyword := 82
    LastFutureReservedWord := 126
    FirstFutureReservedWord := 118
    LastKeyword := 165
    FirstPunctuation := 18
    LastPunctuation := 78
    FirstTemplateToken := 14
    LastTemplateToken := 17
    GetIdentifierToken := fun s =>
      if s = "null" then 105 else if s = "class" then 85 else if s = "type" then 155 else 79
    IsTokenKind := fun k =>
      k ∈ [ast.Kind.NumericLiteral, ast.Kind.StringLiteral, ast.Kind.JsxText,
           ast.Kind.CommaToken, ast.Kind.LessThanToken, ast.Kind.LessThanSlashToken,
           ast.Kind.GreaterThanToken, ast.Kind.SlashToken, ast.Kind.EqualsToken,
           ast.Kind.Identifier, ast.Kind.PrivateIdentifier, ast.Kind.ClassKeyword,
           ast.Kind.FalseKeyword, ast.Kind.NullKeyword, ast.Kind.TrueKeyword] }

/-- The file `<a class="c"></a>`: node 1 is the expression statement, 2 the element, 3 its
opening element, 4 the tag name `a`, 5 the attributes, 6 the attribute, 7 its name `class`,
8 its value `"c"`, 9 the closing element, 10 its tag name. `Scan` is the scanner over this
text: from offset 2 it skips the blank and reports `class` at `[3, 8]`, from 13 it reports
the token `</` at `[13, 15]`. -/
def jsxAttributeFile : ast.SourceFile :=
  { Nodes :=
      [ { Kind := ast.Kind.SourceFile, Pos := 0, End := 17, TokenPos := 0 },
        { Kind := ast.Kind.ExpressionStatement, Pos := 0, End := 17, TokenPos := 0
          Parent := some 0, Expression := some 2 },
        { Kind := ast.Kind.JsxElement, Pos := 0, End := 17, TokenPos := 0, Parent := some 1
          OpeningElement := some 3, ClosingElement := some 9 },
        { Kind := ast.Kind.JsxOpeningElement, Pos := 0, End := 13, TokenPos := 0
          Parent := some 2, TagName := some 4, Attributes := some 5 },
        { Kind := ast.Kind.Identifier, Pos := 1, End := 2, TokenPos := 1, Parent := some 3
          Text := "a", SourceText := "a" },
        { Kind := ast.Kind.JsxAttributes, Pos := 2, End := 12, TokenPos := 3, Parent := some 3 },
        { Kind := ast.Kind.JsxAttribute, Pos := 2, End := 12, TokenPos := 3, Parent := some 5
          Name := some 7, Initializer := some 8 },
        { Kind := ast.Kind.Identifier, Pos := 2, End := 8, TokenPos := 3, Parent := some 6
          Text := "class", SourceText := "class" },
        { Kind := ast.Kind.StringLiteral, Pos := 9, End := 12, TokenPos := 9, Parent := some 6
          Text := "c", SourceText := "\"c\"" },
        { Kind := ast.Kind.JsxClosingElement, Pos := 13, End := 17, TokenPos := 13
          Parent := some 2, TagName := some 10 },
        { Kind := ast.Kind.Identifier, Pos := 15, End := 16, TokenPos := 15, Parent := some 9
          Text := "a", SourceText := "a" } ]
    Root := 0
    ModifierFlagsModifier := 1
    Text := "<a class=\"c\"></a>"
    Kinds := exampleKinds
    Scan := fun pos =>
      if pos = 0 then { Token := ast.Kind.LessThanToken, TokenStart := 0, TokenEnd := 1 }
      else if pos = 1 then { Token := ast.Kind.Identifier, TokenStart := 1, TokenEnd := 2 }
      else if pos = 2 then { Token := ast.Kind.ClassKeyword, TokenStart := 3, TokenEnd := 8 }
      else if pos = 8 then { Token := ast.Kind.EqualsToken, TokenStart := 8, TokenEnd := 9 }
      else if pos = 9 then { Token := ast.Kind.StringLiteral, TokenStart := 9, TokenEnd := 12 }
      else if pos = 12 then
        { Token := ast.Kind.GreaterThanToken, TokenStart := 12, TokenEnd := 13 }
      else if pos = 13 then
        { Token := ast.Kind.LessThanSlashToken, TokenStart := 13, TokenEnd := 15 }
      else if pos = 15 then { Token := ast.Kind.Identifier, TokenStart := 15, TokenEnd := 16 }
      else if pos = 16 then
        { Token := ast.Kind.GreaterThanToken, TokenStart := 16, TokenEnd := 17 }
      else { Token := ast.Kind.EndOfFile, TokenStart := 17, TokenEnd := 17 }
    ForEachChild := fun node =>
      if node = 0 then [1] else if node = 1 then [2] else if node = 2 then [3, 9]
      else if node = 3 then [4, 5] else if node = 5 then [6] else if node = 6 then [7, 8]
      else if node = 9 then [10] else [] }

/-- A file whose text is `text` and that has no statement. -/
def textOnly (text : String) : ast.SourceFile :=
  { Nodes := [ { Kind := ast.Kind.SourceFile, Pos := 0, End := byteLen text.data } ]
    Root := 0
    Text := text
    Kinds := exampleKinds
    Scan := fun _ =>
      { Token := ast.Kind.EndOfFile, TokenStart := byteLen text.data
        TokenEnd := byteLen text.data } }

/-- The file `/*`: an empty file but for a block comment that is not closed, which the
scanner reports as the comment `[0, 2]`. -/
def unterminatedComment : ast.SourceFile :=
  { textOnly "/*" with
    GetCommentsInRange := fun r =>
      if r.1 ≤ 0 ∧ 2 ≤ r.2 then
        [{ Kind := ast.Kind.MultiLineCommentTrivia, Pos := 0, End := 2 }]
      else [] }

/-- The file `/*a*/ //b`: a block comment at `[0, 5]` and a line comment at `[6, 9]`. -/
def twoComments : ast.SourceFile :=
  { textOnly "/*a*/ //b" with
    GetCommentsInRange := fun r =>
      if r.1 ≤ 0 ∧ 9 ≤ r.2 then
        [{ Kind := ast.Kind.MultiLineCommentTrivia, Pos := 0, End := 5 },
         { Kind := ast.Kind.SingleLineCommentTrivia, Pos := 6, End := 9 }]
      else [] }

/-- The file `a, /*c*/ b`: node 1 is the expression statement, 2 the comma expression, 3 the
name `a`, 4 the comma, 5 the name `b`, which starts behind the comma at offset 2. The
scanner skips the comment from offset 2 and reports `b` at `[9, 10]`. -/
def commentedComma : ast.SourceFile :=
  { Nodes :=
      [ { Kind := ast.Kind.SourceFile, Pos := 0, End := 10, TokenPos := 0 },
        { Kind := ast.Kind.ExpressionStatement, Pos := 0, End := 10, TokenPos := 0
          Parent := some 0, Expression := some 2 },
        { Kind := ast.Kind.BinaryExpression, Pos := 0, End := 10, TokenPos := 0
          Parent := some 1, Left := some 3, OperatorToken := some 4, Right := some 5 },
        { Kind := ast.Kind.Identifier, Pos := 0, End := 1, TokenPos := 0, Parent := some 2
          Text := "a", SourceText := "a" },
        { Kind := ast.Kind.CommaToken, Pos := 1, End := 2, TokenPos := 1, Parent := some 2 },
        { Kind := ast.Kind.Identifier, Pos := 2, End := 10, TokenPos := 9, Parent := some 2
          Text := "b", SourceText := "b" } ]
    Root := 0
    Text := "a, /*c*/ b"
    Kinds := exampleKinds
    Scan := fun pos =>
      if pos = 0 then { Token := ast.Kind.Identifier, TokenStart := 0, TokenEnd := 1 }
      else if pos = 1 then { Token := ast.Kind.CommaToken, TokenStart := 1, TokenEnd := 2 }
      else if pos = 2 then { Token := ast.Kind.Identifier, TokenStart := 9, TokenEnd := 10 }
      else { Token := ast.Kind.EndOfFile, TokenStart := 10, TokenEnd := 10 }
    GetCommentsInRange := fun r =>
      if r.1 ≤ 3 ∧ 8 ≤ r.2 then
        [{ Kind := ast.Kind.MultiLineCommentTrivia, Pos := 3, End := 8 }]
      else []
    ForEachChild := fun node =>
      if node = 0 then [1] else if node = 1 then [2] else if node = 2 then [3, 4, 5] else [] }

end estree

namespace eslint_compat

open estree

/-- A report with a fix: the rule `r` at line 1, columns 1 to 2, replaces `[0, 1]`. -/
def fixReport : Report :=
  { ruleId := "r", line := 1, column := 1, endLine := 1, endColumn := 2
    messageId := "m", messageDescription := "d", fixText := "y"
    fixRangeStart := 0, fixRangeEnd := 1 }

/-- A report without a fix (`fixStart == -1`), with one suggestion. -/
def plainReport : Report :=
  { ruleId := "s", line := 1, column := 1, endLine := 1, endColumn := 1
    messageId := "n", messageDescription := "e", fixText := ""
    fixRangeStart := -1, fixRangeEnd := -1
    suggestions := [_tsgolint_suggestion "n2" "e2" "z" 0 0] }

/-- A report whose fix range `[5, 2]` is inverted and ends past a text of one byte. -/
def malformedReport : Report :=
  { ruleId := "r", line := 1, column := 1, endLine := 1, endColumn := 1
    messageId := "m", messageDescription := "d", fixText := "y"
    fixRangeStart := 5, fixRangeEnd := 2 }

/-- A scripting host whose script reports `fixReport` and then `plainReport`. -/
def twoReports : Runtime :=
  { run := fun _ _ _ => ([fixReport, plainReport], none) }

/-- A collaborator whose bundler fails with the message `boom`. -/
def failingHost : Host :=
  { build := fun _ => { Errors := ["boom"] }
    CreateJsVm := fun _ => Except.ok twoReports }

/-- A collaborator whose bundler returns the script `bundle`. -/
def workingHost : Host :=
  { build := fun _ => { OutputFiles := ["bundle"] }
    CreateJsVm := fun _ => Except.ok twoReports }

end eslint_compat

/-! ## Comma expressions -/

namespace estree

/-- The struct literal of case `KindBinaryExpression` for a comma (lines 1972-1975). -/
def sequenceOf (expressions : List (Option Ptr)) : ESTreeNode :=
  { Type_ := ESTreeKind.SequenceExpression
    Fields := [("Expressions", Value.list expressions)] }

/-- The converter `c.converter(node, nil, false)` leaves when `convertNode` ended in the
converter `c` with `c.createNode(node, &SequenceExpression{...})`: the struct is allocated
and registered for `node`, and `allowPattern` is the flag from before the call. -/
def sequenceBuilt (c : converter) (node : ast.NodePtr) (expressions : List (Option Ptr))
    (allowPattern : Bool) : converter :=
  { (((c.new (sequenceOf expressions)).2.createNode node
        (c.new (sequenceOf expressions)).1).2.registerTSNodeInNodeMap node
      (some c.heap.length)) with allowPattern := allowPattern }

/-- The native node `node` is the comma expression `left , right`. -/
def ast.SourceFile.isComma (sf : ast.SourceFile) (node left right : ast.NodePtr) : Bool :=
  (sf.node node).Kind == ast.Kind.BinaryExpression
    && (match (sf.node node).OperatorToken with
        | some operator => (sf.node operator).Kind == ast.Kind.CommaToken
        | none => false)
    && (sf.node node).Left == some left && (sf.node node).Right == some right

/-- The conversions of the operands of a left-nested comma expression, each as
`c.converter` returns it. `CommaRun fuel node c operands expressions c2`: `node` is a comma
expression whose operands, from the left, are `operands`; started in `c`, with `convertNode`
unfolded `fuel` times, they convert one after the other to `expressions`, and `c2` is the
converter after the last one. In `pair` the left operand is no unparenthesised comma
expression: its conversion is no `SequenceExpression`, or it is parenthesised. In `nest` the
left operand is itself such a comma expression, converted by `c.converter` with the flag
`allowPattern` clear; the right operand is converted in the converter that call leaves. -/
inductive CommaRun :
    Nat → ast.NodePtr → converter → List ast.NodePtr → List (Option Ptr) → converter → Prop
  | pair (fuel : Nat) (node l r : ast.NodePtr) (c c1 c2 : converter) (left : Ptr)
      (right : Option Ptr)
      (hnode : c.sourceFile.isComma node l r = true)
      (hleft : converterRec fuel (some l) none false c = Except.ok (some left, c1))
      (hkeep : (c1.get left).Type_ ≠ ESTreeKind.SequenceExpression
        ∨ (c.sourceFile.node l).Kind = ast.Kind.ParenthesizedExpression)
      (hright : converterRec fuel (some r) none false c1 = Except.ok (right, c2)) :
      CommaRun (fuel + 1) node c [l, r] [some left, right] c2
  | nest (fuel : Nat) (node l r : ast.NodePtr) (c c1 c2 : converter)
      (operands : List ast.NodePtr) (expressions : List (Option Ptr)) (right : Option Ptr)
      (hnode : c.sourceFile.isComma node l r = true)
      (hinner : CommaRun fuel l { c with allowPattern := false } operands expressions c1)
      (hright : converterRec fuel (some r) none false
          (sequenceBuilt c1 l expressions c.allowPattern) = Except.ok (right, c2)) :
      CommaRun (fuel + 1) node c (operands ++ [r]) (expressions ++ [right]) c2

end estree

/-! ## Parameter properties -/

namespace estree

/-- The struct literal of case `KindParameter` for a parameter with an initializer
(lines 1607-1614). -/
def assignmentPatternOf (left right : Option Ptr) : ESTreeNode :=
  { Type_ := ESTreeKind.AssignmentPattern
    Fields := [("Decorators", Value.list []), ("Left", Value.ofOption left),
               ("Optional", Value.bool false), ("Right", Value.ofOption right),
               ("TypeAnnotation", Value.null)] }

/-- The converter after case `KindParameter` built, in the converter `c`, the
`AssignmentPattern` of a parameter with modifiers (lines 1607-1621): the struct is allocated
by `createNode`, then its `Range` is set to start with `left` and its `Loc` to match. -/
def patternBuilt (c : converter) (node : ast.NodePtr) (left : Ptr) (right : Option Ptr) :
    converter :=
  let s := ((c.new (assignmentPatternOf (some left) right)).2.createNode node
    (c.new (assignmentPatternOf (some left) right)).1).2
  let r : Range := ((s.get left).Range.1, (s.get c.heap.length).Range.2)
  (s.setRange c.heap.length r).setLoc c.heap.length (s.getLocFor r)

/-- The struct literal of the `TSParameterProperty` of case `KindParameter`
(lines 1646-1654). -/
def parameterPropertyOf (sf : ast.SourceFile) (node : ast.NodePtr) (result : Option Ptr) :
    ESTreeNode :=
  { Type_ := ESTreeKind.TSParameterProperty
    Fields := [("Accessibility", getTSNodeAccessibility sf node), ("Decorators", Value.list []),
               ("Override", Value.bool (hasModifier sf ast.Kind.OverrideKeyword node)),
               ("Parameter", Value.ofOption result),
               ("Readonly", Value.bool (hasModifier sf ast.Kind.ReadonlyKeyword node)),
               ("Static", Value.bool (hasModifier sf ast.Kind.StaticKeyword node))] }

end estree

/-! ## Concrete inputs: directives, parameter properties, regular expressions, commas -/

namespace estree

/-- The file `"use strict"; "use asm";`: nodes 1 and 3 are the two expression statements of
the directive prologue, 2 and 4 their string literals. -/
def twoDirectives : ast.SourceFile :=
  { Nodes :=
      [ { Kind := ast.Kind.SourceFile, Pos := 0, End := 24, TokenPos := 0
          Statements := some { Pos := 0, End := 24, Nodes := [1, 3] } },
        { Kind := ast.Kind.ExpressionStatement, Pos := 0, End := 13, TokenPos := 0
          Parent := some 0, Expression := some 2 },
        { Kind := ast.Kind.StringLiteral, Pos := 0, End := 12, TokenPos := 0, Parent := some 1
          Text := "use strict", SourceText := "\"use strict\"" },
        { Kind := ast.Kind.ExpressionStatement, Pos := 13, End := 24, TokenPos := 14
          Parent := some 0, Expression := some 4 },
        { Kind := ast.Kind.StringLiteral, Pos := 13, End := 23, TokenPos := 14
          Parent := some 3, Text := "use asm", SourceText := "\"use asm\"" } ]
    Root := 0 }

/-- The parameter `private x = y` of `class C { constructor(private x = y) {} }`: node 1 is
the parameter at `[22, 35]`, 2 its modifier `private`, 3 its name `x` at `[30, 31]`, 4 its
initializer `y`. -/
def parameterProperty : ast.SourceFile :=
  { Nodes :=
      [ { Kind := ast.Kind.SourceFile, Pos := 0, End := 41, TokenPos := 0 },
        { Kind := ast.Kind.Parameter, Pos := 22, End := 35, TokenPos := 22, Parent := some 0
          ModifierFlags := 1, Modifiers := some [2], Name := some 3, Initializer := some 4 },
        { Kind := ast.Kind.PrivateKeyword, Pos := 22, End := 29, TokenPos := 22
          Parent := some 1 },
        { Kind := ast.Kind.Identifier, Pos := 29, End := 31, TokenPos := 30, Parent := some 1
          Text := "x" },
        { Kind := ast.Kind.Identifier, Pos := 33, End := 35, TokenPos := 34, Parent := some 1
          Text := "y" } ]
    Root := 0
    ModifierFlagsModifier := 1 }

/-- The parameter `private x: any = y` of `class C { constructor(private x: any = y) {} }`:
node 1 is the parameter at `[22, 40]`, 2 its modifier `private`, 3 its name `x` at
`[30, 31]`, 4 its initializer `y`, 5 its type `any` at `[33, 36]`, behind the colon at 31. -/
def typedParameterProperty : ast.SourceFile :=
  { Nodes :=
      [ { Kind := ast.Kind.SourceFile, Pos := 0, End := 46, TokenPos := 0 },
        { Kind := ast.Kind.Parameter, Pos := 22, End := 40, TokenPos := 22, Parent := some 0
          ModifierFlags := 1, Modifiers := some [2], Name := some 3, Initializer := some 4
          Type_ := some 5 },
        { Kind := ast.Kind.PrivateKeyword, Pos := 22, End := 29, TokenPos := 22
          Parent := some 1 },
        { Kind := ast.Kind.Identifier, Pos := 29, End := 31, TokenPos := 30, Parent := some 1
          Text := "x" },
        { Kind := ast.Kind.Identifier, Pos := 38, End := 40, TokenPos := 39, Parent := some 1
          Text := "y" },
        { Kind := ast.Kind.AnyKeyword, Pos := 32, End := 36, TokenPos := 33
          Parent := some 1 } ]
    Root := 0
    ModifierFlagsModifier := 1 }

/-- The file `/[/]x/gi`: node 2 is the regular expression literal, whose pattern `[/]x`
holds a `/`. -/
def regexFile : ast.SourceFile :=
  { Nodes :=
      [ { Kind := ast.Kind.SourceFile, Pos := 0, End := 8, TokenPos := 0
          Statements := some { Pos := 0, End := 8, Nodes := [1] } },
        { Kind := ast.Kind.ExpressionStatement, Pos := 0, End := 8, TokenPos := 0
          Parent := some 0, Expression := some 2 },
        { Kind := ast.Kind.RegularExpressionLiteral, Pos := 0, End := 8, TokenPos := 0
          Parent := some 1, Text := "/[/]x/gi" } ]
    Root := 0
    Text := "/[/]x/gi"
    Kinds := exampleKinds }

/-- The file `a, b, c`: node 2 is the outer comma expression, 3 its left operand `a, b`,
4 and 6 the identifiers `a` and `b`, 8 the identifier `c`; 5 and 7 are the commas. -/
def threeCommas : ast.SourceFile :=
  { Nodes :=
      [ { Kind := ast.Kind.SourceFile, Pos := 0, End := 7, TokenPos := 0
          Statements := some { Pos := 0, End := 7, Nodes := [1] } },
        { Kind := ast.Kind.ExpressionStatement, Pos := 0, End := 7, TokenPos := 0
          Parent := some 0, Expression := some 2 },
        { Kind := ast.Kind.BinaryExpression, Pos := 0, End := 7, TokenPos := 0
          Parent := some 1, Left := some 3, OperatorToken := some 7, Right := some 8 },
        { Kind := ast.Kind.BinaryExpression, Pos := 0, End := 4, TokenPos := 0
          Parent := some 2, Left := some 4, OperatorToken := some 5, Right := some 6 },
        { Kind := ast.Kind.Identifier, Pos := 0, End := 1, TokenPos := 0, Parent := some 3
          Text := "a" },
        { Kind := ast.Kind.CommaToken, Pos := 1, End := 2, TokenPos := 1, Parent := some 3 },
        { Kind := ast.Kind.Identifier, Pos := 2, End := 4, TokenPos := 3, Parent := some 3
          Text := "b" },
        { Kind := ast.Kind.CommaToken, Pos := 4, End := 5, TokenPos := 4, Parent := some 2 },
        { Kind := ast.Kind.Identifier, Pos := 5, End := 7, TokenPos := 6, Parent := some 2
          Text := "c" } ]
    Root := 0 }

/-- The file `(a, b), c`: node 2 is the outer comma expression, 3 its parenthesised left
operand, 4 the comma expression `a, b` in the parentheses, 5 and 7 the identifiers `a` and
`b`, 9 the identifier `c`; 6 and 8 are the commas. -/
def parenthesisedComma : ast.SourceFile :=
  { Nodes :=
      [ { Kind := ast.Kind.SourceFile, Pos := 0, End := 9, TokenPos := 0
          Statements := some { Pos := 0, End := 9, Nodes := [1] } },
        { Kind := ast.Kind.ExpressionStatement, Pos := 0, End := 9, TokenPos := 0
          Parent := some 0, Expression := some 2 },
        { Kind := ast.Kind.BinaryExpression, Pos := 0, End := 9, TokenPos := 0
          Parent := some 1, Left := some 3, OperatorToken := some 8, Right := some 9 },
        { Kind := ast.Kind.ParenthesizedExpression, Pos := 0, End := 6, TokenPos := 0
          Parent := some 2, Expression := some 4 },
        { Kind := ast.Kind.BinaryExpression, Pos := 1, End := 5, TokenPos := 1
          Parent := some 3, Left := some 5, OperatorToken := some 6, Right := some 7 },
        { Kind := ast.Kind.Identifier, Pos := 1, End := 2, TokenPos := 1, Parent := some 4
          Text := "a" },
        { Kind := ast.Kind.CommaToken, Pos := 2, End := 3, TokenPos := 2, Parent := some 4 },
        { Kind := ast.Kind.Identifier, Pos := 3, End := 5, TokenPos := 4, Parent := some 4
          Text := "b" },
        { Kind := ast.Kind.CommaToken, Pos := 6, End := 7, TokenPos := 6, Parent := some 2 },
        { Kind := ast.Kind.Identifier, Pos := 7, End := 9, TokenPos := 8, Parent := some 2
          Text := "c" } ]
    Root := 0 }

end estree

/-! ## The run of the linter over several files -/

namespace eslint_compat

open estree

/-- The panic a run ended with, if it did. -/
def panicOf {α : Type} (r : Except LintPanic α) : Option LintPanic :=
  match r with
  | Except.error p => some p
  | Except.ok _ => none

/-- The error a run returned to its caller: `none` when it returned nil or panicked. -/
def returnedError (r : Except LintPanic (Option String)) : Option String :=
  match r with
  | Except.ok err => err
  | Except.error _ => none

/-- The files `LintFile` was called for, in the order of the calls. -/
def lintedFiles : List Event → List FilePtr
  | [] => []
  | Event.lintFile file :: rest => file :: lintedFiles rest
  | _ :: rest => lintedFiles rest

/-- A bundled script, as the scripting hosts behave that `CreateJsVm` loads it into. The
globals of a host live as long as the host, so a call of `_tsgolint_run` may read and write
what earlier calls left: `init` is the state of a host after the script was loaded, and
`run` gives, for the state before the call, the text and the converted tree, the calls of
the report callback, the error returned, and the state after the call. `loadError k` is the
error that `vm.RunString(script)` returns in the call of `CreateJsVm` that creates host
`k`, host 0 being the first one. -/
structure Script (σ : Type) where
  hasRun : Bool := true
  init : σ
  loadError : Nat → Option String := fun _ => none
  run : σ → String → Option estree.Ptr → estree.converter → (List Report × Option String) × σ

/-- The host of a script in the state `s`, as one call of `LintFile` sees it. -/
def Script.runtime {σ : Type} (script : Script σ) (s : σ) : Runtime :=
  { hasRun := script.hasRun
    run := fun text program c => (script.run s text program c).1 }

/-- The state of the host after `LintFile` ran on `file` from the state `s`: the state the
call of `_tsgolint_run` leaves, and `s` when `LintFile` does not get to the call. -/
def Script.next {σ : Type} (script : Script σ) (s : σ) (file : ast.SourceFile) (fuel : Nat) :
    σ :=
  if script.hasRun = false then s
  else
    match estree.ConvertSourceFileToESTree fuel file with
    | Except.error _ => s
    | Except.ok (program, c) =>
      match estree.parseTokens c fuel with
      | Except.error _ => s
      | Except.ok (_, comments) =>
        match lintText file comments with
        | Except.error _ => s
        | Except.ok text => (script.run s text program c).2

/-- The panic that follows a call of `LintFile` in the loop of a worker (lines 159-163):
the panic of the call itself, or `panic(err)` for the error it returns. -/
def panicAfter (r : Except LintPanic (Option String)) : Option LintPanic :=
  match r with
  | Except.error p => some p
  | Except.ok (some err) => some (LintPanic.lintError err)
  | Except.ok none => none

/-- Where a worker of `RunLinter` stands in its function (lines 146-165), with its local
variable `vm`, a pointer to a scripting host: not started; after the assignment
`vm, err = CreateJsVm(bundle)` of line 151 and before the test of `err`; at the head of the
loop `for file := range queue`; inside `LintFile` on `file`, with the calls of the report
callback and of `onDiagnostic` that are still to come and the panic the call ends with;
returned. -/
inductive WorkerAt where
  | queued
  | created (vm : Nat)
  | receiving (vm : Nat)
  | linting (vm : Nat) (file : FilePtr) (pending : List Event) (panic : Option LintPanic)
  | returned
deriving DecidableEq, Repr, Inhabited

/-- The scripting host a worker holds in `vm`. -/
def WorkerAt.vm? : WorkerAt → Option Nat
  | WorkerAt.created vm => some vm
  | WorkerAt.receiving vm => some vm
  | WorkerAt.linting vm _ _ _ => some vm
  | _ => none

/-- The file a worker is inside `LintFile` for. -/
def WorkerAt.file? : WorkerAt → Option FilePtr
  | WorkerAt.linting _ file _ _ => some file
  | _ => none

/-- What is still to happen in the call of `LintFile` a worker is inside. -/
def WorkerAt.pending : WorkerAt → List Event
  | WorkerAt.linting _ _ pending _ => pending
  | _ => []

/-- The panic the call of `LintFile` a worker is inside ends with. -/
def WorkerAt.panic? : WorkerAt → Option LintPanic
  | WorkerAt.linting _ _ _ panic => panic
  | _ => none

/-- The ranks of the places of a worker, for the count of the moves it has left while the
queue stays as it is. -/
def WorkerAt.rank : WorkerAt → Nat
  | WorkerAt.queued => 3
  | WorkerAt.created _ => 2
  | WorkerAt.receiving _ => 1
  | WorkerAt.linting _ _ pending _ => pending.length + 2
  | WorkerAt.returned => 0

/-- The function `f` with the value `a` at `i`. -/
def setAt {α : Type} (f : Nat → α) (i : Nat) (a : α) : Nat → α :=
  fun j => if j = i then a else f j

/-- What the workers of `RunLinter` share while they run (lines 144-168): the channel
`queue`, closed and holding the files not yet received; the scripting hosts created so far,
`created` of them, with their states, host 0 being `firstVm`; the variable `err` of
`RunLinter`, which line 151 assigns; where each of the `checkers` workers stands; what has
happened; and the panic that ended the process, if one did. -/
structure WorkGroup (σ : Type) where
  checkers : Nat
  queue : List (FilePtr × ast.SourceFile)
  created : Nat
  hosts : Nat → σ
  err : Option String
  workers : Nat → WorkerAt
  trace : List Event
  panic : Option LintPanic

/-- The work group when `wg.RunAndWait()` starts the workers (line 168): the queue holds
the files, `firstVm` is the only host, and `err` is nil, `RunLinter` having returned
otherwise (lines 126-129). -/
def WorkGroup.start {σ : Type} (script : Script σ) (checkers : Nat)
    (files : List (FilePtr × ast.SourceFile)) : WorkGroup σ :=
  { checkers := checkers
    queue := files
    created := 1
    hosts := fun _ => script.init
    err := none
    workers := fun _ => WorkerAt.queued
    trace := [Event.createVm]
    panic := none }

/-- One move of worker `w` (lines 146-165). A worker that has not started takes `firstVm`
if it is worker 0 and otherwise calls `CreateJsVm`, which creates a host and assigns the
shared `err`; it then tests `err` and panics if it is not nil. At the head of its loop it
receives the next file of the queue, or returns when the queue is empty; having received a
file it calls `LintFile` on its host, whose state the call changes. Inside `LintFile` a
move is one call of the report callback or of `onDiagnostic`; after the last one the call
ends, with a panic, with an error, for which the worker panics, or with nil, which takes
the worker back to the head of the loop. Nothing moves after a panic, which ends the
process. -/
def WorkGroup.step {σ : Type} (script : Script σ) (fuel : Nat) (g : WorkGroup σ) (w : Nat) :
    WorkGroup σ :=
  if g.panic.isSome = true ∨ g.checkers ≤ w then g
  else
    match g.workers w with
    | WorkerAt.queued =>
      if w = 0 then
        { g with workers := setAt g.workers w (WorkerAt.receiving 0)
                 trace := g.trace ++ [Event.startWorker w] }
      else
        { g with created := g.created + 1
                 hosts := setAt g.hosts g.created script.init
                 err := script.loadError g.created
                 workers := setAt g.workers w (WorkerAt.created g.created)
                 trace := g.trace ++ [Event.startWorker w, Event.createVm] }
    | WorkerAt.created vm =>
      match g.err with
      | some e => { g with panic := some (LintPanic.vmError e) }
      | none => { g with workers := setAt g.workers w (WorkerAt.receiving vm) }
    | WorkerAt.receiving vm =>
      match g.queue with
      | [] => { g with workers := setAt g.workers w WorkerAt.returned }
      | (filePtr, file) :: rest =>
        { g with queue := rest
                 hosts := setAt g.hosts vm (script.next (g.hosts vm) file fuel)
                 workers := setAt g.workers w
                   (WorkerAt.linting vm filePtr
                     (LintFile (script.runtime (g.hosts vm)) filePtr file fuel).1
                     (panicAfter (LintFile (script.runtime (g.hosts vm)) filePtr file fuel).2))
                 trace := g.trace ++ [Event.lintFile filePtr] }
    | WorkerAt.linting vm filePtr (e :: pending) panic =>
      { g with workers := setAt g.workers w (WorkerAt.linting vm filePtr pending panic)
               trace := g.trace ++ [e] }
    | WorkerAt.linting vm _ [] panic =>
      match panic with
      | some p => { g with panic := some p }
      | none => { g with workers := setAt g.workers w (WorkerAt.receiving vm) }
    | WorkerAt.returned => g

/-- The work group after the moves of `schedule`, which names the worker that moves next:
the order in which the scheduler of Go lets the workers run. -/
def WorkGroup.run {σ : Type} (script : Script σ) (fuel : Nat) (g : WorkGroup σ)
    (schedule : List Nat) : WorkGroup σ :=
  schedule.foldl (WorkGroup.step script fuel) g

/-- Every worker has returned, so that `wg.RunAndWait()` returns and `RunLinter` returns
nil (lines 168-170). -/
def WorkGroup.finished {σ : Type} (g : WorkGroup σ) : Bool :=
  (List.range g.checkers).all (fun w => g.workers w == WorkerAt.returned)

/-- What `RunLinter` is given beside its arguments when the scripts keep state: the build
of the bundler, and the script a bundle is. -/
structure ScriptHost (σ : Type) where
  build : String → BuildResult
  CreateJsVm : String → Script σ

/-- Go `RunLinter` for a run with a work group that is not single-threaded, without a
profile, the workers moving as `schedule` says: the error returned before a worker starts
(lines 115-129), or the work group after the moves. -/
def RunLinterScheduled {σ : Type} (host : ScriptHost σ) (entryCode : String) (checkers : Nat)
    (files : List (FilePtr × ast.SourceFile)) (fuel : Nat) (schedule : List Nat) :
    Except String (WorkGroup σ) :=
  match LoadESLintConfig host.build entryCode with
  | Except.error err => Except.error err
  | Except.ok bundle =>
    match (host.CreateJsVm bundle).loadError 0 with
    | some err => Except.error err
    | none =>
      Except.ok (WorkGroup.run (host.CreateJsVm bundle) fuel
        (WorkGroup.start (host.CreateJsVm bundle) checkers files) schedule)

/-- The file an event belongs to: the file `LintFile` was called for, the file of a call of
the report callback, the `SourceFile` of a diagnostic. -/
def Event.file? : Event → Option FilePtr
  | Event.lintFile file => some file
  | Event.report file _ => some file
  | Event.diagnostic d => some d.SourceFile
  | _ => none

/-- What happened for `file`, in order. -/
def eventsFor (file : FilePtr) (trace : List Event) : List Event :=
  trace.filter (fun e => e.file? = some file)

/-- No scripting host is used by two workers: a worker holds a host that was created,
only worker 0 holds the first host, and two workers that hold the same host are one. -/
def WorkGroup.HostsOk {σ : Type} (g : WorkGroup σ) : Prop :=
  1 ≤ g.created
  ∧ (∀ w vm, (g.workers w).vm? = some vm → vm < g.created ∧ (vm = 0 → w = 0))
  ∧ (∀ w1 w2 vm, (g.workers w1).vm? = some vm → (g.workers w2).vm? = some vm → w1 = w2)

/-- The queue hands out the files in their order, each once: the files for which `LintFile`
was called are the files that are no longer in the queue; a worker returns only when the
queue is empty; and what is still to happen inside a `LintFile` belongs to its file. -/
def WorkGroup.QueueOk {σ : Type} (files : List (FilePtr × ast.SourceFile)) (g : WorkGroup σ) :
    Prop :=
  (∃ taken, files = taken ++ g.queue ∧ lintedFiles g.trace = taken.map Prod.fst)
  ∧ ((∃ w, g.workers w = WorkerAt.returned) → g.queue = [])
  ∧ (∀ w e, e ∈ (g.workers w).pending →
      (∃ f, (g.workers w).file? = some f ∧ e.file? = some f) ∧ lintedFiles [e] = [])

/-- Every file is linted as a fresh host lints it: nothing has panicked; no two workers are
inside `LintFile` for the same file; nothing has happened for a file that is still in the
queue; and for a file that was received, what has happened, followed by what is still to
happen in its `LintFile`, is the call of `LintFile` and what happens during it on a host
in the state of the loaded script. -/
def WorkGroup.EventsOk {σ : Type} (script : Script σ) (fuel : Nat)
    (files : List (FilePtr × ast.SourceFile)) (g : WorkGroup σ) : Prop :=
  g.panic = none ∧ g.err = none
  ∧ (∀ w, (g.workers w).panic? = none)
  ∧ (∀ w1 w2 f, (g.workers w1).file? = some f → (g.workers w2).file? = some f → w1 = w2)
  ∧ (∀ f, f ∈ g.queue.map Prod.fst →
      eventsFor f g.trace = [] ∧ ∀ w, (g.workers w).file? ≠ some f)
  ∧ (∀ f file, (f, file) ∈ files → f ∉ g.queue.map Prod.fst →
      (∀ w, (g.workers w).file? = some f →
        eventsFor f g.trace ++ (g.workers w).pending
          = Event.lintFile f :: (LintFile (script.runtime script.init) f file fuel).1)
      ∧ ((∀ w, (g.workers w).file? ≠ some f) →
        eventsFor f g.trace
          = Event.lintFile f :: (LintFile (script.runtime script.init) f file fuel).1))

/-! ## The fix applier -/

/-- A fix as the applier takes it: a half-open byte range `[start, end)` of the source text
and the replacement text. -/
structure Fix where
  start : Nat
  end_ : Nat
  text : String
deriving DecidableEq, Repr, Inhabited

/-- The slice `text[lo:hi]` of the applier, in bytes. -/
def sliceBytes (text : String) (lo hi : Nat) : String :=
  String.mk (estree.charsBetween text.data 0 lo hi)

/-- The fixes sorted by range start; fixes with the same start keep their order. -/
def sortFixes (fixes : List Fix) : List Fix :=
  fixes.insertionSort (fun a b => a.start ≤ b.start)

/-- The one pass of the applier over the sorted fixes, `lastEnd` being the end of the last
fix applied: a fix that starts before `lastEnd` overlaps an applied fix and is dropped, and
so is a fix whose range is not a range of the text; any other fix is applied, which puts the
text from `lastEnd` to the start of the fix and then the text of the fix. The pass returns
the patched text from `lastEnd` on, the number of fixes applied and whether any was. -/
def spliceFixes (sourceText : String) : List Fix → Nat → String × Nat × Bool
  | [], lastEnd => (sliceBytes sourceText lastEnd (estree.byteLen sourceText.data), 0, false)
  | fix :: rest, lastEnd =>
    if fix.start < lastEnd ∨ fix.end_ < fix.start
        ∨ estree.byteLen sourceText.data < fix.end_ then
      spliceFixes sourceText rest lastEnd
    else
      let r := spliceFixes sourceText rest fix.end_
      (sliceBytes sourceText lastEnd fix.start ++ fix.text ++ r.1, r.2.1 + 1, true)

/-- The contract `apply(sourceText, fixes) -> (patchedText, appliedCount, anyApplied)` of
the fix applier, after section 4.4 of the specification; the applier itself
(`linter.ApplyRuleFixes`) is not among the sources at hand. -/
def applyFixes (sourceText : String) (fixes : List Fix) : String × Nat × Bool :=
  spliceFixes sourceText (sortFixes fixes) 0

/-! ## Positions of the front end -/

/-- Go `scanner.ComputeLineOfPosition` on line starts in increasing order: the index of
the last line that starts at `pos` or before it. -/
def ComputeLineOfPosition (lineStarts : List Int) (pos : Int) : Nat :=
  (lineStarts.takeWhile (fun start => start ≤ pos)).length - 1

/-- Go `scanner.GetLineAndCharacterOfPosition` of the front end for a text and its line
starts, at an offset that is a character boundary: the line, and the number of characters
between the start of the line and the offset. -/
def lineAndCharacterOf (text : String) (lineStarts : List Int) (pos : Int) : Int × Int :=
  let line := ComputeLineOfPosition lineStarts pos
  (line, ((estree.charsBetween text.data 0 (lineStarts.getD line 0).toNat pos.toNat).length
            : Nat))

/-- The position the script reports for an offset: line and column of the front end,
counted from 1. -/
def reportedPosition (file : ast.SourceFile) (pos : Int) : Int × Int :=
  ((file.GetLineAndCharacterOfPosition pos).1 + 1,
    (file.GetLineAndCharacterOfPosition pos).2 + 1)

end eslint_compat

/-! ## Concrete inputs of the linter -/

namespace eslint_compat

open estree

/-- A host whose script throws `TypeError: boom` on every file. -/
def throwingRuntime : Runtime :=
  { run := fun _ _ _ => ([], some "TypeError: boom") }

/-- A host whose script makes no report and returns the text it is called on as its
error. -/
def echoRuntime : Runtime :=
  { run := fun text _ _ => ([], some text) }

/-- A collaborator whose bundler returns a script that throws on every file. -/
def throwingHost : Host :=
  { build := fun _ => { OutputFiles := ["bundle"] }
    CreateJsVm := fun _ => Except.ok throwingRuntime }

/-- A script that counts its calls in a global and reports the count as the line of its
one report. -/
def countingScript : Script Nat :=
  { init := 0
    run := fun calls _ _ _ =>
      (([{ ruleId := "count", line := calls + 1, column := 1, endLine := calls + 1
           endColumn := 1, messageId := "m", messageDescription := "d", fixText := ""
           fixRangeStart := -1, fixRangeEnd := -1 }], none), calls + 1) }

/-- A collaborator whose bundler returns the counting script. -/
def countingHost : ScriptHost Nat :=
  { build := fun _ => { OutputFiles := ["bundle"] }
    CreateJsVm := fun _ => countingScript }

/-- The lines of the reports among some events. -/
def reportedLines (events : List Event) : List Int :=
  events.filterMap (fun e =>
    match e with
    | Event.report _ r => some r.line
    | _ => none)

/-- A script without state that makes the two reports of `twoReports` on every file. -/
def statelessScript : Script Unit :=
  { init := ()
    run := fun _ _ _ _ => (([fixReport, plainReport], none), ()) }

/-- A collaborator whose bundler returns the script without state. -/
def statelessHost : ScriptHost Unit :=
  { build := fun _ => { OutputFiles := ["bundle"] }
    CreateJsVm := fun _ => statelessScript }

/-- The file `ééx`: one line, in which `é` takes two bytes, so that `x` is the third
character and starts at offset 4. -/
def accentedFile : ast.SourceFile :=
  { textOnly "ééx" with
    GetLineAndCharacterOfPosition := lineAndCharacterOf "ééx" [0] }

/-- The file that holds the shebang line `#!/x` with its line break and nothing else. -/
def shebangOnly : ast.SourceFile :=
  { textOnly "#!/x\n" with
    Nodes := [ { Kind := ast.Kind.SourceFile, Pos := 0, End := 5
                 Statements := some { Pos := 5, End := 5, Nodes := [] } } ] }

/-- The file of the two lines `ab` and `cd`, the second starting at offset 3. -/
def twoLines : ast.SourceFile :=
  { textOnly "ab\ncd" with
    LineMap := [0, 3]
    GetLineAndCharacterOfPosition := lineAndCharacterOf "ab\ncd" [0, 3] }

end eslint_compat

/-! ## Heap lemmas -/

namespace estree

namespace converter

theorem getD_set_heap (l : List ESTreeNode) (i j : Nat) (a : ESTreeNode) :
    (l.set i a).getD j default = if i = j ∧ i < l.length then a else l.getD j default := by
  simp only [List.getD_eq_getElem?_getD, List.getElem?_set]
  split_ifs with h1 h2 h3 h3 h3
  · rfl
  · exact absurd ⟨h1, h2⟩ h3
  · exact absurd h3.2 h2
  · subst h1
    have : l.length ≤ i := Nat.le_of_not_lt h2
    simp [List.getElem?_eq_none this]
  · exact absurd h3.1 h1
  · rfl

theorem get_setRange (c : converter) (p q : Ptr) (r : Range) :
    (c.setRange p r).get q =
      if p = q ∧ p < c.heap.length then { c.get p with Range := r } else c.get q := by
  simp only [get, setRange, getD_set_heap]

theorem get_setLoc (c : converter) (p q : Ptr) (l : SourceLocation) :
    (c.setLoc p l).get q =
      if p = q ∧ p < c.heap.length then { c.get p with Loc := l } else c.get q := by
  simp only [get, setLoc, getD_set_heap]

theorem get_setProperty (c : converter) (p q : Ptr) (name : String) (v : Value) :
    (c.setProperty p name v).get q =
      if p = q ∧ p < c.heap.length then (c.get p).setField name v else c.get q := by
  simp only [get, setProperty, getD_set_heap]

@[simp] theorem length_setRange (c : converter) (p : Ptr) (r : Range) :
    (c.setRange p r).heap.length = c.heap.length := by
  simp [setRange]

@[simp] theorem length_setLoc (c : converter) (p : Ptr) (l : SourceLocation) :
    (c.setLoc p l).heap.length = c.heap.length := by
  simp [setLoc]

@[simp] theorem length_setProperty (c : converter) (p : Ptr) (name : String) (v : Value) :
    (c.setProperty p name v).heap.length = c.heap.length := by
  simp [setProperty]

theorem get_new_old (c : converter) (data : ESTreeNode) (q : Ptr) (h : q < c.heap.length) :
    (c.new data).2.get q = c.get q := by
  simp only [get, new]
  exact List.getD_append _ _ _ _ h

theorem get_new_self (c : converter) (data : ESTreeNode) :
    (c.new data).2.get (c.new data).1 = data := by
  simp [get, new, List.getD_eq_getElem?_getD]

@[simp] theorem length_new (c : converter) (data : ESTreeNode) :
    (c.new data).2.heap.length = c.heap.length + 1 := by
  simp [new]

@[simp] theorem fst_new (c : converter) (data : ESTreeNode) :
    (c.new data).1 = c.heap.length := rfl

/-- Range and location of `result` after `fixParentLocation`, and the frame of the call. -/
theorem fixParentLocation_spec (c : converter) (result child : Ptr)
    (hr : result < c.heap.length) :
    ((c.fixParentLocation result child).get result).Range =
        (min (c.get result).Range.1 (c.get child).Range.1,
         max (c.get result).Range.2 (c.get child).Range.2)
    ∧ ((c.fixParentLocation result child).get result).Loc =
        { Start := if (c.get child).Range.1 < (c.get result).Range.1
                   then (c.get child).Loc.Start else (c.get result).Loc.Start
          End := if (c.get child).Range.2 > (c.get result).Range.2
                 then (c.get child).Loc.End else (c.get result).Loc.End }
    ∧ ((c.fixParentLocation result child).get result).Type_ = (c.get result).Type_
    ∧ ((c.fixParentLocation result child).get result).Fields = (c.get result).Fields
    ∧ (∀ q, q ≠ result → (c.fixParentLocation result child).get q = c.get q)
    ∧ (c.fixParentLocation result child).heap.length = c.heap.length
    ∧ (c.fixParentLocation result child).esTreeNodeToTSNodeMap = c.esTreeNodeToTSNodeMap
    ∧ (c.fixParentLocation result child).tsNodeToESTreeNodeMap = c.tsNodeToESTreeNodeMap
    ∧ (c.fixParentLocation result child).allowPattern = c.allowPattern
    ∧ (c.fixParentLocation result child).sourceFile = c.sourceFile := by
  unfold fixParentLocation
  by_cases h1 : (c.get child).Range.1 < (c.get result).Range.1 <;>
  by_cases h2 : (c.get child).Range.2 > (c.get result).Range.2
  · have hmin : min (c.get result).Range.1 (c.get child).Range.1 = (c.get child).Range.1 :=
      min_eq_right (le_of_lt h1)
    have hmax : max (c.get result).Range.2 (c.get child).Range.2 = (c.get child).Range.2 :=
      max_eq_right (le_of_lt h2)
    simp only [h1, h2, if_true, hmin, hmax]
    refine ⟨?_, ?_, ?_, ?_, ?_, ?_, ?_, ?_, ?_, ?_⟩ <;>
      first
      | rfl
      | (simp [get_setRange, get_setLoc, hr]; done)
      | (intro q hq
         have hq2 : ¬ (result = q) := fun h => hq h.symm
         simp [get_setRange, get_setLoc, hq2])
  · have hmin : min (c.get result).Range.1 (c.get child).Range.1 = (c.get child).Range.1 :=
      min_eq_right (le_of_lt h1)
    have hmax : max (c.get result).Range.2 (c.get child).Range.2 = (c.get result).Range.2 :=
      max_eq_left (le_of_not_lt h2)
    simp only [h1, h2, if_true, if_false, hmin, hmax]
    refine ⟨?_, ?_, ?_, ?_, ?_, ?_, ?_, ?_, ?_, ?_⟩ <;>
      first
      | rfl
      | (simp [get_setRange, get_setLoc, hr]; done)
      | (intro q hq
         have hq2 : ¬ (result = q) := fun h => hq h.symm
         simp [get_setRange, get_setLoc, hq2])
  · have hmin : min (c.get result).Range.1 (c.get child).Range.1 = (c.get result).Range.1 :=
      min_eq_left (le_of_not_lt h1)
    have hmax : max (c.get result).Range.2 (c.get child).Range.2 = (c.get child).Range.2 :=
      max_eq_right (le_of_lt h2)
    simp only [h1, h2, if_true, if_false, hmin, hmax]
    refine ⟨?_, ?_, ?_, ?_, ?_, ?_, ?_, ?_, ?_, ?_⟩ <;>
      first
      | rfl
      | (simp [get_setRange, get_setLoc, hr]; done)
      | (intro q hq
         have hq2 : ¬ (result = q) := fun h => hq h.symm
         simp [get_setRange, get_setLoc, hq2])
  · have hmin : min (c.get result).Range.1 (c.get child).Range.1 = (c.get result).Range.1 :=
      min_eq_left (le_of_not_lt h1)
    have hmax : max (c.get result).Range.2 (c.get child).Range.2 = (c.get result).Range.2 :=
      max_eq_left (le_of_not_lt h2)
    simp [h1, h2, hmin, hmax]

/-- When `result` already encloses `child`, `fixParentLocation` does nothing at all. -/
theorem fixParentLocation_id (c : converter) (result child : Ptr)
    (h0 : (c.get result).Range.1 ≤ (c.get child).Range.1)
    (h1 : (c.get child).Range.2 ≤ (c.get result).Range.2) :
    c.fixParentLocation result child = c := by
  unfold fixParentLocation
  simp only [not_lt.mpr h0, gt_iff_lt, not_lt.mpr h1, if_false]

end converter

end estree

/-! ## Frame lemmas -/

namespace estree

namespace converter

@[simp] theorem sourceFile_setRange (c : converter) (p : Ptr) (r : Range) :
    (c.setRange p r).sourceFile = c.sourceFile := rfl
@[simp] theorem sourceFile_setLoc (c : converter) (p : Ptr) (l : SourceLocation) :
    (c.setLoc p l).sourceFile = c.sourceFile := rfl
@[simp] theorem sourceFile_setProperty (c : converter) (p : Ptr) (name : String) (v : Value) :
    (c.setProperty p name v).sourceFile = c.sourceFile := rfl
@[simp] theorem sourceFile_new (c : converter) (data : ESTreeNode) :
    (c.new data).2.sourceFile = c.sourceFile := rfl
@[simp] theorem es_setRange (c : converter) (p : Ptr) (r : Range) :
    (c.setRange p r).esTreeNodeToTSNodeMap = c.esTreeNodeToTSNodeMap := rfl
@[simp] theorem es_setLoc (c : converter) (p : Ptr) (l : SourceLocation) :
    (c.setLoc p l).esTreeNodeToTSNodeMap = c.esTreeNodeToTSNodeMap := rfl
@[simp] theorem es_setProperty (c : converter) (p : Ptr) (name : String) (v : Value) :
    (c.setProperty p name v).esTreeNodeToTSNodeMap = c.esTreeNodeToTSNodeMap := rfl
@[simp] theorem es_new (c : converter) (data : ESTreeNode) :
    (c.new data).2.esTreeNodeToTSNodeMap = c.esTreeNodeToTSNodeMap := rfl
@[simp] theorem ts_setRange (c : converter) (p : Ptr) (r : Range) :
    (c.setRange p r).tsNodeToESTreeNodeMap = c.tsNodeToESTreeNodeMap := rfl
@[simp] theorem ts_setLoc (c : converter) (p : Ptr) (l : SourceLocation) :
    (c.setLoc p l).tsNodeToESTreeNodeMap = c.tsNodeToESTreeNodeMap := rfl
@[simp] theorem ts_setProperty (c : converter) (p : Ptr) (name : String) (v : Value) :
    (c.setProperty p name v).tsNodeToESTreeNodeMap = c.tsNodeToESTreeNodeMap := rfl
@[simp] theorem ts_new (c : converter) (data : ESTreeNode) :
    (c.new data).2.tsNodeToESTreeNodeMap = c.tsNodeToESTreeNodeMap := rfl
@[simp] theorem allowPattern_setRange (c : converter) (p : Ptr) (r : Range) :
    (c.setRange p r).allowPattern = c.allowPattern := rfl
@[simp] theorem allowPattern_setLoc (c : converter) (p : Ptr) (l : SourceLocation) :
    (c.setLoc p l).allowPattern = c.allowPattern := rfl
@[simp] theorem allowPattern_setProperty (c : converter) (p : Ptr) (name : String) (v : Value) :
    (c.setProperty p name v).allowPattern = c.allowPattern := rfl
@[simp] theorem allowPattern_new (c : converter) (data : ESTreeNode) :
    (c.new data).2.allowPattern = c.allowPattern := rfl

@[simp] theorem getLocFor_setRange (c : converter) (p : Ptr) (r r' : Range) :
    (c.setRange p r).getLocFor r' = c.getLocFor r' := rfl
@[simp] theorem getLocFor_setLoc (c : converter) (p : Ptr) (l : SourceLocation) (r' : Range) :
    (c.setLoc p l).getLocFor r' = c.getLocFor r' := rfl
@[simp] theorem getLocFor_new (c : converter) (data : ESTreeNode) (r' : Range) :
    (c.new data).2.getLocFor r' = c.getLocFor r' := rfl
@[simp] theorem getRange_new (c : converter) (data : ESTreeNode) (node : ast.NodePtr) :
    (c.new data).2.getRange node = c.getRange node := rfl

theorem get_with_es (c : converter) (m : Ptr → Option ast.NodePtr) (q : Ptr) :
    ({ c with esTreeNodeToTSNodeMap := m } : converter).get q = c.get q := rfl

theorem get_mk (sf : ast.SourceFile) (heap : List ESTreeNode) (es : Ptr → Option ast.NodePtr)
    (ts : ast.NodePtr → Option (Option Ptr)) (ap : Bool) (q : Ptr) :
    (converter.mk sf heap es ts ap).get q = heap.getD q default := rfl

theorem heap_getD (c : converter) (q : Ptr) : c.heap.getD q default = c.get q := rfl

/-- `createNode` leaves the other structs alone. -/
theorem createNode_get_ne (c : converter) (node : ast.NodePtr) (data q : Ptr) (hq : data ≠ q) :
    (c.createNode node data).2.get q = c.get q := by
  unfold createNode
  simp only [get_with_es]
  split_ifs <;> simp only [get_setRange, get_setLoc, hq, false_and, if_false]

/-- The struct `createNode` leaves behind `data`. -/
theorem createNode_get_self (c : converter) (node : ast.NodePtr) (data : Ptr)
    (hd : data < c.heap.length) :
    (c.createNode node data).2.get data =
      { c.get data with
        Range := if (c.get data).Range.1 = 0 ∧ (c.get data).Range.2 = 0 then c.getRange node
                 else (c.get data).Range
        Loc := if (c.get data).Loc.Start.Line = 0 ∧ (c.get data).Loc.Start.Column = 0
                  ∧ (c.get data).Loc.End.Line = 0 ∧ (c.get data).Loc.End.Column = 0
               then c.getLocFor (if (c.get data).Range.1 = 0 ∧ (c.get data).Range.2 = 0
                                 then c.getRange node else (c.get data).Range)
               else (c.get data).Loc } := by
  by_cases hr : (c.get data).Range.1 = 0 ∧ (c.get data).Range.2 = 0 <;>
  by_cases hl : (c.get data).Loc.Start.Line = 0 ∧ (c.get data).Loc.Start.Column = 0
                  ∧ (c.get data).Loc.End.Line = 0 ∧ (c.get data).Loc.End.Column = 0 <;>
  simp only [createNode, hr, hl, and_self, if_true, if_false, get_with_es, get_setRange,
    get_setLoc, length_setRange, getLocFor_setRange, hd, and_true, true_and]

@[simp] theorem createNode_fst (c : converter) (node : ast.NodePtr) (data : Ptr) :
    (c.createNode node data).1 = data := rfl

@[simp] theorem createNode_length (c : converter) (node : ast.NodePtr) (data : Ptr) :
    (c.createNode node data).2.heap.length = c.heap.length := by
  unfold createNode
  simp only []
  split_ifs <;> simp

@[simp] theorem createNode_sourceFile (c : converter) (node : ast.NodePtr) (data : Ptr) :
    (c.createNode node data).2.sourceFile = c.sourceFile := by
  unfold createNode
  simp only []
  split_ifs <;> rfl

@[simp] theorem createNode_ts (c : converter) (node : ast.NodePtr) (data : Ptr) :
    (c.createNode node data).2.tsNodeToESTreeNodeMap = c.tsNodeToESTreeNodeMap := by
  unfold createNode
  simp only []
  split_ifs <;> rfl

@[simp] theorem createNode_allowPattern (c : converter) (node : ast.NodePtr) (data : Ptr) :
    (c.createNode node data).2.allowPattern = c.allowPattern := by
  unfold createNode
  simp only []
  split_ifs <;> rfl

theorem createNode_es (c : converter) (node : ast.NodePtr) (data : Ptr) :
    (c.createNode node data).2.esTreeNodeToTSNodeMap =
      Function.update c.esTreeNodeToTSNodeMap data (some node) := by
  unfold createNode
  simp only []
  split_ifs <;> rfl

@[simp] theorem register_heap (c : converter) (node : ast.NodePtr) (result : Option Ptr) :
    (c.registerTSNodeInNodeMap node result).heap = c.heap := by
  unfold registerTSNodeInNodeMap
  cases result with
  | none => rfl
  | some p => cases h : c.tsNodeToESTreeNodeMap node <;> rfl

@[simp] theorem register_get (c : converter) (node : ast.NodePtr) (result : Option Ptr) (q : Ptr) :
    (c.registerTSNodeInNodeMap node result).get q = c.get q := by
  simp [get]

@[simp] theorem register_sourceFile (c : converter) (node : ast.NodePtr) (result : Option Ptr) :
    (c.registerTSNodeInNodeMap node result).sourceFile = c.sourceFile := by
  unfold registerTSNodeInNodeMap
  cases result with
  | none => rfl
  | some p => cases h : c.tsNodeToESTreeNodeMap node <;> rfl

@[simp] theorem register_es (c : converter) (node : ast.NodePtr) (result : Option Ptr) :
    (c.registerTSNodeInNodeMap node result).esTreeNodeToTSNodeMap = c.esTreeNodeToTSNodeMap := by
  unfold registerTSNodeInNodeMap
  cases result with
  | none => rfl
  | some p => cases h : c.tsNodeToESTreeNodeMap node <;> rfl

@[simp] theorem register_allowPattern (c : converter) (node : ast.NodePtr) (result : Option Ptr) :
    (c.registerTSNodeInNodeMap node result).allowPattern = c.allowPattern := by
  unfold registerTSNodeInNodeMap
  cases result with
  | none => rfl
  | some p => cases h : c.tsNodeToESTreeNodeMap node <;> rfl

/-- What `registerTSNodeInNodeMap` leaves in the registry. -/
theorem register_ts (c : converter) (node : ast.NodePtr) (result : Option Ptr) (n : ast.NodePtr) :
    (c.registerTSNodeInNodeMap node result).tsNodeToESTreeNodeMap n =
      if n = node ∧ result ≠ none ∧ c.tsNodeToESTreeNodeMap node = none then some result
      else c.tsNodeToESTreeNodeMap n := by
  unfold registerTSNodeInNodeMap
  cases result with
  | none => simp
  | some p =>
    cases h : c.tsNodeToESTreeNodeMap node with
    | none =>
      by_cases hn : n = node
      · subst hn; simp [h]
      · simp [hn, Function.update_noteq hn]
    | some v => simp

end converter

end estree

/-! ## What `fixExports` writes -/

namespace estree

namespace converter

@[simp] theorem getLocFor_register (c : converter) (node : ast.NodePtr) (result : Option Ptr)
    (r : Range) : (c.registerTSNodeInNodeMap node result).getLocFor r = c.getLocFor r := by
  simp [getLocFor]

@[simp] theorem getNodeStart_register (c : converter) (node : ast.NodePtr) (result : Option Ptr)
    (n : ast.NodePtr) : (c.registerTSNodeInNodeMap node result).getNodeStart n = c.getNodeStart n := by
  simp [getNodeStart]

@[simp] theorem getNodeStart_setRange (c : converter) (p : Ptr) (r : Range) (n : ast.NodePtr) :
    (c.setRange p r).getNodeStart n = c.getNodeStart n := rfl

@[simp] theorem getNodeStart_setLoc (c : converter) (p : Ptr) (l : SourceLocation)
    (n : ast.NodePtr) : (c.setLoc p l).getNodeStart n = c.getNodeStart n := rfl

@[simp] theorem type_setRange (c : converter) (p q : Ptr) (r : Range) :
    ((c.setRange p r).get q).Type_ = (c.get q).Type_ := by
  rw [get_setRange]; split_ifs with h
  · rw [← h.1]
  · rfl

@[simp] theorem type_setLoc (c : converter) (p q : Ptr) (l : SourceLocation) :
    ((c.setLoc p l).get q).Type_ = (c.get q).Type_ := by
  rw [get_setLoc]; split_ifs with h
  · rw [← h.1]
  · rfl

@[simp] theorem fields_setRange (c : converter) (p q : Ptr) (r : Range) :
    ((c.setRange p r).get q).Fields = (c.get q).Fields := by
  rw [get_setRange]; split_ifs with h
  · rw [← h.1]
  · rfl

@[simp] theorem fields_setLoc (c : converter) (p q : Ptr) (l : SourceLocation) :
    ((c.setLoc p l).get q).Fields = (c.get q).Fields := by
  rw [get_setLoc]; split_ifs with h
  · rw [← h.1]
  · rfl

@[simp] theorem field_setRange (c : converter) (p q : Ptr) (r : Range) (name : String) :
    ((c.setRange p r).get q).field name = (c.get q).field name := by
  simp [ESTreeNode.field]

@[simp] theorem field_setLoc (c : converter) (p q : Ptr) (l : SourceLocation) (name : String) :
    ((c.setLoc p l).get q).field name = (c.get q).field name := by
  simp [ESTreeNode.field]

/-- `fixExports` on a default export: the state it returns. -/
theorem fixExports_default (c : converter) (node : ast.NodePtr) (result : Ptr)
    (exportKeyword m : ast.NodePtr) (rest : List ast.NodePtr)
    (hmods : fixExportsModifiers c.sourceFile node = Except.ok (some (exportKeyword :: m :: rest)))
    (hexp : (c.sourceFile.node exportKeyword).Kind = ast.Kind.ExportKeyword)
    (hdef : (c.sourceFile.node m).Kind = ast.Kind.DefaultKeyword) :
    c.fixExports node result =
      Except.ok
        (((((c.registerTSNodeInNodeMap node (some result)).setRange result
              ((c.sourceFile.GetRangeOfTokenAtPosition (c.sourceFile.node m).End).1,
               (c.get result).Range.2)).setLoc result
              (c.getLocFor
                ((c.sourceFile.GetRangeOfTokenAtPosition (c.sourceFile.node m).End).1,
                 (c.get result).Range.2))).new
            { Type_ := ESTreeKind.ExportDefaultDeclaration
              Range := (c.getNodeStart exportKeyword, (c.get result).Range.2)
              Fields := [("Declaration", Value.node result), ("ExportKind", Value.str "value")] }).2.createNode
          node (c.registerTSNodeInNodeMap node (some result)).heap.length) := by
  unfold fixExports
  rw [hmods]
  simp [hexp, hdef]

/-- `fixExports` on a named export: the state it returns. -/
theorem fixExports_named (c : converter) (node : ast.NodePtr) (result : Ptr)
    (exportKeyword : ast.NodePtr) (rest : List ast.NodePtr)
    (hmods : fixExportsModifiers c.sourceFile node = Except.ok (some (exportKeyword :: rest)))
    (hexp : (c.sourceFile.node exportKeyword).Kind = ast.Kind.ExportKeyword)
    (hnamed : ∀ m rest', rest = m :: rest' → (c.sourceFile.node m).Kind ≠ ast.Kind.DefaultKeyword) :
    c.fixExports node result =
      Except.ok
        (((((c.registerTSNodeInNodeMap node (some result)).setRange result
              ((c.sourceFile.GetRangeOfTokenAtPosition (c.sourceFile.node exportKeyword).End).1,
               (c.get result).Range.2)).setLoc result
              (c.getLocFor
                ((c.sourceFile.GetRangeOfTokenAtPosition (c.sourceFile.node exportKeyword).End).1,
                 (c.get result).Range.2))).new
            { Type_ := ESTreeKind.ExportNamedDeclaration
              Range := (c.getNodeStart exportKeyword, (c.get result).Range.2)
              Fields := [("Attributes", Value.list []), ("Declaration", Value.node result),
                ("ExportKind", Value.str
                  (if ((c.get result).Type_ == ESTreeKind.TSInterfaceDeclaration
                       || (c.get result).Type_ == ESTreeKind.TSTypeAliasDeclaration)
                      || (c.get result).field "Declare" == Value.bool true
                   then "type" else "value")),
                ("Specifiers", Value.list [])] }).2.createNode
          node (c.registerTSNodeInNodeMap node (some result)).heap.length) := by
  unfold fixExports
  rw [hmods]
  cases rest with
  | nil => simp [hexp]
  | cons m rest' =>
    have h := hnamed m rest' rfl
    simp [hexp, h]

end converter

end estree

namespace estree

namespace converter

/-- The four writes that end `fixExports`: the new range and location of `result`, the
allocation of the wrapper `W`, and `createNode` on it. -/
theorem wrap_spec (c : converter) (node : ast.NodePtr) (result : Ptr) (R : Range)
    (L : SourceLocation) (W : ESTreeNode) (hres : result < c.heap.length)
    (hW : W.Loc = {}) :
    ∃ c', (((c.setRange result R).setLoc result L).new W).2.createNode node c.heap.length
        = (c.heap.length, c')
      ∧ c'.get result = { c.get result with Range := R, Loc := L }
      ∧ c'.get c.heap.length =
          { W with
            Range := if W.Range.1 = 0 ∧ W.Range.2 = 0 then c.getRange node else W.Range
            Loc := c.getLocFor
              (if W.Range.1 = 0 ∧ W.Range.2 = 0 then c.getRange node else W.Range) }
      ∧ (∀ q, q < c.heap.length → q ≠ result → c'.get q = c.get q)
      ∧ c'.heap.length = c.heap.length + 1
      ∧ c'.tsNodeToESTreeNodeMap = c.tsNodeToESTreeNodeMap
      ∧ c'.esTreeNodeToTSNodeMap = Function.update c.esTreeNodeToTSNodeMap c.heap.length (some node)
      ∧ c'.sourceFile = c.sourceFile
      ∧ c'.allowPattern = c.allowPattern := by
  have hlen : ((c.setRange result R).setLoc result L).heap.length = c.heap.length := by simp
  have hw : c.heap.length < ((((c.setRange result R).setLoc result L).new W).2).heap.length := by
    simp
  have hself : ((((c.setRange result R).setLoc result L).new W).2).get c.heap.length = W := by
    have := get_new_self ((c.setRange result R).setLoc result L) W
    simpa [hlen] using this
  refine ⟨((((c.setRange result R).setLoc result L).new W).2.createNode node c.heap.length).2,
    rfl, ?_, ?_, ?_, ?_, ?_, ?_, ?_, ?_⟩
  · rw [createNode_get_ne _ _ _ _ (Nat.ne_of_gt hres)]
    rw [get_new_old _ _ _ (by simpa using hres)]
    simp [get_setLoc, get_setRange, hres]
  · rw [createNode_get_self _ _ _ hw, hself]
    simp [hW, getRange, getNodeStart, getLocFor]
  · intro q hq hne
    rw [createNode_get_ne _ _ _ _ (Nat.ne_of_gt hq)]
    rw [get_new_old _ _ _ (by simpa using hq)]
    have hne2 : ¬ (result = q) := fun h => hne h.symm
    simp [get_setLoc, get_setRange, hne2]
  · simp
  · simp
  · rw [createNode_es]; simp
  · simp
  · simp

/-- The state `fixExports` returns for a declaration with a leading `export`. -/
theorem fixExports_spec (c : converter) (node : ast.NodePtr) (result : Ptr)
    (exportKeyword : ast.NodePtr) (rest : List ast.NodePtr)
    (hmods : fixExportsModifiers c.sourceFile node = Except.ok (some (exportKeyword :: rest)))
    (hexp : (c.sourceFile.node exportKeyword).Kind = ast.Kind.ExportKeyword)
    (hres : result < c.heap.length) :
    ∃ c', c.fixExports node result = Except.ok (c.heap.length, c')
      ∧ (c'.get result).Range =
          ((c.sourceFile.GetRangeOfTokenAtPosition
              (c.sourceFile.node (lastExportModifier c.sourceFile exportKeyword rest)).End).1,
           (c.get result).Range.2)
      ∧ (c'.get result).Loc = c.getLocFor (c'.get result).Range
      ∧ (c'.get result).Type_ = (c.get result).Type_
      ∧ (c'.get result).Fields = (c.get result).Fields
      ∧ (c'.get c.heap.length).Type_ =
          (if lastExportModifier c.sourceFile exportKeyword rest = exportKeyword
           then ESTreeKind.ExportNamedDeclaration else ESTreeKind.ExportDefaultDeclaration)
      ∧ (c'.get c.heap.length).Range =
          (if c.getNodeStart exportKeyword = 0 ∧ (c.get result).Range.2 = 0 then c.getRange node
           else (c.getNodeStart exportKeyword, (c.get result).Range.2))
      ∧ (c'.get c.heap.length).Loc = c.getLocFor (c'.get c.heap.length).Range
      ∧ (c'.get c.heap.length).field "Declaration" = Value.node result
      ∧ (c'.get c.heap.length).field "ExportKind" =
          (if lastExportModifier c.sourceFile exportKeyword rest = exportKeyword
           then Value.str
             (if ((c.get result).Type_ == ESTreeKind.TSInterfaceDeclaration
                  || (c.get result).Type_ == ESTreeKind.TSTypeAliasDeclaration)
                 || (c.get result).field "Declare" == Value.bool true
              then "type" else "value")
           else Value.str "value")
      ∧ (∀ q, q < c.heap.length → q ≠ result → c'.get q = c.get q)
      ∧ c'.heap.length = c.heap.length + 1
      ∧ c'.tsNodeToESTreeNodeMap =
          (c.registerTSNodeInNodeMap node (some result)).tsNodeToESTreeNodeMap
      ∧ c'.esTreeNodeToTSNodeMap = Function.update c.esTreeNodeToTSNodeMap c.heap.length (some node)
      ∧ c'.sourceFile = c.sourceFile
      ∧ c'.allowPattern = c.allowPattern := by
  have hres1 : result < (c.registerTSNodeInNodeMap node (some result)).heap.length := by
    simpa using hres
  have hlen : (c.registerTSNodeInNodeMap node (some result)).heap.length = c.heap.length := by
    simp
  by_cases hdef : ∃ m rest', rest = m :: rest' ∧ (c.sourceFile.node m).Kind = ast.Kind.DefaultKeyword
  · obtain ⟨m, rest', hrest, hk⟩ := hdef
    subst hrest
    have hme : m ≠ exportKeyword := by
      intro h
      rw [h, hexp] at hk
      exact absurd hk (by decide)
    have hlast : lastExportModifier c.sourceFile exportKeyword (m :: rest') = m := by
      simp [lastExportModifier, hk]
    rw [converter.fixExports_default c node result exportKeyword m rest' hmods hexp hk]
    obtain ⟨c', hc', h1, h2, h3, h4, h5, h6, h7, h8⟩ :=
      wrap_spec (c.registerTSNodeInNodeMap node (some result)) node result
        ((c.sourceFile.GetRangeOfTokenAtPosition (c.sourceFile.node m).End).1,
          (c.get result).Range.2)
        (c.getLocFor ((c.sourceFile.GetRangeOfTokenAtPosition (c.sourceFile.node m).End).1,
          (c.get result).Range.2))
        { Type_ := ESTreeKind.ExportDefaultDeclaration
          Range := (c.getNodeStart exportKeyword, (c.get result).Range.2)
          Fields := [("Declaration", Value.node result), ("ExportKind", Value.str "value")] }
        hres1 rfl
    rw [hc']
    rw [hlen] at h2 h3 h4 h6
    refine ⟨c', by rw [hlen], ?_, ?_, ?_, ?_, ?_, ?_, ?_, ?_, ?_, ?_, h4, h5, ?_, ?_, ?_⟩
    · rw [h1, hlast]
    · rw [h1]
    · rw [h1]; simp
    · rw [h1]; simp
    · rw [h2, hlast]; simp [hme]
    · rw [h2]; simp [getRange, getNodeStart]
    · rw [h2]; simp [getLocFor]
    · rw [h2]; simp [ESTreeNode.field, List.lookup]
    · rw [h2, hlast]; simp [ESTreeNode.field, List.lookup, hme]
    · intro q hq hne; rw [h3 q hq hne]; simp
    · rw [h6]; simp
    · rw [h7]; simp
    · rw [h8]; simp
  · have hnamed : ∀ m rest', rest = m :: rest' →
        (c.sourceFile.node m).Kind ≠ ast.Kind.DefaultKeyword := by
      intro m rest' h1 h2
      exact hdef ⟨m, rest', h1, h2⟩
    have hlast : lastExportModifier c.sourceFile exportKeyword rest = exportKeyword := by
      cases rest with
      | nil => rfl
      | cons m rest' => simp [lastExportModifier, hnamed m rest' rfl]
    rw [converter.fixExports_named c node result exportKeyword rest hmods hexp hnamed]
    obtain ⟨c', hc', h1, h2, h3, h4, h5, h6, h7, h8⟩ :=
      wrap_spec (c.registerTSNodeInNodeMap node (some result)) node result
        ((c.sourceFile.GetRangeOfTokenAtPosition (c.sourceFile.node exportKeyword).End).1,
          (c.get result).Range.2)
        (c.getLocFor
          ((c.sourceFile.GetRangeOfTokenAtPosition (c.sourceFile.node exportKeyword).End).1,
            (c.get result).Range.2))
        { Type_ := ESTreeKind.ExportNamedDeclaration
          Range := (c.getNodeStart exportKeyword, (c.get result).Range.2)
          Fields := [("Attributes", Value.list []), ("Declaration", Value.node result),
            ("ExportKind", Value.str
              (if ((c.get result).Type_ == ESTreeKind.TSInterfaceDeclaration
                   || (c.get result).Type_ == ESTreeKind.TSTypeAliasDeclaration)
                  || (c.get result).field "Declare" == Value.bool true
               then "type" else "value")),
            ("Specifiers", Value.list [])] }
        hres1 rfl
    rw [hc']
    rw [hlen] at h2 h3 h4 h6
    refine ⟨c', by rw [hlen], ?_, ?_, ?_, ?_, ?_, ?_, ?_, ?_, ?_, ?_, h4, h5, ?_, ?_, ?_⟩
    · rw [h1, hlast]
    · rw [h1]
    · rw [h1]; simp
    · rw [h1]; simp
    · rw [h2, hlast]; simp
    · rw [h2]; simp [getRange, getNodeStart]
    · rw [h2]; simp [getLocFor]
    · rw [h2]; simp [ESTreeNode.field, List.lookup]
    · rw [h2, hlast]; simp [ESTreeNode.field, List.lookup]
    · intro q hq hne; rw [h3 q hq hne]; simp
    · rw [h6]; simp
    · rw [h7]; simp
    · rw [h8]; simp

end converter

end estree

/-! ## Invariants of the transition system -/

namespace estree

namespace converter

theorem fixParentLocation_get_ne (c : converter) (result child q : Ptr) (hq : q ≠ result) :
    (c.fixParentLocation result child).get q = c.get q := by
  have hq2 : ¬ (result = q) := fun h => hq h.symm
  unfold fixParentLocation
  simp only []
  split_ifs <;> simp [get_setRange, get_setLoc, hq2]

@[simp] theorem fixParentLocation_length (c : converter) (result child : Ptr) :
    (c.fixParentLocation result child).heap.length = c.heap.length := by
  unfold fixParentLocation
  simp only []
  split_ifs <;> simp

@[simp] theorem fixParentLocation_sourceFile (c : converter) (result child : Ptr) :
    (c.fixParentLocation result child).sourceFile = c.sourceFile := by
  unfold fixParentLocation
  simp only []
  split_ifs <;> rfl

@[simp] theorem fixParentLocation_ts (c : converter) (result child : Ptr) :
    (c.fixParentLocation result child).tsNodeToESTreeNodeMap = c.tsNodeToESTreeNodeMap := by
  unfold fixParentLocation
  simp only []
  split_ifs <;> rfl

@[simp] theorem fixParentLocation_es (c : converter) (result child : Ptr) :
    (c.fixParentLocation result child).esTreeNodeToTSNodeMap = c.esTreeNodeToTSNodeMap := by
  unfold fixParentLocation
  simp only []
  split_ifs <;> rfl

@[simp] theorem fixParentLocation_type (c : converter) (result child q : Ptr) :
    ((c.fixParentLocation result child).get q).Type_ = (c.get q).Type_ := by
  unfold fixParentLocation
  simp only []
  split_ifs <;> simp

@[simp] theorem type_setProperty (c : converter) (p q : Ptr) (name : String) (v : Value) :
    ((c.setProperty p name v).get q).Type_ = (c.get q).Type_ := by
  rw [get_setProperty]; split_ifs with h
  · rw [← h.1]; rfl
  · rfl

@[simp] theorem range_setProperty (c : converter) (p q : Ptr) (name : String) (v : Value) :
    ((c.setProperty p name v).get q).Range = (c.get q).Range := by
  rw [get_setProperty]; split_ifs with h
  · rw [← h.1]; rfl
  · rfl

@[simp] theorem loc_setProperty (c : converter) (p q : Ptr) (name : String) (v : Value) :
    ((c.setProperty p name v).get q).Loc = (c.get q).Loc := by
  rw [get_setProperty]; split_ifs with h
  · rw [← h.1]; rfl
  · rfl

@[simp] theorem getLocFor_setProperty (c : converter) (p : Ptr) (name : String) (v : Value)
    (r : Range) : (c.setProperty p name v).getLocFor r = c.getLocFor r := rfl

@[simp] theorem getLocFor_fixParentLocation (c : converter) (result child : Ptr) (r : Range) :
    (c.fixParentLocation result child).getLocFor r = c.getLocFor r := by
  simp [getLocFor]

@[simp] theorem getLocFor_createNode (c : converter) (node : ast.NodePtr) (data : Ptr)
    (r : Range) : (c.createNode node data).2.getLocFor r = c.getLocFor r := by
  simp [getLocFor]

end converter

open converter in
/-- No step changes the source file. -/
theorem Step.sourceFile_eq {c c' : converter} (h : Step c c') : c'.sourceFile = c.sourceFile := by
  cases h <;> first | rfl | (simp; done) | (split_ifs <;> simp)

open converter in
/-- No step frees a struct. -/
theorem Step.length_le {c c' : converter} (h : Step c c') : c.heap.length ≤ c'.heap.length := by
  cases h <;> first | (simp; done) | (split_ifs <;> simp)

open converter in
/-- No step changes the tag of a struct. -/
theorem Step.type_eq {c c' : converter} (h : Step c c') (p : Ptr) (hp : p < c.heap.length) :
    (c'.get p).Type_ = (c.get p).Type_ := by
  cases h with
  | create node data hLoc hTag hChain =>
    rw [createNode_get_ne _ _ _ _ (by simpa using Nat.ne_of_gt hp), get_new_old _ _ _ hp]
  | createMeta node data hRange hToken hLoc hTag =>
    rw [createNode_get_ne _ _ _ _ (by simpa using Nat.ne_of_gt hp), get_new_old _ _ _ hp]
  | typeAnnotationNode inner r =>
    simp only [type_setLoc, type_setRange]
    rw [get_new_old _ _ _ hp]
  | typeParametersNode params r => rw [get_new_old _ _ _ hp]
  | fixParentLocation result child hChild => simp
  | setRangeLoc p r => simp
  | questionToken p q => split_ifs <;> simp
  | typePredicate annotated inner hInner => simp
  | tupleMember member label hLabel => simp
  | setProperty p name v hWrite => simp
  | register node result hOmitted => simp
  | setAllowPattern b => rfl

open converter in
/-- C2, one step: a step keeps the location of every struct in agreement with its range. -/
theorem Step.locOk {c c' : converter} (h : Step c c')
    (hc : ∀ p, p < c.heap.length → LocOk c p) :
    ∀ p, p < c'.heap.length → LocOk c' p := by
  cases h with
  | create node data hLoc hTag hChain =>
    intro p hp
    unfold LocOk
    rw [getLocFor_createNode, getLocFor_new]
    by_cases hpe : c.heap.length = p
    · subst hpe
      have hlt : (c.new data).1 < (c.new data).2.heap.length := by simp
      have h1 := createNode_get_self (c.new data).2 node (c.new data).1 hlt
      rw [get_new_self] at h1
      rw [show c.heap.length = (c.new data).1 from rfl, h1]
      simp [hLoc]
    · have hp' : p < c.heap.length := by
        simp at hp; omega
      rw [createNode_get_ne _ _ _ _ (by simpa using hpe), get_new_old _ _ _ hp']
      exact hc p hp'
  | createMeta node data hRange hToken hLoc hTag =>
    intro p hp
    unfold LocOk
    rw [getLocFor_createNode, getLocFor_new]
    by_cases hpe : c.heap.length = p
    · subst hpe
      have hlt : (c.new data).1 < (c.new data).2.heap.length := by simp
      have h1 := createNode_get_self (c.new data).2 node (c.new data).1 hlt
      rw [get_new_self] at h1
      rw [show c.heap.length = (c.new data).1 from rfl, h1]
      have hne : ¬ (data.Range.1 = 0 ∧ data.Range.2 = 0) := fun h => hToken (Prod.ext h.1 h.2)
      simp only [hne, if_false]
      split_ifs
      · rfl
      · simpa using hLoc
    · have hp' : p < c.heap.length := by
        simp at hp; omega
      rw [createNode_get_ne _ _ _ _ (by simpa using hpe), get_new_old _ _ _ hp']
      exact hc p hp'
  | typeAnnotationNode inner r =>
    intro p hp
    unfold LocOk
    simp only [getLocFor_setLoc, getLocFor_setRange, getLocFor_new]
    by_cases hpe : c.heap.length = p
    · subst hpe
      simp [get_setLoc, get_setRange]
    · have hp' : p < c.heap.length := by
        simp at hp; omega
      simp only [get_setLoc, get_setRange, hpe, false_and, if_false]
      rw [get_new_old _ _ _ hp']
      exact hc p hp'
  | typeParametersNode params r =>
    intro p hp
    unfold LocOk
    rw [getLocFor_new]
    by_cases hpe : c.heap.length = p
    · subst hpe
      have := get_new_self c
        { Type_ := ESTreeKind.TSTypeParameterDeclaration, Loc := c.getLocFor r, Range := r,
          Fields := [("Params", params)] }
      rw [show c.heap.length = (c.new
        { Type_ := ESTreeKind.TSTypeParameterDeclaration, Loc := c.getLocFor r, Range := r,
          Fields := [("Params", params)] }).1 from rfl, this]
    · have hp' : p < c.heap.length := by
        simp at hp; omega
      rw [get_new_old _ _ _ hp']
      exact hc p hp'
  | fixParentLocation result child hChild =>
    intro p hp
    have hp' : p < c.heap.length := by simpa using hp
    unfold LocOk
    rw [getLocFor_fixParentLocation]
    by_cases hpe : p = result
    · subst hpe
      obtain ⟨hR, hL, _⟩ := fixParentLocation_spec c p child hp'
      rw [hR, hL]
      have h1 := hc p hp'
      have h2 := hc child hChild
      unfold LocOk at h1 h2
      rw [h1, h2]
      by_cases ha : (c.get child).Range.1 < (c.get p).Range.1 <;>
      by_cases hb : (c.get child).Range.2 > (c.get p).Range.2
      · simp [getLocFor, ha, hb, min_eq_right (le_of_lt ha), max_eq_right (le_of_lt hb)]
      · simp [getLocFor, ha, hb, min_eq_right (le_of_lt ha), max_eq_left (le_of_not_lt hb)]
      · simp [getLocFor, ha, hb, min_eq_left (le_of_not_lt ha), max_eq_right (le_of_lt hb)]
      · simp [getLocFor, ha, hb, min_eq_left (le_of_not_lt ha), max_eq_left (le_of_not_lt hb)]
    · rw [fixParentLocation_get_ne _ _ _ _ hpe]
      exact hc p hp'
  | setRangeLoc q r =>
    intro p hp
    have hp' : p < c.heap.length := by simpa using hp
    unfold LocOk
    simp only [getLocFor_setLoc, getLocFor_setRange, get_setLoc, get_setRange, length_setRange]
    by_cases hpe : q = p
    · subst hpe
      simp [hp']
    · simp only [hpe, false_and, if_false]
      exact hc p hp'
  | questionToken q e =>
    intro p hp
    by_cases hcond : e > (c.get q).Range.2
    · simp only [hcond, if_true] at hp ⊢
      have hp' : p < c.heap.length := by simpa using hp
      unfold LocOk
      simp only [getLocFor_setLoc, getLocFor_setRange, get_setLoc, get_setRange, length_setRange]
      by_cases hpe : q = p
      · subst hpe
        have h1 := hc q hp'
        unfold LocOk at h1
        simp [hp', h1, getLocFor]
      · simp only [hpe, false_and, if_false]
        exact hc p hp'
    · simp only [hcond, if_false] at hp ⊢
      exact hc p hp
  | typePredicate annotated inner hInner =>
    intro p hp
    have hp' : p < c.heap.length := by simpa using hp
    unfold LocOk
    simp only [getLocFor_setLoc, getLocFor_setRange, get_setLoc, get_setRange, length_setLoc]
    by_cases hpe : annotated = p
    · subst hpe
      have h1 := hc inner hInner
      unfold LocOk at h1
      simp [hp', h1]
    · simp only [hpe, false_and, if_false]
      exact hc p hp'
  | tupleMember member label hLabel =>
    intro p hp
    have hp' : p < c.heap.length := by simpa using hp
    unfold LocOk
    simp only [getLocFor_setLoc, getLocFor_setRange, get_setLoc, get_setRange, length_setRange]
    by_cases hpe : member = p
    · subst hpe
      have h1 := hc label hLabel
      have h2 := hc member hp'
      unfold LocOk at h1 h2
      simp [hp', h1, h2, getLocFor]
    · simp only [hpe, false_and, if_false]
      exact hc p hp'
  | setProperty q name v hWrite =>
    intro p hp
    have hp' : p < c.heap.length := by simpa using hp
    unfold LocOk
    simp only [loc_setProperty, range_setProperty, getLocFor_setProperty]
    exact hc p hp'
  | register node result hOmitted =>
    intro p hp
    have hp' : p < c.heap.length := by simpa using hp
    unfold LocOk
    simp only [register_get, getLocFor_register]
    exact hc p hp'
  | setAllowPattern b =>
    intro p hp
    exact hc p hp

open converter in
/-- No step binds a native node to nil. -/
theorem Step.ts_nonnil {c c' : converter} (h : Step c c')
    (hc : ∀ n, c.tsNodeToESTreeNodeMap n ≠ some none) :
    ∀ n, c'.tsNodeToESTreeNodeMap n ≠ some none := by
  cases h with
  | register node result hOmitted =>
    intro n
    rw [register_ts]
    split_ifs with hcond
    · intro h
      exact hcond.2.1 (Option.some.inj h)
    · exact hc n
  | questionToken q e => split_ifs <;> simpa using hc
  | _ => simpa using hc

open converter in
/-- No step gives an omitted expression a registry entry. -/
theorem Step.ts_omitted {c c' : converter} (h : Step c c')
    (hc : ∀ n, (c.sourceFile.node n).Kind = ast.Kind.OmittedExpression →
      c.tsNodeToESTreeNodeMap n = none) :
    ∀ n, (c'.sourceFile.node n).Kind = ast.Kind.OmittedExpression →
      c'.tsNodeToESTreeNodeMap n = none := by
  cases h with
  | register node result hOmitted =>
    intro n hn
    rw [register_sourceFile] at hn
    rw [register_ts]
    split_ifs with hcond
    · exfalso
      rw [hcond.1] at hn
      exact hcond.2.1 (hOmitted hn)
    · exact hc n hn
  | questionToken q e => split_ifs <;> simpa using hc
  | _ => simpa using hc

open converter in
/-- A step keeps the registry entry of every struct that exists before it. -/
theorem Step.es_stable {c c' : converter} (h : Step c c') (p : Ptr) (hp : p < c.heap.length) :
    c'.esTreeNodeToTSNodeMap p = c.esTreeNodeToTSNodeMap p := by
  cases h with
  | create node data hLoc hTag hChain =>
    rw [createNode_es, es_new, fst_new, Function.update_noteq (Nat.ne_of_lt hp)]
  | createMeta node data hRange hToken hLoc hTag =>
    rw [createNode_es, es_new, fst_new, Function.update_noteq (Nat.ne_of_lt hp)]
  | questionToken q e => split_ifs <;> simp
  | _ => simp

open converter in
/-- C6, one step: a step keeps the registry of converted nodes on exactly the structs
built through `createNode`. -/
theorem Step.esOk {c c' : converter} (h : Step c c') (hc : c.EsOk) : c'.EsOk := by
  have hlen := h.length_le
  have htype := h.type_eq
  have hstable := h.es_stable
  cases h with
  | create node data hLoc hTag hChain =>
    have hlt : (c.new data).1 < (c.new data).2.heap.length := by simp
    have hself := createNode_get_self (c.new data).2 node (c.new data).1 hlt
    rw [get_new_self] at hself
    constructor
    · intro p hp htag
      by_cases hpe : p = c.heap.length
      · subst hpe
        exact ⟨node, by rw [createNode_es, fst_new, Function.update_same]⟩
      · have hp' : p < c.heap.length := by
          simp at hp; omega
        rw [hstable p hp']
        rw [htype p hp'] at htag
        exact hc.1 p hp' htag
    · intro p n hpn
      by_cases hpe : p = c.heap.length
      · subst hpe
        refine ⟨by simp, ?_⟩
        rw [show c.heap.length = (c.new data).1 from rfl, hself]
        exact hTag
      · rw [createNode_es, es_new, fst_new, Function.update_noteq hpe] at hpn
        obtain ⟨h1, h2⟩ := hc.2 p n hpn
        exact ⟨lt_of_lt_of_le h1 hlen, by rw [htype p h1]; exact h2⟩
  | createMeta node data hRange hToken hLoc hTag =>
    have hlt : (c.new data).1 < (c.new data).2.heap.length := by simp
    have hself := createNode_get_self (c.new data).2 node (c.new data).1 hlt
    rw [get_new_self] at hself
    constructor
    · intro p hp htag
      by_cases hpe : p = c.heap.length
      · subst hpe
        exact ⟨node, by rw [createNode_es, fst_new, Function.update_same]⟩
      · have hp' : p < c.heap.length := by
          simp at hp; omega
        rw [hstable p hp']
        rw [htype p hp'] at htag
        exact hc.1 p hp' htag
    · intro p n hpn
      by_cases hpe : p = c.heap.length
      · subst hpe
        refine ⟨by simp, ?_⟩
        rw [show c.heap.length = (c.new data).1 from rfl, hself]
        show data.Type_.builtWithoutCreateNode = false
        rw [hTag]
        rfl
      · rw [createNode_es, es_new, fst_new, Function.update_noteq hpe] at hpn
        obtain ⟨h1, h2⟩ := hc.2 p n hpn
        exact ⟨lt_of_lt_of_le h1 hlen, by rw [htype p h1]; exact h2⟩
  | typeAnnotationNode inner r =>
    constructor
    · intro p hp htag
      by_cases hpe : p = c.heap.length
      · subst hpe
        exfalso
        simp only [type_setLoc, type_setRange] at htag
        have := get_new_self c
          { Type_ := ESTreeKind.TSTypeAnnotation, Fields := [("TypeAnnotation", inner)] }
        rw [fst_new] at this
        rw [this] at htag
        simp [ESTreeKind.builtWithoutCreateNode] at htag
      · have hp' : p < c.heap.length := by
          simp at hp; omega
        rw [hstable p hp']
        rw [htype p hp'] at htag
        exact hc.1 p hp' htag
    · intro p n hpn
      simp only [es_setLoc, es_setRange, es_new] at hpn
      obtain ⟨h1, h2⟩ := hc.2 p n hpn
      exact ⟨lt_of_lt_of_le h1 hlen, by rw [htype p h1]; exact h2⟩
  | typeParametersNode params r =>
    constructor
    · intro p hp htag
      by_cases hpe : p = c.heap.length
      · subst hpe
        exfalso
        have := get_new_self c
          { Type_ := ESTreeKind.TSTypeParameterDeclaration, Loc := c.getLocFor r, Range := r,
            Fields := [("Params", params)] }
        rw [fst_new] at this
        rw [this] at htag
        simp [ESTreeKind.builtWithoutCreateNode] at htag
      · have hp' : p < c.heap.length := by
          simp at hp; omega
        rw [hstable p hp']
        rw [htype p hp'] at htag
        exact hc.1 p hp' htag
    · intro p n hpn
      simp only [es_new] at hpn
      obtain ⟨h1, h2⟩ := hc.2 p n hpn
      exact ⟨lt_of_lt_of_le h1 hlen, by rw [htype p h1]; exact h2⟩
  | fixParentLocation result child hChild =>
    constructor
    · intro p hp htag
      have hp' : p < c.heap.length := by simpa using hp
      rw [hstable p hp']
      rw [htype p hp'] at htag
      exact hc.1 p hp' htag
    · intro p n hpn
      rw [fixParentLocation_es] at hpn
      obtain ⟨h1, h2⟩ := hc.2 p n hpn
      exact ⟨lt_of_lt_of_le h1 hlen, by rw [htype p h1]; exact h2⟩
  | setRangeLoc q r =>
    constructor
    · intro p hp htag
      have hp' : p < c.heap.length := by simpa using hp
      rw [hstable p hp']
      rw [htype p hp'] at htag
      exact hc.1 p hp' htag
    · intro p n hpn
      obtain ⟨h1, h2⟩ := hc.2 p n hpn
      exact ⟨lt_of_lt_of_le h1 hlen, by rw [htype p h1]; exact h2⟩
  | questionToken q e =>
    by_cases hcond : e > (c.get q).Range.2
    · simp only [hcond, if_true] at hlen htype hstable ⊢
      constructor
      · intro p hp htag
        have hp' : p < c.heap.length := by simpa using hp
        rw [hstable p hp']
        rw [htype p hp'] at htag
        exact hc.1 p hp' htag
      · intro p n hpn
        obtain ⟨h1, h2⟩ := hc.2 p n hpn
        exact ⟨lt_of_lt_of_le h1 hlen, by rw [htype p h1]; exact h2⟩
    · simp only [hcond, if_false]
      exact hc
  | typePredicate annotated inner hInner =>
    constructor
    · intro p hp htag
      have hp' : p < c.heap.length := by simpa using hp
      rw [hstable p hp']
      rw [htype p hp'] at htag
      exact hc.1 p hp' htag
    · intro p n hpn
      obtain ⟨h1, h2⟩ := hc.2 p n hpn
      exact ⟨lt_of_lt_of_le h1 hlen, by rw [htype p h1]; exact h2⟩
  | tupleMember member label hLabel =>
    constructor
    · intro p hp htag
      have hp' : p < c.heap.length := by simpa using hp
      rw [hstable p hp']
      rw [htype p hp'] at htag
      exact hc.1 p hp' htag
    · intro p n hpn
      obtain ⟨h1, h2⟩ := hc.2 p n hpn
      exact ⟨lt_of_lt_of_le h1 hlen, by rw [htype p h1]; exact h2⟩
  | setProperty q name v hWrite =>
    constructor
    · intro p hp htag
      have hp' : p < c.heap.length := by simpa using hp
      rw [hstable p hp']
      rw [htype p hp'] at htag
      exact hc.1 p hp' htag
    · intro p n hpn
      obtain ⟨h1, h2⟩ := hc.2 p n hpn
      exact ⟨lt_of_lt_of_le h1 hlen, by rw [htype p h1]; exact h2⟩
  | register node result hOmitted =>
    constructor
    · intro p hp htag
      have hp' : p < c.heap.length := by simpa using hp
      rw [hstable p hp']
      rw [htype p hp'] at htag
      exact hc.1 p hp' htag
    · intro p n hpn
      rw [register_es] at hpn
      obtain ⟨h1, h2⟩ := hc.2 p n hpn
      exact ⟨lt_of_lt_of_le h1 hlen, by rw [htype p h1]; exact h2⟩
  | setAllowPattern b => exact hc

end estree

/-! ## The range helpers -/

namespace estree

/-- C3: `fixParentLocation(result, child)` leaves `result` with the range
`[min(r0, c0), max(r1, c1)]`, which encloses its former range and the child's range; the
child is unchanged; and nothing at all changes when `result` already encloses `child`. -/
theorem fixParentLocation_widens (c : converter) (result child : Ptr)
    (hr : result < c.heap.length) :
    ((c.fixParentLocation result child).get result).Range =
        (min (c.get result).Range.1 (c.get child).Range.1,
         max (c.get result).Range.2 (c.get child).Range.2)
    ∧ ((c.fixParentLocation result child).get result).Range.1 ≤ (c.get result).Range.1
    ∧ (c.get result).Range.2 ≤ ((c.fixParentLocation result child).get result).Range.2
    ∧ ((c.fixParentLocation result child).get result).Range.1 ≤ (c.get child).Range.1
    ∧ (c.get child).Range.2 ≤ ((c.fixParentLocation result child).get result).Range.2
    ∧ (c.fixParentLocation result child).get child = c.get child
    ∧ ((c.get result).Range.1 ≤ (c.get child).Range.1 →
        (c.get child).Range.2 ≤ (c.get result).Range.2 →
        c.fixParentLocation result child = c) := by
  have h := converter.fixParentLocation_spec c result child hr
  refine ⟨h.1, ?_, ?_, ?_, ?_, ?_, ?_⟩
  · rw [h.1]; exact min_le_left _ _
  · rw [h.1]; exact le_max_left _ _
  · rw [h.1]; exact min_le_right _ _
  · rw [h.1]; exact le_max_right _ _
  · by_cases hc : child = result
    · subst hc
      rw [converter.fixParentLocation_id c child child (le_refl _) (le_refl _)]
    · exact h.2.2.2.2.1 child hc
  · exact converter.fixParentLocation_id c result child

/-- C3 at a concrete heap: the parent `[5, 10]` widened over the child `[3, 12]`. -/
theorem fixParentLocation_widens_witness :
    0 < widenInput.heap.length
    ∧ ((widenInput.fixParentLocation 0 1).get 0).Range = (3, 12)
    ∧ (widenInput.fixParentLocation 0 1).get 1 = widenInput.get 1 := by
  have h := fixParentLocation_widens widenInput 0 1 (by decide)
  refine ⟨by decide, ?_, h.2.2.2.2.2.1⟩
  rw [h.1]
  decide

/-- C4, as the code has it: `createNode` returns the struct it was given, keeps every
`Range` other than `[0, 0]`, and replaces `[0, 0]`, whether left unset or set by the
constructor, by `[tokenStart(node), node.End()]`. -/
theorem createNode_range (c : converter) (node : ast.NodePtr) (data : Ptr)
    (hd : data < c.heap.length) :
    (c.createNode node data).1 = data
    ∧ ((c.get data).Range ≠ (0, 0) →
        ((c.createNode node data).2.get data).Range = (c.get data).Range)
    ∧ ((c.get data).Range = (0, 0) →
        ((c.createNode node data).2.get data).Range =
          ((c.sourceFile.node node).TokenPos, (c.sourceFile.node node).End)) := by
  refine ⟨rfl, ?_, ?_⟩
  · intro hne
    have hcond : ¬ ((c.get data).Range.1 = 0 ∧ (c.get data).Range.2 = 0) := by
      intro h
      exact hne (Prod.ext h.1 h.2)
    simp only [converter.createNode, hcond, if_false]
    split_ifs <;> simp [converter.get, converter.setLoc, converter.getD_set_heap, hd]
  · intro he
    have hcond : (c.get data).Range.1 = 0 ∧ (c.get data).Range.2 = 0 := by
      rw [he]; exact ⟨rfl, rfl⟩
    simp only [converter.createNode, hcond, and_self, if_true]
    split_ifs <;>
      simp [converter.get, converter.setLoc, converter.setRange, converter.getD_set_heap,
        converter.getRange, converter.getNodeStart, hd]

/-- C4 at concrete structs: a set range `[6, 8]` is kept, an unset one becomes `[5, 9]`. -/
theorem createNode_range_witness :
    0 < createInput.heap.length
    ∧ ((createInput.createNode 0 0).2.get 0).Range = (6, 8)
    ∧ ((createInput.createNode 0 1).2.get 1).Range = (5, 9) := by
  refine ⟨by decide, ?_, ?_⟩
  · have h := (createNode_range createInput 0 0 (by decide)).2.1 (by decide)
    rw [h]; rfl
  · have h := (createNode_range createInput 0 1 (by decide)).2.2 (by decide)
    rw [h]; rfl

/-- C4 as stated fails: the constructor set the empty range `[0, 0]` and `createNode`
returned the node with the range `[0, 2]` of the native node. -/
theorem createNode_range_counterexample :
    (emptyRangeInput.get 0).Range = (0, 0)
    ∧ ((emptyRangeInput.createNode 0 0).2.get 0).Range = (0, 2)
    ∧ ((emptyRangeInput.createNode 0 0).2.get 0).Range ≠ (emptyRangeInput.get 0).Range := by
  decide

end estree

/-! ## Export unwrapping -/

namespace estree

theorem lastExportModifier_eq_iff (sf : ast.SourceFile) (exportKeyword : ast.NodePtr)
    (rest : List ast.NodePtr)
    (hexp : (sf.node exportKeyword).Kind = ast.Kind.ExportKeyword) :
    lastExportModifier sf exportKeyword rest = exportKeyword ↔
      declarationIsDefault sf rest = false := by
  cases rest with
  | nil => simp [lastExportModifier, declarationIsDefault]
  | cons m rest' =>
    by_cases hk : (sf.node m).Kind = ast.Kind.DefaultKeyword
    · have hme : m ≠ exportKeyword := by
        intro h
        rw [h, hexp] at hk
        exact absurd hk (by decide)
      simp [lastExportModifier, declarationIsDefault, hk, hme]
    · simp [lastExportModifier, declarationIsDefault, hk]

/-- What `converter.converter` does around a call of `convertNode` that returns. -/
theorem converterF_ok (convertNode : ast.NodePtr → Option ast.NodePtr → M (Option Ptr))
    (c c2 : converter) (node : ast.NodePtr) (parent : Option ast.NodePtr) (allowPattern : Bool)
    (r : Option Ptr)
    (h : convertNode node (parentOrOwn c.sourceFile node parent)
        { c with allowPattern := allowPattern } = Except.ok (r, c2)) :
    converterF convertNode (some node) parent allowPattern c =
      Except.ok (r, { (c2.registerTSNodeInNodeMap node r) with allowPattern := c.allowPattern }) := by
  simp only [converterF, bind, StateT.bind, get, getThe, MonadStateOf.get, StateT.get, modify,
    modifyGet, MonadStateOf.modifyGet, StateT.modifyGet, pure, StateT.pure, Except.pure,
    Except.bind, h]

/-- C7: when `convertNode` ends, for a declaration `node` with a leading `export` that has no
registry entry yet, with `fixExports(node, result)` (run from the converter `c1` its children
and `result` were built in), `converter(node, parent, allowPattern)` returns the Export
wrapper and leaves `tsNodeToESTreeNodeMap[node]` on `result`, the wrapper's `Declaration`,
not on the wrapper. -/
theorem converter_registers_unwrapped
    (convertNode : ast.NodePtr → Option ast.NodePtr → M (Option Ptr))
    (c c1 : converter) (node : ast.NodePtr) (parent : Option ast.NodePtr) (allowPattern : Bool)
    (result : Ptr) (exportKeyword : ast.NodePtr) (rest : List ast.NodePtr)
    (hcn : convertNode node (parentOrOwn c.sourceFile node parent)
        { c with allowPattern := allowPattern }
      = (some <$> fixExports node result : M (Option Ptr)) c1)
    (hmods : fixExportsModifiers c1.sourceFile node = Except.ok (some (exportKeyword :: rest)))
    (hexp : (c1.sourceFile.node exportKeyword).Kind = ast.Kind.ExportKeyword)
    (hres : result < c1.heap.length)
    (hno : c1.tsNodeToESTreeNodeMap node = none) :
    ∃ c', converterF convertNode (some node) parent allowPattern c
          = Except.ok (some c1.heap.length, c')
      ∧ c'.tsNodeToESTreeNodeMap node = some (some result)
      ∧ c1.heap.length ≠ result
      ∧ (c'.get c1.heap.length).field "Declaration" = Value.node result
      ∧ ((c'.get c1.heap.length).Type_ = ESTreeKind.ExportNamedDeclaration
          ∨ (c'.get c1.heap.length).Type_ = ESTreeKind.ExportDefaultDeclaration)
      ∧ (c'.get result).Type_ = (c1.get result).Type_
      ∧ c'.allowPattern = c.allowPattern := by
  obtain ⟨c2, h0, _, _, h3, _, h5, _, _, h8, _, _, _, h12, _, _, _⟩ :=
    converter.fixExports_spec c1 node result exportKeyword rest hmods hexp hres
  have hrun : convertNode node (parentOrOwn c.sourceFile node parent)
        { c with allowPattern := allowPattern } = Except.ok (some c1.heap.length, c2) := by
    rw [hcn]
    show (do let a ← c1.fixExports node result; pure (some a.1, a.2)) = _
    rw [h0]
    rfl
  refine ⟨_, converterF_ok convertNode c c2 node parent allowPattern _ hrun, ?_, ?_, ?_, ?_, ?_, rfl⟩
  · show (c2.registerTSNodeInNodeMap node (some c1.heap.length)).tsNodeToESTreeNodeMap node = _
    rw [converter.register_ts, h12, converter.register_ts]
    simp [hno]
  · exact Nat.ne_of_gt hres
  · show ((c2.registerTSNodeInNodeMap node (some c1.heap.length)).get c1.heap.length).field _ = _
    rw [converter.register_get]
    exact h8
  · show ((c2.registerTSNodeInNodeMap node (some c1.heap.length)).get c1.heap.length).Type_ = _
        ∨ ((c2.registerTSNodeInNodeMap node (some c1.heap.length)).get c1.heap.length).Type_ = _
    rw [converter.register_get, h5]
    by_cases h : lastExportModifier c1.sourceFile exportKeyword rest = exportKeyword
    · left; simp [h]
    · right; simp [h]
  · show ((c2.registerTSNodeInNodeMap node (some c1.heap.length)).get result).Type_ = _
    rw [converter.register_get]
    exact h3

end estree

namespace estree

/-- C7 on `export type T = any`: the registry maps the type alias (native node 1) to the
`TSTypeAliasDeclaration` (pointer 2), the `Declaration` of the wrapper (pointer 3). -/
theorem converter_registers_unwrapped_witness :
    ∃ c', converterRec 2 (some 1) none false (converter.init exportTypeAlias)
          = Except.ok (some 3, c')
      ∧ c'.tsNodeToESTreeNodeMap 1 = some (some 2)
      ∧ (c'.get 3).field "Declaration" = Value.node 2 := by
  obtain ⟨c', h1, h2, _, h4, _⟩ :=
    converter_registers_unwrapped (convertNode 2) (converter.init exportTypeAlias) typeAliasBuilt
      1 none false 2 2 [] rfl rfl (by decide) (by decide) rfl
  exact ⟨c', h1, h2, h4⟩

/-- C8, as the code has it: the wrapper `fixExports` builds starts at the start of the
`export` keyword itself and ends where the declaration ends, and its `Declaration` is the
conversion result it was given, with its tag and fields. -/
theorem fixExports_wrapper_range (c : converter) (node : ast.NodePtr) (result : Ptr)
    (exportKeyword : ast.NodePtr) (rest : List ast.NodePtr)
    (hmods : fixExportsModifiers c.sourceFile node = Except.ok (some (exportKeyword :: rest)))
    (hexp : (c.sourceFile.node exportKeyword).Kind = ast.Kind.ExportKeyword)
    (hres : result < c.heap.length)
    (hend : (c.get result).Range.2 ≠ 0) :
    ∃ c', c.fixExports node result = Except.ok (c.heap.length, c')
      ∧ (c'.get c.heap.length).Range =
          ((c.sourceFile.node exportKeyword).TokenPos, (c.get result).Range.2)
      ∧ ((c'.get c.heap.length).Type_ = ESTreeKind.ExportNamedDeclaration
          ∨ (c'.get c.heap.length).Type_ = ESTreeKind.ExportDefaultDeclaration)
      ∧ (c'.get c.heap.length).field "Declaration" = Value.node result
      ∧ (c'.get result).Type_ = (c.get result).Type_
      ∧ (c'.get result).Fields = (c.get result).Fields := by
  obtain ⟨c', h0, _, _, h3, h4, h5, h6, _, h8, _⟩ :=
    converter.fixExports_spec c node result exportKeyword rest hmods hexp hres
  refine ⟨c', h0, ?_, ?_, h8, h3, h4⟩
  · rw [h6]
    have : ¬ (c.getNodeStart exportKeyword = 0 ∧ (c.get result).Range.2 = 0) :=
      fun h => hend h.2
    rw [if_neg this]
    rfl
  · rw [h5]
    by_cases h : lastExportModifier c.sourceFile exportKeyword rest = exportKeyword
    · left; simp [h]
    · right; simp [h]

/-- C8 on `export default function f(){}`: the wrapper is `[0, 29]`, from `export`. -/
theorem fixExports_wrapper_range_witness :
    ∃ c', functionBuilt.fixExports 1 2 = Except.ok (3, c')
      ∧ (c'.get 3).Range = (0, 29)
      ∧ (c'.get 3).field "Declaration" = Value.node 2 := by
  obtain ⟨c', h0, h1, _, h3, _⟩ :=
    fixExports_wrapper_range functionBuilt 1 2 2 [3] rfl (by decide) (by decide) (by decide)
  exact ⟨c', h0, h1, h3⟩

/-- C8 as stated fails on `export default function f(){}`: the `ExportDefaultDeclaration`
in `Program.Body` starts at 0, the start of `export`, while the token that follows the
`export` keyword, `default`, starts at 7. -/
theorem fixExports_wrapper_range_counterexample :
    observe (ConvertSourceFileToESTree 3 exportDefaultFunction)
        (fun p c => (p, (c.get 4).field "Body", (c.get 3).Type_, (c.get 3).field "Declaration",
          (c.get 3).Range))
      = some (some 4, Value.list [some 3], ESTreeKind.ExportDefaultDeclaration, Value.node 2,
          (0, 29))
    ∧ (exportDefaultFunction.GetRangeOfTokenAtPosition (exportDefaultFunction.node 2).End).1 = 7 := by
  decide!

/-- C9: `fixExports` moves the start of the inner declaration to the start of the first
token after the last of its leading `export` / `default` modifiers and keeps its end; the
wrapper ends where the inner declaration ends. The declaration handed to `fixExports` is
the result of `createNode(node, ...)` on a struct without `Range`, so it ends at
`node.End()`. -/
theorem fixExports_inner_range (c : converter) (node : ast.NodePtr) (result : Ptr)
    (exportKeyword : ast.NodePtr) (rest : List ast.NodePtr)
    (hmods : fixExportsModifiers c.sourceFile node = Except.ok (some (exportKeyword :: rest)))
    (hexp : (c.sourceFile.node exportKeyword).Kind = ast.Kind.ExportKeyword)
    (hres : result < c.heap.length)
    (hend : (c.get result).Range.2 = (c.sourceFile.node node).End) :
    ∃ c', c.fixExports node result = Except.ok (c.heap.length, c')
      ∧ (c'.get result).Range.1 =
          (c.sourceFile.GetRangeOfTokenAtPosition
            (c.sourceFile.node (lastExportModifier c.sourceFile exportKeyword rest)).End).1
      ∧ (c'.get result).Range.2 = (c.get result).Range.2
      ∧ (c'.get c.heap.length).Range.2 = (c'.get result).Range.2
      ∧ (c'.get c.heap.length).field "Declaration" = Value.node result := by
  obtain ⟨c', h0, h1, _, _, _, _, h6, _, h8, _⟩ :=
    converter.fixExports_spec c node result exportKeyword rest hmods hexp hres
  refine ⟨c', h0, ?_, ?_, ?_, h8⟩
  · rw [h1]
  · rw [h1]
  · rw [h6, h1]
    split_ifs with hz
    · show (c.sourceFile.node node).End = (c.get result).Range.2
      exact hend.symm
    · rfl

/-- C9 on `export default function f(){}`: the function declaration moves from `[0, 29]` to
`[15, 29]`, the start of `function`, and the wrapper ends at 29 as well. -/
theorem fixExports_inner_range_witness :
    ∃ c', functionBuilt.fixExports 1 2 = Except.ok (3, c')
      ∧ (c'.get 2).Range.1 = 15
      ∧ (c'.get 2).Range.2 = 29
      ∧ (c'.get 3).Range.2 = (c'.get 2).Range.2 := by
  obtain ⟨c', h0, h1, h2, h3, _⟩ :=
    fixExports_inner_range functionBuilt 1 2 2 [3] rfl (by decide) (by decide) (by decide)
  exact ⟨c', h0, h1, h2, h3⟩

/-- C10, as the code has it: an `ExportNamedDeclaration` wrapper has `ExportKind` "type"
when the wrapped declaration is a `TSInterfaceDeclaration` or a `TSTypeAliasDeclaration` or
its `Declare` field is true, and "value" otherwise; an `ExportDefaultDeclaration` wrapper
always has `ExportKind` "value". -/
theorem fixExports_exportKind (c : converter) (node : ast.NodePtr) (result : Ptr)
    (exportKeyword : ast.NodePtr) (rest : List ast.NodePtr)
    (hmods : fixExportsModifiers c.sourceFile node = Except.ok (some (exportKeyword :: rest)))
    (hexp : (c.sourceFile.node exportKeyword).Kind = ast.Kind.ExportKeyword)
    (hres : result < c.heap.length) :
    ∃ c', c.fixExports node result = Except.ok (c.heap.length, c')
      ∧ (declarationIsDefault c.sourceFile rest = false →
          (c'.get c.heap.length).Type_ = ESTreeKind.ExportNamedDeclaration
          ∧ (((c.get result).Type_ = ESTreeKind.TSInterfaceDeclaration
                ∨ (c.get result).Type_ = ESTreeKind.TSTypeAliasDeclaration
                ∨ (c.get result).field "Declare" = Value.bool true) →
              (c'.get c.heap.length).field "ExportKind" = Value.str "type")
          ∧ (¬ ((c.get result).Type_ = ESTreeKind.TSInterfaceDeclaration
                ∨ (c.get result).Type_ = ESTreeKind.TSTypeAliasDeclaration
                ∨ (c.get result).field "Declare" = Value.bool true) →
              (c'.get c.heap.length).field "ExportKind" = Value.str "value"))
      ∧ (declarationIsDefault c.sourceFile rest = true →
          (c'.get c.heap.length).Type_ = ESTreeKind.ExportDefaultDeclaration
          ∧ (c'.get c.heap.length).field "ExportKind" = Value.str "value") := by
  obtain ⟨c', h0, _, _, _, _, h5, _, _, _, h9, _⟩ :=
    converter.fixExports_spec c node result exportKeyword rest hmods hexp hres
  have hiff := lastExportModifier_eq_iff c.sourceFile exportKeyword rest hexp
  refine ⟨c', h0, ?_, ?_⟩
  · intro hnd
    have hl := hiff.mpr hnd
    rw [if_pos hl] at h5 h9
    refine ⟨h5, ?_, ?_⟩
    · intro ht
      rw [h9]
      rcases ht with ht | ht | ht <;> simp [ht]
    · intro ht
      rw [h9]
      have h1 : (c.get result).Type_ ≠ ESTreeKind.TSInterfaceDeclaration := fun h => ht (Or.inl h)
      have h2 : (c.get result).Type_ ≠ ESTreeKind.TSTypeAliasDeclaration :=
        fun h => ht (Or.inr (Or.inl h))
      have h3 : (c.get result).field "Declare" ≠ Value.bool true :=
        fun h => ht (Or.inr (Or.inr h))
      simp [h1, h2, h3]
  · intro hd
    have hl : ¬ lastExportModifier c.sourceFile exportKeyword rest = exportKeyword := by
      intro h
      rw [hiff.mp h] at hd
      exact absurd hd (by decide)
    rw [if_neg hl] at h5 h9
    exact ⟨h5, h9⟩

/-- C10 on `export type T = any`: a named export of a type alias has `ExportKind` "type". -/
theorem fixExports_exportKind_witness :
    ∃ c', typeAliasBuilt.fixExports 1 2 = Except.ok (3, c')
      ∧ (c'.get 3).Type_ = ESTreeKind.ExportNamedDeclaration
      ∧ (c'.get 3).field "ExportKind" = Value.str "type" := by
  obtain ⟨c', h0, h1, _⟩ :=
    fixExports_exportKind typeAliasBuilt 1 2 2 [] rfl (by decide) (by decide)
  exact ⟨c', h0, (h1 rfl).1, (h1 rfl).2.1 (Or.inr (Or.inl rfl))⟩

/-- C10 as stated fails on `export default interface I {}`: the wrapper in `Program.Body`
is an `ExportDefaultDeclaration` whose `Declaration` is a `TSInterfaceDeclaration`, a
type-only declaration, and its `ExportKind` is "value". -/
theorem fixExports_exportKind_counterexample :
    observe (ConvertSourceFileToESTree 3 exportDefaultInterface)
        (fun p c => (p, (c.get 4).field "Body", (c.get 3).Type_, (c.get 3).field "Declaration",
          (c.get 2).Type_, (c.get 3).field "ExportKind"))
      = some (some 4, Value.list [some 3], ESTreeKind.ExportDefaultDeclaration, Value.node 2,
          ESTreeKind.TSInterfaceDeclaration, Value.str "value") := by
  decide!

end estree

/-! ## Range containment -/

namespace estree

theorem ESTreeNode.field_setField_same (n : ESTreeNode) (name : String) (v : Value) :
    (n.setField name v).field name = v := by
  simp [ESTreeNode.field, ESTreeNode.setField, List.lookup]

/-- A child attached with `setProperty` and widened over with `fixParentLocation`. -/
theorem converter.attach_enclosed (S : converter) (id w : Ptr) (name : String)
    (hid : id < S.heap.length) (hne : id ≠ w) :
    (((S.setProperty id name (Value.node w)).fixParentLocation id w).get id).field name
        = Value.node w
    ∧ ((S.setProperty id name (Value.node w)).fixParentLocation id w).get w = S.get w
    ∧ (((S.setProperty id name (Value.node w)).fixParentLocation id w).get id).Range.1
        ≤ (S.get w).Range.1
    ∧ (S.get w).Range.2
        ≤ (((S.setProperty id name (Value.node w)).fixParentLocation id w).get id).Range.2 := by
  have hid' : id < (S.setProperty id name (Value.node w)).heap.length := by simpa using hid
  have hspec := converter.fixParentLocation_spec (S.setProperty id name (Value.node w)) id w hid'
  have hw : (S.setProperty id name (Value.node w)).get w = S.get w := by
    rw [converter.get_setProperty]
    simp [hne]
  refine ⟨?_, ?_, ?_, ?_⟩
  · unfold ESTreeNode.field
    rw [hspec.2.2.2.1, converter.get_setProperty]
    simp only [hid, and_self, if_true]
    exact ESTreeNode.field_setField_same _ _ _
  · rw [hspec.2.2.2.2.1 w (Ne.symm hne), hw]
  · rw [hspec.1, hw]
    exact min_le_right _ _
  · rw [hspec.1, hw]
    exact le_max_right _ _

/-- The binding name `convertBindingNameWithTypeAnnotation` returns holds the
`TSTypeAnnotation` it built as `TypeAnnotation` and encloses it. The two calls of
`c.converter` are taken as they return: the name converts to the struct `id`, the type to
`inner`, and no struct is freed in between. -/
theorem convertBindingName_enclosed (conv : Conv) (c c1 c2 : converter)
    (name tsType : ast.NodePtr) (parent : Option ast.NodePtr) (id : Ptr) (inner : Option Ptr)
    (h1 : conv (some name) none true c = Except.ok (some id, c1))
    (hid : id < c1.heap.length)
    (h2 : conv (some tsType) none false c1 = Except.ok (inner, c2))
    (hmono : c1.heap.length ≤ c2.heap.length) :
    ∃ c', convertBindingNameWithTypeAnnotation conv (some name) (some tsType) parent c
          = Except.ok (some id, c')
      ∧ (c'.get id).field "TypeAnnotation" = Value.node c2.heap.length
      ∧ (c'.get c2.heap.length).Type_ = ESTreeKind.TSTypeAnnotation
      ∧ (c'.get c2.heap.length).field "TypeAnnotation" = Value.ofOption inner
      ∧ (c'.get id).Range.1 ≤ (c'.get c2.heap.length).Range.1
      ∧ (c'.get c2.heap.length).Range.2 ≤ (c'.get id).Range.2 := by
  have hne : id ≠ c2.heap.length := Nat.ne_of_lt (lt_of_lt_of_le hid hmono)
  simp only [ convertBindingNameWithTypeAnnotation, convertTypeAnnotation, newNode, bind,
    StateT.bind, get, getThe, MonadStateOf.get, StateT.get, modify, modifyGet,
    MonadStateOf.modifyGet, StateT.modifyGet, pure, StateT.pure, Except.pure, Except.bind, h1, h2,
    converter.fst_new]
  refine ⟨_, rfl, ?_⟩
  have hlive : id < (((c2.new
      { Type_ := ESTreeKind.TSTypeAnnotation
        Fields := [("TypeAnnotation", Value.ofOption inner)] }).2.setRange c2.heap.length
      ((c1.sourceFile.node tsType).Pos -
          match parent with
          | none => 1
          | some p =>
            if (c1.sourceFile.node p).Kind = ast.Kind.FunctionType
                ∨ (c1.sourceFile.node p).Kind = ast.Kind.ConstructorType then 2 else 1,
        (c1.sourceFile.node tsType).End)).setLoc c2.heap.length
      (((c2.new
          { Type_ := ESTreeKind.TSTypeAnnotation
            Fields := [("TypeAnnotation", Value.ofOption inner)] }).2.setRange c2.heap.length
          ((c1.sourceFile.node tsType).Pos -
              match parent with
              | none => 1
              | some p =>
                if (c1.sourceFile.node p).Kind = ast.Kind.FunctionType
                    ∨ (c1.sourceFile.node p).Kind = ast.Kind.ConstructorType then 2 else 1,
            (c1.sourceFile.node tsType).End)).getLocFor
        ((c1.sourceFile.node tsType).Pos -
            match parent with
            | none => 1
            | some p =>
              if (c1.sourceFile.node p).Kind = ast.Kind.FunctionType
                  ∨ (c1.sourceFile.node p).Kind = ast.Kind.ConstructorType then 2 else 1,
          (c1.sourceFile.node tsType).End))).heap.length := by
    simp only [converter.length_setLoc, converter.length_setRange, converter.length_new]
    exact lt_of_lt_of_le (lt_of_lt_of_le hid hmono) (Nat.le_succ _)
  obtain ⟨a1, a2, a3, a4⟩ := converter.attach_enclosed _ id c2.heap.length "TypeAnnotation" hlive hne
  have hself := converter.get_new_self c2
    { Type_ := ESTreeKind.TSTypeAnnotation, Fields := [("TypeAnnotation", Value.ofOption inner)] }
  rw [converter.fst_new] at hself
  refine ⟨a1, ?_, ?_, ?_, ?_⟩
  · rw [a2]
    simp only [converter.type_setLoc, converter.type_setRange]
    rw [hself]
  · rw [a2]
    simp only [converter.field_setLoc, converter.field_setRange]
    rw [hself]
    rfl
  · rw [a2]; exact a3
  · rw [a2]; exact a4

end estree

namespace estree

/-- C1 as stated fails on `class C { m(@d x) {} }`: the tree returned for the file is the
`Program` at pointer 10; the parameter `x`, the `Identifier` at pointer 1, is reached from
it; its field `Decorators` holds the `Decorator` at pointer 3; the parameter has the range
`[15, 16]` and the decorator `[12, 14]`, outside of it. No other node of the tree has a
child outside of its range. -/
theorem range_containment_counterexample :
    observe (ConvertSourceFileToESTree 6 classWithDecoratedParameter)
        (fun p c => (p, (c.get 10).Type_, decide (1 ∈ c.descendants 8 [10]), (c.get 1).Type_,
          (c.get 1).field "Decorators", (c.get 3).Type_))
      = some (some 10, ESTreeKind.Program, true, ESTreeKind.Identifier, Value.list [some 3],
          ESTreeKind.Decorator)
    ∧ observe (ConvertSourceFileToESTree 6 classWithDecoratedParameter)
        (fun _ c => ((c.get 1).children, (c.get 1).Range, (c.get 3).Range,
          decide (c.encloses 1)))
      = some ([3], (15, 16), (12, 14), false)
    ∧ observe (ConvertSourceFileToESTree 6 classWithDecoratedParameter)
        (fun _ c => (decide c.Contained, c.escaping))
      = some (false, [(1, 3)]) :=
  ⟨by decide!, by decide!, by decide!⟩

end estree

/-! ## Optional chains

The invariant of C12 is kept by every step; what `convertChainExpression` returns is
computed once, for the claims on chains and for the run of the conversion. -/

namespace estree

@[simp] theorem converter.fixParentLocation_fields (c : converter) (result child q : Ptr) :
    ((c.fixParentLocation result child).get q).Fields = (c.get q).Fields := by
  unfold fixParentLocation
  simp only []
  split_ifs <;> simp

/-- A pointer beyond the heap reads as the zero struct, an `Identifier`. -/
theorem converter.get_beyond (c : converter) (p : Ptr) (hp : c.heap.length ≤ p) :
    c.get p = default := by
  unfold converter.get
  exact List.getD_eq_default _ _ hp

/-- A `ChainExpression` is allocated. -/
theorem converter.chain_allocated (c : converter) (p : Ptr)
    (h : (c.get p).Type_ = ESTreeKind.ChainExpression) : p < c.heap.length := by
  by_contra hcon
  rw [c.get_beyond p (not_lt.mp hcon)] at h
  cases h

/-- The field another name names is not changed by `setProperty`. -/
theorem converter.field_setProperty_ne (c : converter) (p q : Ptr) (name name' : String)
    (v : Value) (hne : name' ≠ name) :
    ((c.setProperty p name v).get q).field name' = (c.get q).field name' := by
  rw [get_setProperty]
  split_ifs with h
  · rw [← h.1]
    unfold ESTreeNode.field ESTreeNode.setField
    simp only [List.lookup]
    have h1 : (name' == name) = false := by simpa using hne
    rw [h1]
    simp only []
    congr 1
    induction (c.get p).Fields with
    | nil => rfl
    | cons f fs ih =>
      obtain ⟨k, w⟩ := f
      by_cases hf : k = name
      · subst hf
        have h3 : (k != k) = false := by simp
        simp only [List.filter, h3, List.lookup, h1]
        exact ih
      · have h3 : (k != name) = true := by simpa using hf
        simp only [List.filter, h3, List.lookup]
        rw [ih]
  · rfl

/-- A `ChainExpression` of a converter that keeps the tag, the fields and the registry
entry of every struct allocated before a write is as `ChainOk` says after it. -/
theorem converter.ChainOk.frame {c c' : converter} (hc : c.ChainOk)
    (hsf : c'.sourceFile = c.sourceFile) (hlen : c.heap.length ≤ c'.heap.length)
    (hold : ∀ p, p < c.heap.length → (c'.get p).Type_ = (c.get p).Type_
      ∧ (c'.get p).Fields = (c.get p).Fields
      ∧ c'.esTreeNodeToTSNodeMap p = c.esTreeNodeToTSNodeMap p)
    (x : Ptr) (hx0 : x < c.heap.length)
    (hxt : (c'.get x).Type_ = ESTreeKind.ChainExpression) :
    ∃ e, (c'.get x).field "Expression" = Value.node e ∧ e < c'.heap.length
      ∧ (c'.get e).Type_.isChainLink = true
      ∧ ∀ y, (c'.get e).field (chainChildField (c'.get e).Type_) = Value.node y →
          y < c'.heap.length
          ∧ ((c'.get y).Type_ = ESTreeKind.ChainExpression →
              ∃ ts, c'.esTreeNodeToTSNodeMap x = some ts
                ∧ c'.sourceFile.parenthesised ts = true) := by
  obtain ⟨t1, f1, e1⟩ := hold x hx0
  obtain ⟨e, he, hel, het, hP⟩ := hc x hx0 (t1 ▸ hxt)
  obtain ⟨t2, f2, _⟩ := hold e hel
  refine ⟨e, ?_, lt_of_lt_of_le hel hlen, ?_, ?_⟩
  · unfold ESTreeNode.field
    rw [f1]
    exact he
  · rw [t2]; exact het
  · intro y hy
    unfold ESTreeNode.field at hy
    rw [t2, f2] at hy
    obtain ⟨hy0, hpar⟩ := hP y hy
    refine ⟨lt_of_lt_of_le hy0 hlen, fun hyt => ?_⟩
    obtain ⟨t3, _, _⟩ := hold y hy0
    obtain ⟨ts, hts, hp⟩ := hpar (t3 ▸ hyt)
    exact ⟨ts, by rw [e1]; exact hts, by rw [hsf]; exact hp⟩


/-- The struct `createNode` leaves behind a struct just allocated: the struct literal, with
its range and location set. -/
theorem converter.createNode_new_get (c : converter) (node : ast.NodePtr) (data : ESTreeNode) :
    (((c.new data).2.createNode node (c.new data).1).2.get c.heap.length).Type_ = data.Type_
    ∧ (((c.new data).2.createNode node (c.new data).1).2.get c.heap.length).Fields
        = data.Fields := by
  have h := converter.createNode_get_self (c.new data).2 node (c.new data).1 (by simp)
  rw [converter.get_new_self] at h
  rw [converter.fst_new] at h ⊢
  rw [h]
  exact ⟨rfl, rfl⟩

/-- A struct allocated with a tag other than `ChainExpression` adds no chain. -/
theorem converter.no_new_chain (c c' : converter) (x : Ptr) (t : ESTreeKind)
    (hlen : c'.heap.length = c.heap.length + 1) (ht : (c'.get c.heap.length).Type_ = t)
    (hne : t ≠ ESTreeKind.ChainExpression) (hx : c.heap.length ≤ x)
    (hxt : (c'.get x).Type_ = ESTreeKind.ChainExpression) : False := by
  have hx' : (x : Nat) < c'.heap.length := c'.chain_allocated x hxt
  have hxL : (x : Nat) = c.heap.length :=
    Nat.le_antisymm (Nat.le_of_lt_succ (lt_of_lt_of_eq hx' hlen)) hx
  subst hxL
  rw [ht] at hxt
  exact hne hxt

open converter in
/-- C12, one step: a step keeps `ChainOk`. -/
theorem Step.chainOk {c c' : converter} (h : Step c c') (hc : c.ChainOk) : c'.ChainOk := by
  have hlen := h.length_le
  have htype := h.type_eq
  have hes := h.es_stable
  have hsf := h.sourceFile_eq
  have key : (∀ p, p < c.heap.length → (c'.get p).Fields = (c.get p).Fields) →
      (∀ x, c.heap.length ≤ x → x < c'.heap.length →
        (c'.get x).Type_ = ESTreeKind.ChainExpression →
        ∃ e, (c'.get x).field "Expression" = Value.node e ∧ e < c'.heap.length
          ∧ (c'.get e).Type_.isChainLink = true
          ∧ ∀ y, (c'.get e).field (chainChildField (c'.get e).Type_) = Value.node y →
              y < c'.heap.length
              ∧ ((c'.get y).Type_ = ESTreeKind.ChainExpression →
                  ∃ ts, c'.esTreeNodeToTSNodeMap x = some ts
                    ∧ c'.sourceFile.parenthesised ts = true)) → c'.ChainOk := by
    intro hf hnew x hx hxt
    by_cases hx0 : x < c.heap.length
    · exact hc.frame hsf hlen (fun p hp => ⟨htype p hp, hf p hp, hes p hp⟩) x hx0 hxt
    · exact hnew x (not_lt.mp hx0) hx hxt
  cases h with
  | create node data hLoc hTag hChain =>
    have hself := createNode_new_get c node data
    have hold : ∀ p, p < c.heap.length →
        ((c.new data).2.createNode node (c.new data).1).2.get p = c.get p := by
      intro p hp
      rw [createNode_get_ne _ _ _ _ (by simpa using Nat.ne_of_gt hp), get_new_old _ _ _ hp]
    refine key (fun p hp => by rw [hold p hp]) (fun x hx hx' hxt => ?_)
    by_cases hd : data.Type_ = ESTreeKind.ChainExpression
    · have hxL : (x : Nat) = c.heap.length := by
        rw [createNode_length, length_new] at hx'
        exact Nat.le_antisymm (Nat.le_of_lt_succ hx') hx
      subst hxL
      obtain ⟨e, hfe, hel, het, hP⟩ := hChain hd
      refine ⟨e, ?_, by rw [createNode_length, length_new]; exact Nat.lt_succ_of_lt hel, ?_, ?_⟩
      · unfold ESTreeNode.field
        rw [hself.2, hfe]
        rfl
      · rw [hold e hel]; exact het
      · intro y hy
        rw [hold e hel] at hy
        obtain ⟨hy0, hpar⟩ := hP hc y hy
        refine ⟨by rw [createNode_length, length_new]; exact Nat.lt_succ_of_lt hy0,
          fun hyt => ?_⟩
        rw [hold y hy0] at hyt
        refine ⟨node, ?_, ?_⟩
        · rw [createNode_es, es_new, fst_new, Function.update_same]
        · rw [createNode_sourceFile, sourceFile_new]
          exact hpar hyt
    · exact absurd hxt (fun h => no_new_chain c _ x _ (by simp) hself.1 hd hx h)
  | createMeta node data hRange hToken hLoc hTag =>
    have hself := createNode_new_get c node data
    refine key (fun p hp => ?_) (fun x hx hx' hxt => ?_)
    · rw [createNode_get_ne _ _ _ _ (by simpa using Nat.ne_of_gt hp), get_new_old _ _ _ hp]
    · exact absurd hxt (fun h => no_new_chain c _ x _ (by simp) hself.1
        (by rw [hTag]; decide) hx h)
  | typeAnnotationNode inner r =>
    refine key (fun p hp => ?_) (fun x hx hx' hxt => ?_)
    · simp only [fields_setLoc, fields_setRange]
      rw [get_new_old _ _ _ hp]
    · refine absurd hxt (fun h => no_new_chain c _ x ESTreeKind.TSTypeAnnotation (by simp) ?_
        (by decide) hx h)
      simp only [type_setLoc, type_setRange]
      have h1 := get_new_self c
        { Type_ := ESTreeKind.TSTypeAnnotation, Fields := [("TypeAnnotation", inner)] }
      rw [fst_new] at h1
      rw [h1]
  | typeParametersNode params r =>
    refine key (fun p hp => ?_) (fun x hx hx' hxt => ?_)
    · rw [get_new_old _ _ _ hp]
    · refine absurd hxt (fun h => no_new_chain c _ x ESTreeKind.TSTypeParameterDeclaration
        (by simp) ?_ (by decide) hx h)
      have h1 := get_new_self c
        { Type_ := ESTreeKind.TSTypeParameterDeclaration
          Loc := c.getLocFor r
          Range := r
          Fields := [("Params", params)] }
      rw [fst_new] at h1
      rw [h1]
  | fixParentLocation result child hChild =>
    refine key (fun p _ => by simp) (fun x hx hx' => ?_)
    simp at hx'
    omega
  | setRangeLoc p r =>
    refine key (fun p _ => by simp) (fun x hx hx' => ?_)
    simp at hx'
    omega
  | questionToken p q =>
    by_cases hq : q > (c.get p).Range.2
    · simp only [hq, if_true] at key ⊢
      refine key (fun p _ => by simp) (fun x hx hx' => ?_)
      simp at hx'
      omega
    · simp only [hq, if_false] at key ⊢
      exact hc
  | typePredicate annotated inner hInner =>
    refine key (fun p _ => by simp) (fun x hx hx' => ?_)
    simp at hx'
    omega
  | tupleMember member label hLabel =>
    refine key (fun p _ => by simp) (fun x hx hx' => ?_)
    simp at hx'
    omega
  | setProperty p name v hWrite =>
    intro x hx hxt
    rw [length_setProperty] at hx
    rw [type_setProperty] at hxt
    obtain ⟨e, he, hel, het, hP⟩ := hc x hx hxt
    rcases hWrite with hplain | ⟨hlink, hname, child, hchild, hv⟩
    · have hn1 : "Expression" ≠ name := by
        intro h
        subst h
        revert hplain
        decide
      have hn2 : chainChildField (c.get e).Type_ ≠ name := by
        intro h
        subst h
        revert hplain
        unfold chainChildField
        split_ifs <;> decide
      refine ⟨e, ?_, by simpa using hel, by simpa using het, ?_⟩
      · rw [field_setProperty_ne _ _ _ _ _ _ hn1]
        exact he
      · intro y hy
        rw [type_setProperty, field_setProperty_ne _ _ _ _ _ _ hn2] at hy
        obtain ⟨hy0, hpar⟩ := hP y hy
        exact ⟨by simpa using hy0, by simpa using hpar⟩
    · have hxp : p ≠ x := by
        intro h
        subst h
        rw [hxt] at hlink
        cases hlink
      have hgx : (c.setProperty p name v).get x = c.get x := by
        rw [get_setProperty]
        simp [hxp]
      refine ⟨e, by rw [hgx]; exact he, by simpa using hel, by simpa using het, ?_⟩
      intro y hy
      rw [type_setProperty] at hy
      by_cases hpe : p = e
      · subst hpe
        rw [get_setProperty] at hy
        simp only [hel, and_self, if_true] at hy
        rw [hname, ESTreeNode.field_setField_same] at hy
        obtain ⟨g, hg, hgl, hgt, _⟩ := hc child (c.chain_allocated child hchild) hchild
        rw [hv, hg] at hy
        injection hy with hy
        subst hy
        refine ⟨by simpa using hgl, fun hyt => ?_⟩
        rw [type_setProperty] at hyt
        rw [hyt] at hgt
        cases hgt
      · have hge : (c.setProperty p name v).get e = c.get e := by
          rw [get_setProperty]
          simp [hpe]
        rw [hge] at hy
        obtain ⟨hy0, hpar⟩ := hP y hy
        exact ⟨by simpa using hy0, by simpa using hpar⟩
  | register node result hOmitted =>
    refine key (fun p _ => by simp) (fun x hx hx' => ?_)
    simp at hx'
    omega
  | setAllowPattern b =>
    exact key (fun p _ => rfl) (fun x hx hx' => absurd hx' (not_lt.mpr hx))

/-- A link of a chain is neither of the three tags the first test of
`convertChainExpression` rejects. -/
theorem isChainLink_iff (t : ESTreeKind) :
    t.isChainLink = true ↔ ¬(t ≠ ESTreeKind.MemberExpression ∧ t ≠ ESTreeKind.CallExpression
      ∧ t ≠ ESTreeKind.TSNonNullExpression) := by
  cases t <;> decide

/-- Go `convertChainExpression` on a link of a chain whose child is a struct: what it
returns, and the converter it leaves. -/
theorem convertChainExpression_eq (c : converter) (node child : Ptr) (tsNode : ast.NodePtr)
    (hlink : (c.get node).Type_.isChainLink = true)
    (hchild : (c.get node).field (chainChildField (c.get node).Type_) = Value.node child)
    (hexp : (c.get child).Type_ = ESTreeKind.ChainExpression →
      (c.sourceFile.node tsNode).Expression ≠ none) :
    convertChainExpression node tsNode c =
      if c.chainOptional node = false ∧ c.chainUnwrappable child tsNode = false then
        Except.ok (node, c)
      else
        Except.ok (((c.chainMerged node child tsNode).new
            { Type_ := ESTreeKind.ChainExpression
              Fields := [("Expression", Value.node node)] }).2.createNode tsNode
          ((c.chainMerged node child tsNode).new
            { Type_ := ESTreeKind.ChainExpression
              Fields := [("Expression", Value.node node)] }).1) := by
  have hl := (isChainLink_iff _).mp hlink
  have hopt : (if (c.get node).Type_ = ESTreeKind.MemberExpression
        ∨ (c.get node).Type_ = ESTreeKind.CallExpression then
      (c.get node).field "Optional" == Value.bool true else false) = c.chainOptional node := by
    unfold converter.chainOptional
    by_cases hm : (c.get node).Type_ = ESTreeKind.MemberExpression
        ∨ (c.get node).Type_ = ESTreeKind.CallExpression
    · rcases hm with hm | hm <;> simp [hm]
    · simp only [hm, if_false]
      push_neg at hm
      simp [hm.1, hm.2]
  by_cases hc : (c.get child).Type_ = ESTreeKind.ChainExpression
  · cases he : (c.sourceFile.node tsNode).Expression with
    | none => exact absurd he (hexp hc)
    | some e =>
      have hu : c.chainUnwrappable child tsNode
          = ((c.sourceFile.node e).Kind != ast.Kind.ParenthesizedExpression) := by
        simp [converter.chainUnwrappable, ast.SourceFile.parenthesised, hc, he, bne]
      cases h1 : ((c.sourceFile.node e).Kind != ast.Kind.ParenthesizedExpression) <;>
      cases h2 : c.chainOptional node <;>
      simp only [convertChainExpression, nonNil, bind, StateT.bind, get, getThe,
        MonadStateOf.get, StateT.get, pure, StateT.pure, Except.pure, Except.bind, hl, if_false,
        hchild, hc, if_true, he, hopt, converter.chainMerged, hu, h1, h2, Bool.not_true,
        Bool.not_false, Bool.and_true, Bool.and_false, Bool.true_and, Bool.false_and,
        Bool.false_eq_true, and_self, and_false, false_and, reduceCtorEq] <;> rfl
  · have hu : c.chainUnwrappable child tsNode = false := by
      simp [converter.chainUnwrappable, hc]
    cases h2 : c.chainOptional node <;>
    simp only [convertChainExpression, nonNil, bind, StateT.bind, get, getThe,
      MonadStateOf.get, StateT.get, pure, StateT.pure, Except.pure, Except.bind, hl, if_false,
      hchild, hc, hopt, converter.chainMerged, hu, h2, Bool.not_true,
      Bool.not_false, Bool.and_true, Bool.and_false, Bool.true_and, Bool.false_and,
      Bool.false_eq_true, and_self, and_false, false_and, if_true, reduceCtorEq] <;> rfl

end estree

/-! ## The embedded conversion runs by steps

Each method of the embedding, run from any converter, ends in a converter that is reached
by steps of the transition system. The proofs follow the structure of the methods: a rule
for each way of composing methods, and one lemma for each method. -/

namespace estree

set_option linter.unusedTactic false
set_option linter.unreachableTactic false
set_option linter.unnecessarySeqFocus false

/-- A sequence of steps keeps the source file. -/
theorem star_sourceFile {c c' : converter} (h : Relation.ReflTransGen Step c c') :
    c'.sourceFile = c.sourceFile := by
  induction h with
  | refl => rfl
  | tail _ hs ih => exact hs.sourceFile_eq.trans ih

/-- A sequence of steps frees no struct. -/
theorem star_length {c c' : converter} (h : Relation.ReflTransGen Step c c') :
    c.heap.length ≤ c'.heap.length := by
  induction h with
  | refl => exact le_refl _
  | tail _ hs ih => exact le_trans ih hs.length_le

/-- Sequencing: the second method is run only on results the first one returns. -/
theorem runs_bind_ok {α β : Type} {sf : ast.SourceFile} {live : List Ptr} {m : M α}
    {f : α → M β} {fresh : α → List Ptr} {fresh' : β → List Ptr}
    (hm : Runs sf live m fresh)
    (hf : ∀ a, (∃ c c1, c.sourceFile = sf ∧ m c = Except.ok (a, c1)) →
      Runs sf (fresh a ++ live) (f a) fresh') :
    Runs sf live (m >>= f) fresh' := by
  unfold Runs at *
  intro c b c' hsf hlive h
  have h' : StateT.bind m f c = Except.ok (b, c') := h
  unfold StateT.bind at h'
  cases hmc : m c with
  | error e =>
    rw [hmc] at h'
    cases h'
  | ok r =>
    obtain ⟨a, c1⟩ := r
    rw [hmc] at h'
    replace h : f a c1 = Except.ok (b, c') := h'
    obtain ⟨t1, l1⟩ := hm c a c1 hsf hlive hmc
    have hlive1 : ∀ p ∈ fresh a ++ live, p < c1.heap.length := by
      intro p hp
      rcases List.mem_append.mp hp with hp | hp
      · exact l1 p hp
      · exact lt_of_lt_of_le (hlive p hp) (star_length t1)
    obtain ⟨t2, l2⟩ := hf a ⟨c, c1, hsf, hmc⟩ c1 b c' ((star_sourceFile t1).trans hsf) hlive1 h
    exact ⟨t1.trans t2, l2⟩

/-- Sequencing, the pointers of the first result kept allocated for the second method. -/
theorem runs_bind {α β : Type} {sf : ast.SourceFile} {live : List Ptr} {m : M α}
    {f : α → M β} {fresh : α → List Ptr} {fresh' : β → List Ptr}
    (hm : Runs sf live m fresh) (hf : ∀ a, Runs sf (fresh a ++ live) (f a) fresh') :
    Runs sf live (m >>= f) fresh' :=
  runs_bind_ok hm (fun a _ => hf a)

/-- A method that returns without a write. -/
theorem runs_pure {α : Type} {sf : ast.SourceFile} {live : List Ptr} (a : α) :
    Runs sf live (pure a : M α) (fun _ => []) := by
  unfold Runs at *
  intro c b c' _ _ h
  simp only [Pure.pure, StateT.pure, Except.pure] at h
  injection h with h
  injection h with _ h2
  subst h2
  exact ⟨Relation.ReflTransGen.refl, by simp⟩

/-- A panic ends no run. -/
theorem runs_throw {α : Type} {sf : ast.SourceFile} {live : List Ptr} (e : Panic)
    (fresh : α → List Ptr) :
    Runs sf live (throw e : M α) fresh := by
  unfold Runs at *
  intro c b c' _ _ h
  change (Except.error e : Except Panic (α × converter)) = Except.ok (b, c') at h
  cases h


/-- The allocated pointers of a result may be forgotten. -/
theorem runs_weaken {α : Type} {sf : ast.SourceFile} {live : List Ptr} {m : M α}
    {fresh : α → List Ptr} (h : Runs sf live m fresh) : Runs sf live m (fun _ => []) := by
  unfold Runs at *
  intro c a c' hsf hlive hm
  exact ⟨(h c a c' hsf hlive hm).1, by simp⟩

/-- Sequencing after a method whose result needs no allocated pointer. -/
theorem runs_bind0 {α β : Type} {sf : ast.SourceFile} {live : List Ptr} {m : M α}
    {f : α → M β} {fresh' : β → List Ptr}
    (hm : Runs sf live m (fun _ => [])) (hf : ∀ a, Runs sf live (f a) fresh') :
    Runs sf live (m >>= f) fresh' :=
  runs_bind hm hf

/-- Reading the converter: what is read has the source file of the run. -/
theorem runs_get {β : Type} {sf : ast.SourceFile} {live : List Ptr}
    {f : converter → M β} {fresh : β → List Ptr}
    (hf : ∀ c0 : converter, c0.sourceFile = sf → Runs sf live (f c0) fresh) :
    Runs sf live ((get : M converter) >>= f) fresh := by
  unfold Runs at *
  intro c b c' hsf hlive h
  exact hf c hsf c b c' hsf hlive h

/-- A write that is a step. -/
theorem runs_modify {sf : ast.SourceFile} {live : List Ptr} {g : converter → converter}
    (hg : ∀ c, c.sourceFile = sf → (∀ p ∈ live, p < c.heap.length) → Step c (g c)) :
    Runs sf live (modify g : M Unit) (fun _ => []) := by
  unfold Runs at *
  intro c b c' hsf hlive h
  have h' : (Except.ok ((), g c) : Except Panic (Unit × converter)) = Except.ok (b, c') := h
  injection h' with h'
  injection h' with _ h2
  subst h2
  exact ⟨Relation.ReflTransGen.single (hg c hsf hlive), by simp⟩

/-- A method that returns pointers already allocated. -/
theorem runs_pure_fresh {α : Type} {sf : ast.SourceFile} {live : List Ptr} (a : α)
    (fresh : α → List Ptr) (h : ∀ p ∈ fresh a, p ∈ live) :
    Runs sf live (pure a : M α) fresh := by
  unfold Runs at *
  intro c b c' _ hlive hm
  simp only [Pure.pure, StateT.pure, Except.pure] at hm
  injection hm with hm
  injection hm with h1 h2
  subst h1 h2
  exact ⟨Relation.ReflTransGen.refl, fun p hp => hlive p (h p hp)⟩

/-- A call of `setProperty` writes one of the four fields named at its call sites. -/
theorem PropertyWrite.plain (c : converter) (p : Ptr) (name : String) (v : Value)
    (h : name ∈ ["Decorators", "TypeAnnotation", "Directive", "Optional"]) :
    PropertyWrite c p name v :=
  Or.inl h

/-- Go `createNode` on a struct literal that sets no `Loc` and is no `ChainExpression` is
the step `create`; the pointer it returns is allocated. -/
theorem runs_createNode {sf : ast.SourceFile} {live : List Ptr} (node : ast.NodePtr)
    (data : ESTreeNode) (hLoc : data.Loc = {})
    (hTag : data.Type_.builtWithoutCreateNode = false)
    (hChain : (data.Type_ == ESTreeKind.ChainExpression) = false) :
    Runs sf live (createNode node data) (fun p => [p]) := by
  unfold Runs at *
  intro c b c' hsf hlive h
  have h' : (Except.ok ((c.new data).2.createNode node (c.new data).1) :
      Except Panic (Ptr × converter)) = Except.ok (b, c') := h
  injection h' with h'
  have h1 : ((c.new data).2.createNode node (c.new data).1).1 = b := by rw [h']
  have h2 : ((c.new data).2.createNode node (c.new data).1).2 = c' := by rw [h']
  subst h2
  refine ⟨Relation.ReflTransGen.single (Step.create c node data hLoc hTag
    (fun hd => by rw [hd] at hChain; cases hChain)), ?_⟩
  intro p hp
  simp at hp h1
  subst hp h1
  simp

/-- Go `Map` runs by steps when its callback does. -/
theorem runs_Map {α β : Type} {sf : ast.SourceFile} {live : List Ptr} (l : List α)
    (f : α → M β) (fresh : β → List Ptr) (hf : ∀ a, Runs sf live (f a) fresh) :
    Runs sf live (Map l f) (fun _ => []) := by
  induction l with
  | nil => exact runs_pure _
  | cons a l ih =>
    unfold Map
    exact runs_bind0 (runs_weaken (hf a)) (fun b => runs_bind0 ih (fun bs => runs_pure _))

/-- Go type assertion `x.(*T)`: the pointer it returns is the one asserted. -/
theorem runs_assertType {sf : ast.SourceFile} {live : List Ptr} (T : ESTreeKind)
    (x : Option Ptr) (hx : ∀ p ∈ x.toList, p ∈ live) :
    Runs sf live (assertType T x) (fun p => [p]) := by
  unfold assertType
  repeat' with_reducible first
    | exact runs_throw _ _
    | exact runs_pure_fresh _ _ (by with_unfolding_all simpa using hx)
    | refine runs_get (fun c0 hc0 => ?_)
    | refine runs_bind0 ?_ (fun _ => ?_)
    | split
    | dsimp only

theorem runs_assertNonNil {sf : ast.SourceFile} {live : List Ptr} (x : Option Ptr)
    (hx : ∀ p ∈ x.toList, p ∈ live) :
    Runs sf live (assertNonNil x) (fun p => [p]) := by
  unfold assertNonNil
  split
  · exact runs_throw _ _
  · exact runs_pure_fresh _ _ (by simpa using hx)

theorem runs_deref {sf : ast.SourceFile} {live : List Ptr} (x : Option Ptr)
    (hx : ∀ p ∈ x.toList, p ∈ live) :
    Runs sf live (deref x) (fun p => [p]) := by
  unfold deref
  split
  · exact runs_throw _ _
  · exact runs_pure_fresh _ _ (by simpa using hx)

theorem runs_kindOf {sf : ast.SourceFile} {live : List Ptr} (s : ast.SourceFile)
    (p : Option ast.NodePtr) : Runs sf live (kindOf s p) (fun _ => []) := by
  unfold kindOf
  split
  · exact runs_throw _ _
  · exact runs_pure _

theorem runs_nonNil {sf : ast.SourceFile} {live : List Ptr} (p : Option ast.NodePtr) :
    Runs sf live (nonNil p) (fun _ => []) := by
  unfold nonNil
  split
  · exact runs_throw _ _
  · exact runs_pure _

/-- Sequencing after the read of a native pointer: the method goes on only when the
pointer is not nil. -/
theorem runs_bind_nonNil {β : Type} {sf : ast.SourceFile} {live : List Ptr}
    {node : Option ast.NodePtr} {f : ast.NodePtr → M β} {fresh' : β → List Ptr}
    (hf : ∀ nd, node = some nd → Runs sf live (f nd) fresh') :
    Runs sf live (nonNil node >>= f) fresh' := by
  cases node with
  | none =>
    unfold Runs
    intro c b c' _ _ h
    cases h
  | some nd =>
    have h := hf nd rfl
    unfold Runs at *
    intro c b c' hsf hlive hm
    exact h c b c' hsf hlive hm

theorem runs_convertDecorators {sf : ast.SourceFile} {live : List Ptr} {conv : Conv}
    (hconv : GoodConv sf conv) (node : ast.NodePtr) :
    Runs sf live (convertDecorators conv node) (fun _ => []) := by
  unfold convertDecorators
  repeat' with_reducible first
    | exact runs_throw _ _
    | refine runs_get (fun c0 hc0 => ?_)
    | refine @runs_bind (Option Ptr) _ _ _ _ _ (fun r => r.toList) _ ?_ (fun _ => ?_)
    | refine @runs_bind Ptr _ _ _ _ _ (fun p => [p]) _ ?_ (fun _ => ?_)
    | refine runs_bind0 ?_ (fun _ => ?_)
    | exact hconv _ _ _ _
    | exact runs_pure_fresh _ _ (by
        intro p hp
        (try simp only [List.mem_append, List.mem_singleton, List.mem_cons,
            List.not_mem_nil, Option.mem_toList, Option.mem_def, Option.some.injEq,
            reduceCtorEq, false_or, or_false, true_or, or_true] at hp ⊢) <;> tauto)
    | exact runs_assertType _ _ (by
        intro p hp
        (try simp only [List.mem_append, List.mem_singleton, List.mem_cons,
            List.not_mem_nil, Option.mem_toList, Option.mem_def, Option.some.injEq,
            reduceCtorEq, false_or, or_false, true_or, or_true] at hp ⊢) <;> tauto)
    | refine runs_Map _ _ (fun q : Ptr => [q]) (fun _ => ?_)
    | refine runs_Map _ _ (fun r : Option Ptr => r.toList) (fun _ => ?_)
    | refine runs_Map _ _ (fun _ => []) (fun _ => ?_)
    | split
    | dsimp only

theorem runs_convertParameters {sf : ast.SourceFile} {live : List Ptr} {conv : Conv}
    (hconv : GoodConv sf conv) (parameters : Option ast.NodeList) :
    Runs sf live (convertParameters conv parameters) (fun _ => []) := by
  unfold convertParameters
  repeat' with_reducible first
    | exact runs_throw _ _
    | refine runs_get (fun c0 hc0 => ?_)
    | refine @runs_bind (Option Ptr) _ _ _ _ _ (fun r => r.toList) _ ?_ (fun _ => ?_)
    | refine @runs_bind Ptr _ _ _ _ _ (fun p => [p]) _ ?_ (fun _ => ?_)
    | refine runs_bind0 ?_ (fun _ => ?_)
    | exact hconv _ _ _ _
    | exact runs_pure_fresh _ _ (by
        intro p hp
        (try simp only [List.mem_append, List.mem_singleton, List.mem_cons,
            List.not_mem_nil, Option.mem_toList, Option.mem_def, Option.some.injEq,
            reduceCtorEq, false_or, or_false, true_or, or_true] at hp ⊢) <;> tauto)
    | exact runs_convertDecorators hconv _
    | exact runs_modify (fun c _ _ => Step.setProperty c _ _ _
        (PropertyWrite.plain _ _ _ _ (by with_unfolding_all decide)))
    | refine runs_Map _ _ (fun q : Ptr => [q]) (fun _ => ?_)
    | refine runs_Map _ _ (fun r : Option Ptr => r.toList) (fun _ => ?_)
    | refine runs_Map _ _ (fun _ => []) (fun _ => ?_)
    | split
    | dsimp only

/-- The allocation and the two writes of `convertTypeAnnotation` are one step. -/
theorem runs_typeAnnotationNode {sf : ast.SourceFile} {live : List Ptr} (inner : Value)
    (r : Range) :
    Runs sf live (do
        let result ← newNode
          { Type_ := ESTreeKind.TSTypeAnnotation, Fields := [("TypeAnnotation", inner)] }
        modify (fun c => c.setRange result r)
        modify (fun c => c.setLoc result (c.getLocFor r))
        pure (some result)) (fun r => r.toList) := by
  unfold Runs
  intro c a c' hsf hlive h
  have h' : (Except.ok (some c.heap.length,
      ((c.new { Type_ := ESTreeKind.TSTypeAnnotation
                Fields := [("TypeAnnotation", inner)] }).2.setRange c.heap.length r).setLoc
        c.heap.length
        (((c.new { Type_ := ESTreeKind.TSTypeAnnotation
                   Fields := [("TypeAnnotation", inner)] }).2.setRange c.heap.length
            r).getLocFor r)) : Except Panic (Option Ptr × converter)) = Except.ok (a, c') := h
  injection h' with h'
  injection h' with h1 h2
  subst h1 h2
  rw [converter.getLocFor_setRange, converter.getLocFor_new]
  refine ⟨Relation.ReflTransGen.single (Step.typeAnnotationNode c inner r), ?_⟩
  intro p hp
  simp at hp
  subst hp
  simp

theorem runs_annotated {sf : ast.SourceFile} {live : List Ptr} {conv : Conv}
    (hconv : GoodConv sf conv) (child parent : Option ast.NodePtr) :
    Runs sf live ( convertTypeAnnotation conv child parent) (fun r => r.toList) := by
  unfold convertTypeAnnotation
  split
  · exact runs_pure_fresh _ _ (by simp)
  · refine runs_get (fun c0 hc0 => ?_)
    refine runs_bind0 (runs_weaken (hconv _ _ _ _)) (fun inner => ?_)
    exact runs_typeAnnotationNode _ _

theorem runs_convertNodeListToChildrenT {sf : ast.SourceFile} {live : List Ptr} {conv : Conv}
    (hconv : GoodConv sf conv) (T : ESTreeKind) (list : Option ast.NodeList) :
    Runs sf live (convertNodeListToChildrenT conv T list) (fun _ => []) := by
  unfold convertNodeListToChildrenT
  repeat' with_reducible first
    | exact runs_throw _ _
    | refine runs_get (fun c0 hc0 => ?_)
    | refine @runs_bind (Option Ptr) _ _ _ _ _ (fun r => r.toList) _ ?_ (fun _ => ?_)
    | refine @runs_bind Ptr _ _ _ _ _ (fun p => [p]) _ ?_ (fun _ => ?_)
    | refine runs_bind0 ?_ (fun _ => ?_)
    | exact hconv _ _ _ _
    | exact runs_pure_fresh _ _ (by
        intro p hp
        (try simp only [List.mem_append, List.mem_singleton, List.mem_cons,
            List.not_mem_nil, Option.mem_toList, Option.mem_def, Option.some.injEq,
            reduceCtorEq, false_or, or_false, true_or, or_true] at hp ⊢) <;> tauto)
    | exact runs_assertType _ _ (by
        intro p hp
        (try simp only [List.mem_append, List.mem_singleton, List.mem_cons,
            List.not_mem_nil, Option.mem_toList, Option.mem_def, Option.some.injEq,
            reduceCtorEq, false_or, or_false, true_or, or_true] at hp ⊢) <;> tauto)
    | refine runs_Map _ _ (fun q : Ptr => [q]) (fun _ => ?_)
    | refine runs_Map _ _ (fun r : Option Ptr => r.toList) (fun _ => ?_)
    | refine runs_Map _ _ (fun _ => []) (fun _ => ?_)
    | split
    | dsimp only

theorem runs_convertNodeListToChildren {sf : ast.SourceFile} {live : List Ptr} {conv : Conv}
    (hconv : GoodConv sf conv) (list : Option ast.NodeList) :
    Runs sf live (convertNodeListToChildren conv list) (fun _ => []) := by
  unfold convertNodeListToChildren
  repeat' with_reducible first
    | exact runs_throw _ _
    | refine runs_get (fun c0 hc0 => ?_)
    | refine @runs_bind (Option Ptr) _ _ _ _ _ (fun r => r.toList) _ ?_ (fun _ => ?_)
    | refine @runs_bind Ptr _ _ _ _ _ (fun p => [p]) _ ?_ (fun _ => ?_)
    | refine runs_bind0 ?_ (fun _ => ?_)
    | exact hconv _ _ _ _
    | exact runs_pure_fresh _ _ (by
        intro p hp
        (try simp only [List.mem_append, List.mem_singleton, List.mem_cons,
            List.not_mem_nil, Option.mem_toList, Option.mem_def, Option.some.injEq,
            reduceCtorEq, false_or, or_false, true_or, or_true] at hp ⊢) <;> tauto)
    | exact runs_assertNonNil _ (by
        intro p hp
        (try simp only [List.mem_append, List.mem_singleton, List.mem_cons,
            List.not_mem_nil, Option.mem_toList, Option.mem_def, Option.some.injEq,
            reduceCtorEq, false_or, or_false, true_or, or_true] at hp ⊢) <;> tauto)
    | refine runs_Map _ _ (fun q : Ptr => [q]) (fun _ => ?_)
    | refine runs_Map _ _ (fun r : Option Ptr => r.toList) (fun _ => ?_)
    | refine runs_Map _ _ (fun _ => []) (fun _ => ?_)
    | split
    | dsimp only

theorem runs_convertNodeListToChildrenAllowPattern {sf : ast.SourceFile} {live : List Ptr} {conv : Conv}
    (hconv : GoodConv sf conv) (list : Option ast.NodeList) :
    Runs sf live (convertNodeListToChildrenAllowPattern conv list) (fun _ => []) := by
  unfold convertNodeListToChildrenAllowPattern
  repeat' with_reducible first
    | exact runs_throw _ _
    | refine runs_get (fun c0 hc0 => ?_)
    | refine @runs_bind (Option Ptr) _ _ _ _ _ (fun r => r.toList) _ ?_ (fun _ => ?_)
    | refine @runs_bind Ptr _ _ _ _ _ (fun p => [p]) _ ?_ (fun _ => ?_)
    | refine runs_bind0 ?_ (fun _ => ?_)
    | exact hconv _ _ _ _
    | exact runs_pure_fresh _ _ (by
        intro p hp
        (try simp only [List.mem_append, List.mem_singleton, List.mem_cons,
            List.not_mem_nil, Option.mem_toList, Option.mem_def, Option.some.injEq,
            reduceCtorEq, false_or, or_false, true_or, or_true] at hp ⊢) <;> tauto)
    | exact runs_assertNonNil _ (by
        intro p hp
        (try simp only [List.mem_append, List.mem_singleton, List.mem_cons,
            List.not_mem_nil, Option.mem_toList, Option.mem_def, Option.some.injEq,
            reduceCtorEq, false_or, or_false, true_or, or_true] at hp ⊢) <;> tauto)
    | refine runs_Map _ _ (fun q : Ptr => [q]) (fun _ => ?_)
    | refine runs_Map _ _ (fun r : Option Ptr => r.toList) (fun _ => ?_)
    | refine runs_Map _ _ (fun _ => []) (fun _ => ?_)
    | split
    | dsimp only

/-- The allocation of `convertTSTypeParametersToTypeParametersDeclaration` is one step. -/
theorem runs_typeParametersNode {sf : ast.SourceFile} {live : List Ptr} (c0 : converter)
    (hc0 : c0.sourceFile = sf) (params : Value) (r : Range) :
    Runs sf live (do
        let result ← newNode
          { Type_ := ESTreeKind.TSTypeParameterDeclaration
            Loc := c0.getLocFor r
            Range := r
            Fields := [("Params", params)] }
        pure (some result)) (fun r => r.toList) := by
  unfold Runs
  intro c a c' hsf hlive h
  have h' : (Except.ok (some c.heap.length,
      (c.new { Type_ := ESTreeKind.TSTypeParameterDeclaration
               Loc := c0.getLocFor r
               Range := r
               Fields := [("Params", params)] }).2) :
      Except Panic (Option Ptr × converter)) = Except.ok (a, c') := h
  injection h' with h'
  injection h' with h1 h2
  subst h1 h2
  have hloc : c0.getLocFor r = c.getLocFor r := by
    simp only [converter.getLocFor, hc0, hsf]
  rw [hloc]
  refine ⟨Relation.ReflTransGen.single (Step.typeParametersNode c params r), ?_⟩
  intro p hp
  simp at hp
  subst hp
  simp

theorem runs_convertTSTypeParameters {sf : ast.SourceFile} {live : List Ptr} {conv : Conv}
    (hconv : GoodConv sf conv) (typeParameters : Option ast.NodeList) :
    Runs sf live (convertTSTypeParametersToTypeParametersDeclaration conv typeParameters)
      (fun r => r.toList) := by
  unfold convertTSTypeParametersToTypeParametersDeclaration
  split
  · exact runs_pure_fresh _ _ (by simp)
  · refine runs_get (fun c0 hc0 => ?_)
    refine runs_bind0 (runs_convertNodeListToChildrenT hconv _ _) (fun params => ?_)
    exact runs_typeParametersNode c0 hc0 _ _

theorem runs_convertChildT {sf : ast.SourceFile} {live : List Ptr} {conv : Conv}
    (hconv : GoodConv sf conv) (T : ESTreeKind) (child parent : Option ast.NodePtr) :
    Runs sf live (convertChildT conv T child parent) (fun r => r.toList) := by
  unfold convertChildT
  repeat' with_reducible first
    | exact runs_throw _ _
    | refine runs_get (fun c0 hc0 => ?_)
    | refine @runs_bind (Option Ptr) _ _ _ _ _ (fun r => r.toList) _ ?_ (fun _ => ?_)
    | refine @runs_bind Ptr _ _ _ _ _ (fun p => [p]) _ ?_ (fun _ => ?_)
    | refine runs_bind0 ?_ (fun _ => ?_)
    | exact hconv _ _ _ _
    | exact runs_pure_fresh _ _ (by
        intro p hp
        (try simp only [List.mem_append, List.mem_singleton, List.mem_cons,
            List.not_mem_nil, Option.mem_toList, Option.mem_def, Option.some.injEq,
            reduceCtorEq, false_or, or_false, true_or, or_true] at hp ⊢) <;> tauto)
    | split
    | dsimp only

theorem runs_bindingName {sf : ast.SourceFile} {live : List Ptr} {conv : Conv}
    (hconv : GoodConv sf conv) (name tsType parent : Option ast.NodePtr) :
    Runs sf live ( convertBindingNameWithTypeAnnotation conv name tsType parent)
      (fun r => r.toList) := by
  unfold convertBindingNameWithTypeAnnotation
  repeat' with_reducible first
    | exact runs_throw _ _
    | refine runs_get (fun c0 hc0 => ?_)
    | refine @runs_bind (Option Ptr) _ _ _ _ _ (fun r => r.toList) _ ?_ (fun _ => ?_)
    | refine @runs_bind Ptr _ _ _ _ _ (fun p => [p]) _ ?_ (fun _ => ?_)
    | refine runs_bind0 ?_ (fun _ => ?_)
    | exact hconv _ _ _ _
    | exact runs_pure_fresh _ _ (by
        intro p hp
        (try simp only [List.mem_append, List.mem_singleton, List.mem_cons,
            List.not_mem_nil, Option.mem_toList, Option.mem_def, Option.some.injEq,
            reduceCtorEq, false_or, or_false, true_or, or_true] at hp ⊢) <;> tauto)
    | exact runs_annotated hconv _ _
    | exact runs_modify (fun c _ hl => Step.fixParentLocation c _ _
        (hl _ (by
        (try simp only [List.mem_append, List.mem_singleton, List.mem_cons,
            List.not_mem_nil, Option.mem_toList, Option.mem_def, Option.some.injEq,
            reduceCtorEq, false_or, or_false, true_or, or_true]) <;> tauto)))
    | exact runs_modify (fun c _ _ => Step.setProperty c _ _ _
        (PropertyWrite.plain _ _ _ _ (by with_unfolding_all decide)))
    | split
    | dsimp only

theorem runs_convertBodyStatement {sf : ast.SourceFile} {live : List Ptr} {conv : Conv}
    (hconv : GoodConv sf conv) (allowDirectives : Bool) (statement : ast.NodePtr) :
    Runs sf live (convertBodyStatement conv allowDirectives statement) (fun _ => []) := by
  unfold convertBodyStatement
  repeat' with_reducible first
    | exact runs_throw _ _
    | refine runs_get (fun c0 hc0 => ?_)
    | refine @runs_bind (Option Ptr) _ _ _ _ _ (fun r => r.toList) _ ?_ (fun _ => ?_)
    | refine @runs_bind Ptr _ _ _ _ _ (fun p => [p]) _ ?_ (fun _ => ?_)
    | refine runs_bind0 ?_ (fun _ => ?_)
    | exact hconv _ _ _ _
    | exact runs_pure_fresh _ _ (by
        intro p hp
        (try simp only [List.mem_append, List.mem_singleton, List.mem_cons,
            List.not_mem_nil, Option.mem_toList, Option.mem_def, Option.some.injEq,
            reduceCtorEq, false_or, or_false, true_or, or_true] at hp ⊢) <;> tauto)
    | exact runs_modify (fun c _ _ => Step.setProperty c _ _ _
        (PropertyWrite.plain _ _ _ _ (by with_unfolding_all decide)))
    | split
    | dsimp only

theorem runs_convertBodyStatements {sf : ast.SourceFile} {live : List Ptr} {conv : Conv}
    (hconv : GoodConv sf conv) (allowDirectives : Bool) (statements : List ast.NodePtr) :
    Runs sf live (convertBodyStatements conv allowDirectives statements) (fun _ => []) := by
  induction statements generalizing allowDirectives with
  | nil => exact runs_pure _
  | cons statement rest ih =>
    unfold convertBodyStatements
    exact runs_bind0 (runs_convertBodyStatement hconv _ _)
      (fun r => runs_bind0 (ih r.2) (fun rs => runs_pure _))

theorem runs_convertBodyExpressions {sf : ast.SourceFile} {live : List Ptr} {conv : Conv}
    (hconv : GoodConv sf conv) (nodes : Option ast.NodeList) (parent : ast.NodePtr) :
    Runs sf live (convertBodyExpressions conv nodes parent) (fun _ => []) := by
  unfold convertBodyExpressions
  repeat' with_reducible first
    | exact runs_throw _ _
    | refine runs_get (fun c0 hc0 => ?_)
    | refine @runs_bind (Option Ptr) _ _ _ _ _ (fun r => r.toList) _ ?_ (fun _ => ?_)
    | refine @runs_bind Ptr _ _ _ _ _ (fun p => [p]) _ ?_ (fun _ => ?_)
    | refine runs_bind0 ?_ (fun _ => ?_)
    | exact hconv _ _ _ _
    | exact runs_pure_fresh _ _ (by
        intro p hp
        (try simp only [List.mem_append, List.mem_singleton, List.mem_cons,
            List.not_mem_nil, Option.mem_toList, Option.mem_def, Option.some.injEq,
            reduceCtorEq, false_or, or_false, true_or, or_true] at hp ⊢) <;> tauto)
    | exact runs_convertBodyStatements hconv _ _
    | split
    | dsimp only

theorem runs_convertTypeArguments {sf : ast.SourceFile} {live : List Ptr} {conv : Conv}
    (hconv : GoodConv sf conv) (typeArguments : Option ast.NodeList) (node : ast.NodePtr) :
    Runs sf live (convertTypeArgumentsToTypeParameterInstantiation conv typeArguments node)
      (fun r => r.toList) := by
  unfold convertTypeArgumentsToTypeParameterInstantiation
  repeat' with_reducible first
    | exact runs_throw _ _
    | refine runs_get (fun c0 hc0 => ?_)
    | refine @runs_bind (Option Ptr) _ _ _ _ _ (fun r => r.toList) _ ?_ (fun _ => ?_)
    | refine @runs_bind Ptr _ _ _ _ _ (fun p => [p]) _ ?_ (fun _ => ?_)
    | refine runs_bind0 ?_ (fun _ => ?_)
    | exact hconv _ _ _ _
    | exact runs_pure_fresh _ _ (by
        intro p hp
        (try simp only [List.mem_append, List.mem_singleton, List.mem_cons,
            List.not_mem_nil, Option.mem_toList, Option.mem_def, Option.some.injEq,
            reduceCtorEq, false_or, or_false, true_or, or_true] at hp ⊢) <;> tauto)
    | (refine runs_createNode _ _ ?_ ?_ ?_ <;>
        with_unfolding_all first | rfl | (dsimp only; split <;> rfl))
    | exact runs_convertNodeListToChildren hconv _
    | split
    | dsimp only

/-- The writes of `fixExports` on an exported declaration are four steps. -/
theorem wrap_trace (c : converter) (node : ast.NodePtr) (result : Ptr) (R : Range)
    (W : ESTreeNode) (hk : (c.sourceFile.node node).Kind ≠ ast.Kind.OmittedExpression)
    (hLoc : W.Loc = {}) (hTag : W.Type_.builtWithoutCreateNode = false)
    (hChain : W.Type_ ≠ ESTreeKind.ChainExpression) :
    Relation.ReflTransGen Step c
      (((((c.registerTSNodeInNodeMap node (some result)).setRange result R).setLoc result
          (c.getLocFor R)).new W).2.createNode node
        (c.registerTSNodeInNodeMap node (some result)).heap.length).2 := by
  have s1 := Step.register c node (some result) (fun h => absurd h hk)
  have s2 := Step.setRangeLoc (c.registerTSNodeInNodeMap node (some result)) result R
  rw [converter.getLocFor_register] at s2
  have s3 := Step.create
    (((c.registerTSNodeInNodeMap node (some result)).setRange result R).setLoc result
      (c.getLocFor R)) node W hLoc hTag (fun h => absurd h hChain)
  rw [converter.fst_new] at s3
  simp only [converter.length_setLoc, converter.length_setRange] at s3
  exact ((Relation.ReflTransGen.single s1).tail s2).tail s3

/-- The wrapper that `fixExports` allocates is allocated in the converter it ends with. -/
theorem wrap_allocated (c : converter) (node : ast.NodePtr) (result : Ptr) (R : Range)
    (L : SourceLocation) (W : ESTreeNode) (a : Ptr) (c' : converter)
    (h : ((((c.registerTSNodeInNodeMap node (some result)).setRange result R).setLoc result
          L).new W).2.createNode node
        (c.registerTSNodeInNodeMap node (some result)).heap.length = (a, c')) :
    a < c'.heap.length := by
  have h1 := congrArg Prod.fst h
  have h2 := congrArg Prod.snd h
  dsimp only at h1 h2
  rw [← h1, ← h2]
  simp

/-- Go `fixExports` on a node that is no omitted expression runs by steps, and the struct
it returns is allocated. -/
theorem runs_fixExports {sf : ast.SourceFile} {live : List Ptr} (node : ast.NodePtr)
    (result : Ptr) (hk : (sf.node node).Kind ≠ ast.Kind.OmittedExpression)
    (hres : result ∈ live) :
    Runs sf live (fixExports node result) (fun p => [p]) := by
  unfold Runs
  intro c a c' hsf hlive h
  suffices hs : Relation.ReflTransGen Step c c' ∧ a < c'.heap.length by
    refine ⟨hs.1, ?_⟩
    intro p hp
    simp at hp
    subst hp
    exact hs.2
  subst hsf
  replace h : c.fixExports node result = Except.ok (a, c') := h
  cases hmods : fixExportsModifiers c.sourceFile node with
  | error e =>
    unfold converter.fixExports at h
    rw [hmods] at h
    cases h
  | ok modifiers =>
    cases hl : modifiers.getD [] with
    | nil =>
      unfold converter.fixExports at h
      rw [hmods] at h
      simp only [hl] at h
      injection h with h
      injection h with h1 h2
      subst h1 h2
      exact ⟨Relation.ReflTransGen.refl, hlive _ hres⟩
    | cons exportKeyword rest =>
      have hsome : modifiers = some (exportKeyword :: rest) := by
        cases modifiers with
        | none => simp at hl
        | some l => simpa using hl
      subst hsome
      by_cases hexp : (c.sourceFile.node exportKeyword).Kind = ast.Kind.ExportKeyword
      · cases rest with
        | nil =>
          rw [converter.fixExports_named c node result exportKeyword [] hmods hexp
            (by intro m r hm; cases hm)] at h
          injection h with h
          refine ⟨?_, wrap_allocated _ _ _ _ _ _ _ _ h⟩
          have h2 := congrArg Prod.snd h
          dsimp only at h2
          rw [← h2]
          exact wrap_trace c node result _ _ hk rfl rfl (fun h => by cases h)
        | cons m rest' =>
          by_cases hdef : (c.sourceFile.node m).Kind = ast.Kind.DefaultKeyword
          · rw [converter.fixExports_default c node result exportKeyword m rest' hmods hexp
              hdef] at h
            injection h with h
            refine ⟨?_, wrap_allocated _ _ _ _ _ _ _ _ h⟩
            have h2 := congrArg Prod.snd h
            dsimp only at h2
            rw [← h2]
            exact wrap_trace c node result _ _ hk rfl rfl (fun h => by cases h)
          · rw [converter.fixExports_named c node result exportKeyword (m :: rest') hmods hexp
              (by intro m1 r hm; injection hm with h1 _; subst h1; exact hdef)] at h
            injection h with h
            refine ⟨?_, wrap_allocated _ _ _ _ _ _ _ _ h⟩
            have h2 := congrArg Prod.snd h
            dsimp only at h2
            rw [← h2]
            exact wrap_trace c node result _ _ hk rfl rfl (fun h => by cases h)
      · unfold converter.fixExports at h
        rw [hmods] at h
        simp [hexp] at h
        rw [← h.1, ← h.2]
        exact ⟨Relation.ReflTransGen.refl, hlive _ hres⟩

theorem runs_convertMethodSignature {sf : ast.SourceFile} {live : List Ptr} {conv : Conv}
    (hconv : GoodConv sf conv) (node : ast.NodePtr) :
    Runs sf live (convertMethodSignature conv node) (fun r => r.toList) := by
  unfold convertMethodSignature
  repeat' with_reducible first
    | exact runs_throw _ _
    | refine runs_get (fun c0 hc0 => ?_)
    | refine @runs_bind (Option Ptr) _ _ _ _ _ (fun r => r.toList) _ ?_ (fun _ => ?_)
    | refine @runs_bind Ptr _ _ _ _ _ (fun p => [p]) _ ?_ (fun _ => ?_)
    | refine runs_bind0 ?_ (fun _ => ?_)
    | exact hconv _ _ _ _
    | exact runs_pure_fresh _ _ (by
        intro p hp
        (try simp only [List.mem_append, List.mem_singleton, List.mem_cons,
            List.not_mem_nil, Option.mem_toList, Option.mem_def, Option.some.injEq,
            reduceCtorEq, false_or, or_false, true_or, or_true] at hp ⊢) <;> tauto)
    | (refine runs_createNode _ _ ?_ ?_ ?_ <;>
        with_unfolding_all first | rfl | (dsimp only; split <;> rfl))
    | exact runs_convertParameters hconv _
    | exact runs_annotated hconv _ _
    | exact runs_convertTSTypeParameters hconv _
    | exact runs_kindOf _ _
    | split
    | dsimp only

theorem runs_convertParameter {sf : ast.SourceFile} {live : List Ptr} {conv : Conv}
    (hconv : GoodConv sf conv) (node : ast.NodePtr) (parent : Option ast.NodePtr) :
    Runs sf live (convertParameter conv node parent) (fun r => r.toList) := by
  unfold convertParameter
  repeat' with_reducible first
    | exact runs_throw _ _
    | refine runs_get (fun c0 hc0 => ?_)
    | refine @runs_bind (Option Ptr) _ _ _ _ _ (fun r => r.toList) _ ?_ (fun _ => ?_)
    | refine @runs_bind Ptr _ _ _ _ _ (fun p => [p]) _ ?_ (fun _ => ?_)
    | refine @runs_bind (Option Ptr × Option Ptr) _ _ _ _ _
        (fun r => r.1.toList ++ r.2.toList) _ ?_ (fun _ => ?_)
    | refine runs_bind0 ?_ (fun _ => ?_)
    | exact hconv _ _ _ _
    | exact runs_pure_fresh _ _ (by
        intro p hp
        (try simp only [List.mem_append, List.mem_singleton, List.mem_cons,
            List.not_mem_nil, Option.mem_toList, Option.mem_def, Option.some.injEq,
            reduceCtorEq, false_or, or_false, true_or, or_true] at hp ⊢) <;> tauto)
    | (refine runs_createNode _ _ ?_ ?_ ?_ <;>
        with_unfolding_all first | rfl | (dsimp only; split <;> rfl))
    | exact runs_annotated hconv _ _
    | exact runs_modify (fun c _ _ => Step.setRangeLoc c _ _)
    | exact runs_modify (fun c _ _ => Step.questionToken c _ _)
    | exact runs_modify (fun c _ hl => Step.fixParentLocation c _ _
        (hl _ (by
        (try simp only [List.mem_append, List.mem_singleton, List.mem_cons,
            List.not_mem_nil, Option.mem_toList, Option.mem_def, Option.some.injEq,
            reduceCtorEq, false_or, or_false, true_or, or_true]) <;> tauto)))
    | exact runs_modify (fun c _ _ => Step.setProperty c _ _ _
        (PropertyWrite.plain _ _ _ _ (by with_unfolding_all decide)))
    | exact runs_deref _ (by
        intro p hp
        (try simp only [List.mem_append, List.mem_singleton, List.mem_cons,
            List.not_mem_nil, Option.mem_toList, Option.mem_def, Option.some.injEq,
            reduceCtorEq, false_or, or_false, true_or, or_true] at hp ⊢) <;> tauto)
    | split
    | dsimp only

theorem runs_convertFunctionDeclaration {sf : ast.SourceFile} {live : List Ptr} {conv : Conv}
    (hconv : GoodConv sf conv) (node : ast.NodePtr)
    (hk : (sf.node node).Kind ≠ ast.Kind.OmittedExpression) :
    Runs sf live (convertFunctionDeclaration conv node) (fun r => r.toList) := by
  unfold convertFunctionDeclaration
  repeat' with_reducible first
    | exact runs_throw _ _
    | refine runs_get (fun c0 hc0 => ?_)
    | refine @runs_bind (Option Ptr) _ _ _ _ _ (fun r => r.toList) _ ?_ (fun _ => ?_)
    | refine @runs_bind Ptr _ _ _ _ _ (fun p => [p]) _ ?_ (fun _ => ?_)
    | refine runs_bind0 ?_ (fun _ => ?_)
    | exact hconv _ _ _ _
    | exact runs_pure_fresh _ _ (by
        intro p hp
        (try simp only [List.mem_append, List.mem_singleton, List.mem_cons,
            List.not_mem_nil, Option.mem_toList, Option.mem_def, Option.some.injEq,
            reduceCtorEq, false_or, or_false, true_or, or_true] at hp ⊢) <;> tauto)
    | (refine runs_createNode _ _ ?_ ?_ ?_ <;>
        with_unfolding_all first | rfl | (dsimp only; split <;> rfl))
    | exact runs_convertChildT hconv _ _ _
    | exact runs_convertParameters hconv _
    | exact runs_annotated hconv _ _
    | exact runs_convertTSTypeParameters hconv _
    | exact runs_fixExports _ _ hk (by
        (try simp only [List.mem_append, List.mem_singleton, List.mem_cons,
            List.not_mem_nil, Option.mem_toList, Option.mem_def, Option.some.injEq,
            reduceCtorEq, false_or, or_false, true_or, or_true]) <;> tauto)
    | exact runs_assertType _ _ (by
        intro p hp
        (try simp only [List.mem_append, List.mem_singleton, List.mem_cons,
            List.not_mem_nil, Option.mem_toList, Option.mem_def, Option.some.injEq,
            reduceCtorEq, false_or, or_false, true_or, or_true] at hp ⊢) <;> tauto)
    | split
    | dsimp only

theorem runs_convertTypeAliasDeclaration {sf : ast.SourceFile} {live : List Ptr} {conv : Conv}
    (hconv : GoodConv sf conv) (node : ast.NodePtr)
    (hk : (sf.node node).Kind ≠ ast.Kind.OmittedExpression) :
    Runs sf live (convertTypeAliasDeclaration conv node) (fun r => r.toList) := by
  unfold convertTypeAliasDeclaration
  repeat' with_reducible first
    | exact runs_throw _ _
    | refine runs_get (fun c0 hc0 => ?_)
    | refine @runs_bind (Option Ptr) _ _ _ _ _ (fun r => r.toList) _ ?_ (fun _ => ?_)
    | refine @runs_bind Ptr _ _ _ _ _ (fun p => [p]) _ ?_ (fun _ => ?_)
    | refine runs_bind0 ?_ (fun _ => ?_)
    | exact hconv _ _ _ _
    | exact runs_pure_fresh _ _ (by
        intro p hp
        (try simp only [List.mem_append, List.mem_singleton, List.mem_cons,
            List.not_mem_nil, Option.mem_toList, Option.mem_def, Option.some.injEq,
            reduceCtorEq, false_or, or_false, true_or, or_true] at hp ⊢) <;> tauto)
    | (refine runs_createNode _ _ ?_ ?_ ?_ <;>
        with_unfolding_all first | rfl | (dsimp only; split <;> rfl))
    | exact runs_convertTSTypeParameters hconv _
    | exact runs_fixExports _ _ hk (by
        (try simp only [List.mem_append, List.mem_singleton, List.mem_cons,
            List.not_mem_nil, Option.mem_toList, Option.mem_def, Option.some.injEq,
            reduceCtorEq, false_or, or_false, true_or, or_true]) <;> tauto)
    | exact runs_assertType _ _ (by
        intro p hp
        (try simp only [List.mem_append, List.mem_singleton, List.mem_cons,
            List.not_mem_nil, Option.mem_toList, Option.mem_def, Option.some.injEq,
            reduceCtorEq, false_or, or_false, true_or, or_true] at hp ⊢) <;> tauto)
    | split
    | dsimp only

theorem runs_convertInterfaceDeclaration {sf : ast.SourceFile} {live : List Ptr} {conv : Conv}
    (hconv : GoodConv sf conv) (node : ast.NodePtr)
    (hk : (sf.node node).Kind ≠ ast.Kind.OmittedExpression) :
    Runs sf live (convertInterfaceDeclaration conv node) (fun r => r.toList) := by
  unfold convertInterfaceDeclaration
  repeat' with_reducible first
    | exact runs_throw _ _
    | refine runs_get (fun c0 hc0 => ?_)
    | refine @runs_bind (Option Ptr) _ _ _ _ _ (fun r => r.toList) _ ?_ (fun _ => ?_)
    | refine @runs_bind Ptr _ _ _ _ _ (fun p => [p]) _ ?_ (fun _ => ?_)
    | refine runs_bind0 ?_ (fun _ => ?_)
    | exact hconv _ _ _ _
    | exact runs_pure_fresh _ _ (by
        intro p hp
        (try simp only [List.mem_append, List.mem_singleton, List.mem_cons,
            List.not_mem_nil, Option.mem_toList, Option.mem_def, Option.some.injEq,
            reduceCtorEq, false_or, or_false, true_or, or_true] at hp ⊢) <;> tauto)
    | (refine runs_createNode _ _ ?_ ?_ ?_ <;>
        with_unfolding_all first | rfl | (dsimp only; split <;> rfl))
    | exact runs_convertNodeListToChildren hconv _
    | exact runs_convertTSTypeParameters hconv _
    | exact runs_fixExports _ _ hk (by
        (try simp only [List.mem_append, List.mem_singleton, List.mem_cons,
            List.not_mem_nil, Option.mem_toList, Option.mem_def, Option.some.injEq,
            reduceCtorEq, false_or, or_false, true_or, or_true]) <;> tauto)
    | exact runs_assertType _ _ (by
        intro p hp
        (try simp only [List.mem_append, List.mem_singleton, List.mem_cons,
            List.not_mem_nil, Option.mem_toList, Option.mem_def, Option.some.injEq,
            reduceCtorEq, false_or, or_false, true_or, or_true] at hp ⊢) <;> tauto)
    | refine runs_Map _ _ (fun q : Ptr => [q]) (fun _ => ?_)
    | refine runs_Map _ _ (fun r : Option Ptr => r.toList) (fun _ => ?_)
    | refine runs_Map _ _ (fun _ => []) (fun _ => ?_)
    | split
    | dsimp only

theorem runs_convertClass {sf : ast.SourceFile} {live : List Ptr} {conv : Conv}
    (hconv : GoodConv sf conv) (node : ast.NodePtr)
    (hk : (sf.node node).Kind ≠ ast.Kind.OmittedExpression) :
    Runs sf live (convertClass conv node) (fun r => r.toList) := by
  unfold convertClass
  repeat' with_reducible first
    | exact runs_throw _ _
    | refine runs_get (fun c0 hc0 => ?_)
    | refine @runs_bind (Option Ptr) _ _ _ _ _ (fun r => r.toList) _ ?_ (fun _ => ?_)
    | refine @runs_bind Ptr _ _ _ _ _ (fun p => [p]) _ ?_ (fun _ => ?_)
    | refine @runs_bind (Option Ptr × Option Ptr) _ _ _ _ _
        (fun r => r.1.toList ++ r.2.toList) _ ?_ (fun _ => ?_)
    | refine runs_bind0 ?_ (fun _ => ?_)
    | exact hconv _ _ _ _
    | exact runs_pure_fresh _ _ (by
        intro p hp
        (try simp only [List.mem_append, List.mem_singleton, List.mem_cons,
            List.not_mem_nil, Option.mem_toList, Option.mem_def, Option.some.injEq,
            reduceCtorEq, false_or, or_false, true_or, or_true] at hp ⊢) <;> tauto)
    | (refine runs_createNode _ _ ?_ ?_ ?_ <;>
        with_unfolding_all first | rfl | (dsimp only; split <;> rfl))
    | exact runs_convertDecorators hconv _
    | exact runs_convertNodeListToChildrenT hconv _ _
    | exact runs_convertTypeArguments hconv _ _
    | exact runs_convertTSTypeParameters hconv _
    | exact runs_fixExports _ _ hk (by
        (try simp only [List.mem_append, List.mem_singleton, List.mem_cons,
            List.not_mem_nil, Option.mem_toList, Option.mem_def, Option.some.injEq,
            reduceCtorEq, false_or, or_false, true_or, or_true]) <;> tauto)
    | refine runs_Map _ _ (fun q : Ptr => [q]) (fun _ => ?_)
    | refine runs_Map _ _ (fun r : Option Ptr => r.toList) (fun _ => ?_)
    | refine runs_Map _ _ (fun _ => []) (fun _ => ?_)
    | split
    | dsimp only

theorem runs_convertMethod {sf : ast.SourceFile} {live : List Ptr} {conv : Conv}
    (hconv : GoodConv sf conv) (node : ast.NodePtr) (parent : Option ast.NodePtr) :
    Runs sf live (convertMethod conv node parent) (fun r => r.toList) := by
  unfold convertMethod
  repeat' with_reducible first
    | exact runs_throw _ _
    | refine runs_get (fun c0 hc0 => ?_)
    | refine @runs_bind (Option Ptr) _ _ _ _ _ (fun r => r.toList) _ ?_ (fun _ => ?_)
    | refine @runs_bind Ptr _ _ _ _ _ (fun p => [p]) _ ?_ (fun _ => ?_)
    | refine runs_bind0 ?_ (fun _ => ?_)
    | exact hconv _ _ _ _
    | exact runs_pure_fresh _ _ (by
        intro p hp
        (try simp only [List.mem_append, List.mem_singleton, List.mem_cons,
            List.not_mem_nil, Option.mem_toList, Option.mem_def, Option.some.injEq,
            reduceCtorEq, false_or, or_false, true_or, or_true] at hp ⊢) <;> tauto)
    | (refine runs_createNode _ _ ?_ ?_ ?_ <;>
        with_unfolding_all first | rfl | (dsimp only; split <;> rfl))
    | exact runs_convertDecorators hconv _
    | exact runs_convertParameters hconv _
    | exact runs_convertNodeListToChildren hconv _
    | exact runs_annotated hconv _ _
    | exact runs_convertTSTypeParameters hconv _
    | exact runs_modify (fun c _ hl => Step.fixParentLocation c _ _
        (hl _ (by
        (try simp only [List.mem_append, List.mem_singleton, List.mem_cons,
            List.not_mem_nil, Option.mem_toList, Option.mem_def, Option.some.injEq,
            reduceCtorEq, false_or, or_false, true_or, or_true]) <;> tauto)))
    | exact runs_assertType _ _ (by
        intro p hp
        (try simp only [List.mem_append, List.mem_singleton, List.mem_cons,
            List.not_mem_nil, Option.mem_toList, Option.mem_def, Option.some.injEq,
            reduceCtorEq, false_or, or_false, true_or, or_true] at hp ⊢) <;> tauto)
    | exact runs_kindOf _ _
    | split
    | dsimp only

/-- Go `convertChainExpression` panics where the object, callee or expression is nil. -/
theorem convertChainExpression_nil (c : converter) (node : Ptr) (tsNode : ast.NodePtr)
    (hchild : (c.get node).field (chainChildField (c.get node).Type_) = Value.null)
    (r : Ptr) (c' : converter) :
    convertChainExpression node tsNode c ≠ Except.ok (r, c') := by
  intro h
  simp only [convertChainExpression, bind, StateT.bind, get, getThe, MonadStateOf.get,
    StateT.get, Except.bind, pure, StateT.pure, Except.pure, hchild] at h
  split_ifs at h <;> cases h

/-- Go `convertChainExpression` panics where it reads the kind of a nil sub-expression. -/
theorem convertChainExpression_noExpression (c : converter) (node child : Ptr)
    (tsNode : ast.NodePtr)
    (hchild : (c.get node).field (chainChildField (c.get node).Type_) = Value.node child)
    (hc : (c.get child).Type_ = ESTreeKind.ChainExpression)
    (he : (c.sourceFile.node tsNode).Expression = none) (r : Ptr) (c' : converter) :
    convertChainExpression node tsNode c ≠ Except.ok (r, c') := by
  intro h
  simp only [convertChainExpression, nonNil, bind, StateT.bind, get, getThe,
    MonadStateOf.get, StateT.get, Except.bind, pure, StateT.pure, Except.pure, hchild, hc,
    if_true, he] at h
  split_ifs at h <;> cases h

/-- A run that starts with `createNode` goes on in the converter `createNode` leaves. -/
theorem createNode_bind_run {β : Type} (node : ast.NodePtr) (data : ESTreeNode)
    (f : Ptr → M β) (c : converter) :
    (createNode node data >>= f) c
      = f c.heap.length ((c.new data).2.createNode node (c.new data).1).2 := rfl

/-- A run that ends by returning the pointer a method returns. -/
theorem bind_pure_some_run (m : M Ptr) (c : converter) (a : Option Ptr) (c' : converter)
    (h : (m >>= fun p => pure (some p)) c = Except.ok (a, c')) :
    ∃ p, m c = Except.ok (p, c') ∧ a = some p := by
  have h' : StateT.bind m (fun p => pure (some p)) c = Except.ok (a, c') := h
  unfold StateT.bind at h'
  cases hm : m c with
  | error e =>
    rw [hm] at h'
    cases h'
  | ok r =>
    obtain ⟨p, c1⟩ := r
    rw [hm] at h'
    have h2 : (Except.ok (some p, c1) : Except Panic (Option Ptr × converter))
        = Except.ok (a, c') := h'
    injection h2 with h2
    injection h2 with h3 h4
    subst h3 h4
    exact ⟨p, rfl, rfl⟩

/-- The struct literal of a link and the call of `convertChainExpression` on it (lines
2017-2025, 2030-2038, 2056-2067, 2396-2401) run by steps: the converted child the literal
holds is allocated, and the `ChainExpression` is built as `ChainWrap` says. -/
theorem runs_chainLink {sf : ast.SourceFile} {live : List Ptr} (node : ast.NodePtr)
    (data : ESTreeNode) (o : Option Ptr) (hLoc : data.Loc = {})
    (hLink : data.Type_.isChainLink = true)
    (hChild : data.field (chainChildField data.Type_) = Value.ofOption o)
    (ho : ∀ p ∈ o.toList, p ∈ live) :
    Runs sf live (do
        let result ← createNode node data
        let chain ← convertChainExpression result node
        pure (some chain)) (fun r => r.toList) := by
  unfold Runs
  intro c a c' hsf hlive h
  have hTag : data.Type_.builtWithoutCreateNode = false := by
    revert hLink
    cases data.Type_ <;> decide
  have hNoChain : data.Type_ ≠ ESTreeKind.ChainExpression := by
    intro hd
    rw [hd] at hLink
    cases hLink
  have s1 := Step.create c node data hLoc hTag (fun hd => absurd hd hNoChain)
  obtain ⟨hty, hfs⟩ := converter.createNode_new_get c node data
  have hold : ∀ p, p < c.heap.length →
      ((c.new data).2.createNode node (c.new data).1).2.get p = c.get p := by
    intro p hp
    rw [converter.createNode_get_ne _ _ _ _ (by simpa using Nat.ne_of_gt hp),
      converter.get_new_old _ _ _ hp]
  have hlen : ((c.new data).2.createNode node (c.new data).1).2.heap.length
      = c.heap.length + 1 := by simp
  generalize hc1 : ((c.new data).2.createNode node (c.new data).1).2 = c1 at s1 hty hfs hold hlen
  have hfield : ∀ name, (c1.get c.heap.length).field name = data.field name := by
    intro name
    unfold ESTreeNode.field
    rw [hfs]
  rw [createNode_bind_run, hc1] at h
  obtain ⟨r, hr, ha⟩ := bind_pure_some_run _ _ _ _ h
  subst ha
  clear h
  have hlink1 : (c1.get c.heap.length).Type_.isChainLink = true := by rw [hty]; exact hLink
  have hchild1 : (c1.get c.heap.length).field (chainChildField (c1.get c.heap.length).Type_)
      = Value.ofOption o := by rw [hty, hfield, hChild]
  cases o with
  | none => exact absurd hr (convertChainExpression_nil c1 _ node hchild1 r c')
  | some y =>
    have hy : y < c.heap.length := hlive y (ho y (by simp))
    have hy1 : y < c1.heap.length := by rw [hlen]; exact Nat.lt_succ_of_lt hy
    have hyL : c.heap.length ≠ y := Nat.ne_of_gt hy
    have hchild2 : (c1.get c.heap.length).field
        (chainChildField (c1.get c.heap.length).Type_) = Value.node y := hchild1
    by_cases hexp : (c1.get y).Type_ = ESTreeKind.ChainExpression
        ∧ (c1.sourceFile.node node).Expression = none
    · exact absurd hr
        (convertChainExpression_noExpression c1 _ y node hchild2 hexp.1 hexp.2 r c')
    · rw [convertChainExpression_eq c1 _ y node hlink1 hchild2
        (fun hc he => hexp ⟨hc, he⟩)] at hr
      split_ifs at hr with hkeep
      · injection hr with hr
        injection hr with h1 h2
        subst h1 h2
        refine ⟨Relation.ReflTransGen.single s1, ?_⟩
        intro p hp
        simp at hp
        subst hp
        rw [hlen]
        exact Nat.lt_succ_self _
      · injection hr with hr
        have h1 := congrArg Prod.fst hr
        have h2 := congrArg Prod.snd hr
        dsimp only at h1 h2
        have hm : Relation.ReflTransGen Step c1 (c1.chainMerged c.heap.length y node)
            ∧ ChainWrap (c1.chainMerged c.heap.length y node) node
                { Type_ := ESTreeKind.ChainExpression
                  Fields := [("Expression", Value.node c.heap.length)] } := by
          unfold converter.chainMerged
          by_cases hu : c1.chainUnwrappable y node = true
          · have hyc : (c1.get y).Type_ = ESTreeKind.ChainExpression := by
              unfold converter.chainUnwrappable at hu
              simp only [Bool.and_eq_true, beq_iff_eq] at hu
              exact hu.1
            rw [if_pos hu]
            refine ⟨Relation.ReflTransGen.single (Step.setProperty c1 _ _ _
              (Or.inr ⟨hlink1, rfl, y, hyc, rfl⟩)), c.heap.length, rfl, ?_, ?_, ?_⟩
            · rw [converter.length_setProperty, hlen]
              exact Nat.lt_succ_self _
            · rw [converter.type_setProperty]
              exact hlink1
            · intro hok y' hy'
              rw [converter.type_setProperty, converter.get_setProperty] at hy'
              simp only [hlen, Nat.lt_succ_self, and_self, if_true] at hy'
              rw [ESTreeNode.field_setField_same] at hy'
              obtain ⟨g, hg, hgl, hgt, _⟩ := hok y
                (by rw [converter.length_setProperty]; exact hy1)
                (by rw [converter.type_setProperty]; exact hyc)
              rw [converter.get_setProperty] at hg
              simp only [hyL, false_and, if_false] at hg
              rw [hg] at hy'
              injection hy' with hy'
              subst hy'
              refine ⟨hgl, fun hgc => ?_⟩
              rw [hgc] at hgt
              cases hgt
          · rw [if_neg hu]
            refine ⟨Relation.ReflTransGen.refl, c.heap.length, rfl, ?_, hlink1, ?_⟩
            · rw [hlen]
              exact Nat.lt_succ_self _
            · intro _ y' hy'
              rw [hchild2] at hy'
              injection hy' with hy'
              subst hy'
              refine ⟨hy1, fun hyc => ?_⟩
              unfold converter.chainUnwrappable at hu
              simpa [hyc] using hu
        have s3 := Step.create (c1.chainMerged c.heap.length y node) node
          { Type_ := ESTreeKind.ChainExpression
            Fields := [("Expression", Value.node c.heap.length)] } rfl rfl (fun _ => hm.2)
        rw [h2] at s3
        refine ⟨((Relation.ReflTransGen.single s1).trans hm.1).tail s3, ?_⟩
        intro p hp
        simp at hp
        subst hp
        rw [← h1, ← h2]
        simp


theorem runs_convertPropertyAccessExpression {sf : ast.SourceFile} {live : List Ptr}
    {conv : Conv} (hconv : GoodConv sf conv) (node : ast.NodePtr) :
    Runs sf live (convertPropertyAccessExpression conv node) (fun r => r.toList) := by
  unfold convertPropertyAccessExpression
  refine runs_get (fun c0 hc0 => ?_)
  dsimp only
  refine runs_bind (hconv _ _ _ _) (fun object => ?_)
  refine runs_bind (hconv _ _ _ _) (fun property => ?_)
  exact runs_chainLink node _ object rfl rfl rfl
    (fun p hp => List.mem_append_right _ (List.mem_append_left _ hp))

theorem runs_convertElementAccessExpression {sf : ast.SourceFile} {live : List Ptr}
    {conv : Conv} (hconv : GoodConv sf conv) (node : ast.NodePtr) :
    Runs sf live (convertElementAccessExpression conv node) (fun r => r.toList) := by
  unfold convertElementAccessExpression
  refine runs_get (fun c0 hc0 => ?_)
  dsimp only
  refine runs_bind (hconv _ _ _ _) (fun object => ?_)
  refine runs_bind (hconv _ _ _ _) (fun property => ?_)
  exact runs_chainLink node _ object rfl rfl rfl
    (fun p hp => List.mem_append_right _ (List.mem_append_left _ hp))

theorem runs_convertNonNullExpression {sf : ast.SourceFile} {live : List Ptr}
    {conv : Conv} (hconv : GoodConv sf conv) (node : ast.NodePtr) :
    Runs sf live (convertNonNullExpression conv node) (fun r => r.toList) := by
  unfold convertNonNullExpression
  refine runs_get (fun c0 hc0 => ?_)
  dsimp only
  refine runs_bind (hconv _ _ _ _) (fun expression => ?_)
  exact runs_chainLink node _ expression rfl rfl rfl (fun p hp => List.mem_append_left _ hp)

theorem runs_convertCallExpression {sf : ast.SourceFile} {live : List Ptr}
    {conv : Conv} (hconv : GoodConv sf conv) (node : ast.NodePtr) :
    Runs sf live (convertCallExpression conv node) (fun r => r.toList) := by
  unfold convertCallExpression
  refine runs_get (fun c0 hc0 => ?_)
  dsimp only
  refine runs_bind_nonNil (fun expression _ => ?_)
  split
  · repeat' with_reducible first
      | exact runs_throw _ _
      | refine runs_get (fun c0 hc0 => ?_)
      | refine @runs_bind (Option Ptr) _ _ _ _ _ (fun r => r.toList) _ ?_ (fun _ => ?_)
      | refine @runs_bind Ptr _ _ _ _ _ (fun p => [p]) _ ?_ (fun _ => ?_)
      | refine @runs_bind (Option Ptr × Option Ptr) _ _ _ _ _
          (fun r => r.1.toList ++ r.2.toList) _ ?_ (fun _ => ?_)
      | refine runs_bind0 ?_ (fun _ => ?_)
      | exact hconv _ _ _ _
      | exact runs_pure_fresh _ _ (by
          intro p hp
          (try simp only [List.mem_append, List.mem_singleton, List.mem_cons,
              List.not_mem_nil, Option.mem_toList, Option.mem_def, Option.some.injEq,
              reduceCtorEq, false_or, or_false, true_or, or_true] at hp ⊢) <;> tauto)
      | (refine runs_createNode _ _ ?_ ?_ ?_ <;>
          with_unfolding_all first | rfl | (dsimp only; split <;> rfl))
      | split
      | dsimp only
  · refine runs_bind0 (runs_convertNodeListToChildren hconv _) (fun arguments => ?_)
    refine runs_bind (hconv _ _ _ _) (fun callee => ?_)
    refine runs_bind (runs_convertTypeArguments hconv _ _) (fun typeArguments => ?_)
    exact runs_chainLink node _ callee rfl rfl rfl
      (fun p hp => List.mem_append_right _ (List.mem_append_left _ hp))

theorem runs_convertBinaryExpression {sf : ast.SourceFile} {live : List Ptr} {conv : Conv}
    (hconv : GoodConv sf conv) (node : ast.NodePtr) :
    Runs sf live (convertBinaryExpression conv node) (fun r => r.toList) := by
  unfold convertBinaryExpression
  repeat' with_reducible first
    | exact runs_throw _ _
    | refine runs_get (fun c0 hc0 => ?_)
    | refine @runs_bind (Option Ptr) _ _ _ _ _ (fun r => r.toList) _ ?_ (fun _ => ?_)
    | refine @runs_bind Ptr _ _ _ _ _ (fun p => [p]) _ ?_ (fun _ => ?_)
    | refine runs_bind0 ?_ (fun _ => ?_)
    | exact hconv _ _ _ _
    | exact runs_pure_fresh _ _ (by
        intro p hp
        (try simp only [List.mem_append, List.mem_singleton, List.mem_cons,
            List.not_mem_nil, Option.mem_toList, Option.mem_def, Option.some.injEq,
            reduceCtorEq, false_or, or_false, true_or, or_true] at hp ⊢) <;> tauto)
    | (refine runs_createNode _ _ ?_ ?_ ?_ <;>
        with_unfolding_all first | rfl | (dsimp only; split <;> rfl))
    | exact runs_deref _ (by
        intro p hp
        (try simp only [List.mem_append, List.mem_singleton, List.mem_cons,
            List.not_mem_nil, Option.mem_toList, Option.mem_def, Option.some.injEq,
            reduceCtorEq, false_or, or_false, true_or, or_true] at hp ⊢) <;> tauto)
    | exact runs_kindOf _ _
    | split
    | dsimp only

theorem runs_convertObjectLiteralExpression {sf : ast.SourceFile} {live : List Ptr} {conv : Conv}
    (hconv : GoodConv sf conv) (node : ast.NodePtr) :
    Runs sf live (convertObjectLiteralExpression conv node) (fun r => r.toList) := by
  unfold convertObjectLiteralExpression
  repeat' with_reducible first
    | exact runs_throw _ _
    | refine runs_get (fun c0 hc0 => ?_)
    | refine @runs_bind (Option Ptr) _ _ _ _ _ (fun r => r.toList) _ ?_ (fun _ => ?_)
    | refine @runs_bind Ptr _ _ _ _ _ (fun p => [p]) _ ?_ (fun _ => ?_)
    | refine runs_bind0 ?_ (fun _ => ?_)
    | exact hconv _ _ _ _
    | exact runs_pure_fresh _ _ (by
        intro p hp
        (try simp only [List.mem_append, List.mem_singleton, List.mem_cons,
            List.not_mem_nil, Option.mem_toList, Option.mem_def, Option.some.injEq,
            reduceCtorEq, false_or, or_false, true_or, or_true] at hp ⊢) <;> tauto)
    | (refine runs_createNode _ _ ?_ ?_ ?_ <;>
        with_unfolding_all first | rfl | (dsimp only; split <;> rfl))
    | exact runs_convertNodeListToChildren hconv _
    | exact runs_convertNodeListToChildrenAllowPattern hconv _
    | split
    | dsimp only

theorem runs_convertPropertyAssignment {sf : ast.SourceFile} {live : List Ptr} {conv : Conv}
    (hconv : GoodConv sf conv) (node : ast.NodePtr) :
    Runs sf live (convertPropertyAssignment conv node) (fun r => r.toList) := by
  unfold convertPropertyAssignment
  repeat' with_reducible first
    | exact runs_throw _ _
    | refine runs_get (fun c0 hc0 => ?_)
    | refine @runs_bind (Option Ptr) _ _ _ _ _ (fun r => r.toList) _ ?_ (fun _ => ?_)
    | refine @runs_bind Ptr _ _ _ _ _ (fun p => [p]) _ ?_ (fun _ => ?_)
    | refine runs_bind0 ?_ (fun _ => ?_)
    | exact hconv _ _ _ _
    | exact runs_pure_fresh _ _ (by
        intro p hp
        (try simp only [List.mem_append, List.mem_singleton, List.mem_cons,
            List.not_mem_nil, Option.mem_toList, Option.mem_def, Option.some.injEq,
            reduceCtorEq, false_or, or_false, true_or, or_true] at hp ⊢) <;> tauto)
    | (refine runs_createNode _ _ ?_ ?_ ?_ <;>
        with_unfolding_all first | rfl | (dsimp only; split <;> rfl))
    | exact runs_kindOf _ _
    | split
    | dsimp only

theorem runs_convertShorthandPropertyAssignment {sf : ast.SourceFile} {live : List Ptr} {conv : Conv}
    (hconv : GoodConv sf conv) (node : ast.NodePtr) :
    Runs sf live (convertShorthandPropertyAssignment conv node) (fun r => r.toList) := by
  unfold convertShorthandPropertyAssignment
  repeat' with_reducible first
    | exact runs_throw _ _
    | refine runs_get (fun c0 hc0 => ?_)
    | refine @runs_bind (Option Ptr) _ _ _ _ _ (fun r => r.toList) _ ?_ (fun _ => ?_)
    | refine @runs_bind Ptr _ _ _ _ _ (fun p => [p]) _ ?_ (fun _ => ?_)
    | refine runs_bind0 ?_ (fun _ => ?_)
    | exact hconv _ _ _ _
    | exact runs_pure_fresh _ _ (by
        intro p hp
        (try simp only [List.mem_append, List.mem_singleton, List.mem_cons,
            List.not_mem_nil, Option.mem_toList, Option.mem_def, Option.some.injEq,
            reduceCtorEq, false_or, or_false, true_or, or_true] at hp ⊢) <;> tauto)
    | (refine runs_createNode _ _ ?_ ?_ ?_ <;>
        with_unfolding_all first | rfl | (dsimp only; split <;> rfl))
    | split
    | dsimp only

/-- The loop of case `KindModuleDeclaration` runs by steps. -/
theorem runs_unravelModuleDeclarations {sf : ast.SourceFile} {live : List Ptr} (fuel : Nat)
    (n : ast.NodePtr) (isDeclare : Bool) (nameRes : Ptr) :
    Runs sf live (unravelModuleDeclarations fuel n isDeclare nameRes) (fun _ => []) := by
  induction fuel generalizing live n isDeclare nameRes with
  | zero => exact runs_throw _ _
  | succ fuel ih =>
    unfold unravelModuleDeclarations
    repeat' with_reducible first
      | exact runs_throw _ _
      | refine runs_get (fun c0 hc0 => ?_)
      | refine @runs_bind (Option Ptr) _ _ _ _ _ (fun r => r.toList) _ ?_ (fun _ => ?_)
      | refine @runs_bind Ptr _ _ _ _ _ (fun p => [p]) _ ?_ (fun _ => ?_)
      | refine runs_bind0 ?_ (fun _ => ?_)
      | exact runs_pure_fresh _ _ (by
          intro p hp
          (try simp only [List.mem_append, List.mem_singleton, List.mem_cons,
              List.not_mem_nil, Option.mem_toList, Option.mem_def, Option.some.injEq,
              reduceCtorEq, false_or, or_false, true_or, or_true] at hp ⊢) <;> tauto)
      | (refine runs_createNode _ _ ?_ ?_ ?_ <;>
          with_unfolding_all first | rfl | (dsimp only; split <;> rfl))
      | exact ih _ _ _
      | split
      | dsimp only

theorem runs_convertModuleDeclaration {sf : ast.SourceFile} {live : List Ptr} {conv : Conv}
    (hconv : GoodConv sf conv) (node : ast.NodePtr)
    (hk : (sf.node node).Kind ≠ ast.Kind.OmittedExpression) :
    Runs sf live (convertModuleDeclaration conv node) (fun r => r.toList) := by
  unfold convertModuleDeclaration
  repeat' with_reducible first
    | exact runs_throw _ _
    | refine runs_get (fun c0 hc0 => ?_)
    | refine runs_bind_nonNil (fun _ _ => ?_)
    | refine @runs_bind (Option Ptr) _ _ _ _ _ (fun r => r.toList) _ ?_ (fun _ => ?_)
    | refine @runs_bind Ptr _ _ _ _ _ (fun p => [p]) _ ?_ (fun _ => ?_)
    | refine runs_bind0 ?_ (fun _ => ?_)
    | exact hconv _ _ _ _
    | exact runs_pure_fresh _ _ (by
        intro p hp
        (try simp only [List.mem_append, List.mem_singleton, List.mem_cons,
            List.not_mem_nil, Option.mem_toList, Option.mem_def, Option.some.injEq,
            reduceCtorEq, false_or, or_false, true_or, or_true] at hp ⊢) <;> tauto)
    | (refine runs_createNode _ _ ?_ ?_ ?_ <;>
        with_unfolding_all first | rfl | (dsimp only; split <;> rfl))
    | exact runs_convertChildT hconv _ _ _
    | exact runs_unravelModuleDeclarations _ _ _ _
    | exact runs_fixExports _ _ hk (by
        (try simp only [List.mem_append, List.mem_singleton, List.mem_cons,
            List.not_mem_nil, Option.mem_toList, Option.mem_def, Option.some.injEq,
            reduceCtorEq, false_or, or_false, true_or, or_true]) <;> tauto)
    | exact runs_kindOf _ _
    | split
    | dsimp only

/-- A tag name is no omitted expression in a source file whose JSX names are as the parser
builds them. -/
theorem jsxNamesOk_tagName (sf : ast.SourceFile) (h : sf.jsxNamesOk = true) (n x : ast.NodePtr)
    (hx : (sf.node n).TagName = some x) :
    (sf.node x).Kind ≠ ast.Kind.OmittedExpression := by
  by_cases hn : n < sf.Nodes.length
  · unfold ast.SourceFile.jsxNamesOk at h
    rw [List.all_eq_true] at h
    have h1 := h (sf.node n) (by
      unfold ast.SourceFile.node
      rw [List.getD_eq_getElem _ _ hn]
      exact List.getElem_mem _)
    rw [List.all_eq_true] at h1
    have h2 := h1 x (by simp [hx])
    simpa using h2
  · unfold ast.SourceFile.node at hx
    rw [List.getD_eq_default _ _ (not_lt.mp hn)] at hx
    cases hx

/-- The accessed expression and the name of a property access are no omitted expressions
in a source file whose JSX names are as the parser builds them. -/
theorem jsxNamesOk_access (sf : ast.SourceFile) (h : sf.jsxNamesOk = true) (n x : ast.NodePtr)
    (hk : (sf.node n).Kind = ast.Kind.PropertyAccessExpression)
    (hx : (sf.node n).Expression = some x ∨ (sf.node n).Name = some x) :
    (sf.node x).Kind ≠ ast.Kind.OmittedExpression := by
  by_cases hn : n < sf.Nodes.length
  · unfold ast.SourceFile.jsxNamesOk at h
    rw [List.all_eq_true] at h
    have h1 := h (sf.node n) (by
      unfold ast.SourceFile.node
      rw [List.getD_eq_getElem _ _ hn]
      exact List.getElem_mem _)
    rw [List.all_eq_true] at h1
    have h2 := h1 x (by
      rcases hx with hx | hx
      · simp [hk, hx]
      · simp [hk, hx])
    simpa using h2
  · unfold ast.SourceFile.node at hk
    rw [List.getD_eq_default _ _ (not_lt.mp hn)] at hk
    cases hk

/-- Go `convertJSXIdentifier` on a node that is no omitted expression runs by steps. -/
theorem runs_convertJSXIdentifier {sf : ast.SourceFile} {live : List Ptr}
    (node : Option ast.NodePtr)
    (hnode : ∀ x, node = some x → (sf.node x).Kind ≠ ast.Kind.OmittedExpression) :
    Runs sf live (convertJSXIdentifier node) (fun p => [p]) := by
  unfold convertJSXIdentifier
  refine runs_get (fun c0 hc0 => ?_)
  dsimp only
  refine runs_bind_nonNil (fun nd hnd => ?_)
  refine @runs_bind Ptr _ _ _ _ _ (fun p => [p]) _ (runs_createNode _ _ rfl rfl rfl)
    (fun result => ?_)
  refine runs_bind0 (runs_modify (fun c hc _ => Step.register c _ _
    (fun h => absurd (hc ▸ h) (hnode nd hnd)))) (fun _ => ?_)
  exact runs_pure_fresh _ _ (by simp)

/-- Go `convertJSXNamespaceOrIdentifier` on a node that is no omitted expression runs by
steps. -/
theorem runs_convertJSXNamespaceOrIdentifier {sf : ast.SourceFile} {live : List Ptr}
    (node : Option ast.NodePtr)
    (hnode : ∀ x, node = some x → (sf.node x).Kind ≠ ast.Kind.OmittedExpression) :
    Runs sf live (convertJSXNamespaceOrIdentifier node) (fun p => [p]) := by
  unfold convertJSXNamespaceOrIdentifier
  refine runs_get (fun c0 hc0 => ?_)
  dsimp only
  refine runs_bind_nonNil (fun nd hnd => ?_)
  split
  · refine runs_bind_nonNil (fun name _ => ?_)
    refine @runs_bind Ptr _ _ _ _ _ (fun p => [p]) _ (runs_createNode _ _ rfl rfl rfl)
      (fun nameRes => ?_)
    refine runs_bind_nonNil (fun ns _ => ?_)
    refine @runs_bind Ptr _ _ _ _ _ (fun p => [p]) _ (runs_createNode _ _ rfl rfl rfl)
      (fun namespaceRes => ?_)
    refine @runs_bind Ptr _ _ _ _ _ (fun p => [p]) _ (runs_createNode _ _ rfl rfl rfl)
      (fun result => ?_)
    refine runs_bind0 (runs_modify (fun c hc _ => Step.register c _ _
      (fun h => absurd (hc ▸ h) (hnode nd hnd)))) (fun _ => ?_)
    exact runs_pure_fresh _ _ (by simp)
  · exact runs_convertJSXIdentifier node hnode

/-- Go `convertJSXTagName` on a node that is no omitted expression runs by steps. -/
theorem runs_convertJSXTagName {sf : ast.SourceFile} {live : List Ptr}
    (hwf : sf.jsxNamesOk = true) (fuel : Nat) (node : Option ast.NodePtr)
    (parent : ast.NodePtr)
    (hnode : ∀ x, node = some x → (sf.node x).Kind ≠ ast.Kind.OmittedExpression) :
    Runs sf live (convertJSXTagName fuel node parent) (fun p => [p]) := by
  induction fuel generalizing live node with
  | zero => exact runs_throw _ _
  | succ fuel ih =>
    unfold convertJSXTagName
    refine runs_get (fun c0 hc0 => ?_)
    dsimp only
    refine runs_bind_nonNil (fun nd hnd => ?_)
    subst hc0
    split
    · rename_i hk
      refine @runs_bind Ptr _ _ _ _ _ (fun p => [p]) _
        (ih _ (fun x hx => jsxNamesOk_access _ hwf nd x hk (Or.inl hx))) (fun object => ?_)
      refine @runs_bind Ptr _ _ _ _ _ (fun p => [p]) _
        (runs_convertJSXIdentifier _
          (fun x hx => jsxNamesOk_access _ hwf nd x hk (Or.inr hx))) (fun property => ?_)
      refine @runs_bind Ptr _ _ _ _ _ (fun p => [p]) _ (runs_createNode _ _ rfl rfl rfl)
        (fun result => ?_)
      refine runs_bind0 (runs_modify (fun c hc _ => Step.register c _ _
        (fun h => absurd (hc ▸ h) (hnode nd hnd)))) (fun _ => ?_)
      exact runs_pure_fresh _ _ (by simp)
    · exact runs_convertJSXNamespaceOrIdentifier node hnode

theorem runs_convertJsxOpening {sf : ast.SourceFile} {live : List Ptr} {conv : Conv}
    (hconv : GoodConv sf conv) (node : ast.NodePtr) (selfClosing : Bool)
    (hwf : sf.jsxNamesOk = true) :
    Runs sf live (convertJsxOpening conv node selfClosing) (fun p => [p]) := by
  unfold convertJsxOpening
  repeat' with_reducible first
    | exact runs_throw _ _
    | refine runs_get (fun c0 hc0 => ?_)
    | refine runs_bind_nonNil (fun _ _ => ?_)
    | refine @runs_bind (Option Ptr) _ _ _ _ _ (fun r => r.toList) _ ?_ (fun _ => ?_)
    | refine @runs_bind Ptr _ _ _ _ _ (fun p => [p]) _ ?_ (fun _ => ?_)
    | refine runs_bind0 ?_ (fun _ => ?_)
    | exact hconv _ _ _ _
    | exact runs_pure_fresh _ _ (by
        intro p hp
        (try simp only [List.mem_append, List.mem_singleton, List.mem_cons,
            List.not_mem_nil, Option.mem_toList, Option.mem_def, Option.some.injEq,
            reduceCtorEq, false_or, or_false, true_or, or_true] at hp ⊢) <;> tauto)
    | (refine runs_createNode _ _ ?_ ?_ ?_ <;>
        with_unfolding_all first | rfl | (dsimp only; split <;> rfl))
    | exact runs_convertJSXTagName hwf _ _ _
        (fun x hx => jsxNamesOk_tagName _ hwf _ x (by subst hc0; exact hx))
    | exact runs_convertNodeListToChildren hconv _
    | exact runs_convertTypeArguments hconv _ _
    | split
    | dsimp only

theorem runs_convertJsxSelfClosingElement {sf : ast.SourceFile} {live : List Ptr} {conv : Conv}
    (hconv : GoodConv sf conv) (node : ast.NodePtr)
    (hwf : sf.jsxNamesOk = true) :
    Runs sf live (convertJsxSelfClosingElement conv node) (fun r => r.toList) := by
  unfold convertJsxSelfClosingElement
  repeat' with_reducible first
    | exact runs_throw _ _
    | refine runs_get (fun c0 hc0 => ?_)
    | refine @runs_bind (Option Ptr) _ _ _ _ _ (fun r => r.toList) _ ?_ (fun _ => ?_)
    | refine @runs_bind Ptr _ _ _ _ _ (fun p => [p]) _ ?_ (fun _ => ?_)
    | refine runs_bind0 ?_ (fun _ => ?_)
    | exact hconv _ _ _ _
    | exact runs_pure_fresh _ _ (by
        intro p hp
        (try simp only [List.mem_append, List.mem_singleton, List.mem_cons,
            List.not_mem_nil, Option.mem_toList, Option.mem_def, Option.some.injEq,
            reduceCtorEq, false_or, or_false, true_or, or_true] at hp ⊢) <;> tauto)
    | (refine runs_createNode _ _ ?_ ?_ ?_ <;>
        with_unfolding_all first | rfl | (dsimp only; split <;> rfl))
    | exact runs_convertJsxOpening hconv _ _ hwf
    | split
    | dsimp only

theorem runs_convertJsxOpeningElement {sf : ast.SourceFile} {live : List Ptr} {conv : Conv}
    (hconv : GoodConv sf conv) (node : ast.NodePtr)
    (hwf : sf.jsxNamesOk = true) :
    Runs sf live (convertJsxOpeningElement conv node) (fun r => r.toList) := by
  unfold convertJsxOpeningElement
  repeat' with_reducible first
    | exact runs_throw _ _
    | refine runs_get (fun c0 hc0 => ?_)
    | refine @runs_bind (Option Ptr) _ _ _ _ _ (fun r => r.toList) _ ?_ (fun _ => ?_)
    | refine @runs_bind Ptr _ _ _ _ _ (fun p => [p]) _ ?_ (fun _ => ?_)
    | refine runs_bind0 ?_ (fun _ => ?_)
    | exact hconv _ _ _ _
    | exact runs_pure_fresh _ _ (by
        intro p hp
        (try simp only [List.mem_append, List.mem_singleton, List.mem_cons,
            List.not_mem_nil, Option.mem_toList, Option.mem_def, Option.some.injEq,
            reduceCtorEq, false_or, or_false, true_or, or_true] at hp ⊢) <;> tauto)
    | exact runs_convertJsxOpening hconv _ _ hwf
    | split
    | dsimp only

theorem runs_convertJsxClosingElement {sf : ast.SourceFile} {live : List Ptr}
    (node : ast.NodePtr)
    (hwf : sf.jsxNamesOk = true) :
    Runs sf live (convertJsxClosingElement node) (fun r => r.toList) := by
  unfold convertJsxClosingElement
  repeat' with_reducible first
    | exact runs_throw _ _
    | refine runs_get (fun c0 hc0 => ?_)
    | refine @runs_bind (Option Ptr) _ _ _ _ _ (fun r => r.toList) _ ?_ (fun _ => ?_)
    | refine @runs_bind Ptr _ _ _ _ _ (fun p => [p]) _ ?_ (fun _ => ?_)
    | refine runs_bind0 ?_ (fun _ => ?_)
    | exact runs_pure_fresh _ _ (by
        intro p hp
        (try simp only [List.mem_append, List.mem_singleton, List.mem_cons,
            List.not_mem_nil, Option.mem_toList, Option.mem_def, Option.some.injEq,
            reduceCtorEq, false_or, or_false, true_or, or_true] at hp ⊢) <;> tauto)
    | (refine runs_createNode _ _ ?_ ?_ ?_ <;>
        with_unfolding_all first | rfl | (dsimp only; split <;> rfl))
    | exact runs_convertJSXTagName hwf _ _ _
        (fun x hx => jsxNamesOk_tagName _ hwf _ x (by subst hc0; exact hx))
    | split
    | dsimp only

theorem runs_convertJsxElement {sf : ast.SourceFile} {live : List Ptr} {conv : Conv}
    (hconv : GoodConv sf conv) (node : ast.NodePtr) :
    Runs sf live (convertJsxElement conv node) (fun r => r.toList) := by
  unfold convertJsxElement
  repeat' with_reducible first
    | exact runs_throw _ _
    | refine runs_get (fun c0 hc0 => ?_)
    | refine @runs_bind (Option Ptr) _ _ _ _ _ (fun r => r.toList) _ ?_ (fun _ => ?_)
    | refine @runs_bind Ptr _ _ _ _ _ (fun p => [p]) _ ?_ (fun _ => ?_)
    | refine runs_bind0 ?_ (fun _ => ?_)
    | exact hconv _ _ _ _
    | exact runs_pure_fresh _ _ (by
        intro p hp
        (try simp only [List.mem_append, List.mem_singleton, List.mem_cons,
            List.not_mem_nil, Option.mem_toList, Option.mem_def, Option.some.injEq,
            reduceCtorEq, false_or, or_false, true_or, or_true] at hp ⊢) <;> tauto)
    | (refine runs_createNode _ _ ?_ ?_ ?_ <;>
        with_unfolding_all first | rfl | (dsimp only; split <;> rfl))
    | exact runs_convertNodeListToChildren hconv _
    | exact runs_assertType _ _ (by
        intro p hp
        (try simp only [List.mem_append, List.mem_singleton, List.mem_cons,
            List.not_mem_nil, Option.mem_toList, Option.mem_def, Option.some.injEq,
            reduceCtorEq, false_or, or_false, true_or, or_true] at hp ⊢) <;> tauto)
    | split
    | dsimp only

theorem converter.range_setLoc (c : converter) (p q : Ptr) (l : SourceLocation) :
    ((c.setLoc p l).get q).Range = (c.get q).Range := by
  rw [converter.get_setLoc]
  split_ifs with h
  · rw [← h.1]
  · rfl

/-- The fix for type guards of case `KindTypePredicate` runs by steps: the annotated type
it reads is the one `convertTypeAnnotation` stored, which `c.converter` allocated. -/
theorem runs_typePredicateAnnotation {sf : ast.SourceFile} {live : List Ptr} {conv : Conv}
    (hconv : GoodConv sf conv) (child parent : Option ast.NodePtr) :
    Runs sf live (do
        let annotation ← deref (← convertTypeAnnotation conv child parent)
        let c ← get
        match (c.get annotation).field "TypeAnnotation" with
        | Value.node inner => do
          modify (fun c => c.setLoc annotation (c.get inner).Loc)
          modify (fun c => c.setRange annotation (c.get inner).Range)
          pure (some annotation)
        | _ => throw Panic.typeAssertion) (fun r => r.toList) := by
  cases child with
  | none =>
    unfold Runs
    intro c a c' _ _ h
    cases h
  | some ch =>
    have hc := hconv live (some ch) none false
    unfold Runs at *
    intro c a c' hsf hlive h
    cases hcv : conv (some ch) none false c with
    | error e =>
      simp only [ convertTypeAnnotation, bind, StateT.bind, get, getThe, MonadStateOf.get,
        StateT.get, pure, StateT.pure, Except.pure, Except.bind, hcv] at h
      cases h
    | ok r =>
      obtain ⟨inner, c1⟩ := r
      obtain ⟨t1, v1⟩ := hc c inner c1 hsf hlive hcv
      simp only [ convertTypeAnnotation, deref, newNode, bind, StateT.bind, get, getThe,
        MonadStateOf.get, StateT.get, modify, modifyGet, MonadStateOf.modifyGet,
        StateT.modifyGet, pure, StateT.pure, Except.pure, Except.bind, hcv,
        converter.fst_new, converter.field_setLoc, converter.field_setRange] at h
      rw [converter.getLocFor_setRange, converter.getLocFor_new] at h
      generalize ((c.sourceFile.node ch).Pos - _, (c.sourceFile.node ch).End) = R at h
      have hself := converter.get_new_self c1
        { Type_ := ESTreeKind.TSTypeAnnotation
          Fields := [("TypeAnnotation", Value.ofOption inner)] }
      rw [converter.fst_new] at hself
      rw [hself] at h
      have s1 := Step.typeAnnotationNode c1 (Value.ofOption inner) R
      cases inner with
      | none => cases h
      | some i =>
        have hi : i < c1.heap.length := v1 i (by simp)
        replace h : (Except.ok (some c1.heap.length,
            ((((c1.new { Type_ := ESTreeKind.TSTypeAnnotation
                         Fields := [("TypeAnnotation", Value.ofOption (some i))]
                         }).2.setRange c1.heap.length R).setLoc c1.heap.length
                (c1.getLocFor R)).setLoc c1.heap.length
              ((((c1.new { Type_ := ESTreeKind.TSTypeAnnotation
                           Fields := [("TypeAnnotation", Value.ofOption (some i))]
                           }).2.setRange c1.heap.length R).setLoc c1.heap.length
                (c1.getLocFor R)).get i).Loc).setRange c1.heap.length
              (((((c1.new { Type_ := ESTreeKind.TSTypeAnnotation
                            Fields := [("TypeAnnotation", Value.ofOption (some i))]
                            }).2.setRange c1.heap.length R).setLoc c1.heap.length
                  (c1.getLocFor R)).setLoc c1.heap.length
                ((((c1.new { Type_ := ESTreeKind.TSTypeAnnotation
                             Fields := [("TypeAnnotation", Value.ofOption (some i))]
                             }).2.setRange c1.heap.length R).setLoc c1.heap.length
                  (c1.getLocFor R)).get i).Loc).get i).Range) :
            Except Panic (Option Ptr × converter)) = Except.ok (a, c') := h
        rw [converter.range_setLoc] at h
        injection h with h
        injection h with h1 h2
        subst h1 h2
        have s2 := Step.typePredicate _ c1.heap.length i
          (lt_of_lt_of_le hi (Step.length_le s1))
        refine ⟨(t1.tail s1).tail s2, ?_⟩
        intro p hp
        simp at hp
        subst hp
        simp


theorem runs_convertTypePredicate {sf : ast.SourceFile} {live : List Ptr} {conv : Conv}
    (hconv : GoodConv sf conv) (node : ast.NodePtr) :
    Runs sf live (convertTypePredicate conv node)
      (fun r => r.toList) := by
  unfold convertTypePredicate
  refine runs_get (fun c0 hc0 => ?_)
  dsimp only
  refine @runs_bind (Option Ptr) _ _ _ _ _ (fun r => r.toList) _ ?_ (fun _ => ?_)
  · split
    · exact runs_pure_fresh _ _ (by simp)
    · exact runs_typePredicateAnnotation hconv _ _
  repeat' with_reducible first
    | exact runs_throw _ _
    | refine runs_get (fun c0 hc0 => ?_)
    | refine @runs_bind (Option Ptr) _ _ _ _ _ (fun r => r.toList) _ ?_ (fun _ => ?_)
    | refine @runs_bind Ptr _ _ _ _ _ (fun p => [p]) _ ?_ (fun _ => ?_)
    | refine runs_bind0 ?_ (fun _ => ?_)
    | exact hconv _ _ _ _
    | exact runs_pure_fresh _ _ (by
        intro p hp
        (try simp only [List.mem_append, List.mem_singleton, List.mem_cons,
            List.not_mem_nil, Option.mem_toList, Option.mem_def, Option.some.injEq,
            reduceCtorEq, false_or, or_false, true_or, or_true] at hp ⊢) <;> tauto)
    | (refine runs_createNode _ _ ?_ ?_ ?_ <;>
        with_unfolding_all first | rfl | (dsimp only; split <;> rfl))
    | exact runs_deref _ (by
        intro p hp
        (try simp only [List.mem_append, List.mem_singleton, List.mem_cons,
            List.not_mem_nil, Option.mem_toList, Option.mem_def, Option.some.injEq,
            reduceCtorEq, false_or, or_false, true_or, or_true] at hp ⊢) <;> tauto)
    | split
    | dsimp only

/-- A keyword type is no `ChainExpression`. -/
theorem keywordType_chain (kind : ast.Kind) (tag : ESTreeKind)
    (h : keywordType kind = some tag) : (tag == ESTreeKind.ChainExpression) = false := by
  unfold keywordType at h
  split at h <;> first
    | (injection h with h; subst h; rfl)
    | cases h

/-- A keyword type is not one of the two tags built without `createNode`. -/
theorem keywordType_tag (kind : ast.Kind) (tag : ESTreeKind) (h : keywordType kind = some tag) :
    tag.builtWithoutCreateNode = false := by
  unfold keywordType at h
  split at h <;> first
    | (injection h with h; subst h; rfl)
    | cases h

set_option maxHeartbeats 1000000 in
/-- The dispatch of `convertNode` runs by steps when the calls of `c.converter` do, and
the struct it returns is allocated. -/
theorem runs_convertNodeF {sf : ast.SourceFile} {live : List Ptr} {conv : Conv}
    (hconv : GoodConv sf conv) (hwf : sf.jsxNamesOk = true) (node : ast.NodePtr)
    (parent : Option ast.NodePtr) :
    Runs sf live (convertNodeF conv node parent) (fun r => r.toList) := by
  unfold convertNodeF
  refine runs_get (fun c0 hc0 => ?_)
  dsimp only
  split
  all_goals
    repeat' with_reducible first
      | exact runs_throw _ _
      | refine runs_get (fun c0 hc0 => ?_)
      | refine @runs_bind (Option Ptr) _ _ _ _ _ (fun r => r.toList) _ ?_ (fun _ => ?_)
      | refine @runs_bind Ptr _ _ _ _ _ (fun p => [p]) _ ?_ (fun _ => ?_)
      | refine runs_bind0 ?_ (fun _ => ?_)
      | exact hconv _ _ _ _
      | exact runs_pure_fresh _ _ (by
          intro p hp
          (try simp only [List.mem_append, List.mem_singleton, List.mem_cons,
              List.not_mem_nil, Option.mem_toList, Option.mem_def, Option.some.injEq,
              reduceCtorEq, false_or, or_false, true_or, or_true] at hp ⊢) <;> tauto)
      | (refine runs_createNode _ _ ?_ ?_ ?_ <;>
          with_unfolding_all (first | rfl | (apply keywordType_tag; assumption)
                                        | (apply keywordType_chain; assumption)))
      | exact runs_convertChildT hconv _ _ _
      | exact runs_convertBodyExpressions hconv _ _
      | exact runs_convertParameters hconv _
      | exact runs_annotated hconv _ _
      | exact runs_convertTSTypeParameters hconv _
      | exact runs_convertMethodSignature hconv _
      | exact runs_convertMethod hconv _ _
      | exact runs_convertParameter hconv _ _
      | exact runs_convertFunctionDeclaration hconv _ (by subst hc0; simp [*])
      | exact runs_convertTypeAliasDeclaration hconv _ (by subst hc0; simp [*])
      | exact runs_convertInterfaceDeclaration hconv _ (by subst hc0; simp [*])
      | exact runs_convertClass hconv _ (by subst hc0; simp [*])
      | exact runs_convertModuleDeclaration hconv _ (by subst hc0; simp [*])
      | exact runs_convertPropertyAccessExpression hconv _
      | exact runs_convertElementAccessExpression hconv _
      | exact runs_convertCallExpression hconv _
      | exact runs_convertNonNullExpression hconv _
      | exact runs_convertBinaryExpression hconv _
      | exact runs_convertObjectLiteralExpression hconv _
      | exact runs_convertPropertyAssignment hconv _
      | exact runs_convertShorthandPropertyAssignment hconv _
      | exact runs_convertTypePredicate hconv _
      | exact runs_convertJsxElement hconv _
      | exact runs_convertJsxSelfClosingElement hconv _ hwf
      | exact runs_convertJsxOpeningElement hconv _ hwf
      | exact runs_convertJsxClosingElement _ hwf
      | exact runs_assertType _ _ (by
          intro p hp
          (try simp only [List.mem_append, List.mem_singleton, List.mem_cons,
              List.not_mem_nil, Option.mem_toList, Option.mem_def, Option.some.injEq,
              reduceCtorEq, false_or, or_false, true_or, or_true] at hp ⊢) <;> tauto)
      | exact runs_kindOf _ _
      | refine runs_Map _ _ (fun q : Ptr => [q]) (fun _ => ?_)
      | refine runs_Map _ _ (fun r : Option Ptr => r.toList) (fun _ => ?_)
      | refine runs_Map _ _ (fun _ => []) (fun _ => ?_)
      | split
      | dsimp only

/-- Go `convertNode`, case `KindOmittedExpression`: nil, and nothing is written. -/
theorem convertNodeF_omitted (conv : Conv) (node : ast.NodePtr) (parent : Option ast.NodePtr)
    (c : converter) (hk : (c.sourceFile.node node).Kind = ast.Kind.OmittedExpression) :
    convertNodeF conv node parent c = Except.ok (none, c) := by
  simp only [convertNodeF, bind, StateT.bind, get, getThe, MonadStateOf.get, StateT.get,
    Except.bind, pure, Except.pure, hk]
  rfl

/-- Go `converter.converter` runs by steps when `convertNode` does and returns nil on an
omitted expression. -/
theorem runs_converterF {sf : ast.SourceFile}
    {convertNode : ast.NodePtr → Option ast.NodePtr → M (Option Ptr)}
    (hrun : ∀ live node parent, Runs sf live (convertNode node parent) (fun r => r.toList))
    (hom : ∀ node parent c r c', convertNode node parent c = Except.ok (r, c') →
      (c.sourceFile.node node).Kind = ast.Kind.OmittedExpression → r = none) :
    GoodConv sf (converterF convertNode) := by
  intro live n parent allowPattern
  unfold converterF
  split
  · exact runs_pure_fresh _ _ (by simp)
  · refine runs_get (fun c0 hc0 => ?_)
    dsimp only
    refine runs_bind0 (runs_modify (fun c _ _ => Step.setAllowPattern c _)) (fun _ => ?_)
    refine runs_bind_ok (hrun _ _ _) (fun result hres => ?_)
    obtain ⟨c, c1, hsf, hc⟩ := hres
    refine runs_bind0
      (runs_modify (fun c2 hsf2 _ => Step.register c2 _ result
        (fun hk => hom _ _ c result c1 hc (by rw [hsf, ← hsf2]; exact hk)))) (fun _ => ?_)
    refine runs_bind0 (runs_modify (fun c _ _ => Step.setAllowPattern c _)) (fun _ => ?_)
    exact runs_pure_fresh _ _ (fun p hp => List.mem_append_left _ hp)

/-- Go `convertNode`, unfolded `fuel` times, runs by steps, returns an allocated struct, and
returns nil on an omitted expression. -/
theorem runs_convertNode (sf : ast.SourceFile) (hwf : sf.jsxNamesOk = true) (fuel : Nat) :
    (∀ live node parent, Runs sf live (convertNode fuel node parent) (fun r => r.toList))
    ∧ (∀ node parent c r c', convertNode fuel node parent c = Except.ok (r, c') →
        (c.sourceFile.node node).Kind = ast.Kind.OmittedExpression → r = none) := by
  induction fuel with
  | zero =>
    refine ⟨?_, ?_⟩
    · intro live node parent
      exact runs_throw _ _
    · intro node parent c r c' h
      cases h
  | succ n ih =>
    have hconv : GoodConv sf (converterF (convertNode n)) := runs_converterF ih.1 ih.2
    refine ⟨?_, ?_⟩
    · intro live node parent
      exact runs_convertNodeF hconv hwf node parent
    · intro node parent c r c' h hk
      have h2 : convertNodeF (converterF (convertNode n)) node parent c = Except.ok (r, c') := h
      rw [convertNodeF_omitted _ _ _ _ hk] at h2
      injection h2 with h2
      injection h2 with h3 _
      exact h3.symm

/-- The calls of `c.converter` of the embedded conversion run by steps. -/
theorem converterRec_good (sf : ast.SourceFile) (hwf : sf.jsxNamesOk = true) (fuel : Nat) :
    GoodConv sf (converterRec fuel) :=
  runs_converterF (runs_convertNode sf hwf fuel).1 (runs_convertNode sf hwf fuel).2

/-- The converter a conversion ends with is reached by the writes of the transition
system, and the `Program` it returns is allocated in it. -/
theorem ConvertSourceFileToESTree_runs (fuel : Nat) (sourceFile : ast.SourceFile)
    (hwf : sourceFile.jsxNamesOk = true) (r : Option Ptr) (c : converter)
    (h : ConvertSourceFileToESTree fuel sourceFile = Except.ok (r, c)) :
    Reachable sourceFile c ∧ ∀ p ∈ r.toList, p < c.heap.length := by
  have hrun : Runs sourceFile []
      (do
        let program ← convertNode fuel sourceFile.Root none
        let p ← assertType ESTreeKind.Program program
        pure (some p)) (fun r => r.toList) :=
    runs_bind ((runs_convertNode sourceFile hwf fuel).1 _ _ _)
      (fun _ => runs_bind (runs_assertType _ _ (by simp))
        (fun _ => runs_pure_fresh _ _ (by simp)))
  unfold Runs at hrun
  exact hrun { sourceFile := sourceFile } r c rfl (by simp) h

/-- The converter a conversion ends with is reached by the writes of the transition
system. -/
theorem ConvertSourceFileToESTree_reachable (fuel : Nat) (sourceFile : ast.SourceFile)
    (hwf : sourceFile.jsxNamesOk = true) (r : Option Ptr) (c : converter)
    (h : ConvertSourceFileToESTree fuel sourceFile = Except.ok (r, c)) :
    Reachable sourceFile c :=
  (ConvertSourceFileToESTree_runs fuel sourceFile hwf r c h).1

/-- C12 holds of every converter a conversion passes through. -/
theorem Reachable.chain_invariant {sourceFile : ast.SourceFile} {c : converter}
    (h : Reachable sourceFile c) : c.ChainOk := by
  unfold Reachable at h
  induction h with
  | refl =>
    intro x hx
    exact absurd hx (by simp [converter.init])
  | tail _ hstep ih => exact hstep.chainOk ih

end estree

/-! ## Invariants of a conversion -/

namespace estree

/-- What holds of every converter a conversion passes through: the source file is the one
given, every struct has the location of its range, no native node is bound to nil, an
omitted expression has no entry, and the registry of converted nodes holds the structs
built through `createNode`. -/
theorem Reachable.invariant {sourceFile : ast.SourceFile} {c : converter}
    (h : Reachable sourceFile c) :
    c.sourceFile = sourceFile
    ∧ (∀ p, p < c.heap.length → c.LocOk p)
    ∧ (∀ n, c.tsNodeToESTreeNodeMap n ≠ some none)
    ∧ (∀ n, (c.sourceFile.node n).Kind = ast.Kind.OmittedExpression →
        c.tsNodeToESTreeNodeMap n = none)
    ∧ c.EsOk := by
  unfold Reachable at h
  induction h with
  | refl =>
    refine ⟨rfl, ?_, ?_, ?_, ?_, ?_⟩
    · intro p hp
      exact absurd hp (by simp [converter.init])
    · intro n hn
      simp [converter.init] at hn
    · intro n _
      rfl
    · intro p hp _
      exact absurd hp (by simp [converter.init])
    · intro p n hpn
      simp [converter.init] at hpn
  | tail _ hstep ih =>
    exact ⟨hstep.sourceFile_eq.trans ih.1, hstep.locOk ih.2.1, hstep.ts_nonnil ih.2.2.1,
      hstep.ts_omitted ih.2.2.2.1, hstep.esOk ih.2.2.2.2⟩

/-- The registry entry of a struct stays as it is for the rest of the conversion. -/
theorem es_stable_star {c c' : converter} (h : Relation.ReflTransGen Step c c') (p : Ptr)
    (hp : p < c.heap.length) :
    c'.esTreeNodeToTSNodeMap p = c.esTreeNodeToTSNodeMap p := by
  induction h with
  | refl => rfl
  | tail hcb hstep ih =>
    rw [hstep.es_stable p (lt_of_lt_of_le hp (star_length hcb)), ih]

/-- C2: in every converter of a conversion, each converted node has the `Loc` of its
`Range`: `Loc.Start` is the line and column the front end gives for `Range[0]`, the line
counted from 1 and the column from 0, and `Loc.End` is that of `Range[1]`. This holds after
each write of the conversion, the widening by `fixParentLocation`, the rewrites by
`fixExports`, the parameter and tuple-member adjustments and the type-predicate fix
included; by `ConvertSourceFileToESTree_reachable` it holds of the converter every run of
the embedded `ConvertSourceFileToESTree` ends with. -/
theorem loc_of_range (sourceFile : ast.SourceFile) (c : converter)
    (h : Reachable sourceFile c) (p : Ptr) (hp : p < c.heap.length) :
    (c.get p).Loc.Start = getLineAndCharacterFor (c.get p).Range.1 sourceFile
    ∧ (c.get p).Loc.End = getLineAndCharacterFor (c.get p).Range.2 sourceFile
    ∧ (c.get p).Loc.Start.Line
        = (sourceFile.GetLineAndCharacterOfPosition (c.get p).Range.1).1 + 1
    ∧ (c.get p).Loc.Start.Column
        = (sourceFile.GetLineAndCharacterOfPosition (c.get p).Range.1).2
    ∧ (c.get p).Loc.End.Line
        = (sourceFile.GetLineAndCharacterOfPosition (c.get p).Range.2).1 + 1
    ∧ (c.get p).Loc.End.Column
        = (sourceFile.GetLineAndCharacterOfPosition (c.get p).Range.2).2 := by
  obtain ⟨hsf, hloc, _⟩ := h.invariant
  have hl : (c.get p).Loc = c.getLocFor (c.get p).Range := hloc p hp
  rw [hl]
  simp [converter.getLocFor, getLineAndCharacterFor, hsf]

end estree

namespace estree

/-- C2 on `function f(x: any) {}`: the conversion returns; the parameter name `x`
(pointer 2), widened by `fixParentLocation` over its annotation to `[11, 17]`, has the
location of 11 and 17. -/
theorem loc_of_range_witness :
    ∃ p c, ConvertSourceFileToESTree 6 functionWithTypedParameter = Except.ok (p, c)
      ∧ Reachable functionWithTypedParameter c
      ∧ (c.get 2).Range = (11, 17)
      ∧ (c.get 2).Loc.Start = getLineAndCharacterFor 11 functionWithTypedParameter
      ∧ (c.get 2).Loc.End = getLineAndCharacterFor 17 functionWithTypedParameter := by
  have hobs : observe (ConvertSourceFileToESTree 6 functionWithTypedParameter)
      (fun _ c => (decide (2 < c.heap.length), (c.get 2).Range)) = some (true, (11, 17)) := by
    decide!
  generalize hres : ConvertSourceFileToESTree 6 functionWithTypedParameter = res at hobs ⊢
  cases res with
  | error e => cases hobs
  | ok pc =>
    obtain ⟨p, c⟩ := pc
    have hr := ConvertSourceFileToESTree_reachable 6 _ (by decide) p c hres
    simp only [observe, Option.some.injEq, Prod.mk.injEq, decide_eq_true_eq] at hobs
    have h := loc_of_range functionWithTypedParameter c hr 2 hobs.1
    refine ⟨p, c, rfl, hr, hobs.2, ?_, ?_⟩
    · rw [h.1, hobs.2]
    · rw [h.2.1, hobs.2]

/-- C5: `registerTSNodeInNodeMap(node, result)` changes nothing when `result` is nil or
`node` has an entry; otherwise it binds `node` to `result` and changes nothing else. So in
every converter of a conversion no native node is bound to nil and a node of kind
`OmittedExpression`, for which `convertNode` returns nil, has no entry. -/
theorem registerTSNodeInNodeMap_first_writer (c : converter) (node : ast.NodePtr) :
    c.registerTSNodeInNodeMap node none = c
    ∧ (∀ result, c.tsNodeToESTreeNodeMap node ≠ none →
        c.registerTSNodeInNodeMap node result = c)
    ∧ (∀ p, c.tsNodeToESTreeNodeMap node = none →
        (c.registerTSNodeInNodeMap node (some p)).tsNodeToESTreeNodeMap node = some (some p)
        ∧ (∀ n, n ≠ node →
            (c.registerTSNodeInNodeMap node (some p)).tsNodeToESTreeNodeMap n
              = c.tsNodeToESTreeNodeMap n)
        ∧ (c.registerTSNodeInNodeMap node (some p)).heap = c.heap
        ∧ (c.registerTSNodeInNodeMap node (some p)).esTreeNodeToTSNodeMap
            = c.esTreeNodeToTSNodeMap)
    ∧ (∀ sourceFile, Reachable sourceFile c →
        (∀ n, c.tsNodeToESTreeNodeMap n ≠ some none)
        ∧ (∀ n, (sourceFile.node n).Kind = ast.Kind.OmittedExpression →
            c.tsNodeToESTreeNodeMap n = none))
    ∧ (∀ conv parent, (c.sourceFile.node node).Kind = ast.Kind.OmittedExpression →
        convertNodeF conv node parent c = Except.ok (none, c)) := by
  refine ⟨rfl, ?_, ?_, ?_, ?_⟩
  · intro result hne
    cases result with
    | none => rfl
    | some p =>
      cases hn : c.tsNodeToESTreeNodeMap node with
      | none => exact absurd hn hne
      | some v => simp [converter.registerTSNodeInNodeMap, hn]
  · intro p hn
    refine ⟨?_, ?_, ?_, ?_⟩
    · simp [converter.registerTSNodeInNodeMap, hn]
    · intro n hne
      simp [converter.registerTSNodeInNodeMap, hn, Function.update_noteq hne]
    · simp [converter.registerTSNodeInNodeMap, hn]
    · simp [converter.registerTSNodeInNodeMap, hn]
  · intro sourceFile hr
    obtain ⟨hsf, _, h1, h2, _⟩ := hr.invariant
    rw [hsf] at h2
    exact ⟨h1, h2⟩
  · intro conv parent hk
    exact convertNodeF_omitted conv node parent c hk

end estree

namespace estree

/-- C5 on the converter of `export type T = any`: the name (native node 3) has an entry, so
a second registration changes nothing; the type alias (native node 1) has none, so it is
bound and the entry of the name stays. And on `[,x]`: the conversion returns, and in its
converter the omitted element (native node 3) has no entry while `x` (native node 4) is
bound to its `Identifier`. -/
theorem registerTSNodeInNodeMap_first_writer_witness :
    typeAliasBuilt.registerTSNodeInNodeMap 3 (some 2) = typeAliasBuilt
    ∧ (typeAliasBuilt.registerTSNodeInNodeMap 1 (some 2)).tsNodeToESTreeNodeMap 1
        = some (some 2)
    ∧ (typeAliasBuilt.registerTSNodeInNodeMap 1 (some 2)).tsNodeToESTreeNodeMap 3
        = some (some 0)
    ∧ ∃ p c, ConvertSourceFileToESTree 5 arrayWithHole = Except.ok (p, c)
        ∧ (∀ n, c.tsNodeToESTreeNodeMap n ≠ some none)
        ∧ c.tsNodeToESTreeNodeMap 3 = none
        ∧ c.tsNodeToESTreeNodeMap 4 = some (some 0) := by
  have h3 := registerTSNodeInNodeMap_first_writer typeAliasBuilt 3
  have h1 := (registerTSNodeInNodeMap_first_writer typeAliasBuilt 1).2.2.1 2 (by decide)
  refine ⟨h3.2.1 (some 2) (by decide), h1.1, ?_, ?_⟩
  · rw [h1.2.1 3 (by decide)]
    decide
  · have hobs : observe (ConvertSourceFileToESTree 5 arrayWithHole)
        (fun _ c => c.tsNodeToESTreeNodeMap 4) = some (some (some 0)) := by
      decide!
    generalize hres : ConvertSourceFileToESTree 5 arrayWithHole = res at hobs ⊢
    cases res with
    | error e => cases hobs
    | ok pc =>
      obtain ⟨p, c⟩ := pc
      have hr := ConvertSourceFileToESTree_reachable 5 _ (by decide) p c hres
      simp only [observe, Option.some.injEq] at hobs
      have h := (registerTSNodeInNodeMap_first_writer c 0).2.2.2.1 arrayWithHole hr
      exact ⟨p, c, rfl, h.1, h.2 3 (by decide), hobs⟩

/-- C6, as the code has it: in every converter of a conversion, each converted node whose
tag is neither `TSTypeAnnotation` nor `TSTypeParameterDeclaration` is a key of the
converted-to-native map; the nodes with one of these two tags, built by
`convertTypeAnnotation` and `convertTSTypeParametersToTypeParametersDeclaration` without
`createNode`, are not keys. `createNode(node, data)` maps `data` to `node`, and the entry
of a node never changes in the rest of the conversion. -/
theorem createNode_registers (sourceFile : ast.SourceFile) (c : converter)
    (h : Reachable sourceFile c) :
    (∀ p, p < c.heap.length → (c.get p).Type_ ≠ ESTreeKind.TSTypeAnnotation →
        (c.get p).Type_ ≠ ESTreeKind.TSTypeParameterDeclaration →
        ∃ n, c.esTreeNodeToTSNodeMap p = some n)
    ∧ (∀ p, (c.get p).Type_ = ESTreeKind.TSTypeAnnotation
          ∨ (c.get p).Type_ = ESTreeKind.TSTypeParameterDeclaration →
        c.esTreeNodeToTSNodeMap p = none)
    ∧ (∀ node data c1, createNode node data c = Except.ok (c.heap.length, c1) →
        c1.esTreeNodeToTSNodeMap c.heap.length = some node
        ∧ ∀ c2, Relation.ReflTransGen Step c1 c2 →
            c2.esTreeNodeToTSNodeMap c.heap.length = some node) := by
  obtain ⟨_, _, _, _, hes⟩ := h.invariant
  refine ⟨?_, ?_, ?_⟩
  · intro p hp h1 h2
    apply hes.1 p hp
    simp [ESTreeKind.builtWithoutCreateNode, h1, h2]
  · intro p hp
    cases hn : c.esTreeNodeToTSNodeMap p with
    | none => rfl
    | some n =>
      have := (hes.2 p n hn).2
      rcases hp with hp | hp <;> simp [ESTreeKind.builtWithoutCreateNode, hp] at this
  · intro node data c1 hc
    have hc1 : c1 = ((c.new data).2.createNode node (c.new data).1).2 := by
      simp only [createNode] at hc
      injection hc with hc
      injection hc with _ hc
      exact hc.symm
    have he : c1.esTreeNodeToTSNodeMap c.heap.length = some node := by
      rw [hc1, converter.createNode_es, converter.fst_new, Function.update_same]
    refine ⟨he, ?_⟩
    intro c2 h12
    have hlt : c.heap.length < c1.heap.length := by
      rw [hc1]
      simp
    rw [es_stable_star h12 _ hlt, he]

/-- C6 on `function f(): any {}`: the conversion returns; in its converter the function
declaration (pointer 4) is a key of the converted-to-native map and the `TSTypeAnnotation`
of the return type (pointer 2) is not. -/
theorem createNode_registers_witness :
    ∃ p c, ConvertSourceFileToESTree 6 functionWithReturnType = Except.ok (p, c)
      ∧ Reachable functionWithReturnType c
      ∧ (c.get 4).Type_ = ESTreeKind.FunctionDeclaration
      ∧ (∃ n, c.esTreeNodeToTSNodeMap 4 = some n)
      ∧ (c.get 2).Type_ = ESTreeKind.TSTypeAnnotation
      ∧ c.esTreeNodeToTSNodeMap 2 = none := by
  have hobs : observe (ConvertSourceFileToESTree 6 functionWithReturnType)
      (fun _ c => (decide (4 < c.heap.length), (c.get 4).Type_, (c.get 2).Type_))
      = some (true, ESTreeKind.FunctionDeclaration, ESTreeKind.TSTypeAnnotation) := by
    decide!
  generalize hres : ConvertSourceFileToESTree 6 functionWithReturnType = res at hobs ⊢
  cases res with
  | error e => cases hobs
  | ok pc =>
    obtain ⟨p, c⟩ := pc
    have hr := ConvertSourceFileToESTree_reachable 6 _ (by decide) p c hres
    simp only [observe, Option.some.injEq, Prod.mk.injEq, decide_eq_true_eq] at hobs
    have h := createNode_registers functionWithReturnType c hr
    refine ⟨p, c, rfl, hr, hobs.2.1, ?_, hobs.2.2, h.2.1 2 (Or.inl hobs.2.2)⟩
    exact h.1 4 hobs.1 (by rw [hobs.2.1]; decide) (by rw [hobs.2.1]; decide)

/-- C6 as stated fails on `function f(): any {}`: the tree returned for the file is the
`Program` at pointer 5; its function declaration (pointer 4) holds as `ReturnType` the
`TSTypeAnnotation` at pointer 2, a node reached from the `Program`, and this node is not a
key of the converted-to-native map, whereas the function declaration is, mapped to native
node 1. -/
theorem every_node_registered_counterexample :
    observe (ConvertSourceFileToESTree 6 functionWithReturnType)
        (fun p c => (p, (c.get 5).Type_, decide (2 ∈ c.descendants 8 [5]),
          (c.get 4).field "ReturnType", (c.get 2).Type_))
      = some (some 5, ESTreeKind.Program, true, Value.node 2, ESTreeKind.TSTypeAnnotation)
    ∧ observe (ConvertSourceFileToESTree 6 functionWithReturnType)
        (fun _ c => (c.esTreeNodeToTSNodeMap 2, c.esTreeNodeToTSNodeMap 4))
      = some (none, some 1) :=
  ⟨by decide!, by decide!⟩

end estree

/-! ## Optional chains: C11, C12, C13 -/

namespace estree

/-- A run that returns `a` is the run to `a` and the converter it leaves. -/
theorem run_eq_of_valueOf {α : Type} (m : M α) (c : converter) (a : α)
    (h : valueOf m c = some a) : m c = Except.ok (a, stateAfter m c) := by
  unfold valueOf at h
  unfold stateAfter
  cases hm : m c with
  | error e =>
    rw [hm] at h
    cases h
  | ok p =>
    obtain ⟨b, c'⟩ := p
    rw [hm] at h
    cases h
    rfl

/-- What `createNode` on a fresh struct leaves of the structs allocated before. -/
theorem converter.createNode_new_old (c : converter) (node : ast.NodePtr) (data : ESTreeNode)
    (p : Ptr) (hp : p < c.heap.length) :
    ((c.new data).2.createNode node (c.new data).1).2.get p = c.get p := by
  rw [converter.createNode_get_ne _ _ _ _ (by simpa using Nat.ne_of_gt hp),
    converter.get_new_old _ _ _ hp]

/-- The fields of a struct just built by `createNode` are those of the struct literal. -/
theorem converter.createNode_new_field (c : converter) (node : ast.NodePtr)
    (data : ESTreeNode) (name : String) :
    (((c.new data).2.createNode node (c.new data).1).2.get c.heap.length).field name
      = data.field name := by
  unfold ESTreeNode.field
  rw [(converter.createNode_new_get c node data).2]

/-- A parenthesised sub-expression is not nil. -/
theorem ast.SourceFile.parenthesised_expression (sf : ast.SourceFile) (tsNode : ast.NodePtr)
    (h : sf.parenthesised tsNode = true) : (sf.node tsNode).Expression ≠ none := by
  intro hn
  unfold ast.SourceFile.parenthesised at h
  rw [hn] at h
  cases h

/-- Go `convertChainExpression` over a parenthesised sub-expression: the link keeps its
object, callee or expression, and it is returned as it is unless it carries `?.`. -/
theorem convertChainExpression_parenthesised (c : converter) (node child : Ptr)
    (tsNode : ast.NodePtr) (hlink : (c.get node).Type_.isChainLink = true)
    (hchild : (c.get node).field (chainChildField (c.get node).Type_) = Value.node child)
    (hnode : node < c.heap.length) (hparen : c.sourceFile.parenthesised tsNode = true) :
    ∃ r c', convertChainExpression node tsNode c = Except.ok (r, c')
      ∧ c'.get node = c.get node
      ∧ (c.chainOptional node = false → r = node ∧ c' = c)
      ∧ (c.chainOptional node = true → r = c.heap.length
          ∧ (c'.get r).Type_ = ESTreeKind.ChainExpression
          ∧ (c'.get r).field "Expression" = Value.node node) := by
  have hu : c.chainUnwrappable child tsNode = false := by
    simp [converter.chainUnwrappable, hparen]
  have hm : c.chainMerged node child tsNode = c := by
    simp [converter.chainMerged, hu]
  rw [convertChainExpression_eq c node child tsNode hlink hchild
    (fun _ => c.sourceFile.parenthesised_expression tsNode hparen), hm]
  cases ho : c.chainOptional node
  · exact ⟨node, c, (by simp [hu]), rfl, fun _ => ⟨rfl, rfl⟩, fun h => (by cases h)⟩
  · refine ⟨_, _, (by simp [hu]; rfl), ?_, fun h => (by cases h), fun _ => ?_⟩
    · exact converter.createNode_new_old c tsNode _ node hnode
    · obtain ⟨ht, hf⟩ := converter.createNode_new_get c tsNode
        { Type_ := ESTreeKind.ChainExpression, Fields := [("Expression", Value.node node)] }
      have hfe : (((c.new
          { Type_ := ESTreeKind.ChainExpression
            Fields := [("Expression", Value.node node)] }).2.createNode tsNode
          (c.new
            { Type_ := ESTreeKind.ChainExpression
              Fields := [("Expression", Value.node node)] }).1).2.get
          c.heap.length).field "Expression" = Value.node node := by
        unfold ESTreeNode.field
        rw [hf]
        rfl
      exact ⟨rfl, ht, hfe⟩

/-- Go `convertNode`, case `KindPropertyAccessExpression`, on an access without `?.` to a
parenthesised expression: the `MemberExpression` is returned as it is built. -/
theorem convertPropertyAccessExpression_parenthesised (conv : Conv) (c c1 c2 : converter)
    (node e : ast.NodePtr) (obj : Ptr) (property : Option Ptr)
    (hexp : (c.sourceFile.node node).Expression = some e)
    (hparen : (c.sourceFile.node e).Kind = ast.Kind.ParenthesizedExpression)
    (hq : (c.sourceFile.node node).QuestionDotToken = none)
    (h1 : conv (some e) none false c = Except.ok (some obj, c1))
    (h2 : conv (c.sourceFile.node node).Name none false c1 = Except.ok (property, c2))
    (hobj : obj < c2.heap.length) (hsf : c2.sourceFile = c.sourceFile) :
    ∃ c', convertPropertyAccessExpression conv node c = Except.ok (some c2.heap.length, c')
      ∧ c'.heap.length = c2.heap.length + 1
      ∧ (c'.get c2.heap.length).Type_ = ESTreeKind.MemberExpression
      ∧ (c'.get c2.heap.length).field "Optional" = Value.bool false
      ∧ (c'.get c2.heap.length).field "Object" = Value.node obj
      ∧ c'.get obj = c2.get obj := by
  simp only [convertPropertyAccessExpression, bind, StateT.bind, get, getThe,
    MonadStateOf.get, StateT.get, pure, StateT.pure, Except.pure, Except.bind, hexp, h1, h2, hq,
    Option.isSome, createNode, converter.createNode_fst, converter.fst_new]
  obtain ⟨hty, hfs⟩ := converter.createNode_new_get c2 node
    { Type_ := ESTreeKind.MemberExpression
      Fields := [("Computed", Value.bool false), ("Object", Value.ofOption (some obj)),
                 ("Optional", Value.bool false), ("Property", Value.ofOption property)] }
  have hold := converter.createNode_new_old c2 node
    { Type_ := ESTreeKind.MemberExpression
      Fields := [("Computed", Value.bool false), ("Object", Value.ofOption (some obj)),
                 ("Optional", Value.bool false), ("Property", Value.ofOption property)] }
    obj hobj
  have hlen : ((c2.new
    { Type_ := ESTreeKind.MemberExpression
      Fields := [("Computed", Value.bool false), ("Object", Value.ofOption (some obj)),
                 ("Optional", Value.bool false), ("Property", Value.ofOption property)]
      }).2.createNode node c2.heap.length).2.heap.length = c2.heap.length + 1 := by simp
  have hsf3 : ((c2.new
    { Type_ := ESTreeKind.MemberExpression
      Fields := [("Computed", Value.bool false), ("Object", Value.ofOption (some obj)),
                 ("Optional", Value.bool false), ("Property", Value.ofOption property)]
      }).2.createNode node c2.heap.length).2.sourceFile = c.sourceFile := by
    simp [hsf]
  rw [converter.fst_new] at hty hfs hold
  generalize ((c2.new
    { Type_ := ESTreeKind.MemberExpression
      Fields := [("Computed", Value.bool false), ("Object", Value.ofOption (some obj)),
                 ("Optional", Value.bool false), ("Property", Value.ofOption property)]
      }).2.createNode node c2.heap.length).2 = c3 at hty hfs hold hlen hsf3 ⊢
  have hfield : ∀ name, (c3.get c2.heap.length).field name
      = (List.lookup name
          [("Computed", Value.bool false), ("Object", Value.node obj),
           ("Optional", Value.bool false), ("Property", Value.ofOption property)]).getD
        Value.null := by
    intro name
    unfold ESTreeNode.field
    rw [hfs]
    rfl
  have hopt : c3.chainOptional c2.heap.length = false := by
    unfold converter.chainOptional
    rw [hfield "Optional"]
    simp [List.lookup]
  obtain ⟨r, c', hr, _, hkeep, _⟩ := convertChainExpression_parenthesised c3 c2.heap.length obj
    node (by rw [hty]; rfl) (by rw [hty, hfield]; rfl)
    (by rw [hlen]; exact Nat.lt_succ_self _)
    (by unfold ast.SourceFile.parenthesised; rw [hsf3, hexp]; simp [hparen])
  obtain ⟨h3, h4⟩ := hkeep hopt
  subst h3 h4
  rw [hr]
  refine ⟨c', rfl, hlen, hty, ?_, ?_, hold⟩
  · rw [hfield]
    rfl
  · rw [hfield]
    rfl

/-- C11: parenthesised chains keep their boundary. Over a parenthesised native
sub-expression `convertChainExpression` leaves the object, callee or expression of the link
as it is, whatever it is, and returns the link itself unless the link carries `?.`; case
`KindParenthesizedExpression` returns the conversion of the inner expression; so an access
without `?.` to a parenthesised expression, as `.c` in `(a?.b).c`, converts to a
`MemberExpression` with `Optional = false` that is returned unwrapped, and its `Object` is
the struct the parenthesised expression converts to, the `ChainExpression` of `a?.b`. The
calls of `c.converter` are taken as they return. -/
theorem parenthesised_chain_boundary :
    (∀ (c : converter) (node child : Ptr) (tsNode : ast.NodePtr),
      (c.get node).Type_.isChainLink = true →
      (c.get node).field (chainChildField (c.get node).Type_) = Value.node child →
      node < c.heap.length → c.sourceFile.parenthesised tsNode = true →
      ∃ r c', convertChainExpression node tsNode c = Except.ok (r, c')
        ∧ c'.get node = c.get node
        ∧ (c.chainOptional node = false → r = node ∧ c' = c)
        ∧ (c.chainOptional node = true → r = c.heap.length
            ∧ (c'.get r).Type_ = ESTreeKind.ChainExpression
            ∧ (c'.get r).field "Expression" = Value.node node))
    ∧ (∀ (conv : Conv) (node : ast.NodePtr) (parent : Option ast.NodePtr) (c : converter),
      (c.sourceFile.node node).Kind = ast.Kind.ParenthesizedExpression →
      convertNodeF conv node parent c = conv (c.sourceFile.node node).Expression parent false c)
    ∧ (∀ (conv : Conv) (c c1 c2 : converter) (node e : ast.NodePtr) (obj : Ptr)
        (property : Option Ptr),
      (c.sourceFile.node node).Expression = some e →
      (c.sourceFile.node e).Kind = ast.Kind.ParenthesizedExpression →
      (c.sourceFile.node node).QuestionDotToken = none →
      conv (some e) none false c = Except.ok (some obj, c1) →
      conv (c.sourceFile.node node).Name none false c1 = Except.ok (property, c2) →
      obj < c2.heap.length → c2.sourceFile = c.sourceFile →
      ∃ c', convertPropertyAccessExpression conv node c
            = Except.ok (some c2.heap.length, c')
        ∧ c'.heap.length = c2.heap.length + 1
        ∧ (c'.get c2.heap.length).Type_ = ESTreeKind.MemberExpression
        ∧ (c'.get c2.heap.length).field "Optional" = Value.bool false
        ∧ (c'.get c2.heap.length).field "Object" = Value.node obj
        ∧ c'.get obj = c2.get obj) := by
  refine ⟨convertChainExpression_parenthesised, ?_,
    convertPropertyAccessExpression_parenthesised⟩
  intro conv node parent c hk
  simp only [convertNodeF, bind, StateT.bind, get, getThe, MonadStateOf.get, StateT.get,
    Except.bind, pure, Except.pure, hk]

/-- C11 on `(a?.b).c`: the access `.c` converts, in the converter that starts the
conversion, to the `MemberExpression` at pointer 5, with `Optional = false` and the
`ChainExpression` at pointer 3 as `Object`, and nothing is allocated after it; in the tree
returned for the file the expression statement at pointer 6 holds this `MemberExpression`,
and the `ChainExpression` holds the access `a?.b` at pointer 2, which is optional. -/
theorem parenthesised_chain_boundary_witness :
    (∃ c', convertPropertyAccessExpression (converterRec 3) 2
            (converter.init parenthesizedChain) = Except.ok (some 5, c')
      ∧ c'.heap.length = 6
      ∧ (c'.get 5).Type_ = ESTreeKind.MemberExpression
      ∧ (c'.get 5).field "Optional" = Value.bool false
      ∧ (c'.get 5).field "Object" = Value.node 3
      ∧ (c'.get 3).Type_ = ESTreeKind.ChainExpression)
    ∧ observe (ConvertSourceFileToESTree 8 parenthesizedChain)
        (fun r c => (r, (c.get 6).field "Expression", (c.get 5).Type_,
          (c.get 5).field "Object"))
      = some (some 7, Value.node 5, ESTreeKind.MemberExpression, Value.node 3)
    ∧ observe (ConvertSourceFileToESTree 8 parenthesizedChain)
        (fun _ c => ((c.get 3).Type_, (c.get 3).field "Expression",
          (c.get 2).field "Optional"))
      = some (ESTreeKind.ChainExpression, Value.node 2, Value.bool true) := by
  refine ⟨?_, by decide!, by decide!⟩
  obtain ⟨c', h1, h2, h3, h4, h5, h6⟩ := parenthesised_chain_boundary.2.2 (converterRec 3)
    (converter.init parenthesizedChain)
    (stateAfter (converterRec 3 (some 3) none false) (converter.init parenthesizedChain))
    (stateAfter (converterRec 3 (some 7) none false)
      (stateAfter (converterRec 3 (some 3) none false) (converter.init parenthesizedChain)))
    2 3 3 (some 4) rfl rfl rfl rfl rfl (by decide) rfl
  exact ⟨c', h1, h2, h3, h4, h5, by rw [h6]; decide!⟩

end estree

namespace estree

/-- Go `convertChainExpression` over a chain that is not parenthesised: the object, callee
or expression of the link becomes the `Expression` of the chain it held, and one
`ChainExpression` is built around the link. -/
theorem convertChainExpression_merge (c : converter) (node child : Ptr)
    (tsNode e : ast.NodePtr) (hlink : (c.get node).Type_.isChainLink = true)
    (hchild : (c.get node).field (chainChildField (c.get node).Type_) = Value.node child)
    (hnode : node < c.heap.length)
    (hchain : (c.get child).Type_ = ESTreeKind.ChainExpression)
    (hexp : (c.sourceFile.node tsNode).Expression = some e)
    (hparen : (c.sourceFile.node e).Kind ≠ ast.Kind.ParenthesizedExpression) :
    ∃ c', convertChainExpression node tsNode c = Except.ok (c.heap.length, c')
      ∧ c'.heap.length = c.heap.length + 1
      ∧ (c'.get node).Type_ = (c.get node).Type_
      ∧ (c'.get node).field (chainChildField (c.get node).Type_)
          = (c.get child).field "Expression"
      ∧ (c'.get c.heap.length).Type_ = ESTreeKind.ChainExpression
      ∧ (c'.get c.heap.length).field "Expression" = Value.node node := by
  have hu : c.chainUnwrappable child tsNode = true := by
    simp [converter.chainUnwrappable, ast.SourceFile.parenthesised, hchain, hexp, hparen]
  have hm : c.chainMerged node child tsNode
      = c.setProperty node (chainChildField (c.get node).Type_)
          ((c.get child).field "Expression") := by
    simp [converter.chainMerged, hu]
  rw [convertChainExpression_eq c node child tsNode hlink hchild
    (fun _ => by rw [hexp]; exact Option.some_ne_none e), hm]
  have hne : ¬(c.chainOptional node = false ∧ c.chainUnwrappable child tsNode = false) := by
    simp [hu]
  rw [if_neg hne]
  have hlen : (c.setProperty node (chainChildField (c.get node).Type_)
      ((c.get child).field "Expression")).heap.length = c.heap.length := by simp
  obtain ⟨ht, hf⟩ := converter.createNode_new_get
    (c.setProperty node (chainChildField (c.get node).Type_) ((c.get child).field "Expression"))
    tsNode { Type_ := ESTreeKind.ChainExpression, Fields := [("Expression", Value.node node)] }
  have hold := converter.createNode_new_old
    (c.setProperty node (chainChildField (c.get node).Type_) ((c.get child).field "Expression"))
    tsNode { Type_ := ESTreeKind.ChainExpression, Fields := [("Expression", Value.node node)] }
    node (by rw [hlen]; exact hnode)
  have hfe := converter.createNode_new_field
    (c.setProperty node (chainChildField (c.get node).Type_) ((c.get child).field "Expression"))
    tsNode { Type_ := ESTreeKind.ChainExpression, Fields := [("Expression", Value.node node)] }
    "Expression"
  rw [hlen] at ht hf hfe
  refine ⟨_, congrArg Except.ok (Prod.ext ?_ rfl), ?_, ?_, ?_, ht, ?_⟩
  · simp
  · simp
  · rw [hold, converter.type_setProperty]
  · rw [hold, converter.get_setProperty]
    simp only [hnode, and_self, if_true]
    exact ESTreeNode.field_setField_same _ _ _
  · exact hfe

/-- C12: chain merging. Where the object, callee or expression of a link is a
`ChainExpression` and the native sub-expression is not parenthesised,
`convertChainExpression` replaces it by the `Expression` of that chain and builds one
`ChainExpression` around the link. The struct literal of a link followed by the call of
`convertChainExpression`, as in the cases of the member, call and non-null expressions, is
a sequence of writes of the transition system, in which a `ChainExpression` is built as
`ChainWrap` says. Consequently `ChainOk` holds of every converter that a sequence of writes
reaches from the converter a conversion starts with: a `ChainExpression` holds a link of a
chain, and the object, callee or expression of that link is a `ChainExpression` only where
the native sub-expression of the node the chain is registered for is parenthesised. In
particular it holds of the converter every run of `ConvertSourceFileToESTree` ends with. -/
theorem chain_merging :
    (∀ (c : converter) (node child : Ptr) (tsNode e : ast.NodePtr),
      (c.get node).Type_.isChainLink = true →
      (c.get node).field (chainChildField (c.get node).Type_) = Value.node child →
      node < c.heap.length →
      (c.get child).Type_ = ESTreeKind.ChainExpression →
      (c.sourceFile.node tsNode).Expression = some e →
      (c.sourceFile.node e).Kind ≠ ast.Kind.ParenthesizedExpression →
      ∃ c', convertChainExpression node tsNode c = Except.ok (c.heap.length, c')
        ∧ c'.heap.length = c.heap.length + 1
        ∧ (c'.get node).Type_ = (c.get node).Type_
        ∧ (c'.get node).field (chainChildField (c.get node).Type_)
            = (c.get child).field "Expression"
        ∧ (c'.get c.heap.length).Type_ = ESTreeKind.ChainExpression
        ∧ (c'.get c.heap.length).field "Expression" = Value.node node)
    ∧ (∀ (c c' : converter) (node : ast.NodePtr) (data : ESTreeNode) (o a : Option Ptr),
      data.Loc = {} → data.Type_.isChainLink = true →
      data.field (chainChildField data.Type_) = Value.ofOption o →
      (∀ p ∈ o.toList, p < c.heap.length) →
      (do
        let result ← createNode node data
        let chain ← convertChainExpression result node
        pure (some chain) : M (Option Ptr)) c = Except.ok (a, c') →
      Relation.ReflTransGen Step c c')
    ∧ (∀ (sourceFile : ast.SourceFile) (c : converter), Reachable sourceFile c →
      ∀ x, x < c.heap.length → (c.get x).Type_ = ESTreeKind.ChainExpression →
        ∃ e, (c.get x).field "Expression" = Value.node e ∧ e < c.heap.length
          ∧ (c.get e).Type_.isChainLink = true
          ∧ ∀ y, (c.get e).field (chainChildField (c.get e).Type_) = Value.node y →
              y < c.heap.length
              ∧ ((c.get y).Type_ = ESTreeKind.ChainExpression →
                  ∃ ts, c.esTreeNodeToTSNodeMap x = some ts
                    ∧ sourceFile.parenthesised ts = true))
    ∧ (∀ (fuel : Nat) (sourceFile : ast.SourceFile) (r : Option Ptr) (c : converter),
      sourceFile.jsxNamesOk = true →
      ConvertSourceFileToESTree fuel sourceFile = Except.ok (r, c) →
      ∀ x, x < c.heap.length → (c.get x).Type_ = ESTreeKind.ChainExpression →
        ∃ e, (c.get x).field "Expression" = Value.node e ∧ e < c.heap.length
          ∧ (c.get e).Type_.isChainLink = true
          ∧ ∀ y, (c.get e).field (chainChildField (c.get e).Type_) = Value.node y →
              y < c.heap.length
              ∧ ((c.get y).Type_ = ESTreeKind.ChainExpression →
                  ∃ ts, c.esTreeNodeToTSNodeMap x = some ts
                    ∧ sourceFile.parenthesised ts = true)) := by
  refine ⟨convertChainExpression_merge, ?_, ?_, ?_⟩
  · intro c c' node data o a hLoc hLink hChild ho h
    have hruns := @runs_chainLink c.sourceFile o.toList node data o hLoc hLink
      hChild (fun p hp => hp)
    unfold Runs at hruns
    exact (hruns c a c' rfl ho h).1
  · intro sourceFile c hr x hx hxt
    have hsf := hr.invariant.1
    have hok := hr.chain_invariant x hx hxt
    rw [hsf] at hok
    exact hok
  · intro fuel sourceFile r c hwf h x hx hxt
    have hr := ConvertSourceFileToESTree_reachable fuel sourceFile hwf r c h
    have hsf := hr.invariant.1
    have hok := hr.chain_invariant x hx hxt
    rw [hsf] at hok
    exact hok

set_option maxHeartbeats 1000000 in
/-- C12 on `a?.b.c`: in the converter where the `MemberExpression` of `.c` is built, at
pointer 5, with the `ChainExpression` of `a?.b` at pointer 3 as `Object`,
`convertChainExpression` makes the access `a?.b` at pointer 2 the `Object` and returns the
new `ChainExpression` at pointer 6; and the converter the conversion of the file ends with
has one chain around the outer access, whose `Object` is no chain. -/
theorem chain_merging_witness :
    (∃ c', convertChainExpression 5 2
          (stateAfter (do
              let o ← converterRec 3 (some 3) none false
              let p ← converterRec 3 (some 6) none false
              createNode 2
                { Type_ := ESTreeKind.MemberExpression
                  Fields := [("Computed", Value.bool false), ("Object", Value.ofOption o),
                             ("Optional", Value.bool false),
                             ("Property", Value.ofOption p)] })
            (converter.init mergedChain)) = Except.ok (6, c')
      ∧ c'.heap.length = 7
      ∧ (c'.get 5).Type_ = ESTreeKind.MemberExpression
      ∧ (c'.get 5).field "Object" = Value.node 2
      ∧ (c'.get 6).Type_ = ESTreeKind.ChainExpression
      ∧ (c'.get 6).field "Expression" = Value.node 5)
    ∧ observe (ConvertSourceFileToESTree 8 mergedChain)
        (fun r c => (r, (c.get 7).field "Expression", (c.get 6).field "Expression",
          (c.get 5).field "Object"))
      = some (some 8, Value.node 6, Value.node 5, Value.node 2)
    ∧ ∀ r c, ConvertSourceFileToESTree 8 mergedChain = Except.ok (r, c) →
        ∃ e, (c.get 6).field "Expression" = Value.node e ∧ e < c.heap.length
          ∧ (c.get e).Type_.isChainLink = true
          ∧ ∀ y, (c.get e).field (chainChildField (c.get e).Type_) = Value.node y →
              y < c.heap.length
              ∧ ((c.get y).Type_ = ESTreeKind.ChainExpression →
                  ∃ ts, c.esTreeNodeToTSNodeMap 6 = some ts
                    ∧ mergedChain.parenthesised ts = true) := by
  refine ⟨?_, by decide!, ?_⟩
  · have hl : (stateAfter (do
          let o ← converterRec 3 (some 3) none false
          let p ← converterRec 3 (some 6) none false
          createNode 2
            { Type_ := ESTreeKind.MemberExpression
              Fields := [("Computed", Value.bool false), ("Object", Value.ofOption o),
                         ("Optional", Value.bool false), ("Property", Value.ofOption p)] })
        (converter.init mergedChain)).heap.length = 6 := by decide!
    have ht : ((stateAfter (do
          let o ← converterRec 3 (some 3) none false
          let p ← converterRec 3 (some 6) none false
          createNode 2
            { Type_ := ESTreeKind.MemberExpression
              Fields := [("Computed", Value.bool false), ("Object", Value.ofOption o),
                         ("Optional", Value.bool false), ("Property", Value.ofOption p)] })
        (converter.init mergedChain)).get 5).Type_ = ESTreeKind.MemberExpression := by
      decide!
    have he : ((stateAfter (do
          let o ← converterRec 3 (some 3) none false
          let p ← converterRec 3 (some 6) none false
          createNode 2
            { Type_ := ESTreeKind.MemberExpression
              Fields := [("Computed", Value.bool false), ("Object", Value.ofOption o),
                         ("Optional", Value.bool false), ("Property", Value.ofOption p)] })
        (converter.init mergedChain)).get 3).field "Expression" = Value.node 2 := by
      decide!
    have key := chain_merging.1
      (stateAfter (do
          let o ← converterRec 3 (some 3) none false
          let p ← converterRec 3 (some 6) none false
          createNode 2
            { Type_ := ESTreeKind.MemberExpression
              Fields := [("Computed", Value.bool false), ("Object", Value.ofOption o),
                         ("Optional", Value.bool false), ("Property", Value.ofOption p)] })
        (converter.init mergedChain)) 5 3 2 3 (by decide!) (by decide!) (by decide!)
      (by decide!) (by decide!) (by decide!)
    rw [ht, he, hl] at key
    exact key
  · intro r c h
    have hobs : observe (ConvertSourceFileToESTree 8 mergedChain)
        (fun _ c => (decide (6 < c.heap.length), (c.get 6).Type_))
        = some (true, ESTreeKind.ChainExpression) := by decide!
    rw [h] at hobs
    simp only [observe, Option.some.injEq, Prod.mk.injEq, decide_eq_true_eq] at hobs
    exact chain_merging.2.2.2 8 mergedChain r c (by decide) h 6 hobs.1 hobs.2

end estree

namespace estree

/-- A link of a chain is no `ChainExpression`. -/
theorem ESTreeKind.isChainLink_ne_chain (t : ESTreeKind) (h : t.isChainLink = true) :
    t ≠ ESTreeKind.ChainExpression := by
  intro ht
  rw [ht] at h
  exact absurd h (by decide)

/-- C13: on a member, call or non-null expression `node` whose object, callee or
expression is the struct `child`, `convertChainExpression(node, tsNode)` returns; what it
returns is a `ChainExpression` whose `Expression` is `node` exactly when `node` carries
`?.` or `child` is a `ChainExpression` and the native sub-expression is not parenthesised;
in every other case it returns `node` and leaves the converter as it was. A
`TSNonNullExpression` is never optional by itself. -/
theorem chain_wrapped_iff (c : converter) (node child : Ptr) (tsNode : ast.NodePtr)
    (hlink : (c.get node).Type_.isChainLink = true)
    (hchild : (c.get node).field (chainChildField (c.get node).Type_) = Value.node child)
    (hexp : (c.get child).Type_ = ESTreeKind.ChainExpression →
      (c.sourceFile.node tsNode).Expression ≠ none) :
    ∃ r c', convertChainExpression node tsNode c = Except.ok (r, c')
      ∧ (((c'.get r).Type_ = ESTreeKind.ChainExpression
            ∧ (c'.get r).field "Expression" = Value.node node)
          ↔ (c.chainOptional node = true ∨ c.chainUnwrappable child tsNode = true))
      ∧ (c.chainOptional node = false → c.chainUnwrappable child tsNode = false →
          r = node ∧ c' = c)
      ∧ ((c.get node).Type_ = ESTreeKind.TSNonNullExpression → c.chainOptional node = false)
      := by
  have hnn : (c.get node).Type_ = ESTreeKind.TSNonNullExpression →
      c.chainOptional node = false := by
    intro h
    simp [converter.chainOptional, h]
  rw [convertChainExpression_eq c node child tsNode hlink hchild hexp]
  by_cases hw : c.chainOptional node = false ∧ c.chainUnwrappable child tsNode = false
  · rw [if_pos hw]
    refine ⟨node, c, rfl, ?_, fun _ _ => ⟨rfl, rfl⟩, hnn⟩
    constructor
    · intro h
      exact absurd h.1 (ESTreeKind.isChainLink_ne_chain _ hlink)
    · intro h
      rcases h with h | h
      · rw [hw.1] at h
        exact absurd h (by decide)
      · rw [hw.2] at h
        exact absurd h (by decide)
  · rw [if_neg hw]
    have hlen : (c.chainMerged node child tsNode).heap.length = c.heap.length := by
      unfold converter.chainMerged
      split <;> simp
    obtain ⟨ht, _⟩ := converter.createNode_new_get (c.chainMerged node child tsNode) tsNode
      { Type_ := ESTreeKind.ChainExpression, Fields := [("Expression", Value.node node)] }
    have hfe := converter.createNode_new_field (c.chainMerged node child tsNode) tsNode
      { Type_ := ESTreeKind.ChainExpression, Fields := [("Expression", Value.node node)] }
      "Expression"
    refine ⟨_, _, rfl, ?_, ?_, hnn⟩
    · have h1 : ((c.chainMerged node child tsNode).new
          { Type_ := ESTreeKind.ChainExpression
            Fields := [("Expression", Value.node node)] }).1
          = (c.chainMerged node child tsNode).heap.length := by simp
      constructor
      · intro _
        by_contra hcon
        push_neg at hcon
        exact hw ⟨by simpa using hcon.1, by simpa using hcon.2⟩
      · intro _
        rw [h1]
        exact ⟨ht, hfe⟩
    · intro h1 h2
      exact absurd ⟨h1, h2⟩ hw

/-- C13 on the access `a?.b` of `a?.b.c`: the `MemberExpression` at pointer 2 carries `?.`,
its `Object` is the identifier at pointer 0, and `convertChainExpression` returns a
`ChainExpression` around it. -/
theorem chain_wrapped_iff_witness :
    ∃ r c', convertChainExpression 2 3
          (stateAfter (do
              let o ← converterRec 3 (some 4) none false
              let p ← converterRec 3 (some 5) none false
              createNode 3
                { Type_ := ESTreeKind.MemberExpression
                  Fields := [("Computed", Value.bool false), ("Object", Value.ofOption o),
                             ("Optional", Value.bool true),
                             ("Property", Value.ofOption p)] })
            (converter.init mergedChain)) = Except.ok (r, c')
      ∧ (c'.get r).Type_ = ESTreeKind.ChainExpression
      ∧ (c'.get r).field "Expression" = Value.node 2 := by
  obtain ⟨r, c', h, hiff, _, _⟩ := chain_wrapped_iff
    (stateAfter (do
        let o ← converterRec 3 (some 4) none false
        let p ← converterRec 3 (some 5) none false
        createNode 3
          { Type_ := ESTreeKind.MemberExpression
            Fields := [("Computed", Value.bool false), ("Object", Value.ofOption o),
                       ("Optional", Value.bool true), ("Property", Value.ofOption p)] })
      (converter.init mergedChain)) 2 0 3 (by decide!) (by decide!)
    (fun _ => by decide!)
  have hopt := hiff.mpr (Or.inl (by decide!))
  exact ⟨r, c', h, hopt.1, hopt.2⟩

end estree

namespace estree

/-- C14: whenever `converter(node, parent, allowPattern)` returns, the converter's
`allowPattern` is what it was before the call, whatever `convertNode` did to it; the node
itself was converted with the flag the caller passed; and for a nil node the converter is
not touched at all. -/
theorem allowPattern_restored
    (convertNode : ast.NodePtr → Option ast.NodePtr → M (Option Ptr))
    (c c' : converter) (node parent : Option ast.NodePtr) (allowPattern : Bool)
    (r : Option Ptr)
    (h : converterF convertNode node parent allowPattern c = Except.ok (r, c')) :
    c'.allowPattern = c.allowPattern
      ∧ (node = none → r = none ∧ c' = c)
      ∧ (∀ n, node = some n →
          ∃ c2, convertNode n (parentOrOwn c.sourceFile n parent)
              { c with allowPattern := allowPattern } = Except.ok (r, c2)) := by
  cases node with
  | none =>
    simp only [converterF, pure, StateT.pure, Except.pure, Except.ok.injEq,
      Prod.mk.injEq] at h
    obtain ⟨h1, h2⟩ := h
    subst h1
    subst h2
    exact ⟨rfl, fun _ => ⟨rfl, rfl⟩, fun n hn => (by cases hn)⟩
  | some n =>
    cases hcn : convertNode n (parentOrOwn c.sourceFile n parent)
        { c with allowPattern := allowPattern } with
    | error e =>
      simp only [converterF, bind, StateT.bind, get, getThe, MonadStateOf.get, StateT.get,
        modify, modifyGet, MonadStateOf.modifyGet, StateT.modifyGet, pure, StateT.pure,
        Except.pure, Except.bind, hcn, reduceCtorEq] at h
    | ok p =>
      obtain ⟨r2, c2⟩ := p
      rw [converterF_ok convertNode c c2 n parent allowPattern r2 hcn] at h
      simp only [Except.ok.injEq, Prod.mk.injEq] at h
      obtain ⟨h1, h2⟩ := h
      subst h1
      subst h2
      refine ⟨rfl, fun hn => (by cases hn), fun m hm => ?_⟩
      cases hm
      exact ⟨c2, hcn⟩

/-- C14 on `[a, b] = c`: the array literal converted as a pattern from a converter whose
flag is clear returns an `ArrayPattern`, and the flag is clear again afterwards. -/
theorem allowPattern_restored_witness :
    ∃ r c', converterF (convertNode 3) (some 3) (some 2) true (converter.init arrayAssignment)
          = Except.ok (some r, c')
      ∧ (c'.get r).Type_ = ESTreeKind.ArrayPattern
      ∧ (converter.init arrayAssignment).allowPattern = false
      ∧ c'.allowPattern = false := by
  have hobs : observe
      (converterF (convertNode 3) (some 3) (some 2) true (converter.init arrayAssignment))
      (fun r c => (r, (c.get 2).Type_)) = some (some 2, ESTreeKind.ArrayPattern) := by
    decide!
  cases h : converterF (convertNode 3) (some 3) (some 2) true
      (converter.init arrayAssignment) with
  | error e =>
    rw [h] at hobs
    exact absurd hobs (by simp [observe])
  | ok p =>
    obtain ⟨r, c'⟩ := p
    rw [h] at hobs
    simp only [observe, Option.some.injEq, Prod.mk.injEq] at hobs
    obtain ⟨hr, ht⟩ := hobs
    subst hr
    exact ⟨2, c', rfl, ht, rfl,
      (allowPattern_restored (convertNode 3) _ c' (some 3) (some 2) true (some 2) h).1⟩

end estree

/-! ## Patterns, type annotations, namespaces and JSX: C15 to C19 -/

namespace estree

/-- The `Range` of a struct just built by `createNode`: the one of the struct literal, and
the default range of the native node for `[0, 0]`. -/
theorem converter.createNode_new_range (c : converter) (node : ast.NodePtr)
    (data : ESTreeNode) :
    (((c.new data).2.createNode node (c.new data).1).2.get c.heap.length).Range
      = if data.Range.1 = 0 ∧ data.Range.2 = 0 then
          ((c.sourceFile.node node).TokenPos, (c.sourceFile.node node).End)
        else data.Range := by
  have h := converter.createNode_get_self (c.new data).2 node (c.new data).1 (by simp)
  rw [converter.get_new_self] at h
  rw [converter.fst_new] at h ⊢
  rw [h]
  simp only [converter.getRange, converter.getNodeStart, converter.sourceFile_new]

/-- A call `c.createNode(node, &X{...})`: the pointer it returns and the converter it
leaves. -/
theorem createNode_run (node : ast.NodePtr) (data : ESTreeNode) (c : converter) :
    ∃ c', createNode node data c = Except.ok (c.heap.length, c')
      ∧ c'.heap.length = c.heap.length + 1
      ∧ c'.sourceFile = c.sourceFile
      ∧ (c'.get c.heap.length).Type_ = data.Type_
      ∧ (∀ name, (c'.get c.heap.length).field name = data.field name)
      ∧ (c'.get c.heap.length).Range
          = (if data.Range.1 = 0 ∧ data.Range.2 = 0 then
              ((c.sourceFile.node node).TokenPos, (c.sourceFile.node node).End)
            else data.Range)
      ∧ (∀ p, p < c.heap.length → c'.get p = c.get p) := by
  refine ⟨((c.new data).2.createNode node (c.new data).1).2,
    congrArg Except.ok (Prod.ext ?_ rfl), ?_, ?_,
    (converter.createNode_new_get c node data).1,
    converter.createNode_new_field c node data,
    converter.createNode_new_range c node data,
    converter.createNode_new_old c node data⟩
  · simp
  · simp
  · simp

/-- A case of `convertNode` that ends with `return c.createNode(node, &X{...})`: the new
struct is the one returned, with the tag and the fields of the literal; everything built
before is kept. -/
theorem createNode_pure_run (node : ast.NodePtr) (data : ESTreeNode) (c : converter) :
    ∃ c', (createNode node data >>= fun p => pure (some p) : M (Option Ptr)) c
          = Except.ok (some c.heap.length, c')
      ∧ c'.heap.length = c.heap.length + 1
      ∧ (c'.get c.heap.length).Type_ = data.Type_
      ∧ (∀ name, (c'.get c.heap.length).field name = data.field name)
      ∧ (∀ p, p < c.heap.length → c'.get p = c.get p)
      ∧ c'.sourceFile = c.sourceFile := by
  refine ⟨((c.new data).2.createNode node (c.new data).1).2,
    congrArg Except.ok (Prod.ext ?_ rfl), ?_,
    (converter.createNode_new_get c node data).1,
    converter.createNode_new_field c node data,
    converter.createNode_new_old c node data, ?_⟩
  · simp
  · simp
  · simp

/-- C15: pattern flag scoping. An array literal converts to an `ArrayPattern` when the
converter's `allowPattern` is set and to an `ArrayExpression` when it is clear, its
elements converted with the same flag; an object literal converts to an `ObjectPattern` or
an `ObjectExpression` in the same way; and an assignment converts its left side with the
flag set and its right side with the flag clear, to an `AssignmentExpression` (an
`AssignmentPattern` where the assignment is itself converted as a pattern). The calls of
`c.converter` are taken as they return. -/
theorem pattern_flag_scoping (conv : Conv) :
    (∀ (c c1 : converter) (node : ast.NodePtr) (parent : Option ast.NodePtr)
        (elements : ast.NodeList) (es : List (Option Ptr)),
      (c.sourceFile.node node).Kind = ast.Kind.ArrayLiteralExpression →
      (c.sourceFile.node node).Elements = some elements →
      Map elements.Nodes (fun e => conv (some e) none c.allowPattern) c = Except.ok (es, c1) →
      ∃ c', convertNodeF conv node parent c = Except.ok (some c1.heap.length, c')
        ∧ (c'.get c1.heap.length).Type_
            = (if c.allowPattern then ESTreeKind.ArrayPattern else ESTreeKind.ArrayExpression)
        ∧ (c'.get c1.heap.length).field "Elements" = Value.ofMapped es)
    ∧ (∀ (c c1 : converter) (node : ast.NodePtr) (parent : Option ast.NodePtr)
        (ps : List Ptr),
      (c.sourceFile.node node).Kind = ast.Kind.ObjectLiteralExpression →
      (if c.allowPattern then
          convertNodeListToChildrenAllowPattern conv (c.sourceFile.node node).Properties
        else convertNodeListToChildren conv (c.sourceFile.node node).Properties) c
        = Except.ok (ps, c1) →
      ∃ c', convertNodeF conv node parent c = Except.ok (some c1.heap.length, c')
        ∧ (c'.get c1.heap.length).Type_
            = (if c.allowPattern then ESTreeKind.ObjectPattern
                else ESTreeKind.ObjectExpression)
        ∧ (c'.get c1.heap.length).field "Properties" = Value.ofPtrs ps)
    ∧ (∀ (c c1 c2 : converter) (node op : ast.NodePtr) (parent : Option ast.NodePtr)
        (l r : Option Ptr),
      (c.sourceFile.node node).Kind = ast.Kind.BinaryExpression →
      (c.sourceFile.node node).OperatorToken = some op →
      (c.sourceFile.node op).Kind ≠ ast.Kind.CommaToken →
      c.sourceFile.IsAssignmentOperator (c.sourceFile.node op).Kind = true →
      conv (c.sourceFile.node node).Left (some node) true c = Except.ok (l, c1) →
      conv (c.sourceFile.node node).Right none false c1 = Except.ok (r, c2) →
      ∃ c', convertNodeF conv node parent c = Except.ok (some c2.heap.length, c')
        ∧ (c'.get c2.heap.length).Type_
            = (if c.allowPattern then ESTreeKind.AssignmentPattern
                else ESTreeKind.AssignmentExpression)
        ∧ (c'.get c2.heap.length).field "Left" = Value.ofOption l
        ∧ (c'.get c2.heap.length).field "Right" = Value.ofOption r) := by
  refine ⟨?_, ?_, ?_⟩
  · intro c c1 node parent elements es hk he hmap
    cases hp : c.allowPattern
    · rw [hp] at hmap
      obtain ⟨c', h, _, ht, hf, _⟩ := createNode_pure_run node
        { Type_ := ESTreeKind.ArrayExpression, Fields := [("Elements", Value.ofMapped es)] } c1
      refine ⟨c', ?_, by rw [ht]; rfl, by rw [hf]; rfl⟩
      rw [← h]
      simp only [convertNodeF, bind, StateT.bind, get, getThe, MonadStateOf.get, StateT.get,
        Except.bind, pure, StateT.pure, Except.pure, hk, he, hp, hmap, Bool.false_eq_true,
        if_false]
    · rw [hp] at hmap
      obtain ⟨c', h, _, ht, hf, _⟩ := createNode_pure_run node
        { Type_ := ESTreeKind.ArrayPattern
          Fields := [("Decorators", Value.list []), ("Elements", Value.ofMapped es),
                     ("Optional", Value.bool false), ("TypeAnnotation", Value.null)] } c1
      refine ⟨c', ?_, by rw [ht]; rfl, by rw [hf]; rfl⟩
      rw [← h]
      simp only [convertNodeF, bind, StateT.bind, get, getThe, MonadStateOf.get, StateT.get,
        Except.bind, pure, StateT.pure, Except.pure, hk, he, hp, hmap, if_true]
  · intro c c1 node parent ps hk hmap
    cases hp : c.allowPattern
    · rw [hp] at hmap
      simp only [Bool.false_eq_true, if_false] at hmap
      obtain ⟨c', h, _, ht, hf, _⟩ := createNode_pure_run node
        { Type_ := ESTreeKind.ObjectExpression, Fields := [("Properties", Value.ofPtrs ps)] } c1
      refine ⟨c', ?_, by rw [ht]; rfl, by rw [hf]; rfl⟩
      rw [← h]
      simp only [convertNodeF, convertObjectLiteralExpression, bind, StateT.bind, get, getThe,
        MonadStateOf.get, StateT.get, Except.bind, pure, StateT.pure, Except.pure, hk, hp,
        hmap, Bool.false_eq_true, if_false]
    · rw [hp] at hmap
      simp only [if_true] at hmap
      obtain ⟨c', h, _, ht, hf, _⟩ := createNode_pure_run node
        { Type_ := ESTreeKind.ObjectPattern
          Fields := [("Decorators", Value.list []), ("Optional", Value.bool false),
                     ("Properties", Value.ofPtrs ps), ("TypeAnnotation", Value.null)] } c1
      refine ⟨c', ?_, by rw [ht]; rfl, by rw [hf]; rfl⟩
      rw [← h]
      simp only [convertNodeF, convertObjectLiteralExpression, bind, StateT.bind, get, getThe,
        MonadStateOf.get, StateT.get, Except.bind, pure, StateT.pure, Except.pure, hk, hp,
        hmap, if_true]
  · intro c c1 c2 node op parent l r hk hop hcomma hassign hl hr
    cases hp : c.allowPattern
    · obtain ⟨c', h, _, ht, hf, _⟩ := createNode_pure_run node
        { Type_ := ESTreeKind.AssignmentExpression
          Fields := [("Left", Value.ofOption l),
                     ("Operator",
                       Value.str (c.sourceFile.TokenToString (c.sourceFile.node op).Kind)),
                     ("Right", Value.ofOption r)] } c2
      refine ⟨c', ?_, by rw [ht]; rfl, by rw [hf]; rfl, by rw [hf]; rfl⟩
      rw [← h]
      simp only [convertNodeF, convertBinaryExpression, kindOf, bind, StateT.bind, get, getThe,
        MonadStateOf.get, StateT.get, Except.bind, pure, StateT.pure, Except.pure, hk, hop, hp,
        hcomma, hassign, hl, hr, Bool.false_eq_true, if_false, if_true]
    · obtain ⟨c', h, _, ht, hf, _⟩ := createNode_pure_run node
        { Type_ := ESTreeKind.AssignmentPattern
          Fields := [("Decorators", Value.list []), ("Left", Value.ofOption l),
                     ("Optional", Value.bool false), ("Right", Value.ofOption r),
                     ("TypeAnnotation", Value.null)] } c2
      refine ⟨c', ?_, by rw [ht]; rfl, by rw [hf]; rfl, by rw [hf]; rfl⟩
      rw [← h]
      simp only [convertNodeF, convertBinaryExpression, kindOf, bind, StateT.bind, get, getThe,
        MonadStateOf.get, StateT.get, Except.bind, pure, StateT.pure, Except.pure, hk, hop, hp,
        hcomma, hassign, hl, hr, if_false, if_true]

set_option maxHeartbeats 1000000 in
/-- C15 on `[a, b] = c` and on `[a, b]`: the assignment converts, with the flag clear, to an
`AssignmentExpression` whose `Left`, converted with the flag set, is an `ArrayPattern` and
whose `Right` is the identifier; the array literal alone converts to an
`ArrayExpression`. -/
theorem pattern_flag_scoping_witness :
    (∃ c', convertNodeF (converterRec 4) 2 (some 1) (converter.init arrayAssignment)
          = Except.ok (some 4, c')
      ∧ (c'.get 4).Type_ = ESTreeKind.AssignmentExpression
      ∧ (c'.get 4).field "Left" = Value.node 2
      ∧ (c'.get 2).Type_ = ESTreeKind.ArrayPattern
      ∧ (c'.get 4).field "Right" = Value.node 3
      ∧ (c'.get 3).Type_ = ESTreeKind.Identifier)
    ∧ (∃ c', convertNodeF (converterRec 4) 2 (some 1) (converter.init arrayAlone)
          = Except.ok (some 2, c')
      ∧ (c'.get 2).Type_ = ESTreeKind.ArrayExpression
      ∧ (c'.get 2).field "Elements" = Value.list [some 0, some 1])
    ∧ observe (ConvertSourceFileToESTree 8 arrayAssignment)
        (fun r c => (r, (c.get 4).Type_, (c.get 4).field "Left", (c.get 2).Type_))
      = some (some 6, ESTreeKind.AssignmentExpression, Value.node 2, ESTreeKind.ArrayPattern)
    ∧ observe (ConvertSourceFileToESTree 8 arrayAlone) (fun r c => (r, (c.get 2).Type_))
      = some (some 4, ESTreeKind.ArrayExpression) := by
  refine ⟨?_, ?_, by decide!, by decide!⟩
  · obtain ⟨c', h, ht, hl, hr⟩ := (pattern_flag_scoping (converterRec 4)).2.2
      (converter.init arrayAssignment)
      (stateAfter (converterRec 4 (some 3) (some 2) true) (converter.init arrayAssignment))
      (stateAfter (converterRec 4 (some 7) none false)
        (stateAfter (converterRec 4 (some 3) (some 2) true) (converter.init arrayAssignment)))
      2 6 (some 1) (some 2) (some 3) rfl rfl (by decide!) (by decide!)
      (run_eq_of_valueOf (converterRec 4 (some 3) (some 2) true)
        (converter.init arrayAssignment) (some 2) (by decide!))
      (run_eq_of_valueOf (converterRec 4 (some 7) none false)
        (stateAfter (converterRec 4 (some 3) (some 2) true) (converter.init arrayAssignment))
        (some 3) (by decide!))
    have hobs : observe
        (convertNodeF (converterRec 4) 2 (some 1) (converter.init arrayAssignment))
        (fun _ c => ((c.get 2).Type_, (c.get 3).Type_))
        = some (ESTreeKind.ArrayPattern, ESTreeKind.Identifier) := by decide!
    have hlen : (stateAfter (converterRec 4 (some 7) none false)
        (stateAfter (converterRec 4 (some 3) (some 2) true)
          (converter.init arrayAssignment))).heap.length = 4 := by decide!
    rw [hlen] at h ht hl hr
    rw [h] at hobs
    simp only [observe, Option.some.injEq, Prod.mk.injEq] at hobs
    exact ⟨c', h, ht, hl, hobs.1, hr, hobs.2⟩
  · obtain ⟨c', h, ht, he⟩ := (pattern_flag_scoping (converterRec 4)).1
      (converter.init arrayAlone)
      (stateAfter (Map [3, 4] (fun e => converterRec 4 (some e) none false))
        (converter.init arrayAlone))
      2 (some 1) { Pos := 1, End := 5, Nodes := [3, 4] } [some 0, some 1] rfl rfl
      (run_eq_of_valueOf (Map [3, 4] (fun e => converterRec 4 (some e) none false))
        (converter.init arrayAlone) [some 0, some 1] (by decide!))
    have hlen : (stateAfter (Map [3, 4] (fun e => converterRec 4 (some e) none false))
        (converter.init arrayAlone)).heap.length = 2 := by decide!
    rw [hlen] at h ht he
    exact ⟨c', h, ht, he⟩

end estree

namespace estree

/-- Go `convertTypeAnnotation` on a type: the struct it builds. -/
theorem convertTypeAnnotation_run (conv : Conv) (c c1 : converter) (child : ast.NodePtr)
    (parent : Option ast.NodePtr) (inner : Option Ptr)
    (h1 : conv (some child) none false c = Except.ok (inner, c1)) :
    ∃ c', convertTypeAnnotation conv (some child) parent c
          = Except.ok (some c1.heap.length, c')
      ∧ c'.heap.length = c1.heap.length + 1
      ∧ (c'.get c1.heap.length).Type_ = ESTreeKind.TSTypeAnnotation
      ∧ (c'.get c1.heap.length).Fields = [("TypeAnnotation", Value.ofOption inner)]
      ∧ (c'.get c1.heap.length).Range
          = ((c.sourceFile.node child).Pos - typeAnnotationOffset c.sourceFile parent,
              (c.sourceFile.node child).End)
      ∧ (∀ p, p < c1.heap.length → c'.get p = c1.get p) := by
  have hrun : convertTypeAnnotation conv (some child) parent c
      = Except.ok (some c1.heap.length,
          ((c1.new { Type_ := ESTreeKind.TSTypeAnnotation
                     Fields := [("TypeAnnotation", Value.ofOption inner)] }).2.setRange
              c1.heap.length
              ((c.sourceFile.node child).Pos - typeAnnotationOffset c.sourceFile parent,
                (c.sourceFile.node child).End)).setLoc c1.heap.length
            (((c1.new { Type_ := ESTreeKind.TSTypeAnnotation
                        Fields := [("TypeAnnotation", Value.ofOption inner)] }).2.setRange
                c1.heap.length
                ((c.sourceFile.node child).Pos - typeAnnotationOffset c.sourceFile parent,
                  (c.sourceFile.node child).End)).getLocFor
              ((c.sourceFile.node child).Pos - typeAnnotationOffset c.sourceFile parent,
                (c.sourceFile.node child).End))) := by
    cases parent <;>
    simp only [ convertTypeAnnotation, typeAnnotationOffset, newNode, bind, StateT.bind, get,
      getThe, MonadStateOf.get, StateT.get, modify, modifyGet, MonadStateOf.modifyGet,
      StateT.modifyGet, pure, StateT.pure, Except.pure, Except.bind, h1, converter.fst_new]
  have hself := converter.get_new_self c1
    { Type_ := ESTreeKind.TSTypeAnnotation
      Fields := [("TypeAnnotation", Value.ofOption inner)] }
  rw [converter.fst_new] at hself
  refine ⟨_, hrun, by simp, ?_, ?_, ?_, ?_⟩
  · rw [converter.get_setLoc, converter.get_setRange]
    simp only [converter.length_setRange, converter.length_new, Nat.lt_succ_self, and_self,
      if_true, hself]
  · rw [converter.get_setLoc, converter.get_setRange]
    simp only [converter.length_setRange, converter.length_new, Nat.lt_succ_self, and_self,
      if_true, hself]
  · rw [converter.get_setLoc, converter.get_setRange]
    simp only [converter.length_setRange, converter.length_new, Nat.lt_succ_self, and_self,
      if_true, hself]
  · intro p hp
    have hne : ¬((c1.heap.length : Nat) = p ∧ c1.heap.length < c1.heap.length + 1) :=
      fun h => absurd h.1 (Nat.ne_of_gt hp)
    rw [converter.get_setLoc]
    simp only [converter.length_setRange, converter.length_new, hne, if_false]
    rw [converter.get_setRange]
    simp only [converter.length_new, hne, if_false]
    exact converter.get_new_old _ _ _ hp

/-- The fix for type guards: the annotation takes the `Range` and the `Loc` of the type it
holds. -/
theorem typeGuardAnnotation_run (conv : Conv) (c c1 : converter) (ty node : ast.NodePtr)
    (inner : Ptr) (h1 : conv (some ty) none false c = Except.ok (some inner, c1))
    (hin : inner < c1.heap.length) :
    ∃ c', typeGuardAnnotation conv (some ty) node c = Except.ok (some c1.heap.length, c')
      ∧ (c'.get c1.heap.length).Type_ = ESTreeKind.TSTypeAnnotation
      ∧ (c'.get c1.heap.length).field "TypeAnnotation" = Value.node inner
      ∧ (c'.get c1.heap.length).Range = (c1.get inner).Range
      ∧ (c'.get c1.heap.length).Loc = (c1.get inner).Loc
      ∧ c'.get inner = c1.get inner := by
  obtain ⟨c2, hrun, hlen, hty, hfs, _, hold⟩ :=
    convertTypeAnnotation_run conv c c1 ty (some node) (some inner) h1
  have hfield : (c2.get c1.heap.length).field "TypeAnnotation" = Value.node inner := by
    unfold ESTreeNode.field
    rw [hfs]
    rfl
  have hne : ¬((c1.heap.length : Nat) = inner ∧ c1.heap.length < c2.heap.length) :=
    fun h => absurd h.1 (Nat.ne_of_gt hin)
  have hself : ((c1.heap.length : Nat) = c1.heap.length ∧ c1.heap.length < c2.heap.length) :=
    ⟨rfl, by rw [hlen]; exact Nat.lt_succ_self _⟩
  have hrun2 : typeGuardAnnotation conv (some ty) node c
      = Except.ok (some c1.heap.length,
          (c2.setLoc c1.heap.length (c2.get inner).Loc).setRange c1.heap.length
            ((c2.setLoc c1.heap.length (c2.get inner).Loc).get inner).Range) := by
    simp only [ typeGuardAnnotation, deref, bind, StateT.bind, get, getThe, MonadStateOf.get,
      StateT.get, modify, modifyGet, MonadStateOf.modifyGet, StateT.modifyGet, pure,
      StateT.pure, Except.pure, Except.bind, hrun, hfield]
  have hin2 : (c2.setLoc c1.heap.length (c2.get inner).Loc).get inner = c1.get inner := by
    rw [converter.get_setLoc]
    simp only [hne, if_false]
    exact hold inner hin
  have hann : (c2.setLoc c1.heap.length (c2.get inner).Loc).get c1.heap.length
      = { c2.get c1.heap.length with Loc := (c1.get inner).Loc } := by
    rw [converter.get_setLoc]
    simp only [hself, and_self, if_true, hold inner hin]
  refine ⟨_, hrun2, ?_, ?_, ?_, ?_, ?_⟩
  · rw [converter.get_setRange]
    simp only [converter.length_setLoc, hself, and_self, if_true, hann, hty]
  · rw [converter.get_setRange]
    simp only [converter.length_setLoc, hself, and_self, if_true, hann]
    exact hfield
  · rw [converter.get_setRange]
    simp only [converter.length_setLoc, hself, and_self, if_true, hin2]
  · rw [converter.get_setRange]
    simp only [converter.length_setLoc, hself, and_self, if_true, hann]
  · rw [converter.get_setRange]
    simp only [converter.length_setLoc, hne, if_false]
    exact hin2

/-- C16 as stated fails on `function f(x): x is any {}`: in the tree returned for the file
the `TSTypePredicate` at pointer 4 holds the `TSTypeAnnotation` at pointer 2, whose type is
the `TSAnyKeyword` at pointer 1, converted from native node 7; the annotation's `Range` is
`[20, 23]`, the `Range` of the type itself, and neither `type.Pos() - 1 = 18` nor
`type.Pos() - 2 = 17` is its start. -/
theorem typeAnnotation_range_counterexample :
    observe (ConvertSourceFileToESTree 8 typePredicateFunction)
        (fun r c => (r, (c.get 4).Type_, (c.get 4).field "TypeAnnotation", (c.get 2).Type_))
      = some (some 9, ESTreeKind.TSTypePredicate, Value.node 2, ESTreeKind.TSTypeAnnotation)
    ∧ observe (ConvertSourceFileToESTree 8 typePredicateFunction)
        (fun _ c => ((c.get 2).field "TypeAnnotation", c.esTreeNodeToTSNodeMap 1,
          (c.get 2).Range, (c.get 1).Range))
      = some (Value.node 1, some 7, (20, 23), (20, 23))
    ∧ (typePredicateFunction.node 7).Pos - 1 = 18
    ∧ (typePredicateFunction.node 7).Pos - 2 = 17
    ∧ (typePredicateFunction.node 7).End = 23 := by
  refine ⟨by decide!, by decide!, by decide!, by decide!, by decide!⟩

/-- C16, amended: `convertTypeAnnotation` returns nil when there is no type, leaving the
converter as it is; on a type it returns a new `TSTypeAnnotation` around the converted type
with `Range = [type.Pos() - offset, type.End()]`, `offset` being 2 under a function type or
constructor type and 1 elsewhere; and in case `KindTypePredicate` the annotation is then
given the `Range` and the `Loc` of the type it holds. The call of `c.converter` on the type
is taken as it returns. -/
theorem typeAnnotation_range (conv : Conv) :
    (∀ (parent : Option ast.NodePtr) (c : converter),
      convertTypeAnnotation conv none parent c = Except.ok (none, c))
    ∧ (∀ (c c1 : converter) (child : ast.NodePtr) (parent : Option ast.NodePtr)
        (inner : Option Ptr),
      conv (some child) none false c = Except.ok (inner, c1) →
      ∃ c', convertTypeAnnotation conv (some child) parent c
            = Except.ok (some c1.heap.length, c')
        ∧ (c'.get c1.heap.length).Type_ = ESTreeKind.TSTypeAnnotation
        ∧ (c'.get c1.heap.length).field "TypeAnnotation" = Value.ofOption inner
        ∧ (c'.get c1.heap.length).Range
            = ((c.sourceFile.node child).Pos - typeAnnotationOffset c.sourceFile parent,
                (c.sourceFile.node child).End))
    ∧ (∀ (c c1 : converter) (ty node : ast.NodePtr) (inner : Ptr),
      conv (some ty) none false c = Except.ok (some inner, c1) → inner < c1.heap.length →
      ∃ c', typeGuardAnnotation conv (some ty) node c = Except.ok (some c1.heap.length, c')
        ∧ (c'.get c1.heap.length).Type_ = ESTreeKind.TSTypeAnnotation
        ∧ (c'.get c1.heap.length).field "TypeAnnotation" = Value.node inner
        ∧ (c'.get c1.heap.length).Range = (c1.get inner).Range
        ∧ (c'.get c1.heap.length).Loc = (c1.get inner).Loc
        ∧ c'.get inner = c1.get inner)
    ∧ (∀ (node ty : ast.NodePtr) (c : converter),
      (c.sourceFile.node node).Type_ = some ty →
      convertTypePredicate conv node c
        = (do
            let typeAnnotation ← typeGuardAnnotation conv (some ty) node
            let parameterName ← conv (c.sourceFile.node node).ParameterName none false
            let p ← createNode node
              { Type_ := ESTreeKind.TSTypePredicate
                Fields := [("Asserts",
                             Value.bool (c.sourceFile.node node).AssertsModifier.isSome),
                           ("ParameterName", Value.ofOption parameterName),
                           ("TypeAnnotation", Value.ofOption typeAnnotation)] }
            pure (some p) : M (Option Ptr)) c) := by
  refine ⟨fun _ _ => rfl, ?_, typeGuardAnnotation_run conv, ?_⟩
  · intro c c1 child parent inner h1
    obtain ⟨c', h, _, hty, hfs, hr, _⟩ := convertTypeAnnotation_run conv c c1 child parent inner h1
    refine ⟨c', h, hty, ?_, hr⟩
    unfold ESTreeNode.field
    rw [hfs]
    rfl
  · intro node ty c hty
    simp only [convertTypePredicate, typeGuardAnnotation, bind, StateT.bind, get, getThe,
      MonadStateOf.get, StateT.get, Except.bind, pure, Except.pure, StateT.pure, hty]
    try rfl

set_option maxHeartbeats 1000000 in
/-- C16, amended, on `function f(x): x is any {}`: the return type of the function converts
to a `TSTypeAnnotation` that starts at the colon, `[13, 23]`, and the annotation of the type
guard gets the `Range` of `any`, `[20, 23]`. -/
theorem typeAnnotation_range_witness :
    (∃ c', convertTypeAnnotation (converterRec 6) (some 5) (some 1)
          (converter.init typePredicateFunction) = Except.ok (some 4, c')
      ∧ (c'.get 4).Type_ = ESTreeKind.TSTypeAnnotation
      ∧ (c'.get 4).field "TypeAnnotation" = Value.node 3
      ∧ (c'.get 4).Range = (13, 23))
    ∧ (∃ c', typeGuardAnnotation (converterRec 6) (some 7) 5
          (converter.init typePredicateFunction) = Except.ok (some 1, c')
      ∧ (c'.get 1).Type_ = ESTreeKind.TSTypeAnnotation
      ∧ (c'.get 1).field "TypeAnnotation" = Value.node 0
      ∧ (c'.get 1).Range = (20, 23)) := by
  constructor
  · obtain ⟨c', h, ht, hf, hr⟩ := (typeAnnotation_range (converterRec 6)).2.1
      (converter.init typePredicateFunction)
      (stateAfter (converterRec 6 (some 5) none false) (converter.init typePredicateFunction))
      5 (some 1) (some 3)
      (run_eq_of_valueOf (converterRec 6 (some 5) none false)
        (converter.init typePredicateFunction) (some 3) (by decide!))
    have hlen : (stateAfter (converterRec 6 (some 5) none false)
        (converter.init typePredicateFunction)).heap.length = 4 := by decide!
    rw [hlen] at h ht hf hr
    exact ⟨c', h, ht, hf, hr.trans (by decide!)⟩
  · obtain ⟨c', h, ht, hf, hr, _⟩ := (typeAnnotation_range (converterRec 6)).2.2.1
      (converter.init typePredicateFunction)
      (stateAfter (converterRec 6 (some 7) none false) (converter.init typePredicateFunction))
      7 5 0
      (run_eq_of_valueOf (converterRec 6 (some 7) none false)
        (converter.init typePredicateFunction) (some 0) (by decide!)) (by decide!)
    have hlen : (stateAfter (converterRec 6 (some 7) none false)
        (converter.init typePredicateFunction)).heap.length = 1 := by decide!
    rw [hlen] at h ht hf hr
    exact ⟨c', h, ht, hf, hr.trans (by decide!)⟩

end estree

namespace estree

/-- A name of the specification is read off the structs built up to it. -/
theorem converter.isQualifiedName_frame (c c' : converter) (start : Int) :
    ∀ (names : List String) (p : Ptr), (∀ q, q ≤ p → c'.get q = c.get q) →
      c.isQualifiedName start names p = true → c'.isQualifiedName start names p = true := by
  intro names
  induction names with
  | nil =>
    intro p _ h
    simp [converter.isQualifiedName] at h
  | cons name rest ih =>
    intro p hfr h
    cases rest with
    | nil =>
      simp only [converter.isQualifiedName] at h ⊢
      rw [hfr p (le_refl p)]
      exact h
    | cons next rest =>
      simp only [converter.isQualifiedName] at h ⊢
      rw [hfr p (le_refl p)]
      cases hL : (c.get p).field "Left" <;> cases hR : (c.get p).field "Right" <;>
        simp only [hL, hR, Bool.and_false, Bool.false_eq_true] at h ⊢
      rename_i l r
      simp only [Bool.and_eq_true, decide_eq_true_eq] at h ⊢
      obtain ⟨⟨ht, hs⟩, ⟨⟨⟨⟨⟨hl, hr⟩, htr⟩, hnr⟩, hrr⟩, hrec⟩⟩ := h
      rw [hfr r (le_of_lt hr)]
      exact ⟨⟨ht, hs⟩, ⟨⟨⟨⟨⟨hl, hr⟩, htr⟩, hnr⟩, hrr⟩,
        ih l (fun q hq => hfr q (le_trans hq (le_of_lt hl))) hrec⟩⟩

/-- A name of the specification starts at `start`. -/
theorem converter.isQualifiedName_start (c : converter) (start : Int) (names : List String)
    (p : Ptr) (h : c.isQualifiedName start names p = true) : (c.get p).Range.1 = start := by
  cases names with
  | nil => simp [converter.isQualifiedName] at h
  | cons name rest =>
    cases rest with
    | nil =>
      simp only [converter.isQualifiedName, Bool.and_eq_true, beq_iff_eq] at h
      exact h.2
    | cons next rest =>
      simp only [converter.isQualifiedName, Bool.and_eq_true, beq_iff_eq] at h
      exact h.1.2

/-- The loop of case `KindModuleDeclaration` over a chain of nested module declarations:
with more fuel than the chain is long it returns the innermost declaration, `isDeclare`
joined with the `declare` of each level, and the name built so far extended by one
`TSQualifiedName` for each level. -/
theorem unravelModuleDeclarations_run :
    ∀ (rest : List (ast.NodePtr × ast.NodePtr)) (fuel : Nat) (n : ast.NodePtr)
      (isDeclare : Bool) (nameRes : Ptr) (c : converter) (start : Int) (names : List String),
      rest.length < fuel →
      c.sourceFile.isModuleChain n rest = true →
      (∀ x ∈ rest, (c.sourceFile.node x.2).End ≠ 0) →
      nameRes < c.heap.length →
      c.isQualifiedName start names nameRes = true →
      ∃ p c', unravelModuleDeclarations fuel n isDeclare nameRes c
          = Except.ok ((innermostModule n rest,
              isDeclare
                || rest.any (fun x => hasModifier c.sourceFile ast.Kind.DeclareKeyword x.1),
              p), c')
        ∧ p < c'.heap.length
        ∧ c'.isQualifiedName start
            ((rest.map (fun x => (c.sourceFile.node x.2).Text)).reverse ++ names) p = true
        ∧ c'.sourceFile = c.sourceFile
        ∧ c.heap.length ≤ c'.heap.length
        ∧ ∀ q, q < c.heap.length → c'.get q = c.get q := by
  intro rest
  induction rest with
  | nil =>
    intro fuel n isDeclare nameRes c start names hfuel hchain _ hlt hname
    cases fuel with
    | zero => exact absurd hfuel (Nat.lt_irrefl _)
    | succ fuel =>
      refine ⟨nameRes, c, ?_, hlt, by simpa using hname, rfl, le_refl _, fun _ _ => rfl⟩
      simp only [ast.SourceFile.isModuleChain] at hchain
      simp only [unravelModuleDeclarations, bind, StateT.bind, get, getThe, MonadStateOf.get,
        StateT.get, Except.bind, pure, StateT.pure, Except.pure, innermostModule, List.any_nil,
        Bool.or_false]
      cases hB : (c.sourceFile.node n).Body with
      | none => rfl
      | some body =>
        rw [hB] at hchain
        simp only []
        by_cases hk : (c.sourceFile.node body).Kind = ast.Kind.ModuleDeclaration
        · simp only [hk, if_true]
          cases hN : (c.sourceFile.node body).Name with
          | none => rfl
          | some nm =>
            simp [hk, hN] at hchain
        · simp only [hk, if_false]
          rfl
  | cons x rest ih =>
    intro fuel n isDeclare nameRes c start names hfuel hchain hend hlt hname
    obtain ⟨m, nm⟩ := x
    cases fuel with
    | zero => exact absurd hfuel (Nat.not_lt_zero _)
    | succ fuel =>
      simp only [ast.SourceFile.isModuleChain, Bool.and_eq_true, beq_iff_eq] at hchain
      obtain ⟨⟨⟨hB, hK⟩, hN⟩, hrest⟩ := hchain
      have hstart := c.isQualifiedName_start start names nameRes hname
      obtain ⟨cA, hA, hlenA, hsfA, htA, hfA, hrA, holdA⟩ := createNode_run nm
        { Type_ := ESTreeKind.Identifier
          Fields := [("Decorators", Value.list []),
                     ("Name", Value.str (c.sourceFile.node nm).Text),
                     ("Optional", Value.bool false), ("TypeAnnotation", Value.null)] } c
      obtain ⟨cB, hB2, hlenB, hsfB, htB, hfB, hrB, holdB⟩ := createNode_run nm
        { Type_ := ESTreeKind.TSQualifiedName
          Range := ((cA.get nameRes).Range.1, (cA.get c.heap.length).Range.2)
          Fields := [("Left", Value.node nameRes), ("Right", Value.node c.heap.length)] } cA
      have hnmEnd : (c.sourceFile.node nm).End ≠ 0 := hend (m, nm) (List.mem_cons_self _ _)
      have hrA2 : (cA.get c.heap.length).Range
          = ((c.sourceFile.node nm).TokenPos, (c.sourceFile.node nm).End) := by
        rw [hrA]
        simp
      have hrB2 : (cB.get cA.heap.length).Range
          = (start, (c.sourceFile.node nm).End) := by
        rw [hrB, holdA nameRes hlt, hstart, hrA2]
        simp [hnmEnd]
      have hLA : (c.heap.length : Nat) < cA.heap.length := by
        rw [hlenA]
        exact Nat.lt_succ_self _
      have hnameB : cB.isQualifiedName start ((c.sourceFile.node nm).Text :: names)
          cA.heap.length = true := by
        have hprev : cB.isQualifiedName start names nameRes = true := by
          apply converter.isQualifiedName_frame c cB start names nameRes _ hname
          intro q hq
          have hq1 : q < c.heap.length := lt_of_le_of_lt hq hlt
          rw [holdB q (lt_trans hq1 hLA), holdA q hq1]
        cases names with
        | nil => simp [converter.isQualifiedName] at hname
        | cons next more =>
          have hL : (cB.get cA.heap.length).field "Left" = Value.node nameRes := by
            rw [hfB]
            rfl
          have hR : (cB.get cA.heap.length).field "Right" = Value.node c.heap.length := by
            rw [hfB]
            rfl
          have hNm : (cA.get c.heap.length).field "Name"
              = Value.str (c.sourceFile.node nm).Text := by
            rw [hfA]
            rfl
          have htB2 : (cB.get cA.heap.length).Type_ = ESTreeKind.TSQualifiedName := htB
          have htA2 : (cA.get c.heap.length).Type_ = ESTreeKind.Identifier := htA
          simp only [converter.isQualifiedName, htB2, hL, hR, hrB2, Bool.and_eq_true,
            beq_iff_eq, decide_eq_true_eq, holdB c.heap.length hLA, htA2, hNm, hrA2, hprev,
            and_true, true_and]
          exact ⟨lt_trans hlt hLA, hLA⟩
      obtain ⟨p, c', hrun, hp, hq, hsf, hle, hold⟩ := ih fuel m
        (isDeclare || hasModifier c.sourceFile ast.Kind.DeclareKeyword m) cA.heap.length cB start
        ((c.sourceFile.node nm).Text :: names) (Nat.lt_of_succ_lt_succ hfuel)
        (by rw [hsfB, hsfA]; exact hrest)
        (by
          intro x hx
          rw [hsfB, hsfA]
          exact hend x (List.mem_cons_of_mem _ hx))
        (by rw [hlenB]; exact Nat.lt_succ_self _) hnameB
      rw [hsfB, hsfA] at hrun hq hsf
      refine ⟨p, c', ?_, hp, ?_, hsf, ?_, ?_⟩
      · simp only [unravelModuleDeclarations, bind, StateT.bind, get, getThe,
          MonadStateOf.get, StateT.get, Except.bind, pure, StateT.pure, Except.pure, hB, hK,
          hN, if_true, hA, hB2, hrun, innermostModule, List.any_cons, Bool.or_assoc]
      · simpa [List.map_cons, List.reverse_cons, List.append_assoc] using hq
      · rw [hlenB, hlenA] at hle
        exact le_trans (Nat.le_add_right _ 2) hle
      · intro q hq1
        rw [hold q (by rw [hlenB]; exact lt_trans (lt_trans hq1 hLA) (Nat.lt_succ_self _)),
          holdB q (lt_trans hq1 hLA), holdA q hq1]

/-- The name case `KindModuleDeclaration` builds for a chain of nested module declarations
with identifier names. -/
theorem moduleDeclarationName_run (conv : Conv) (c : converter) (node name : ast.NodePtr)
    (rest : List (ast.NodePtr × ast.NodePtr))
    (hglobal : (c.sourceFile.node node).IsGlobalScopeAugmentation = false)
    (hname : (c.sourceFile.node node).Name = some name)
    (hkind : (c.sourceFile.node name).Kind ≠ ast.Kind.StringLiteral)
    (hchain : c.sourceFile.isModuleChain node rest = true)
    (hlen : rest.length ≤ c.sourceFile.Nodes.length)
    (hend : ∀ x ∈ rest, (c.sourceFile.node x.2).End ≠ 0) :
    ∃ p c', moduleDeclarationName conv node c
        = Except.ok ((some p,
            if (c.sourceFile.node (innermostModule node rest)).Keyword
                = ast.Kind.NamespaceKeyword then "namespace" else "module",
            innermostModule node rest,
            hasModifier c.sourceFile ast.Kind.DeclareKeyword node
              || rest.any (fun x => hasModifier c.sourceFile ast.Kind.DeclareKeyword x.1)), c')
      ∧ p < c'.heap.length
      ∧ c'.isQualifiedName (c.sourceFile.node name).TokenPos
          (((c.sourceFile.node name).Text
            :: rest.map (fun x => (c.sourceFile.node x.2).Text)).reverse) p = true
      ∧ c'.sourceFile = c.sourceFile
      ∧ (∀ q, q < c.heap.length → c'.get q = c.get q) := by
  obtain ⟨cA, hA, hlenA, hsfA, htA, hfA, hrA, holdA⟩ := createNode_run name
    { Type_ := ESTreeKind.Identifier
      Fields := [("Decorators", Value.list []),
                 ("Name", Value.str (c.sourceFile.node name).Text),
                 ("Optional", Value.bool false), ("TypeAnnotation", Value.null)] } c
  have hNm : (cA.get c.heap.length).field "Name"
      = Value.str (c.sourceFile.node name).Text := by
    rw [hfA]
    rfl
  have htA2 : (cA.get c.heap.length).Type_ = ESTreeKind.Identifier := htA
  have hrA2 : (cA.get c.heap.length).Range
      = ((c.sourceFile.node name).TokenPos, (c.sourceFile.node name).End) := by
    rw [hrA]
    simp
  have hnameA : cA.isQualifiedName (c.sourceFile.node name).TokenPos
      [(c.sourceFile.node name).Text] c.heap.length = true := by
    simp only [converter.isQualifiedName, htA2, hNm, hrA2, beq_self_eq_true, Bool.and_self]
  obtain ⟨p, c', hrun, hp, hq, hsf, hle, hold⟩ := unravelModuleDeclarations_run rest
    (c.sourceFile.Nodes.length + 1) node
    (hasModifier c.sourceFile ast.Kind.DeclareKeyword node) c.heap.length cA
    (c.sourceFile.node name).TokenPos [(c.sourceFile.node name).Text]
    (Nat.lt_succ_of_le hlen) (by rw [hsfA]; exact hchain)
    (by
      intro x hx
      rw [hsfA]
      exact hend x hx)
    (by rw [hlenA]; exact Nat.lt_succ_self _) hnameA
  rw [hsfA] at hrun hq hsf
  refine ⟨p, c', ?_, hp, ?_, hsf, ?_⟩
  · simp only [moduleDeclarationName, kindOf, nonNil, bind, StateT.bind, get, getThe,
      MonadStateOf.get, StateT.get, Except.bind, pure, StateT.pure, Except.pure, hglobal,
      hname, hkind, Bool.false_eq_true, if_false, hA, hrun]
  · simpa [List.reverse_cons] using hq
  · intro q hq1
    rw [hold q (by rw [hlenA]; exact Nat.lt_succ_of_lt hq1), holdA q hq1]

/-- Case `KindModuleDeclaration` after the name: the body of the innermost declaration is
converted, and the `TSModuleDeclaration` built from both goes to `fixExports`. -/
theorem convertModuleDeclaration_run (conv : Conv) (c c2 c3 : converter)
    (node inner : ast.NodePtr) (id body : Option Ptr) (kind : String) (isDeclare : Bool)
    (hname : moduleDeclarationName conv node c = Except.ok ((id, kind, inner, isDeclare), c2))
    (hbody : convertChildT conv ESTreeKind.TSModuleBlock (c.sourceFile.node inner).Body none c2
      = Except.ok (body, c3)) :
    ∃ c4, convertModuleDeclaration conv node c
        = (some <$> fixExports node c3.heap.length : M (Option Ptr)) c4
      ∧ c4.heap.length = c3.heap.length + 1
      ∧ (c4.get c3.heap.length).Type_ = ESTreeKind.TSModuleDeclaration
      ∧ (c4.get c3.heap.length).field "Id" = Value.ofOption id
      ∧ (c4.get c3.heap.length).field "Body" = Value.ofOption body
      ∧ (c4.get c3.heap.length).field "Declare" = Value.bool isDeclare
      ∧ (c4.get c3.heap.length).field "Kind" = Value.str kind
      ∧ (∀ q, q < c3.heap.length → c4.get q = c3.get q) := by
  obtain ⟨c4, h4, hlen4, _, ht4, hf4, _, hold4⟩ := createNode_run node
    { Type_ := ESTreeKind.TSModuleDeclaration
      Fields := [("Body", Value.ofOption body), ("Declare", Value.bool isDeclare),
                 ("Global",
                   Value.bool ((c.sourceFile.node inner).Keyword == ast.Kind.GlobalKeyword)),
                 ("Id", Value.ofOption id), ("Kind", Value.str kind)] } c3
  refine ⟨c4, ?_, hlen4, ht4, by rw [hf4]; rfl, by rw [hf4]; rfl, by rw [hf4]; rfl,
    by rw [hf4]; rfl, hold4⟩
  have hname2 := hname
  simp only [moduleDeclarationName, bind, StateT.bind, get, getThe, MonadStateOf.get,
    StateT.get, Except.bind, pure, StateT.pure, Except.pure] at hname2
  simp only [convertModuleDeclaration, bind, StateT.bind, get, getThe, MonadStateOf.get,
    StateT.get, Except.bind, pure, StateT.pure, Except.pure, hname2, hbody, h4, Functor.map,
    StateT.map]

/-- C17: namespace unraveling. For a module declaration `node` that is no global
augmentation, whose name `name` is no string literal, and below which the module
declarations `rest` are nested, each with its name (names that do not end at offset 0), the
`TSModuleDeclaration` case `KindModuleDeclaration` hands to `fixExports` has as `Id` the
left-nested name of the texts in source order, starting at the start of the first name; as
`Body` the conversion of the innermost declaration's body; as `Declare` whether `node` or a
nested declaration carries `declare`; and as `Kind` the keyword of the innermost
declaration. The conversion of the body is taken as it returns, keeping the structs built
for the name. -/
theorem namespace_unravelled (conv : Conv) (c c3 : converter) (node name : ast.NodePtr)
    (rest : List (ast.NodePtr × ast.NodePtr)) (body : Option Ptr)
    (hglobal : (c.sourceFile.node node).IsGlobalScopeAugmentation = false)
    (hname : (c.sourceFile.node node).Name = some name)
    (hkind : (c.sourceFile.node name).Kind ≠ ast.Kind.StringLiteral)
    (hchain : c.sourceFile.isModuleChain node rest = true)
    (hlen : rest.length ≤ c.sourceFile.Nodes.length)
    (hend : ∀ x ∈ rest, (c.sourceFile.node x.2).End ≠ 0)
    (hbody : convertChildT conv ESTreeKind.TSModuleBlock
        (c.sourceFile.node (innermostModule node rest)).Body none
        (stateAfter (moduleDeclarationName conv node) c) = Except.ok (body, c3))
    (hmono : (stateAfter (moduleDeclarationName conv node) c).heap.length ≤ c3.heap.length)
    (hframe : ∀ q, q < (stateAfter (moduleDeclarationName conv node) c).heap.length →
      c3.get q = (stateAfter (moduleDeclarationName conv node) c).get q) :
    ∃ p c4, convertModuleDeclaration conv node c
        = (some <$> fixExports node c3.heap.length : M (Option Ptr)) c4
      ∧ (c4.get c3.heap.length).Type_ = ESTreeKind.TSModuleDeclaration
      ∧ (c4.get c3.heap.length).field "Id" = Value.node p
      ∧ c4.isQualifiedName (c.sourceFile.node name).TokenPos
          (((c.sourceFile.node name).Text
            :: rest.map (fun x => (c.sourceFile.node x.2).Text)).reverse) p = true
      ∧ (c4.get c3.heap.length).field "Body" = Value.ofOption body
      ∧ (c4.get c3.heap.length).field "Declare"
          = Value.bool (hasModifier c.sourceFile ast.Kind.DeclareKeyword node
              || rest.any (fun x => hasModifier c.sourceFile ast.Kind.DeclareKeyword x.1))
      ∧ (c4.get c3.heap.length).field "Kind"
          = Value.str (if (c.sourceFile.node (innermostModule node rest)).Keyword
              = ast.Kind.NamespaceKeyword then "namespace" else "module") := by
  obtain ⟨p, c2, hrun, hp, hq, _, _⟩ :=
    moduleDeclarationName_run conv c node name rest hglobal hname hkind hchain hlen hend
  have hst : stateAfter (moduleDeclarationName conv node) c = c2 := by
    unfold stateAfter
    rw [hrun]
  rw [hst] at hbody hmono hframe
  obtain ⟨c4, h4, _, ht, hid, hb, hd, hk, hold⟩ :=
    convertModuleDeclaration_run conv c c2 c3 node _ _ body _ _ hrun hbody
  refine ⟨p, c4, h4, ht, hid, ?_, hb, hd, hk⟩
  apply converter.isQualifiedName_frame c2 c4 _ _ p _ hq
  intro q hq1
  have hq2 : q < c2.heap.length := lt_of_le_of_lt hq1 hp
  rw [hold q (lt_of_lt_of_le hq2 hmono), hframe q hq2]

set_option maxHeartbeats 1000000 in
/-- C17 on `declare namespace A.B.C {}`: the `Id` of the `TSModuleDeclaration` is the name
`(A.B).C` that starts at offset 18, `Declare` is true and `Kind` is `namespace`; in the tree
returned for the file the declaration is the struct at pointer 6 and its `Id` the
`TSQualifiedName` at pointer 4, at `[18, 23]`, whose `Left` is the `TSQualifiedName` at
pointer 2, at `[18, 21]`. -/
theorem namespace_unravelled_witness :
    (∃ p c4, convertModuleDeclaration (converterRec 4) 1 (converter.init nestedNamespace)
        = (some <$> fixExports 1 6 : M (Option Ptr)) c4
      ∧ (c4.get 6).Type_ = ESTreeKind.TSModuleDeclaration
      ∧ (c4.get 6).field "Id" = Value.node p
      ∧ c4.isQualifiedName 18 ["C", "B", "A"] p = true
      ∧ (c4.get 6).field "Body" = Value.node 5
      ∧ (c4.get 6).field "Declare" = Value.bool true
      ∧ (c4.get 6).field "Kind" = Value.str "namespace")
    ∧ observe (ConvertSourceFileToESTree 8 nestedNamespace)
        (fun r c => (r, (c.get 6).field "Id", (c.get 4).Range, (c.get 4).field "Left"))
      = some (some 7, Value.node 4, (18, 23), Value.node 2)
    ∧ observe (ConvertSourceFileToESTree 8 nestedNamespace)
        (fun _ c => ((c.get 2).Range, c.isQualifiedName 18 ["C", "B", "A"] 4,
          (c.get 6).field "Declare"))
      = some ((18, 21), true, Value.bool true) := by
  refine ⟨?_, by decide!, by decide!⟩
  have hlen : (stateAfter (convertChildT (converterRec 4) ESTreeKind.TSModuleBlock (some 8) none)
      (stateAfter (moduleDeclarationName (converterRec 4) 1)
        (converter.init nestedNamespace))).heap.length = 6 := by decide!
  obtain ⟨p, c4, h, ht, hid, hq, hb, hd, hk⟩ := namespace_unravelled (converterRec 4)
    (converter.init nestedNamespace)
    (stateAfter (convertChildT (converterRec 4) ESTreeKind.TSModuleBlock (some 8) none)
      (stateAfter (moduleDeclarationName (converterRec 4) 1) (converter.init nestedNamespace)))
    1 3 [(4, 5), (6, 7)] (some 5) (by decide!) (by decide!) (by decide!) (by decide!)
    (by decide!) (by decide!)
    (run_eq_of_valueOf
      (convertChildT (converterRec 4) ESTreeKind.TSModuleBlock (some 8) none)
      (stateAfter (moduleDeclarationName (converterRec 4) 1) (converter.init nestedNamespace))
      (some 5) (by decide!))
    (by decide!) (by decide!)
  rw [hlen] at h ht hid hb hd hk
  exact ⟨p, c4, h, ht, hid, hq, hb, hd, hk⟩

end estree

namespace estree

/-- A converted tag name is read off the structs built up to it. -/
theorem converter.isJsxTagName_frame (c c' : converter) (hsf : c'.sourceFile = c.sourceFile) :
    ∀ (d : Nat) (nd : ast.NodePtr) (p : Ptr), (∀ q, q ≤ p → c'.get q = c.get q) →
      c.isJsxTagName d nd p = true → c'.isJsxTagName d nd p = true := by
  intro d
  induction d with
  | zero =>
    intro nd p hfr h
    simp only [converter.isJsxTagName] at h ⊢
    rw [hfr p (le_refl p), hsf]
    exact h
  | succ d ih =>
    intro nd p hfr h
    simp only [converter.isJsxTagName] at h ⊢
    rw [hfr p (le_refl p), hsf]
    cases hE : (c.sourceFile.node nd).Expression <;>
      cases hN : (c.sourceFile.node nd).Name <;>
      simp only [hE, hN, Bool.and_false, Bool.false_eq_true] at h ⊢
    cases hO : (c.get p).field "Object" <;> cases hP : (c.get p).field "Property" <;>
      simp only [hO, hP, Bool.and_false, Bool.false_eq_true] at h ⊢
    rename_i e name o q
    simp only [Bool.and_eq_true, decide_eq_true_eq] at h ⊢
    obtain ⟨ht, ⟨⟨⟨⟨ho, hq⟩, htq⟩, hnq⟩, hrec⟩⟩ := h
    rw [hfr q (le_of_lt hq)]
    exact ⟨ht, ⟨⟨⟨⟨ho, hq⟩, htq⟩, hnq⟩,
      ih e o (fun x hx => hfr x (le_trans hx (le_of_lt ho))) hrec⟩⟩

/-- Go `convertJSXIdentifier` on a node: the struct it builds. -/
theorem convertJSXIdentifier_run (c : converter) (nd : ast.NodePtr) :
    ∃ c', convertJSXIdentifier (some nd) c = Except.ok (c.heap.length, c')
      ∧ c'.heap.length = c.heap.length + 1
      ∧ c'.sourceFile = c.sourceFile
      ∧ (c'.get c.heap.length).Type_ = ESTreeKind.JSXIdentifier
      ∧ (c'.get c.heap.length).field "Name" = Value.str (c.sourceFile.node nd).SourceText
      ∧ (∀ q, q < c.heap.length → c'.get q = c.get q) := by
  obtain ⟨cA, hA, hlenA, hsfA, htA, hfA, _, holdA⟩ := createNode_run nd
    { Type_ := ESTreeKind.JSXIdentifier
      Fields := [("Name", Value.str (c.sourceFile.node nd).SourceText)] } c
  refine ⟨cA.registerTSNodeInNodeMap nd (some c.heap.length), ?_, ?_, ?_, ?_, ?_, ?_⟩
  · simp only [convertJSXIdentifier, nonNil, bind, StateT.bind, get, getThe, MonadStateOf.get,
      StateT.get, modify, modifyGet, MonadStateOf.modifyGet, StateT.modifyGet, Except.bind,
      pure, StateT.pure, Except.pure, hA]
  · simp [hlenA]
  · simp [hsfA]
  · rw [converter.register_get]
    exact htA
  · rw [converter.register_get, hfA]
    rfl
  · intro q hq
    rw [converter.register_get]
    exact holdA q hq

/-- Go `convertJSXNamespaceOrIdentifier` on a node that is no property access. -/
theorem convertJSXNamespaceOrIdentifier_run (c : converter) (nd : ast.NodePtr)
    (h : c.sourceFile.isJsxTagName 0 nd = true) :
    ∃ r c', convertJSXNamespaceOrIdentifier (some nd) c = Except.ok (r, c')
      ∧ r < c'.heap.length ∧ c.heap.length ≤ c'.heap.length
      ∧ c'.sourceFile = c.sourceFile
      ∧ (c'.get r).Type_ = jsxTagNameType (c.sourceFile.node nd).Kind
      ∧ (∀ q, q < c.heap.length → c'.get q = c.get q) := by
  simp only [ast.SourceFile.isJsxTagName, Bool.and_eq_true, bne_iff_ne, Bool.or_eq_true] at h
  obtain ⟨hpa, hns⟩ := h
  by_cases hk : (c.sourceFile.node nd).Kind = ast.Kind.JsxNamespacedName
  · rcases hns with hns | hns
    · exact absurd hk hns
    · cases hName : (c.sourceFile.node nd).Name with
      | none => simp [hName] at hns
      | some name =>
        cases hNs : (c.sourceFile.node nd).Namespace with
        | none => simp [hNs] at hns
        | some ns =>
          obtain ⟨cA, hA, hlenA, hsfA, _, _, _, holdA⟩ := createNode_run name
            { Type_ := ESTreeKind.JSXIdentifier
              Fields := [("Name", Value.str (c.sourceFile.node name).Text)] } c
          obtain ⟨cB, hB, hlenB, hsfB, _, _, _, holdB⟩ := createNode_run ns
            { Type_ := ESTreeKind.JSXIdentifier
              Fields := [("Name", Value.str (c.sourceFile.node ns).Text)] } cA
          obtain ⟨cC, hC, hlenC, hsfC, htC, _, _, holdC⟩ := createNode_run nd
            { Type_ := ESTreeKind.JSXNamespacedName
              Fields := [("Name", Value.node c.heap.length),
                         ("Namespace", Value.node cA.heap.length)] } cB
          refine ⟨cB.heap.length, cC.registerTSNodeInNodeMap nd (some cB.heap.length),
            ?_, ?_, ?_, ?_, ?_, ?_⟩
          · simp only [convertJSXNamespaceOrIdentifier, nonNil, bind, StateT.bind, get, getThe,
              MonadStateOf.get, StateT.get, modify, modifyGet, MonadStateOf.modifyGet,
              StateT.modifyGet, Except.bind, pure, StateT.pure, Except.pure, hk, if_true,
              hName, hNs, hA, hB, hC]
          · simp [hlenC]
          · simp only [converter.register_heap, hlenC, hlenB, hlenA]
            omega
          · simp [hsfC, hsfB, hsfA]
          · rw [converter.register_get, htC]
            simp [jsxTagNameType, hk]
          · intro q hq
            have hqA : q < cA.heap.length := by rw [hlenA]; exact Nat.lt_succ_of_lt hq
            have hqB : q < cB.heap.length := by rw [hlenB]; exact Nat.lt_succ_of_lt hqA
            rw [converter.register_get, holdC q hqB, holdB q hqA, holdA q hq]
  · obtain ⟨c', hrun, hlen, hsf, ht, _, hold⟩ := convertJSXIdentifier_run c nd
    refine ⟨c.heap.length, c', ?_, ?_, ?_, hsf, ?_, hold⟩
    · simp only [convertJSXNamespaceOrIdentifier, nonNil, bind, StateT.bind, get, getThe,
        MonadStateOf.get, StateT.get, Except.bind, pure, StateT.pure, Except.pure, hk,
        if_false, hrun]
    · rw [hlen]
      exact Nat.lt_succ_self _
    · rw [hlen]
      exact Nat.le_succ _
    · rw [ht]
      simp [jsxTagNameType, hk, hpa]

/-- Go `convertJSXTagName` on a tag name of depth `d`, with more fuel than `d`. -/
theorem convertJSXTagName_run :
    ∀ (d fuel : Nat) (nd parent : ast.NodePtr) (c : converter),
      c.sourceFile.isJsxTagName d nd = true → d < fuel →
      ∃ r c', convertJSXTagName fuel (some nd) parent c = Except.ok (r, c')
        ∧ r < c'.heap.length ∧ c.heap.length ≤ c'.heap.length
        ∧ c'.sourceFile = c.sourceFile
        ∧ (c'.get r).Type_ = jsxTagNameType (c.sourceFile.node nd).Kind
        ∧ c'.isJsxTagName d nd r = true
        ∧ (∀ q, q < c.heap.length → c'.get q = c.get q) := by
  intro d
  induction d with
  | zero =>
    intro fuel nd parent c h hfuel
    cases fuel with
    | zero => exact absurd hfuel (Nat.lt_irrefl _)
    | succ fuel =>
      obtain ⟨r, c', hrun, hr, hle, hsf, ht, hold⟩ := convertJSXNamespaceOrIdentifier_run c nd h
      have hpa : (c.sourceFile.node nd).Kind ≠ ast.Kind.PropertyAccessExpression := by
        simp only [ast.SourceFile.isJsxTagName, Bool.and_eq_true, bne_iff_ne] at h
        exact h.1
      refine ⟨r, c', ?_, hr, hle, hsf, ht, ?_, hold⟩
      · simp only [convertJSXTagName, nonNil, bind, StateT.bind, get, getThe, MonadStateOf.get,
          StateT.get, Except.bind, pure, StateT.pure, Except.pure, hpa, if_false, hrun]
      · simp only [converter.isJsxTagName, hsf, ht, beq_self_eq_true]
  | succ d ih =>
    intro fuel nd parent c h hfuel
    cases fuel with
    | zero => exact absurd hfuel (Nat.not_lt_zero _)
    | succ fuel =>
      simp only [ast.SourceFile.isJsxTagName, Bool.and_eq_true, beq_iff_eq] at h
      obtain ⟨hk, hrest⟩ := h
      cases hE : (c.sourceFile.node nd).Expression with
      | none => simp [hE] at hrest
      | some e =>
        cases hN : (c.sourceFile.node nd).Name with
        | none => simp [hE, hN] at hrest
        | some name =>
          simp only [hE, hN] at hrest
          obtain ⟨o, c1, hrun1, ho, hle1, hsf1, _, htag1, hold1⟩ :=
            ih fuel e parent c hrest (Nat.lt_of_succ_lt_succ hfuel)
          obtain ⟨c2, hrun2, hlen2, hsf2, ht2, hf2, hold2⟩ := convertJSXIdentifier_run c1 name
          obtain ⟨c3, hrun3, hlen3, hsf3, ht3, hf3, _, hold3⟩ := createNode_run nd
            { Type_ := ESTreeKind.JSXMemberExpression
              Fields := [("Object", Value.node o), ("Property", Value.node c1.heap.length)] } c2
          have hO : (c3.get c2.heap.length).field "Object" = Value.node o := by
            rw [hf3]
            rfl
          have hP : (c3.get c2.heap.length).field "Property" = Value.node c1.heap.length := by
            rw [hf3]
            rfl
          have ht3b : (c3.get c2.heap.length).Type_ = ESTreeKind.JSXMemberExpression := ht3
          have h12 : (c1.heap.length : Nat) < c2.heap.length := by
            rw [hlen2]
            exact Nat.lt_succ_self _
          have hsf30 : c3.sourceFile = c.sourceFile := by rw [hsf3, hsf2, hsf1]
          have htag3 : c3.isJsxTagName d e o = true := by
            apply converter.isJsxTagName_frame c1 c3 (by rw [hsf3, hsf2]) d e o _ htag1
            intro q hq
            have hq1 : q < c1.heap.length := lt_of_le_of_lt hq ho
            rw [hold3 q (lt_trans hq1 h12), hold2 q hq1]
          refine ⟨c2.heap.length, c3.registerTSNodeInNodeMap nd (some c2.heap.length),
            ?_, ?_, ?_, ?_, ?_, ?_, ?_⟩
          · simp only [convertJSXTagName, nonNil, bind, StateT.bind, get, getThe,
              MonadStateOf.get, StateT.get, modify, modifyGet, MonadStateOf.modifyGet,
              StateT.modifyGet, Except.bind, pure, StateT.pure, Except.pure, hk, if_true, hE,
              hN, hrun1, hsf1, hrun2, hrun3]
          · simp [hlen3]
          · simp only [converter.register_heap, hlen3, hlen2]
            omega
          · simp [hsf30]
          · rw [converter.register_get, ht3b]
            simp [jsxTagNameType, hk]
          · apply converter.isJsxTagName_frame c3 _ (by simp) (d + 1) nd c2.heap.length
              (fun q _ => converter.register_get c3 nd _ q)
            simp only [converter.isJsxTagName, ht3b, hsf30, hE, hN, hO, hP, Bool.and_eq_true,
              beq_iff_eq, decide_eq_true_eq, beq_self_eq_true, hold3 c1.heap.length h12, ht2,
              hf2, hsf1, htag3, and_true, true_and]
            exact ⟨lt_trans ho h12, h12⟩
          · intro q hq
            have hq1 : q < c1.heap.length := lt_of_lt_of_le hq hle1
            rw [converter.register_get, hold3 q (lt_trans hq1 h12), hold2 q hq1, hold1 q hq]

/-- C18: JSX tag-name resolution is structural. On a tag name of depth `d`,
`convertJSXTagName` returns (the recursion unfolded more than `d` times) a struct whose tag
is `JSXMemberExpression` for a property access, `JSXNamespacedName` for a namespaced name
and `JSXIdentifier` for every other kind; for a property access its `Object` is the
conversion of the accessed expression and its `Property` a `JSXIdentifier` for the accessed
name, down to the innermost name. -/
theorem jsx_tag_name (d fuel : Nat) (nd parent : ast.NodePtr) (c : converter)
    (htag : c.sourceFile.isJsxTagName d nd = true) (hfuel : d < fuel) :
    ∃ r c', convertJSXTagName fuel (some nd) parent c = Except.ok (r, c')
      ∧ (c'.get r).Type_ = jsxTagNameType (c.sourceFile.node nd).Kind
      ∧ ((c'.get r).Type_ = ESTreeKind.JSXMemberExpression
          ↔ (c.sourceFile.node nd).Kind = ast.Kind.PropertyAccessExpression)
      ∧ ((c'.get r).Type_ = ESTreeKind.JSXNamespacedName
          ↔ (c.sourceFile.node nd).Kind = ast.Kind.JsxNamespacedName)
      ∧ c'.isJsxTagName d nd r = true := by
  obtain ⟨r, c', hrun, _, _, _, ht, htag', _⟩ := convertJSXTagName_run d fuel nd parent c htag hfuel
  refine ⟨r, c', hrun, ht, ?_, ?_, htag'⟩
  · rw [ht]
    unfold jsxTagNameType
    split_ifs with h1 h2 <;> simp [h1]
  · rw [ht]
    unfold jsxTagNameType
    split_ifs with h1 h2
    · simp [h1]
    · simp [h2]
    · simp [h2]

set_option maxHeartbeats 1000000 in
/-- C18 on the tag name `a.b.c` of `<a.b.c/>`: it converts to the `JSXMemberExpression` at
pointer 4, whose `Object` is the `JSXMemberExpression` at pointer 2 with the
`JSXIdentifier` `a` as `Object` and `b` as `Property`, and whose `Property` is the
`JSXIdentifier` `c`. -/
theorem jsx_tag_name_witness :
    (∃ r c', convertJSXTagName 3 (some 3) 2 (converter.init jsxMemberTag) = Except.ok (r, c')
      ∧ (c'.get r).Type_ = ESTreeKind.JSXMemberExpression
      ∧ c'.isJsxTagName 2 3 r = true)
    ∧ observe ((some <$> convertJSXTagName 3 (some 3) 2 : M (Option Ptr))
          (converter.init jsxMemberTag))
        (fun r c => (r, (c.get 4).field "Object", (c.get 4).field "Property",
          (c.get 3).field "Name"))
      = some (some 4, Value.node 2, Value.node 3, Value.str "c")
    ∧ observe ((some <$> convertJSXTagName 3 (some 3) 2 : M (Option Ptr))
          (converter.init jsxMemberTag))
        (fun _ c => ((c.get 2).Type_, (c.get 2).field "Object", (c.get 2).field "Property",
          (c.get 0).field "Name"))
      = some (ESTreeKind.JSXMemberExpression, Value.node 0, Value.node 1, Value.str "a") := by
  refine ⟨?_, by decide!, by decide!⟩
  obtain ⟨r, c', h, ht, _, _, hq⟩ := jsx_tag_name 2 3 3 2 (converter.init jsxMemberTag)
    (by decide!) (by decide)
  exact ⟨r, c', h, ht.trans (by decide!), hq⟩

end estree

namespace estree

/-- The `JSXOpeningElement` built for an opening or a self-closing element. The
conversions of the attributes and of the type arguments are taken as they return. -/
theorem convertJsxOpening_run (conv : Conv) (c cA cC : converter) (node attrs tag : ast.NodePtr)
    (d : Nat) (selfClosing : Bool) (attributes : List Ptr) (typeArguments : Option Ptr)
    (hattrs : (c.sourceFile.node node).Attributes = some attrs)
    (hA : convertNodeListToChildren conv (c.sourceFile.node attrs).Properties c
      = Except.ok (attributes, cA))
    (htagname : (c.sourceFile.node node).TagName = some tag)
    (htag : cA.sourceFile.isJsxTagName d tag = true) (hd : d ≤ c.sourceFile.Nodes.length)
    (hT : convertTypeArgumentsToTypeParameterInstantiation conv
        (c.sourceFile.node node).TypeArguments node
        (stateAfter (convertJSXTagName (c.sourceFile.Nodes.length + 1) (some tag) node) cA)
      = Except.ok (typeArguments, cC)) :
    ∃ c', convertJsxOpening conv node selfClosing c = Except.ok (cC.heap.length, c')
      ∧ c'.heap.length = cC.heap.length + 1
      ∧ (c'.get cC.heap.length).Type_ = ESTreeKind.JSXOpeningElement
      ∧ (c'.get cC.heap.length).field "SelfClosing" = Value.bool selfClosing
      ∧ (c'.get cC.heap.length).field "Attributes" = Value.ofPtrs attributes
      ∧ (c'.get cC.heap.length).field "TypeArguments" = Value.ofOption typeArguments := by
  obtain ⟨r, cB, hrunB, _, _, _, _, _, _⟩ := convertJSXTagName_run d
    (c.sourceFile.Nodes.length + 1) tag node cA htag (Nat.lt_succ_of_le hd)
  have hst : stateAfter (convertJSXTagName (c.sourceFile.Nodes.length + 1) (some tag) node) cA
      = cB := by
    unfold stateAfter
    rw [hrunB]
  rw [hst] at hT
  obtain ⟨c', h, hlen, _, ht, hf, _, _⟩ := createNode_run node
    { Type_ := ESTreeKind.JSXOpeningElement
      Fields := [("Attributes", Value.ofPtrs attributes), ("Name", Value.node r),
                 ("SelfClosing", Value.bool selfClosing),
                 ("TypeArguments", Value.ofOption typeArguments)] } cC
  refine ⟨c', ?_, hlen, ht, by rw [hf]; rfl, by rw [hf]; rfl, by rw [hf]; rfl⟩
  simp only [convertJsxOpening, nonNil, bind, StateT.bind, get, getThe, MonadStateOf.get,
    StateT.get, Except.bind, pure, StateT.pure, Except.pure, hattrs, hA, htagname, hrunB, hT, h]

/-- C19: a self-closing JSX element converts to a `JSXElement` whose `Children` is the empty
list, whose `ClosingElement` is nil and whose `OpeningElement` is a `JSXOpeningElement` with
`SelfClosing = true`; a `JsxOpeningElement` converts to a `JSXOpeningElement` with
`SelfClosing = false`. The tag name is one of depth `d`; the conversions of the attributes
and of the type arguments are taken as they return. -/
theorem jsx_self_closing (conv : Conv) (c cA cC : converter) (node attrs tag : ast.NodePtr)
    (parent : Option ast.NodePtr) (d : Nat) (attributes : List Ptr)
    (typeArguments : Option Ptr)
    (hattrs : (c.sourceFile.node node).Attributes = some attrs)
    (hA : convertNodeListToChildren conv (c.sourceFile.node attrs).Properties c
      = Except.ok (attributes, cA))
    (htagname : (c.sourceFile.node node).TagName = some tag)
    (htag : cA.sourceFile.isJsxTagName d tag = true) (hd : d ≤ c.sourceFile.Nodes.length)
    (hT : convertTypeArgumentsToTypeParameterInstantiation conv
        (c.sourceFile.node node).TypeArguments node
        (stateAfter (convertJSXTagName (c.sourceFile.Nodes.length + 1) (some tag) node) cA)
      = Except.ok (typeArguments, cC)) :
    ((c.sourceFile.node node).Kind = ast.Kind.JsxSelfClosingElement →
      ∃ c', convertNodeF conv node parent c = Except.ok (some (cC.heap.length + 1), c')
        ∧ (c'.get (cC.heap.length + 1)).Type_ = ESTreeKind.JSXElement
        ∧ (c'.get (cC.heap.length + 1)).field "Children" = Value.list []
        ∧ (c'.get (cC.heap.length + 1)).field "ClosingElement" = Value.null
        ∧ (c'.get (cC.heap.length + 1)).field "OpeningElement" = Value.node cC.heap.length
        ∧ (c'.get cC.heap.length).Type_ = ESTreeKind.JSXOpeningElement
        ∧ (c'.get cC.heap.length).field "SelfClosing" = Value.bool true)
    ∧ ((c.sourceFile.node node).Kind = ast.Kind.JsxOpeningElement →
      ∃ c', convertNodeF conv node parent c = Except.ok (some cC.heap.length, c')
        ∧ (c'.get cC.heap.length).Type_ = ESTreeKind.JSXOpeningElement
        ∧ (c'.get cC.heap.length).field "SelfClosing" = Value.bool false) := by
  constructor
  · intro hk
    obtain ⟨c1, h1, hlen1, ht1, hs1, _, _⟩ := convertJsxOpening_run conv c cA cC node attrs tag d
      true attributes typeArguments hattrs hA htagname htag hd hT
    obtain ⟨c2, h2, _, _, ht2, hf2, _, hold2⟩ := createNode_run node
      { Type_ := ESTreeKind.JSXElement
        Fields := [("Children", Value.list []), ("ClosingElement", Value.null),
                   ("OpeningElement", Value.node cC.heap.length)] } c1
    have hlt : (cC.heap.length : Nat) < c1.heap.length := by
      rw [hlen1]
      exact Nat.lt_succ_self _
    rw [hlen1] at h2 ht2 hf2
    refine ⟨c2, ?_, ht2, by rw [hf2]; rfl, by rw [hf2]; rfl, by rw [hf2]; rfl, ?_, ?_⟩
    · simp only [convertNodeF, convertJsxSelfClosingElement, bind, StateT.bind, get, getThe,
        MonadStateOf.get, StateT.get, Except.bind, pure, StateT.pure, Except.pure, hk, h1, h2]
    · rw [hold2 _ hlt]
      exact ht1
    · rw [hold2 _ hlt]
      exact hs1
  · intro hk
    obtain ⟨c1, h1, _, ht1, hs1, _, _⟩ := convertJsxOpening_run conv c cA cC node attrs tag d
      false attributes typeArguments hattrs hA htagname htag hd hT
    refine ⟨c1, ?_, ht1, hs1⟩
    simp only [convertNodeF, convertJsxOpeningElement, bind, StateT.bind, get, getThe,
      MonadStateOf.get, StateT.get, Except.bind, pure, StateT.pure, Except.pure, hk, h1]

set_option maxHeartbeats 1000000 in
/-- C19 on `<a.b.c/>` and on `<d></d>`: the self-closing element converts to the
`JSXElement` at pointer 6 with no children, no closing element and the opening element at
pointer 5, whose `SelfClosing` is true; in the tree returned for `<d></d>` the opening
element at pointer 3 has `SelfClosing = false`. -/
theorem jsx_self_closing_witness :
    (∃ c', convertNodeF (converterRec 4) 2 (some 1) (converter.init jsxMemberTag)
          = Except.ok (some 6, c')
      ∧ (c'.get 6).Type_ = ESTreeKind.JSXElement
      ∧ (c'.get 6).field "Children" = Value.list []
      ∧ (c'.get 6).field "ClosingElement" = Value.null
      ∧ (c'.get 6).field "OpeningElement" = Value.node 5
      ∧ (c'.get 5).Type_ = ESTreeKind.JSXOpeningElement
      ∧ (c'.get 5).field "SelfClosing" = Value.bool true)
    ∧ observe (ConvertSourceFileToESTree 8 jsxMemberTag)
        (fun r c => (r, (c.get 6).field "Children", (c.get 6).field "ClosingElement",
          (c.get 5).field "SelfClosing"))
      = some (some 8, Value.list [], Value.null, Value.bool true)
    ∧ observe (ConvertSourceFileToESTree 8 jsxElementPair)
        (fun r c => (r, (c.get 4).field "OpeningElement", (c.get 3).Type_,
          (c.get 3).field "SelfClosing"))
      = some (some 6, Value.node 3, ESTreeKind.JSXOpeningElement, Value.bool false) := by
  refine ⟨?_, by decide!, by decide!⟩
  have hlen : (stateAfter (convertJSXTagName 10 (some 3) 2)
      (converter.init jsxMemberTag)).heap.length = 5 := by decide!
  have h := (jsx_self_closing (converterRec 4) (converter.init jsxMemberTag)
    (converter.init jsxMemberTag)
    (stateAfter (convertJSXTagName 10 (some 3) 2) (converter.init jsxMemberTag))
    2 8 3 (some 1) 2 [] none (by decide!)
    rfl (by decide!) (by decide!)
    (by decide!) rfl).1 (by decide!)
  rw [hlen] at h
  exact h

end estree

/-! ## Unknown kinds: C20 -/

namespace estree

/-- The provable half of C20: on a node whose kind has no case in the switch, `convertNode`
aborts with the defect `unknown TS AST node kind`, whatever the converter; since the run is
aborted, no node is returned and no converter is left in which it could be registered. -/
theorem convertNodeF_unhandled (conv : Conv) (node : ast.NodePtr)
    (parent : Option ast.NodePtr) (c : converter)
    (h : handledKind (c.sourceFile.node node).Kind = false) :
    convertNodeF conv node parent c = Except.error Panic.unknownKind := by
  generalize hk : (c.sourceFile.node node).Kind = k at h
  cases k <;> first
    | (exact absurd h (by decide))
    | (simp only [convertNodeF, bind, StateT.bind, get, getThe, MonadStateOf.get, StateT.get,
        Except.bind, pure, Except.pure, hk, keywordType, handledKind]
       rfl)

/-- The abort reaches the caller of `c.converter`: nothing is registered for the node. -/
theorem converterF_unhandled (conv : Conv) (node : ast.NodePtr) (parent : Option ast.NodePtr)
    (allowPattern : Bool) (c : converter)
    (h : handledKind (c.sourceFile.node node).Kind = false) :
    converterF (convertNodeF conv) (some node) parent allowPattern c
      = Except.error Panic.unknownKind := by
  have h2 := convertNodeF_unhandled conv node (parentOrOwn c.sourceFile node parent)
    { c with allowPattern := allowPattern } h
  simp only [converterF, bind, StateT.bind, get, getThe, MonadStateOf.get, StateT.get, modify,
    modifyGet, MonadStateOf.modifyGet, StateT.modifyGet, pure, StateT.pure, Except.pure,
    Except.bind, h2]

/-- A file with a statement of an unhandled kind: the conversion of the file, whose root
has a handled kind, aborts with the defect of the statement. -/
theorem convertSourceFile_strayToken :
    handledKind (strayToken.node 1).Kind = false
    ∧ handledKind (strayToken.node 0).Kind = true
    ∧ observe (ConvertSourceFileToESTree 8 strayToken) (fun r _ => r) = none
    ∧ valueOf (convertNode 8 0 none) (converter.init strayToken) = none := by
  refine ⟨by decide!, by decide!, by decide!, by decide!⟩

end estree

/-! ## Token classification: C21, C22 -/

namespace estree

/-- A run whose value is known is the run to that value. -/
theorem except_eq_of_toOption {ε α : Type} (x : Except ε α) (a : α)
    (h : x.toOption = some a) : x = Except.ok a := by
  cases x with
  | error e => cases h
  | ok b =>
    cases h
    rfl

/-- C21: for a token of kind `StringLiteral`, a kind that is neither in the range of the
keywords, nor of the punctuation, nor of the template tokens, `getTokenType` returns
`JSXText` when the token's parent is a `JsxAttribute` or a `JsxElement`, and `String`
for every other parent and for a token without a parent. -/
theorem getTokenType_stringLiteral (sf : ast.SourceFile) (token : tsToken)
    (tokenText : String) (hkind : token.kind = ast.Kind.StringLiteral)
    (hkeyword : ¬(sf.Kinds.FirstKeyword ≤ sf.Kinds.ord ast.Kind.StringLiteral
      ∧ sf.Kinds.ord ast.Kind.StringLiteral ≤ sf.Kinds.LastFutureReservedWord))
    (hpunctuation : ¬(sf.Kinds.FirstPunctuation ≤ sf.Kinds.ord ast.Kind.StringLiteral
      ∧ sf.Kinds.ord ast.Kind.StringLiteral ≤ sf.Kinds.LastPunctuation))
    (htemplate : ¬(sf.Kinds.FirstTemplateToken ≤ sf.Kinds.ord ast.Kind.StringLiteral
      ∧ sf.Kinds.ord ast.Kind.StringLiteral ≤ sf.Kinds.LastTemplateToken)) :
    (∀ p, token.parent = some p →
        (sf.node p).Kind = ast.Kind.JsxAttribute ∨ (sf.node p).Kind = ast.Kind.JsxElement →
        getTokenType sf token tokenText = Except.ok ESTreeTokenType.JSXText)
    ∧ (∀ p, token.parent = some p →
        ¬((sf.node p).Kind = ast.Kind.JsxAttribute ∨ (sf.node p).Kind = ast.Kind.JsxElement) →
        getTokenType sf token tokenText = Except.ok ESTreeTokenType.String)
    ∧ (token.parent = none →
        getTokenType sf token tokenText = Except.ok ESTreeTokenType.String) := by
  have hid : ¬(token.kind = ast.Kind.Identifier
      ∧ sf.Kinds.GetIdentifierToken tokenText ≠ sf.Kinds.ord ast.Kind.Identifier) := by
    rw [hkind]
    exact fun h => absurd h.1 (by decide)
  rw [← hkind] at hkeyword hpunctuation htemplate
  refine ⟨?_, ?_, ?_⟩
  · intro p hp hjsx
    simp only [getTokenType, hid, hkeyword, hpunctuation, htemplate, if_false]
    simp only [hkind, hp, hjsx, if_true]
    rfl
  · intro p hp hjsx
    simp only [getTokenType, hid, hkeyword, hpunctuation, htemplate, if_false]
    simp only [hkind, hp, hjsx, if_false]
    rfl
  · intro hp
    simp only [getTokenType, hid, hkeyword, hpunctuation, htemplate, if_false]
    simp only [hkind, hp]
    rfl

/-- C21 on the value `"c"` of `<a class="c"></a>`: its parent is the `JsxAttribute`, and the
token is a `JSXText`. -/
theorem getTokenType_stringLiteral_witness :
    getTokenType jsxAttributeFile { kind := ast.Kind.StringLiteral, loc := (9, 12)
                                    parent := some 6 } "\"c\""
      = Except.ok ESTreeTokenType.JSXText :=
  (getTokenType_stringLiteral jsxAttributeFile
    { kind := ast.Kind.StringLiteral, loc := (9, 12), parent := some 6 } "\"c\"" rfl
    (by decide) (by decide) (by decide)).1 6 rfl (Or.inl (by decide))

end estree

namespace estree

/-- Go `hasJSXAncestor` returns on a chain of parents that ends. -/
theorem hasJSXAncestor_total (sf : ast.SourceFile) :
    ∀ (n : Nat) (p : Option ast.NodePtr), sf.rootedWithin n p = true →
      ∃ b, hasJSXAncestor sf n p = Except.ok b := by
  intro n
  induction n with
  | zero =>
    intro p h
    cases p with
    | none => exact ⟨false, rfl⟩
    | some q => simp [ast.SourceFile.rootedWithin] at h
  | succ n ih =>
    intro p h
    cases p with
    | none => exact ⟨false, rfl⟩
    | some q =>
      simp only [ast.SourceFile.rootedWithin] at h
      simp only [hasJSXAncestor]
      by_cases hj : isJSXToken sf q = true
      · exact ⟨true, by simp only [hj, if_true]; rfl⟩
      · simp only [hj, if_false, Bool.false_eq_true]
        exact ih _ h

/-- C22 as stated fails on the attribute name of `<a class="c"></a>`: the token `class` has
the kind `Identifier` and the `JsxAttribute` as parent, a JSX node, and `getTokenType`
returns `Keyword`; it is the third token of the file. -/
theorem getTokenType_identifier_counterexample :
    (jsxAttributeFile.node 6).Kind = ast.Kind.JsxAttribute
    ∧ isJSXToken jsxAttributeFile 6 = true
    ∧ getTokenType jsxAttributeFile { kind := ast.Kind.Identifier, loc := (3, 8)
                                      parent := some 6 } "class"
        = Except.ok ESTreeTokenType.Keyword
    ∧ (parseTokens (converter.init jsxAttributeFile) 20).toOption.map
          (fun r => (r.1.map (fun t => (t.Type_, t.Value))).get? 2)
        = some (some (ESTreeTokenType.Keyword, "class")) := by
  refine ⟨by decide!, by decide!, rfl, by decide!⟩

/-- C22, amended: for a token of kind `Identifier`, a kind outside the ranges of the
keywords, the punctuation and the template tokens. When `scanner.GetIdentifierToken` finds
a keyword in the text, the parent is not consulted: the token is `Null` for `null`,
`Identifier` for a word from `FirstFutureReservedWord` to `LastKeyword`, and `Keyword` for
any other. When the text is no keyword, the token is a `JSXIdentifier` when its parent is a
JSX node, or a property access with a JSX ancestor, and an `Identifier` for every other
parent and without a parent; the search for the ancestor returns on every chain of parents
that ends. -/
theorem getTokenType_identifier (sf : ast.SourceFile) (token : tsToken) (tokenText : String)
    (hkind : token.kind = ast.Kind.Identifier)
    (hkeyword : ¬(sf.Kinds.FirstKeyword ≤ sf.Kinds.ord ast.Kind.Identifier
      ∧ sf.Kinds.ord ast.Kind.Identifier ≤ sf.Kinds.LastFutureReservedWord))
    (hpunctuation : ¬(sf.Kinds.FirstPunctuation ≤ sf.Kinds.ord ast.Kind.Identifier
      ∧ sf.Kinds.ord ast.Kind.Identifier ≤ sf.Kinds.LastPunctuation))
    (htemplate : ¬(sf.Kinds.FirstTemplateToken ≤ sf.Kinds.ord ast.Kind.Identifier
      ∧ sf.Kinds.ord ast.Kind.Identifier ≤ sf.Kinds.LastTemplateToken)) :
    (sf.Kinds.GetIdentifierToken tokenText ≠ sf.Kinds.ord ast.Kind.Identifier →
      getTokenType sf token tokenText
        = Except.ok
            (if sf.Kinds.GetIdentifierToken tokenText = sf.Kinds.ord ast.Kind.NullKeyword then
              ESTreeTokenType.Null
            else if sf.Kinds.FirstFutureReservedWord ≤ sf.Kinds.GetIdentifierToken tokenText
                ∧ sf.Kinds.GetIdentifierToken tokenText ≤ sf.Kinds.LastKeyword then
              ESTreeTokenType.Identifier
            else ESTreeTokenType.Keyword))
    ∧ (sf.Kinds.GetIdentifierToken tokenText = sf.Kinds.ord ast.Kind.Identifier →
      (∀ p, token.parent = some p → isJSXToken sf p = true →
        getTokenType sf token tokenText = Except.ok ESTreeTokenType.JSXIdentifier)
      ∧ (∀ p, token.parent = some p → isJSXToken sf p = false →
          (sf.node p).Kind = ast.Kind.PropertyAccessExpression →
          sf.rootedWithin (sf.Nodes.length + 1) (some p) = true →
          ∃ jsx, hasJSXAncestor sf (sf.Nodes.length + 1) (some p) = Except.ok jsx
            ∧ getTokenType sf token tokenText
                = Except.ok (if jsx then ESTreeTokenType.JSXIdentifier
                              else ESTreeTokenType.Identifier))
      ∧ (∀ p, token.parent = some p → isJSXToken sf p = false →
          (sf.node p).Kind ≠ ast.Kind.PropertyAccessExpression →
          getTokenType sf token tokenText = Except.ok ESTreeTokenType.Identifier)
      ∧ (token.parent = none →
          getTokenType sf token tokenText = Except.ok ESTreeTokenType.Identifier)) := by
  rw [← hkind] at hkeyword hpunctuation htemplate
  constructor
  · intro hkw
    simp only [getTokenType, hkind, hkw, ne_eq, not_false_eq_true, and_self, if_true]
    split_ifs <;> rfl
  · intro hplain
    have hid : ¬(token.kind = ast.Kind.Identifier
        ∧ sf.Kinds.GetIdentifierToken tokenText ≠ sf.Kinds.ord ast.Kind.Identifier) :=
      fun h => h.2 hplain
    refine ⟨?_, ?_, ?_, ?_⟩
    · intro p hp hjsx
      simp only [getTokenType, hid, hkeyword, hpunctuation, htemplate, if_false]
      simp only [hkind, hp, hjsx, if_true]
      rfl
    · intro p hp hjsx hpa hroot
      obtain ⟨jsx, hj⟩ := hasJSXAncestor_total sf _ _ hroot
      refine ⟨jsx, hj, ?_⟩
      simp only [getTokenType, hid, hkeyword, hpunctuation, htemplate, if_false]
      simp only [hkind, hp, hjsx, hpa, if_true, Bool.false_eq_true, if_false, bind,
        Except.bind, hj]
      cases jsx <;> rfl
    · intro p hp hjsx hpa
      simp only [getTokenType, hid, hkeyword, hpunctuation, htemplate, if_false]
      simp only [hkind, hp, hjsx, hpa, if_true, Bool.false_eq_true, if_false]
      rfl
    · intro hp
      simp only [getTokenType, hid, hkeyword, hpunctuation, htemplate, if_false]
      simp only [hkind, hp, if_true]
      rfl

/-- C22, amended, on the tag name `a` of `<a class="c"></a>`: the text is no keyword, the
parent is the opening element, and the token is a `JSXIdentifier`; the attribute name
`class` is a `Keyword`. -/
theorem getTokenType_identifier_witness :
    getTokenType jsxAttributeFile { kind := ast.Kind.Identifier, loc := (1, 2)
                                    parent := some 3 } "a"
      = Except.ok ESTreeTokenType.JSXIdentifier
    ∧ getTokenType jsxAttributeFile { kind := ast.Kind.Identifier, loc := (3, 8)
                                      parent := some 6 } "class"
      = Except.ok ESTreeTokenType.Keyword :=
  ⟨((getTokenType_identifier jsxAttributeFile
      { kind := ast.Kind.Identifier, loc := (1, 2), parent := some 3 } "a" rfl
      (by decide) (by decide) (by decide)).2 (by decide)).1 3 rfl (by decide),
   ((getTokenType_identifier jsxAttributeFile
      { kind := ast.Kind.Identifier, loc := (3, 8), parent := some 6 } "class" rfl
      (by decide) (by decide) (by decide)).1 (by decide)).trans
      (congrArg Except.ok (by decide))⟩

end estree

/-! ## Tokens and comments: C23 to C26 -/

namespace estree

/-- The end of the last token after a token was pushed. -/
theorem prevTokenEnd_append (tokens : List tsToken) (t : tsToken) :
    prevTokenEnd (tokens ++ [t]) = t.loc.2 := by
  simp [prevTokenEnd]

/-- C23: when the rescan of a gap meets the token `</` at `[s, s + 2]`, within the gap, the
turn of the loop pushes two tokens and no other: `<` at `[s, s + 1]`, then `/` at
`[s + 1, s + 2]`; the comments before `<` are scanned first, and between the two tokens
the empty range at `s + 1`. Both tokens are punctuators for `getTokenType`, their kinds
being in the range of the punctuation and not in the range of the keywords. -/
theorem closing_tag_split (c : converter) (r : ast.ScanResult) (end_ s : Int)
    (st : TokenCollector) (cs1 cs2 : List Comment)
    (htoken : r.Token = ast.Kind.LessThanSlashToken)
    (hstart : r.TokenStart = s) (hend : r.TokenEnd = s + 2) (hin : r.TokenEnd ≤ end_)
    (hkind : c.sourceFile.Kinds.IsTokenKind ast.Kind.LessThanSlashToken = true)
    (hc1 : scanCommentsInRange c (prevTokenEnd st.tokens, s) st.comments = Except.ok cs1)
    (hc2 : scanCommentsInRange c (s + 1, s + 1) cs1 = Except.ok cs2) :
    pushScanned c r end_ st
        = Except.ok { st with
            tokens := st.tokens ++ [{ kind := ast.Kind.LessThanToken, loc := (s, s + 1) },
                                    { kind := ast.Kind.SlashToken, loc := (s + 1, s + 2) }]
            comments := cs2 }
    ∧ ∀ (k : ast.Kind) (loc : Int × Int) (text : String),
        k = ast.Kind.LessThanToken ∨ k = ast.Kind.SlashToken →
        ¬(c.sourceFile.Kinds.FirstKeyword ≤ c.sourceFile.Kinds.ord k
          ∧ c.sourceFile.Kinds.ord k ≤ c.sourceFile.Kinds.LastFutureReservedWord) →
        (c.sourceFile.Kinds.FirstPunctuation ≤ c.sourceFile.Kinds.ord k
          ∧ c.sourceFile.Kinds.ord k ≤ c.sourceFile.Kinds.LastPunctuation) →
        getTokenType c.sourceFile { kind := k, loc := loc } text
          = Except.ok ESTreeTokenType.Punctuator := by
  constructor
  · have h1 : (s + 2 - 1 : Int) = s + 1 := by ring
    rw [hend] at hin
    simp only [pushScanned, hend, hin, hkind, and_self, if_true, htoken, pushToken, bind,
      Except.bind, hstart, h1, hc1, prevTokenEnd_append, hc2, pure, Except.pure,
      List.append_assoc, List.singleton_append]
  · intro k loc text hk hkw hp
    have hid : ¬(k = ast.Kind.Identifier
        ∧ c.sourceFile.Kinds.GetIdentifierToken text
            ≠ c.sourceFile.Kinds.ord ast.Kind.Identifier) := by
      intro h
      rcases hk with hk | hk <;> rw [hk] at h <;> exact absurd h.1 (by decide)
    simp only [getTokenType, hid, hkw, hp, and_self, if_false, if_true]
    rfl

/-- C23 on `<a class="c"></a>`: the scanner reports `</` at `[13, 15]`, and the turn pushes
`<` at `[13, 14]` and `/` at `[14, 15]`; in the tokens of the file they are the seventh and
the eighth, both punctuators, and no token is `</`. -/
theorem closing_tag_split_witness :
    pushScanned (converter.init jsxAttributeFile) (jsxAttributeFile.Scan 13) 15 {}
        = Except.ok { tokens := [{ kind := ast.Kind.LessThanToken, loc := (13, 14) },
                                 { kind := ast.Kind.SlashToken, loc := (14, 15) }]
                      comments := [] }
    ∧ (parseTokens (converter.init jsxAttributeFile) 20).toOption.map
          (fun r => ((r.1.map (fun t => (t.Type_, t.Value, t.Range))).drop 6).take 2)
        = some [(ESTreeTokenType.Punctuator, "<", (13, 14)),
                (ESTreeTokenType.Punctuator, "/", (14, 15))]
    ∧ (parseTokens (converter.init jsxAttributeFile) 20).toOption.map
          (fun r => r.1.any (fun t => t.Value == "</"))
        = some false := by
  refine ⟨?_, by decide!, by decide!⟩
  exact (closing_tag_split (converter.init jsxAttributeFile) (jsxAttributeFile.Scan 13) 15 13
    {} [] [] rfl rfl rfl (by decide) rfl rfl rfl).1

end estree

namespace estree

/-- No character starts in an empty range of offsets that lie before it. -/
theorem charsBetween_after (s : List Char) : ∀ (off lo hi : Nat), hi ≤ off →
    charsBetween s off lo hi = [] := by
  induction s with
  | nil => intro off lo hi _; rfl
  | cons ch rest ih =>
    intro off lo hi h
    have hn : ¬(lo ≤ off ∧ off < hi) := fun hc => absurd hc.2 (Nat.not_lt.mpr h)
    simp only [charsBetween, hn, if_false]
    exact ih _ _ _ (Nat.le_trans h (Nat.le_add_right _ _))

/-- The slice that ends after the characters `pre` holds `pre`. -/
theorem charsBetween_prefix (pre suf : List Char) : ∀ (off lo : Nat), lo ≤ off →
    charsBetween (pre ++ suf) off lo (off + byteLen pre) = pre := by
  induction pre with
  | nil =>
    intro off lo _
    simp only [List.nil_append, byteLen, List.map_nil, List.sum_nil, Nat.add_zero]
    exact charsBetween_after suf off lo off (Nat.le_refl _)
  | cons ch rest ih =>
    intro off lo h
    have hpos := Char.utf8Size_pos ch
    have hlen : byteLen (ch :: rest) = ch.utf8Size + byteLen rest := by
      simp [byteLen]
    have hc : lo ≤ off ∧ off < off + byteLen (ch :: rest) := ⟨h, by rw [hlen]; omega⟩
    simp only [List.cons_append, charsBetween, hc, and_self, if_true]
    have hoff : off + byteLen (ch :: rest) = (off + ch.utf8Size) + byteLen rest := by
      rw [hlen]; omega
    rw [hoff]
    exact congrArg (List.cons ch)
      (ih (off + ch.utf8Size) lo (Nat.le_trans h (Nat.le_add_right _ _)))

/-- The length of a text is that of its parts. -/
theorem byteLen_append (a b : List Char) : byteLen (a ++ b) = byteLen a + byteLen b := by
  simp [byteLen]

/-- The loop over the runes after `#!`: it stops at the first line break. -/
theorem shebangScan_body (rest : List Char) : ∀ (i : Nat), 2 ≤ i →
    shebangScan rest i true
      = (true,
          if rest.takeWhile (fun ch => !IsLineBreak ch) = rest then none
          else some (i + byteLen (rest.takeWhile (fun ch => !IsLineBreak ch)))) := by
  induction rest with
  | nil => intro i _; rfl
  | cons ch more ih =>
    intro i hi
    have h0 : ¬ i = 0 := by omega
    have h1 : ¬ i = 1 := by omega
    by_cases hb : IsLineBreak ch = true
    · simp [shebangScan, h0, h1, hb, byteLen]
    · have hb2 : IsLineBreak ch = false := by simpa using hb
      simp only [shebangScan, h0, h1, hb2, if_false, Bool.false_eq_true, List.takeWhile_cons,
        Bool.not_false, if_true, ih (i + ch.utf8Size) (by omega), List.cons.injEq, true_and]
      have hlen : byteLen (ch :: more.takeWhile (fun ch => !IsLineBreak ch))
          = ch.utf8Size + byteLen (more.takeWhile (fun ch => !IsLineBreak ch)) := by
        simp [byteLen]
      rw [hlen, Nat.add_assoc]

/-- The slice of a text that starts with `#!` from offset 2 to the end of `body`, a part of
the text after `#!`. -/
theorem sliceText_shebang (text : String) (body suf : List Char)
    (h : text.data = '#' :: '!' :: (body ++ suf)) :
    sliceText text 2 ((2 + byteLen body : Nat) : Int) = Except.ok (String.mk body) := by
  have hlen : byteLen text.data = 2 + (byteLen body + byteLen suf) := by
    rw [h]
    simp only [byteLen, List.map_cons, List.sum_cons, List.map_append, List.sum_append]
    have e1 : Char.utf8Size '#' = 1 := rfl
    have e2 : Char.utf8Size '!' = 1 := rfl
    omega
  have hcond : (0 : Int) ≤ 2 ∧ (2 : Int) ≤ ((2 + byteLen body : Nat) : Int)
      ∧ ((2 + byteLen body : Nat) : Int) ≤ (byteLen text.data : Int) := by
    rw [hlen]
    refine ⟨by decide, ?_, ?_⟩ <;> omega
  simp only [sliceText, hcond, and_self, if_true, pure, Except.pure]
  have hchars : charsBetween text.data 0 (2 : Int).toNat ((2 + byteLen body : Nat) : Int).toNat
      = body := by
    rw [h]
    have e1 : Char.utf8Size '#' = 1 := rfl
    have e2 : Char.utf8Size '!' = 1 := rfl
    have t2 : (2 : Int).toNat = 2 := rfl
    have tb : ((2 + byteLen body : Nat) : Int).toNat = 2 + byteLen body := Int.toNat_ofNat _
    rw [t2, tb]
    have c0 : ¬(2 ≤ 0 ∧ 0 < 2 + byteLen body) := by omega
    have c1 : ¬(2 ≤ 0 + 1 ∧ 0 + 1 < 2 + byteLen body) := by omega
    simp only [charsBetween, e1, e2, c0, c1, if_false]
    exact charsBetween_prefix body suf 2 2 (Nat.le_refl _)
  rw [hchars]

/-- The shebang scan of a text that starts with `#!`. -/
theorem collectShebang_some (c : converter) (rest : List Char)
    (h : c.sourceFile.Text.data = '#' :: '!' :: rest) :
    collectShebang c
      = Except.ok
          ([{ Type_ := ESTreeTokenType.Shebang
              Value := String.mk (rest.takeWhile (fun ch => !IsLineBreak ch))
              Range := (2, ((2 + byteLen (rest.takeWhile (fun ch => !IsLineBreak ch)) : Nat)
                              : Int))
              Loc := c.getLocFor
                (2, ((2 + byteLen (rest.takeWhile (fun ch => !IsLineBreak ch)) : Nat) : Int)) }],
           ((2 + byteLen (rest.takeWhile (fun ch => !IsLineBreak ch)) : Nat) : Int)) := by
  have e1 : Char.utf8Size '#' = 1 := rfl
  have e2 : Char.utf8Size '!' = 1 := rfl
  have hscan : shebangScan c.sourceFile.Text.data 0 false
      = (true,
          if rest.takeWhile (fun ch => !IsLineBreak ch) = rest then none
          else some (2 + byteLen (rest.takeWhile (fun ch => !IsLineBreak ch)))) := by
    rw [h]
    simp only [shebangScan, if_true, e1, e2, Nat.zero_add, Nat.one_ne_zero, if_false]
    exact shebangScan_body rest 2 (Nat.le_refl _)
  have hslice := sliceText_shebang c.sourceFile.Text
    (rest.takeWhile (fun ch => !IsLineBreak ch)) (rest.dropWhile (fun ch => !IsLineBreak ch))
    (by rw [h, List.takeWhile_append_dropWhile])
  by_cases hall : rest.takeWhile (fun ch => !IsLineBreak ch) = rest
  · have hlen : (byteLen c.sourceFile.Text.data : Int)
        = ((2 + byteLen (rest.takeWhile (fun ch => !IsLineBreak ch)) : Nat) : Int) := by
      rw [h, hall]
      simp only [byteLen, List.map_cons, List.sum_cons, e1, e2]
      congr 1
      omega
    simp only [collectShebang, hscan, hall, if_true, shebangComment, bind, Except.bind,
      hlen, hslice, pure, Except.pure]
    rw [hall] at hslice
    simp only [hslice]
  · simp only [collectShebang, hscan, hall, if_false, shebangComment, bind, Except.bind,
      hslice, pure, Except.pure]

/-- The shebang scan of a text that does not start with `#!`. -/
theorem collectShebang_none (c : converter)
    (h : ∀ rest, c.sourceFile.Text.data ≠ '#' :: '!' :: rest) :
    collectShebang c = Except.ok ([], 0) := by
  have hscan : shebangScan c.sourceFile.Text.data 0 false = (false, none) := by
    cases hd : c.sourceFile.Text.data with
    | nil => rfl
    | cons ch rest =>
      by_cases h1 : ch = '#'
      · subst h1
        cases rest with
        | nil => rfl
        | cons ch2 more =>
          have h2 : ch2 ≠ '!' := by
            intro h2
            subst h2
            exact h more hd
          have e1 : Char.utf8Size '#' = 1 := rfl
          simp only [shebangScan, if_true, e1, Nat.zero_add, Nat.one_ne_zero, if_false, h2]
      · simp only [shebangScan, if_true, h1, if_false]
  simp only [collectShebang, hscan]
  rfl

/-- A step of a method that may panic returns only if both parts return. -/
theorem except_bind_ok {ε α β : Type} (x : Except ε α) (f : α → Except ε β) (b : β)
    (h : (x >>= f) = Except.ok b) : ∃ a, x = Except.ok a ∧ f a = Except.ok b := by
  cases x with
  | error e => cases h
  | ok a => exact ⟨a, rfl, h⟩

theorem addsNoShebang.refl (cs : List Comment) : addsNoShebang cs cs :=
  ⟨[], (List.append_nil cs).symm, fun _ h => absurd h (List.not_mem_nil _)⟩

theorem addsNoShebang.trans {a b d : List Comment} (h1 : addsNoShebang a b)
    (h2 : addsNoShebang b d) : addsNoShebang a d := by
  obtain ⟨m1, e1, p1⟩ := h1
  obtain ⟨m2, e2, p2⟩ := h2
  refine ⟨m1 ++ m2, by rw [e2, e1, List.append_assoc], ?_⟩
  intro x hx
  rcases List.mem_append.mp hx with hx | hx
  · exact p1 x hx
  · exact p2 x hx

/-- A comment of the scanner becomes a line or a block comment. -/
theorem commentOf_type (c : converter) (cm : ast.CommentRange) (x : Comment)
    (h : commentOf c cm = Except.ok x) : x.Type_ ≠ ESTreeTokenType.Shebang := by
  unfold commentOf at h
  simp only [] at h
  split_ifs at h
  · obtain ⟨v, _, hv⟩ := except_bind_ok _ _ _ h
    cases hv
    exact fun hh => by cases hh
  · obtain ⟨v, _, hv⟩ := except_bind_ok _ _ _ h
    cases hv
    exact fun hh => by cases hh

theorem appendComments_grows (c : converter) : ∀ (cms : List ast.CommentRange)
    (comments out : List Comment), appendComments c cms comments = Except.ok out →
    addsNoShebang comments out := by
  intro cms
  induction cms with
  | nil =>
    intro comments out h
    cases h
    exact addsNoShebang.refl _
  | cons cm rest ih =>
    intro comments out h
    obtain ⟨x, hx, hrest⟩ := except_bind_ok _ _ _ h
    refine addsNoShebang.trans ⟨[x], rfl, ?_⟩ (ih _ _ hrest)
    intro y hy
    rw [List.mem_singleton.mp hy]
    exact commentOf_type c cm x hx

theorem pushToken_grows (c : converter) (t : tsToken) (st st2 : TokenCollector)
    (h : pushToken c t st = Except.ok st2) : addsNoShebang st.comments st2.comments := by
  obtain ⟨cs, hcs, hp⟩ := except_bind_ok _ _ _ h
  cases hp
  exact appendComments_grows c _ _ _ hcs

theorem pushScanned_grows (c : converter) (r : ast.ScanResult) (end_ : Int)
    (st st2 : TokenCollector) (h : pushScanned c r end_ st = Except.ok st2) :
    addsNoShebang st.comments st2.comments := by
  unfold pushScanned at h
  split_ifs at h
  · obtain ⟨s1, h1, h2⟩ := except_bind_ok _ _ _ h
    exact (pushToken_grows c _ _ _ h1).trans (pushToken_grows c _ _ _ h2)
  · exact pushToken_grows c _ _ _ h
  · cases h
    exact addsNoShebang.refl _

theorem addSyntheticLoop_grows (c : converter) (end_ : Int) : ∀ (fuel : Nat)
    (st st2 : TokenCollector), addSyntheticLoop c end_ fuel st = Except.ok st2 →
    addsNoShebang st.comments st2.comments := by
  intro fuel
  induction fuel with
  | zero =>
    intro st st2 h
    unfold addSyntheticLoop at h
    split_ifs at h
    cases h
    exact addsNoShebang.refl _
  | succ fuel ih =>
    intro st st2 h
    unfold addSyntheticLoop at h
    split_ifs at h with hlt
    · simp only [] at h
      obtain ⟨s1, h1, h2⟩ := except_bind_ok _ _ _ h
      have g1 := pushScanned_grows c _ _ _ _ h1
      split_ifs at h2
      · cases h2
        exact g1
      · have g2 := ih _ _ h2
        exact g1.trans g2
    · cases h
      exact addsNoShebang.refl _

theorem addSyntheticNodes_grows (c : converter) (end_ : Int) (st st2 : TokenCollector)
    (h : addSyntheticNodes c end_ st = Except.ok st2) :
    addsNoShebang st.comments st2.comments := by
  unfold addSyntheticNodes at h
  have g := addSyntheticLoop_grows c end_ _ _ _ h
  exact g

theorem visitSelf_grows (c : converter) (node : ast.NodePtr) (st st2 : TokenCollector)
    (h : visitSelf c node st = Except.ok st2) : addsNoShebang st.comments st2.comments := by
  unfold visitSelf at h
  simp only [] at h
  obtain ⟨s1, h1, h⟩ := except_bind_ok _ _ _ h
  obtain ⟨s2, h2, h⟩ := except_bind_ok _ _ _ h
  obtain ⟨s3, h3, h⟩ := except_bind_ok _ _ _ h
  cases h
  have g1 := addSyntheticNodes_grows c _ _ _ h1
  have g3 := addSyntheticNodes_grows c _ _ _ h3
  refine (g1.trans ?_).trans g3
  by_cases hc : c.sourceFile.Kinds.IsTokenKind (c.sourceFile.node node).Kind = true
      ∧ (c.sourceFile.node node).Reparsed = false
  · rw [if_pos hc] at h2
    obtain ⟨s4, h4, h5⟩ := except_bind_ok _ _ _ h2
    cases h5
    have g4 := pushToken_grows c _ _ _ h4
    by_cases hj : (c.sourceFile.node node).Kind ≠ ast.Kind.JsxText
    · rw [if_pos hj] at g4
      exact g4
    · rw [if_neg hj] at g4
      exact g4
  · rw [if_neg hc] at h2
    cases h2
    exact addsNoShebang.refl _

theorem visitNodes_grows (c : converter) : ∀ (fuel : Nat) (nodes : List ast.NodePtr)
    (st st2 : TokenCollector), visitNodes c fuel nodes st = Except.ok st2 →
    addsNoShebang st.comments st2.comments := by
  intro fuel
  induction fuel with
  | zero =>
    intro nodes st st2 h
    cases nodes with
    | nil =>
      cases h
      exact addsNoShebang.refl _
    | cons n rest => cases h
  | succ fuel ih =>
    intro nodes st st2 h
    cases nodes with
    | nil =>
      cases h
      exact addsNoShebang.refl _
    | cons n rest =>
      unfold visitNodes at h
      obtain ⟨s1, h1, h⟩ := except_bind_ok _ _ _ h
      obtain ⟨s2, h2, h⟩ := except_bind_ok _ _ _ h
      exact ((ih _ _ _ h1).trans (visitSelf_grows c n _ _ h2)).trans (ih _ _ _ h)

/-- The comments `collectTokens` returns are those of the shebang scan and, behind them,
comments that are no shebang entries. -/
theorem collectTokens_comments (c : converter) (fuel : Nat) (tokens : List tsToken)
    (comments : List Comment) (h : collectTokens c fuel = Except.ok (tokens, comments)) :
    ∃ first pos, collectShebang c = Except.ok (first, pos) ∧ addsNoShebang first comments := by
  unfold collectTokens at h
  simp only [] at h
  obtain ⟨sh, hsh, h⟩ := except_bind_ok _ _ _ h
  obtain ⟨first, pos⟩ := sh
  simp only [] at h
  obtain ⟨st, hst, h⟩ := except_bind_ok _ _ _ h
  obtain ⟨cs, hcs, h⟩ := except_bind_ok _ _ _ h
  cases h
  exact ⟨first, pos, hsh, (visitNodes_grows c _ _ _ _ hst).trans
    (appendComments_grows c _ _ _ hcs)⟩

/-- C24: shebang extraction. When the text starts with `#!`, the comments `collectTokens`
returns start with one `Shebang` entry, whose `Value` is the text from offset 2 up to the
first line break, or to the end of the text when there is none, and whose `Range` is
`[2, that offset]`, and no other entry is a `Shebang`; when the text does not start with
`#!`, no entry is a `Shebang`. The shebang scan itself always returns. -/
theorem shebang_extraction (c : converter) :
    (∀ rest, c.sourceFile.Text.data = '#' :: '!' :: rest →
      collectShebang c
          = Except.ok
              ([{ Type_ := ESTreeTokenType.Shebang
                  Value := String.mk (rest.takeWhile (fun ch => !IsLineBreak ch))
                  Range := (2, ((2 + byteLen (rest.takeWhile (fun ch => !IsLineBreak ch))
                                  : Nat) : Int))
                  Loc := c.getLocFor
                    (2, ((2 + byteLen (rest.takeWhile (fun ch => !IsLineBreak ch)) : Nat)
                          : Int)) }],
               ((2 + byteLen (rest.takeWhile (fun ch => !IsLineBreak ch)) : Nat) : Int))
      ∧ ∀ fuel tokens comments, collectTokens c fuel = Except.ok (tokens, comments) →
          ∃ more, comments
              = { Type_ := ESTreeTokenType.Shebang
                  Value := String.mk (rest.takeWhile (fun ch => !IsLineBreak ch))
                  Range := (2, ((2 + byteLen (rest.takeWhile (fun ch => !IsLineBreak ch))
                                  : Nat) : Int))
                  Loc := c.getLocFor
                    (2, ((2 + byteLen (rest.takeWhile (fun ch => !IsLineBreak ch)) : Nat)
                          : Int)) } :: more
            ∧ ∀ x ∈ more, x.Type_ ≠ ESTreeTokenType.Shebang)
    ∧ ((∀ rest, c.sourceFile.Text.data ≠ '#' :: '!' :: rest) →
      collectShebang c = Except.ok ([], 0)
      ∧ ∀ fuel tokens comments, collectTokens c fuel = Except.ok (tokens, comments) →
          ∀ x ∈ comments, x.Type_ ≠ ESTreeTokenType.Shebang) := by
  constructor
  · intro rest h
    have hs := collectShebang_some c rest h
    refine ⟨hs, ?_⟩
    intro fuel tokens comments hrun
    obtain ⟨first, pos, hfirst, more, hmore, hno⟩ := collectTokens_comments c fuel _ _ hrun
    rw [hs] at hfirst
    cases hfirst
    exact ⟨more, hmore, hno⟩
  · intro h
    have hs := collectShebang_none c h
    refine ⟨hs, ?_⟩
    intro fuel tokens comments hrun
    obtain ⟨first, pos, hfirst, more, hmore, hno⟩ := collectTokens_comments c fuel _ _ hrun
    rw [hs] at hfirst
    cases hfirst
    rw [hmore]
    exact hno

/-- C24 on the text `#!/x`, a line break, `y`: the comments are the one `Shebang` entry
`/x` at `[2, 4]`; on `#!x`, without a line break, the entry is `x` at `[2, 3]`; on `x#!`
there is no entry. -/
theorem shebang_extraction_witness :
    (∃ more, [({ Type_ := ESTreeTokenType.Shebang, Value := "/x", Range := (2, 4)
                 Loc := (converter.init (textOnly "#!/x\ny")).getLocFor (2, 4) } : Comment)]
        = { Type_ := ESTreeTokenType.Shebang
            Value := String.mk ("/x\ny".data.takeWhile (fun ch => !IsLineBreak ch))
            Range := (2, ((2 + byteLen ("/x\ny".data.takeWhile (fun ch => !IsLineBreak ch))
                            : Nat) : Int))
            Loc := (converter.init (textOnly "#!/x\ny")).getLocFor
              (2, ((2 + byteLen ("/x\ny".data.takeWhile (fun ch => !IsLineBreak ch)) : Nat)
                    : Int)) } :: more
      ∧ ∀ x ∈ more, x.Type_ ≠ ESTreeTokenType.Shebang)
    ∧ (collectTokens (converter.init (textOnly "#!/x\ny")) 20).toOption.map
          (fun r => r.2.map (fun x => (x.Type_, x.Value, x.Range)))
        = some [(ESTreeTokenType.Shebang, "/x", (2, 4))]
    ∧ (collectTokens (converter.init (textOnly "#!x")) 20).toOption.map
          (fun r => r.2.map (fun x => (x.Type_, x.Value, x.Range)))
        = some [(ESTreeTokenType.Shebang, "x", (2, 3))]
    ∧ (collectTokens (converter.init (textOnly "x#!")) 20).toOption.map
          (fun r => r.2.map (fun x => (x.Type_, x.Value, x.Range)))
        = some [] := by
  refine ⟨?_, by decide!, by decide!, by decide!⟩
  exact ((shebang_extraction (converter.init (textOnly "#!/x\ny"))).1 "/x\ny".data rfl).2 20 []
    [{ Type_ := ESTreeTokenType.Shebang, Value := "/x", Range := (2, 4)
       Loc := (converter.init (textOnly "#!/x\ny")).getLocFor (2, 4) }]
    (except_eq_of_toOption _ _ (by decide!))

end estree

namespace estree

/-- The slice `Text[s + 2 : e - 2]` of a block comment shorter than its two delimiters is
out of bounds: `scanCommentsInRange` panics on it. -/
theorem commentOf_short_block (c : converter) (cm : ast.CommentRange)
    (hkind : cm.Kind ≠ ast.Kind.SingleLineCommentTrivia) (hshort : cm.End - cm.Pos < 4) :
    commentOf c cm = Except.error TokenPanic.sliceBounds := by
  have hcond : ¬(0 ≤ cm.Pos + 2 ∧ cm.Pos + 2 ≤ cm.End - 2
      ∧ cm.End - 2 ≤ (byteLen c.sourceFile.Text.data : Int)) :=
    fun h => absurd h.2.1 (by omega)
  simp only [commentOf, hkind, if_false, sliceText, hcond, bind, Except.bind]

/-- A comment whose delimiters lie within its range and within the text: the `Value` is
the slice behind `//`, or between `/*` and `*/`, and the `Range` is the comment's. -/
theorem commentOf_value (c : converter) (cm : ast.CommentRange) (hpos : 0 ≤ cm.Pos)
    (hend : cm.End ≤ (byteLen c.sourceFile.Text.data : Int)) :
    (cm.Kind = ast.Kind.SingleLineCommentTrivia → cm.Pos + 2 ≤ cm.End →
      ∃ x, commentOf c cm = Except.ok x ∧ x.Type_ = ESTreeTokenType.Line
        ∧ x.Range = (cm.Pos, cm.End)
        ∧ sliceText c.sourceFile.Text (cm.Pos + 2) cm.End = Except.ok x.Value)
    ∧ (cm.Kind ≠ ast.Kind.SingleLineCommentTrivia → cm.Pos + 4 ≤ cm.End →
      ∃ x, commentOf c cm = Except.ok x ∧ x.Type_ = ESTreeTokenType.Block
        ∧ x.Range = (cm.Pos, cm.End)
        ∧ sliceText c.sourceFile.Text (cm.Pos + 2) (cm.End - 2) = Except.ok x.Value) := by
  constructor
  · intro hk hlen
    have hcond : 0 ≤ cm.Pos + 2 ∧ cm.Pos + 2 ≤ cm.End
        ∧ cm.End ≤ (byteLen c.sourceFile.Text.data : Int) := ⟨by omega, hlen, hend⟩
    refine ⟨{ Type_ := ESTreeTokenType.Line
              Value := String.mk (charsBetween c.sourceFile.Text.data 0 (cm.Pos + 2).toNat
                cm.End.toNat)
              Range := (cm.Pos, cm.End), Loc := c.getLocFor (cm.Pos, cm.End) },
      ?_, rfl, rfl, ?_⟩
    · simp only [commentOf, hk, if_true, sliceText, hcond, and_self, bind, Except.bind, pure,
        Except.pure]
    · simp only [sliceText, hcond, and_self, if_true, pure, Except.pure]
  · intro hk hlen
    have hcond : 0 ≤ cm.Pos + 2 ∧ cm.Pos + 2 ≤ cm.End - 2
        ∧ cm.End - 2 ≤ (byteLen c.sourceFile.Text.data : Int) :=
      ⟨by omega, by omega, by omega⟩
    refine ⟨{ Type_ := ESTreeTokenType.Block
              Value := String.mk (charsBetween c.sourceFile.Text.data 0 (cm.Pos + 2).toNat
                (cm.End - 2).toNat)
              Range := (cm.Pos, cm.End), Loc := c.getLocFor (cm.Pos, cm.End) },
      ?_, rfl, rfl, ?_⟩
    · simp only [commentOf, hk, if_false, sliceText, hcond, and_self, if_true, bind,
        Except.bind, pure, Except.pure]
    · simp only [sliceText, hcond, and_self, if_true, pure, Except.pure]

/-- C25 fails on the file `/*`: the scanner reports the block comment `[0, 2]`, the slice
`Text[2:0]` is out of bounds, and `collectTokens`, and with it `parseTokens`, panics. On
`/*a*/ //b` the comments are `a` at `[0, 5]` and `b` at `[6, 9]`. -/
theorem comment_unterminated_counterexample :
    unterminatedComment.Text = "/*"
    ∧ unterminatedComment.GetCommentsInRange (0, 2)
        = [{ Kind := ast.Kind.MultiLineCommentTrivia, Pos := 0, End := 2 }]
    ∧ sliceText unterminatedComment.Text 2 0 = Except.error TokenPanic.sliceBounds
    ∧ collectTokens (converter.init unterminatedComment) 20
        = Except.error TokenPanic.sliceBounds
    ∧ parseTokens (converter.init unterminatedComment) 20
        = Except.error TokenPanic.sliceBounds
    ∧ (collectTokens (converter.init twoComments) 20).toOption.map
          (fun r => r.2.map (fun x => (x.Type_, x.Value, x.Range)))
        = some [(ESTreeTokenType.Block, "a", (0, 5)), (ESTreeTokenType.Line, "b", (6, 9))] := by
  refine ⟨rfl, rfl, rfl, rfl, rfl, by decide!⟩

end estree

namespace estree

/-- The token `parseTokens` builds for a collected token: its `Range` is the token's `loc`,
and its `Value` is the slice of the text at that range, or, for a private identifier, that
slice without its first byte. -/
theorem tokenOf_spec (c : converter) (t : tsToken) (tok : Token)
    (h : tokenOf c t = Except.ok tok) :
    tok.Range = t.loc
      ∧ ∃ v, sliceText c.sourceFile.Text t.loc.1 t.loc.2 = Except.ok v
          ∧ getTokenType c.sourceFile t v = Except.ok tok.Type_
          ∧ (tok.Type_ ≠ ESTreeTokenType.PrivateIdentifier → tok.Value = v)
          ∧ (tok.Type_ = ESTreeTokenType.PrivateIdentifier →
              sliceText v 1 (byteLen v.data) = Except.ok tok.Value) := by
  unfold tokenOf at h
  simp only [] at h
  obtain ⟨v, hv, h⟩ := except_bind_ok _ _ _ h
  obtain ⟨ty, hty, h⟩ := except_bind_ok _ _ _ h
  cases ty <;> simp only [] at h
  case RegularExpression =>
    obtain ⟨p, _, h⟩ := except_bind_ok _ _ _ h
    obtain ⟨f, _, h⟩ := except_bind_ok _ _ _ h
    cases h
    exact ⟨rfl, v, hv, hty, fun _ => rfl, fun hne => by cases hne⟩
  case PrivateIdentifier =>
    obtain ⟨s, hs, h⟩ := except_bind_ok _ _ _ h
    cases h
    exact ⟨rfl, v, hv, hty, fun hne => absurd rfl hne, fun _ => hs⟩
  all_goals first
    | (cases h
       exact ⟨rfl, v, hv, hty, fun _ => rfl, fun hne => by cases hne⟩)
    | cases h

/-- The loop of `parseTokens` keeps the ranges of the collected tokens, in their order. -/
theorem tokensOf_ranges (c : converter) : ∀ (ts : List tsToken) (toks : List Token),
    tokensOf c ts = Except.ok toks → toks.map (fun t => t.Range) = ts.map (fun t => t.loc) := by
  intro ts
  induction ts with
  | nil =>
    intro toks h
    cases h
    rfl
  | cons t rest ih =>
    intro toks h
    unfold tokensOf at h
    obtain ⟨tok, htok, h⟩ := except_bind_ok _ _ _ h
    obtain ⟨more, hmore, h⟩ := except_bind_ok _ _ _ h
    cases h
    simp only [List.map_cons, (tokenOf_spec c t tok htok).1, ih more hmore]

/-- Go `getTokenType` returns none of the types of comments: `parseTokens` never reaches its
`panic("unhandled token type")`. -/
theorem getTokenType_handled (sf : ast.SourceFile) (t : tsToken) (text : String)
    (ty : ESTreeTokenType) (h : getTokenType sf t text = Except.ok ty) :
    ty ≠ ESTreeTokenType.Shebang ∧ ty ≠ ESTreeTokenType.Line ∧ ty ≠ ESTreeTokenType.Block := by
  unfold getTokenType at h
  simp only [] at h
  have key : ∀ (x : ESTreeTokenType), (pure x : Except TokenPanic ESTreeTokenType) = Except.ok ty →
      x ≠ ESTreeTokenType.Shebang → x ≠ ESTreeTokenType.Line → x ≠ ESTreeTokenType.Block →
      ty ≠ ESTreeTokenType.Shebang ∧ ty ≠ ESTreeTokenType.Line ∧ ty ≠ ESTreeTokenType.Block := by
    intro x hx h1 h2 h3
    cases hx
    exact ⟨h1, h2, h3⟩
  split_ifs at h <;> first
    | exact key _ h (by decide) (by decide) (by decide)
    | (split at h <;> first
        | exact key _ h (by decide) (by decide) (by decide)
        | (split at h <;> first
            | exact key _ h (by decide) (by decide) (by decide)
            | (split_ifs at h <;> first
                | exact key _ h (by decide) (by decide) (by decide)
                | (obtain ⟨b, _, hb⟩ := except_bind_ok _ _ _ h
                   split_ifs at hb <;> exact key _ hb (by decide) (by decide) (by decide)))))

/-- The comment built for a comment of the scanner has its range. -/
theorem commentOf_range (c : converter) (cm : ast.CommentRange) (x : Comment)
    (h : commentOf c cm = Except.ok x) : x.Range = (cm.Pos, cm.End) := by
  unfold commentOf at h
  simp only [] at h
  split_ifs at h
  · obtain ⟨v, _, hv⟩ := except_bind_ok _ _ _ h
    cases hv
    rfl
  · obtain ⟨v, _, hv⟩ := except_bind_ok _ _ _ h
    cases hv
    rfl

/-- The comments appended for sound comments of the scanner lie where those lie, one after
the other, and none of them is a shebang or empty. -/
theorem appendComments_sound (c : converter) (hi : Int) :
    ∀ (cms : List ast.CommentRange) (lo : Int) (comments out : List Comment),
      commentsWithin lo hi cms = true → appendComments c cms comments = Except.ok out →
      ∃ added, out = comments ++ added
        ∧ added.Pairwise (fun a b => a.Range.2 ≤ b.Range.1)
        ∧ ∀ x ∈ added, lo ≤ x.Range.1 ∧ x.Range.1 < x.Range.2 ∧ x.Range.2 ≤ hi
            ∧ x.Type_ ≠ ESTreeTokenType.Shebang := by
  intro cms
  induction cms with
  | nil =>
    intro lo comments out _ h
    cases h
    exact ⟨[], (List.append_nil _).symm, List.Pairwise.nil, fun x hx => absurd hx (List.not_mem_nil x)⟩
  | cons cm rest ih =>
    intro lo comments out hs h
    simp only [commentsWithin, Bool.and_eq_true, decide_eq_true_eq] at hs
    obtain ⟨⟨⟨h1, h2⟩, h3⟩, h4⟩ := hs
    obtain ⟨x, hx, hrest⟩ := except_bind_ok _ _ _ h
    have hr := commentOf_range c cm x hx
    have ht := commentOf_type c cm x hx
    obtain ⟨added, hout, hpair, hall⟩ := ih cm.End _ _ h4 hrest
    refine ⟨x :: added, by rw [hout]; simp, ?_, ?_⟩
    · rw [List.pairwise_cons]
      refine ⟨?_, hpair⟩
      intro y hy
      rw [hr]
      exact (hall y hy).1
    · intro y hy
      rcases List.mem_cons.mp hy with e | e
      · subst e
        rw [hr]
        exact ⟨h1, h2, h3, ht⟩
      · obtain ⟨a1, a2, a3, a4⟩ := hall y e
        exact ⟨by omega, a2, a3, a4⟩

/-- The end of the last of some tokens and one more. -/
theorem prevTokenEnd_push (tokens : List tsToken) (t : tsToken) :
    prevTokenEnd (tokens ++ [t]) = t.loc.2 := by
  simp [prevTokenEnd]

/-- The start of the last of some tokens and one more. -/
theorem lastTokenStart_push (start : Int) (tokens : List tsToken) (t : tsToken) :
    lastTokenStart start (tokens ++ [t]) = t.loc.1 := by
  simp [lastTokenStart]

/-- The last token starts before it ends. -/
theorem lastTokenStart_le (start : Int) (tokens : List tsToken)
    (h : ∀ t ∈ tokens, t.loc.1 ≤ t.loc.2) :
    lastTokenStart start tokens ≤ max (prevTokenEnd tokens) start := by
  unfold lastTokenStart prevTokenEnd
  cases hl : tokens.getLast? with
  | none => simp
  | some last =>
    have := h last (List.mem_of_getLast?_eq_some hl)
    simp only []
    omega

/-- What holds of the collected tokens and comments does not depend on where the walk
stands. -/
theorem Collected.of_eq {len start hi : Int} {st st2 : TokenCollector}
    (h : Collected len start hi st) (ht : st2.tokens = st.tokens)
    (hc : st2.comments = st.comments) : Collected len start hi st2 := by
  unfold Collected at h ⊢
  rw [ht, hc]
  exact h

/-- A higher bound for the ends of the tokens. -/
theorem Collected.mono {len start hi hi2 : Int} {st : TokenCollector}
    (h : Collected len start hi st) (hle : hi ≤ hi2) : Collected len start hi2 st := by
  obtain ⟨h1, h2, h3, h4, h5, h6, h7⟩ := h
  refine ⟨?_, h2, h3, h4, h5, h6, h7⟩
  intro t ht
  obtain ⟨a, b, c1, d⟩ := h1 t ht
  exact ⟨a, b, by omega, d⟩

/-- The end of the last token is no later than the bound. -/
theorem Collected.prev_le {len start hi : Int} {st : TokenCollector}
    (h : Collected len start hi st) (h0 : 0 ≤ hi) : prevTokenEnd st.tokens ≤ hi := by
  unfold prevTokenEnd
  cases hl : st.tokens.getLast? with
  | none => exact h0
  | some last => exact (h.1 last (List.mem_of_getLast?_eq_some hl)).2.2.1

/-- A token pushed behind the tokens collected, with sound comments before it, keeps what
holds of the collected tokens and comments. -/
theorem pushToken_sound (c : converter) (len start hi : Int) (t : tsToken)
    (st st2 : TokenCollector) (h : Collected len start hi st) (h0 : 0 ≤ start)
    (hhi : hi ≤ t.loc.1) (hstart : start ≤ t.loc.1) (hle : t.loc.1 ≤ t.loc.2)
    (hlen : t.loc.2 ≤ len)
    (hne : t.kind ≠ ast.Kind.EndOfFile → t.loc.1 < t.loc.2)
    (hs : commentsSound c start (prevTokenEnd st.tokens, t.loc.1) = true)
    (hp : pushToken c t st = Except.ok st2) :
    Collected len start t.loc.2 st2 ∧ st2.tokens = st.tokens ++ [t] ∧ st2.pos = st.pos
      ∧ st2.tokenStart = st.tokenStart := by
  obtain ⟨cs, hcs, hp⟩ := except_bind_ok _ _ _ hp
  cases hp
  unfold scanCommentsInRange at hcs
  unfold commentsSound at hs
  obtain ⟨added, hout, hpair, hall⟩ := appendComments_sound c _ _ _ _ _ hs hcs
  simp only [] at hall
  obtain ⟨h1, h2, h3, h4, h5, h6, h7⟩ := h
  have hprev : ∀ x ∈ st.tokens, x.loc.2 ≤ t.loc.1 := fun x hx => by
    have := (h1 x hx).2.2.1
    omega
  have hlast := lastTokenStart_le start st.tokens (fun x hx => (h1 x hx).2.1)
  subst hout
  refine ⟨⟨?_, ?_, ?_, ?_, ?_, ?_, ?_⟩, rfl, rfl, rfl⟩
  · intro x hx
    rcases List.mem_append.mp hx with e | e
    · obtain ⟨a, b, c1, d⟩ := h1 x e
      exact ⟨a, b, by have := hprev x e; omega, d⟩
    · rw [List.mem_singleton.mp e]
      exact ⟨hstart, hle, le_refl _, hne⟩
  · rw [List.pairwise_append]
    refine ⟨h2, List.pairwise_singleton _ _, ?_⟩
    intro a ha b hb
    rw [List.mem_singleton.mp hb]
    exact hprev a ha
  · intro x hx
    simp only [prevTokenEnd_push]
    rcases List.mem_append.mp hx with e | e
    · have := hprev x e
      omega
    · rw [List.mem_singleton.mp e]
  · intro cm hcm
    rcases List.mem_append.mp hcm with e | e
    · exact h4 cm e
    · obtain ⟨a, b, c1, d⟩ := hall cm e
      refine ⟨by omega, le_of_lt b, by omega, fun _ => b⟩
  · rw [List.pairwise_append]
    refine ⟨h5, hpair, ?_⟩
    intro a ha b hb
    have := h6 a ha
    have := (hall b hb).1
    omega
  · intro cm hcm
    simp only [lastTokenStart_push]
    rcases List.mem_append.mp hcm with e | e
    · have := h6 cm e
      have hpe : prevTokenEnd st.tokens ≤ t.loc.1 := by
        unfold prevTokenEnd
        cases hl : st.tokens.getLast? with
        | none => simp only []; omega
        | some last => exact hprev last (List.mem_of_getLast?_eq_some hl)
      omega
    · exact (hall cm e).2.2.1
  · intro cm hcm x hx
    rcases List.mem_append.mp hcm with e | e
    · rcases List.mem_append.mp hx with e2 | e2
      · exact h7 cm e x e2
      · rw [List.mem_singleton.mp e2]
        left
        have := h6 cm e
        have hpe : prevTokenEnd st.tokens ≤ t.loc.1 := by
          unfold prevTokenEnd
          cases hl : st.tokens.getLast? with
          | none => simp only []; omega
          | some last => exact hprev last (List.mem_of_getLast?_eq_some hl)
        omega
    · rcases List.mem_append.mp hx with e2 | e2
      · right
        have := h3 x e2
        have := (hall cm e).1
        omega
      · rw [List.mem_singleton.mp e2]
        left
        exact (hall cm e).2.2.1

/-- One turn of the loop of `addSyntheticNodes` with sound answers keeps what holds of the
collected tokens and comments; no token pushed ends behind `end`. -/
theorem pushScanned_sound (c : converter) (start hi pos end_ : Int) (r : ast.ScanResult)
    (st st2 : TokenCollector)
    (h : Collected (byteLen c.sourceFile.Text.data : Int) start hi st) (h0 : 0 ≤ start)
    (hpos : hi ≤ pos) (hscan : scanSound c start pos r = true)
    (hs : pushScannedSound c start r end_ st = true)
    (hp : pushScanned c r end_ { st with tokenStart := r.TokenStart } = Except.ok st2) :
    ∃ hi2, Collected (byteLen c.sourceFile.Text.data : Int) start hi2 st2 ∧ hi2 ≤ r.TokenEnd
      ∧ hi2 ≤ max hi end_ ∧ st2.pos = st.pos := by
  simp only [scanSound, Bool.and_eq_true, decide_eq_true_eq, Bool.or_eq_true, beq_iff_eq,
    bne_iff_ne, ne_eq] at hscan
  obtain ⟨⟨⟨⟨⟨s1, s2⟩, s3⟩, s4⟩, _⟩, s6⟩ := hscan
  have hst : Collected (byteLen c.sourceFile.Text.data : Int) start hi
      { st with tokenStart := r.TokenStart } := h.of_eq rfl rfl
  unfold pushScanned at hp
  unfold pushScannedSound at hs
  by_cases hc : r.TokenEnd ≤ end_ ∧ c.sourceFile.Kinds.IsTokenKind r.Token = true
  · rw [if_pos hc] at hp hs
    by_cases hl : r.Token = ast.Kind.LessThanSlashToken
    · rw [if_pos hl] at hp hs
      simp only [Bool.and_eq_true] at hs
      have hlt : r.TokenStart + 1 < r.TokenEnd := by
        rcases s6 with e | e
        · exact absurd hl e
        · exact e
      obtain ⟨st1, hp1, hp2⟩ := except_bind_ok _ _ _ hp
      obtain ⟨g1, g2, g3, _⟩ := pushToken_sound c _ start hi
        { kind := ast.Kind.LessThanToken, loc := (r.TokenStart, r.TokenEnd - 1) } _ st1 hst h0
        (by simp only []; omega) (by simp only []; omega) (by simp only []; omega)
        (by simp only []; omega) (fun _ => by simp only []; omega) hs.1 hp1
      have hprev : prevTokenEnd st1.tokens = r.TokenEnd - 1 := by
        rw [g2, prevTokenEnd_push]
      obtain ⟨k1, k2, k3, _⟩ := pushToken_sound c _ start (r.TokenEnd - 1)
        { kind := ast.Kind.SlashToken, loc := (r.TokenEnd - 1, r.TokenEnd) } st1 st2 g1 h0
        (by simp only []; omega) (by simp only []; omega) (by simp only []; omega)
        (by simp only []; omega) (fun _ => by simp only []; omega)
        (by rw [hprev]; exact hs.2) hp2
      exact ⟨r.TokenEnd, k1, le_refl _, by omega, by rw [k3, g3]⟩
    · rw [if_neg hl] at hp hs
      obtain ⟨g1, _, g3, _⟩ := pushToken_sound c _ start hi
        { kind := r.Token, loc := (r.TokenStart, r.TokenEnd) } _ st2 hst h0
        (by simp only []; omega) (by simp only []; omega) (by simp only []; omega)
        (by simp only []; omega)
        (fun hk => by
          simp only []
          rcases s4 with e | e
          · exact absurd e hk
          · exact e) hs hp
      exact ⟨r.TokenEnd, g1, le_refl _, by omega, g3⟩
  · rw [if_neg hc] at hp
    cases hp
    exact ⟨hi, hst, by omega, by omega, rfl⟩

/-- The loop of `addSyntheticNodes` with sound answers keeps what holds of the collected
tokens and comments: no token pushed ends behind `end`, the walk does not go back and
stands at `end` or behind it afterwards, and nothing changes when it stands there
before. -/
theorem addSyntheticLoop_sound (c : converter) (start end_ : Int) (h0 : 0 ≤ start)
    (hend : end_ ≤ (byteLen c.sourceFile.Text.data : Int)) :
    ∀ (fuel : Nat) (hi : Int) (st st2 : TokenCollector),
      addSyntheticSound c start end_ fuel st = true →
      Collected (byteLen c.sourceFile.Text.data : Int) start hi st → hi ≤ st.pos →
      addSyntheticLoop c end_ fuel st = Except.ok st2 →
      (∃ hi2, Collected (byteLen c.sourceFile.Text.data : Int) start hi2 st2
          ∧ hi2 ≤ st2.pos ∧ hi2 ≤ max hi end_)
        ∧ st.pos ≤ st2.pos ∧ end_ ≤ st2.pos ∧ (¬ st.pos < end_ → st2 = st) := by
  intro fuel
  induction fuel with
  | zero =>
    intro hi st st2 _ h hpos hl
    unfold addSyntheticLoop at hl
    split_ifs at hl with hlt
    cases hl
    exact ⟨⟨hi, h, hpos, by omega⟩, le_refl _, by omega, fun _ => rfl⟩
  | succ fuel ih =>
    intro hi st st2 hs h hpos hl
    unfold addSyntheticLoop at hl
    unfold addSyntheticSound at hs
    by_cases hlt : st.pos < end_
    · rw [if_pos hlt] at hl hs
      simp only [Bool.and_eq_true] at hs
      obtain ⟨⟨hscan, hpush⟩, hrest⟩ := hs
      obtain ⟨st1, hp1, hl⟩ := except_bind_ok _ _ _ hl
      rw [hp1] at hrest
      simp only [] at hrest
      obtain ⟨hi1, g1, g2, g3, g4⟩ := pushScanned_sound c start hi st.pos end_ _ st st1 h h0
        hpos hscan hpush hp1
      have hscan' := hscan
      simp only [scanSound, Bool.and_eq_true, decide_eq_true_eq, Bool.or_eq_true, beq_iff_eq,
        bne_iff_ne, ne_eq] at hscan'
      obtain ⟨⟨⟨⟨⟨s1, s2⟩, s3⟩, _⟩, s5⟩, _⟩ := hscan'
      have hg : Collected (byteLen c.sourceFile.Text.data : Int) start hi1
          { st1 with pos := (c.sourceFile.Scan st.pos).TokenEnd } := g1.of_eq rfl rfl
      simp only [] at hl
      by_cases heof : (c.sourceFile.Scan st.pos).Token = ast.Kind.EndOfFile
      · rw [if_pos heof] at hl
        cases hl
        have hlen : (c.sourceFile.Scan st.pos).TokenEnd
            = (byteLen c.sourceFile.Text.data : Int) := by
          rcases s5 with e | e
          · exact absurd heof e
          · exact e
        refine ⟨⟨hi1, hg, g2, g3⟩, ?_, ?_, fun hn => absurd hlt hn⟩
        · simp only []
          omega
        · simp only []
          omega
      · rw [if_neg heof] at hl hrest
        obtain ⟨⟨hi2, k1, k2, k3⟩, k4, k5, _⟩ := ih hi1 _ st2 hrest hg g2 hl
        simp only [] at k4
        refine ⟨⟨hi2, k1, k2, by omega⟩, by omega, k5, fun hn => absurd hlt hn⟩
    · rw [if_neg hlt] at hl
      cases hl
      exact ⟨⟨hi, h, hpos, by omega⟩, le_refl _, by omega, fun _ => rfl⟩

/-- The closure `addSyntheticNodes` with sound answers keeps what holds of the collected
tokens and comments. -/
theorem addSyntheticNodes_sound (c : converter) (start end_ : Int) (h0 : 0 ≤ start)
    (hend : end_ ≤ (byteLen c.sourceFile.Text.data : Int)) (hi : Int)
    (st st2 : TokenCollector)
    (hs : addSyntheticSound c start end_ (end_ - st.pos).toNat
      { st with tokenStart := st.pos } = true)
    (h : Collected (byteLen c.sourceFile.Text.data : Int) start hi st) (hpos : hi ≤ st.pos)
    (hl : addSyntheticNodes c end_ st = Except.ok st2) :
    (∃ hi2, Collected (byteLen c.sourceFile.Text.data : Int) start hi2 st2
        ∧ hi2 ≤ st2.pos ∧ hi2 ≤ max hi end_)
      ∧ st.pos ≤ st2.pos ∧ end_ ≤ st2.pos
      ∧ (¬ st.pos < end_ → st2 = { st with tokenStart := st.pos }) := by
  unfold addSyntheticNodes at hl
  exact addSyntheticLoop_sound c start end_ h0 hend _ hi _ st2 hs (h.of_eq rfl rfl) hpos hl

/-- The token of a node with sound answers keeps what holds of the collected tokens and
comments; afterwards no token ends behind the node. -/
theorem visitToken_sound (c : converter) (start : Int) (node : ast.NodePtr)
    (st st1 st2 : TokenCollector) (h0 : 0 ≤ start) (hstart : start ≤ st.pos)
    (hnode : st.pos ≤ (c.sourceFile.node node).End)
    (hpe : (c.sourceFile.node node).Pos ≤ (c.sourceFile.node node).End)
    (hlen : (c.sourceFile.node node).End ≤ (byteLen c.sourceFile.Text.data : Int))
    (hi1 : Int) (h1 : Collected (byteLen c.sourceFile.Text.data : Int) start hi1 st1)
    (hpos1 : hi1 ≤ st1.pos)
    (hmax : hi1 ≤ max st.pos (c.sourceFile.node node).Pos)
    (hsame : ¬ st.pos < (c.sourceFile.node node).Pos → st1 = { st with tokenStart := st.pos })
    (hs : (if c.sourceFile.Kinds.IsTokenKind (c.sourceFile.node node).Kind = true
          ∧ (c.sourceFile.node node).Reparsed = false then
        if (c.sourceFile.node node).Kind ≠ ast.Kind.JsxText then
          decide (max (c.sourceFile.node node).Pos start
              ≤ (c.sourceFile.Scan (c.sourceFile.node node).Pos).TokenStart)
            && decide (st.pos ≤ (c.sourceFile.Scan (c.sourceFile.node node).Pos).TokenStart)
            && decide ((c.sourceFile.Scan (c.sourceFile.node node).Pos).TokenStart
                ≤ (c.sourceFile.node node).End)
            && ((c.sourceFile.node node).Kind == ast.Kind.EndOfFile
                || decide ((c.sourceFile.Scan (c.sourceFile.node node).Pos).TokenStart
                    < (c.sourceFile.node node).End))
            && commentsSound c start (prevTokenEnd st1.tokens,
                (c.sourceFile.Scan (c.sourceFile.node node).Pos).TokenStart)
        else
          decide ((c.sourceFile.node node).Pos ≤ st.pos)
            && decide (st.pos < (c.sourceFile.node node).End)
            && commentsSound c start (prevTokenEnd st1.tokens, st1.tokenStart)
      else true) = true)
    (hv : visitToken c node st1 = Except.ok st2) :
    ∃ hi2, Collected (byteLen c.sourceFile.Text.data : Int) start hi2 st2 ∧ hi2 ≤ st2.pos
      ∧ hi2 ≤ max st.pos (c.sourceFile.node node).End
      ∧ (hi2 ≤ (c.sourceFile.node node).End ∨ hi2 ≤ hi1) := by
  unfold visitToken at hv
  simp only [] at hv
  by_cases hc : c.sourceFile.Kinds.IsTokenKind (c.sourceFile.node node).Kind = true
      ∧ (c.sourceFile.node node).Reparsed = false
  · rw [if_pos hc] at hv hs
    obtain ⟨st3, hp, hv⟩ := except_bind_ok _ _ _ hv
    cases hv
    by_cases hj : (c.sourceFile.node node).Kind ≠ ast.Kind.JsxText
    · rw [if_pos hj] at hp hs
      simp only [Bool.and_eq_true, decide_eq_true_eq, Bool.or_eq_true, beq_iff_eq] at hs
      obtain ⟨⟨⟨⟨a1, a2⟩, a3⟩, a4⟩, a5⟩ := hs
      obtain ⟨g1, _, _, _⟩ := pushToken_sound c _ start hi1 _ _ st3
        (@Collected.of_eq _ _ _ st1 { st1 with
          tokenStart := (c.sourceFile.Scan (c.sourceFile.node node).Pos).TokenStart } h1 rfl rfl)
        h0 (by simp only []; omega) (by simp only []; omega) (by simp only []; omega)
        (by simp only []; exact hlen)
        (fun hk => by
          simp only [] at hk ⊢
          rcases a4 with e | e
          · exact absurd e hk
          · exact e) a5 hp
      simp only [] at g1
      exact ⟨_, g1.of_eq rfl rfl, le_refl _, by omega, Or.inl (le_refl _)⟩
    · rw [if_neg hj] at hp hs
      simp only [Bool.and_eq_true, decide_eq_true_eq] at hs
      obtain ⟨⟨a1, a2⟩, a3⟩ := hs
      have hst1 := hsame (by omega)
      have hts : st1.tokenStart = st.pos := by rw [hst1]
      have hkind : (c.sourceFile.node node).Kind = ast.Kind.JsxText := by
        by_contra hne
        exact hj hne
      obtain ⟨g1, _, _, _⟩ := pushToken_sound c _ start hi1 _ _ st3 h1
        h0 (by simp only [hts]; rw [hst1] at hpos1; exact hpos1) (by simp only [hts]; exact hstart)
        (by simp only [hts]; omega) (by simp only []; exact hlen)
        (fun _ => by simp only [hts]; exact a2) a3 hp
      simp only [] at g1
      exact ⟨_, g1.of_eq rfl rfl, le_refl _, by omega, Or.inl (le_refl _)⟩
  · rw [if_neg hc] at hv
    cases hv
    exact ⟨hi1, h1, hpos1, by omega, Or.inr (le_refl _)⟩

/-- The visit of a node with sound answers keeps what holds of the collected tokens and
comments: afterwards the walk stands at the end of the node and no token ends behind
it. -/
theorem visitSelf_sound (c : converter) (start : Int) (node : ast.NodePtr)
    (st st2 : TokenCollector) (h0 : 0 ≤ start) (hstart : start ≤ st.pos)
    (h : Collected (byteLen c.sourceFile.Text.data : Int) start st.pos st)
    (hs : visitSelfSound c start node st = true)
    (hv : visitSelf c node st = Except.ok st2) :
    Collected (byteLen c.sourceFile.Text.data : Int) start st2.pos st2 ∧ start ≤ st2.pos
      ∧ st2.pos ≤ (byteLen c.sourceFile.Text.data : Int) := by
  unfold visitSelf at hv
  simp only [] at hv
  obtain ⟨s1, hv1, hv⟩ := except_bind_ok _ _ _ hv
  obtain ⟨s2, hv2, hv⟩ := except_bind_ok _ _ _ hv
  obtain ⟨s3, hv3, hv⟩ := except_bind_ok _ _ _ hv
  cases hv
  have hv2' : visitToken c node s1 = Except.ok s2 := hv2
  unfold visitSelfSound at hs
  simp only [Bool.and_eq_true, decide_eq_true_eq] at hs
  obtain ⟨⟨⟨⟨⟨n1, n2⟩, n3⟩, n4⟩, hl1⟩, hrest⟩ := hs
  rw [hv1] at hrest
  simp only [Bool.and_eq_true] at hrest
  obtain ⟨htok, hrest⟩ := hrest
  rw [hv2'] at hrest
  simp only [] at hrest
  obtain ⟨⟨hi1, g1, g2, g3⟩, g4, g5, g6⟩ := addSyntheticNodes_sound c start
    (c.sourceFile.node node).Pos h0 (by omega) st.pos st s1 hl1 h (le_refl _) hv1
  obtain ⟨hi2, k1, k2, k3, _⟩ := visitToken_sound c start node st s1 s2 h0 hstart n3 n1 n2 hi1 g1
    g2 g3 g6 htok hv2'
  obtain ⟨⟨hi3, m1, m2, m3⟩, _, _, _⟩ := addSyntheticNodes_sound c start
    (c.sourceFile.node node).End h0 n2 hi2 s2 s3 hrest k1 k2 hv3
  refine ⟨?_, n4, n2⟩
  have hle : hi3 ≤ (c.sourceFile.node node).End := by omega
  exact (m1.mono hle).of_eq rfl rfl

/-- The walk over some nodes and what is below them, with sound answers, keeps what holds
of the collected tokens and comments. -/
theorem visitNodes_sound (c : converter) (start : Int) (h0 : 0 ≤ start) :
    ∀ (fuel : Nat) (nodes : List ast.NodePtr) (st st2 : TokenCollector),
      start ≤ st.pos → st.pos ≤ (byteLen c.sourceFile.Text.data : Int) →
      Collected (byteLen c.sourceFile.Text.data : Int) start st.pos st →
      visitNodesSound c start fuel nodes st = true →
      visitNodes c fuel nodes st = Except.ok st2 →
      Collected (byteLen c.sourceFile.Text.data : Int) start st2.pos st2
        ∧ start ≤ st2.pos ∧ st2.pos ≤ (byteLen c.sourceFile.Text.data : Int) := by
  intro fuel
  induction fuel with
  | zero =>
    intro nodes st st2 hstart hlen h _ hv
    cases nodes with
    | nil =>
      cases hv
      exact ⟨h, hstart, hlen⟩
    | cons n rest => cases hv
  | succ fuel ih =>
    intro nodes st st2 hstart hlen h hs hv
    cases nodes with
    | nil =>
      cases hv
      exact ⟨h, hstart, hlen⟩
    | cons n rest =>
      unfold visitNodes at hv
      unfold visitNodesSound at hs
      obtain ⟨s1, hv1, hv⟩ := except_bind_ok _ _ _ hv
      obtain ⟨s2, hv2, hv⟩ := except_bind_ok _ _ _ hv
      simp only [Bool.and_eq_true] at hs
      obtain ⟨hs1, hs⟩ := hs
      rw [hv1] at hs
      simp only [Bool.and_eq_true] at hs
      obtain ⟨hs2, hs⟩ := hs
      rw [hv2] at hs
      simp only [] at hs
      obtain ⟨g1, g2, _⟩ := ih _ st s1 hstart hlen h hs1 hv1
      obtain ⟨k1, k2, k3⟩ := visitSelf_sound c start n s1 s2 h0 g2 g1 hs2 hv2
      exact ih _ s2 st2 k2 k3 k1 hs hv

/-- A slice that does not panic has offsets within the text. -/
theorem sliceText_ok (s : String) (lo hi : Int) (v : String)
    (h : sliceText s lo hi = Except.ok v) :
    0 ≤ lo ∧ lo ≤ hi ∧ hi ≤ (byteLen s.data : Int) := by
  unfold sliceText at h
  split_ifs at h with hc
  exact hc

/-- The start of `collectTokens`: no comment and the walk at 0, or the shebang entry
`[2, pos]` and the walk at its end. -/
theorem collectShebang_spec (c : converter) (first : List Comment) (pos : Int)
    (h : collectShebang c = Except.ok (first, pos)) :
    0 ≤ pos ∧ (first = [] ∨ ∃ cm, first = [cm] ∧ cm.Type_ = ESTreeTokenType.Shebang
      ∧ cm.Range = (2, pos) ∧ pos ≤ (byteLen c.sourceFile.Text.data : Int)) := by
  have key : ∀ p cm, shebangComment c p = Except.ok cm →
      cm.Type_ = ESTreeTokenType.Shebang ∧ cm.Range = (2, p) ∧ 2 ≤ p
        ∧ p ≤ (byteLen c.sourceFile.Text.data : Int) := by
    intro p cm hcm
    unfold shebangComment at hcm
    simp only [] at hcm
    obtain ⟨v, hv, hcm⟩ := except_bind_ok _ _ _ hcm
    cases hcm
    have := sliceText_ok _ _ _ _ hv
    exact ⟨rfl, rfl, this.2.1, this.2.2⟩
  unfold collectShebang at h
  split at h
  · obtain ⟨cm, hcm, h⟩ := except_bind_ok _ _ _ h
    cases h
    obtain ⟨k1, k2, k3, k4⟩ := key _ _ hcm
    exact ⟨by omega, Or.inr ⟨cm, rfl, k1, k2, k4⟩⟩
  · simp only [] at h
    obtain ⟨cm, hcm, h⟩ := except_bind_ok _ _ _ h
    cases h
    obtain ⟨k1, k2, k3, k4⟩ := key _ _ hcm
    exact ⟨by omega, Or.inr ⟨cm, rfl, k1, k2, k4⟩⟩
  · cases h
    exact ⟨le_refl _, Or.inl rfl⟩

/-- With a sound front end the tokens and comments `collectTokens` returns lie in the text,
each kind one after the other, no token is empty unless it is the end of the file, no
comment is empty unless it is the shebang, and no comment overlaps a token. -/
theorem collectTokens_sound (c : converter) (fuel : Nat) (tokens : List tsToken)
    (comments : List Comment) (hs : collectSound c fuel = true)
    (h : collectTokens c fuel = Except.ok (tokens, comments)) :
    (∀ t ∈ tokens, 0 ≤ t.loc.1 ∧ t.loc.1 ≤ t.loc.2
        ∧ t.loc.2 ≤ (byteLen c.sourceFile.Text.data : Int)
        ∧ (t.kind ≠ ast.Kind.EndOfFile → t.loc.1 < t.loc.2))
    ∧ tokens.Pairwise (fun a b => a.loc.2 ≤ b.loc.1)
    ∧ (∀ cm ∈ comments, 0 ≤ cm.Range.1 ∧ cm.Range.1 ≤ cm.Range.2
        ∧ cm.Range.2 ≤ (byteLen c.sourceFile.Text.data : Int)
        ∧ (cm.Type_ ≠ ESTreeTokenType.Shebang → cm.Range.1 < cm.Range.2))
    ∧ comments.Pairwise (fun a b => a.Range.2 ≤ b.Range.1)
    ∧ (∀ cm ∈ comments, ∀ t ∈ tokens, cm.Range.2 ≤ t.loc.1 ∨ t.loc.2 ≤ cm.Range.1) := by
  unfold collectTokens at h
  simp only [] at h
  obtain ⟨sh, hsh, h⟩ := except_bind_ok _ _ _ h
  obtain ⟨first, pos⟩ := sh
  simp only [] at h
  obtain ⟨st, hst, h⟩ := except_bind_ok _ _ _ h
  obtain ⟨cs, hcs, h⟩ := except_bind_ok _ _ _ h
  cases h
  unfold collectSound at hs
  rw [hsh] at hs
  simp only [Bool.and_eq_true] at hs
  obtain ⟨hs1, hs2⟩ := hs
  rw [hst] at hs2
  simp only [Bool.and_eq_true, decide_eq_true_eq] at hs2
  obtain ⟨hroot, hs2⟩ := hs2
  obtain ⟨hpos, hfirst⟩ := collectShebang_spec c first pos hsh
  have hinit : Collected (byteLen c.sourceFile.Text.data : Int) pos pos
      { tokens := [], comments := first, pos := pos } := by
    refine ⟨fun t ht => absurd ht (List.not_mem_nil t), List.Pairwise.nil,
      fun t ht => absurd ht (List.not_mem_nil t), ?_, ?_, ?_,
      fun _ _ t ht => absurd ht (List.not_mem_nil t)⟩
    · intro cm hcm
      rcases hfirst with e | ⟨x, e, e1, e2, e3⟩
      · rw [e] at hcm
        cases hcm
      · simp only [e, List.mem_singleton] at hcm
        subst hcm
        have h2 : (2 : Int) ≤ pos := by
          have := collectShebang_spec c first pos hsh
          unfold collectShebang at hsh
          split at hsh
          · obtain ⟨cm, hcm, hsh⟩ := except_bind_ok _ _ _ hsh
            cases hsh
            unfold shebangComment at hcm
            simp only [] at hcm
            obtain ⟨v, hv, _⟩ := except_bind_ok _ _ _ hcm
            exact (sliceText_ok _ _ _ _ hv).2.1
          · simp only [] at hsh
            obtain ⟨cm, hcm, hsh⟩ := except_bind_ok _ _ _ hsh
            cases hsh
            unfold shebangComment at hcm
            simp only [] at hcm
            obtain ⟨v, hv, _⟩ := except_bind_ok _ _ _ hcm
            exact (sliceText_ok _ _ _ _ hv).2.1
          · cases hsh
            cases e
        rw [e2]
        exact ⟨by simp only []; decide, h2, e3, fun hne => absurd e1 hne⟩
    · rcases hfirst with e | ⟨x, e, _⟩
      · rw [e]
        exact List.Pairwise.nil
      · rw [e]
        exact List.pairwise_singleton _ _
    · intro cm hcm
      rcases hfirst with e | ⟨x, e, e1, e2, e3⟩
      · rw [e] at hcm
        cases hcm
      · simp only [e, List.mem_singleton] at hcm
        subst hcm
        rw [e2]
        exact le_refl _
  have hposlen : pos ≤ (byteLen c.sourceFile.Text.data : Int) := by
    rcases hfirst with e | ⟨x, _, _, _, e3⟩
    · unfold collectShebang at hsh
      split at hsh
      · obtain ⟨cm, hcm, hsh⟩ := except_bind_ok _ _ _ hsh
        cases hsh
        cases e
      · simp only [] at hsh
        obtain ⟨cm, hcm, hsh⟩ := except_bind_ok _ _ _ hsh
        cases hsh
        cases e
      · cases hsh
        exact Int.ofNat_nonneg _
    · exact e3
  obtain ⟨g, gpos, glen⟩ := visitNodes_sound c pos hpos fuel _ _ st (le_refl _) hposlen hinit
    hs1 hst
  unfold scanCommentsInRange at hcs
  unfold commentsSound at hs2
  obtain ⟨added, hout, hpair, hall⟩ := appendComments_sound c _ _ _ _ _ hs2 hcs
  simp only [] at hall
  obtain ⟨h1, h2, h3, h4, h5, h6, h7⟩ := g
  have hlast := lastTokenStart_le pos st.tokens (fun x hx => (h1 x hx).2.1)
  have hprev : prevTokenEnd st.tokens ≤ st.pos := by
    unfold prevTokenEnd
    cases hl : st.tokens.getLast? with
    | none => simp only []; omega
    | some last => exact (h1 last (List.mem_of_getLast?_eq_some hl)).2.2.1
  subst hout
  refine ⟨?_, h2, ?_, ?_, ?_⟩
  · intro t ht
    obtain ⟨a, b, c1, d⟩ := h1 t ht
    exact ⟨by omega, b, by omega, d⟩
  · intro cm hcm
    rcases List.mem_append.mp hcm with e | e
    · exact h4 cm e
    · obtain ⟨a, b, c1, d⟩ := hall cm e
      exact ⟨by omega, le_of_lt b, by omega, fun _ => b⟩
  · rw [List.pairwise_append]
    refine ⟨h5, hpair, ?_⟩
    intro a ha b hb
    have := h6 a ha
    have := (hall b hb).1
    omega
  · intro cm hcm t ht
    rcases List.mem_append.mp hcm with e | e
    · exact h7 cm e t ht
    · right
      have := (h1 t ht).2.2.1
      have := (hall cm e).1
      omega

/-- Two slices that meet make the slice over both. -/
theorem charsBetween_split (s : List Char) : ∀ (off lo mid hi : Nat), lo ≤ mid → mid ≤ hi →
    charsBetween s off lo mid ++ charsBetween s off mid hi = charsBetween s off lo hi := by
  induction s with
  | nil =>
    intro off lo mid hi _ _
    rfl
  | cons ch rest ih =>
    intro off lo mid hi h1 h2
    simp only [charsBetween]
    by_cases ha : lo ≤ off ∧ off < mid
    · have hb : ¬(mid ≤ off ∧ off < hi) := fun hc => absurd ha.2 (Nat.not_lt.mpr hc.1)
      have hc : lo ≤ off ∧ off < hi := ⟨ha.1, Nat.lt_of_lt_of_le ha.2 h2⟩
      rw [if_pos ha, if_neg hb, if_pos hc, List.cons_append, ih _ _ _ _ h1 h2]
    · by_cases hb : mid ≤ off ∧ off < hi
      · have hc : lo ≤ off ∧ off < hi := ⟨Nat.le_trans h1 hb.1, hb.2⟩
        rw [if_neg ha, if_pos hb, if_pos hc,
          charsBetween_after rest _ lo mid (Nat.le_trans hb.1 (Nat.le_add_right _ _)),
          List.nil_append]
        have := ih (off + ch.utf8Size) lo mid hi h1 h2
        rw [charsBetween_after rest _ lo mid (Nat.le_trans hb.1 (Nat.le_add_right _ _)),
          List.nil_append] at this
        rw [this]
      · have hc : ¬(lo ≤ off ∧ off < hi) := by
          intro hc
          by_cases hm : off < mid
          · exact ha ⟨hc.1, hm⟩
          · exact hb ⟨Nat.le_of_not_lt hm, hc.2⟩
        rw [if_neg ha, if_neg hb, if_neg hc]
        exact ih _ _ _ _ h1 h2

/-- The slice over the whole text is the text. -/
theorem charsBetween_all (s : List Char) : charsBetween s 0 0 (byteLen s) = s := by
  have := charsBetween_prefix s [] 0 0 (Nat.le_refl 0)
  simpa using this

/-- The text put together again from ranges that come one after the other in the text is
the text from the start on. -/
theorem rebuild_eq (text : List Char) : ∀ (ranges : List Range) (pos : Nat),
    ranges.Pairwise (fun a b => a.2 ≤ b.1) →
    (∀ r ∈ ranges, (pos : Int) ≤ r.1 ∧ r.1 ≤ r.2 ∧ r.2 ≤ (byteLen text : Int)) →
    pos ≤ byteLen text →
    rebuild text ranges pos = charsBetween text 0 pos (byteLen text) := by
  intro ranges
  induction ranges with
  | nil =>
    intro pos _ _ _
    rfl
  | cons r rest ih =>
    intro pos hp hb hpos
    rw [List.pairwise_cons] at hp
    obtain ⟨b1, b2, b3⟩ := hb r (List.mem_cons_self _ _)
    have hrest : ∀ x ∈ rest, ((r.2.toNat : Nat) : Int) ≤ x.1 ∧ x.1 ≤ x.2
        ∧ x.2 ≤ (byteLen text : Int) := by
      intro x hx
      obtain ⟨_, c2, c3⟩ := hb x (List.mem_cons_of_mem _ hx)
      have := hp.1 x hx
      exact ⟨by omega, c2, c3⟩
    simp only [rebuild]
    rw [ih r.2.toNat hp.2 hrest (by omega),
      charsBetween_split text 0 pos r.1.toNat r.2.toNat (by omega) (by omega),
      charsBetween_split text 0 pos r.2.toNat (byteLen text) (by omega) (by omega)]

/-- A range put into ranges that come one after the other, none of them overlapping it,
gives ranges that come one after the other: the same ranges and the new one. -/
theorem insertRange_sorted (a : Range) : ∀ (l : List Range),
    l.Pairwise (fun x y => x.2 ≤ y.1) → (∀ b ∈ l, b.1 ≤ b.2) →
    (∀ b ∈ l, a.2 ≤ b.1 ∨ b.2 ≤ a.1) →
    (insertRange a l).Pairwise (fun x y => x.2 ≤ y.1) ∧ (insertRange a l).Perm (a :: l) := by
  intro l
  induction l with
  | nil =>
    intro _ _ _
    exact ⟨List.pairwise_singleton _ _, List.Perm.refl _⟩
  | cons b rest ih =>
    intro hp hb hd
    rw [List.pairwise_cons] at hp
    unfold insertRange
    by_cases hab : a.2 ≤ b.1
    · rw [if_pos hab]
      refine ⟨?_, List.Perm.refl _⟩
      rw [List.pairwise_cons]
      refine ⟨?_, List.pairwise_cons.mpr hp⟩
      intro x hx
      rcases List.mem_cons.mp hx with e | e
      · rw [e]
        exact hab
      · have := hp.1 x e
        have := hb b (List.mem_cons_self _ _)
        omega
    · rw [if_neg hab]
      obtain ⟨i1, i2⟩ := ih hp.2 (fun x hx => hb x (List.mem_cons_of_mem _ hx))
        (fun x hx => hd x (List.mem_cons_of_mem _ hx))
      refine ⟨?_, (List.Perm.cons b i2).trans (List.Perm.swap a b rest)⟩
      rw [List.pairwise_cons]
      refine ⟨?_, i1⟩
      intro x hx
      rcases List.mem_cons.mp (i2.subset hx) with e | e
      · rw [e]
        rcases hd b (List.mem_cons_self _ _) with h | h
        · exact absurd h hab
        · exact h
      · exact hp.1 x e

/-- The ranges of tokens and of comments, each kind one after the other and no comment
overlapping a token, in the order of their positions: all of them, one after the other. -/
theorem arrange_sorted (tokens : List Range) (htp : tokens.Pairwise (fun x y => x.2 ≤ y.1))
    (htb : ∀ b ∈ tokens, b.1 ≤ b.2) : ∀ (comments : List Range),
    comments.Pairwise (fun x y => x.2 ≤ y.1) → (∀ b ∈ comments, b.1 ≤ b.2) →
    (∀ a ∈ comments, ∀ b ∈ tokens, a.2 ≤ b.1 ∨ b.2 ≤ a.1) →
    (arrange tokens comments).Pairwise (fun x y => x.2 ≤ y.1)
      ∧ (arrange tokens comments).Perm (comments ++ tokens) := by
  intro comments
  induction comments with
  | nil =>
    intro _ _ _
    exact ⟨htp, List.Perm.refl _⟩
  | cons a rest ih =>
    intro hp hb hd
    rw [List.pairwise_cons] at hp
    obtain ⟨i1, i2⟩ := ih hp.2 (fun x hx => hb x (List.mem_cons_of_mem _ hx))
      (fun x hx => hd x (List.mem_cons_of_mem _ hx))
    have hmem : ∀ x ∈ arrange tokens rest, x ∈ rest ∨ x ∈ tokens := fun x hx =>
      List.mem_append.mp (i2.subset hx)
    obtain ⟨j1, j2⟩ := insertRange_sorted a (arrange tokens rest) i1
      (fun x hx => (hmem x hx).elim (fun e => hb x (List.mem_cons_of_mem _ e)) (htb x))
      (fun x hx => (hmem x hx).elim (fun e => Or.inl (hp.1 x e))
        (fun e => hd a (List.mem_cons_self _ _) x e))
    exact ⟨j1, j2.trans (List.Perm.cons a i2)⟩

/-- Every token of `Program.Tokens` is built from a collected token. -/
theorem tokensOf_mem (c : converter) : ∀ (ts : List tsToken) (toks : List Token),
    tokensOf c ts = Except.ok toks →
    ∀ tok ∈ toks, ∃ t ∈ ts, tokenOf c t = Except.ok tok := by
  intro ts
  induction ts with
  | nil =>
    intro toks h tok htok
    cases h
    cases htok
  | cons t rest ih =>
    intro toks h tok htok
    unfold tokensOf at h
    obtain ⟨x, hx, h⟩ := except_bind_ok _ _ _ h
    obtain ⟨more, hmore, h⟩ := except_bind_ok _ _ _ h
    cases h
    rcases List.mem_cons.mp htok with e | e
    · exact ⟨t, List.mem_cons_self _ _, e ▸ hx⟩
    · obtain ⟨y, hy, hy2⟩ := ih more hmore tok e
      exact ⟨y, List.mem_cons_of_mem _ hy, hy2⟩

/-- C26 as stated fails on the text `#x`: for the private identifier collected at `[0, 2]`
the token has the `Range` `[0, 2]`, whose slice of the text is `#x`, and the `Value` `x`. -/
theorem token_text_counterexample :
    (tokenOf (converter.init (textOnly "#x"))
        { kind := ast.Kind.PrivateIdentifier, loc := (0, 2) }).toOption.map
          (fun t => (t.Type_, t.Value, t.Range))
      = some (ESTreeTokenType.PrivateIdentifier, "x", (0, 2))
    ∧ (sliceText (textOnly "#x").Text 0 2).toOption = some "#x" := by
  refine ⟨by decide!, by decide!⟩

/-- C26, amended: token completeness. For a source file whose front end is sound for the
walk of `collectTokens` (the nodes come in the order of the text and every answer of the
scanner lies where it was asked for) and for which `parseTokens` returns: the `Range`s of
`Program.Tokens` are in bounds, do not overlap and increase in list order, strictly behind
every token that is not empty, which every token is but that of the end of the file; the
`Range`s of `Program.Comments` likewise, every comment but the shebang being not empty; no
comment `Range` overlaps a token `Range`; the `Value` of a token is the slice of the text at
its `Range`, but that of a private identifier, which is the slice without the leading `#`;
hence the token slices, the comment slices and the untouched text between them, in the
order of their positions, give the source text. A token whose slice is in bounds and whose
type is neither `RegularExpression` nor `PrivateIdentifier` is always built. -/
theorem tokens_keep_ranges (c : converter) (fuel : Nat) (tokens : List Token)
    (comments : List Comment) (hs : collectSound c fuel = true)
    (h : parseTokens c fuel = Except.ok (tokens, comments)) :
    (∀ t ∈ tokens, 0 ≤ t.Range.1 ∧ t.Range.1 ≤ t.Range.2
        ∧ t.Range.2 ≤ (byteLen c.sourceFile.Text.data : Int))
    ∧ tokens.Pairwise (fun a b => a.Range.2 ≤ b.Range.1
        ∧ (a.Range.1 < a.Range.2 → a.Range.1 < b.Range.1))
    ∧ (∃ tsTokens, collectTokens c fuel = Except.ok (tsTokens, comments)
        ∧ tokensOf c tsTokens = Except.ok tokens
        ∧ tokens.map (fun t => t.Range) = tsTokens.map (fun t => t.loc)
        ∧ ∀ t ∈ tsTokens, t.kind ≠ ast.Kind.EndOfFile → t.loc.1 < t.loc.2)
    ∧ (∀ cm ∈ comments, 0 ≤ cm.Range.1 ∧ cm.Range.1 ≤ cm.Range.2
        ∧ cm.Range.2 ≤ (byteLen c.sourceFile.Text.data : Int)
        ∧ (cm.Type_ ≠ ESTreeTokenType.Shebang → cm.Range.1 < cm.Range.2))
    ∧ comments.Pairwise (fun a b => a.Range.2 ≤ b.Range.1
        ∧ (a.Range.1 < a.Range.2 → a.Range.1 < b.Range.1))
    ∧ (∀ cm ∈ comments, ∀ t ∈ tokens, cm.Range.2 ≤ t.Range.1 ∨ t.Range.2 ≤ cm.Range.1)
    ∧ (∀ t ∈ tokens, ∃ v, sliceText c.sourceFile.Text t.Range.1 t.Range.2 = Except.ok v
        ∧ (t.Type_ ≠ ESTreeTokenType.PrivateIdentifier → t.Value = v)
        ∧ (t.Type_ = ESTreeTokenType.PrivateIdentifier →
            sliceText v 1 (byteLen v.data) = Except.ok t.Value))
    ∧ (arrange (tokens.map (fun t => t.Range)) (comments.map (fun x => x.Range))).Perm
        (comments.map (fun x => x.Range) ++ tokens.map (fun t => t.Range))
    ∧ (arrange (tokens.map (fun t => t.Range)) (comments.map (fun x => x.Range))).Pairwise
        (fun a b => a.2 ≤ b.1)
    ∧ rebuild c.sourceFile.Text.data
        (arrange (tokens.map (fun t => t.Range)) (comments.map (fun x => x.Range))) 0
        = c.sourceFile.Text.data
    ∧ (∀ t v ty, sliceText c.sourceFile.Text t.loc.1 t.loc.2 = Except.ok v →
      getTokenType c.sourceFile t v = Except.ok ty →
      ty ≠ ESTreeTokenType.RegularExpression → ty ≠ ESTreeTokenType.PrivateIdentifier →
      tokenOf c t
        = Except.ok { Type_ := ty, Value := v, Range := t.loc, Loc := c.getLocFor t.loc }) := by
  unfold parseTokens at h
  obtain ⟨r, hr, h⟩ := except_bind_ok _ _ _ h
  obtain ⟨tsTokens, cs⟩ := r
  simp only [] at h
  obtain ⟨toks, htoks, h⟩ := except_bind_ok _ _ _ h
  cases h
  obtain ⟨k1, k2, k3, k4, k5⟩ := collectTokens_sound c fuel tsTokens comments hs hr
  have hmap := tokensOf_ranges c _ _ htoks
  have hmem : ∀ t ∈ tokens, ∃ x ∈ tsTokens, tokenOf c x = Except.ok t ∧ t.Range = x.loc := by
    intro t ht
    obtain ⟨x, hx, hx2⟩ := tokensOf_mem c _ _ htoks t ht
    exact ⟨x, hx, hx2, (tokenOf_spec c x t hx2).1⟩
  have hpairT : (tokens.map (fun t => t.Range)).Pairwise (fun a b => a.2 ≤ b.1) := by
    rw [hmap, List.pairwise_map]
    exact k2
  have hboundT : ∀ t ∈ tokens, 0 ≤ t.Range.1 ∧ t.Range.1 ≤ t.Range.2
      ∧ t.Range.2 ≤ (byteLen c.sourceFile.Text.data : Int) := by
    intro t ht
    obtain ⟨x, hx, _, hx3⟩ := hmem t ht
    rw [hx3]
    exact ⟨(k1 x hx).1, (k1 x hx).2.1, (k1 x hx).2.2.1⟩
  have hpairC : (comments.map (fun x => x.Range)).Pairwise (fun a b => a.2 ≤ b.1) := by
    rw [List.pairwise_map]
    exact k4
  have hdis : ∀ cm ∈ comments, ∀ t ∈ tokens,
      cm.Range.2 ≤ t.Range.1 ∨ t.Range.2 ≤ cm.Range.1 := by
    intro cm hcm t ht
    obtain ⟨x, hx, _, hx3⟩ := hmem t ht
    rw [hx3]
    exact k5 cm hcm x hx
  obtain ⟨a1, a2⟩ := arrange_sorted (tokens.map (fun t => t.Range)) hpairT
    (by
      intro b hb
      obtain ⟨t, ht, rfl⟩ := List.mem_map.mp hb
      exact (hboundT t ht).2.1)
    (comments.map (fun x => x.Range)) hpairC
    (by
      intro b hb
      obtain ⟨x, hx, rfl⟩ := List.mem_map.mp hb
      exact (k3 x hx).2.1)
    (by
      intro a ha b hb
      obtain ⟨x, hx, rfl⟩ := List.mem_map.mp ha
      obtain ⟨t, ht, rfl⟩ := List.mem_map.mp hb
      exact hdis x hx t ht)
  refine ⟨hboundT, ?_, ⟨tsTokens, hr, htoks, hmap, fun t ht => (k1 t ht).2.2.2⟩, k3, ?_, hdis,
    ?_, a2, a1, ?_, ?_⟩
  · have : (tokens.map (fun t => t.Range)).Pairwise
        (fun a b => a.2 ≤ b.1 ∧ (a.1 < a.2 → a.1 < b.1)) :=
      hpairT.imp (fun hab => ⟨hab, fun hlt => lt_of_lt_of_le hlt hab⟩)
    exact List.pairwise_map.mp this
  · exact k4.imp (fun hab => ⟨hab, fun hlt => lt_of_lt_of_le hlt hab⟩)
  · intro t ht
    obtain ⟨x, hx, hx2, hx3⟩ := hmem t ht
    obtain ⟨_, v, hv, _, h3, h4⟩ := tokenOf_spec c x t hx2
    rw [hx3]
    exact ⟨v, hv, h3, h4⟩
  · rw [rebuild_eq c.sourceFile.Text.data _ 0 a1 ?_ (Nat.zero_le _), charsBetween_all]
    intro r hr
    rcases List.mem_append.mp (a2.subset hr) with e | e
    · obtain ⟨x, hx, rfl⟩ := List.mem_map.mp e
      exact ⟨by simpa using (k3 x hx).1, (k3 x hx).2.1, (k3 x hx).2.2.1⟩
    · obtain ⟨t, ht, rfl⟩ := List.mem_map.mp e
      exact ⟨by simpa using (hboundT t ht).1, (hboundT t ht).2.1, (hboundT t ht).2.2⟩
  · intro t v ty hv hty hre hpr
    obtain ⟨hs1, hl, hb⟩ := getTokenType_handled _ _ _ _ hty
    simp only [tokenOf, bind, Except.bind, hv, hty]
    cases ty <;> first
      | rfl
      | exact absurd rfl hre
      | exact absurd rfl hpr
      | exact absurd rfl hs1
      | exact absurd rfl hl
      | exact absurd rfl hb

/-- C26, amended, on `a, /*c*/ b`: the front end is sound for the walk, `parseTokens`
returns the tokens `a`, `,` and `b` at `[0, 1]`, `[1, 2]` and `[9, 10]` and the comment at
`[3, 8]`, which in the order of their positions are four ranges that come one after the
other, and the text put together from them is the text. -/
theorem tokens_keep_ranges_witness :
    collectSound (converter.init commentedComma) 20 = true
    ∧ ∃ tokens comments,
        parseTokens (converter.init commentedComma) 20 = Except.ok (tokens, comments)
        ∧ tokens.map (fun t => (t.Value, t.Range))
            = [("a", (0, 1)), (",", (1, 2)), ("b", (9, 10))]
        ∧ comments.map (fun x => (x.Value, x.Range)) = [("c", (3, 8))]
        ∧ arrange (tokens.map (fun t => t.Range)) (comments.map (fun x => x.Range))
            = [(0, 1), (1, 2), (3, 8), (9, 10)]
        ∧ (∀ cm ∈ comments, ∀ t ∈ tokens,
            cm.Range.2 ≤ t.Range.1 ∨ t.Range.2 ≤ cm.Range.1)
        ∧ rebuild (converter.init commentedComma).sourceFile.Text.data
            (arrange (tokens.map (fun t => t.Range)) (comments.map (fun x => x.Range))) 0
            = "a, /*c*/ b".data := by
  have hs : collectSound (converter.init commentedComma) 20 = true := by decide!
  have hrun : (parseTokens (converter.init commentedComma) 20).toOption.map
      (fun r => (r.1.map (fun t => (t.Value, t.Range)), r.2.map (fun x => (x.Value, x.Range)),
        arrange (r.1.map (fun t => t.Range)) (r.2.map (fun x => x.Range))))
      = some ([("a", (0, 1)), (",", (1, 2)), ("b", (9, 10))], [("c", (3, 8))],
          [(0, 1), (1, 2), (3, 8), (9, 10)]) := by decide!
  refine ⟨hs, ?_⟩
  cases hp : parseTokens (converter.init commentedComma) 20 with
  | error e =>
    rw [hp] at hrun
    cases hrun
  | ok r =>
    obtain ⟨tokens, comments⟩ := r
    rw [hp] at hrun
    simp only [Except.toOption, Option.map_some', Option.some.injEq, Prod.mk.injEq] at hrun
    have key := tokens_keep_ranges (converter.init commentedComma) 20 tokens comments hs hp
    exact ⟨tokens, comments, rfl, hrun.1, hrun.2.1, hrun.2.2, key.2.2.2.2.2.1,
      key.2.2.2.2.2.2.2.2.2.1⟩

end estree

/-! ## The linter: C27 to C30 -/

namespace eslint_compat

open estree

/-- The offset of a line and a column is computed whenever the line map is not empty. -/
theorem positionOf_total (file : ast.SourceFile) (line column : Int)
    (h : file.LineMap ≠ []) : ∃ p, positionOf file line column = Except.ok p := by
  have hlen : 0 < file.LineMap.length := List.length_pos.mpr h
  have h0 : (0 : Int) ≤ min (max (wrapInt (line - 1)) 0) ((file.LineMap.length : Int) - 1) := by
    apply le_min
    · exact le_max_right _ _
    · omega
  have hlt : (min (max (wrapInt (line - 1)) 0) ((file.LineMap.length : Int) - 1)).toNat
      < file.LineMap.length := by
    have : min (max (wrapInt (line - 1)) 0) ((file.LineMap.length : Int) - 1)
        ≤ (file.LineMap.length : Int) - 1 := min_le_right _ _
    omega
  obtain ⟨p, hp⟩ : ∃ p, file.LineMap.get?
      (min (max (wrapInt (line - 1)) 0) ((file.LineMap.length : Int) - 1)).toNat = some p :=
    ⟨_, List.get?_eq_get hlt⟩
  refine ⟨min (max (wrapInt (wrapInt (p + column) - 1)) 0) (byteLen file.Text.data), ?_⟩
  simp only [positionOf, lineStart, h0, if_true, hp, bind, Except.bind, pure, Except.pure]

/-- C27: the report callback of `LintFile`, for a file whose line map is not empty, hands a
diagnostic to the sink; the diagnostic carries no fixes if and only if `fixStart == -1`,
and otherwise exactly one fix, with the text `fixText` and the range `[fixStart, fixEnd]`;
it carries the suggestions if and only if the list is not empty; and rule id, message id
and message description are those of the report. -/
theorem report_fixes (filePtr : FilePtr) (file : ast.SourceFile) (r : Report)
    (hmap : file.LineMap ≠ []) :
    ∃ d, reportDiagnostic filePtr file r = Except.ok d
      ∧ (d.FixesPtr = none ↔ r.fixRangeStart = -1)
      ∧ (r.fixRangeStart ≠ -1 →
          d.FixesPtr = some [{ Text := r.fixText, Range := (r.fixRangeStart, r.fixRangeEnd) }])
      ∧ (d.Suggestions = none ↔ r.suggestions = [])
      ∧ (r.suggestions ≠ [] → d.Suggestions = some r.suggestions)
      ∧ d.RuleName = r.ruleId
      ∧ d.Message = { Id := r.messageId, Description := r.messageDescription }
      ∧ d.SourceFile = filePtr := by
  obtain ⟨p1, hp1⟩ := positionOf_total file r.line r.column hmap
  obtain ⟨p2, hp2⟩ := positionOf_total file r.endLine r.endColumn hmap
  have hrun : reportDiagnostic filePtr file r
      = Except.ok
          (if r.suggestions.length ≠ 0 then
            { (if r.fixRangeStart ≠ -1 then
                { ({ RuleName := r.ruleId, Range := (p1, p2)
                     Message := { Id := r.messageId, Description := r.messageDescription }
                     SourceFile := filePtr } : RuleDiagnostic) with
                  FixesPtr := some [{ Text := r.fixText
                                      Range := (r.fixRangeStart, r.fixRangeEnd) }] }
              else
                { RuleName := r.ruleId, Range := (p1, p2)
                  Message := { Id := r.messageId, Description := r.messageDescription }
                  SourceFile := filePtr }) with
              Suggestions := some r.suggestions }
          else
            (if r.fixRangeStart ≠ -1 then
              { ({ RuleName := r.ruleId, Range := (p1, p2)
                   Message := { Id := r.messageId, Description := r.messageDescription }
                   SourceFile := filePtr } : RuleDiagnostic) with
                FixesPtr := some [{ Text := r.fixText
                                    Range := (r.fixRangeStart, r.fixRangeEnd) }] }
            else
              { RuleName := r.ruleId, Range := (p1, p2)
                Message := { Id := r.messageId, Description := r.messageDescription }
                SourceFile := filePtr })) := by
    simp only [reportDiagnostic, hp1, hp2, bind, Except.bind, pure, Except.pure]
  refine ⟨_, hrun, ?_, ?_, ?_, ?_, ?_, ?_, ?_⟩
  · by_cases hf : r.fixRangeStart = -1 <;> by_cases hsg : r.suggestions.length = 0 <;>
      simp [hf, hsg]
  · intro hf
    by_cases hsg : r.suggestions.length = 0 <;> simp [hf, hsg]
  · by_cases hf : r.fixRangeStart = -1 <;> by_cases hsg : r.suggestions = [] <;>
      simp [hf, hsg]
  · intro hsg
    by_cases hf : r.fixRangeStart = -1 <;> simp [hf, hsg]
  · by_cases hf : r.fixRangeStart = -1 <;> by_cases hsg : r.suggestions.length = 0 <;>
      simp [hf, hsg]
  · by_cases hf : r.fixRangeStart = -1 <;> by_cases hsg : r.suggestions.length = 0 <;>
      simp [hf, hsg]
  · by_cases hf : r.fixRangeStart = -1 <;> by_cases hsg : r.suggestions.length = 0 <;>
      simp [hf, hsg]

/-- C27 on a report with a fix and on one without: the first diagnostic carries the one
fix `y` at `[0, 1]` and no suggestions, the second no fix and its suggestion. -/
theorem report_fixes_witness :
    (∃ d, reportDiagnostic 7 arrayAlone fixReport = Except.ok d
      ∧ d.FixesPtr = some [{ Text := "y", Range := (0, 1) }]
      ∧ d.Suggestions = none ∧ d.RuleName = "r")
    ∧ (∃ d, reportDiagnostic 7 arrayAlone plainReport = Except.ok d
      ∧ d.FixesPtr = none
      ∧ d.Suggestions = some [_tsgolint_suggestion "n2" "e2" "z" 0 0]) := by
  constructor
  · obtain ⟨d, h, _, hfix, hsug, _, hname, _, _⟩ :=
      report_fixes 7 arrayAlone fixReport (by decide)
    exact ⟨d, h, hfix (by decide), hsug.mpr rfl, hname⟩
  · obtain ⟨d, h, hnone, _, _, hsug, _, _, _⟩ :=
      report_fixes 7 arrayAlone plainReport (by decide)
    exact ⟨d, h, hnone.mpr rfl, hsug (by decide)⟩

end eslint_compat

namespace eslint_compat

open estree

/-- The fix of a diagnostic has the range of the report as it is: the report callback
compares `fixStart` with -1 and checks nothing else. -/
theorem reportDiagnostic_fix_range (filePtr : FilePtr) (file : ast.SourceFile) (r : Report)
    (d : RuleDiagnostic) (h : reportDiagnostic filePtr file r = Except.ok d)
    (hfix : r.fixRangeStart ≠ -1) :
    d.FixesPtr = some [{ Text := r.fixText, Range := (r.fixRangeStart, r.fixRangeEnd) }] := by
  unfold reportDiagnostic at h
  obtain ⟨p1, _, h⟩ := except_bind_ok _ _ _ h
  obtain ⟨p2, _, h⟩ := except_bind_ok _ _ _ h
  cases h
  by_cases hsg : r.suggestions.length = 0 <;> simp [hfix, hsg]

/-- C28 fails on a report with the fix range `[5, 2]` for a text of one byte: the
diagnostic handed to the sink carries the fix with the range `[5, 2]`, which is inverted
and ends past the text; and `_tsgolint_suggestion` builds a suggestion with the range
`[-7, 99]` it was given. -/
theorem fix_range_counterexample :
    byteLen (textOnly "x").Text.data = 1
    ∧ (reportDiagnostic 7 (textOnly "x") malformedReport).toOption.map (fun d => d.FixesPtr)
        = some (some [{ Text := "y", Range := (5, 2) }])
    ∧ (_tsgolint_suggestion "m" "d" "t" (-7) 99).FixesArr = [{ Text := "t", Range := (-7, 99) }]
    := by
  refine ⟨by decide!, by decide!, by decide!⟩

end eslint_compat

namespace eslint_compat

open estree

/-- The calls of the report callback, for a file whose line map is not empty: every call is
followed by the one call of the sink it makes. -/
theorem runReports_trace (filePtr : FilePtr) (file : ast.SourceFile)
    (hmap : file.LineMap ≠ []) : ∀ (rs : List Report) (trace : List Event),
    runReports filePtr file rs trace
      = (trace ++ (rs.map (fun r => Event.report filePtr r
            :: ((reportDiagnostic filePtr file r).toOption.map Event.diagnostic).toList)).flatten,
         none) := by
  intro rs
  induction rs with
  | nil =>
    intro trace
    simp [runReports]
  | cons r rest ih =>
    intro trace
    obtain ⟨p1, hp1⟩ := positionOf_total file r.line r.column hmap
    obtain ⟨p2, hp2⟩ := positionOf_total file r.endLine r.endColumn hmap
    cases hd : reportDiagnostic filePtr file r with
    | error e =>
      simp only [reportDiagnostic, hp1, hp2, bind, Except.bind, pure, Except.pure,
        reduceCtorEq] at hd
    | ok d =>
      simp only [runReports, hd, ih, Except.toOption, Option.map_some', Option.toList,
        List.map_cons, List.flatten_cons, List.append_assoc, List.cons_append,
        List.nil_append, List.singleton_append]

/-- C29: within one file the diagnostics keep the order of the script. When the conversion
and the token extraction of a file with a line map return, what happens during `LintFile`
is, for each call of the report callback the script makes, in the script's order, the call
followed by one call of the sink with its diagnostic, before the next call; every
diagnostic refers to the file; and `LintFile` returns what the script returns. -/
theorem diagnostics_in_order (vm : Runtime) (filePtr : FilePtr) (file : ast.SourceFile)
    (fuel : Nat) (program : Option Ptr) (c : converter) (tokens : List Token)
    (comments : List Comment) (text : String)
    (hrun : vm.hasRun = true) (hmap : file.LineMap ≠ [])
    (hconv : ConvertSourceFileToESTree fuel file = Except.ok (program, c))
    (htokens : parseTokens c fuel = Except.ok (tokens, comments))
    (htext : lintText file comments = Except.ok text) :
    LintFile vm filePtr file fuel
        = (((vm.run text program c).1.map (fun r => Event.report filePtr r
              :: ((reportDiagnostic filePtr file r).toOption.map Event.diagnostic).toList)
            ).flatten,
           Except.ok (vm.run text program c).2)
    ∧ (∀ r ∈ (vm.run text program c).1,
        ∃ d, reportDiagnostic filePtr file r = Except.ok d ∧ d.SourceFile = filePtr) := by
  constructor
  · have htr := runReports_trace filePtr file hmap (vm.run text program c).1 []
    simp only [LintFile, hrun, Bool.true_eq_false, if_false, hconv, htokens, htext, htr,
      List.nil_append]
  · intro r _
    obtain ⟨p1, hp1⟩ := positionOf_total file r.line r.column hmap
    obtain ⟨p2, hp2⟩ := positionOf_total file r.endLine r.endColumn hmap
    cases hd : reportDiagnostic filePtr file r with
    | error e =>
      simp only [reportDiagnostic, hp1, hp2, bind, Except.bind, pure, Except.pure,
        reduceCtorEq] at hd
    | ok d =>
      refine ⟨d, rfl, ?_⟩
      simp only [reportDiagnostic, hp1, hp2, bind, Except.bind, pure, Except.pure,
        Except.ok.injEq] at hd
      rw [← hd]
      by_cases hf : r.fixRangeStart = -1 <;> by_cases hsg : r.suggestions.length = 0 <;>
        simp [hf, hsg]

/-- C29 on the file `arrayAlone` and a script that reports twice: the conversion and the
token extraction return, and what happens is the first report, its diagnostic, the second
report, its diagnostic, each diagnostic for the file 7. -/
theorem diagnostics_in_order_witness :
    ∃ program c, ConvertSourceFileToESTree 8 arrayAlone = Except.ok (program, c)
      ∧ LintFile twoReports 7 arrayAlone 8
          = (([fixReport, plainReport].map (fun r => Event.report 7 r
                :: ((reportDiagnostic 7 arrayAlone r).toOption.map Event.diagnostic).toList)
              ).flatten,
             Except.ok none)
      ∧ (∀ r ∈ [fixReport, plainReport],
          ∃ d, reportDiagnostic 7 arrayAlone r = Except.ok d ∧ d.SourceFile = 7) := by
  have hobs : observe (ConvertSourceFileToESTree 8 arrayAlone)
      (fun _ c => (parseTokens c 8).toOption.map (fun r => r.2)) = some (some []) := by
    decide!
  cases hconv : ConvertSourceFileToESTree 8 arrayAlone with
  | error e =>
    rw [hconv] at hobs
    cases hobs
  | ok r =>
    obtain ⟨program, c⟩ := r
    rw [hconv] at hobs
    simp only [observe, Option.some.injEq] at hobs
    cases htok : parseTokens c 8 with
    | error e =>
      rw [htok] at hobs
      cases hobs
    | ok tc =>
      obtain ⟨tokens, comments⟩ := tc
      rw [htok] at hobs
      simp only [Except.toOption, Option.map_some', Option.some.injEq] at hobs
      subst hobs
      have key := diagnostics_in_order twoReports 7 arrayAlone 8 program c tokens [] ""
        rfl (by decide) hconv htok rfl
      exact ⟨program, c, rfl, key.1, key.2⟩

end eslint_compat

namespace eslint_compat

open estree

/-- C30: a bundling failure aborts the whole run. When `LoadESLintConfig` returns an error
for the entry script, `RunLinter` returns that error and nothing has happened: no
scripting host was created, no worker started, no file linted, no report made and no
diagnostic handed to the sink. The error is the concatenation of the messages of the build
when it has any, and otherwise says that the build has no output. -/
theorem bundling_failure_aborts (host : Host) (entryCode : String) (checkers : Nat)
    (files : List (FilePtr × ast.SourceFile)) (fuel : Nat) (err : String)
    (h : LoadESLintConfig host.build entryCode = Except.error err) :
    RunLinter host entryCode checkers files fuel = ([], Except.ok (some err))
    ∧ ((host.build entryCode).Errors ≠ [] →
        err = (host.build entryCode).Errors.foldl (fun msg e => msg ++ e) "")
    ∧ ((host.build entryCode).Errors = [] →
        (host.build entryCode).OutputFiles = []
        ∧ err = "bundled ESLint config is not present in outputs") := by
  refine ⟨by simp only [RunLinter, h], ?_, ?_⟩
  · intro hne
    have hlen : (host.build entryCode).Errors.length > 0 :=
      List.length_pos.mpr hne
    simp only [LoadESLintConfig, hlen, if_true, Except.error.injEq] at h
    exact h.symm
  · intro hnil
    simp only [LoadESLintConfig, hnil, List.length_nil, gt_iff_lt, lt_self_iff_false,
      if_false] at h
    cases hout : (host.build entryCode).OutputFiles with
    | nil =>
      rw [hout] at h
      simp only [Except.error.injEq] at h
      exact ⟨rfl, h.symm⟩
    | cons bundle rest =>
      rw [hout] at h
      cases h

/-- C30 on a bundler that fails with `boom`, two workers and one file: the run returns
`boom` and nothing has happened. -/
theorem bundling_failure_aborts_witness :
    LoadESLintConfig failingHost.build "e" = Except.error "boom"
    ∧ RunLinter failingHost "e" 2 [(7, arrayAlone)] 8 = ([], Except.ok (some "boom")) :=
  ⟨rfl, (bundling_failure_aborts failingHost "e" 2 [(7, arrayAlone)] 8 "boom" rfl).1⟩

end eslint_compat

/-! ## The run of the linter: C31 to C34 -/

namespace eslint_compat

open estree

/-- What `RunLinter` returns to its caller as an error is the error of the bundler or the
error of the first `CreateJsVm`; an error of `LintFile` is never returned. -/
theorem RunLinter_returned (host : Host) (entryCode : String) (checkers : Nat)
    (files : List (FilePtr × ast.SourceFile)) (fuel : Nat) (err : String)
    (h : returnedError (RunLinter host entryCode checkers files fuel).2 = some err) :
    LoadESLintConfig host.build entryCode = Except.error err
      ∨ ∃ bundle, LoadESLintConfig host.build entryCode = Except.ok bundle
          ∧ ∃ e, host.CreateJsVm bundle = Except.error e ∧ e = err := by
  cases hl : LoadESLintConfig host.build entryCode with
  | error e =>
    simp only [RunLinter, hl, returnedError, Option.some.injEq] at h
    exact Or.inl (by rw [h])
  | ok bundle =>
    refine Or.inr ⟨bundle, rfl, ?_⟩
    cases hv : host.CreateJsVm bundle with
    | error e =>
      simp only [RunLinter, hl, hv, returnedError, Option.some.injEq] at h
      exact ⟨e, rfl, h⟩
    | ok vm =>
      simp only [RunLinter, hl, hv] at h
      cases hw : runWorkers host bundle vm fuel (List.range checkers) files [Event.createVm] with
      | mk trace p =>
        rw [hw] at h
        cases p <;> simp [returnedError] at h

/-- An error that `LintFile` returns for a file ends the loop of the worker with a panic
whose value is that error, as the script gave it. -/
theorem lintQueue_error (vm : Runtime) (fuel : Nat) (filePtr : FilePtr) (file : ast.SourceFile)
    (rest : List (FilePtr × ast.SourceFile)) (trace events : List Event) (err : String)
    (h : LintFile vm filePtr file fuel = (events, Except.ok (some err))) :
    lintQueue vm fuel ((filePtr, file) :: rest) trace
      = (trace ++ [Event.lintFile filePtr] ++ events, some (LintPanic.lintError err)) := by
  simp only [lintQueue, h]

/-- C31 fails on a script that throws `TypeError: boom` for the first of two files, with
one worker: `LintFile` returns the error, the second file is not linted, and `RunLinter`
does not return: it ends with a panic whose value is the error of the script, which names
no file. -/
theorem script_failure_counterexample :
    (LintFile throwingRuntime 7 arrayAlone 8).2.toOption = some (some "TypeError: boom")
    ∧ lintedFiles (RunLinter throwingHost "e" 1 [(7, arrayAlone), (8, arrayAlone)] 8).1 = [7]
    ∧ panicOf (RunLinter throwingHost "e" 1 [(7, arrayAlone), (8, arrayAlone)] 8).2
        = some (LintPanic.lintError "TypeError: boom")
    ∧ returnedError (RunLinter throwingHost "e" 1 [(7, arrayAlone), (8, arrayAlone)] 8).2
        = none := by
  refine ⟨by decide!, by decide!, by decide!, by decide!⟩

end eslint_compat

namespace eslint_compat

open estree

/-- Go `int` arithmetic changes no value within the range of 64 bits. -/
theorem wrapInt_small (x : Int) (h1 : -(2 ^ 63) ≤ x) (h2 : x < 2 ^ 63) : wrapInt x = x := by
  unfold wrapInt
  have h : (x + 2 ^ 63) % 2 ^ 64 = x + 2 ^ 63 :=
    Int.emod_eq_of_lt (by omega) (by omega)
  omega

/-- For a line of the file and a column that leads to an offset of the text, the offset the
report callback computes is the start of the line plus the column less one: the column is
counted in bytes. -/
theorem positionOf_inside (file : ast.SourceFile) (line column start : Int)
    (hline : 1 ≤ line) (hlast : line ≤ file.LineMap.length)
    (hstart : file.LineMap.get? (line - 1).toNat = some start)
    (hlo : 0 ≤ start + column - 1) (hhi : start + column - 1 ≤ byteLen file.Text.data)
    (hsmall : (byteLen file.Text.data : Int) < 2 ^ 62)
    (hlen : (file.LineMap.length : Int) < 2 ^ 62) :
    positionOf file line column = Except.ok (start + column - 1) := by
  have w1 : wrapInt (line - 1) = line - 1 := wrapInt_small _ (by omega) (by omega)
  have w2 : wrapInt (start + column) = start + column := wrapInt_small _ (by omega) (by omega)
  have w3 : wrapInt (start + column - 1) = start + column - 1 :=
    wrapInt_small _ (by omega) (by omega)
  have hidx : min (max (line - 1) 0) ((file.LineMap.length : Int) - 1) = line - 1 := by
    rw [max_eq_left (by omega), min_eq_left (by omega)]
  have hpos : min (max (start + column - 1) 0) (byteLen file.Text.data : Int)
      = start + column - 1 := by
    rw [max_eq_left hlo, min_eq_left hhi]
  have h0 : (0 : Int) ≤ line - 1 := by omega
  simp only [positionOf, lineStart, w1, hidx, h0, if_true, hstart, bind, Except.bind, pure,
    Except.pure, w2, w3, hpos]

/-- C32 fails on the file `ééx`, in which `é` takes two bytes. The `x` is at the offsets
`[4, 5]`, which the front end gives as line 1, columns 3 to 4 (counted from 1). For the
report of `(1, 3)` to `(1, 4)` the diagnostic gets the `Range` `[2, 3]`, which the front end
gives as line 1, columns 2 to 3: the column is added to the start of the line as a number
of bytes. On the file of the lines `ab` and `cd`, which has no such character, the report
of `(2, 2)` gets the offset 4, which is line 2, column 2 again. -/
theorem position_round_trip_counterexample :
    byteLen accentedFile.Text.data = 5
    ∧ reportedPosition accentedFile 4 = (1, 3)
    ∧ reportedPosition accentedFile 5 = (1, 4)
    ∧ (reportDiagnostic 7 accentedFile
          { ruleId := "r", line := 1, column := 3, endLine := 1, endColumn := 4
            messageId := "m", messageDescription := "d", fixText := ""
            fixRangeStart := -1, fixRangeEnd := -1 }).toOption.map (fun d => d.Range)
        = some (2, 3)
    ∧ reportedPosition accentedFile 2 = (1, 2)
    ∧ reportedPosition accentedFile 3 = (1, 3)
    ∧ reportedPosition twoLines 4 = (2, 2)
    ∧ (positionOf twoLines 2 2).toOption = some 4 := by
  refine ⟨by decide!, by decide!, by decide!, by decide!, by decide!, by decide!, by decide!,
    by decide!⟩

end eslint_compat

namespace eslint_compat

open estree

/-- The pass of the applier reports that a fix was applied exactly when it counts one. -/
theorem spliceFixes_any (sourceText : String) : ∀ (fixes : List Fix) (lastEnd : Nat),
    (spliceFixes sourceText fixes lastEnd).2.2 = true
      ↔ 0 < (spliceFixes sourceText fixes lastEnd).2.1 := by
  intro fixes
  induction fixes with
  | nil =>
    intro lastEnd
    simp [spliceFixes]
  | cons fix rest ih =>
    intro lastEnd
    unfold spliceFixes
    split_ifs with h
    · exact ih lastEnd
    · simp

/-- The pass of the applier applies no more fixes than it is given. -/
theorem spliceFixes_count (sourceText : String) : ∀ (fixes : List Fix) (lastEnd : Nat),
    (spliceFixes sourceText fixes lastEnd).2.1 ≤ fixes.length := by
  intro fixes
  induction fixes with
  | nil =>
    intro lastEnd
    simp [spliceFixes]
  | cons fix rest ih =>
    intro lastEnd
    unfold spliceFixes
    split_ifs with h
    · exact Nat.le_succ_of_le (ih lastEnd)
    · exact Nat.succ_le_succ (ih fix.end_)

/-- C33 as stated fails on its own first example: with the splice
`text[:start] + fix.text + text[end:]` the fixes `[{0,3,"X"}, {5,7,"Y"}]` on `abcdefgh`
replace `abc` and `fg`, which gives `XdeYh`, not `XcdeYh`. -/
theorem applyFixes_example_counterexample :
    applyFixes "abcdefgh" [{ start := 0, end_ := 3, text := "X" },
                           { start := 5, end_ := 7, text := "Y" }] = ("XdeYh", 2, true)
    ∧ sliceBytes "abcdefgh" 0 0 ++ "X" ++ sliceBytes "abcdefgh" 3 8 = "Xdefgh"
    ∧ (applyFixes "abcdefgh" [{ start := 0, end_ := 3, text := "X" },
                              { start := 5, end_ := 7, text := "Y" }]).1 ≠ "XcdeYh" := by
  refine ⟨by decide!, by decide!, by decide!⟩

/-- C33, amended: `apply` sorts the fixes by range start and goes through them once. A fix
that starts before the end of the last fix applied is dropped; a fix that starts at that
end or after it, with a range of the text, is applied, which puts the text in between and
the text of the fix. A single fix is the splice `text[:start] + fix.text + text[end:]`. The
fixes `[{0,3,"X"}, {5,7,"Y"}]` on `abcdefgh` give `XdeYh`, in whatever order they are
given; of the overlapping fixes `[{0,4,"A"}, {2,6,"B"}]` only `{0,4,"A"}` is applied; and
`anyApplied` is true exactly when at least one fix was applied. -/
theorem applyFixes_spec :
    (∀ (sourceText : String) (fix : Fix) (rest : List Fix) (lastEnd : Nat),
      fix.start < lastEnd →
      spliceFixes sourceText (fix :: rest) lastEnd = spliceFixes sourceText rest lastEnd)
    ∧ (∀ (sourceText : String) (fix : Fix) (rest : List Fix) (lastEnd : Nat),
      lastEnd ≤ fix.start → fix.start ≤ fix.end_ → fix.end_ ≤ byteLen sourceText.data →
      spliceFixes sourceText (fix :: rest) lastEnd
        = (sliceBytes sourceText lastEnd fix.start ++ fix.text
              ++ (spliceFixes sourceText rest fix.end_).1,
            (spliceFixes sourceText rest fix.end_).2.1 + 1, true))
    ∧ (∀ (sourceText : String) (fix : Fix),
      fix.start ≤ fix.end_ → fix.end_ ≤ byteLen sourceText.data →
      applyFixes sourceText [fix]
        = (sliceBytes sourceText 0 fix.start ++ fix.text
              ++ sliceBytes sourceText fix.end_ (byteLen sourceText.data), 1, true))
    ∧ applyFixes "abcdefgh" [{ start := 0, end_ := 3, text := "X" },
                             { start := 5, end_ := 7, text := "Y" }] = ("XdeYh", 2, true)
    ∧ applyFixes "abcdefgh" [{ start := 5, end_ := 7, text := "Y" },
                             { start := 0, end_ := 3, text := "X" }] = ("XdeYh", 2, true)
    ∧ applyFixes "abcdefgh" [{ start := 0, end_ := 4, text := "A" },
                             { start := 2, end_ := 6, text := "B" }] = ("Aefgh", 1, true)
    ∧ (∀ (sourceText : String) (fixes : List Fix),
      (applyFixes sourceText fixes).2.2 = true ↔ 0 < (applyFixes sourceText fixes).2.1)
    ∧ (∀ (sourceText : String) (fixes : List Fix),
      (applyFixes sourceText fixes).2.1 ≤ fixes.length) := by
  refine ⟨?_, ?_, ?_, by decide!, by decide!, by decide!, ?_, ?_⟩
  · intro sourceText fix rest lastEnd h
    simp only [spliceFixes, h, true_or, if_true]
  · intro sourceText fix rest lastEnd h1 h2 h3
    have hc : ¬(fix.start < lastEnd ∨ fix.end_ < fix.start
        ∨ byteLen sourceText.data < fix.end_) := by omega
    simp only [spliceFixes, hc, if_false]
  · intro sourceText fix h2 h3
    have hc : ¬(fix.start < 0 ∨ fix.end_ < fix.start
        ∨ byteLen sourceText.data < fix.end_) := by omega
    simp only [applyFixes, sortFixes, List.insertionSort, List.orderedInsert, spliceFixes, hc,
      if_false, String.append_assoc]
  · intro sourceText fixes
    exact spliceFixes_any sourceText _ 0
  · intro sourceText fixes
    have h := spliceFixes_count sourceText (sortFixes fixes) 0
    have hl : (sortFixes fixes).length = fixes.length := List.length_insertionSort _ _
    unfold applyFixes
    omega

/-- C33, amended, on `abcdefgh`: the fix `{5,7,"Y"}` alone gives `abcdeYh`, and after the
fix `{0,4,"A"}` the fix `{2,6,"B"}` is dropped. -/
theorem applyFixes_spec_witness :
    applyFixes "abcdefgh" [{ start := 5, end_ := 7, text := "Y" }]
        = (sliceBytes "abcdefgh" 0 5 ++ "Y" ++ sliceBytes "abcdefgh" 7 8, 1, true)
    ∧ spliceFixes "abcdefgh" [{ start := 2, end_ := 6, text := "B" }] 4
        = spliceFixes "abcdefgh" [] 4 :=
  ⟨applyFixes_spec.2.2.1 "abcdefgh" { start := 5, end_ := 7, text := "Y" }
      (by decide) (by decide),
    applyFixes_spec.1 "abcdefgh" { start := 2, end_ := 6, text := "B" } [] 4 (by decide)⟩

end eslint_compat

namespace eslint_compat

open estree

/-- The value written at an index is read there. -/
theorem setAt_same {α : Type} (f : Nat → α) (i : Nat) (a : α) : setAt f i a i = a := by
  simp [setAt]

/-- A write at an index leaves the other indices. -/
theorem setAt_other {α : Type} (f : Nat → α) (i : Nat) (a : α) (j : Nat) (h : j ≠ i) :
    setAt f i a j = f j := by
  simp [setAt, h]

/-- The files linted in a trace, part by part. -/
theorem lintedFiles_append (a b : List Event) :
    lintedFiles (a ++ b) = lintedFiles a ++ lintedFiles b := by
  induction a with
  | nil => rfl
  | cons e rest ih =>
    cases e <;> simp [lintedFiles, ih]

/-- What happened for a file, part by part. -/
theorem eventsFor_append (f : FilePtr) (a b : List Event) :
    eventsFor f (a ++ b) = eventsFor f a ++ eventsFor f b := by
  simp [eventsFor]

/-- The diagnostic of a report names the file. -/
theorem reportDiagnostic_file (filePtr : FilePtr) (file : ast.SourceFile) (r : Report)
    (d : RuleDiagnostic) (h : reportDiagnostic filePtr file r = Except.ok d) :
    d.SourceFile = filePtr := by
  unfold reportDiagnostic at h
  obtain ⟨p1, _, h⟩ := except_bind_ok _ _ _ h
  obtain ⟨p2, _, h⟩ := except_bind_ok _ _ _ h
  cases h
  split <;> split <;> rfl

/-- The calls of the report callback and of `onDiagnostic` for a file belong to it. -/
theorem runReports_events (filePtr : FilePtr) (file : ast.SourceFile) :
    ∀ (rs : List Report) (trace : List Event),
      (∀ e ∈ trace, e.file? = some filePtr ∧ lintedFiles [e] = []) →
      ∀ e ∈ (runReports filePtr file rs trace).1,
        e.file? = some filePtr ∧ lintedFiles [e] = [] := by
  intro rs
  induction rs with
  | nil =>
    intro trace h e he
    exact h e he
  | cons r rest ih =>
    intro trace h e he
    unfold runReports at he
    cases hd : reportDiagnostic filePtr file r with
    | error p =>
      rw [hd] at he
      simp only [List.mem_append, List.mem_singleton] at he
      rcases he with he | rfl
      · exact h e he
      · exact ⟨rfl, rfl⟩
    | ok d =>
      rw [hd] at he
      refine ih _ ?_ e he
      intro x hx
      simp only [List.mem_append, List.mem_cons, List.mem_singleton, List.not_mem_nil,
        or_false] at hx
      rcases hx with hx | rfl | rfl
      · exact h x hx
      · exact ⟨rfl, rfl⟩
      · exact ⟨congrArg some (reportDiagnostic_file filePtr file r d hd), rfl⟩

/-- What happens during `LintFile` is what happens during the calls of the report
callback that the script makes. -/
theorem LintFile_trace (vm : Runtime) (filePtr : FilePtr) (file : ast.SourceFile)
    (fuel : Nat) :
    (LintFile vm filePtr file fuel).1 = []
    ∨ ∃ text program c, (LintFile vm filePtr file fuel).1
        = (runReports filePtr file (vm.run text program c).1 []).1 := by
  unfold LintFile
  split
  · exact Or.inl rfl
  · split
    · exact Or.inl rfl
    · split
      · exact Or.inl rfl
      · split
        · exact Or.inl rfl
        · rename_i program c _ _ _ _ _ _ text _
          refine Or.inr ⟨text, program, c, ?_⟩
          simp only []
          split <;> (rename_i hr; rw [hr])

/-- What happens during `LintFile` belongs to its file, and is no call of `LintFile`. -/
theorem LintFile_events (vm : Runtime) (filePtr : FilePtr) (file : ast.SourceFile)
    (fuel : Nat) :
    ∀ e ∈ (LintFile vm filePtr file fuel).1,
      e.file? = some filePtr ∧ lintedFiles [e] = [] := by
  intro e he
  rcases LintFile_trace vm filePtr file fuel with h | ⟨text, program, c, h⟩
  · rw [h] at he
    cases he
  · rw [h] at he
    exact runReports_events filePtr file _ [] (fun x hx => absurd hx (List.not_mem_nil x)) e he

/-- The moves of a worker, one by one: what holds of the work group as it is and after each
kind of move holds after `WorkGroup.step`. -/
theorem WorkGroup.step_cases {σ : Type} (script : Script σ) (fuel : Nat) (g : WorkGroup σ)
    (w : Nat) (P : WorkGroup σ → Prop)
    (hstay : (g.panic ≠ none ∨ g.checkers ≤ w ∨ g.workers w = WorkerAt.returned) → P g)
    (hfirst : g.panic = none → g.workers w = WorkerAt.queued → w = 0 →
      P { g with workers := setAt g.workers w (WorkerAt.receiving 0)
                 trace := g.trace ++ [Event.startWorker w] })
    (hcreate : g.panic = none → g.workers w = WorkerAt.queued → w ≠ 0 →
      P { g with created := g.created + 1
                 hosts := setAt g.hosts g.created script.init
                 err := script.loadError g.created
                 workers := setAt g.workers w (WorkerAt.created g.created)
                 trace := g.trace ++ [Event.startWorker w, Event.createVm] })
    (hfail : ∀ vm e, g.panic = none → g.workers w = WorkerAt.created vm → g.err = some e →
      P { g with panic := some (LintPanic.vmError e) })
    (hpass : ∀ vm, g.panic = none → g.workers w = WorkerAt.created vm → g.err = none →
      P { g with workers := setAt g.workers w (WorkerAt.receiving vm) })
    (hreturn : ∀ vm, g.panic = none → g.workers w = WorkerAt.receiving vm → g.queue = [] →
      P { g with workers := setAt g.workers w WorkerAt.returned })
    (htake : ∀ vm filePtr file rest, g.panic = none → g.workers w = WorkerAt.receiving vm →
      g.queue = (filePtr, file) :: rest →
      P { g with queue := rest
                 hosts := setAt g.hosts vm (script.next (g.hosts vm) file fuel)
                 workers := setAt g.workers w
                   (WorkerAt.linting vm filePtr
                     (LintFile (script.runtime (g.hosts vm)) filePtr file fuel).1
                     (panicAfter (LintFile (script.runtime (g.hosts vm)) filePtr file fuel).2))
                 trace := g.trace ++ [Event.lintFile filePtr] })
    (hemit : ∀ vm filePtr e pending panic, g.panic = none →
      g.workers w = WorkerAt.linting vm filePtr (e :: pending) panic →
      P { g with workers := setAt g.workers w (WorkerAt.linting vm filePtr pending panic)
                 trace := g.trace ++ [e] })
    (hpanic : ∀ vm filePtr p, g.panic = none →
      g.workers w = WorkerAt.linting vm filePtr [] (some p) → P { g with panic := some p })
    (hdone : ∀ vm filePtr, g.panic = none →
      g.workers w = WorkerAt.linting vm filePtr [] none →
      P { g with workers := setAt g.workers w (WorkerAt.receiving vm) }) :
    P (WorkGroup.step script fuel g w) := by
  unfold WorkGroup.step
  split
  · rename_i hyes
    refine hstay (hyes.elim (fun hp => Or.inl ?_) (fun hw => Or.inr (Or.inl hw)))
    intro e
    rw [e] at hp
    cases hp
  · rename_i hno
    have hp : g.panic = none := by
      cases hg : g.panic with
      | none => rfl
      | some p => exact absurd (Or.inl (by rw [hg]; rfl)) hno
    split
    · rename_i hw
      split
      · rename_i h0
        exact hfirst hp hw h0
      · rename_i h0
        exact hcreate hp hw h0
    · rename_i vm hw
      split
      · rename_i e he
        exact hfail vm e hp hw he
      · rename_i he
        exact hpass vm hp hw he
    · rename_i vm hw
      split
      · rename_i hq
        exact hreturn vm hp hw hq
      · rename_i filePtr file rest hq
        exact htake vm filePtr file rest hp hw hq
    · rename_i vm filePtr e pending panic hw
      exact hemit vm filePtr e pending panic hp hw
    · rename_i vm filePtr panic hw
      cases panic with
      | some p => exact hpanic vm filePtr p hp hw
      | none => exact hdone vm filePtr hp hw
    · rename_i hw
      exact hstay (Or.inr (Or.inr hw))

/-- What holds of a work group and is kept by every move holds after a schedule. -/
theorem WorkGroup.run_induction {σ : Type} (script : Script σ) (fuel : Nat)
    (P : WorkGroup σ → Prop)
    (hstep : ∀ g w, P g → P (WorkGroup.step script fuel g w)) :
    ∀ (schedule : List Nat) (g : WorkGroup σ), P g → P (WorkGroup.run script fuel g schedule) := by
  intro schedule
  induction schedule with
  | nil =>
    intro g hg
    exact hg
  | cons w rest ih =>
    intro g hg
    exact ih _ (hstep g w hg)

/-- A schedule in two parts. -/
theorem WorkGroup.run_append {σ : Type} (script : Script σ) (fuel : Nat) (g : WorkGroup σ)
    (a b : List Nat) :
    WorkGroup.run script fuel g (a ++ b)
      = WorkGroup.run script fuel (WorkGroup.run script fuel g a) b := by
  simp [WorkGroup.run, List.foldl_append]

/-- Workers that keep their hosts, or drop them, keep them apart. -/
theorem WorkGroup.HostsOk.keep {σ : Type} {g g' : WorkGroup σ} (h : g.HostsOk)
    (hc : g'.created = g.created)
    (hw : ∀ w, (g'.workers w).vm? = (g.workers w).vm? ∨ (g'.workers w).vm? = none) :
    g'.HostsOk := by
  obtain ⟨h1, h2, h3⟩ := h
  refine ⟨hc ▸ h1, ?_, ?_⟩
  · intro w vm hv
    rcases hw w with e | e
    · rw [hc]
      exact h2 w vm (e ▸ hv)
    · rw [e] at hv
      cases hv
  · intro w1 w2 vm hv1 hv2
    rcases hw w1 with e1 | e1
    · rcases hw w2 with e2 | e2
      · exact h3 w1 w2 vm (e1 ▸ hv1) (e2 ▸ hv2)
      · rw [e2] at hv2
        cases hv2
    · rw [e1] at hv1
      cases hv1

/-- A worker that moves to a place with the host it holds. -/
theorem setAt_vm (workers : Nat → WorkerAt) (w : Nat) (place : WorkerAt)
    (h : place.vm? = (workers w).vm? ∨ place.vm? = none) (w' : Nat) :
    (setAt workers w place w').vm? = (workers w').vm?
      ∨ (setAt workers w place w').vm? = none := by
  by_cases hw : w' = w
  · subst hw
    rw [setAt_same]
    exact h
  · rw [setAt_other _ _ _ _ hw]
    exact Or.inl rfl

/-- No move lets two workers hold the same host. -/
theorem WorkGroup.HostsOk.step_hosts {σ : Type} (script : Script σ) (fuel : Nat) (g : WorkGroup σ)
    (w : Nat) (h : g.HostsOk) : (WorkGroup.step script fuel g w).HostsOk := by
  apply WorkGroup.step_cases
  · intro _
    exact h
  · intro _ hw h0
    subst h0
    obtain ⟨h1, h2, h3⟩ := h
    refine ⟨h1, ?_, ?_⟩
    · intro w vm hv
      by_cases hw0 : w = 0
      · subst hw0
        simp only [setAt_same, WorkerAt.vm?, Option.some.injEq] at hv
        subst hv
        exact ⟨h1, fun _ => rfl⟩
      · simp only [setAt_other _ _ _ _ hw0] at hv
        exact h2 w vm hv
    · intro w1 w2 vm hv1 hv2
      by_cases hw1 : w1 = 0
      · by_cases hw2 : w2 = 0
        · rw [hw1, hw2]
        · subst hw1
          simp only [setAt_same, WorkerAt.vm?, Option.some.injEq] at hv1
          simp only [setAt_other _ _ _ _ hw2] at hv2
          subst hv1
          exact absurd ((h2 w2 0 hv2).2 rfl) hw2
      · by_cases hw2 : w2 = 0
        · subst hw2
          simp only [setAt_same, WorkerAt.vm?, Option.some.injEq] at hv2
          simp only [setAt_other _ _ _ _ hw1] at hv1
          subst hv2
          exact absurd ((h2 w1 0 hv1).2 rfl) hw1
        · simp only [setAt_other _ _ _ _ hw1] at hv1
          simp only [setAt_other _ _ _ _ hw2] at hv2
          exact h3 w1 w2 vm hv1 hv2
  · intro _ hw h0
    obtain ⟨h1, h2, h3⟩ := h
    refine ⟨Nat.le_succ_of_le h1, ?_, ?_⟩
    · intro w' vm hv
      by_cases hw' : w' = w
      · subst hw'
        simp only [setAt_same, WorkerAt.vm?, Option.some.injEq] at hv
        subst hv
        exact ⟨Nat.lt_succ_self _, fun hz => absurd hz (by omega)⟩
      · simp only [setAt_other _ _ _ _ hw'] at hv
        exact ⟨Nat.lt_succ_of_lt (h2 w' vm hv).1, (h2 w' vm hv).2⟩
    · intro w1 w2 vm hv1 hv2
      by_cases hw1 : w1 = w
      · by_cases hw2 : w2 = w
        · rw [hw1, hw2]
        · subst hw1
          simp only [setAt_same, WorkerAt.vm?, Option.some.injEq] at hv1
          simp only [setAt_other _ _ _ _ hw2] at hv2
          subst hv1
          exact absurd (h2 w2 _ hv2).1 (Nat.lt_irrefl _)
      · by_cases hw2 : w2 = w
        · subst hw2
          simp only [setAt_same, WorkerAt.vm?, Option.some.injEq] at hv2
          simp only [setAt_other _ _ _ _ hw1] at hv1
          subst hv2
          exact absurd (h2 w1 _ hv1).1 (Nat.lt_irrefl _)
        · simp only [setAt_other _ _ _ _ hw1] at hv1
          simp only [setAt_other _ _ _ _ hw2] at hv2
          exact h3 w1 w2 vm hv1 hv2
  · intro vm e _ _ _
    exact h.keep rfl (fun _ => Or.inl rfl)
  · intro vm _ hw _
    exact h.keep rfl (setAt_vm _ _ _ (Or.inl (by rw [hw]; rfl)))
  · intro vm _ hw _
    exact h.keep rfl (setAt_vm _ _ _ (Or.inr rfl))
  · intro vm filePtr file rest _ hw _
    exact h.keep rfl (setAt_vm _ _ _ (Or.inl (by rw [hw]; rfl)))
  · intro vm filePtr e pending panic _ hw
    exact h.keep rfl (setAt_vm _ _ _ (Or.inl (by rw [hw]; rfl)))
  · intro vm filePtr p _ _
    exact h.keep rfl (fun _ => Or.inl rfl)
  · intro vm filePtr _ hw
    exact h.keep rfl (setAt_vm _ _ _ (Or.inl (by rw [hw]; rfl)))

/-- At the start no worker holds a host. -/
theorem WorkGroup.HostsOk.start_hosts {σ : Type} (script : Script σ) (checkers : Nat)
    (files : List (FilePtr × ast.SourceFile)) :
    (WorkGroup.start script checkers files).HostsOk := by
  refine ⟨Nat.le_refl 1, ?_, ?_⟩
  · intro w vm hv
    cases hv
  · intro w1 w2 vm hv
    cases hv

/-- A move that receives no file and does not return keeps the account of the queue. -/
theorem WorkGroup.QueueOk.move {σ : Type} {files : List (FilePtr × ast.SourceFile)}
    {g g' : WorkGroup σ} (h : g.QueueOk files) (w : Nat) (place : WorkerAt)
    (extra : List Event) (hq : g'.queue = g.queue) (ht : g'.trace = g.trace ++ extra)
    (hx : lintedFiles extra = []) (hw : g'.workers = setAt g.workers w place)
    (hplace : place ≠ WorkerAt.returned)
    (hpending : ∀ e ∈ place.pending,
      (∃ f, place.file? = some f ∧ e.file? = some f) ∧ lintedFiles [e] = []) :
    g'.QueueOk files := by
  obtain ⟨⟨taken, h1, h1'⟩, h2, h3⟩ := h
  refine ⟨⟨taken, by rw [hq]; exact h1, by rw [ht, lintedFiles_append, hx, List.append_nil, h1']⟩,
    ?_, ?_⟩
  · rintro ⟨w', hw'⟩
    rw [hq]
    apply h2
    rw [hw] at hw'
    by_cases e : w' = w
    · subst e
      rw [setAt_same] at hw'
      exact absurd hw' hplace
    · rw [setAt_other _ _ _ _ e] at hw'
      exact ⟨w', hw'⟩
  · intro w' e he
    rw [hw] at he ⊢
    by_cases e' : w' = w
    · subst e'
      rw [setAt_same] at he ⊢
      exact hpending e he
    · rw [setAt_other _ _ _ _ e'] at he ⊢
      exact h3 w' e he

/-- Every move keeps the account of the queue. -/
theorem WorkGroup.QueueOk.step_queue {σ : Type} (script : Script σ) (fuel : Nat)
    (files : List (FilePtr × ast.SourceFile)) (g : WorkGroup σ) (w : Nat)
    (h : g.QueueOk files) : (WorkGroup.step script fuel g w).QueueOk files := by
  apply WorkGroup.step_cases
  · intro _
    exact h
  · intro _ _ _
    exact h.move w _ [Event.startWorker w] rfl rfl rfl rfl (by simp)
      (fun e he => absurd he (List.not_mem_nil e))
  · intro _ _ _
    exact h.move w _ [Event.startWorker w, Event.createVm] rfl rfl rfl rfl (by simp)
      (fun e he => absurd he (List.not_mem_nil e))
  · intro vm e _ _ _
    exact h
  · intro vm _ _ _
    exact h.move w _ [] rfl (List.append_nil _).symm rfl rfl (by simp)
      (fun e he => absurd he (List.not_mem_nil e))
  · intro vm _ hw hq
    obtain ⟨h1, h2, h3⟩ := h
    refine ⟨h1, fun _ => hq, ?_⟩
    intro w' e he
    by_cases e' : w' = w
    · subst e'
      simp only [setAt_same] at he
      exact absurd he (List.not_mem_nil e)
    · simp only [setAt_other _ _ _ _ e'] at he ⊢
      exact h3 w' e he
  · intro vm filePtr file rest _ hw hq
    obtain ⟨⟨taken, h1, h1'⟩, h2, h3⟩ := h
    refine ⟨⟨taken ++ [(filePtr, file)], ?_, ?_⟩, ?_, ?_⟩
    · rw [h1, hq]
      simp
    · simp only [lintedFiles_append, h1', List.map_append, List.map_cons, List.map_nil]
      rfl
    · rintro ⟨w', hw'⟩
      by_cases e' : w' = w
      · subst e'
        simp only [setAt_same] at hw'
        cases hw'
      · simp only [setAt_other _ _ _ _ e'] at hw'
        have := h2 ⟨w', hw'⟩
        rw [hq] at this
        cases this
    · intro w' e he
      by_cases e' : w' = w
      · subst e'
        simp only [setAt_same, WorkerAt.pending] at he
        simp only [setAt_same, WorkerAt.file?]
        have := LintFile_events _ _ _ _ e he
        exact ⟨⟨filePtr, rfl, this.1⟩, this.2⟩
      · simp only [setAt_other _ _ _ _ e'] at he ⊢
        exact h3 w' e he
  · intro vm filePtr e pending panic _ hw
    have hold := h.2.2 w
    rw [hw] at hold
    simp only [WorkerAt.pending, WorkerAt.file?] at hold
    refine h.move w _ [e] rfl rfl (hold e (List.mem_cons_self _ _)).2 rfl (by simp) ?_
    intro x hx
    exact hold x (List.mem_cons_of_mem _ hx)
  · intro vm filePtr p _ _
    exact h
  · intro vm filePtr _ _
    exact h.move w _ [] rfl (List.append_nil _).symm rfl rfl (by simp)
      (fun e he => absurd he (List.not_mem_nil e))

/-- At the start every file is in the queue. -/
theorem WorkGroup.QueueOk.start_queue {σ : Type} (script : Script σ) (checkers : Nat)
    (files : List (FilePtr × ast.SourceFile)) :
    (WorkGroup.start script checkers files).QueueOk files := by
  refine ⟨⟨[], rfl, rfl⟩, ?_, ?_⟩
  · rintro ⟨w, hw⟩
    cases hw
  · intro w e he
    cases he

/-- A script whose calls of the report callback and whose error do not depend on the state
of its host has the same host for `LintFile` in every state. -/
theorem Script.runtime_stateless {σ : Type} (script : Script σ)
    (hs : ∀ s text program c, (script.run s text program c).1
      = (script.run script.init text program c).1) (s : σ) :
    script.runtime s = script.runtime script.init := by
  unfold Script.runtime
  congr 1
  funext text program c
  exact hs s text program c

/-- A worker that is not inside `LintFile` has nothing pending. -/
theorem WorkerAt.idle (place : WorkerAt) (h : place.file? = none) :
    place.pending = [] ∧ place.panic? = none := by
  cases place <;> first | exact ⟨rfl, rfl⟩ | cases h

/-- An event of one file is none of another. -/
theorem eventsFor_other (f : FilePtr) (e : Event) (h : e.file? ≠ some f) :
    eventsFor f [e] = [] := by
  simp [eventsFor, h]

/-- An event of a file is one of what happened for it. -/
theorem eventsFor_own (f : FilePtr) (e : Event) (h : e.file? = some f) :
    eventsFor f [e] = [e] := by
  simp [eventsFor, h]

/-- In a list of files with different pointers, a pointer names one file. -/
theorem file_unique {α β : Type} (l : List (α × β)) (h : (l.map Prod.fst).Nodup) (a : α)
    (b b' : β) (hb : (a, b) ∈ l) (hb' : (a, b') ∈ l) : b = b' := by
  induction l with
  | nil => cases hb
  | cons x rest ih =>
    rw [List.map_cons, List.nodup_cons] at h
    rcases List.mem_cons.mp hb with e | e
    · rcases List.mem_cons.mp hb' with e' | e'
      · rw [← e'] at e
        exact (Prod.mk.inj e).2
      · exact absurd (List.mem_map.mpr ⟨(a, b'), e', by rw [← e]⟩) h.1
    · rcases List.mem_cons.mp hb' with e' | e'
      · exact absurd (List.mem_map.mpr ⟨(a, b), e, by rw [← e']⟩) h.1
      · exact ih h.2 e e'

/-- A move of a worker that is not inside `LintFile`, and does not enter it, keeps what
happened for every file. -/
theorem WorkGroup.EventsOk.idle_move {σ : Type} {script : Script σ} {fuel : Nat}
    {files : List (FilePtr × ast.SourceFile)} {g g' : WorkGroup σ}
    (h : g.EventsOk script fuel files) (w : Nat) (place : WorkerAt) (extra : List Event)
    (hq : g'.queue = g.queue) (ht : g'.trace = g.trace ++ extra)
    (hx : ∀ f, eventsFor f extra = []) (hw : g'.workers = setAt g.workers w place)
    (hold : (g.workers w).file? = none) (hplace : place.file? = none)
    (hp : g'.panic = none) (he : g'.err = none) :
    g'.EventsOk script fuel files := by
  obtain ⟨_, _, h3, h4, h5, h6⟩ := h
  have hfile : ∀ w', (g'.workers w').file? = (g.workers w').file? := by
    intro w'
    rw [hw]
    by_cases e : w' = w
    · subst e
      rw [setAt_same, hold, hplace]
    · rw [setAt_other _ _ _ _ e]
  have hpend : ∀ w' f, (g.workers w').file? = some f →
      (g'.workers w').pending = (g.workers w').pending := by
    intro w' f hf
    rw [hw]
    by_cases e : w' = w
    · subst e
      rw [hold] at hf
      cases hf
    · rw [setAt_other _ _ _ _ e]
  have htrace : ∀ f, eventsFor f g'.trace = eventsFor f g.trace := by
    intro f
    rw [ht, eventsFor_append, hx, List.append_nil]
  refine ⟨hp, he, ?_, ?_, ?_, ?_⟩
  · intro w'
    rw [hw]
    by_cases e : w' = w
    · subst e
      rw [setAt_same]
      exact (WorkerAt.idle place hplace).2
    · rw [setAt_other _ _ _ _ e]
      exact h3 w'
  · intro w1 w2 f h1 h2
    rw [hfile] at h1 h2
    exact h4 w1 w2 f h1 h2
  · intro f hf
    rw [hq] at hf
    rw [htrace]
    refine ⟨(h5 f hf).1, ?_⟩
    intro w'
    rw [hfile]
    exact (h5 f hf).2 w'
  · intro f file hin hf
    rw [hq] at hf
    rw [htrace]
    refine ⟨?_, ?_⟩
    · intro w' hw'
      rw [hfile] at hw'
      rw [hpend w' f hw']
      exact (h6 f file hin hf).1 w' hw'
    · intro hno
      exact (h6 f file hin hf).2 (fun w' => by rw [← hfile]; exact hno w')

/-- Every move keeps what happened for every file, for a script without state that is
loaded and run without error. -/
theorem WorkGroup.EventsOk.step_events {σ : Type} (script : Script σ) (fuel : Nat)
    (files : List (FilePtr × ast.SourceFile)) (g : WorkGroup σ) (w : Nat)
    (hs : ∀ s text program c, (script.run s text program c).1
      = (script.run script.init text program c).1)
    (hload : ∀ k, script.loadError k = none)
    (hnodup : (files.map Prod.fst).Nodup)
    (hok : ∀ f ∈ files, (LintFile (script.runtime script.init) f.1 f.2 fuel).2
      = Except.ok none)
    (hq : g.QueueOk files) (h : g.EventsOk script fuel files) :
    (WorkGroup.step script fuel g w).EventsOk script fuel files := by
  apply WorkGroup.step_cases
  · intro _
    exact h
  · intro hp hw _
    exact h.idle_move w _ [Event.startWorker w] rfl rfl (fun f => rfl) rfl (by rw [hw]; rfl) rfl
      hp h.2.1
  · intro hp hw _
    exact h.idle_move w _ [Event.startWorker w, Event.createVm] rfl rfl (fun f => rfl) rfl
      (by rw [hw]; rfl) rfl hp (hload _)
  · intro vm e _ _ he
    rw [h.2.1] at he
    cases he
  · intro vm hp hw _
    exact h.idle_move w _ [] rfl (List.append_nil _).symm (fun f => rfl) rfl (by rw [hw]; rfl) rfl
      hp h.2.1
  · intro vm hp hw _
    exact h.idle_move w _ [] rfl (List.append_nil _).symm (fun f => rfl) rfl (by rw [hw]; rfl) rfl
      hp h.2.1
  · intro vm f0 file0 rest hp hw hqueue
    obtain ⟨_, he, h3, h4, h5, h6⟩ := h
    obtain ⟨⟨taken, hfiles, _⟩, _, _⟩ := hq
    have hin0 : (f0, file0) ∈ files := by
      rw [hfiles, hqueue]
      simp
    have hrun : script.runtime (g.hosts vm) = script.runtime script.init :=
      Script.runtime_stateless script hs _
    have hres := hok (f0, file0) hin0
    simp only [] at hres
    have hnot : f0 ∉ rest.map Prod.fst := by
      rw [hfiles, hqueue] at hnodup
      simp only [List.map_append, List.map_cons, List.nodup_append, List.nodup_cons] at hnodup
      exact hnodup.2.1.1
    have hmem0 : f0 ∈ g.queue.map Prod.fst := by
      rw [hqueue]
      simp
    have hqmem : ∀ f, f ∈ g.queue.map Prod.fst ↔ f = f0 ∨ f ∈ rest.map Prod.fst := by
      intro f
      rw [hqueue]
      simp
    have hev : ∀ f, f ≠ f0 → eventsFor f (g.trace ++ [Event.lintFile f0]) = eventsFor f g.trace := by
      intro f hf
      rw [eventsFor_append, eventsFor_other f _ (by
        simp only [Event.file?, ne_eq, Option.some.injEq]
        exact fun e => hf e.symm), List.append_nil]
    simp only [hrun, hres, panicAfter]
    refine ⟨hp, he, ?_, ?_, ?_, ?_⟩
    · intro w'
      by_cases e : w' = w
      · subst e
        simp only [setAt_same, WorkerAt.panic?]
      · simp only [setAt_other _ _ _ _ e]
        exact h3 w'
    · intro w1 w2 f h1 h2
      by_cases e1 : w1 = w
      · by_cases e2 : w2 = w
        · rw [e1, e2]
        · subst e1
          simp only [setAt_same, WorkerAt.file?, Option.some.injEq] at h1
          simp only [setAt_other _ _ _ _ e2] at h2
          subst h1
          exact absurd h2 ((h5 f0 hmem0).2 w2)
      · by_cases e2 : w2 = w
        · subst e2
          simp only [setAt_same, WorkerAt.file?, Option.some.injEq] at h2
          simp only [setAt_other _ _ _ _ e1] at h1
          subst h2
          exact absurd h1 ((h5 f0 hmem0).2 w1)
        · simp only [setAt_other _ _ _ _ e1] at h1
          simp only [setAt_other _ _ _ _ e2] at h2
          exact h4 w1 w2 f h1 h2
    · intro f hf
      simp only [] at hf
      have hne : f ≠ f0 := fun e => hnot (e ▸ hf)
      have hold := h5 f ((hqmem f).mpr (Or.inr hf))
      simp only []
      rw [hev f hne]
      refine ⟨hold.1, ?_⟩
      intro w'
      by_cases e : w' = w
      · subst e
        simp only [setAt_same, WorkerAt.file?, ne_eq, Option.some.injEq]
        exact fun e => hne e.symm
      · simp only [setAt_other _ _ _ _ e]
        exact hold.2 w'
    · intro f file hin hf
      simp only [] at hf ⊢
      by_cases hff : f = f0
      · subst hff
        have hfile : file = file0 := file_unique files hnodup f file file0 hin hin0
        subst hfile
        refine ⟨?_, ?_⟩
        · intro w' hw'
          by_cases e : w' = w
          · subst e
            simp only [setAt_same, WorkerAt.pending]
            rw [eventsFor_append, (h5 f hmem0).1, eventsFor_own f (Event.lintFile f) rfl]
            rfl
          · simp only [setAt_other _ _ _ _ e] at hw'
            exact absurd hw' ((h5 f hmem0).2 w')
        · intro hno
          have := hno w
          simp only [setAt_same, WorkerAt.file?, ne_eq, not_true_eq_false] at this
      · have hfq : f ∉ g.queue.map Prod.fst := by
          rw [hqmem]
          exact fun e => e.elim hff hf
        have hold := h6 f file hin hfq
        rw [hev f hff]
        refine ⟨?_, ?_⟩
        · intro w' hw'
          by_cases e : w' = w
          · subst e
            simp only [setAt_same, WorkerAt.file?, Option.some.injEq] at hw'
            exact absurd hw'.symm hff
          · simp only [setAt_other _ _ _ _ e] at hw' ⊢
            exact hold.1 w' hw'
        · intro hno
          apply hold.2
          intro w'
          by_cases e : w' = w
          · subst e
            rw [hw]
            simp [WorkerAt.file?]
          · have := hno w'
            simp only [setAt_other _ _ _ _ e] at this
            exact this
  · intro vm f0 e pending panic hp hw
    obtain ⟨_, he, h3, h4, h5, h6⟩ := h
    have hown := hq.2.2 w e (by rw [hw]; exact List.mem_cons_self _ _)
    rw [hw] at hown
    simp only [WorkerAt.file?, Option.some.injEq, exists_eq_left'] at hown
    have hef : e.file? = some f0 := hown.1
    have hwf : (g.workers w).file? = some f0 := by rw [hw]; rfl
    have hfile : ∀ w', (setAt g.workers w (WorkerAt.linting vm f0 pending panic) w').file?
        = (g.workers w').file? := by
      intro w'
      by_cases e' : w' = w
      · subst e'
        rw [setAt_same, hwf]
        rfl
      · rw [setAt_other _ _ _ _ e']
    have hev : ∀ f, f ≠ f0 → eventsFor f (g.trace ++ [e]) = eventsFor f g.trace := by
      intro f hf
      rw [eventsFor_append, eventsFor_other f _ (by
        rw [hef]
        simp only [ne_eq, Option.some.injEq]
        exact fun e => hf e.symm), List.append_nil]
    refine ⟨hp, he, ?_, ?_, ?_, ?_⟩
    · intro w'
      by_cases e' : w' = w
      · subst e'
        have := h3 w'
        rw [hw] at this
        simp only [setAt_same]
        exact this
      · simp only [setAt_other _ _ _ _ e']
        exact h3 w'
    · intro w1 w2 f h1 h2
      simp only [hfile] at h1 h2
      exact h4 w1 w2 f h1 h2
    · intro f hf
      simp only [] at hf ⊢
      have hold := h5 f hf
      have hne : f ≠ f0 := fun e' => hold.2 w (e' ▸ hwf)
      rw [hev f hne]
      refine ⟨hold.1, ?_⟩
      intro w'
      rw [hfile]
      exact hold.2 w'
    · intro f file hin hf
      simp only [] at hf ⊢
      have hold := h6 f file hin hf
      refine ⟨?_, ?_⟩
      · intro w' hw'
        rw [hfile] at hw'
        by_cases e' : w' = w
        · subst e'
          have hff : f = f0 := by
            rw [hwf] at hw'
            exact (Option.some.inj hw').symm
          subst hff
          have := hold.1 w' hw'
          rw [hw] at this
          simp only [WorkerAt.pending] at this
          simp only [setAt_same, WorkerAt.pending]
          rw [eventsFor_append, eventsFor_own f _ hef, List.append_assoc]
          exact this
        · have hff : f ≠ f0 := by
            intro e''
            subst e''
            exact e' (h4 w' w f hw' hwf)
          rw [hev f hff]
          simp only [setAt_other _ _ _ _ e']
          exact hold.1 w' hw'
      · intro hno
        have hno' : ∀ w', (g.workers w').file? ≠ some f := by
          intro w'
          rw [← hfile]
          exact hno w'
        have hff : f ≠ f0 := fun e' => hno' w (e' ▸ hwf)
        rw [hev f hff]
        exact hold.2 hno'
  · intro vm f0 p _ hw
    have := h.2.2.1 w
    rw [hw] at this
    cases this
  · intro vm f0 hp hw
    obtain ⟨_, he, h3, h4, h5, h6⟩ := h
    have hwf : (g.workers w).file? = some f0 := by rw [hw]; rfl
    have hfile : ∀ w', w' ≠ w → (setAt g.workers w (WorkerAt.receiving vm) w')
        = g.workers w' := fun w' e' => setAt_other _ _ _ _ e'
    refine ⟨hp, he, ?_, ?_, ?_, ?_⟩
    · intro w'
      by_cases e' : w' = w
      · subst e'
        simp only [setAt_same, WorkerAt.panic?]
      · simp only [hfile w' e']
        exact h3 w'
    · intro w1 w2 f h1 h2
      by_cases e1 : w1 = w
      · subst e1
        simp only [setAt_same, WorkerAt.file?] at h1
        cases h1
      · by_cases e2 : w2 = w
        · subst e2
          simp only [setAt_same, WorkerAt.file?] at h2
          cases h2
        · simp only [hfile _ e1] at h1
          simp only [hfile _ e2] at h2
          exact h4 w1 w2 f h1 h2
    · intro f hf
      simp only [] at hf ⊢
      refine ⟨(h5 f hf).1, ?_⟩
      intro w'
      by_cases e' : w' = w
      · subst e'
        simp only [setAt_same, WorkerAt.file?, ne_eq, reduceCtorEq, not_false_eq_true]
      · simp only [hfile w' e']
        exact (h5 f hf).2 w'
    · intro f file hin hf
      simp only [] at hf ⊢
      have hold := h6 f file hin hf
      refine ⟨?_, ?_⟩
      · intro w' hw'
        by_cases e' : w' = w
        · subst e'
          simp only [setAt_same, WorkerAt.file?] at hw'
          cases hw'
        · simp only [hfile w' e'] at hw' ⊢
          exact hold.1 w' hw'
      · intro hno
        by_cases hff : f = f0
        · subst hff
          have := hold.1 w hwf
          rw [hw] at this
          simpa [WorkerAt.pending] using this
        · apply hold.2
          intro w'
          by_cases e' : w' = w
          · subst e'
            rw [hwf]
            simp only [ne_eq, Option.some.injEq]
            exact fun e => hff e.symm
          · have := hno w'
            simp only [hfile w' e'] at this
            exact this

/-- At the start nothing has happened for any file. -/
theorem WorkGroup.EventsOk.start_events {σ : Type} (script : Script σ) (fuel checkers : Nat)
    (files : List (FilePtr × ast.SourceFile)) :
    (WorkGroup.start script checkers files).EventsOk script fuel files := by
  refine ⟨rfl, rfl, fun _ => rfl, ?_, ?_, ?_⟩
  · intro w1 w2 f h1
    cases h1
  · intro f _
    refine ⟨rfl, ?_⟩
    intro w h
    cases h
  · intro f file hin hf
    exact absurd (List.mem_map.mpr ⟨(f, file), hin, rfl⟩) hf

/-- A move of a worker leaves the other workers where they are, and the number of workers
as it is. -/
theorem WorkGroup.step_others {σ : Type} (script : Script σ) (fuel : Nat) (g : WorkGroup σ)
    (w : Nat) :
    (∀ w', w' ≠ w → (WorkGroup.step script fuel g w).workers w' = g.workers w')
    ∧ (WorkGroup.step script fuel g w).checkers = g.checkers := by
  apply WorkGroup.step_cases script fuel g w
    (fun g' => (∀ w', w' ≠ w → g'.workers w' = g.workers w') ∧ g'.checkers = g.checkers)
  · intro _
    exact ⟨fun _ _ => rfl, rfl⟩
  · intro _ _ _
    exact ⟨fun w' e => setAt_other _ _ _ _ e, rfl⟩
  · intro _ _ _
    exact ⟨fun w' e => setAt_other _ _ _ _ e, rfl⟩
  · intro _ _ _ _ _
    exact ⟨fun _ _ => rfl, rfl⟩
  · intro _ _ _ _
    exact ⟨fun w' e => setAt_other _ _ _ _ e, rfl⟩
  · intro _ _ _ _
    exact ⟨fun w' e => setAt_other _ _ _ _ e, rfl⟩
  · intro _ _ _ _ _ _ _
    exact ⟨fun w' e => setAt_other _ _ _ _ e, rfl⟩
  · intro _ _ _ _ _ _ _
    exact ⟨fun w' e => setAt_other _ _ _ _ e, rfl⟩
  · intro _ _ _ _ _
    exact ⟨fun _ _ => rfl, rfl⟩
  · intro _ _ _ _
    exact ⟨fun w' e => setAt_other _ _ _ _ e, rfl⟩

/-- A worker beyond the number of workers never starts. -/
theorem WorkGroup.run_beyond {σ : Type} (script : Script σ) (fuel : Nat) :
    ∀ (schedule : List Nat) (g : WorkGroup σ),
      (∀ w, g.checkers ≤ w → g.workers w = WorkerAt.queued) →
      (WorkGroup.run script fuel g schedule).checkers = g.checkers
      ∧ ∀ w, g.checkers ≤ w →
          (WorkGroup.run script fuel g schedule).workers w = WorkerAt.queued := by
  intro schedule
  induction schedule with
  | nil =>
    intro g h
    exact ⟨rfl, h⟩
  | cons v rest ih =>
    intro g h
    have hc := (WorkGroup.step_others script fuel g v).2
    have hstep : ∀ w, (WorkGroup.step script fuel g v).checkers ≤ w →
        (WorkGroup.step script fuel g v).workers w = WorkerAt.queued := by
      intro w hw
      rw [hc] at hw
      by_cases e : w = v
      · subst e
        have : WorkGroup.step script fuel g w = g := by
          unfold WorkGroup.step
          rw [if_pos (Or.inr hw)]
        rw [this]
        exact h w hw
      · rw [(WorkGroup.step_others script fuel g v).1 w e]
        exact h w hw
    have := ih _ hstep
    rw [hc] at this
    exact this

/-- A move of a worker that has not returned, in a process that has not panicked, ends in
a panic, or takes a file from the queue, or leaves the queue and takes the worker to a
place of lower rank. -/
theorem WorkGroup.step_progress {σ : Type} (script : Script σ) (fuel : Nat)
    (g : WorkGroup σ) (w : Nat) (hp : g.panic = none) (hw : w < g.checkers)
    (hr : g.workers w ≠ WorkerAt.returned) :
    (WorkGroup.step script fuel g w).panic ≠ none
    ∨ (WorkGroup.step script fuel g w).queue.length < g.queue.length
    ∨ ((WorkGroup.step script fuel g w).queue.length = g.queue.length
        ∧ ((WorkGroup.step script fuel g w).workers w).rank < (g.workers w).rank) := by
  apply WorkGroup.step_cases script fuel g w
    (fun g' => g'.panic ≠ none ∨ g'.queue.length < g.queue.length
      ∨ (g'.queue.length = g.queue.length ∧ (g'.workers w).rank < (g.workers w).rank))
  · intro h
    rcases h with h | h | h
    · exact absurd hp h
    · exact absurd hw (Nat.not_lt.mpr h)
    · exact absurd h hr
  · intro _ h _
    refine Or.inr (Or.inr ⟨rfl, ?_⟩)
    simp only [setAt_same, h, WorkerAt.rank]
    omega
  · intro _ h _
    refine Or.inr (Or.inr ⟨rfl, ?_⟩)
    simp only [setAt_same, h, WorkerAt.rank]
    omega
  · intro _ _ _ _ _
    exact Or.inl (by simp)
  · intro _ _ h _
    refine Or.inr (Or.inr ⟨rfl, ?_⟩)
    simp only [setAt_same, h, WorkerAt.rank]
    omega
  · intro _ _ h _
    refine Or.inr (Or.inr ⟨rfl, ?_⟩)
    simp only [setAt_same, h, WorkerAt.rank]
    omega
  · intro _ _ _ _ _ _ h
    refine Or.inr (Or.inl ?_)
    simp only [h, List.length_cons]
    omega
  · intro _ _ _ _ _ _ h
    refine Or.inr (Or.inr ⟨rfl, ?_⟩)
    simp only [setAt_same, h, WorkerAt.rank, List.length_cons]
    omega
  · intro _ _ _ _ _
    exact Or.inl (by simp)
  · intro _ _ _ h
    refine Or.inr (Or.inr ⟨rfl, ?_⟩)
    simp only [setAt_same, h, WorkerAt.rank, List.length_nil]
    omega

/-- A worker that goes on moving returns, unless the process panics: after some number of
its moves it has returned or the process has panicked, and the other workers are where
they were. -/
theorem WorkGroup.drain {σ : Type} (script : Script σ) (fuel : Nat) (w : Nat) :
    ∀ (n r : Nat) (g : WorkGroup σ), g.queue.length = n → (g.workers w).rank = r →
      w < g.checkers →
      ∃ k, ((WorkGroup.run script fuel g (List.replicate k w)).panic ≠ none
          ∨ (WorkGroup.run script fuel g (List.replicate k w)).workers w = WorkerAt.returned)
        ∧ (∀ w', w' ≠ w →
            (WorkGroup.run script fuel g (List.replicate k w)).workers w' = g.workers w')
        ∧ (WorkGroup.run script fuel g (List.replicate k w)).checkers = g.checkers := by
  intro n
  induction n using Nat.strong_induction_on with
  | _ n ihn =>
    intro r
    induction r using Nat.strong_induction_on with
    | _ r ihr =>
      intro g hn hr hw
      by_cases hp : g.panic = none
      · by_cases hret : g.workers w = WorkerAt.returned
        · exact ⟨0, Or.inr hret, fun _ _ => rfl, rfl⟩
        · have hoth := WorkGroup.step_others script fuel g w
          have hw1 : w < (WorkGroup.step script fuel g w).checkers := by
            rw [hoth.2]
            exact hw
          have next : ∃ k, ((WorkGroup.run script fuel (WorkGroup.step script fuel g w)
                  (List.replicate k w)).panic ≠ none
                ∨ (WorkGroup.run script fuel (WorkGroup.step script fuel g w)
                    (List.replicate k w)).workers w = WorkerAt.returned)
              ∧ (∀ w', w' ≠ w →
                  (WorkGroup.run script fuel (WorkGroup.step script fuel g w)
                    (List.replicate k w)).workers w'
                    = (WorkGroup.step script fuel g w).workers w')
              ∧ (WorkGroup.run script fuel (WorkGroup.step script fuel g w)
                  (List.replicate k w)).checkers
                  = (WorkGroup.step script fuel g w).checkers := by
            rcases WorkGroup.step_progress script fuel g w hp hw hret with h | h | h
            · exact ⟨0, Or.inl h, fun _ _ => rfl, rfl⟩
            · exact ihn _ (hn ▸ h) _ _ rfl rfl hw1
            · exact ihr _ (hr ▸ h.2) _ (h.1.trans hn) rfl hw1
          obtain ⟨k, h1, h2, h3⟩ := next
          refine ⟨k + 1, h1, ?_, h3.trans hoth.2⟩
          intro w' e
          exact (h2 w' e).trans (hoth.1 w' e)
      · exact ⟨0, Or.inl hp, fun _ _ => rfl, rfl⟩

/-- Nothing moves after a panic: a process that has not panicked after a schedule had not
panicked before it. -/
theorem WorkGroup.panic_kept {σ : Type} (script : Script σ) (fuel : Nat) :
    ∀ (schedule : List Nat) (g : WorkGroup σ),
      (WorkGroup.run script fuel g schedule).panic = none → g.panic = none := by
  intro schedule
  induction schedule with
  | nil =>
    intro g h
    exact h
  | cons w rest ih =>
    intro g h
    have h1 := ih _ h
    by_cases hp : g.panic = none
    · exact hp
    · have : WorkGroup.step script fuel g w = g := by
        unfold WorkGroup.step
        rw [if_pos (Or.inl ?_)]
        cases hg : g.panic with
        | none => exact absurd hg hp
        | some p => rfl
      rw [this] at h1
      exact h1

/-- Every worker has returned exactly when `finished` says so. -/
theorem WorkGroup.finished_iff {σ : Type} (g : WorkGroup σ) :
    g.finished = true ↔ ∀ w, w < g.checkers → g.workers w = WorkerAt.returned := by
  simp [WorkGroup.finished]

/-- The workers can always go on until each has returned or the process has panicked. -/
theorem WorkGroup.completes {σ : Type} (script : Script σ) (fuel : Nat) (g : WorkGroup σ) :
    ∃ more, (WorkGroup.run script fuel g more).panic ≠ none
      ∨ (WorkGroup.run script fuel g more).finished = true := by
  have key : ∀ k, k ≤ g.checkers → ∃ more,
      ((WorkGroup.run script fuel g more).panic ≠ none
        ∨ ∀ w, w < k → (WorkGroup.run script fuel g more).workers w = WorkerAt.returned)
      ∧ (WorkGroup.run script fuel g more).checkers = g.checkers := by
    intro k
    induction k with
    | zero =>
      intro _
      exact ⟨[], Or.inr (fun w hw => absurd hw (Nat.not_lt_zero w)), rfl⟩
    | succ k ih =>
      intro hk
      obtain ⟨more, h1, h2⟩ := ih (Nat.le_of_succ_le hk)
      obtain ⟨n, d1, d2, d3⟩ := WorkGroup.drain script fuel k _ _
        (WorkGroup.run script fuel g more) rfl rfl (by rw [h2]; exact hk)
      refine ⟨more ++ List.replicate n k, ?_, ?_⟩
      · rw [WorkGroup.run_append]
        rcases d1 with d1 | d1
        · exact Or.inl d1
        · rcases h1 with h1 | h1
          · by_cases hp : (WorkGroup.run script fuel (WorkGroup.run script fuel g more)
                (List.replicate n k)).panic = none
            · right
              intro w hw
              by_cases e : w = k
              · rw [e]
                exact d1
              · rw [d2 w e]
                exfalso
                exact h1 (WorkGroup.panic_kept script fuel _ _ hp)
            · exact Or.inl hp
          · right
            intro w hw
            by_cases e : w = k
            · rw [e]
              exact d1
            · rw [d2 w e]
              exact h1 w (by omega)
      · rw [WorkGroup.run_append, d3, h2]
  obtain ⟨more, h1, h2⟩ := key g.checkers (Nat.le_refl _)
  refine ⟨more, h1.imp id ?_⟩
  intro h
  rw [WorkGroup.finished_iff, h2]
  exact h

/-- With a script without state that is loaded and run without error, a run of the workers
does not panic, and when every worker has returned, what happened for each file is the call
of `LintFile` and what happens during it on a fresh host. -/
theorem WorkGroup.run_events {σ : Type} (script : Script σ) (fuel checkers : Nat)
    (files : List (FilePtr × ast.SourceFile)) (schedule : List Nat)
    (hs : ∀ s text program c, (script.run s text program c).1
      = (script.run script.init text program c).1)
    (hload : ∀ k, script.loadError k = none)
    (hnodup : (files.map Prod.fst).Nodup)
    (hok : ∀ f ∈ files, (LintFile (script.runtime script.init) f.1 f.2 fuel).2
      = Except.ok none) :
    (WorkGroup.run script fuel (WorkGroup.start script checkers files) schedule).panic = none
    ∧ ((WorkGroup.run script fuel (WorkGroup.start script checkers files) schedule).finished
          = true → 0 < checkers →
        ∀ f ∈ files,
          eventsFor f.1
              (WorkGroup.run script fuel (WorkGroup.start script checkers files) schedule).trace
            = Event.lintFile f.1 :: (LintFile (script.runtime script.init) f.1 f.2 fuel).1) := by
  have hinv := WorkGroup.run_induction script fuel
    (fun g => g.QueueOk files ∧ g.EventsOk script fuel files)
    (fun g w h => ⟨h.1.step_queue script fuel files g w,
      h.2.step_events script fuel files g w hs hload hnodup hok h.1⟩)
    schedule (WorkGroup.start script checkers files)
    ⟨WorkGroup.QueueOk.start_queue script checkers files,
      WorkGroup.EventsOk.start_events script fuel checkers files⟩
  have hbeyond := WorkGroup.run_beyond script fuel schedule
    (WorkGroup.start script checkers files) (fun _ _ => rfl)
  obtain ⟨hq, he⟩ := hinv
  refine ⟨he.1, ?_⟩
  intro hfin hpos f hf
  rw [WorkGroup.finished_iff, hbeyond.1] at hfin
  have hempty := hq.2.1 ⟨0, hfin 0 hpos⟩
  have key := (he.2.2.2.2.2 f.1 f.2 hf (by rw [hempty]; simp)).2
  apply key
  intro w
  by_cases hw : w < checkers
  · rw [hfin w hw]
    simp [WorkerAt.file?]
  · rw [hbeyond.2 w (Nat.le_of_not_lt hw)]
    simp [WorkerAt.file?]

/-- C34 as stated fails for a script that keeps state: the script that counts its calls in
a global and reports the count. With one worker the second file, 8, is the second call of
the one host and gets the report of line 2; with two workers, when worker 1 receives the
second file, it is the first call of that worker's host and gets the report of line 1. In
both runs every worker returns and nothing panics. -/
theorem concurrency_counterexample :
    (RunLinterScheduled countingHost "e" 1 [(7, arrayAlone), (8, arrayAlone)] 8
        (List.replicate 10 0)).toOption.map
        (fun g => (g.finished, g.panic, lintedFiles g.trace,
          reportedLines (eventsFor 8 g.trace)))
      = some (true, none, [7, 8], [2])
    ∧ (RunLinterScheduled countingHost "e" 2 [(7, arrayAlone), (8, arrayAlone)] 8
        [0, 0, 1, 1, 1, 0, 1, 0, 1, 0, 1, 0, 1]).toOption.map
        (fun g => (g.finished, g.panic, lintedFiles g.trace,
          reportedLines (eventsFor 8 g.trace)))
      = some (true, none, [7, 8], [1]) := by
  refine ⟨by decide!, by decide!⟩

/-- C34, amended: concurrency determinism for scripts without state. `RunLinter` with a
bundle that loads gets to the workers, which move in the order the scheduler gives them.
After every schedule no scripting host is held by two workers, and the files for which
`LintFile` was called, followed by the files left in the queue, are the files given, in
their order: every file is received at most once. Every schedule can be continued until
each worker has returned or the process has panicked, and when each of at least one worker
has returned, `LintFile` was called for every file exactly once. When the reports and the
error of the script do not depend on the state of the host, every `CreateJsVm` returns
without error, the files are different and `LintFile` on a fresh host returns nil for every
file, the process does not panic, and once every worker has returned, what happened for a
file, its reports and diagnostics in their order, is what happens on a fresh host: the same
for every number of workers and every schedule. -/
theorem concurrency_determinism {σ : Type} (script : Script σ) (fuel checkers : Nat)
    (files : List (FilePtr × ast.SourceFile)) (schedule : List Nat) :
    (∀ (host : ScriptHost σ) (entryCode bundle : String),
      LoadESLintConfig host.build entryCode = Except.ok bundle →
      host.CreateJsVm bundle = script → script.loadError 0 = none →
      RunLinterScheduled host entryCode checkers files fuel schedule
        = Except.ok
            (WorkGroup.run script fuel (WorkGroup.start script checkers files) schedule))
    ∧ (∀ w1 w2 vm,
        ((WorkGroup.run script fuel (WorkGroup.start script checkers files)
            schedule).workers w1).vm? = some vm →
        ((WorkGroup.run script fuel (WorkGroup.start script checkers files)
            schedule).workers w2).vm? = some vm → w1 = w2)
    ∧ lintedFiles
          (WorkGroup.run script fuel (WorkGroup.start script checkers files) schedule).trace
        ++ (WorkGroup.run script fuel (WorkGroup.start script checkers files)
            schedule).queue.map Prod.fst
        = files.map Prod.fst
    ∧ (∃ more,
        (WorkGroup.run script fuel (WorkGroup.start script checkers files)
            (schedule ++ more)).panic ≠ none
        ∨ (WorkGroup.run script fuel (WorkGroup.start script checkers files)
            (schedule ++ more)).finished = true)
    ∧ ((WorkGroup.run script fuel (WorkGroup.start script checkers files) schedule).finished
          = true → 0 < checkers →
        lintedFiles
            (WorkGroup.run script fuel (WorkGroup.start script checkers files) schedule).trace
          = files.map Prod.fst)
    ∧ ((∀ s text program c, (script.run s text program c).1
          = (script.run script.init text program c).1) →
        (∀ k, script.loadError k = none) →
        (files.map Prod.fst).Nodup →
        (∀ f ∈ files, (LintFile (script.runtime script.init) f.1 f.2 fuel).2
          = Except.ok none) →
        (WorkGroup.run script fuel (WorkGroup.start script checkers files) schedule).panic
          = none
        ∧ ((WorkGroup.run script fuel (WorkGroup.start script checkers files)
              schedule).finished = true → 0 < checkers →
            (∀ f ∈ files,
              eventsFor f.1 (WorkGroup.run script fuel
                  (WorkGroup.start script checkers files) schedule).trace
                = Event.lintFile f.1
                    :: (LintFile (script.runtime script.init) f.1 f.2 fuel).1)
            ∧ ∀ (checkers' : Nat) (schedule' : List Nat), 0 < checkers' →
                (WorkGroup.run script fuel (WorkGroup.start script checkers' files)
                  schedule').finished = true →
                ∀ f ∈ files,
                  eventsFor f.1 (WorkGroup.run script fuel
                      (WorkGroup.start script checkers files) schedule).trace
                    = eventsFor f.1 (WorkGroup.run script fuel
                        (WorkGroup.start script checkers' files) schedule').trace)) := by
  have hhosts := WorkGroup.run_induction script fuel (fun g => g.HostsOk)
    (fun g w h => h.step_hosts script fuel g w) schedule (WorkGroup.start script checkers files)
    (WorkGroup.HostsOk.start_hosts script checkers files)
  have hqueue := WorkGroup.run_induction script fuel (fun g => g.QueueOk files)
    (fun g w h => h.step_queue script fuel files g w) schedule
    (WorkGroup.start script checkers files) (WorkGroup.QueueOk.start_queue script checkers files)
  have hbeyond := WorkGroup.run_beyond script fuel schedule
    (WorkGroup.start script checkers files) (fun _ _ => rfl)
  have hlinted : lintedFiles
        (WorkGroup.run script fuel (WorkGroup.start script checkers files) schedule).trace
      ++ (WorkGroup.run script fuel (WorkGroup.start script checkers files)
          schedule).queue.map Prod.fst
      = files.map Prod.fst := by
    obtain ⟨⟨taken, h1, h2⟩, _, _⟩ := hqueue
    rw [h2, ← List.map_append, ← h1]
  refine ⟨?_, hhosts.2.2, hlinted, ?_, ?_, ?_⟩
  · intro host entryCode bundle hb hscript hfirst
    unfold RunLinterScheduled
    rw [hb]
    simp only [hscript, hfirst]
  · obtain ⟨more, h⟩ := WorkGroup.completes script fuel
      (WorkGroup.run script fuel (WorkGroup.start script checkers files) schedule)
    exact ⟨more, by rw [WorkGroup.run_append]; exact h⟩
  · intro hfin hpos
    rw [WorkGroup.finished_iff, hbeyond.1] at hfin
    have hempty := hqueue.2.1 ⟨0, hfin 0 hpos⟩
    rw [hempty] at hlinted
    simpa using hlinted
  · intro hs hload hnodup hok
    have key := WorkGroup.run_events script fuel checkers files schedule hs hload hnodup hok
    refine ⟨key.1, ?_⟩
    intro hfin hpos
    refine ⟨key.2 hfin hpos, ?_⟩
    intro checkers' schedule' hpos' hfin' f hf
    rw [key.2 hfin hpos f hf,
      (WorkGroup.run_events script fuel checkers' files schedule' hs hload hnodup hok).2
        hfin' hpos' f hf]

/-- C34, amended, on the script without state that reports twice, two files and two
workers whose moves are interleaved, worker 1 receiving the second file: `RunLinter` gets to
the workers, both return, `LintFile` was called for 7 and for 8, and what happened for each
file is what happened for it in the run with one worker. When worker 0 makes all its moves
before worker 1 starts, what happens is what happens in the single-threaded `RunLinter`. -/
theorem concurrency_determinism_witness :
    RunLinterScheduled statelessHost "e" 2 [(7, arrayAlone), (8, arrayAlone)] 8
        [0, 0, 1, 1, 1, 0, 1, 0, 1, 0, 1, 0, 1, 0, 1, 0, 1, 1]
      = Except.ok (WorkGroup.run statelessScript 8
          (WorkGroup.start statelessScript 2 [(7, arrayAlone), (8, arrayAlone)])
          [0, 0, 1, 1, 1, 0, 1, 0, 1, 0, 1, 0, 1, 0, 1, 0, 1, 1])
    ∧ (WorkGroup.run statelessScript 8
          (WorkGroup.start statelessScript 2 [(7, arrayAlone), (8, arrayAlone)])
          [0, 0, 1, 1, 1, 0, 1, 0, 1, 0, 1, 0, 1, 0, 1, 0, 1, 1]).finished = true
    ∧ lintedFiles (WorkGroup.run statelessScript 8
          (WorkGroup.start statelessScript 2 [(7, arrayAlone), (8, arrayAlone)])
          [0, 0, 1, 1, 1, 0, 1, 0, 1, 0, 1, 0, 1, 0, 1, 0, 1, 1]).trace = [7, 8]
    ∧ (∀ f ∈ [(7, arrayAlone), (8, arrayAlone)],
        eventsFor f.1 (WorkGroup.run statelessScript 8
            (WorkGroup.start statelessScript 2 [(7, arrayAlone), (8, arrayAlone)])
            [0, 0, 1, 1, 1, 0, 1, 0, 1, 0, 1, 0, 1, 0, 1, 0, 1, 1]).trace
          = eventsFor f.1 (WorkGroup.run statelessScript 8
              (WorkGroup.start statelessScript 1 [(7, arrayAlone), (8, arrayAlone)])
              (List.replicate 14 0)).trace)
    ∧ (WorkGroup.run statelessScript 8
          (WorkGroup.start statelessScript 2 [(7, arrayAlone), (8, arrayAlone)])
          (List.replicate 14 0 ++ List.replicate 3 1)).trace
        = (RunLinter workingHost "e" 2 [(7, arrayAlone), (8, arrayAlone)] 8).1 := by
  have key := concurrency_determinism statelessScript 8 2 [(7, arrayAlone), (8, arrayAlone)]
    [0, 0, 1, 1, 1, 0, 1, 0, 1, 0, 1, 0, 1, 0, 1, 0, 1, 1]
  have hok : ∀ f ∈ [(7, arrayAlone), (8, arrayAlone)],
      (LintFile (statelessScript.runtime statelessScript.init) f.1 f.2 8).2
        = Except.ok none := by
    intro f hf
    have h7 : (LintFile (statelessScript.runtime ()) 7 arrayAlone 8).2.toOption
        = some none := by decide!
    have h8 : (LintFile (statelessScript.runtime ()) 8 arrayAlone 8).2.toOption
        = some none := by decide!
    simp only [List.mem_cons, List.mem_singleton, List.not_mem_nil, or_false] at hf
    rcases hf with rfl | rfl
    · exact except_eq_of_toOption _ _ h7
    · exact except_eq_of_toOption _ _ h8
  have hfin : (WorkGroup.run statelessScript 8
      (WorkGroup.start statelessScript 2 [(7, arrayAlone), (8, arrayAlone)])
      [0, 0, 1, 1, 1, 0, 1, 0, 1, 0, 1, 0, 1, 0, 1, 0, 1, 1]).finished = true := by decide!
  have hone : (WorkGroup.run statelessScript 8
      (WorkGroup.start statelessScript 1 [(7, arrayAlone), (8, arrayAlone)])
      (List.replicate 14 0)).finished = true := by decide!
  refine ⟨key.1 statelessHost "e" "bundle" rfl rfl rfl, hfin, ?_, ?_, by decide!⟩
  · exact key.2.2.2.2.1 hfin (by decide)
  · exact ((key.2.2.2.2.2 (fun _ _ _ _ => rfl) (fun _ => rfl) (by decide) hok).2 hfin
      (by decide)).2 1 (List.replicate 14 0) (by decide) hone

end eslint_compat

/-! ## Directives and parameter properties: C35, C36 -/

namespace estree

/-- After the callback of `convertBodyExpressions` ran on a statement, `allowDirectives` is
false, whatever the statement was. -/
theorem convertBodyStatement_flag (conv : Conv) (allowDirectives : Bool)
    (statement : ast.NodePtr) (c c2 : converter) (r : Option Ptr × Bool)
    (h : convertBodyStatement conv allowDirectives statement c = Except.ok (r, c2)) :
    r.2 = false := by
  unfold convertBodyStatement at h
  simp only [bind, StateT.bind, Except.bind] at h
  cases hc : conv (some statement) none false c with
  | error e =>
    rw [hc] at h
    cases h
  | ok res =>
    obtain ⟨child, c1⟩ := res
    rw [hc] at h
    simp only [] at h
    cases allowDirectives with
    | false =>
      simp only [Bool.false_eq_true, if_false, pure, StateT.pure, Except.pure,
        Except.ok.injEq, Prod.mk.injEq] at h
      rw [← h.1]
    | true =>
      simp only [if_true, get, getThe, MonadStateOf.get, StateT.get, pure, Except.pure,
        StateT.pure, bind, StateT.bind, Except.bind] at h
      cases child with
      | none =>
        cases h
        rfl
      | some p =>
        simp only [] at h
        by_cases hk : (c1.sourceFile.node statement).Kind = ast.Kind.ExpressionStatement
        · simp only [hk, if_true] at h
          cases hexp : (c1.sourceFile.node statement).Expression with
          | none =>
            simp only [hexp] at h
            cases h
          | some e =>
            simp only [hexp] at h
            by_cases hlit : (c1.sourceFile.node e).Kind = ast.Kind.StringLiteral
            · simp only [hlit, if_true] at h
              cases h
              rfl
            · simp only [hlit, if_false] at h
              cases h
              rfl
        · simp only [hk, if_false] at h
          cases h
          rfl

/-- With `allowDirectives` false the callback only converts the statement: no `Directive` is
set. -/
theorem convertBodyStatement_later (conv : Conv) (statement : ast.NodePtr) :
    convertBodyStatement conv false statement
      = (do
          let child ← conv (some statement) none false
          pure (child, false) : M (Option Ptr × Bool)) := by
  unfold convertBodyStatement
  simp only [Bool.false_eq_true, if_false]

/-- C35 fails on the file `"use strict"; "use asm";`: both statements are expression
statements of a string literal and so make the directive prologue of the file. The first,
at pointer 1, gets the `Directive` `use strict`; the second, at pointer 3, converted from
native node 3 with the literal `use asm` at pointer 2 as `Expression`, keeps the
`Directive` nil. -/
theorem directive_prologue_counterexample :
    observe (ConvertSourceFileToESTree 8 twoDirectives)
        (fun r c => (r, (c.get 4).field "Body", (c.get 1).Type_, (c.get 1).field "Directive"))
      = some (some 4, Value.list [some 1, some 3], ESTreeKind.ExpressionStatement,
          Value.str "use strict")
    ∧ observe (ConvertSourceFileToESTree 8 twoDirectives)
        (fun _ c => ((c.get 3).Type_, c.esTreeNodeToTSNodeMap 3, (c.get 3).field "Expression",
          (c.get 2).field "Value", (c.get 3).field "Directive"))
      = some (ESTreeKind.ExpressionStatement, some 3, Value.node 2, Value.str "use asm",
          Value.null)
    ∧ (twoDirectives.node 3).Kind = ast.Kind.ExpressionStatement
    ∧ (twoDirectives.node 4).Kind = ast.Kind.StringLiteral
    ∧ canContainDirective twoDirectives 0 = Except.ok true := by
  refine ⟨by decide!, by decide!, by decide!, by decide!, rfl⟩

end estree

namespace estree

/-- A call of `c.converter` keeps the source file and frees no struct; what it returns is
allocated. -/
theorem converterRec_frame (fuel : Nat) (n parent : Option ast.NodePtr) (allowPattern : Bool)
    (c c2 : converter) (r : Option Ptr) (hwf : c.sourceFile.jsxNamesOk = true)
    (h : converterRec fuel n parent allowPattern c = Except.ok (r, c2)) :
    c2.sourceFile = c.sourceFile ∧ c.heap.length ≤ c2.heap.length
      ∧ ∀ p ∈ r.toList, p < c2.heap.length := by
  have hgood := converterRec_good c.sourceFile hwf fuel [] n parent allowPattern
  unfold Runs at hgood
  obtain ⟨hstar, hfresh⟩ := hgood c r c2 rfl (by simp) h
  exact ⟨star_sourceFile hstar, star_length hstar, hfresh⟩

/-- The `AssignmentPattern` case `KindParameter` builds for a parameter with modifiers. -/
theorem patternBuilt_spec (c : converter) (node : ast.NodePtr) (left : Ptr)
    (right : Option Ptr) (hleft : left < c.heap.length) :
    (patternBuilt c node left right).heap.length = c.heap.length + 1
    ∧ (patternBuilt c node left right).sourceFile = c.sourceFile
    ∧ ((patternBuilt c node left right).get c.heap.length).Type_
        = ESTreeKind.AssignmentPattern
    ∧ ((patternBuilt c node left right).get c.heap.length).Fields
        = (assignmentPatternOf (some left) right).Fields
    ∧ ((patternBuilt c node left right).get c.heap.length).Range
        = ((c.get left).Range.1, (c.sourceFile.node node).End)
    ∧ ((patternBuilt c node left right).get c.heap.length).Loc
        = c.getLocFor ((c.get left).Range.1, (c.sourceFile.node node).End)
    ∧ (∀ p, p < c.heap.length → (patternBuilt c node left right).get p = c.get p) := by
  have hold := converter.createNode_new_old c node (assignmentPatternOf (some left) right)
  have hrange := converter.createNode_new_range c node (assignmentPatternOf (some left) right)
  have hget := converter.createNode_new_get c node (assignmentPatternOf (some left) right)
  have hlen : ((c.new (assignmentPatternOf (some left) right)).2.createNode node
      (c.new (assignmentPatternOf (some left) right)).1).2.heap.length = c.heap.length + 1 := by
    simp
  have hsf : ((c.new (assignmentPatternOf (some left) right)).2.createNode node
      (c.new (assignmentPatternOf (some left) right)).1).2.sourceFile = c.sourceFile := by
    simp
  have hr0 : (assignmentPatternOf (some left) right).Range.1 = 0
      ∧ (assignmentPatternOf (some left) right).Range.2 = 0 := ⟨rfl, rfl⟩
  rw [if_pos hr0] at hrange
  have hself : (c.heap.length = c.heap.length ∧ c.heap.length < c.heap.length + 1) :=
    ⟨rfl, Nat.lt_succ_self _⟩
  refine ⟨?_, ?_, ?_, ?_, ?_, ?_, ?_⟩
  · simp only [patternBuilt, converter.length_setLoc, converter.length_setRange, hlen]
  · simp only [patternBuilt, converter.sourceFile_setLoc, converter.sourceFile_setRange, hsf]
  · simp only [patternBuilt, converter.get_setLoc, converter.get_setRange,
      converter.length_setRange, hlen, hself, and_self, if_true, hget.1]
    rfl
  · simp only [patternBuilt, converter.get_setLoc, converter.get_setRange,
      converter.length_setRange, hlen, hself, and_self, if_true, hget.2]
  · simp only [patternBuilt, converter.get_setLoc, converter.get_setRange,
      converter.length_setRange, hlen, hself, and_self, if_true, hold left hleft, hrange]
  · simp only [patternBuilt, converter.get_setLoc, converter.get_setRange,
      converter.length_setRange, hlen, hself, and_self, if_true, hold left hleft, hrange]
    simp only [converter.getLocFor, hsf]
  · intro p hp
    have hne : ¬(c.heap.length = p ∧ c.heap.length < c.heap.length + 1) :=
      fun h => absurd h.1 (Nat.ne_of_gt hp)
    simp only [patternBuilt, converter.get_setLoc, converter.get_setRange,
      converter.length_setRange, hlen, hne, if_false, hold p hp]

/-- Case `KindParameter` on a parameter with an initializer and modifiers, without a type
and without `?`: the run, the conversions of the name and of the initializer as they
return. -/
theorem convertParameter_pattern_run (conv : Conv) (c c1 c2 : converter)
    (node name init : ast.NodePtr) (parent : Option ast.NodePtr)
    (modifiers : List ast.NodePtr) (left : Ptr) (right : Option Ptr)
    (hrest : (c.sourceFile.node node).DotDotDotToken = none)
    (hname : (c.sourceFile.node node).Name = some name)
    (hinit : (c.sourceFile.node node).Initializer = some init)
    (hmods : (c.sourceFile.node node).Modifiers = some modifiers)
    (htype : (c.sourceFile.node node).Type_ = none)
    (hq : (c.sourceFile.node node).QuestionToken = none)
    (hleft : conv (some name) none false c = Except.ok (some left, c1))
    (hright : conv (some init) none false c1 = Except.ok (right, c2)) :
    convertParameter conv node parent c
      = (if (getModifiers c.sourceFile node).isSome then
          Except.ok (some (patternBuilt c2 node left right).heap.length,
            (((patternBuilt c2 node left right).new
                (parameterPropertyOf c.sourceFile node (some c2.heap.length))).2.createNode node
              ((patternBuilt c2 node left right).new
                (parameterPropertyOf c.sourceFile node (some c2.heap.length))).1).2)
        else Except.ok (some c2.heap.length, patternBuilt c2 node left right)) := by
  by_cases hm : (getModifiers c.sourceFile node).isSome
  · simp only [convertParameter, bind, StateT.bind, get, getThe, MonadStateOf.get, StateT.get,
      Except.bind, pure, StateT.pure, Except.pure, hrest, hname, hinit, hmods, htype, hq,
      Option.isSome_none, Option.isSome_some, hleft, hright, Bool.false_eq_true, if_false,
      if_true, createNode, deref, modify, modifyGet, MonadStateOf.modifyGet,
      StateT.modifyGet, convertTypeAnnotation, converter.fst_new, converter.createNode_fst, hm]
    rfl
  · simp only [convertParameter, bind, StateT.bind, get, getThe, MonadStateOf.get, StateT.get,
      Except.bind, pure, StateT.pure, Except.pure, hrest, hname, hinit, hmods, htype, hq,
      Option.isSome_none, Option.isSome_some, hleft, hright, Bool.false_eq_true, if_false,
      if_true, createNode, deref, modify, modifyGet, MonadStateOf.modifyGet,
      StateT.modifyGet, convertTypeAnnotation, converter.fst_new, converter.createNode_fst, hm]
    rfl

/-- Case `KindParameter` on a parameter with an initializer, modifiers and a type, without
`?`: the run. After the `AssignmentPattern` was built the type is converted and attached to
the name, which is widened over it. -/
theorem convertParameter_typed_run (conv : Conv) (c c1 c2 c5 : converter)
    (node name init ty : ast.NodePtr) (parent : Option ast.NodePtr)
    (modifiers : List ast.NodePtr) (left : Ptr) (right : Option Ptr) ( annotation : Ptr)
    (hrest : (c.sourceFile.node node).DotDotDotToken = none)
    (hname : (c.sourceFile.node node).Name = some name)
    (hinit : (c.sourceFile.node node).Initializer = some init)
    (hmods : (c.sourceFile.node node).Modifiers = some modifiers)
    (htype : (c.sourceFile.node node).Type_ = some ty)
    (hq : (c.sourceFile.node node).QuestionToken = none)
    (hleft : conv (some name) none false c = Except.ok (some left, c1))
    (hright : conv (some init) none false c1 = Except.ok (right, c2))
    (hta : convertTypeAnnotation conv (some ty) (some node) (patternBuilt c2 node left right)
      = Except.ok (some annotation, c5)) :
    convertParameter conv node parent c
      = (if (getModifiers c.sourceFile node).isSome then
          Except.ok
            (some ((c5.setProperty left "TypeAnnotation"
                (Value.node annotation)).fixParentLocation left annotation).heap.length,
            ((((c5.setProperty left "TypeAnnotation" (Value.node annotation)).fixParentLocation
                  left annotation).new
                (parameterPropertyOf c.sourceFile node (some c2.heap.length))).2.createNode node
              (((c5.setProperty left "TypeAnnotation" (Value.node annotation)).fixParentLocation
                  left annotation).new
                (parameterPropertyOf c.sourceFile node (some c2.heap.length))).1).2)
        else
          Except.ok (some c2.heap.length,
            (c5.setProperty left "TypeAnnotation" (Value.node annotation)).fixParentLocation
              left annotation)) := by
  simp only [patternBuilt, assignmentPatternOf, converter.fst_new, converter.createNode_fst]
    at hta
  by_cases hm : (getModifiers c.sourceFile node).isSome
  · simp only [convertParameter, bind, StateT.bind, get, getThe, MonadStateOf.get, StateT.get,
      Except.bind, pure, StateT.pure, Except.pure, hrest, hname, hinit, hmods, htype, hq,
      Option.isSome_none, Option.isSome_some, hleft, hright, Bool.false_eq_true, if_false,
      if_true, createNode, deref, modify, modifyGet, MonadStateOf.modifyGet,
      StateT.modifyGet, converter.fst_new, converter.createNode_fst, hm, hta]
    rfl
  · simp only [convertParameter, bind, StateT.bind, get, getThe, MonadStateOf.get, StateT.get,
      Except.bind, pure, StateT.pure, Except.pure, hrest, hname, hinit, hmods, htype, hq,
      Option.isSome_none, Option.isSome_some, hleft, hright, Bool.false_eq_true, if_false,
      if_true, createNode, deref, modify, modifyGet, MonadStateOf.modifyGet,
      StateT.modifyGet, converter.fst_new, converter.createNode_fst, hm, hta]

/-- Go `convertTypeAnnotation` on a type keeps the source file and the structs built
before. -/
theorem convertTypeAnnotation_frame (conv : Conv) (c c1 : converter) (child : ast.NodePtr)
    (parent : Option ast.NodePtr) (inner : Option Ptr)
    (h1 : conv (some child) none false c = Except.ok (inner, c1)) :
    ∃ c', convertTypeAnnotation conv (some child) parent c
          = Except.ok (some c1.heap.length, c')
      ∧ c'.heap.length = c1.heap.length + 1
      ∧ c'.sourceFile = c1.sourceFile
      ∧ (c'.get c1.heap.length).Range
          = ((c.sourceFile.node child).Pos - typeAnnotationOffset c.sourceFile parent,
              (c.sourceFile.node child).End)
      ∧ (∀ p, p < c1.heap.length → c'.get p = c1.get p) := by
  obtain ⟨c', hrun, hlen, _, _, hrange, hold⟩ :=
    convertTypeAnnotation_run conv c c1 child parent inner h1
  refine ⟨c', hrun, hlen, ?_, hrange, hold⟩
  have hexp : convertTypeAnnotation conv (some child) parent c
      = Except.ok (some c1.heap.length,
          ((c1.new { Type_ := ESTreeKind.TSTypeAnnotation
                     Fields := [("TypeAnnotation", Value.ofOption inner)] }).2.setRange
              c1.heap.length
              ((c.sourceFile.node child).Pos - typeAnnotationOffset c.sourceFile parent,
                (c.sourceFile.node child).End)).setLoc c1.heap.length
            (((c1.new { Type_ := ESTreeKind.TSTypeAnnotation
                        Fields := [("TypeAnnotation", Value.ofOption inner)] }).2.setRange
                c1.heap.length
                ((c.sourceFile.node child).Pos - typeAnnotationOffset c.sourceFile parent,
                  (c.sourceFile.node child).End)).getLocFor
              ((c.sourceFile.node child).Pos - typeAnnotationOffset c.sourceFile parent,
                (c.sourceFile.node child).End))) := by
    cases parent <;>
    simp only [ convertTypeAnnotation, typeAnnotationOffset, newNode, bind, StateT.bind, get,
      getThe, MonadStateOf.get, StateT.get, modify, modifyGet, MonadStateOf.modifyGet,
      StateT.modifyGet, pure, StateT.pure, Except.pure, Except.bind, h1, converter.fst_new]
  rw [hexp] at hrun
  injection hrun with hrun
  rw [← (Prod.mk.inj hrun).2]
  simp

/-- C36: for a parameter with an initializer and modifiers (no rest parameter, no `?`),
the conversions of the name, the initializer and the type taken as they return, keeping the
source file and the structs built before. Case `KindParameter` returns; the
`AssignmentPattern` it builds has the name as `Left` and the initializer as `Right`, its
`Range` starts where the `Range` of the name starts and ends at the end of the parameter,
and its `Loc` is that of this `Range`. Without a type the name is left as it is; with a
type the name gets the annotation and is widened over it, which does not move its start
when the annotation starts behind it, and the pattern is not touched. When `getModifiers`
finds modifiers, what is returned is a `TSParameterProperty` around the pattern, whose
`Range` is the whole parameter; otherwise the pattern itself. -/
theorem parameter_pattern_range (conv : Conv) (c c1 c2 : converter)
    (node name init : ast.NodePtr) (parent : Option ast.NodePtr)
    (modifiers : List ast.NodePtr) (left : Ptr) (right : Option Ptr)
    (hrest : (c.sourceFile.node node).DotDotDotToken = none)
    (hname : (c.sourceFile.node node).Name = some name)
    (hinit : (c.sourceFile.node node).Initializer = some init)
    (hmods : (c.sourceFile.node node).Modifiers = some modifiers)
    (hq : (c.sourceFile.node node).QuestionToken = none)
    (hkind : (c.sourceFile.node node).Kind = ast.Kind.Parameter)
    (hleft : conv (some name) none false c = Except.ok (some left, c1))
    (hright : conv (some init) none false c1 = Except.ok (right, c2))
    (hlt : left < c2.heap.length) (hsf : c2.sourceFile = c.sourceFile) :
    ((c.sourceFile.node node).Type_ = none →
      ∃ r c', convertParameter conv node parent c = Except.ok (some r, c')
        ∧ (c'.get c2.heap.length).Type_ = ESTreeKind.AssignmentPattern
        ∧ (c'.get c2.heap.length).field "Left" = Value.node left
        ∧ (c'.get c2.heap.length).field "Right" = Value.ofOption right
        ∧ (c'.get c2.heap.length).Range
            = ((c2.get left).Range.1, (c.sourceFile.node node).End)
        ∧ (c'.get c2.heap.length).Loc
            = c.getLocFor ((c2.get left).Range.1, (c.sourceFile.node node).End)
        ∧ c'.get left = c2.get left
        ∧ ((getModifiers c.sourceFile node).isSome = false → r = c2.heap.length)
        ∧ ((getModifiers c.sourceFile node).isSome = true →
            r = c2.heap.length + 1
            ∧ (c'.get r).Type_ = ESTreeKind.TSParameterProperty
            ∧ (c'.get r).field "Parameter" = Value.node c2.heap.length
            ∧ (c'.get r).Range
                = ((c.sourceFile.node node).TokenPos, (c.sourceFile.node node).End)))
    ∧ (∀ (ty : ast.NodePtr) (inner : Option Ptr) (c4 : converter),
      (c.sourceFile.node node).Type_ = some ty →
      conv (some ty) none false (patternBuilt c2 node left right) = Except.ok (inner, c4) →
      c2.heap.length < c4.heap.length →
      c4.get c2.heap.length = (patternBuilt c2 node left right).get c2.heap.length →
      c4.get left = c2.get left →
      c4.sourceFile = c.sourceFile →
      ∃ r c', convertParameter conv node parent c = Except.ok (some r, c')
        ∧ (c'.get c2.heap.length).Type_ = ESTreeKind.AssignmentPattern
        ∧ (c'.get c2.heap.length).field "Left" = Value.node left
        ∧ (c'.get c2.heap.length).field "Right" = Value.ofOption right
        ∧ (c'.get c2.heap.length).Range
            = ((c2.get left).Range.1, (c.sourceFile.node node).End)
        ∧ (c'.get c2.heap.length).Loc
            = c.getLocFor ((c2.get left).Range.1, (c.sourceFile.node node).End)
        ∧ (c'.get left).field "TypeAnnotation" = Value.node c4.heap.length
        ∧ (c'.get left).Range.1
            = min (c2.get left).Range.1 ((c.sourceFile.node ty).Pos - 1)
        ∧ ((getModifiers c.sourceFile node).isSome = false → r = c2.heap.length)
        ∧ ((getModifiers c.sourceFile node).isSome = true →
            r = c4.heap.length + 1
            ∧ (c'.get r).Type_ = ESTreeKind.TSParameterProperty
            ∧ (c'.get r).field "Parameter" = Value.node c2.heap.length
            ∧ (c'.get r).Range
                = ((c.sourceFile.node node).TokenPos, (c.sourceFile.node node).End))) := by
  obtain ⟨hplen, hpsf, hptype, hpfields, hprange, hploc, hpold⟩ :=
    patternBuilt_spec c2 node left right hlt
  have hloc : c2.getLocFor ((c2.get left).Range.1, (c2.sourceFile.node node).End)
      = c.getLocFor ((c2.get left).Range.1, (c.sourceFile.node node).End) := by
    simp only [converter.getLocFor, hsf]
  rw [hsf] at hprange
  rw [hloc] at hploc
  have hfl : ((patternBuilt c2 node left right).get c2.heap.length).field "Left"
      = Value.node left := by
    simp only [ESTreeNode.field, hpfields]
    rfl
  have hfr : ((patternBuilt c2 node left right).get c2.heap.length).field "Right"
      = Value.ofOption right := by
    simp only [ESTreeNode.field, hpfields]
    rfl
  constructor
  · intro htype
    have hrun := convertParameter_pattern_run conv c c1 c2 node name init parent modifiers
      left right hrest hname hinit hmods htype hq hleft hright
    by_cases hm : (getModifiers c.sourceFile node).isSome
    · rw [if_pos hm] at hrun
      obtain ⟨c', hcreate, _, hcsf, hct, hcf, hcr, hcold⟩ := createNode_run node
        (parameterPropertyOf c.sourceFile node (some c2.heap.length))
        (patternBuilt c2 node left right)
      have hc' : c' = (((patternBuilt c2 node left right).new
          (parameterPropertyOf c.sourceFile node (some c2.heap.length))).2.createNode node
          ((patternBuilt c2 node left right).new
            (parameterPropertyOf c.sourceFile node (some c2.heap.length))).1).2 := by
        injection hcreate with hcreate
        exact (Prod.mk.inj hcreate).2.symm
      rw [← hc'] at hrun
      have hR : c2.heap.length < (patternBuilt c2 node left right).heap.length := by
        rw [hplen]
        exact Nat.lt_succ_self _
      have hL : left < (patternBuilt c2 node left right).heap.length := by
        rw [hplen]
        exact Nat.lt_succ_of_lt hlt
      refine ⟨_, c', hrun, ?_, ?_, ?_, ?_, ?_, ?_, ?_, ?_⟩
      · rw [hcold _ hR, hptype]
      · rw [hcold _ hR, hfl]
      · rw [hcold _ hR, hfr]
      · rw [hcold _ hR, hprange]
      · rw [hcold _ hR, hploc]
      · rw [hcold _ hL, hpold _ hlt]
      · intro hno
        rw [hm] at hno
        cases hno
      · intro _
        refine ⟨hplen, ?_, ?_, ?_⟩
        · rw [hct]
          rfl
        · rw [hcf]
          rfl
        · rw [hcr, hpsf, hsf]
          rfl
    · rw [if_neg hm] at hrun
      refine ⟨_, _, hrun, hptype, hfl, hfr, hprange, hploc, hpold _ hlt, fun _ => rfl, ?_⟩
      intro hyes
      exact absurd hyes hm
  · intro ty inner c4 htype hty hlen4 hkeep hkeepLeft hsf4
    obtain ⟨c5, hta, hlen5, hsf5, hrange5, hold5⟩ := convertTypeAnnotation_frame conv
      (patternBuilt c2 node left right) c4 ty (some node) inner hty
    have hrun := convertParameter_typed_run conv c c1 c2 c5 node name init ty parent modifiers
      left right c4.heap.length hrest hname hinit hmods htype hq hleft hright hta
    have hL4 : left < c4.heap.length := Nat.lt_trans hlt hlen4
    have hL5 : left < c5.heap.length := by
      rw [hlen5]
      exact Nat.lt_succ_of_lt hL4
    have hne : c2.heap.length ≠ left := Nat.ne_of_gt hlt
    have hne2 : ¬(left = c2.heap.length ∧ left < c5.heap.length) := fun h => hne h.1.symm
    have hoff : typeAnnotationOffset (patternBuilt c2 node left right).sourceFile (some node)
        = 1 := by
      rw [hpsf, hsf]
      simp only [typeAnnotationOffset, hkind, reduceCtorEq, or_self, if_false]
    rw [hoff, hpsf, hsf] at hrange5
    have hAne : c4.heap.length ≠ left := Nat.ne_of_gt hL4
    have hself : left = left ∧ left < c5.heap.length := ⟨rfl, hL5⟩
    have hAnot : ¬(left = c4.heap.length ∧ left < c5.heap.length) := fun h => hAne h.1.symm
    have hs5L : (c5.setProperty left "TypeAnnotation" (Value.node c4.heap.length)).get left
        = (c5.get left).setField "TypeAnnotation" (Value.node c4.heap.length) := by
      rw [converter.get_setProperty, if_pos hself]
    have hs5A : (c5.setProperty left "TypeAnnotation" (Value.node c4.heap.length)).get
        c4.heap.length = c5.get c4.heap.length := by
      rw [converter.get_setProperty, if_neg hAnot]
    have hc5L : c5.get left = c2.get left := by
      rw [hold5 _ hL4, hkeepLeft]
    obtain ⟨hfr1, _, _, hff, _⟩ := converter.fixParentLocation_spec
      (c5.setProperty left "TypeAnnotation" (Value.node c4.heap.length)) left c4.heap.length
      (by simpa using hL5)
    rw [hs5L, hs5A, hrange5] at hfr1
    rw [hs5L] at hff
    have hs6R : ((c5.setProperty left "TypeAnnotation"
        (Value.node c4.heap.length)).fixParentLocation left c4.heap.length).get c2.heap.length
        = (patternBuilt c2 node left right).get c2.heap.length := by
      rw [converter.fixParentLocation_get_ne _ _ _ _ hne, converter.get_setProperty,
        if_neg hne2, hold5 _ hlen4, hkeep]
    have hs6T : (((c5.setProperty left "TypeAnnotation"
        (Value.node c4.heap.length)).fixParentLocation left c4.heap.length).get left).field
        "TypeAnnotation" = Value.node c4.heap.length := by
      unfold ESTreeNode.field
      rw [hff]
      exact ESTreeNode.field_setField_same _ _ _
    have hs6S : (((c5.setProperty left "TypeAnnotation"
        (Value.node c4.heap.length)).fixParentLocation left c4.heap.length).get left).Range.1
        = min (c2.get left).Range.1 ((c.sourceFile.node ty).Pos - 1) := by
      rw [hfr1, ← hc5L]
      rfl
    have hs6len : ((c5.setProperty left "TypeAnnotation"
        (Value.node c4.heap.length)).fixParentLocation left c4.heap.length).heap.length
        = c4.heap.length + 1 := by
      simp [hlen5]
    have hs6sf : ((c5.setProperty left "TypeAnnotation"
        (Value.node c4.heap.length)).fixParentLocation left c4.heap.length).sourceFile
        = c.sourceFile := by
      simp [hsf5, hsf4]
    by_cases hm : (getModifiers c.sourceFile node).isSome
    · rw [if_pos hm] at hrun
      obtain ⟨c', hcreate, _, hcsf, hct, hcf, hcr, hcold⟩ := createNode_run node
        (parameterPropertyOf c.sourceFile node (some c2.heap.length))
        ((c5.setProperty left "TypeAnnotation" (Value.node c4.heap.length)).fixParentLocation
          left c4.heap.length)
      have hc' : c' = ((((c5.setProperty left "TypeAnnotation"
          (Value.node c4.heap.length)).fixParentLocation left c4.heap.length).new
          (parameterPropertyOf c.sourceFile node (some c2.heap.length))).2.createNode node
          (((c5.setProperty left "TypeAnnotation"
            (Value.node c4.heap.length)).fixParentLocation left c4.heap.length).new
            (parameterPropertyOf c.sourceFile node (some c2.heap.length))).1).2 := by
        injection hcreate with hcreate
        exact (Prod.mk.inj hcreate).2.symm
      rw [← hc'] at hrun
      have hR : c2.heap.length < ((c5.setProperty left "TypeAnnotation"
          (Value.node c4.heap.length)).fixParentLocation left c4.heap.length).heap.length := by
        rw [hs6len]
        exact Nat.lt_succ_of_lt hlen4
      have hL : left < ((c5.setProperty left "TypeAnnotation"
          (Value.node c4.heap.length)).fixParentLocation left c4.heap.length).heap.length := by
        rw [hs6len]
        exact Nat.lt_succ_of_lt hL4
      refine ⟨_, c', hrun, ?_, ?_, ?_, ?_, ?_, ?_, ?_, ?_, ?_⟩
      · rw [hcold _ hR, hs6R, hptype]
      · rw [hcold _ hR, hs6R, hfl]
      · rw [hcold _ hR, hs6R, hfr]
      · rw [hcold _ hR, hs6R, hprange]
      · rw [hcold _ hR, hs6R, hploc]
      · rw [hcold _ hL, hs6T]
      · rw [hcold _ hL, hs6S]
      · intro hno
        rw [hm] at hno
        cases hno
      · intro _
        refine ⟨hs6len, ?_, ?_, ?_⟩
        · rw [hct]
          rfl
        · rw [hcf]
          rfl
        · rw [hcr, hs6sf]
          rfl
    · rw [if_neg hm] at hrun
      refine ⟨_, _, hrun, ?_, ?_, ?_, ?_, ?_, hs6T, hs6S, fun _ => rfl, ?_⟩
      · rw [hs6R, hptype]
      · rw [hs6R, hfl]
      · rw [hs6R, hfr]
      · rw [hs6R, hprange]
      · rw [hs6R, hploc]
      · intro hyes
        exact absurd hyes hm

set_option maxHeartbeats 1000000 in
/-- C36 on `private x = y` and on `private x: any = y`, the parameters at `[22, 35]` and
`[22, 40]` with the name `x` at `[30, 31]`: what is returned is the `TSParameterProperty`
with the `Range` of the parameter; the `AssignmentPattern`, at pointer 2, has the `Range`
`[30, 35]`, and `[30, 40]` with the type; the name, at pointer 0, is widened over the
annotation to `[30, 36]`, which starts where the name starts. -/
theorem parameter_pattern_range_witness :
    (∃ c', convertParameter (converterRec 4) 1 (some 0) (converter.init parameterProperty)
          = Except.ok (some 3, c')
      ∧ (c'.get 2).Type_ = ESTreeKind.AssignmentPattern
      ∧ (c'.get 2).field "Left" = Value.node 0
      ∧ (c'.get 2).Range = (30, 35)
      ∧ (c'.get 0).Range = (30, 31)
      ∧ (c'.get 3).Type_ = ESTreeKind.TSParameterProperty
      ∧ (c'.get 3).field "Parameter" = Value.node 2
      ∧ (c'.get 3).Range = (22, 35))
    ∧ (∃ c', convertParameter (converterRec 4) 1 (some 0)
          (converter.init typedParameterProperty) = Except.ok (some 5, c')
      ∧ (c'.get 2).Type_ = ESTreeKind.AssignmentPattern
      ∧ (c'.get 2).field "Left" = Value.node 0
      ∧ (c'.get 2).Range = (30, 40)
      ∧ (c'.get 0).field "TypeAnnotation" = Value.node 4
      ∧ (c'.get 0).Range.1 = 30
      ∧ (c'.get 5).Type_ = ESTreeKind.TSParameterProperty
      ∧ (c'.get 5).field "Parameter" = Value.node 2
      ∧ (c'.get 5).Range = (22, 40)) := by
  constructor
  · have hleft := run_eq_of_valueOf (converterRec 4 (some 3) none false)
      (converter.init parameterProperty) (some 0) (by decide!)
    have hright := run_eq_of_valueOf (converterRec 4 (some 4) none false)
      (stateAfter (converterRec 4 (some 3) none false) (converter.init parameterProperty))
      (some 1) (by decide!)
    have hsf1 := (converterRec_frame 4 _ _ _ _ _ _ (by decide) hleft).1
    have hsf2 := (converterRec_frame 4 _ _ _ _ _ _ (by rw [hsf1]; decide) hright).1
    have hlen : (stateAfter (converterRec 4 (some 4) none false)
        (stateAfter (converterRec 4 (some 3) none false)
          (converter.init parameterProperty))).heap.length = 2 := by decide!
    have hget : ((stateAfter (converterRec 4 (some 4) none false)
        (stateAfter (converterRec 4 (some 3) none false)
          (converter.init parameterProperty))).get 0).Range = (30, 31) := by decide!
    obtain ⟨r, c', hrun, ht, hl, _, hrange, _, hkeep, _, hprop⟩ :=
      (parameter_pattern_range (converterRec 4) (converter.init parameterProperty) _ _
        1 3 4 (some 0) [2] 0 (some 1) rfl rfl rfl rfl rfl rfl hleft hright
        (by rw [hlen]; decide) (hsf2.trans hsf1)).1 rfl
    obtain ⟨hr, hpt, hpp, hpr⟩ := hprop (by decide)
    rw [hlen] at ht hl hrange hr hpp
    subst hr
    rw [hget] at hrange
    exact ⟨c', hrun, ht, hl, hrange.trans (by decide!),
      (congrArg ESTreeNode.Range hkeep).trans hget, hpt, hpp, hpr.trans (by decide!)⟩
  · have hleft := run_eq_of_valueOf (converterRec 4 (some 3) none false)
      (converter.init typedParameterProperty) (some 0) (by decide!)
    have hright := run_eq_of_valueOf (converterRec 4 (some 4) none false)
      (stateAfter (converterRec 4 (some 3) none false)
        (converter.init typedParameterProperty)) (some 1) (by decide!)
    have hsf1 := (converterRec_frame 4 _ _ _ _ _ _ (by decide) hleft).1
    have hsf2 := (converterRec_frame 4 _ _ _ _ _ _ (by rw [hsf1]; decide) hright).1
    have hlen : (stateAfter (converterRec 4 (some 4) none false)
        (stateAfter (converterRec 4 (some 3) none false)
          (converter.init typedParameterProperty))).heap.length = 2 := by decide!
    have hget : ((stateAfter (converterRec 4 (some 4) none false)
        (stateAfter (converterRec 4 (some 3) none false)
          (converter.init typedParameterProperty))).get 0).Range = (30, 31) := by decide!
    have hty := run_eq_of_valueOf (converterRec 4 (some 5) none false)
      (patternBuilt (stateAfter (converterRec 4 (some 4) none false)
        (stateAfter (converterRec 4 (some 3) none false)
          (converter.init typedParameterProperty))) 1 0 (some 1)) (some 3) (by decide!)
    have hpsf := (patternBuilt_spec (stateAfter (converterRec 4 (some 4) none false)
        (stateAfter (converterRec 4 (some 3) none false)
          (converter.init typedParameterProperty))) 1 0 (some 1) (by rw [hlen]; decide)).2.1
    have hsf4 := (converterRec_frame 4 _ _ _ _ _ _
      (by rw [hpsf, hsf2, hsf1]; decide) hty).1
    have hlen4 : (stateAfter (converterRec 4 (some 5) none false)
      (patternBuilt (stateAfter (converterRec 4 (some 4) none false)
        (stateAfter (converterRec 4 (some 3) none false)
          (converter.init typedParameterProperty))) 1 0 (some 1))).heap.length = 4 := by
      decide!
    obtain ⟨r, c', hrun, ht, hl, _, hrange, _, hta, hstart, _, hprop⟩ :=
      (parameter_pattern_range (converterRec 4) (converter.init typedParameterProperty) _ _
        1 3 4 (some 0) [2] 0 (some 1) rfl rfl rfl rfl rfl rfl hleft hright
        (by rw [hlen]; decide) (hsf2.trans hsf1)).2 5 (some 3) _ rfl hty
        (by rw [hlen, hlen4]; decide) (by decide!) (by decide!)
        (hsf4.trans (hpsf.trans (hsf2.trans hsf1)))
    obtain ⟨hr, hpt, hpp, hpr⟩ := hprop (by decide)
    rw [hlen] at ht hl hrange hpp
    rw [hlen4] at hta hr
    subst hr
    rw [hget] at hrange hstart
    exact ⟨c', hrun, ht, hl, hrange.trans (by decide!), hta, hstart.trans (by decide!), hpt,
      hpp, hpr.trans (by decide!)⟩

end estree

/-! ## Positions and the shebang rewrite: C37, C38 -/

namespace eslint_compat

open estree

/-- C37: the position arithmetic of the report callback is total and bounded. For a line
map that is not empty and all integers `line` and `column`, the index
`min(max(line-1, 0), len(lineMap)-1)` lies in `[0, len(lineMap) - 1]`, the read of the line
map at it does not panic, and the offset computed lies in `[0, len(file.Text)]`; so both
ends of the `Range` of every diagnostic do. Sums and differences are those of Go `int`,
cut to 64 bits. -/
theorem position_bounded (file : ast.SourceFile) (line column : Int)
    (hmap : file.LineMap ≠ []) :
    0 ≤ min (max (wrapInt (line - 1)) 0) ((file.LineMap.length : Int) - 1)
    ∧ min (max (wrapInt (line - 1)) 0) ((file.LineMap.length : Int) - 1)
        ≤ (file.LineMap.length : Int) - 1
    ∧ (∃ start p,
        lineStart file.LineMap
            (min (max (wrapInt (line - 1)) 0) ((file.LineMap.length : Int) - 1))
          = Except.ok start
        ∧ positionOf file line column = Except.ok p
        ∧ p = min (max (wrapInt (wrapInt (start + column) - 1)) 0) (byteLen file.Text.data)
        ∧ 0 ≤ p ∧ p ≤ byteLen file.Text.data)
    ∧ (∀ (filePtr : FilePtr) (r : Report), ∃ d, reportDiagnostic filePtr file r = Except.ok d
        ∧ 0 ≤ d.Range.1 ∧ d.Range.1 ≤ byteLen file.Text.data
        ∧ 0 ≤ d.Range.2 ∧ d.Range.2 ≤ byteLen file.Text.data) := by
  have hlen : 0 < file.LineMap.length := List.length_pos.mpr hmap
  have key : ∀ (line column : Int), ∃ start p,
      lineStart file.LineMap
          (min (max (wrapInt (line - 1)) 0) ((file.LineMap.length : Int) - 1))
        = Except.ok start
      ∧ positionOf file line column = Except.ok p
      ∧ p = min (max (wrapInt (wrapInt (start + column) - 1)) 0) (byteLen file.Text.data)
      ∧ 0 ≤ p ∧ p ≤ byteLen file.Text.data := by
    intro line column
    have h0 : (0 : Int) ≤ min (max (wrapInt (line - 1)) 0) ((file.LineMap.length : Int) - 1) := by
      apply le_min
      · exact le_max_right _ _
      · omega
    have hlt : (min (max (wrapInt (line - 1)) 0) ((file.LineMap.length : Int) - 1)).toNat
        < file.LineMap.length := by
      have : min (max (wrapInt (line - 1)) 0) ((file.LineMap.length : Int) - 1)
          ≤ (file.LineMap.length : Int) - 1 := min_le_right _ _
      omega
    obtain ⟨start, hstart⟩ : ∃ start, file.LineMap.get?
        (min (max (wrapInt (line - 1)) 0) ((file.LineMap.length : Int) - 1)).toNat
          = some start :=
      ⟨_, List.get?_eq_get hlt⟩
    refine ⟨start, min (max (wrapInt (wrapInt (start + column) - 1)) 0)
      (byteLen file.Text.data), ?_, ?_, rfl, ?_, min_le_right _ _⟩
    · simp only [lineStart, h0, if_true, hstart]
      rfl
    · simp only [positionOf, lineStart, h0, if_true, hstart, bind, Except.bind, pure,
        Except.pure]
    · apply le_min
      · exact le_max_right _ _
      · exact Int.ofNat_nonneg _
  refine ⟨?_, min_le_right _ _, key line column, ?_⟩
  · apply le_min
    · exact le_max_right _ _
    · omega
  · intro filePtr r
    obtain ⟨_, p1, _, hp1, _, h1lo, h1hi⟩ := key r.line r.column
    obtain ⟨_, p2, _, hp2, _, h2lo, h2hi⟩ := key r.endLine r.endColumn
    have hrun : reportDiagnostic filePtr file r
        = Except.ok
            (if r.suggestions.length ≠ 0 then
              { (if r.fixRangeStart ≠ -1 then
                  { ({ RuleName := r.ruleId, Range := (p1, p2)
                       Message := { Id := r.messageId, Description := r.messageDescription }
                       SourceFile := filePtr } : RuleDiagnostic) with
                    FixesPtr := some [{ Text := r.fixText
                                        Range := (r.fixRangeStart, r.fixRangeEnd) }] }
                else
                  { RuleName := r.ruleId, Range := (p1, p2)
                    Message := { Id := r.messageId, Description := r.messageDescription }
                    SourceFile := filePtr }) with
                Suggestions := some r.suggestions }
            else
              (if r.fixRangeStart ≠ -1 then
                  { ({ RuleName := r.ruleId, Range := (p1, p2)
                       Message := { Id := r.messageId, Description := r.messageDescription }
                       SourceFile := filePtr } : RuleDiagnostic) with
                    FixesPtr := some [{ Text := r.fixText
                                        Range := (r.fixRangeStart, r.fixRangeEnd) }] }
                else
                  { RuleName := r.ruleId, Range := (p1, p2)
                    Message := { Id := r.messageId, Description := r.messageDescription }
                    SourceFile := filePtr })) := by
      simp only [reportDiagnostic, hp1, hp2, bind, Except.bind, pure, Except.pure]
    refine ⟨_, hrun, ?_⟩
    by_cases hf : r.fixRangeStart = -1 <;> by_cases hsg : r.suggestions.length = 0 <;>
      simp [hf, hsg, h1lo, h1hi, h2lo, h2hi]

/-- C37 on the file `ab`, line break, `cd`, of 5 bytes and 2 lines, for the least and the
greatest `int`: line `-2^63` is taken as the last line, which starts at 3, and with the
column `2^63 - 1` the sum leaves the range of `int` and comes out negative, so the offset
is 0; line 1 with the column `2^63 - 1` gives the offset 5, the end of the text. -/
theorem position_bounded_witness :
    twoLines.LineMap ≠ []
    ∧ byteLen twoLines.Text.data = 5
    ∧ (positionOf twoLines (-9223372036854775808) 9223372036854775807).toOption = some 0
    ∧ (positionOf twoLines 1 9223372036854775807).toOption = some 5
    ∧ (∃ d, reportDiagnostic 7 twoLines
          { ruleId := "r", line := -9223372036854775808, column := 9223372036854775807
            endLine := 1, endColumn := 9223372036854775807
            messageId := "m", messageDescription := "d", fixText := ""
            fixRangeStart := -1, fixRangeEnd := -1 } = Except.ok d
        ∧ 0 ≤ d.Range.1 ∧ d.Range.1 ≤ byteLen twoLines.Text.data
        ∧ 0 ≤ d.Range.2 ∧ d.Range.2 ≤ byteLen twoLines.Text.data) :=
  ⟨by decide, by decide!, by decide!, by decide!,
    (position_bounded twoLines 0 0 (by decide)).2.2.2 7 _⟩

end eslint_compat

namespace eslint_compat

open estree

/-- The text handed to the script for the comments of the token extractor. -/
theorem lintText_of_comments (c : converter) (fuel : Nat) (tokens : List Token)
    (comments : List Comment) (h : parseTokens c fuel = Except.ok (tokens, comments)) :
    (∀ rest, c.sourceFile.Text.data = '#' :: '!' :: rest →
        (∃ first more, comments = first :: more ∧ first.Type_ = ESTreeTokenType.Shebang
          ∧ first.Range.1 = 2)
        ∧ lintText c.sourceFile comments = Except.ok (String.mk ('/' :: '/' :: rest)))
    ∧ ((∀ rest, c.sourceFile.Text.data ≠ '#' :: '!' :: rest) →
        (∀ x ∈ comments, x.Type_ ≠ ESTreeTokenType.Shebang)
        ∧ lintText c.sourceFile comments = Except.ok c.sourceFile.Text) := by
  unfold parseTokens at h
  obtain ⟨collected, hcollect, h⟩ := except_bind_ok _ _ _ h
  obtain ⟨tsTokens, comments'⟩ := collected
  simp only [] at h
  obtain ⟨ts, _, h⟩ := except_bind_ok _ _ _ h
  cases h
  obtain ⟨first, pos, hfirst, more, hmore, hno⟩ := collectTokens_comments c fuel _ _ hcollect
  constructor
  · intro rest htext
    rw [collectShebang_some c rest htext] at hfirst
    cases hfirst
    have hall : rest.takeWhile (fun ch => !IsLineBreak ch) ++ rest.dropWhile
        (fun ch => !IsLineBreak ch) = rest := List.takeWhile_append_dropWhile _ _
    have hslice := sliceText_shebang c.sourceFile.Text rest [] (by rw [htext, List.append_nil])
    have hlen : (byteLen c.sourceFile.Text.data : Int) = ((2 + byteLen rest : Nat) : Int) := by
      rw [htext]
      have e1 : Char.utf8Size '#' = 1 := rfl
      have e2 : Char.utf8Size '!' = 1 := rfl
      simp only [byteLen, List.map_cons, List.sum_cons, e1, e2]
      congr 1
      omega
    refine ⟨⟨_, more, hmore, rfl, rfl⟩, ?_⟩
    rw [hmore]
    simp only [lintText, List.cons_append, List.nil_append, if_true, hlen, hslice]
    rfl
  · intro htext
    rw [collectShebang_none c htext] at hfirst
    cases hfirst
    rw [List.nil_append] at hmore
    subst hmore
    refine ⟨hno, ?_⟩
    cases comments with
    | nil => rfl
    | cons x xs =>
      have hx := hno x (List.mem_cons_self _ _)
      simp only [lintText, hx, if_false]
      rfl

/-- Go `LintFile` from the call of the script on (lines 72-112): with the conversion and the
token extraction returned and `text` the text for the script, the script is called on
`text` and the converted tree, and what it reports and returns is the outcome. -/
theorem LintFile_calls (vm : Runtime) (filePtr : FilePtr) (file : ast.SourceFile) (fuel : Nat)
    (program : Option Ptr) (c : converter) (tokens : List Token) (comments : List Comment)
    (text : String) (hrun : vm.hasRun = true)
    (hconv : ConvertSourceFileToESTree fuel file = Except.ok (program, c))
    (htokens : parseTokens c fuel = Except.ok (tokens, comments))
    (htext : lintText file comments = Except.ok text) :
    LintFile vm filePtr file fuel
      = ((runReports filePtr file (vm.run text program c).1 []).1,
          match (runReports filePtr file (vm.run text program c).1 []).2 with
          | some p => Except.error p
          | none => Except.ok (vm.run text program c).2) := by
  unfold LintFile
  rw [if_neg (by rw [hrun]; decide)]
  simp only [hconv, htokens, htext]
  rcases hr : runReports filePtr file (vm.run text program c).1 [] with ⟨trace, _ | p⟩ <;> rfl

/-- C38: offsets survive the shebang rewrite. For a file whose conversion and token
extraction return: when the text starts with `#!`, the first comment of the Program is the
`Shebang` entry, which starts at offset 2, and `LintFile` calls the script, whichever it
is, on `//` followed by the text of the file from offset 2 on, which has the same length in
bytes, and on the converted tree; what `LintFile` does and returns is what that call
reports and returns. When the text does not start with `#!`, no comment is a `Shebang` and
the script is called on the text of the file as it is. -/
theorem shebang_rewrite (file : ast.SourceFile) (fuel : Nat) (program : Option Ptr)
    (c : converter) (tokens : List Token) (comments : List Comment)
    (hwf : file.jsxNamesOk = true)
    (hconv : ConvertSourceFileToESTree fuel file = Except.ok (program, c))
    (htokens : parseTokens c fuel = Except.ok (tokens, comments)) :
    (∀ rest, file.Text.data = '#' :: '!' :: rest →
        (∃ first more, comments = first :: more ∧ first.Type_ = ESTreeTokenType.Shebang
          ∧ first.Range.1 = 2)
        ∧ lintText file comments = Except.ok (String.mk ('/' :: '/' :: rest))
        ∧ byteLen ('/' :: '/' :: rest) = byteLen file.Text.data
        ∧ ('/' :: '/' :: rest).drop 2 = file.Text.data.drop 2
        ∧ ∀ (vm : Runtime) (filePtr : FilePtr), vm.hasRun = true →
            LintFile vm filePtr file fuel
              = ((runReports filePtr file
                    (vm.run (String.mk ('/' :: '/' :: rest)) program c).1 []).1,
                  match (runReports filePtr file
                    (vm.run (String.mk ('/' :: '/' :: rest)) program c).1 []).2 with
                  | some p => Except.error p
                  | none => Except.ok (vm.run (String.mk ('/' :: '/' :: rest)) program c).2))
    ∧ ((∀ rest, file.Text.data ≠ '#' :: '!' :: rest) →
        (∀ x ∈ comments, x.Type_ ≠ ESTreeTokenType.Shebang)
        ∧ lintText file comments = Except.ok file.Text
        ∧ ∀ (vm : Runtime) (filePtr : FilePtr), vm.hasRun = true →
            LintFile vm filePtr file fuel
              = ((runReports filePtr file (vm.run file.Text program c).1 []).1,
                  match (runReports filePtr file (vm.run file.Text program c).1 []).2 with
                  | some p => Except.error p
                  | none => Except.ok (vm.run file.Text program c).2)) := by
  have hfile : c.sourceFile = file :=
    star_sourceFile (ConvertSourceFileToESTree_reachable fuel file hwf program c hconv)
  have key := lintText_of_comments c fuel tokens comments htokens
  rw [hfile] at key
  constructor
  · intro rest htext
    refine ⟨(key.1 rest htext).1, (key.1 rest htext).2, ?_, ?_, ?_⟩
    · rw [htext]
      rfl
    · rw [htext]
      rfl
    · intro vm filePtr hrun
      exact LintFile_calls vm filePtr file fuel program c tokens comments _ hrun hconv
        htokens (key.1 rest htext).2
  · intro htext
    refine ⟨(key.2 htext).1, (key.2 htext).2, ?_⟩
    intro vm filePtr hrun
    exact LintFile_calls vm filePtr file fuel program c tokens comments _ hrun hconv
      htokens (key.2 htext).2

/-- C38 on the file of the one line `#!/x`: the conversion and the token extraction return,
and the script that returns the text it is called on as its error makes `LintFile` return
`///x` with the line break. -/
theorem shebang_rewrite_witness :
    (∃ program c tokens comments,
      ConvertSourceFileToESTree 4 shebangOnly = Except.ok (program, c)
      ∧ parseTokens c 4 = Except.ok (tokens, comments)
      ∧ lintText shebangOnly comments = Except.ok "///x\n")
    ∧ LintFile echoRuntime 7 shebangOnly 4 = ([], Except.ok (some "///x\n")) := by
  have hobs : observe (ConvertSourceFileToESTree 4 shebangOnly)
      (fun _ c => (parseTokens c 4).toOption.isSome) = some true := by decide!
  cases hconv : ConvertSourceFileToESTree 4 shebangOnly with
  | error e =>
    rw [hconv] at hobs
    cases hobs
  | ok r =>
    obtain ⟨program, c⟩ := r
    rw [hconv] at hobs
    simp only [observe, Option.some.injEq] at hobs
    cases htok : parseTokens c 4 with
    | error e =>
      rw [htok] at hobs
      cases hobs
    | ok tc =>
      obtain ⟨tokens, comments⟩ := tc
      have key := (shebang_rewrite shebangOnly 4 program c tokens comments (by decide) hconv
        htok).1 ['/', 'x', '\n'] rfl
      refine ⟨⟨program, c, tokens, comments, rfl, htok, key.2.1⟩, ?_⟩
      rw [key.2.2.2.2 echoRuntime 7 rfl]
      rfl

end eslint_compat

/-! ## Regular expressions and commas: C39, C40 -/

namespace estree

/-- No character of `pre` starts in a range of offsets that begins after `pre`. -/
theorem charsBetween_skip (pre rest : List Char) : ∀ (off hi : Nat),
    charsBetween (pre ++ rest) off (off + byteLen pre) hi
      = charsBetween rest (off + byteLen pre) (off + byteLen pre) hi := by
  induction pre with
  | nil =>
    intro off hi
    simp [byteLen]
  | cons ch more ih =>
    intro off hi
    have hpos := Char.utf8Size_pos ch
    have hlen : byteLen (ch :: more) = ch.utf8Size + byteLen more := by
      simp [byteLen]
    have hn : ¬(off + byteLen (ch :: more) ≤ off ∧ off < hi) := by
      rw [hlen]
      omega
    have hoff : off + byteLen (ch :: more) = (off + ch.utf8Size) + byteLen more := by
      rw [hlen]
      omega
    simp only [List.cons_append, charsBetween, hn, if_false]
    rw [hoff]
    exact ih (off + ch.utf8Size) hi

/-- A text without `/` has no last `/`. -/
theorem lastSlash_none (s : List Char) (h : '/' ∉ s) : ∀ (off : Nat),
    lastSlash s off = none := by
  induction s with
  | nil =>
    intro off
    rfl
  | cons ch rest ih =>
    intro off
    have hch : ch ≠ '/' := fun hc => h (by rw [hc]; exact List.mem_cons_self _ _)
    have hrest : '/' ∉ rest := fun hc => h (List.mem_cons_of_mem _ hc)
    simp only [lastSlash, ih hrest, hch, if_false]

/-- The last `/` of a text is the `/` in front of a rest that has none. -/
theorem lastSlash_append (pre flags : List Char) (h : '/' ∉ flags) : ∀ (off : Nat),
    lastSlash (pre ++ '/' :: flags) off = some (off + byteLen pre) := by
  induction pre with
  | nil =>
    intro off
    simp only [List.nil_append, lastSlash, lastSlash_none flags h, if_true, byteLen,
      List.map_nil, List.sum_nil, Nat.add_zero]
  | cons ch more ih =>
    intro off
    have hlen : byteLen (ch :: more) = ch.utf8Size + byteLen more := by
      simp [byteLen]
    have hih := ih (off + ch.utf8Size)
    show lastSlash (ch :: (more ++ '/' :: flags)) off = _
    rw [lastSlash, hih, hlen, Nat.add_assoc]

/-- The slice expression of the token extractor is the slice expression of the converter. -/
theorem sliceText_eq_sliceOf (s : String) (lo hi : Int) :
    sliceText s lo hi
      = (match sliceOf s lo hi with
        | some x => Except.ok x
        | none => Except.error TokenPanic.sliceBounds) := by
  unfold sliceText sliceOf
  split_ifs <;> rfl

/-- The split of a regular expression literal at its last `/`: of the text `/`, pattern,
`/`, flags, the flags holding no `/`, the parts are the pattern and the flags. -/
theorem regexParts_split (pattern flags : String) (h : '/' ∉ flags.data) :
    lastSlash ("/" ++ pattern ++ "/" ++ flags).data 0 = some (1 + byteLen pattern.data)
    ∧ sliceOf ("/" ++ pattern ++ "/" ++ flags) 1 ((1 + byteLen pattern.data : Nat) : Int)
        = some pattern
    ∧ sliceOf ("/" ++ pattern ++ "/" ++ flags) (((1 + byteLen pattern.data : Nat) : Int) + 1)
        (byteLen ("/" ++ pattern ++ "/" ++ flags).data) = some flags
    ∧ regexParts ("/" ++ pattern ++ "/" ++ flags) = some (pattern, flags) := by
  have hdata : ("/" ++ pattern ++ "/" ++ flags).data
      = ('/' :: pattern.data) ++ '/' :: flags.data := by
    simp only [String.data_append, List.append_assoc]
    rfl
  have e1 : Char.utf8Size '/' = 1 := rfl
  have hpre : byteLen ('/' :: pattern.data) = 1 + byteLen pattern.data := by
    simp [byteLen, e1]
  have hlast : lastSlash ("/" ++ pattern ++ "/" ++ flags).data 0
      = some (1 + byteLen pattern.data) := by
    rw [hdata, lastSlash_append _ _ h 0, hpre, Nat.zero_add]
  have hlen : byteLen ("/" ++ pattern ++ "/" ++ flags).data
      = 1 + byteLen pattern.data + 1 + byteLen flags.data := by
    rw [hdata, byteLen_append, hpre]
    simp only [byteLen, List.map_cons, List.sum_cons, e1]
    omega
  have hp : charsBetween ("/" ++ pattern ++ "/" ++ flags).data 0 1
      (1 + byteLen pattern.data) = pattern.data := by
    rw [hdata]
    have h1 := charsBetween_skip ['/'] (pattern.data ++ '/' :: flags.data) 0
      (1 + byteLen pattern.data)
    have hb : byteLen ['/'] = 1 := rfl
    rw [hb] at h1
    simp only [Nat.zero_add, List.cons_append, List.nil_append] at h1 ⊢
    rw [h1]
    exact charsBetween_prefix pattern.data ('/' :: flags.data) 1 1 (Nat.le_refl _)
  have hf : charsBetween ("/" ++ pattern ++ "/" ++ flags).data 0
      (1 + byteLen pattern.data + 1) (1 + byteLen pattern.data + 1 + byteLen flags.data)
      = flags.data := by
    have hsplit : ("/" ++ pattern ++ "/" ++ flags).data
        = ('/' :: pattern.data ++ ['/']) ++ flags.data := by
      rw [hdata]
      simp
    have hb : byteLen ('/' :: pattern.data ++ ['/']) = 1 + byteLen pattern.data + 1 := by
      simp only [byteLen, List.map_cons, List.map_append, List.sum_cons, List.sum_append,
        List.map_nil, List.sum_nil, e1]
      omega
    rw [hsplit]
    have h1 := charsBetween_skip ('/' :: pattern.data ++ ['/']) flags.data 0
      (1 + byteLen pattern.data + 1 + byteLen flags.data)
    rw [hb, Nat.zero_add] at h1
    rw [h1]
    have h2 := charsBetween_prefix flags.data [] (1 + byteLen pattern.data + 1)
      (1 + byteLen pattern.data + 1) (Nat.le_refl _)
    rw [List.append_nil] at h2
    exact h2
  have hs1 : sliceOf ("/" ++ pattern ++ "/" ++ flags) 1 ((1 + byteLen pattern.data : Nat) : Int)
      = some pattern := by
    have hc : (0 : Int) ≤ 1 ∧ (1 : Int) ≤ ((1 + byteLen pattern.data : Nat) : Int)
        ∧ ((1 + byteLen pattern.data : Nat) : Int)
          ≤ (byteLen ("/" ++ pattern ++ "/" ++ flags).data : Int) := by
      rw [hlen]
      refine ⟨by decide, ?_, ?_⟩ <;> omega
    have ht : (1 : Int).toNat = 1 := rfl
    simp only [sliceOf, hc, and_self, if_true, Int.toNat_ofNat, ht, hp]
  have hs2 : sliceOf ("/" ++ pattern ++ "/" ++ flags)
      (((1 + byteLen pattern.data : Nat) : Int) + 1)
      (byteLen ("/" ++ pattern ++ "/" ++ flags).data) = some flags := by
    have hc : (0 : Int) ≤ ((1 + byteLen pattern.data : Nat) : Int) + 1
        ∧ ((1 + byteLen pattern.data : Nat) : Int) + 1
          ≤ (byteLen ("/" ++ pattern ++ "/" ++ flags).data : Int)
        ∧ (byteLen ("/" ++ pattern ++ "/" ++ flags).data : Int)
          ≤ (byteLen ("/" ++ pattern ++ "/" ++ flags).data : Int) := by
      rw [hlen]
      refine ⟨?_, ?_, le_refl _⟩ <;> omega
    have ht : (((1 + byteLen pattern.data : Nat) : Int) + 1).toNat
        = 1 + byteLen pattern.data + 1 := by omega
    simp only [sliceOf, hc, and_self, if_true, Int.toNat_ofNat, ht]
    rw [hlen, hf]
  refine ⟨hlast, hs1, hs2, ?_⟩
  simp only [regexParts, hlast, hs1, hs2]

/-- C39: regular-expression splitting round-trips. For the text `/`, pattern, `/`, flags of
a regular expression literal, the flags holding no `/`, the split is made at the last `/`
of the text, and both the `RegExpLiteral` of case `KindRegularExpressionLiteral` and the
`RegularExpressionToken` of `parseTokens` get the pattern as `Regex.Pattern` and the flags
as `Regex.Flags`, beside the text as `Raw` and as `Value`. -/
theorem regex_split (pattern flags : String) (hflags : '/' ∉ flags.data) :
    lastSlash ("/" ++ pattern ++ "/" ++ flags).data 0 = some (1 + byteLen pattern.data)
    ∧ (∀ (conv : Conv) (c : converter) (node : ast.NodePtr) (parent : Option ast.NodePtr),
      (c.sourceFile.node node).Kind = ast.Kind.RegularExpressionLiteral →
      (c.sourceFile.node node).Text = "/" ++ pattern ++ "/" ++ flags →
      ∃ c', convertNodeF conv node parent c = Except.ok (some c.heap.length, c')
        ∧ (c'.get c.heap.length).Type_ = ESTreeKind.Literal
        ∧ (c'.get c.heap.length).field "Raw" = Value.str ("/" ++ pattern ++ "/" ++ flags)
        ∧ (c'.get c.heap.length).field "Regex.Pattern" = Value.str pattern
        ∧ (c'.get c.heap.length).field "Regex.Flags" = Value.str flags)
    ∧ (∀ (c : converter) (token : tsToken),
      sliceText c.sourceFile.Text token.loc.1 token.loc.2
        = Except.ok ("/" ++ pattern ++ "/" ++ flags) →
      getTokenType c.sourceFile token ("/" ++ pattern ++ "/" ++ flags)
        = Except.ok ESTreeTokenType.RegularExpression →
      tokenOf c token
        = Except.ok { Type_ := ESTreeTokenType.RegularExpression
                      Value := "/" ++ pattern ++ "/" ++ flags
                      Range := (token.loc.1, token.loc.2)
                      Loc := c.getLocFor (token.loc.1, token.loc.2)
                      Regex := some (pattern, flags) }) := by
  obtain ⟨hlast, hs1, hs2, hparts⟩ := regexParts_split pattern flags hflags
  refine ⟨hlast, ?_, ?_⟩
  · intro conv c node parent hkind htext
    obtain ⟨c', h, _, ht, hf, _⟩ := createNode_pure_run node
      { Type_ := ESTreeKind.Literal
        Fields := [("Raw", Value.str ("/" ++ pattern ++ "/" ++ flags)),
                   ("Regex.Flags", Value.str flags), ("Regex.Pattern", Value.str pattern),
                   ("Value", Value.null)] } c
    refine ⟨c', ?_, by rw [ht], by rw [hf]; rfl, by rw [hf]; rfl, by rw [hf]; rfl⟩
    rw [← h]
    simp only [convertNodeF, bind, StateT.bind, get, getThe, MonadStateOf.get, StateT.get,
      Except.bind, pure, StateT.pure, Except.pure, hkind, htext, hparts]
  · intro c token hslice htype
    have h1 : sliceText ("/" ++ pattern ++ "/" ++ flags) 1
        ((1 + byteLen pattern.data : Nat) : Int) = Except.ok pattern := by
      rw [sliceText_eq_sliceOf, hs1]
    have h2 : sliceText ("/" ++ pattern ++ "/" ++ flags)
        (((1 + byteLen pattern.data : Nat) : Int) + 1)
        (byteLen ("/" ++ pattern ++ "/" ++ flags).data) = Except.ok flags := by
      rw [sliceText_eq_sliceOf, hs2]
    simp only [tokenOf, hslice, htype, hlast, h1, h2, bind, Except.bind, pure, Except.pure]

/-- C39 on `/[/]x/gi`, whose pattern holds a `/`: the literal converts to a `Literal` with
the pattern `[/]x` and the flags `gi`, and the token at `[0, 8]` is a regular expression
token with the same parts. -/
theorem regex_split_witness :
    (∃ c', convertNodeF (converterRec 2) 2 (some 1) (converter.init regexFile)
          = Except.ok (some 0, c')
      ∧ (c'.get 0).Type_ = ESTreeKind.Literal
      ∧ (c'.get 0).field "Raw" = Value.str "/[/]x/gi"
      ∧ (c'.get 0).field "Regex.Pattern" = Value.str "[/]x"
      ∧ (c'.get 0).field "Regex.Flags" = Value.str "gi")
    ∧ tokenOf (converter.init regexFile)
          { kind := ast.Kind.RegularExpressionLiteral, loc := (0, 8), parent := some 1 }
        = Except.ok { Type_ := ESTreeTokenType.RegularExpression
                      Value := "/[/]x/gi"
                      Range := (0, 8)
                      Loc := (converter.init regexFile).getLocFor (0, 8)
                      Regex := some ("[/]x", "gi") } :=
  ⟨(regex_split "[/]x" "gi" (by decide)).2.1 (converterRec 2) (converter.init regexFile) 2
      (some 1) rfl rfl,
    (regex_split "[/]x" "gi" (by decide)).2.2 (converter.init regexFile)
      { kind := ast.Kind.RegularExpressionLiteral, loc := (0, 8), parent := some 1 }
      (except_eq_of_toOption _ _ (by decide!)) (except_eq_of_toOption _ _ (by decide!))⟩

end estree

namespace estree

/-- What `isComma` says of the native node. -/
theorem ast.SourceFile.isComma_spec (sf : ast.SourceFile) (node l r : ast.NodePtr)
    (h : sf.isComma node l r = true) :
    (sf.node node).Kind = ast.Kind.BinaryExpression
    ∧ (∃ operator, (sf.node node).OperatorToken = some operator
        ∧ (sf.node operator).Kind = ast.Kind.CommaToken)
    ∧ (sf.node node).Left = some l ∧ (sf.node node).Right = some r := by
  unfold ast.SourceFile.isComma at h
  simp only [Bool.and_eq_true, beq_iff_eq] at h
  obtain ⟨⟨⟨hk, hop⟩, hl⟩, hr⟩ := h
  refine ⟨hk, ?_, hl, hr⟩
  cases hot : (sf.node node).OperatorToken with
  | none =>
    rw [hot] at hop
    cases hop
  | some operator =>
    rw [hot] at hop
    exact ⟨operator, rfl, by simpa using hop⟩

/-- The struct built for a comma expression, as `c.converter` leaves it. -/
theorem sequenceBuilt_spec (c : converter) (node : ast.NodePtr) (es : List (Option Ptr))
    (allowPattern : Bool) :
    ((sequenceBuilt c node es allowPattern).get c.heap.length).Type_
        = ESTreeKind.SequenceExpression
    ∧ ((sequenceBuilt c node es allowPattern).get c.heap.length).field "Expressions"
        = Value.list es
    ∧ (sequenceBuilt c node es allowPattern).sourceFile = c.sourceFile := by
  have hget := converter.createNode_new_get c node (sequenceOf es)
  have hfield := converter.createNode_new_field c node (sequenceOf es) "Expressions"
  have hg : ∀ q, (sequenceBuilt c node es allowPattern).get q
      = ((c.new (sequenceOf es)).2.createNode node (c.new (sequenceOf es)).1).2.get q :=
    fun q => converter.register_get _ node (some c.heap.length) q
  refine ⟨?_, ?_, ?_⟩
  · rw [hg, hget.1]
    rfl
  · rw [hg, hfield]
    rfl
  · unfold sequenceBuilt
    simp

/-- Case `KindBinaryExpression` on a comma whose left operand is kept as one expression: its
conversion is no `SequenceExpression`, or the operand is parenthesised. -/
theorem comma_pair_run (conv : Conv) (c c1 c2 : converter) (node l r : ast.NodePtr)
    (parent : Option ast.NodePtr) (left : Ptr) (right : Option Ptr)
    (hnode : c.sourceFile.isComma node l r = true)
    (hleft : conv (some l) none false c = Except.ok (some left, c1))
    (hkeep : (c1.get left).Type_ ≠ ESTreeKind.SequenceExpression
      ∨ (c.sourceFile.node l).Kind = ast.Kind.ParenthesizedExpression)
    (hright : conv (some r) none false c1 = Except.ok (right, c2)) :
    convertNodeF conv node parent c
      = Except.ok (some c2.heap.length,
          ((c2.new (sequenceOf [some left, right])).2.createNode node
            (c2.new (sequenceOf [some left, right])).1).2) := by
  obtain ⟨hk, ⟨operator, hop, hcomma⟩, hl, hr⟩ := c.sourceFile.isComma_spec node l r hnode
  by_cases hseq : (c1.get left).Type_ = ESTreeKind.SequenceExpression
  · have hparen : (c.sourceFile.node l).Kind = ast.Kind.ParenthesizedExpression := by
      cases hkeep with
      | inl h => exact absurd hseq h
      | inr h => exact h
    simp only [convertNodeF, convertBinaryExpression, kindOf, deref, bind, StateT.bind, get,
      getThe, MonadStateOf.get, StateT.get, Except.bind, pure, StateT.pure, Except.pure, hk,
      hop, hcomma, hl, hr, hleft, hright, hseq, hparen, ne_eq, not_true_eq_false, if_true,
      if_false, createNode, converter.fst_new, converter.createNode_fst, sequenceOf,
      List.singleton_append]
  · simp only [convertNodeF, convertBinaryExpression, kindOf, deref, bind, StateT.bind, get,
      getThe, MonadStateOf.get, StateT.get, Except.bind, pure, StateT.pure, Except.pure, hk,
      hop, hcomma, hl, hr, hleft, hright, hseq, if_true, if_false, createNode,
      converter.fst_new, converter.createNode_fst, sequenceOf, List.singleton_append]

/-- Case `KindBinaryExpression` on a comma whose left operand converted to a
`SequenceExpression` and is not parenthesised: the expressions of the left operand are taken
over, and the right operand is put behind them. -/
theorem comma_nest_run (conv : Conv) (c c1 c2 : converter) (node l r : ast.NodePtr)
    (parent : Option ast.NodePtr) (left : Ptr) (es : List (Option Ptr)) (right : Option Ptr)
    (hnode : c.sourceFile.isComma node l r = true)
    (hleft : conv (some l) none false c = Except.ok (some left, c1))
    (hseq : (c1.get left).Type_ = ESTreeKind.SequenceExpression)
    (hes : (c1.get left).field "Expressions" = Value.list es)
    (hparen : (c.sourceFile.node l).Kind ≠ ast.Kind.ParenthesizedExpression)
    (hright : conv (some r) none false c1 = Except.ok (right, c2)) :
    convertNodeF conv node parent c
      = Except.ok (some c2.heap.length,
          ((c2.new (sequenceOf (es ++ [right]))).2.createNode node
            (c2.new (sequenceOf (es ++ [right]))).1).2) := by
  obtain ⟨hk, ⟨operator, hop, hcomma⟩, hl, hr⟩ := c.sourceFile.isComma_spec node l r hnode
  simp only [convertNodeF, convertBinaryExpression, kindOf, deref, bind, StateT.bind, get,
    getThe, MonadStateOf.get, StateT.get, Except.bind, pure, StateT.pure, Except.pure, hk,
    hop, hcomma, hl, hr, hleft, hright, hseq, hes, hparen, ne_eq, not_false_eq_true, if_true,
    if_false, createNode, converter.fst_new, converter.createNode_fst, sequenceOf]

/-- A comma run is the run of a comma expression. -/
theorem CommaRun.kind {fuel : Nat} {node : ast.NodePtr} {c c2 : converter}
    {operands : List ast.NodePtr} {es : List (Option Ptr)}
    (h : CommaRun fuel node c operands es c2) :
    (c.sourceFile.node node).Kind = ast.Kind.BinaryExpression := by
  induction h with
  | pair fuel node l r c c1 c2 left right hnode hleft hkeep hright =>
    exact (c.sourceFile.isComma_spec node l r hnode).1
  | nest fuel node l r c c1 c2 operands expressions right hnode hinner hright _ =>
    exact (c.sourceFile.isComma_spec node l r hnode).1

/-- The run of `convertNode` on a left-nested comma expression whose operands convert as a
comma run says: one `SequenceExpression` is built, after the last operand, and it holds
the conversions of the operands in their order. -/
theorem CommaRun.run {fuel : Nat} {node : ast.NodePtr} {c c2 : converter}
    {operands : List ast.NodePtr} {es : List (Option Ptr)}
    (h : CommaRun fuel node c operands es c2) :
    (∀ parent, convertNode fuel node parent c
      = Except.ok (some c2.heap.length,
          ((c2.new (sequenceOf es)).2.createNode node (c2.new (sequenceOf es)).1).2))
    ∧ es.length = operands.length ∧ 2 ≤ operands.length := by
  induction h with
  | pair fuel node l r c c1 c2 left right hnode hleft hkeep hright =>
    refine ⟨fun parent => ?_, rfl, Nat.le_refl _⟩
    exact comma_pair_run (converterRec fuel) c c1 c2 node l r parent left right hnode hleft
      hkeep hright
  | nest fuel node l r c c1 c2 operands expressions right hnode hinner hright ih =>
    obtain ⟨hrun, hlen, htwo⟩ := ih
    refine ⟨fun parent => ?_, ?_, ?_⟩
    · have hconv : converterRec fuel (some l) none false c
          = Except.ok (some c1.heap.length, sequenceBuilt c1 l expressions c.allowPattern) :=
        converterF_ok (convertNode fuel) c _ l none false (some c1.heap.length) (hrun _)
      obtain ⟨hseq, hes, _⟩ := sequenceBuilt_spec c1 l expressions c.allowPattern
      have hkind : (c.sourceFile.node l).Kind = ast.Kind.BinaryExpression := hinner.kind
      have hparen : (c.sourceFile.node l).Kind ≠ ast.Kind.ParenthesizedExpression := by
        rw [hkind]
        exact fun hc => by cases hc
      exact comma_nest_run (converterRec fuel) c _ c2 node l r parent c1.heap.length
        expressions right hnode hconv hseq hes hparen hright
    · simp [hlen]
    · simp only [List.length_append, List.length_singleton]
      omega

/-- The expressions of a comma run are the conversions of its operands, one for each, in
their order. -/
theorem CommaRun.conversions {fuel : Nat} {node : ast.NodePtr} {c c2 : converter}
    {operands : List ast.NodePtr} {es : List (Option Ptr)}
    (h : CommaRun fuel node c operands es c2) :
    List.Forall₂ (fun operand e => ∃ fuel1 s s2,
      converterRec fuel1 (some operand) none false s = Except.ok (e, s2)) operands es := by
  induction h with
  | pair fuel node l r c c1 c2 left right hnode hleft hkeep hright =>
    exact List.Forall₂.cons ⟨fuel, c, c1, hleft⟩
      (List.Forall₂.cons ⟨fuel, c1, c2, hright⟩ List.Forall₂.nil)
  | nest fuel node l r c c1 c2 operands expressions right hnode hinner hright ih =>
    exact List.rel_append ih (List.Forall₂.cons ⟨fuel, _, c2, hright⟩ List.Forall₂.nil)

/-- C40: comma sequences are flattened. For a left-nested comma expression whose operands,
from the left, convert one after the other as `c.converter` returns them, the leftmost
being no unparenthesised comma expression itself, `convertNode` returns one
`SequenceExpression`, built after the last operand, whose `Expressions` are the conversions
of the operands in source order, as many as there are operands and at least two. A
parenthesised left operand is kept as one expression, whatever it converts to, so the
`SequenceExpression` of `(a, b)` stays one element. -/
theorem comma_flattened :
    (∀ (fuel : Nat) (node : ast.NodePtr) (c c2 : converter) (operands : List ast.NodePtr)
        (es : List (Option Ptr)) (parent : Option ast.NodePtr),
      CommaRun fuel node c operands es c2 →
      ∃ c', convertNode fuel node parent c = Except.ok (some c2.heap.length, c')
        ∧ (c'.get c2.heap.length).Type_ = ESTreeKind.SequenceExpression
        ∧ (c'.get c2.heap.length).field "Expressions" = Value.list es
        ∧ es.length = operands.length ∧ 2 ≤ operands.length
        ∧ List.Forall₂ (fun operand e => ∃ fuel1 s s2,
            converterRec fuel1 (some operand) none false s = Except.ok (e, s2)) operands es)
    ∧ (∀ (conv : Conv) (c c1 c2 : converter) (node l r : ast.NodePtr)
        (parent : Option ast.NodePtr) (left : Ptr) (right : Option Ptr),
      c.sourceFile.isComma node l r = true →
      (c.sourceFile.node l).Kind = ast.Kind.ParenthesizedExpression →
      conv (some l) none false c = Except.ok (some left, c1) →
      conv (some r) none false c1 = Except.ok (right, c2) →
      ∃ c', convertNodeF conv node parent c = Except.ok (some c2.heap.length, c')
        ∧ (c'.get c2.heap.length).Type_ = ESTreeKind.SequenceExpression
        ∧ (c'.get c2.heap.length).field "Expressions" = Value.list [some left, right]) := by
  constructor
  · intro fuel node c c2 operands es parent h
    obtain ⟨hrun, hlen, htwo⟩ := h.run
    refine ⟨_, hrun parent, ?_, ?_, hlen, htwo, h.conversions⟩
    · rw [(converter.createNode_new_get c2 node (sequenceOf es)).1]
      rfl
    · rw [converter.createNode_new_field c2 node (sequenceOf es) "Expressions"]
      rfl
  · intro conv c c1 c2 node l r parent left right hnode hparen hleft hright
    refine ⟨_, comma_pair_run conv c c1 c2 node l r parent left right hnode hleft
      (Or.inr hparen) hright, ?_, ?_⟩
    · rw [(converter.createNode_new_get c2 node (sequenceOf [some left, right])).1]
      rfl
    · rw [converter.createNode_new_field c2 node (sequenceOf [some left, right])
        "Expressions"]
      rfl

set_option maxHeartbeats 1000000 in
/-- C40 on `a, b, c` and on `(a, b), c`: the first converts to the `SequenceExpression` at
pointer 4 of the three identifiers at 0, 1 and 3, the inner sequence at 2 being no element;
the second to the `SequenceExpression` at pointer 4 of the inner sequence at 2 and the
identifier at 3. -/
theorem comma_flattened_witness :
    (∃ c', convertNode 4 2 (some 1) (converter.init threeCommas) = Except.ok (some 4, c')
      ∧ (c'.get 4).Type_ = ESTreeKind.SequenceExpression
      ∧ (c'.get 4).field "Expressions" = Value.list [some 0, some 1, some 3])
    ∧ (∃ c', convertNodeF (converterRec 4) 2 (some 1) (converter.init parenthesisedComma)
          = Except.ok (some 4, c')
      ∧ (c'.get 4).Type_ = ESTreeKind.SequenceExpression
      ∧ (c'.get 4).field "Expressions" = Value.list [some 2, some 3])
    ∧ observe (ConvertSourceFileToESTree 8 threeCommas)
        (fun _ c => ((c.get 0).Type_, (c.get 1).Type_, (c.get 3).Type_, (c.get 2).Type_,
          (c.get 4).field "Expressions"))
      = some (ESTreeKind.Identifier, ESTreeKind.Identifier, ESTreeKind.Identifier,
          ESTreeKind.SequenceExpression, Value.list [some 0, some 1, some 3])
    ∧ observe (ConvertSourceFileToESTree 8 parenthesisedComma)
        (fun _ c => ((c.get 2).Type_, (c.get 2).field "Expressions",
          (c.get 4).field "Expressions"))
      = some (ESTreeKind.SequenceExpression, Value.list [some 0, some 1],
          Value.list [some 2, some 3]) := by
  refine ⟨?_, ?_, by decide!, by decide!⟩
  · have hl := run_eq_of_valueOf (converterRec 2 (some 4) none false)
      { converter.init threeCommas with allowPattern := false } (some 0) (by decide!)
    have hr := run_eq_of_valueOf (converterRec 2 (some 6) none false)
      (stateAfter (converterRec 2 (some 4) none false)
        { converter.init threeCommas with allowPattern := false }) (some 1) (by decide!)
    have hinner : CommaRun 3 3 { converter.init threeCommas with allowPattern := false }
        [4, 6] [some 0, some 1] _ :=
      CommaRun.pair 2 3 4 6 _ _ _ 0 (some 1) (by decide) hl (Or.inl (by decide!)) hr
    have hright := run_eq_of_valueOf (converterRec 3 (some 8) none false)
      (sequenceBuilt (stateAfter (converterRec 2 (some 6) none false)
        (stateAfter (converterRec 2 (some 4) none false)
          { converter.init threeCommas with allowPattern := false })) 3 [some 0, some 1]
        (converter.init threeCommas).allowPattern) (some 3) (by decide!)
    have hrun : CommaRun 4 2 (converter.init threeCommas) ([4, 6] ++ [8])
        ([some 0, some 1] ++ [some 3]) _ :=
      CommaRun.nest 3 2 3 8 _ _ _ [4, 6] [some 0, some 1] (some 3) (by decide) hinner hright
    obtain ⟨c', h, ht, he, _⟩ := comma_flattened.1 4 2 _ _ _ _ (some 1) hrun
    have hlen : (stateAfter (converterRec 3 (some 8) none false)
      (sequenceBuilt (stateAfter (converterRec 2 (some 6) none false)
        (stateAfter (converterRec 2 (some 4) none false)
          { converter.init threeCommas with allowPattern := false })) 3 [some 0, some 1]
        (converter.init threeCommas).allowPattern)).heap.length = 4 := by decide!
    rw [hlen] at h ht he
    exact ⟨c', h, ht, he⟩
  · have hl := run_eq_of_valueOf (converterRec 4 (some 3) none false)
      (converter.init parenthesisedComma) (some 2) (by decide!)
    have hr := run_eq_of_valueOf (converterRec 4 (some 9) none false)
      (stateAfter (converterRec 4 (some 3) none false) (converter.init parenthesisedComma))
      (some 3) (by decide!)
    obtain ⟨c', h, ht, he⟩ := comma_flattened.2 (converterRec 4)
      (converter.init parenthesisedComma) _ _ 2 3 9 (some 1) 2 (some 3) (by decide)
      (by decide) hl hr
    have hlen : (stateAfter (converterRec 4 (some 9) none false)
      (stateAfter (converterRec 4 (some 3) none false)
        (converter.init parenthesisedComma))).heap.length = 4 := by decide!
    rw [hlen] at h ht he
    exact ⟨c', h, ht, he⟩

end estree

/-! ## C1: range containment along the writes of the converter -/

namespace estree

/-- The children of a node depend on its fields alone. -/
theorem ESTreeNode.children_of_fields {n m : ESTreeNode} (h : n.Fields = m.Fields) :
    n.children = m.children := by
  unfold ESTreeNode.children
  rw [h]

/-- The children after a field is written: those of the value, and children the node
had. -/
theorem ESTreeNode.mem_children_setField {n : ESTreeNode} {name : String} {v : Value}
    {q : Ptr} (h : q ∈ (n.setField name v).children) : q ∈ v.children ∨ q ∈ n.children := by
  unfold ESTreeNode.children ESTreeNode.setField at h
  simp only [List.map_cons, List.flatten_cons, List.mem_append, List.mem_flatten,
    List.mem_map, List.mem_filter] at h
  rcases h with h | ⟨l, ⟨f, ⟨hf, _⟩, rfl⟩, hq⟩
  · exact Or.inl h
  · refine Or.inr ?_
    unfold ESTreeNode.children
    simp only [List.mem_flatten, List.mem_map]
    exact ⟨_, ⟨f, hf, rfl⟩, hq⟩

/-- The children of the value a field holds are children of the node. -/
theorem ESTreeNode.field_children {n : ESTreeNode} {name : String} {q : Ptr}
    (h : q ∈ (n.field name).children) : q ∈ n.children := by
  unfold ESTreeNode.field at h
  cases hl : n.Fields.lookup name with
  | none =>
    rw [hl] at h
    simp [Value.children] at h
  | some v =>
    rw [hl] at h
    simp only [Option.getD_some] at h
    have hm : (name, v) ∈ n.Fields := by
      have := List.lookup_eq_some_iff.mp hl
      obtain ⟨l1, l2, he, _⟩ := this
      rw [he]
      simp
    unfold ESTreeNode.children
    simp only [List.mem_flatten, List.mem_map]
    exact ⟨_, ⟨(name, v), hm, rfl⟩, h⟩

/-- Containment after a write that changes the node `x` alone: `x` encloses the children
it has now, and whatever holds `x` encloses the `Range` it has now. -/
theorem converter.Contained.update {c c' : converter} (x : Ptr) (hc : c.Contained)
    (hlen : c'.heap.length = c.heap.length)
    (hother : ∀ q, q ≠ x → c'.get q = c.get q)
    (hself : x < c.heap.length → ∀ q ∈ (c'.get x).children, c'.holds (c'.get x).Range q)
    (hout : ∀ p, p < c.heap.length → p ≠ x → x ∈ (c.get p).children →
      (c.get p).Range.1 ≤ (c'.get x).Range.1 ∧ (c'.get x).Range.2 ≤ (c.get p).Range.2) :
    c'.Contained := by
  intro p hp q hq
  rw [hlen] at hp
  by_cases hpx : p = x
  · subst hpx
    exact hself hp q hq
  · rw [hother p hpx] at hq ⊢
    obtain ⟨h1, h2, h3⟩ := hc p hp q hq
    unfold converter.holds
    rw [hlen]
    by_cases hqx : q = x
    · subst hqx
      exact ⟨h1, hout p hp hpx hq⟩
    · rw [hother q hqx]
      exact ⟨h1, h2, h3⟩

/-- Containment after the `Range` of the node `x` alone is rewritten. -/
theorem converter.Contained.rerange {c c' : converter} (x : Ptr) (hc : c.Contained)
    (hlen : c'.heap.length = c.heap.length)
    (hother : ∀ q, q ≠ x → c'.get q = c.get q)
    (hfields : (c'.get x).Fields = (c.get x).Fields)
    (hin : ∀ q ∈ (c.get x).children, q ≠ x → c.holds (c'.get x).Range q)
    (hout : ∀ p, p < c.heap.length → p ≠ x → x ∈ (c.get p).children →
      (c.get p).Range.1 ≤ (c'.get x).Range.1 ∧ (c'.get x).Range.2 ≤ (c.get p).Range.2) :
    c'.Contained := by
  refine hc.update x hlen hother ?_ hout
  intro hx q hq
  rw [ESTreeNode.children_of_fields hfields] at hq
  unfold converter.holds
  rw [hlen]
  by_cases hqx : q = x
  · subst hqx
    exact ⟨hx, le_refl _, le_refl _⟩
  · rw [hother q hqx]
    exact hin q hq hqx

/-- Containment after the node `x` alone is widened. -/
theorem converter.Contained.widen {c c' : converter} (x : Ptr) (hc : c.Contained)
    (hlen : c'.heap.length = c.heap.length)
    (hother : ∀ q, q ≠ x → c'.get q = c.get q)
    (hfields : (c'.get x).Fields = (c.get x).Fields)
    (hwide : x < c.heap.length →
      (c'.get x).Range.1 ≤ (c.get x).Range.1 ∧ (c.get x).Range.2 ≤ (c'.get x).Range.2)
    (hout : ∀ p, p < c.heap.length → p ≠ x → x ∈ (c.get p).children →
      (c.get p).Range.1 ≤ (c'.get x).Range.1 ∧ (c'.get x).Range.2 ≤ (c.get p).Range.2) :
    c'.Contained := by
  refine hc.rerange x hlen hother hfields ?_ hout
  intro q hq _
  by_cases hx : x < c.heap.length
  · obtain ⟨h1, h2, h3⟩ := hc x hx q hq
    obtain ⟨w1, w2⟩ := hwide hx
    exact ⟨h1, le_trans w1 h2, le_trans h3 w2⟩
  · rw [c.get_beyond x (not_lt.mp hx)] at hq
    exact absurd hq (List.not_mem_nil q)

/-- Containment after a struct is allocated around children that lie within its
`Range`. -/
theorem converter.Contained.alloc {c c' : converter} (hc : c.Contained)
    (hlen : c'.heap.length = c.heap.length + 1)
    (hold : ∀ q, q < c.heap.length → c'.get q = c.get q)
    (hin : ∀ q ∈ (c'.get c.heap.length).children, c.holds (c'.get c.heap.length).Range q) :
    c'.Contained := by
  intro p hp q hq
  rw [hlen] at hp
  unfold converter.holds
  rw [hlen]
  by_cases hpx : p < c.heap.length
  · rw [hold p hpx] at hq ⊢
    obtain ⟨h1, h2, h3⟩ := hc p hpx q hq
    rw [hold q h1]
    exact ⟨Nat.lt_succ_of_lt h1, h2, h3⟩
  · have hpe : p = c.heap.length := by omega
    subst hpe
    obtain ⟨h1, h2, h3⟩ := hin q hq
    rw [hold q h1]
    exact ⟨Nat.lt_succ_of_lt h1, h2, h3⟩

/-- No allocated node holds a pointer beyond the heap. -/
theorem converter.Contained.fresh {c : converter} (hc : c.Contained) (p x : Ptr)
    (hp : p < c.heap.length) (hx : c.heap.length ≤ x) : x ∉ (c.get p).children := by
  intro h
  exact absurd (hc p hp x h).1 (not_lt.mpr hx)

end estree

namespace estree

/-- The struct `createNode` leaves for a fresh struct literal: its `Range` and fields. -/
theorem converter.create_get (c : converter) (node : ast.NodePtr) (data : ESTreeNode) :
    (((c.new data).2.createNode node (c.new data).1).2.get c.heap.length).Range
        = c.rangeFor node data
    ∧ (((c.new data).2.createNode node (c.new data).1).2.get c.heap.length).Fields
        = data.Fields := by
  have h := converter.createNode_get_self (c.new data).2 node (c.new data).1 (by simp)
  rw [converter.get_new_self] at h
  rw [converter.fst_new] at h ⊢
  rw [h]
  exact ⟨rfl, rfl⟩

/-- The structs allocated before are left as they are by `createNode` on a fresh struct. -/
theorem converter.create_old (c : converter) (node : ast.NodePtr) (data : ESTreeNode)
    (q : Ptr) (hq : q < c.heap.length) :
    ((c.new data).2.createNode node (c.new data).1).2.get q = c.get q := by
  have hne : (c.new data).1 ≠ q := by
    rw [converter.fst_new]
    exact (Nat.ne_of_lt hq).symm
  rw [converter.createNode_get_ne _ _ _ _ hne]
  exact converter.get_new_old c data q hq

theorem converter.create_length (c : converter) (node : ast.NodePtr) (data : ESTreeNode) :
    ((c.new data).2.createNode node (c.new data).1).2.heap.length = c.heap.length + 1 := by
  simp

/-- The children of a struct with one field. -/
theorem ESTreeNode.children_single (t : ESTreeKind) (r : estree.Range) (l : SourceLocation)
    (name : String) (v : Value) :
    ({ Type_ := t, Range := r, Loc := l, Fields := [(name, v)] } : ESTreeNode).children
      = v.children := by
  simp [ESTreeNode.children]

/-- Containment after a fresh struct literal went through `createNode`. -/
theorem converter.Contained.create {c : converter} (hc : c.Contained) (node : ast.NodePtr)
    (data : ESTreeNode) (hin : ∀ q ∈ data.children, c.holds (c.rangeFor node data) q) :
    ((c.new data).2.createNode node (c.new data).1).2.Contained := by
  obtain ⟨hr, hf⟩ := c.create_get node data
  refine hc.alloc (c.create_length node data) (c.create_old node data) ?_
  intro q hq
  rw [ESTreeNode.children_of_fields hf] at hq
  rw [hr]
  exact hin q hq

/-- Containment after a struct went through `createNode` and was widened over `w`. -/
theorem converter.Contained.createWiden {c : converter} (hc : c.Contained)
    (node : ast.NodePtr) (data : ESTreeNode) (w : Ptr) (hw : w < c.heap.length)
    (hin : ∀ q ∈ data.children, q ≠ w → c.holds (c.rangeFor node data) q) :
    (((c.new data).2.createNode node (c.new data).1).2.fixParentLocation
      c.heap.length w).Contained := by
  obtain ⟨hr, hf⟩ := c.create_get node data
  have hlive : c.heap.length < ((c.new data).2.createNode node (c.new data).1).2.heap.length := by
    rw [c.create_length]
    exact Nat.lt_succ_self _
  have hspec := converter.fixParentLocation_spec
    ((c.new data).2.createNode node (c.new data).1).2 c.heap.length w hlive
  have hwold := c.create_old node data w hw
  refine hc.alloc ?_ ?_ ?_
  · rw [converter.fixParentLocation_length, c.create_length]
  · intro q hq
    rw [hspec.2.2.2.2.1 q (Nat.ne_of_lt hq)]
    exact c.create_old node data q hq
  · intro q hq
    rw [ESTreeNode.children_of_fields hspec.2.2.2.1, ESTreeNode.children_of_fields hf] at hq
    rw [hspec.1, hr, hwold]
    by_cases hqw : q = w
    · subst hqw
      exact ⟨hw, min_le_right _ _, le_max_right _ _⟩
    · obtain ⟨h1, h2, h3⟩ := hin q hq hqw
      exact ⟨h1, le_trans (min_le_left _ _) h2, le_trans h3 (le_max_left _ _)⟩

/-- Containment after `convertTypeAnnotation` built its struct. -/
theorem converter.Contained.typeAnnotationNode {c : converter} (hc : c.Contained)
    (inner : Value) (r : Range) (hin : ∀ q ∈ inner.children, c.holds r q) :
    (((c.new { Type_ := ESTreeKind.TSTypeAnnotation
               Fields := [("TypeAnnotation", inner)] }).2.setRange c.heap.length r).setLoc
      c.heap.length (c.getLocFor r)).Contained := by
  have hself := converter.get_new_self c
    { Type_ := ESTreeKind.TSTypeAnnotation, Fields := [("TypeAnnotation", inner)] }
  rw [converter.fst_new] at hself
  refine hc.alloc (by simp) ?_ ?_
  · intro q hq
    have hne : ¬ (c.heap.length = q) := (Nat.ne_of_lt hq).symm
    simp only [converter.get_setLoc, converter.get_setRange, hne, false_and, if_false]
    exact converter.get_new_old c _ q hq
  · intro q hq
    rw [converter.get_setLoc, converter.get_setRange] at hq ⊢
    simp only [converter.length_setRange, converter.length_new, true_and,
      Nat.lt_succ_self, if_true, hself] at hq ⊢
    exact hin q (by simpa [ESTreeNode.children] using hq)

/-- Containment after the struct of the type parameters was built. -/
theorem converter.Contained.typeParametersNode {c : converter} (hc : c.Contained)
    (params : Value) (r : Range) (hin : ∀ q ∈ params.children, c.holds r q) :
    (c.new { Type_ := ESTreeKind.TSTypeParameterDeclaration
             Loc := c.getLocFor r
             Range := r
             Fields := [("Params", params)] }).2.Contained := by
  have hself := converter.get_new_self c
    { Type_ := ESTreeKind.TSTypeParameterDeclaration, Loc := c.getLocFor r, Range := r,
      Fields := [("Params", params)] }
  rw [converter.fst_new] at hself
  refine hc.alloc (by simp) (fun q hq => converter.get_new_old c _ q hq) ?_
  intro q hq
  rw [hself] at hq ⊢
  exact hin q (by simpa [ESTreeNode.children] using hq)

/-- Containment after a child was attached and its parent widened over it. -/
theorem converter.Contained.attachWiden {c : converter} (hc : c.Contained) (id w : Ptr)
    (name : String) (hid : id < c.heap.length) (hw : w < c.heap.length) (hne : id ≠ w)
    (hout : ∀ x, x < c.heap.length → id ∈ (c.get x).children →
      (c.get x).Range.1 ≤ (c.get w).Range.1 ∧ (c.get w).Range.2 ≤ (c.get x).Range.2) :
    ((c.setProperty id name (Value.node w)).fixParentLocation id w).Contained := by
  have hid1 : id < (c.setProperty id name (Value.node w)).heap.length := by simpa using hid
  have hspec := converter.fixParentLocation_spec (c.setProperty id name (Value.node w)) id w hid1
  have hwold : (c.setProperty id name (Value.node w)).get w = c.get w := by
    rw [converter.get_setProperty]
    simp [hne]
  have hidnew : (c.setProperty id name (Value.node w)).get id
      = (c.get id).setField name (Value.node w) := by
    rw [converter.get_setProperty]
    simp [hid]
  have hother : ∀ q, q ≠ id →
      ((c.setProperty id name (Value.node w)).fixParentLocation id w).get q = c.get q := by
    intro q hq
    rw [hspec.2.2.2.2.1 q hq, converter.get_setProperty]
    have : ¬ (id = q) := fun h => hq h.symm
    simp [this]
  have hrange : (((c.setProperty id name (Value.node w)).fixParentLocation id w).get id).Range
      = (min (c.get id).Range.1 (c.get w).Range.1, max (c.get id).Range.2 (c.get w).Range.2) := by
    rw [hspec.1, hwold, converter.range_setProperty]
  refine hc.update id (by simp) hother ?_ ?_
  · intro _ q hq
    rw [ESTreeNode.children_of_fields hspec.2.2.2.1, hidnew] at hq
    unfold converter.holds
    rw [converter.fixParentLocation_length, converter.length_setProperty]
    by_cases hqi : q = id
    · subst hqi
      exact ⟨hid, le_refl _, le_refl _⟩
    · rw [hother q hqi, hrange]
      rcases ESTreeNode.mem_children_setField hq with h | h
      · have hqw : q = w := by simpa [Value.children] using h
        subst hqw
        exact ⟨hw, min_le_right _ _, le_max_right _ _⟩
      · obtain ⟨h1, h2, h3⟩ := hc id hid q h
        exact ⟨h1, le_trans (min_le_left _ _) h2, le_trans h3 (le_max_left _ _)⟩
  · intro p hp hpi hmem
    rw [hrange]
    obtain ⟨_, h2, h3⟩ := hc p hp id hmem
    obtain ⟨o1, o2⟩ := hout p hp hmem
    exact ⟨le_min h2 o1, max_le h3 o2⟩

/-- The struct behind `p` after `setRange` and `setLoc`. -/
theorem converter.get_setRangeLoc (c : converter) (p : Ptr) (r : Range) (l : SourceLocation) :
    (∀ q, q ≠ p → ((c.setRange p r).setLoc p l).get q = c.get q)
    ∧ (((c.setRange p r).setLoc p l).get p).Fields = (c.get p).Fields
    ∧ (p < c.heap.length → (((c.setRange p r).setLoc p l).get p).Range = r) := by
  refine ⟨?_, by simp, ?_⟩
  · intro q hq
    have : ¬ (p = q) := fun h => hq h.symm
    simp only [converter.get_setLoc, converter.get_setRange, this, false_and, if_false]
  · intro hp
    rw [converter.get_setLoc, converter.get_setRange]
    simp [hp]

/-- The struct behind `p` after `setLoc` and `setRange`. -/
theorem converter.get_setLocRange (c : converter) (p : Ptr) (r : Range) (l : SourceLocation) :
    (∀ q, q ≠ p → ((c.setLoc p l).setRange p r).get q = c.get q)
    ∧ (((c.setLoc p l).setRange p r).get p).Fields = (c.get p).Fields
    ∧ (p < c.heap.length → (((c.setLoc p l).setRange p r).get p).Range = r) := by
  refine ⟨?_, by simp, ?_⟩
  · intro q hq
    have : ¬ (p = q) := fun h => hq h.symm
    simp only [converter.get_setRange, converter.get_setLoc, this, false_and, if_false]
  · intro hp
    rw [converter.get_setRange, converter.get_setLoc]
    simp [hp]

/-- Containment after the `Range` of `p` was set to `r`. -/
theorem converter.Contained.setRangeLoc {c : converter} (hc : c.Contained) (p : Ptr)
    (r : Range) (l : SourceLocation)
    (hin : ∀ q ∈ (c.get p).children, q ≠ p → c.holds r q)
    (hout : ∀ x, x < c.heap.length → x ≠ p → p ∈ (c.get x).children →
      (c.get x).Range.1 ≤ r.1 ∧ r.2 ≤ (c.get x).Range.2) :
    ((c.setRange p r).setLoc p l).Contained := by
  obtain ⟨g1, g2, g3⟩ := c.get_setRangeLoc p r l
  refine hc.rerange p (by simp) g1 g2 ?_ ?_
  · intro q hq hqp
    by_cases hp : p < c.heap.length
    · rw [g3 hp]
      exact hin q hq hqp
    · rw [c.get_beyond p (not_lt.mp hp)] at hq
      exact absurd hq (List.not_mem_nil q)
  · intro x hx hxp hmem
    rw [g3 (hc x hx p hmem).1]
    exact hout x hx hxp hmem

/-- Containment after the `Range` of `p` was set to `r`, the location first. -/
theorem converter.Contained.setLocRange {c : converter} (hc : c.Contained) (p : Ptr)
    (r : Range) (l : SourceLocation)
    (hin : ∀ q ∈ (c.get p).children, q ≠ p → c.holds r q)
    (hout : ∀ x, x < c.heap.length → x ≠ p → p ∈ (c.get x).children →
      (c.get x).Range.1 ≤ r.1 ∧ r.2 ≤ (c.get x).Range.2) :
    ((c.setLoc p l).setRange p r).Contained := by
  obtain ⟨g1, g2, g3⟩ := c.get_setLocRange p r l
  refine hc.rerange p (by simp) g1 g2 ?_ ?_
  · intro q hq hqp
    by_cases hp : p < c.heap.length
    · rw [g3 hp]
      exact hin q hq hqp
    · rw [c.get_beyond p (not_lt.mp hp)] at hq
      exact absurd hq (List.not_mem_nil q)
  · intro x hx hxp hmem
    rw [g3 (hc x hx p hmem).1]
    exact hout x hx hxp hmem

/-- Containment after a field was written with nodes that lie within the node. -/
theorem converter.Contained.setProperty {c : converter} (hc : c.Contained) (p : Ptr)
    (name : String) (v : Value) (hin : ∀ q ∈ v.children, c.holds (c.get p).Range q) :
    (c.setProperty p name v).Contained := by
  intro x hx q hq
  rw [converter.length_setProperty] at hx
  unfold converter.holds
  rw [converter.length_setProperty, converter.range_setProperty, converter.range_setProperty]
  rw [converter.get_setProperty] at hq
  split_ifs at hq with h
  · obtain ⟨rfl, _⟩ := h
    rcases ESTreeNode.mem_children_setField hq with h1 | h1
    · exact hin q h1
    · exact hc p hx q h1
  · exact hc x hx q hq

/-- Containment after a link of a chain took the `Expression` of the chain it held. -/
theorem converter.Contained.unwrap {c : converter} (hc : c.Contained) (p child : Ptr)
    (name : String) (hChild : child ∈ (c.get p).children) :
    (c.setProperty p name ((c.get child).field "Expression")).Contained := by
  refine hc.setProperty p name _ ?_
  intro q hq
  have hp : p < c.heap.length := by
    by_contra hcon
    rw [c.get_beyond p (not_lt.mp hcon)] at hChild
    exact absurd hChild (List.not_mem_nil child)
  obtain ⟨h1, h2, h3⟩ := hc p hp child hChild
  obtain ⟨k1, k2, k3⟩ := hc child h1 q (ESTreeNode.field_children hq)
  exact ⟨k1, le_trans h2 k2, le_trans k3 h3⟩

/-- Containment after a write that leaves the heap as it is. -/
theorem converter.Contained.of_heap {c c' : converter} (hc : c.Contained)
    (h : c'.heap = c.heap) : c'.Contained := by
  intro p hp q hq
  have hg : ∀ x, c'.get x = c.get x := fun x => by unfold converter.get; rw [h]
  unfold converter.holds
  rw [hg p] at hq ⊢
  rw [hg q, h]
  rw [h] at hp
  exact hc p hp q hq

/-- Range containment is kept by every write that meets its condition. -/
theorem Nests.contained {c c' : converter} (h : Nests c c') (hc : c.Contained) :
    c'.Contained := by
  cases h with
  | create node data hLoc hTag hChain hin => exact hc.create node data hin
  | createMeta node data hRange hToken hLoc hTag hin =>
    refine hc.create node data ?_
    have hr : c.rangeFor node data = data.Range := by
      unfold converter.rangeFor
      rw [if_neg]
      intro hz
      exact hToken (Prod.ext hz.1 hz.2)
    rw [hr]
    exact hin
  | createWiden node data w hLoc hTag hChain hw hin => exact hc.createWiden node data w hw hin
  | typeAnnotationNode inner r hin => exact hc.typeAnnotationNode inner r hin
  | typeParametersNode params r hin => exact hc.typeParametersNode params r hin
  | attachWiden id w name hWrite hid hw hne hout => exact hc.attachWiden id w name hid hw hne hout
  | setRangeLoc p r hin hout => exact hc.setRangeLoc p r _ hin hout
  | questionToken p e hout =>
    split_ifs with hgt
    · refine hc.setRangeLoc p _ _ ?_ ?_
      · intro q hq _
        have hp : p < c.heap.length := by
          by_contra hcon
          rw [c.get_beyond p (not_lt.mp hcon)] at hq
          exact absurd hq (List.not_mem_nil q)
        obtain ⟨h1, h2, h3⟩ := hc p hp q hq
        exact ⟨h1, h2, le_trans h3 (le_of_lt hgt)⟩
      · intro x hx hxp hmem
        exact ⟨(hc x hx p hmem).2.1, hout x hx hxp hmem⟩
    · exact hc
  | typePredicate annotated inner hInner hin hout =>
    exact hc.setLocRange annotated _ _ hin hout
  | tupleMember member label hLabel hin hout =>
    refine hc.setRangeLoc member _ _ ?_ ?_
    · intro q hq hqm
      have hp : member < c.heap.length := by
        by_contra hcon
        rw [c.get_beyond member (not_lt.mp hcon)] at hq
        exact absurd hq (List.not_mem_nil q)
      obtain ⟨h1, _, h3⟩ := hc member hp q hq
      exact ⟨h1, hin q hq hqm, h3⟩
    · intro x hx hxm hmem
      exact ⟨hout x hx hxm hmem, (hc x hx member hmem).2.2⟩
  | setProperty p name v hWrite hin => exact hc.setProperty p name v hin
  | unwrap p child hLink hChain hChild => exact hc.unwrap p child _ hChild
  | register node result hOmitted =>
    refine hc.of_heap ?_
    unfold converter.registerTSNodeInNodeMap
    cases result with
    | none => rfl
    | some r =>
      simp only []
      cases c.tsNodeToESTreeNodeMap node <;> rfl
  | setAllowPattern allowPattern => exact hc.of_heap rfl

/-- Each such write is a write of the converter, or two of them. -/
theorem Nests.steps {c c' : converter} (h : Nests c c') : Relation.ReflTransGen Step c c' := by
  cases h with
  | create node data hLoc hTag hChain hin =>
    exact Relation.ReflTransGen.single (Step.create c node data hLoc hTag hChain)
  | createMeta node data hRange hToken hLoc hTag hin =>
    exact Relation.ReflTransGen.single (Step.createMeta c node data hRange hToken hLoc hTag)
  | createWiden node data w hLoc hTag hChain hw hin =>
    refine Relation.ReflTransGen.tail
      (Relation.ReflTransGen.single (Step.create c node data hLoc hTag hChain)) ?_
    refine Step.fixParentLocation _ c.heap.length w ?_
    rw [c.create_length]
    exact Nat.lt_succ_of_lt hw
  | typeAnnotationNode inner r hin =>
    exact Relation.ReflTransGen.single (Step.typeAnnotationNode c inner r)
  | typeParametersNode params r hin =>
    exact Relation.ReflTransGen.single (Step.typeParametersNode c params r)
  | attachWiden id w name hWrite hid hw hne hout =>
    refine Relation.ReflTransGen.tail
      (Relation.ReflTransGen.single (Step.setProperty c id name _ hWrite)) ?_
    exact Step.fixParentLocation _ id w (by simpa using hw)
  | setRangeLoc p r hin hout => exact Relation.ReflTransGen.single (Step.setRangeLoc c p r)
  | questionToken p e hout => exact Relation.ReflTransGen.single (Step.questionToken c p e)
  | typePredicate annotated inner hInner hin hout =>
    exact Relation.ReflTransGen.single (Step.typePredicate c annotated inner hInner)
  | tupleMember member label hLabel hin hout =>
    exact Relation.ReflTransGen.single (Step.tupleMember c member label hLabel)
  | setProperty p name v hWrite hin =>
    exact Relation.ReflTransGen.single (Step.setProperty c p name v hWrite)
  | unwrap p child hLink hChain hChild =>
    exact Relation.ReflTransGen.single
      (Step.setProperty c p _ _ (Or.inr ⟨hLink, rfl, child, hChain, rfl⟩))
  | register node result hOmitted =>
    exact Relation.ReflTransGen.single (Step.register c node result hOmitted)
  | setAllowPattern allowPattern =>
    exact Relation.ReflTransGen.single (Step.setAllowPattern c allowPattern)

/-- The converter a conversion starts with holds no node. -/
theorem converter.Contained.init (sourceFile : ast.SourceFile) :
    (converter.init sourceFile).Contained := by
  intro p hp
  exact absurd hp (Nat.not_lt_zero p)

/-- Range containment along a sequence of writes that meet their conditions. -/
theorem Nests.run_contained {c c' : converter} (h : Relation.ReflTransGen Nests c c')
    (hc : c.Contained) : c'.Contained := by
  induction h with
  | refl => exact hc
  | tail _ hstep ih => exact hstep.contained ih

end estree

namespace estree

/-- The struct `convertTypeAnnotation` builds, and the structs it leaves as they are. -/
theorem converter.annotation_get (c : converter) (inner : Value) (r : estree.Range)
    (l : SourceLocation) :
    (((c.new { Type_ := ESTreeKind.TSTypeAnnotation
               Fields := [("TypeAnnotation", inner)] }).2.setRange c.heap.length r).setLoc
        c.heap.length l).heap.length = c.heap.length + 1
    ∧ (∀ q, q < c.heap.length →
        (((c.new { Type_ := ESTreeKind.TSTypeAnnotation
                   Fields := [("TypeAnnotation", inner)] }).2.setRange c.heap.length r).setLoc
            c.heap.length l).get q = c.get q)
    ∧ ((((c.new { Type_ := ESTreeKind.TSTypeAnnotation
                  Fields := [("TypeAnnotation", inner)] }).2.setRange c.heap.length r).setLoc
          c.heap.length l).get c.heap.length).Range = r := by
  have hself := converter.get_new_self c
    { Type_ := ESTreeKind.TSTypeAnnotation, Fields := [("TypeAnnotation", inner)] }
  rw [converter.fst_new] at hself
  refine ⟨by simp, ?_, ?_⟩
  · intro q hq
    have hne : ¬ (c.heap.length = q) := (Nat.ne_of_lt hq).symm
    simp only [converter.get_setLoc, converter.get_setRange, hne, false_and, if_false]
    exact converter.get_new_old c _ q hq
  · simp only [converter.get_setLoc, converter.get_setRange, converter.length_setRange,
      converter.length_new, true_and, Nat.lt_succ_self, if_true]

/-- The nodes of a converted child that may be nil. -/
theorem Value.children_ofOption (o : Option Ptr) : (Value.ofOption o).children = o.toList := by
  cases o <;> rfl

/-- The nodes of a slice of nodes. -/
theorem Value.children_ofPtrs (ps : List Ptr) : (Value.ofPtrs ps).children = ps := by
  unfold Value.ofPtrs Value.children
  simp only []
  induction ps with
  | nil => rfl
  | cons p rest ih => simp [List.filterMap_cons, ih]

/-- The struct of an annotation and the widening of `id` over it are writes that keep
range containment when the converted type lies within the annotation and whatever holds
`id` encloses the annotation. -/
theorem Nests.annotate (c : converter) (inner : Value) (r : estree.Range) (id : Ptr)
    (hid : id < c.heap.length) (hin : ∀ q ∈ inner.children, c.holds r q)
    (hout : ∀ x, x < c.heap.length → id ∈ (c.get x).children →
      (c.get x).Range.1 ≤ r.1 ∧ r.2 ≤ (c.get x).Range.2) :
    Relation.ReflTransGen Nests c
      (((((c.new { Type_ := ESTreeKind.TSTypeAnnotation
                   Fields := [("TypeAnnotation", inner)] }).2.setRange c.heap.length r).setLoc
            c.heap.length (c.getLocFor r)).setProperty id "TypeAnnotation"
          (Value.node c.heap.length)).fixParentLocation id c.heap.length) := by
  have hne : id ≠ c.heap.length := Nat.ne_of_lt hid
  obtain ⟨g1, g2, g3⟩ := converter.annotation_get c inner r (c.getLocFor r)
  refine Relation.ReflTransGen.tail
    (Relation.ReflTransGen.single (Nests.typeAnnotationNode c inner r hin)) ?_
  refine Nests.attachWiden _ id c.heap.length "TypeAnnotation" (Or.inl (by decide)) ?_ ?_
    hne ?_
  · rw [g1]
    exact Nat.lt_succ_of_lt hid
  · rw [g1]
    exact Nat.lt_succ_self _
  · intro x hx hmem
    rw [g1] at hx
    rw [g3]
    by_cases hxl : x < c.heap.length
    · rw [g2 x hxl] at hmem ⊢
      exact hout x hxl hmem
    · have hxe : x = c.heap.length := Nat.le_antisymm (Nat.le_of_lt_succ hx) (not_lt.mp hxl)
      subst hxe
      rw [g3]
      exact ⟨le_refl _, le_refl _⟩

/-- The writes of `convertBindingNameWithTypeAnnotation` after its two conversions, for a
name with a type, are the struct of the annotation and the widening of the name over it:
writes that keep range containment when the converted type lies within the annotation and
whatever holds the name encloses the annotation. -/
theorem convertBindingName_nests (conv : Conv) (c c1 c2 : converter)
    (name tsType : ast.NodePtr) (parent : Option ast.NodePtr) (id : Ptr) (inner : Option Ptr)
    (h1 : conv (some name) none true c = Except.ok (some id, c1))
    (h2 : conv (some tsType) none false c1 = Except.ok (inner, c2))
    (hid : id < c2.heap.length)
    (hin : ∀ q ∈ inner.toList,
      c2.holds ((c1.sourceFile.node tsType).Pos - typeAnnotationOffset c1.sourceFile parent,
        (c1.sourceFile.node tsType).End) q)
    (hout : ∀ x, x < c2.heap.length → id ∈ (c2.get x).children →
      (c2.get x).Range.1
          ≤ (c1.sourceFile.node tsType).Pos - typeAnnotationOffset c1.sourceFile parent
        ∧ (c1.sourceFile.node tsType).End ≤ (c2.get x).Range.2) :
    ∃ c', convertBindingNameWithTypeAnnotation conv (some name) (some tsType) parent c
          = Except.ok (some id, c')
      ∧ Relation.ReflTransGen Nests c2 c' := by
  unfold typeAnnotationOffset at hin hout
  simp only [ convertBindingNameWithTypeAnnotation, convertTypeAnnotation, newNode, bind,
    StateT.bind, get, getThe, MonadStateOf.get, StateT.get, modify, modifyGet,
    MonadStateOf.modifyGet, StateT.modifyGet, pure, StateT.pure, Except.pure, Except.bind, h1, h2,
    converter.fst_new]
  refine ⟨_, rfl, ?_⟩
  refine Nests.annotate c2 (Value.ofOption inner) _ id hid ?_ hout
  intro q hq
  rw [Value.children_ofOption] at hq
  exact hin q hq

/-- Go `convertParameters` on one parameter: the converted parameter gets the converted
decorators as `Decorators`, and nothing else is written. -/
theorem convertParameters_decorators (conv : Conv) (c c1 c2 : converter) (ps : ast.NodeList)
    (param : ast.NodePtr) (p : Ptr) (ds : List Ptr) (hps : ps.Nodes = [param])
    (h1 : conv (some param) none false c = Except.ok (some p, c1))
    (h2 : convertDecorators conv param c1 = Except.ok (ds, c2)) :
    convertParameters conv (some ps) c
      = Except.ok (Value.list [some p],
          c2.setProperty p "Decorators" (Value.ofPtrs ds)) := by
  simp only [convertParameters, hps, Map, bind, StateT.bind, Except.bind, h1, h2, modify,
    modifyGet, MonadStateOf.modifyGet, StateT.modifyGet, pure, StateT.pure, Except.pure]
  rfl

end estree

namespace estree

/-- A field written with nodes keeps range containment exactly when the nodes lie within
the node that gets them. -/
theorem converter.Contained.setProperty_iff {c : converter} (hc : c.Contained) (p : Ptr)
    (name : String) (v : Value) (hp : p < c.heap.length) :
    (c.setProperty p name v).Contained ↔ ∀ q ∈ v.children, c.holds (c.get p).Range q := by
  constructor
  · intro h q hq
    have hmem : q ∈ ((c.setProperty p name v).get p).children := by
      rw [converter.get_setProperty]
      simp only [hp, and_self, if_true]
      unfold ESTreeNode.children ESTreeNode.setField
      simp only [List.map_cons, List.flatten_cons, List.mem_append]
      exact Or.inl hq
    have := h p (by simpa using hp) q hmem
    unfold converter.holds at this ⊢
    rw [converter.length_setProperty, converter.range_setProperty,
      converter.range_setProperty] at this
    exact this
  · exact hc.setProperty p name v

/-- Range containment says that no child escapes its node. -/
theorem converter.escaping_nil_iff (c : converter) : c.escaping = [] ↔ c.Contained := by
  unfold converter.escaping converter.Contained
  simp only [List.flatMap_eq_nil_iff, List.mem_range, List.map_eq_nil_iff,
    List.filter_eq_nil_iff, Bool.not_eq_true, Bool.not_eq_false_eq_eq_true, decide_eq_true_eq,
    Bool.not_eq_eq_eq_not, Bool.not_true, decide_eq_false_iff_not, not_not]

/-- C1, amended. Range containment is an invariant of the writes of the converter that
meet their conditions: along every sequence of such writes from the converter a conversion
starts with, every structural child of every node is allocated and lies within the `Range`
of the node; each such write is a write of the converter, or two of them. A write of
`setProperty` alone keeps containment exactly when the nodes it attaches lie within the
node that gets them. The binding name that `convertBindingNameWithTypeAnnotation` returns
for a name with a type holds the `TSTypeAnnotation` it built and encloses it, the two calls
of `c.converter` taken as they return. Containment is what `escaping` computes: no node has
a child outside of its `Range`. What `convertBindingNameWithTypeAnnotation` writes after its
two conversions keeps containment, when the converted type lies within the annotation and
whatever holds the name encloses the annotation. And `convertParameters` on one parameter
(lines 313-325) keeps containment exactly when the converted decorators lie within the
converted parameter, which those of `@d x` do not. -/
theorem range_containment :
    (∀ (sourceFile : ast.SourceFile) (c : converter),
      Relation.ReflTransGen Nests (converter.init sourceFile) c →
        Reachable sourceFile c
        ∧ ∀ p, p < c.heap.length → ∀ q ∈ (c.get p).children,
            q < c.heap.length
            ∧ (c.get p).Range.1 ≤ (c.get q).Range.1 ∧ (c.get q).Range.2 ≤ (c.get p).Range.2)
    ∧ (∀ c c' : converter, Nests c c' →
        Relation.ReflTransGen Step c c' ∧ (c.Contained → c'.Contained))
    ∧ (∀ (c : converter) (p : Ptr) (name : String) (v : Value), c.Contained →
        p < c.heap.length →
        ((c.setProperty p name v).Contained ↔
          ∀ q ∈ v.children, q < c.heap.length
            ∧ (c.get p).Range.1 ≤ (c.get q).Range.1 ∧ (c.get q).Range.2 ≤ (c.get p).Range.2))
    ∧ (∀ (conv : Conv) (c c1 c2 : converter) (name tsType : ast.NodePtr)
        (parent : Option ast.NodePtr) (id : Ptr) (inner : Option Ptr),
        conv (some name) none true c = Except.ok (some id, c1) →
        id < c1.heap.length →
        conv (some tsType) none false c1 = Except.ok (inner, c2) →
        c1.heap.length ≤ c2.heap.length →
        ∃ c', convertBindingNameWithTypeAnnotation conv (some name) (some tsType) parent c
              = Except.ok (some id, c')
          ∧ (c'.get id).field "TypeAnnotation" = Value.node c2.heap.length
          ∧ (c'.get c2.heap.length).Type_ = ESTreeKind.TSTypeAnnotation
          ∧ (c'.get c2.heap.length).field "TypeAnnotation" = Value.ofOption inner
          ∧ (c'.get id).Range.1 ≤ (c'.get c2.heap.length).Range.1
          ∧ (c'.get c2.heap.length).Range.2 ≤ (c'.get id).Range.2)
    ∧ (∀ c : converter, c.escaping = [] ↔ c.Contained)
    ∧ (∀ (conv : Conv) (c c1 c2 : converter) (name tsType : ast.NodePtr)
        (parent : Option ast.NodePtr) (id : Ptr) (inner : Option Ptr),
        conv (some name) none true c = Except.ok (some id, c1) →
        conv (some tsType) none false c1 = Except.ok (inner, c2) →
        id < c2.heap.length →
        (∀ q ∈ inner.toList,
          c2.holds ((c1.sourceFile.node tsType).Pos - typeAnnotationOffset c1.sourceFile parent,
            (c1.sourceFile.node tsType).End) q) →
        (∀ x, x < c2.heap.length → id ∈ (c2.get x).children →
          (c2.get x).Range.1
              ≤ (c1.sourceFile.node tsType).Pos - typeAnnotationOffset c1.sourceFile parent
            ∧ (c1.sourceFile.node tsType).End ≤ (c2.get x).Range.2) →
        c2.Contained →
        ∃ c', convertBindingNameWithTypeAnnotation conv (some name) (some tsType) parent c
              = Except.ok (some id, c')
          ∧ Relation.ReflTransGen Nests c2 c' ∧ c'.Contained)
    ∧ (∀ (conv : Conv) (c c1 c2 : converter) (ps : ast.NodeList) (param : ast.NodePtr)
        (p : Ptr) (ds : List Ptr), ps.Nodes = [param] →
        conv (some param) none false c = Except.ok (some p, c1) →
        convertDecorators conv param c1 = Except.ok (ds, c2) →
        c2.Contained → p < c2.heap.length →
        ∃ c', convertParameters conv (some ps) c = Except.ok (Value.list [some p], c')
          ∧ (c'.Contained ↔
              ∀ q ∈ ds, q < c2.heap.length
                ∧ (c2.get p).Range.1 ≤ (c2.get q).Range.1
                ∧ (c2.get q).Range.2 ≤ (c2.get p).Range.2)) := by
  refine ⟨?_, ?_, ?_, ?_, converter.escaping_nil_iff, ?_, ?_⟩
  · intro sourceFile c h
    refine ⟨?_, Nests.run_contained h (converter.Contained.init sourceFile)⟩
    unfold Reachable
    induction h with
    | refl => exact Relation.ReflTransGen.refl
    | tail _ hstep ih => exact Relation.ReflTransGen.trans ih hstep.steps
  · intro c c' h
    exact ⟨h.steps, h.contained⟩
  · intro c p name v hc hp
    exact hc.setProperty_iff p name v hp
  · intro conv c c1 c2 name tsType parent id inner h1 hid h2 hmono
    exact convertBindingName_enclosed conv c c1 c2 name tsType parent id inner h1 hid h2 hmono
  · intro conv c c1 c2 name tsType parent id inner h1 h2 hid hin hout hc
    obtain ⟨c', hrun, hnests⟩ :=
      convertBindingName_nests conv c c1 c2 name tsType parent id inner h1 h2 hid hin hout
    exact ⟨c', hrun, hnests, Nests.run_contained hnests hc⟩
  · intro conv c c1 c2 ps param p ds hps h1 h2 hc hp
    refine ⟨_, convertParameters_decorators conv c c1 c2 ps param p ds hps h1 h2, ?_⟩
    rw [hc.setProperty_iff p "Decorators" (Value.ofPtrs ds) hp, Value.children_ofPtrs]
    rfl

/-- C1 on the parameter `x: any` of `function f(x: any) {}`. The writes that
`convertBindingNameWithTypeAnnotation` makes to the converted nodes are the `Identifier`
built for `x`, the `TSAnyKeyword` built for `any`, the `TSTypeAnnotation` around it and
the widening of `x` over it; they meet their conditions, and they leave the heap the
method leaves: `x` at `[11, 17]` holds its annotation at `[12, 17]`, which holds the type
at `[14, 17]`. In the tree of seven nodes that the conversion of the file returns no child
lies outside of its node. -/
theorem range_containment_witness :
    (∃ c, Relation.ReflTransGen Nests (converter.init functionWithTypedParameter) c
      ∧ c.heap = (stateAfter
          ( convertBindingNameWithTypeAnnotation (converterRec 1) (some 4) (some 5) (some 3))
          (converter.init functionWithTypedParameter)).heap
      ∧ ((c.get 0).children, (c.get 0).Range) = ([2], (11, 17))
      ∧ ((c.get 2).children, (c.get 2).Range) = ([1], (12, 17))
      ∧ ((c.get 1).children, (c.get 1).Range) = ([], (14, 17))
      ∧ ∀ p, p < c.heap.length → ∀ q ∈ (c.get p).children,
          q < c.heap.length
          ∧ (c.get p).Range.1 ≤ (c.get q).Range.1 ∧ (c.get q).Range.2 ≤ (c.get p).Range.2)
    ∧ (∃ c', convertBindingNameWithTypeAnnotation (converterRec 1) (some 4) (some 5) (some 3)
          (converter.init functionWithTypedParameter) = Except.ok (some 0, c')
      ∧ (c'.get 0).field "TypeAnnotation" = Value.node 2
      ∧ (c'.get 2).Type_ = ESTreeKind.TSTypeAnnotation
      ∧ (c'.get 2).field "TypeAnnotation" = Value.node 1
      ∧ (c'.get 0).Range.1 ≤ (c'.get 2).Range.1
      ∧ (c'.get 2).Range.2 ≤ (c'.get 0).Range.2)
    ∧ observe (ConvertSourceFileToESTree 6 functionWithTypedParameter)
        (fun p c => (p, c.heap.length, c.escaping, decide c.Contained))
      = some (some 6, 7, [], true) := by
  have m1 : Nests (converter.init functionWithTypedParameter) typedParameterName :=
    Nests.create (converter.init functionWithTypedParameter) 4
      { Type_ := ESTreeKind.Identifier
        Fields := [("Decorators", Value.list []), ("Name", Value.str "x")] }
      rfl rfl (fun h => absurd h (by decide!)) (by decide!)
  have m2 : Nests typedParameterName typedParameterType :=
    Nests.create typedParameterName 5 { Type_ := ESTreeKind.TSAnyKeyword }
      rfl rfl (fun h => absurd h (by decide!)) (by decide!)
  have m3 : Nests typedParameterType typedParameterAnnotated :=
    Nests.typeAnnotationNode typedParameterType (Value.node 1) (12, 17) (by decide!)
  have m4 : Nests typedParameterAnnotated typedParameterWidened :=
    Nests.attachWiden typedParameterAnnotated 0 2 "TypeAnnotation" (Or.inl (by decide!))
      (by decide!) (by decide!) (by decide!) (by decide!)
  have run : Relation.ReflTransGen Nests (converter.init functionWithTypedParameter)
      typedParameterWidened :=
    Relation.ReflTransGen.tail (Relation.ReflTransGen.tail
      (Relation.ReflTransGen.tail (Relation.ReflTransGen.single m1) m2) m3) m4
  exact ⟨⟨typedParameterWidened, run, by decide!, by decide!, by decide!, by decide!,
      (range_containment.1 functionWithTypedParameter typedParameterWidened run).2⟩,
    range_containment.2.2.2.1 (converterRec 1) (converter.init functionWithTypedParameter)
      (stateAfter (converterRec 1 (some 4) none true)
        (converter.init functionWithTypedParameter))
      (stateAfter (converterRec 1 (some 5) none false)
        (stateAfter (converterRec 1 (some 4) none true)
          (converter.init functionWithTypedParameter)))
      4 5 (some 3) 0 (some 1) rfl (by decide) rfl (by decide), by decide!⟩

end estree
